import Mathlib

/-!
# EVEmu inventory items

A shallow embedding of `src/server/inventory/InventoryItem.cpp`: the item
entity, its reference counted lifetime, the containment maps, the mutators
(move, split, merge, quantity, owner, flag, singleton) and recursive deletion.

Conventions of the embedding.

* An `InventoryItem *` is a natural number, the address of the instance; the
  address `0` is the null pointer.  The world keeps the live instances in a
  heap.  An operation yields `none` when the C++ code would touch an instance
  that is not live (a null or dangling pointer) or when the recursion budget
  `fuel` is exhausted.
* A `std::map<uint32, T>` is a list of key/value pairs; `mapInsert` keeps the
  keys in increasing order the way the C++ container does.
* `uint32` quantities are naturals below `2 ^ 32`; `int32` values are integers
  and every place where the C++ code converts between the two is written with
  `toInt32` or `toUint32`.
-/

namespace EVEmu

/-! ## `std::map<uint32, T>` -/

/-- A map keyed by `uint32`, as the list of its entries. -/
abbrev AMap (α : Type) := List (Nat × α)

/-- The value stored under `k`, as by `std::map::find`. -/
def mapFind {α : Type} (k : Nat) : AMap α → Option α
  | [] => none
  | (k', v) :: t => if k' = k then some v else mapFind k t

/-- The assignment `m[k] = v`: replaces the entry under `k` or inserts it in key order. -/
def mapInsert {α : Type} (k : Nat) (v : α) : AMap α → AMap α
  | [] => [(k, v)]
  | (k', v') :: t =>
    if k < k' then (k, v) :: (k', v') :: t
    else if k = k' then (k, v) :: t
    else (k', v') :: mapInsert k v t

/-- Removal of the entry under `k`, as by `std::map::erase`. -/
def mapErase {α : Type} (k : Nat) : AMap α → AMap α
  | [] => []
  | (k', v) :: t => if k' = k then mapErase k t else (k', v) :: mapErase k t

/-- The representation invariant of `std::map`: keys strictly increasing. -/
def mapSorted {α : Type} (m : AMap α) : Prop :=
  (m.map Prod.fst).Pairwise (fun a b => a < b)

/-- The key of the first node of the map (`begin()`), `none` when the map is empty. -/
def mapFirst {α : Type} (m : AMap α) : Option Nat :=
  m.head?.map Prod.fst

/-- The key of the node after the node of key `k` in the order of the map (`++` on an
iterator), `none` at `end()`. -/
def mapNext {α : Type} (k : Nat) (m : AMap α) : Option Nat :=
  (m.find? (fun e => decide (k < e.1))).map Prod.fst

/-! ## Machine integers -/

/-- Conversion of an integer to `int32` (two's complement wrap-around). -/
def toInt32 (x : Int) : Int := (x + 2 ^ 31) % 2 ^ 32 - 2 ^ 31

/-- Conversion of an integer to `uint32` (reduction modulo `2 ^ 32`). -/
def toUint32 (x : Int) : Nat := (x % 2 ^ 32).toNat

/-! ## Data model -/

/-- A point in space (`GPoint`).
Modelled from the spec: the class `GPoint` is declared outside this file; the
spec calls it a 3-D coordinate.  Coordinates are integers here, floating point
is not modelled. -/
structure GPoint where
  x : Int
  y : Int
  z : Int
deriving DecidableEq, Repr

/-- The descriptor `ItemData`. -/
structure ItemData where
  name : String
  typeID : Nat
  ownerID : Nat
  locationID : Nat
  flag : Nat
  contraband : Bool
  singleton : Bool
  quantity : Nat
  position : GPoint
  customInfo : String
deriving DecidableEq, Repr

/-- The constructor `ItemData(typeID, ownerID, locationID, flag, quantity, customInfo, contraband)`
for a stack; `customInfo` and `contraband` take the values the callers in this file leave to the
declaration. -/
def ItemData.stack (typeID ownerID locationID flag quantity : Nat) : ItemData :=
  { name := "", typeID := typeID, ownerID := ownerID, locationID := locationID, flag := flag,
    contraband := false, singleton := false, quantity := quantity,
    position := ⟨0, 0, 0⟩, customInfo := "" }

/-- The descriptor `BlueprintData`. -/
structure BlueprintData where
  copy : Bool
  materialLevel : Nat
  productivityLevel : Nat
  licensedProductionRunsRemaining : Int
deriving DecidableEq, Repr

/-- What the type catalog knows about a type.
Modelled from the spec: the class `Type` is declared outside this file; only
its category and name are used here. -/
structure TypeInfo where
  categoryID : Nat
  name : String
deriving DecidableEq, Repr

/-- The category constant `EVEDB::invCategories::Blueprint`.
Modelled from the spec: the constant is declared outside this file; only its
identity matters. -/
def invCategories_Blueprint : Nat := 9

/-- The default `flag` argument of `Move`.
Modelled from the spec: default arguments are given in the class declaration,
which is outside this file. -/
def flagAutoFit : Nat := 0

/-- The default `notify` argument of the mutators.
Modelled from the spec: default arguments are given in the class declaration,
which is outside this file; the spec has `Split` call `Move` purely to produce
a notification, so the default is `true`. -/
def defaultNotify : Bool := true

/-- The default `BlueprintData` used by `InventoryItem::Spawn`.
Modelled from the spec: the default constructor arguments are given in the
class declaration, which is outside this file. -/
def BlueprintData.default : BlueprintData :=
  { copy := false, materialLevel := 0, productivityLevel := 0,
    licensedProductionRunsRemaining := -1 }

/-- One live instance of `InventoryItem`; `bp` holds the additional members of a
`BlueprintItem` and is `none` for the generic entity. -/
structure InventoryItem where
  m_refCount : Nat
  m_itemID : Nat
  m_itemName : String
  m_type : Nat
  m_ownerID : Nat
  m_locationID : Nat
  m_flag : Nat
  m_contraband : Bool
  m_singleton : Bool
  m_quantity : Nat
  m_position : GPoint
  m_customInfo : String
  m_contents : AMap Nat
  m_contentsLoaded : Bool
  bp : Option BlueprintData
deriving DecidableEq, Repr

/-- The map of changed fields handed to `SendItemChange`, one slot for each key
the code uses (`ixOwnerID`, `ixLocationID`, `ixFlag`, `ixQuantity`, `ixSingleton`). -/
structure Changes where
  ixOwnerID : Option Nat
  ixLocationID : Option Nat
  ixFlag : Option Nat
  ixQuantity : Option Nat
  ixSingleton : Option Nat
deriving DecidableEq, Repr

/-- The empty map of changes. -/
def Changes.empty : Changes := ⟨none, none, none, none, none⟩

/-- The row built by `GetEntityRow` (the fields taken from the item itself). -/
structure EntityRow where
  itemID : Nat
  typeID : Nat
  ownerID : Nat
  locationID : Nat
  flag : Nat
  contraband : Bool
  singleton : Bool
  quantity : Nat
  customInfo : String
deriving DecidableEq, Repr

/-- An `OnItemChange` notification delivered to a client. -/
structure Notification where
  toID : Nat
  itemRow : EntityRow
  changes : Changes
deriving DecidableEq, Repr

/-- The state the item code runs in: the heap of live instances, the item
factory with its cache and type catalog, the item database, the clients that
are online and the notifications sent so far. -/
structure World where
  /-- live instances by address -/
  heap : AMap InventoryItem
  /-- every address at or above this one has not been handed out yet -/
  nextAddr : Nat
  /-- the cache `ItemFactory::m_items`: item id to instance -/
  m_items : AMap Nat
  /-- the type catalog behind `ItemFactory::GetType` -/
  types : AMap TypeInfo
  /-- the item rows of the database -/
  rows : AMap ItemData
  /-- the blueprint rows of the database -/
  bpRows : AMap BlueprintData
  /-- the persisted attributes, by item id -/
  attrRows : AMap (AMap Int)
  /-- the id the database gives to the next inserted row -/
  nextItemID : Nat
  /-- whether an insert into the database succeeds -/
  insertOk : Bool
  /-- the items whose `attributes.Load()` fails -/
  attrLoadFails : List Nat
  /-- the items whose `GetItemContents` query fails -/
  contentsQueryFails : List Nat
  /-- the characters `entity_list.FindCharacter` finds -/
  online : List Nat
  /-- the notifications sent, oldest first -/
  sent : List Notification
  /-- the items whose children were asked of the database (`GetItemContents`), oldest first -/
  fetched : List Nat
deriving DecidableEq, Repr

/-- The instance at address `p`, if it is live. -/
def World.get (w : World) (p : Nat) : Option InventoryItem :=
  if 0 < p ∧ p < w.nextAddr then mapFind p w.heap else none

/-- Overwrites the instance at address `p`. -/
def World.set (w : World) (p : Nat) (it : InventoryItem) : World :=
  { w with heap := mapInsert p it w.heap }

/-- Frees the instance at address `p` (`delete this`). -/
def World.free (w : World) (p : Nat) : World :=
  { w with heap := mapErase p w.heap }

/-- Allocates a new instance (`new InventoryItem(...)`) at an unused address. -/
def World.alloc (w : World) (it : InventoryItem) : Nat × World :=
  (max w.nextAddr 1, { w with heap := mapInsert (max w.nextAddr 1) it w.heap,
                              nextAddr := max w.nextAddr 1 + 1 })

/-! ## Reference counting -/

/-- The method `InventoryItem::Ref`: the new reference, or null when the instance
has no references.
Modelled from the spec: the declaration of the member `m_refCount` is outside this file; the
counter is the 16-bit unsigned integer of the header, so `m_refCount++` wraps around from
65535 to 0. -/
def InventoryItem.Ref (this : Nat) (w : World) : Option (Nat × World) :=
  if this = 0 then some (0, w)
  else
    match w.get this with
    | none => none
    | some it =>
      if it.m_refCount < 1 then some (0, w)
      else some (this, w.set this { it with m_refCount := (it.m_refCount + 1) % 2 ^ 16 })

/-- The method `InventoryItem::Release`, with the destructor `~InventoryItem`
that runs when the count reaches zero: it releases every entry of the
containment map and the instance is freed. -/
def InventoryItem.Release : Nat → Nat → World → Option World
  | fuel, this, w =>
    if this = 0 then some w
    else
      match w.get this with
      | none => none
      | some it =>
        if it.m_refCount < 1 then some w
        else if it.m_refCount - 1 = 0 then
          match fuel with
          | 0 => none
          | fuel + 1 =>
            (it.m_contents.foldlM (fun acc e => InventoryItem.Release fuel e.2 acc)
              (w.set this { it with m_refCount := it.m_refCount - 1 })).map
              (fun w2 => w2.free this)
        else some (w.set this { it with m_refCount := it.m_refCount - 1 })

/-! ## The database and the notification sink -/

/-- The query `ItemDB::SaveItem`.
Modelled from the spec: the database class is outside this file; the spec
calls this "update row", so a row that does not exist is not created. -/
def ItemDB.SaveItem (id : Nat) (d : ItemData) (w : World) : World :=
  match mapFind id w.rows with
  | some _ => { w with rows := mapInsert id d w.rows }
  | none => w

/-- The query `ItemDB::SaveBlueprint`.
Modelled from the spec: the database class is outside this file; an update of
the blueprint row keyed by the item id. -/
def ItemDB.SaveBlueprint (id : Nat) (d : BlueprintData) (w : World) : World :=
  match mapFind id w.bpRows with
  | some _ => { w with bpRows := mapInsert id d w.bpRows }
  | none => w

/-- The descriptor that `Save` builds from the members of the item. -/
def InventoryItem.toData (it : InventoryItem) : ItemData :=
  { name := it.m_itemName, typeID := it.m_type, ownerID := it.m_ownerID,
    locationID := it.m_locationID, flag := it.m_flag, contraband := it.m_contraband,
    singleton := it.m_singleton, quantity := it.m_quantity, position := it.m_position,
    customInfo := it.m_customInfo }

/-- The method `InventoryItem::Save` with the override `BlueprintItem::Save`.
The attribute values are kept by the attribute manager, which is outside this
file, so `attributes.Save()` changes nothing that is modelled here. -/
def InventoryItem.Save : Nat → Nat → Bool → Bool → World → Option World
  | fuel, this, recursive, saveAttributes, w =>
    match w.get this with
    | none => none
    | some it =>
      let w1 := ItemDB.SaveItem it.m_itemID it.toData w
      let w2 : Option World :=
        if recursive then
          match fuel with
          | 0 => none
          | fuel + 1 =>
            it.m_contents.foldlM (fun acc e => InventoryItem.Save fuel e.2 true saveAttributes acc) w1
        else some w1
      match it.bp with
      | none => w2
      | some b => w2.map (fun w3 => ItemDB.SaveBlueprint it.m_itemID b w3)

/-- The method `InventoryItem::GetEntityRow`. -/
def InventoryItem.GetEntityRow (it : InventoryItem) : EntityRow :=
  { itemID := it.m_itemID, typeID := it.m_type, ownerID := it.m_ownerID,
    locationID := it.m_locationID, flag := it.m_flag, contraband := it.m_contraband,
    singleton := it.m_singleton, quantity := it.m_quantity, customInfo := it.m_customInfo }

/-- The method `InventoryItem::SendItemChange`: when the addressee is online the
notification is sent and the map of changes is consumed (returned empty). -/
def InventoryItem.SendItemChange (this toID : Nat) (changes : Changes) (w : World) :
    Option (Changes × World) :=
  if toID ∈ w.online then
    match w.get this with
    | none => none
    | some it =>
      some (Changes.empty,
        { w with sent := w.sent ++ [{ toID := toID, itemRow := it.GetEntityRow, changes := changes }] })
  else some (changes, w)

/-! ## The item factory -/

/-- The method `ItemFactory::_GetIfContentsLoaded`.
Modelled from the spec: the factory is outside this file; the spec has the
cache hand out a reference to the resident instance, here only when its
contents are loaded. -/
def ItemFactory._GetIfContentsLoaded (itemID : Nat) (w : World) : Option (Nat × World) :=
  match mapFind itemID w.m_items with
  | none => some (0, w)
  | some p =>
    match w.get p with
    | none => none
    | some it => if it.m_contentsLoaded then InventoryItem.Ref p w else some (0, w)

/-! ## Containment -/

/-- The method `InventoryItem::AddContainedItem`. -/
def InventoryItem.AddContainedItem (this it : Nat) (w : World) : Option World :=
  match w.get this, w.get it with
  | some c, some i =>
    match mapFind i.m_itemID c.m_contents with
    | none =>
      match InventoryItem.Ref it w with
      | none => none
      | some (r, w1) =>
        match w1.get this with
        | none => none
        | some c1 => some (w1.set this { c1 with m_contents := mapInsert i.m_itemID r c1.m_contents })
    | some _ => some w
  | _, _ => none

/-- The method `InventoryItem::RemoveContainedItem`. -/
def InventoryItem.RemoveContainedItem (fuel this it : Nat) (w : World) : Option World :=
  match w.get this, w.get it with
  | some c, some i =>
    match mapFind i.m_itemID c.m_contents with
    | none => some w
    | some old_inst =>
      match InventoryItem.Release fuel old_inst w with
      | none => none
      | some w1 =>
        match w1.get this with
        | none => none
        | some c1 => some (w1.set this { c1 with m_contents := mapErase i.m_itemID c1.m_contents })
  | _, _ => none

/-! ## Mutators -/

/-- The method `InventoryItem::Rename`. -/
def InventoryItem.Rename (this : Nat) (to_ : String) (w : World) : Option World :=
  match w.get this with
  | none => none
  | some it => InventoryItem.Save 0 this false false (w.set this { it with m_itemName := to_ })

/-- The method `InventoryItem::Move`. -/
def InventoryItem.Move (fuel this location new_flag : Nat) (notify : Bool) (w : World) :
    Option World :=
  match w.get this with
  | none => none
  | some me =>
    -- old_location = me.m_locationID, old_flag = me.m_flag
    if location = me.m_locationID ∧ new_flag = me.m_flag then some w
    else
      ((ItemFactory._GetIfContentsLoaded me.m_locationID w).bind fun old =>
        if old.1 ≠ 0 then
          (InventoryItem.RemoveContainedItem fuel old.1 this old.2).bind
            (InventoryItem.Release fuel old.1)
        else some old.2).bind fun w2 =>
      ((ItemFactory._GetIfContentsLoaded location w2).bind fun new =>
        if new.1 ≠ 0 then
          (InventoryItem.AddContainedItem new.1 this new.2).bind
            (InventoryItem.Release fuel new.1)
        else some new.2).bind fun w4 =>
      (w4.get this).bind fun me4 =>
      (InventoryItem.Save 0 this false false
        (w4.set this { me4 with m_locationID := location, m_flag := new_flag })).bind fun w6 =>
      if notify then
        (InventoryItem.SendItemChange this me4.m_ownerID
          { Changes.empty with
            ixLocationID := some me.m_locationID,
            ixFlag := if new_flag ≠ me.m_flag then some me.m_flag else none } w6).map Prod.snd
      else some w6

/-- The method `InventoryItem::MoveInto`. -/
def InventoryItem.MoveInto (fuel this new_home new_flag : Nat) (notify : Bool) (w : World) :
    Option World :=
  match w.get new_home with
  | none => none
  | some h => InventoryItem.Move fuel this h.m_itemID new_flag notify w

/-- The method `InventoryItem::ChangeFlag`. -/
def InventoryItem.ChangeFlag (this new_flag : Nat) (notify : Bool) (w : World) : Option World :=
  match w.get this with
  | none => none
  | some me =>
    if new_flag = me.m_flag then some w
    else
      (InventoryItem.Save 0 this false false
        (w.set this { me with m_flag := new_flag })).bind fun w2 =>
      if notify then
        (InventoryItem.SendItemChange this me.m_ownerID
          { Changes.empty with ixFlag := some me.m_flag } w2).map Prod.snd
      else some w2

/-- The method `InventoryItem::SetQuantity`. -/
def InventoryItem.SetQuantity (this qty_new : Nat) (notify : Bool) (w : World) :
    Option (Bool × World) :=
  match w.get this with
  | none => none
  | some me =>
    if me.m_singleton then some (false, w)
    else
      (InventoryItem.Save 0 this false false
        (w.set this { me with m_quantity := qty_new })).bind fun w2 =>
      if notify then
        (InventoryItem.SendItemChange this me.m_ownerID
          { Changes.empty with ixQuantity := some me.m_quantity } w2).map
          (fun r => (true, r.2))
      else some (true, w2)

/-- The method `InventoryItem::AlterQuantity`; `qty_change` is an `int32`. -/
def InventoryItem.AlterQuantity (this : Nat) (qty_change : Int) (notify : Bool) (w : World) :
    Option (Bool × World) :=
  match w.get this with
  | none => none
  | some me =>
    if qty_change = 0 then some (true, w)
    else if toInt32 ((me.m_quantity : Int) + qty_change) < 0 then some (false, w)
    else
      InventoryItem.SetQuantity this (toUint32 (toInt32 ((me.m_quantity : Int) + qty_change)))
        notify w

/-- The method `InventoryItem::ChangeSingleton`. -/
def InventoryItem.ChangeSingleton (this : Nat) (new_singleton notify : Bool) (w : World) :
    Option (Bool × World) :=
  match w.get this with
  | none => none
  | some me =>
    if new_singleton = me.m_singleton then some (true, w)
    else
      (InventoryItem.Save 0 this false false
        (w.set this { me with m_singleton := new_singleton })).bind fun w2 =>
      if notify then
        (InventoryItem.SendItemChange this me.m_ownerID
          { Changes.empty with ixSingleton := some (if me.m_singleton then 1 else 0) } w2).map
          (fun r => (true, r.2))
      else some (true, w2)

/-- The method `InventoryItem::ChangeOwner`. -/
def InventoryItem.ChangeOwner (this new_owner : Nat) (notify : Bool) (w : World) :
    Option World :=
  match w.get this with
  | none => none
  | some me =>
    if new_owner = me.m_ownerID then some w
    else
      (InventoryItem.Save 0 this false false
        (w.set this { me with m_ownerID := new_owner })).bind fun w2 =>
      if notify then
        (InventoryItem.SendItemChange this new_owner
          { Changes.empty with ixOwnerID := some me.m_ownerID } w2).bind fun r =>
        (InventoryItem.SendItemChange this me.m_ownerID
          { r.1 with ixOwnerID := some me.m_ownerID } r.2).map Prod.snd
      else some w2

/-- The method `InventoryItem::SetCustomInfo`; `ci` is `none` for a null pointer. -/
def InventoryItem.SetCustomInfo (this : Nat) (ci : Option String) (w : World) : Option World :=
  match w.get this with
  | none => none
  | some it =>
    InventoryItem.Save 0 this false false
      (w.set this { it with m_customInfo := ci.getD "" })

/-- The method `InventoryItem::Relocate`. -/
def InventoryItem.Relocate (this : Nat) (pos : GPoint) (w : World) : Option World :=
  match w.get this with
  | none => none
  | some it =>
    if it.m_position = pos then some w
    else InventoryItem.Save 0 this false false (w.set this { it with m_position := pos })

/-! ## Database queries and type catalog -/

/-- The query `ItemDB::GetItem`.
Modelled from the spec: the database class is outside this file; fetches the
full row keyed by the item id. -/
def ItemDB.GetItem (itemID : Nat) (w : World) : Option ItemData :=
  mapFind itemID w.rows

/-- The query `ItemDB::GetBlueprint`.
Modelled from the spec: the database class is outside this file; fetches the
blueprint row keyed by the item id. -/
def ItemDB.GetBlueprint (blueprintID : Nat) (w : World) : Option BlueprintData :=
  mapFind blueprintID w.bpRows

/-- The query `ItemDB::NewItem`.
Modelled from the spec: the database class is outside this file; the spec has
it return a freshly allocated non-zero id or the failure sentinel `0`. -/
def ItemDB.NewItem (data : ItemData) (w : World) : Nat × World :=
  if w.insertOk = true ∧ w.nextItemID ≠ 0 then
    (w.nextItemID,
      { w with rows := mapInsert w.nextItemID data w.rows, nextItemID := w.nextItemID + 1 })
  else (0, w)

/-- The query `ItemDB::NewBlueprint`.
Modelled from the spec: the database class is outside this file; inserts the
blueprint row keyed by the item id. -/
def ItemDB.NewBlueprint (blueprintID : Nat) (data : BlueprintData) (w : World) : Bool × World :=
  if w.insertOk then (true, { w with bpRows := mapInsert blueprintID data w.bpRows })
  else (false, w)

/-- The query `ItemDB::GetItemContents`.
Modelled from the spec: the database class is outside this file; fetches the
list of direct child ids, the rows located in the item; the read is recorded in `fetched`. -/
def ItemDB.GetItemContents (itemID : Nat) (w : World) : Option (List Nat) × World :=
  (if itemID ∈ w.contentsQueryFails then none
    else some ((w.rows.filter (fun e => decide (e.2.locationID = itemID))).map Prod.fst),
   { w with fetched := w.fetched ++ [itemID] })

/-- The query `ItemDB::DeleteItem`.
Modelled from the spec: the database class is outside this file; deletes the row. -/
def ItemDB.DeleteItem (itemID : Nat) (w : World) : World :=
  { w with rows := mapErase itemID w.rows }

/-- The query `ItemDB::DeleteBlueprint`.
Modelled from the spec: the database class is outside this file; deletes the
blueprint row. -/
def ItemDB.DeleteBlueprint (blueprintID : Nat) (w : World) : World :=
  { w with bpRows := mapErase blueprintID w.bpRows }

/-- The lookup `ItemFactory::GetType`.
Modelled from the spec: the factory is outside this file; resolves a type
identifier to its metadata, a miss gives nothing. -/
def ItemFactory.GetType (typeID : Nat) (w : World) : Option TypeInfo :=
  mapFind typeID w.types

/-- The lookup `ItemFactory::GetBlueprintType`.
Modelled from the spec: the factory is outside this file; the type metadata
when the type is of the blueprint category. -/
def ItemFactory.GetBlueprintType (typeID : Nat) (w : World) : Option TypeInfo :=
  match mapFind typeID w.types with
  | none => none
  | some t => if t.categoryID = invCategories_Blueprint then some t else none

/-! ## Construction and loading -/

/-- The constructors `InventoryItem::InventoryItem` and `BlueprintItem::BlueprintItem`. -/
def InventoryItem.new (itemID : Nat) (data : ItemData) (bpData : Option BlueprintData) :
    InventoryItem :=
  { m_refCount := 1, m_itemID := itemID, m_itemName := data.name, m_type := data.typeID,
    m_ownerID := data.ownerID, m_locationID := data.locationID, m_flag := data.flag,
    m_contraband := data.contraband, m_singleton := data.singleton,
    m_quantity := data.quantity, m_position := data.position, m_customInfo := data.customInfo,
    m_contents := [], m_contentsLoaded := false, bp := bpData }

/-- The static `BlueprintItem::_Load(factory, blueprintID, bpType, data)` with the
overload taking `bpData` that it ends in. -/
def BlueprintItem._Load_type (blueprintID : Nat) (data : ItemData) (w : World) : Nat × World :=
  match ItemDB.GetBlueprint blueprintID w with
  | none => (0, w)
  | some bpData => w.alloc (InventoryItem.new blueprintID data (some bpData))

/-- The static `InventoryItem::_Load(factory, itemID, type, data)`. -/
def InventoryItem._Load_type (itemID : Nat) (type : TypeInfo) (data : ItemData) (w : World) :
    Nat × World :=
  if type.categoryID = invCategories_Blueprint then BlueprintItem._Load_type itemID data w
  else w.alloc (InventoryItem.new itemID data none)

/-- The static `InventoryItem::_Load(factory, itemID)`. -/
def InventoryItem._Load_id (itemID : Nat) (w : World) : Nat × World :=
  match ItemDB.GetItem itemID w with
  | none => (0, w)
  | some data =>
    match ItemFactory.GetType data.typeID w with
    | none => (0, w)
    | some type => InventoryItem._Load_type itemID type data w

/-- The static `BlueprintItem::_Load(factory, blueprintID)`. -/
def BlueprintItem._Load_id (blueprintID : Nat) (w : World) : Nat × World :=
  match ItemDB.GetItem blueprintID w with
  | none => (0, w)
  | some data =>
    match ItemFactory.GetBlueprintType data.typeID w with
    | none => (0, w)
    | some _ => BlueprintItem._Load_type blueprintID data w

mutual

/-- The method `InventoryItem::LoadContents`. -/
def InventoryItem.LoadContents : Nat → Nat → Bool → World → Option (Bool × World)
  | 0, _, _, _ => none
  | fuel + 1, this, recursive, w =>
    match w.get this with
    | none => none
    | some me =>
      if me.m_contentsLoaded then some (true, w)
      else
        match ItemDB.GetItemContents me.m_itemID w with
        | (none, w0) => some (false, w0)
        | (some m_itemIDs, w0) =>
          match m_itemIDs.foldlM (fun acc cur =>
              match ItemFactory.GetItem fuel cur recursive acc with
              | none => none
              | some (i, acc1) =>
                if i = 0 then some acc1
                else
                  (InventoryItem.AddContainedItem this i acc1).bind
                    (InventoryItem.Release fuel i)) w0 with
          | none => none
          | some w1 =>
            match w1.get this with
            | none => none
            | some me1 => some (true, w1.set this { me1 with m_contentsLoaded := true })
termination_by structural fuel => fuel

/-- The method `ItemFactory::GetItem`.
Modelled from the spec: the factory is outside this file; the spec has it
return a reference to the single live instance for the id, constructing it on
first access (the cache keeps the reference of the construction) and forcing
the subtree to be loaded in recurse mode. -/
def ItemFactory.GetItem : Nat → Nat → Bool → World → Option (Nat × World)
  | 0, _, _, _ => none
  | fuel + 1, itemID, recurse, w =>
    match mapFind itemID w.m_items with
    | none =>
      match InventoryItem.Load fuel itemID recurse w with
      | none => none
      | some (i, w1) =>
        if i = 0 then some (0, w1)
        else InventoryItem.Ref i { w1 with m_items := mapInsert itemID i w1.m_items }
    | some p =>
      if recurse then
        match InventoryItem.LoadContents fuel p true w with
        | none => none
        | some (ok, w1) => if ok then InventoryItem.Ref p w1 else some (0, w1)
      else InventoryItem.Ref p w
termination_by structural fuel => fuel

/-- The static `InventoryItem::Load`. -/
def InventoryItem.Load : Nat → Nat → Bool → World → Option (Nat × World)
  | 0, _, _, _ => none
  | fuel + 1, itemID, recurse, w =>
    match InventoryItem._Load_id itemID w with
    | (i, w1) =>
      if i = 0 then some (0, w1)
      else
        match InventoryItem._Load fuel i recurse w1 with
        | none => none
        | some (ok, w2) =>
          if ok then some (i, w2)
          else (InventoryItem.Release fuel i w2).map (fun w3 => (0, w3))
termination_by structural fuel => fuel

/-- The method `InventoryItem::_Load(bool recurse)`, to which
`BlueprintItem::_Load(bool recurse)` redirects. -/
def InventoryItem._Load : Nat → Nat → Bool → World → Option (Bool × World)
  | 0, _, _, _ => none
  | fuel + 1, this, recurse, w =>
    match w.get this with
    | none => none
    | some me =>
      if me.m_itemID ∈ w.attrLoadFails then some (false, w)
      else
        match ItemFactory._GetIfContentsLoaded me.m_locationID w with
        | none => none
        | some (container, w1) =>
          match (if container ≠ 0 then
              (InventoryItem.AddContainedItem container this w1).bind
                (InventoryItem.Release fuel container)
            else some w1) with
          | none => none
          | some w2 =>
            if recurse then InventoryItem.LoadContents fuel this recurse w2
            else some (true, w2)
termination_by structural fuel => fuel

end

/-- The static `BlueprintItem::Load`. -/
def BlueprintItem.Load (fuel blueprintID : Nat) (recurse : Bool) (w : World) :
    Option (Nat × World) :=
  match BlueprintItem._Load_id blueprintID w with
  | (bi, w1) =>
    if bi = 0 then some (0, w1)
    else
      match InventoryItem._Load fuel bi recurse w1 with
      | none => none
      | some (ok, w2) =>
        if ok then some (bi, w2)
        else (InventoryItem.Release fuel bi w2).map (fun w3 => (0, w3))

/-! ## Spawning -/

/-- The static `InventoryItem::_Spawn`. -/
def InventoryItem._Spawn (fuel : Nat) (data : ItemData) (w : World) : Option (Nat × World) :=
  match ItemDB.NewItem data w with
  | (itemID, w1) =>
    if itemID = 0 then some (0, w1)
    else InventoryItem.Load fuel itemID false w1

/-- The static `BlueprintItem::_Spawn`. -/
def BlueprintItem._Spawn (fuel : Nat) (data : ItemData) (bpData : BlueprintData) (w : World) :
    Option (Nat × World) :=
  match ItemDB.NewItem data w with
  | (blueprintID, w1) =>
    if blueprintID = 0 then some (0, w1)
    else
      match ItemDB.NewBlueprint blueprintID bpData w1 with
      | (ok, w2) =>
        if ok then BlueprintItem.Load fuel blueprintID false w2
        else some (0, w2)

/-- The static `BlueprintItem::Spawn`. -/
def BlueprintItem.Spawn (fuel : Nat) (data : ItemData) (bpData : BlueprintData) (w : World) :
    Option (Nat × World) :=
  match ItemFactory.GetType data.typeID w with
  | none => some (0, w)
  | some t =>
    let data1 : ItemData := if data.name = "" then { data with name := t.name } else data
    if t.categoryID ≠ invCategories_Blueprint then some (0, w)
    else BlueprintItem._Spawn fuel data1 bpData w

/-- The static `InventoryItem::Spawn`. -/
def InventoryItem.Spawn (fuel : Nat) (data : ItemData) (w : World) : Option (Nat × World) :=
  match ItemFactory.GetType data.typeID w with
  | none => some (0, w)
  | some t =>
    let data1 : ItemData := if data.name = "" then { data with name := t.name } else data
    if t.categoryID = invCategories_Blueprint then
      BlueprintItem.Spawn fuel data1 BlueprintData.default w
    else InventoryItem._Spawn fuel data1 w

/-- The method `ItemFactory::SpawnItem`.
Modelled from the spec: the factory is outside this file; the spec has a
spawned item inserted as a new row and then resolved, the cache keeping one
reference and the caller receiving another. -/
def ItemFactory.SpawnItem (fuel : Nat) (data : ItemData) (w : World) : Option (Nat × World) :=
  match InventoryItem.Spawn fuel data w with
  | none => none
  | some (i, w1) =>
    if i = 0 then some (0, w1)
    else
      match w1.get i with
      | none => none
      | some it => InventoryItem.Ref i { w1 with m_items := mapInsert it.m_itemID i w1.m_items }

/-- The method `ItemFactory::_DeleteItem`.
Modelled from the spec: the factory is outside this file; the spec has the
item evicted from the cache, which gives up the reference the cache held. -/
def ItemFactory._DeleteItem (fuel itemID : Nat) (w : World) : Option World :=
  match mapFind itemID w.m_items with
  | none => some w
  | some p =>
    (InventoryItem.Release fuel p w).map
      (fun w1 => { w1 with m_items := mapErase itemID w1.m_items })

/-! ## Deletion, split and merge -/

/-- The method `InventoryItem::Delete`, entered through the override
`BlueprintItem::Delete` when the instance is a blueprint. -/
def InventoryItem.Delete : Nat → Nat → World → Option World
  | 0, _, _ => none
  | fuel + 1, this, w0 =>
    match w0.get this with
    | none => none
    | some me0 =>
      (InventoryItem.Move fuel this 6 flagAutoFit defaultNotify
        (match me0.bp with
          | some _ => ItemDB.DeleteBlueprint me0.m_itemID w0
          | none => w0)).bind fun w2 =>
      (InventoryItem.ChangeOwner this 2 defaultNotify w2).bind fun w3 =>
      (InventoryItem.LoadContents fuel this true w3).bind fun r4 =>
      (r4.2.get this).bind fun me4 =>
      (me4.m_contents.foldlM (fun acc e =>
        (InventoryItem.Ref e.2 acc).bind (fun r => InventoryItem.Delete fuel r.1 r.2)) r4.2).bind
        fun w5 =>
      (w5.get this).bind fun me5 =>
      (ItemFactory._DeleteItem fuel me5.m_itemID (w5.set this { me5 with m_contents := [] })).bind
        fun w7 =>
      (w7.get this).bind fun me7 =>
      InventoryItem.Release fuel this
        (if me7.m_refCount ≠ 1 then
          (ItemDB.DeleteItem me7.m_itemID
            { w7 with attrRows := mapErase me7.m_itemID w7.attrRows }).set this
            { me7 with m_itemName := "BAD DELETED ITEM", m_quantity := 0,
                       m_contentsLoaded := true }
        else
          ItemDB.DeleteItem me7.m_itemID
            { w7 with attrRows := mapErase me7.m_itemID w7.attrRows })

/-- The method `InventoryItem::Split`; `qty_to_take` is an `int32`. -/
def InventoryItem.Split (fuel this : Nat) (qty_to_take : Int) (notify : Bool) (w : World) :
    Option (Nat × World) :=
  match w.get this with
  | none => none
  | some _ =>
    if qty_to_take ≤ 0 then some (0, w)
    else
      (InventoryItem.AlterQuantity this (-qty_to_take) notify w).bind fun r1 =>
      if r1.1 = false then some (0, r1.2)
      else
        (r1.2.get this).bind fun me1 =>
        (ItemFactory.SpawnItem fuel
          (ItemData.stack me1.m_type me1.m_ownerID (if notify then 1 else me1.m_locationID)
            me1.m_flag (toUint32 qty_to_take)) r1.2).bind fun res =>
        if notify then
          (res.2.get this).bind fun me2 =>
          (InventoryItem.Move fuel res.1 me2.m_locationID me2.m_flag defaultNotify res.2).map
            (fun w3 => (res.1, w3))
        else some res

/-- The method `InventoryItem::Merge`, to which `BlueprintItem::Merge` redirects;
`qty` is an `int32` and `to_merge` may be null. -/
def InventoryItem.Merge (fuel this to_merge : Nat) (qty : Int) (notify : Bool) (w : World) :
    Option (Bool × World) :=
  match w.get this with
  | none => none
  | some me =>
    if to_merge = 0 then some (false, w)
    else
      match w.get to_merge with
      | none => none
      | some other =>
        if me.m_type ≠ other.m_type then some (false, w)
        else if me.m_locationID ≠ other.m_locationID ∨ me.m_flag ≠ other.m_flag then
          some (false, w)
        else if (if qty = 0 then toInt32 other.m_quantity else qty) ≤ 0 then some (false, w)
        else
          (InventoryItem.AlterQuantity this (if qty = 0 then toInt32 other.m_quantity else qty)
            notify w).bind fun r1 =>
          if r1.1 = false then some (false, r1.2)
          else
            (r1.2.get to_merge).bind fun other1 =>
            if toUint32 (if qty = 0 then toInt32 other.m_quantity else qty) = other1.m_quantity
            then
              (InventoryItem.Delete fuel to_merge r1.2).map (fun w2 => (true, w2))
            else
              (InventoryItem.AlterQuantity to_merge
                (-(if qty = 0 then toInt32 other.m_quantity else qty)) notify r1.2).bind fun r2 =>
              if r2.1 = false then some (false, r2.2)
              else (InventoryItem.Release fuel to_merge r2.2).map (fun w3 => (true, w3))

/-! ## Stacking -/

/-- The loop of `InventoryItem::StackContainedItems`. `cur` is the key of the node the iterator
`cur` points to (`none` at `end()`), `types` the local map from type id to the first stack
found. The iterator is advanced before the body runs, so the next node is the successor at
that time; a node that is gone when the iterator is dereferenced is undefined behaviour.
`Merge` is called with the defaults of its declaration, `qty = 0` and `notify = true`.
Modelled from the spec: the declaration of `Merge` is outside this file; the spec has
`qty == 0` stand for the whole quantity of the other stack. -/
def InventoryItem.StackContainedItems_loop :
    Nat → Nat → Nat → Option Nat → AMap Nat → World → Option World
  | 0, _, _, _, _, _ => none
  | _ + 1, _, _, none, _, w => some w
  | fuel + 1, this, forOwner, some k, types, w =>
    (w.get this).bind fun me =>
    (mapFind k me.m_contents).bind fun i =>
    (w.get i).bind fun it =>
    if it.m_singleton = false ∧ (forOwner = it.m_ownerID ∨ forOwner = 0) then
      match mapFind it.m_type types with
      | none =>
        InventoryItem.StackContainedItems_loop fuel this forOwner (mapNext k me.m_contents)
          (mapInsert it.m_type i types) w
      | some res =>
        (InventoryItem.Ref i w).bind fun r =>
        (InventoryItem.Merge fuel res r.1 0 defaultNotify r.2).bind fun m =>
        InventoryItem.StackContainedItems_loop fuel this forOwner (mapNext k me.m_contents)
          types m.2
    else
      InventoryItem.StackContainedItems_loop fuel this forOwner (mapNext k me.m_contents)
        types w

set_option linter.unusedVariables false in
/-- The method `InventoryItem::StackContainedItems`; `forOwner` is `0` for `NULL`. The
argument `locFlag` is not used by the code. -/
def InventoryItem.StackContainedItems (fuel this locFlag forOwner : Nat) (w : World) :
    Option World :=
  (w.get this).bind fun me =>
  InventoryItem.StackContainedItems_loop fuel this forOwner (mapFirst me.m_contents) [] w

/-! ## Membership -/

/-- The method `InventoryItem::Contains`; the loop over the children stops at the first child
that contains the item. -/
def InventoryItem.Contains : Nat → Nat → Nat → Bool → World → Option Bool
  | 0, _, _, _, _ => none
  | fuel + 1, this, item, recursive, w =>
    match w.get this, w.get item with
    | some me, some it =>
      if (mapFind it.m_itemID me.m_contents).isSome then some true
      else if recursive = false then some false
      else
        me.m_contents.foldl (fun acc e =>
          match acc with
          | some false => InventoryItem.Contains fuel e.2 item true w
          | r => r) (some false)
    | _, _ => none

/-! ## The blueprint variant -/

/-- The method `BlueprintItem::SetCopy`; the instance has to be a `BlueprintItem`. -/
def BlueprintItem.SetCopy (this : Nat) (copy : Bool) (w : World) : Option World :=
  match w.get this with
  | none => none
  | some me =>
    match me.bp with
    | none => none
    | some b =>
      InventoryItem.Save 0 this false false (w.set this { me with bp := some { b with copy := copy } })

/-- The method `BlueprintItem::SetMaterialLevel`; `materialLevel` is a `uint32`. -/
def BlueprintItem.SetMaterialLevel (this materialLevel : Nat) (w : World) : Option World :=
  match w.get this with
  | none => none
  | some me =>
    match me.bp with
    | none => none
    | some b =>
      InventoryItem.Save 0 this false false
        (w.set this { me with bp := some { b with materialLevel := materialLevel } })

/-- The method `BlueprintItem::SetProductivityLevel`; `productivityLevel` is a `uint32`. -/
def BlueprintItem.SetProductivityLevel (this productivityLevel : Nat) (w : World) :
    Option World :=
  match w.get this with
  | none => none
  | some me =>
    match me.bp with
    | none => none
    | some b =>
      InventoryItem.Save 0 this false false
        (w.set this { me with bp := some { b with productivityLevel := productivityLevel } })

/-- The method `BlueprintItem::SetLicensedProductionRunsRemaining`; the argument is an
`int32`. -/
def BlueprintItem.SetLicensedProductionRunsRemaining (this : Nat)
    (licensedProductionRunsRemaining : Int) (w : World) : Option World :=
  match w.get this with
  | none => none
  | some me =>
    match me.bp with
    | none => none
    | some b =>
      InventoryItem.Save 0 this false false
        (w.set this
          { me with
            bp := some
              { b with licensedProductionRunsRemaining := licensedProductionRunsRemaining } })

/-- The member `m` of the instance at `this`, which has to be a live `BlueprintItem`. -/
def BlueprintItem.member {α : Type} (m : BlueprintData → α) (this : Nat) (w : World) :
    Option α :=
  (w.get this).bind fun me => me.bp.map m

/-- The method `BlueprintItem::SplitBlueprint`; `this` has to be a live `BlueprintItem`, and the
result of the base split is used as a `BlueprintItem` (`static_cast`). Each member is read
from `this` when its setter is called. -/
def BlueprintItem.SplitBlueprint (fuel this : Nat) (qty_to_take : Int) (notify : Bool)
    (w : World) : Option (Nat × World) :=
  (InventoryItem.Split fuel this qty_to_take notify w).bind fun res =>
  if res.1 = 0 then some (0, res.2)
  else
    (BlueprintItem.member (fun b => b.copy) this res.2).bind fun c =>
    (BlueprintItem.SetCopy res.1 c res.2).bind fun w1 =>
    (BlueprintItem.member (fun b => b.materialLevel) this w1).bind fun ml =>
    (BlueprintItem.SetMaterialLevel res.1 ml w1).bind fun w2 =>
    (BlueprintItem.member (fun b => b.productivityLevel) this w2).bind fun pl =>
    (BlueprintItem.SetProductivityLevel res.1 pl w2).bind fun w3 =>
    (BlueprintItem.member (fun b => b.licensedProductionRunsRemaining) this w3).bind fun lr =>
    (BlueprintItem.SetLicensedProductionRunsRemaining res.1 lr w3).map fun w4 => (res.1, w4)


/-- Every instance that is live in `w'` at an address handed out before `w` was live in `w`
with the same value of `f`, and no address is handed out twice: the part of the items that
`f` observes is not changed on the way from `w` to `w'`. -/
def Keeps {α : Type} (f : InventoryItem → α) (w w' : World) : Prop :=
  w.nextAddr ≤ w'.nextAddr ∧
  ∀ p it', p < w.nextAddr → w'.get p = some it' → ∃ it, w.get p = some it ∧ f it' = f it

/-- The observation `f` does not depend on the reference count. -/
def IgnRc {α : Type} (f : InventoryItem → α) : Prop :=
  ∀ (it : InventoryItem) (n : Nat), f { it with m_refCount := n } = f it

/-- The observation `f` does not depend on the containment map. -/
def IgnContents {α : Type} (f : InventoryItem → α) : Prop :=
  ∀ (it : InventoryItem) (c : AMap Nat), f { it with m_contents := c } = f it

/-- The observation `f` does not depend on the contents-loaded flag. -/
def IgnLoaded {α : Type} (f : InventoryItem → α) : Prop :=
  ∀ (it : InventoryItem) (b : Bool), f { it with m_contentsLoaded := b } = f it

/-- The observation `f` does not depend on the location and flag. -/
def IgnLoc {α : Type} (f : InventoryItem → α) : Prop :=
  ∀ (it : InventoryItem) (l fl : Nat), f { it with m_locationID := l, m_flag := fl } = f it

/-- The observation `f` does not depend on the owner. -/
def IgnOwner {α : Type} (f : InventoryItem → α) : Prop :=
  ∀ (it : InventoryItem) (o : Nat), f { it with m_ownerID := o } = f it

/-- The observation `f` does not depend on the quantity. -/
def IgnQty {α : Type} (f : InventoryItem → α) : Prop :=
  ∀ (it : InventoryItem) (q : Nat), f { it with m_quantity := q } = f it

/-- The observation `f` does not depend on the name. -/
def IgnName {α : Type} (f : InventoryItem → α) : Prop :=
  ∀ (it : InventoryItem) (s : String), f { it with m_itemName := s } = f it

/-- The observation `f` depends on none of the members that loading, moving, changing the
owner, setting the quantity or deleting write. -/
structure IgnAll {α : Type} (f : InventoryItem → α) : Prop where
  rc : IgnRc f
  contents : IgnContents f
  loaded : IgnLoaded f
  loc : IgnLoc f
  owner : IgnOwner f
  qty : IgnQty f
  name : IgnName f

/-- The world `w'` is `w` with the instance at `this` replaced by `it'`, as far as the heap
and the cache go. -/
def World.updates (w' w : World) (this : Nat) (it' : InventoryItem) : Prop :=
  w'.heap = (w.set this it').heap ∧ w'.nextAddr = w.nextAddr ∧ w'.m_items = w.m_items

/-- The database after `Save(false, false)` has written the item `it`. -/
def World.saved (w : World) (it : InventoryItem) : World :=
  match it.bp with
  | none => ItemDB.SaveItem it.m_itemID it.toData w
  | some b => ItemDB.SaveBlueprint it.m_itemID b (ItemDB.SaveItem it.m_itemID it.toData w)

/-- The world `w'` is `w` with every live instance `it` at an address `q` replaced by
`F q it`; no instance is created or destroyed and the cache is the same. -/
def World.mapped (w' w : World) (F : Nat → InventoryItem → InventoryItem) : Prop :=
  (∀ q, w'.get q = (w.get q).map (F q)) ∧ w'.m_items = w.m_items

/-- What detaching the item `id` at address `this` from the container at address `pc` does
to the instance at address `q`: the item loses the reference of the edge and the container
loses the entry. -/
def detachF (this pc id : Nat) (q : Nat) (it : InventoryItem) : InventoryItem :=
  { it with
    m_refCount := if q = this then it.m_refCount - 1 else it.m_refCount,
    m_contents := if q = pc then mapErase id it.m_contents else it.m_contents }

/-- What attaching the item `id` at address `this` to the container at address `pc` does to
the instance at address `q`: the item gains the reference of the edge and the container
gains the entry. -/
def attachF (this pc id : Nat) (q : Nat) (it : InventoryItem) : InventoryItem :=
  { it with
    m_refCount := if q = this then it.m_refCount + 1 else it.m_refCount,
    m_contents := if q = pc then mapInsert id this it.m_contents else it.m_contents }

/-- The address of the container `id` when it is resident with its contents loaded. -/
def World.loaded (w : World) (id : Nat) : Option Nat :=
  match mapFind id w.m_items with
  | none => none
  | some p =>
    match w.get p with
    | none => none
    | some c => if c.m_contentsLoaded then some p else none

/-- Every entry of the cache points to a live instance of that item id, which holds at
least the reference of the cache. -/
def CacheLive (w : World) : Prop :=
  ∀ k p, mapFind k w.m_items = some p →
    ∃ c, w.get p = some c ∧ c.m_itemID = k ∧ 1 ≤ c.m_refCount

/-- The map of every resident container with its contents loaded holds exactly its resident
children: an entry `id ↦ q` is there if and only if `q` is the resident instance of `id` and
is located in the container. -/
def Mirrors (w : World) : Prop :=
  ∀ k pc c, mapFind k w.m_items = some pc → w.get pc = some c → c.m_contentsLoaded = true →
    ∀ id q, mapFind id c.m_contents = some q ↔
      (mapFind id w.m_items = some q ∧ ∃ iq, w.get q = some iq ∧ iq.m_locationID = k)

/-- What a `Move` to `(location, new_flag)` does to the instance at address `q`, for the item
`id` at address `this` that is detached from the container at `det` and attached to the
container at `att` (each `none` when that container is not resident with its contents
loaded). -/
def moveF (this id : Nat) (det att : Option Nat) (location new_flag : Nat) (q : Nat)
    (it : InventoryItem) : InventoryItem :=
  { it with
    m_refCount :=
      if q = this then
        it.m_refCount - (if det.isSome then 1 else 0) + (if att.isSome then 1 else 0)
      else it.m_refCount,
    m_contents :=
      if att = some q then
        mapInsert id this (if det = some q then mapErase id it.m_contents else it.m_contents)
      else if det = some q then mapErase id it.m_contents
      else it.m_contents,
    m_locationID := if q = this then location else it.m_locationID,
    m_flag := if q = this then new_flag else it.m_flag }

/-- The instance at `q` is live and, unless it is a singleton, is a stack that
`StackContainedItems` can merge away: it holds nothing in memory and in the database, the
cache and a container hold it, it is not the disposal location 6, and its quantity fits the
`uint32` member. -/
def leafChild (w : World) (q : Nat) : Bool :=
  match w.get q with
  | none => false
  | some x =>
    x.m_singleton ||
      (x.m_contents.isEmpty && decide (2 ≤ x.m_refCount) && decide (x.m_itemID ≠ 6) &&
        decide (x.m_quantity < 2 ^ 32) &&
        (x.m_contentsLoaded || w.rows.all fun e => decide (e.2.locationID ≠ x.m_itemID)))

/-- The containment map of every live instance has its keys in increasing order, as a
`std::map` does. -/
def MapsSorted (w : World) : Prop :=
  ∀ p c, w.get p = some c → mapSorted c.m_contents

instance (m : AMap Nat) : Decidable (mapSorted m) := by
  unfold mapSorted
  infer_instance

/-- Whether the instance at `q` is live and located in `k`. -/
def World.locatedIn (w : World) (q k : Nat) : Bool :=
  match w.get q with
  | some iq => decide (iq.m_locationID = k)
  | none => false

/-- Every entry of the cache points to a live instance of that item id. -/
def CacheKeyed (w : World) : Prop :=
  ∀ k p, mapFind k w.m_items = some p → ∃ c, w.get p = some c ∧ c.m_itemID = k

/-- The world `w'` is `w` with other reference counts and containment maps: the cache is the
same, the same addresses are live, every other member of an instance is as it was, and a
count that fitted its 16 bits still does. -/
def World.recounted (w' w : World) : Prop :=
  w'.m_items = w.m_items ∧ (∀ q, w.get q = none → w'.get q = none) ∧
  ∀ q x, w.get q = some x →
    ∃ n m, w'.get q = some { x with m_refCount := n, m_contents := m } ∧
      (x.m_refCount < 2 ^ 16 → n < 2 ^ 16)

/-- Every reference counter of the world can be raised `n` more times before it passes its
largest value 65535. -/
def World.room (w : World) (n : Nat) : Prop :=
  ∀ p x, w.get p = some x → x.m_refCount + n < 2 ^ 16

/-- A check of `World.room` that can be evaluated. -/
def roomB (w : World) (n : Nat) : Bool :=
  w.heap.all fun e => decide (e.2.m_refCount + n < 2 ^ 16)

/-- A check of `CacheLive` that can be evaluated. -/
def cacheLiveB (w : World) : Bool :=
  w.m_items.all fun e =>
    match w.get e.2 with
    | some c => decide (c.m_itemID = e.1 ∧ 1 ≤ c.m_refCount)
    | none => false

/-- A check of `Mirrors` that can be evaluated: for every resident container with its
contents loaded, every entry of its map is a resident child and every resident child is an
entry of its map. -/
def mirrorsB (w : World) : Bool :=
  w.m_items.all fun e =>
    match w.get e.2 with
    | some c =>
      !c.m_contentsLoaded ||
        (c.m_contents.all (fun x =>
            decide (mapFind x.1 w.m_items = some x.2) && w.locatedIn x.2 e.1) &&
          w.m_items.all (fun y =>
            !w.locatedIn y.2 e.1 || decide (mapFind y.1 c.m_contents = some y.2)))
    | none => true

/-- A check of `MapsSorted` that can be evaluated. -/
def mapsSortedB (w : World) : Bool :=
  w.heap.all fun e => decide (mapSorted e.2.m_contents)

/-- Nothing is allocated and the cache is untouched on the way from `w` to `w'`. -/
def Quiet (w w' : World) : Prop :=
  w'.nextAddr = w.nextAddr ∧ w'.m_items = w.m_items

/-- On the way from `w` to `w'` nothing is allocated, the cache is untouched, and every
entry of the containment map of an instance that is live in `w'` was there in `w` or is one
of the new entries `X`. -/
def ContentsSub (X : Nat → Nat × Nat → Prop) (w w' : World) : Prop :=
  Quiet w w' ∧
  ∀ p c', w'.get p = some c' →
    ∃ c, w.get p = some c ∧ c'.m_contentsLoaded = c.m_contentsLoaded ∧
      ∀ e ∈ c'.m_contents, e ∈ c.m_contents ∨ X p e

/-- On the way from `w` to `w'` the instance at `this` became `it'`, nothing else in memory
or in the cache changed, and no row was written but the one of `it'`. -/
def World.wrote (w' w : World) (this : Nat) (it' : InventoryItem) : Prop :=
  (∀ q, w'.get q = if q = this then some it' else w.get q) ∧ w'.m_items = w.m_items ∧
  (∀ e ∈ w'.rows, e ∈ w.rows ∨ e = (it'.m_itemID, it'.toData)) ∧
  w'.nextItemID = w.nextItemID ∧ w'.nextAddr = w.nextAddr

/-- The descriptor `d` has the type, owner, location, flag, quantity and singleton bit of
`data`. -/
def ItemData.agrees (d data : ItemData) : Prop :=
  d.typeID = data.typeID ∧ d.ownerID = data.ownerID ∧ d.locationID = data.locationID ∧
  d.flag = data.flag ∧ d.quantity = data.quantity ∧ d.singleton = data.singleton

/-- What loading the new instance `n` at address `i` does to the instance at address `q`: when
the container of the new item is resident with its contents loaded, at `att`, the item gains the
reference of the edge and the container gains the entry; the container is referenced for the
time of the call, which gives it its count back unless that was 65535 and is 0 now. -/
def spawnF (i n : Nat) (att : Option Nat) (q : Nat) (it : InventoryItem) : InventoryItem :=
  { it with
    m_refCount :=
      if q = i then it.m_refCount + (if att.isSome then 1 else 0)
      else if att = some q then (it.m_refCount + 1) % 2 ^ 16 - 1
      else it.m_refCount,
    m_contents := if att = some q then mapInsert n i it.m_contents else it.m_contents }

/-- The part of the world outside the memory of the server: the database, the type catalog,
the clients that are online and the logs. -/
def World.db (w : World) : World :=
  { w with heap := [], nextAddr := 0, m_items := [] }

/-- The world after the notification `changes` about the item with row `row` went to the
client `toID`, which receives it when it is online. -/
def World.notified (w : World) (toID : Nat) (row : EntityRow) (changes : Changes) : World :=
  if toID ∈ w.online then
    { w with sent := w.sent ++ [{ toID := toID, itemRow := row, changes := changes }] }
  else w

/-- The world in which `Delete` reaches the test of the reference count: the item was moved
to the disposal location and given to the system owner, its children were loaded and deleted,
its map was cleared, it was evicted from the cache, and its attributes and its row were
deleted. This is the body of `InventoryItem.Delete` without the test and the final
`Release`. -/
def InventoryItem.Delete_upToTest (fuel this : Nat) (w0 : World) : Option World :=
  match w0.get this with
  | none => none
  | some me0 =>
    (InventoryItem.Move fuel this 6 flagAutoFit defaultNotify
      (match me0.bp with
        | some _ => ItemDB.DeleteBlueprint me0.m_itemID w0
        | none => w0)).bind fun w2 =>
    (InventoryItem.ChangeOwner this 2 defaultNotify w2).bind fun w3 =>
    (InventoryItem.LoadContents fuel this true w3).bind fun r4 =>
    (r4.2.get this).bind fun me4 =>
    (me4.m_contents.foldlM (fun acc e =>
      (InventoryItem.Ref e.2 acc).bind (fun r => InventoryItem.Delete fuel r.1 r.2)) r4.2).bind
      fun w5 =>
    (w5.get this).bind fun me5 =>
    (ItemFactory._DeleteItem fuel me5.m_itemID (w5.set this { me5 with m_contents := [] })).bind
      fun w7 =>
    (w7.get this).map fun me7 =>
      ItemDB.DeleteItem me7.m_itemID { w7 with attrRows := mapErase me7.m_itemID w7.attrRows }

/-- The containment map of the instance at `p` holds the live instance at `q`. -/
def Edge (w : World) (p q : Nat) : Prop :=
  ∃ c k, w.get p = some c ∧ (k, q) ∈ c.m_contents ∧ (w.get q).isSome = true

/-- Containment is a tree: no instance is held, directly or transitively, by its own
containment map. -/
def Acyclic (w : World) : Prop :=
  ∀ p, ¬ Relation.TransGen (Edge w) p p

/-! ## The quantity invariant and the mutators -/

/-- The invariant of the spec: the quantity is not negative and a singleton has quantity one. -/
def QuantityInvariant (it : InventoryItem) : Prop :=
  0 ≤ it.m_quantity ∧ (it.m_singleton = true → it.m_quantity = 1)

instance (it : InventoryItem) : Decidable (QuantityInvariant it) := by
  unfold QuantityInvariant
  infer_instance

/-- A call of one of the mutators of an item, with its arguments. -/
inductive Mutator where
  | SetQuantity (qty_new : Nat) (notify : Bool)
  | AlterQuantity (qty_change : Int) (notify : Bool)
  | ChangeSingleton (new_singleton notify : Bool)
  | Split (qty_to_take : Int) (notify : Bool)
  | Merge (to_merge : Nat) (qty : Int) (notify : Bool)
  | Move (location new_flag : Nat) (notify : Bool)
  | ChangeFlag (new_flag : Nat) (notify : Bool)
  | ChangeOwner (new_owner : Nat) (notify : Bool)
  | Rename (to_ : String)
  | SetCustomInfo (ci : Option String)
  | Relocate (pos : GPoint)

/-- The world after the call `m` on the item at `this`. -/
def Mutator.run (fuel this : Nat) : Mutator → World → Option World
  | .SetQuantity qty_new notify, w =>
    (InventoryItem.SetQuantity this qty_new notify w).map Prod.snd
  | .AlterQuantity qty_change notify, w =>
    (InventoryItem.AlterQuantity this qty_change notify w).map Prod.snd
  | .ChangeSingleton new_singleton notify, w =>
    (InventoryItem.ChangeSingleton this new_singleton notify w).map Prod.snd
  | .Split qty_to_take notify, w => (InventoryItem.Split fuel this qty_to_take notify w).map Prod.snd
  | .Merge to_merge qty notify, w => (InventoryItem.Merge fuel this to_merge qty notify w).map Prod.snd
  | .Move location new_flag notify, w => InventoryItem.Move fuel this location new_flag notify w
  | .ChangeFlag new_flag notify, w => InventoryItem.ChangeFlag this new_flag notify w
  | .ChangeOwner new_owner notify, w => InventoryItem.ChangeOwner this new_owner notify w
  | .Rename to_, w => InventoryItem.Rename this to_ w
  | .SetCustomInfo ci, w => InventoryItem.SetCustomInfo this ci w
  | .Relocate pos, w => InventoryItem.Relocate this pos w

/-! ## Example worlds -/

/-- A stack of type 34 owned by character 7 at location 60, flag 4. -/
def exStack (refCount itemID quantity : Nat) : InventoryItem :=
  { m_refCount := refCount, m_itemID := itemID, m_itemName := "Tritanium", m_type := 34,
    m_ownerID := 7, m_locationID := 60, m_flag := 4, m_contraband := false,
    m_singleton := false, m_quantity := quantity, m_position := ⟨0, 0, 0⟩, m_customInfo := "",
    m_contents := [], m_contentsLoaded := false, bp := none }

/-- Two stacks of the same type side by side in a location that is not resident: item 100
with quantity `qa` at address 1 and item 101 with quantity `qb` at address 2, each held by the
cache and by one caller. -/
def exWorld (qa qb : Nat) : World :=
  { heap := [(1, exStack 2 100 qa), (2, exStack 2 101 qb)], nextAddr := 3,
    m_items := [(100, 1), (101, 2)], types := [(34, ⟨4, "Tritanium"⟩)],
    rows := [(100, (exStack 2 100 qa).toData), (101, (exStack 2 101 qb).toData)],
    bpRows := [], attrRows := [], nextItemID := 102, insertOk := true, attrLoadFails := [],
    contentsQueryFails := [], online := [], sent := [], fetched := [] }

/-- A container item with its contents loaded, holding `contents`. -/
def exContainer (refCount itemID : Nat) (contents : AMap Nat) : InventoryItem :=
  { m_refCount := refCount, m_itemID := itemID, m_itemName := "Hangar", m_type := 27,
    m_ownerID := 7, m_locationID := 0, m_flag := 0, m_contraband := false,
    m_singleton := true, m_quantity := 1, m_position := ⟨0, 0, 0⟩, m_customInfo := "",
    m_contents := contents, m_contentsLoaded := true, bp := none }

/-- Two resident containers with their contents loaded, item 60 at address 3 and item 61 at
address 4, and the stack 100 of quantity 5 at address 1 inside container 60 (location 60,
flag 4), held by the cache and by the map of its container. -/
def exHangar : World :=
  { heap := [(1, exStack 2 100 5), (3, exContainer 1 60 [(100, 1)]), (4, exContainer 1 61 [])],
    nextAddr := 5, m_items := [(60, 3), (61, 4), (100, 1)],
    types := [(27, ⟨2, "Hangar"⟩), (34, ⟨4, "Tritanium"⟩)],
    rows := [(60, (exContainer 1 60 []).toData), (61, (exContainer 1 61 []).toData),
      (100, (exStack 2 100 5).toData)],
    bpRows := [], attrRows := [], nextItemID := 102, insertOk := true, attrLoadFails := [],
    contentsQueryFails := [], online := [], sent := [], fetched := [] }

/-- The world `exHangar` with the reference counts `rs` of the stack, `r60` of the container
60 and `r61` of the container 61. -/
def exCounts (rs r60 r61 : Nat) : World :=
  { exHangar with
    heap := [(1, exStack rs 100 5), (3, exContainer r60 60 [(100, 1)]),
      (4, exContainer r61 61 [])] }

/-- The world `exCounts 2 1 65535` after `Move(61, 2)` of the stack: the stack is in the map
of the container 61, whose reference count is 0. -/
def exThere : World :=
  { exHangar with
    heap := [(1, { exStack 2 100 5 with m_locationID := 61, m_flag := 2 }),
      (3, exContainer 1 60 []), (4, exContainer 0 61 [(100, 1)])],
    rows := [(60, (exContainer 1 60 []).toData), (61, (exContainer 1 61 []).toData),
      (100, ({ exStack 2 100 5 with m_locationID := 61, m_flag := 2 } : InventoryItem).toData)] }

/-- The resident container 61 at address 4, with its contents loaded and empty, and the stack
100 at address 1 with `rs` references, whose location 70 is not resident. -/
def exLoose (rs : Nat) : World :=
  { exHangar with
    heap := [(1, { exStack rs 100 5 with m_locationID := 70 }), (4, exContainer 1 61 [])],
    m_items := [(61, 4), (100, 1)],
    rows := [(61, (exContainer 1 61 []).toData),
      (100, ({ exStack rs 100 5 with m_locationID := 70 } : InventoryItem).toData)] }

/-- The world `exWorld 6 3` after a stack of 4 of the same type was spawned at the staging
location 1: item 102 at address 3, held by the cache and by the caller. -/
def exSpawned : World :=
  { heap := [(1, exStack 2 100 6), (2, exStack 2 101 3),
      (3, { exStack 2 102 4 with m_locationID := 1 })],
    nextAddr := 4, m_items := [(100, 1), (101, 2), (102, 3)],
    types := [(34, ⟨4, "Tritanium"⟩)],
    rows := [(100, (exStack 2 100 6).toData), (101, (exStack 2 101 3).toData),
      (102, ({ exStack 2 102 4 with m_locationID := 1 } : InventoryItem).toData)],
    bpRows := [], attrRows := [], nextItemID := 103, insertOk := true, attrLoadFails := [],
    contentsQueryFails := [], online := [], sent := [], fetched := [] }

/-- The world `exHangar` with the owner of the items, character 7, online. -/
def exOnline : World :=
  { exHangar with online := [7] }

/-- A stack as `exStack`, in the slot `flag`. -/
def exStackAt (refCount itemID quantity flag : Nat) : InventoryItem :=
  { exStack refCount itemID quantity with m_flag := flag }

/-- The resident container 60 at address 3 with its contents loaded, holding three stacks of
the same type and owner: item 100 (quantity 5) at address 1 in slot `fa`, item 101
(quantity 3) at address 2 in slot `fb` and item 102 (quantity 2) at address 4 in slot `fc`,
each held by the cache and by the map of the container. -/
def exCargo (fa fb fc : Nat) : World :=
  { heap := [(1, exStackAt 2 100 5 fa), (2, exStackAt 2 101 3 fb),
      (3, exContainer 1 60 [(100, 1), (101, 2), (102, 4)]), (4, exStackAt 2 102 2 fc)],
    nextAddr := 5, m_items := [(60, 3), (100, 1), (101, 2), (102, 4)],
    types := [(27, ⟨2, "Hangar"⟩), (34, ⟨4, "Tritanium"⟩)],
    rows := [(60, (exContainer 1 60 []).toData), (100, (exStackAt 2 100 5 fa).toData),
      (101, (exStackAt 2 101 3 fb).toData), (102, (exStackAt 2 102 2 fc).toData)],
    bpRows := [], attrRows := [], nextItemID := 103, insertOk := true, attrLoadFails := [],
    contentsQueryFails := [], online := [], sent := [], fetched := [] }

/-- The world `exWorld 5 3` with one more holder of the stack 101 at address 2: the cache and
two callers hold it. -/
def exHeld : World :=
  { exWorld 5 3 with heap := [(1, exStack 2 100 5), (2, exStack 3 101 3)] }

/-- The world `exCargo 4 4 4` with the item 101 at address 2 assembled: a singleton of
quantity 1 between the stacks 100 and 102 of the same type, in the same slot. -/
def exMixed : World :=
  { exCargo 4 4 4 with
    heap := [(1, exStackAt 2 100 5 4), (2, { exStackAt 2 101 1 4 with m_singleton := true }),
      (3, exContainer 1 60 [(100, 1), (101, 2), (102, 4)]), (4, exStackAt 2 102 2 4)],
    rows := [(60, (exContainer 1 60 []).toData), (100, (exStackAt 2 100 5 4).toData),
      (101, ({ exStackAt 2 101 1 4 with m_singleton := true } : InventoryItem).toData),
      (102, (exStackAt 2 102 2 4).toData)] }

/-- The world `exWorld 5 3` with one more row in the database: the item 200, located in the
item 101, of a type 99 that is not in the catalog, so that it cannot be loaded. -/
def exOrphan : World :=
  { exWorld 5 3 with
    rows := [(100, (exStack 2 100 5).toData), (101, (exStack 2 101 3).toData),
      (200, { (exStack 2 200 1).toData with typeID := 99, locationID := 101 })] }

/-- Three resident items, one inside the other: the container 60 at address 3, held by the
cache and by one caller, holds the container 61 at address 4, which holds the stack 100 at
address 1; both containers have their contents loaded. -/
def exNested : World :=
  { heap := [(1, { exStack 2 100 5 with m_locationID := 61 }),
      (3, exContainer 2 60 [(61, 4)]),
      (4, { exContainer 2 61 [(100, 1)] with m_locationID := 60 })],
    nextAddr := 5, m_items := [(60, 3), (61, 4), (100, 1)],
    types := [(27, ⟨2, "Hangar"⟩), (34, ⟨4, "Tritanium"⟩)],
    rows := [(60, (exContainer 2 60 []).toData),
      (61, ({ exContainer 2 61 [] with m_locationID := 60 } : InventoryItem).toData),
      (100, ({ exStack 2 100 5 with m_locationID := 61 } : InventoryItem).toData)],
    bpRows := [], attrRows := [(60, [(9, 1)]), (100, [])], nextItemID := 102, insertOk := true,
    attrLoadFails := [], contentsQueryFails := [], online := [], sent := [], fetched := [] }

/-! ## Durability -/

/-- The instance at `this` is live, is an instance of the item `id`, and the persisted row of
the item equals the members of the instance. -/
def World.durable (w : World) (this id : Nat) : Prop :=
  ∃ me, w.get this = some me ∧ me.m_itemID = id ∧ mapFind id w.rows = some me.toData

/-! ## The stock of a container -/

/-- The quantity that the instance at `q` adds to the stock of the type `t`: its quantity when
it is a live instance of that type. -/
def World.quantityOf (w : World) (t q : Nat) : Nat :=
  match w.get q with
  | some x => if x.m_type = t then x.m_quantity else 0
  | none => 0

/-- The sum of the quantities of the children of type `t` that the containment map `m`
holds. -/
def typeQuantity (w : World) (t : Nat) (m : AMap Nat) : Nat :=
  (m.map fun e => w.quantityOf t e.2).sum

/-! ## More example worlds -/

/-- The world `exHangar` with a second instance of the item 100 at address 2, held by one
caller; the map of the container 60 holds the instance at address 1. -/
def exTwin : World :=
  { exHangar with
    heap := [(1, exStack 2 100 5), (2, exStack 1 100 5), (3, exContainer 1 60 [(100, 1)]),
      (4, exContainer 1 61 [])] }

/-- The resident container 60 at address 3 with its contents loaded and an empty map, and the
row of the item 100, located in 60, which is not resident; the query for the children of the
item 100 fails. -/
def exFailedLoad : World :=
  { heap := [(3, exContainer 1 60 [])], nextAddr := 4, m_items := [(60, 3)],
    types := [(27, ⟨2, "Hangar"⟩), (34, ⟨4, "Tritanium"⟩)],
    rows := [(60, (exContainer 1 60 []).toData), (100, (exStack 2 100 5).toData)],
    bpRows := [], attrRows := [], nextItemID := 102, insertOk := true, attrLoadFails := [],
    contentsQueryFails := [100], online := [], sent := [], fetched := [] }

/-- A stack of blueprint copies: item 100 of the blueprint type 900 with quantity 10 at
address 1, material level 3, productivity level 7 and 20 licensed runs left, in a location
that is not resident, held by the cache and by one caller. -/
def exBlueprint : World :=
  { heap := [(1, { exStack 2 100 10 with
      m_itemName := "Raven Blueprint", m_type := 900, bp := some ⟨true, 3, 7, 20⟩ })],
    nextAddr := 2, m_items := [(100, 1)],
    types := [(34, ⟨4, "Tritanium"⟩), (900, ⟨9, "Raven Blueprint"⟩)],
    rows := [(100, ({ exStack 2 100 10 with
      m_itemName := "Raven Blueprint", m_type := 900 } : InventoryItem).toData)],
    bpRows := [(100, ⟨true, 3, 7, 20⟩)], attrRows := [], nextItemID := 101, insertOk := true,
    attrLoadFails := [], contentsQueryFails := [], online := [], sent := [], fetched := [] }

/-- The world `exBlueprint` after the base `Split` took 4 of the stack: the new item 101 at
address 2 is a blueprint with the default manufacturing members. -/
def exBlueprintSplit : World :=
  { exBlueprint with
    heap := [(1, { exStack 2 100 6 with
        m_itemName := "Raven Blueprint", m_type := 900, bp := some ⟨true, 3, 7, 20⟩ }),
      (2, { exStack 2 101 4 with
        m_itemName := "Raven Blueprint", m_type := 900, bp := some BlueprintData.default })],
    nextAddr := 3, m_items := [(100, 1), (101, 2)],
    rows := [(100, ({ exStack 2 100 6 with
        m_itemName := "Raven Blueprint", m_type := 900 } : InventoryItem).toData),
      (101, ({ exStack 2 101 4 with
        m_itemName := "Raven Blueprint", m_type := 900 } : InventoryItem).toData)],
    bpRows := [(100, ⟨true, 3, 7, 20⟩), (101, BlueprintData.default)], nextItemID := 102 }

/-- The resident container 60 at address 3 with its contents loaded, holding two stacks of
the same type, owner and slot: item 100 with the largest quantity of a `uint32` at address 1
and item 101 with quantity 1 at address 2. -/
def exFull : World :=
  { exHangar with
    heap := [(1, exStack 2 100 4294967295), (2, exStack 2 101 1),
      (3, exContainer 1 60 [(100, 1), (101, 2)]), (4, exContainer 1 61 [])],
    m_items := [(60, 3), (61, 4), (100, 1), (101, 2)],
    rows := [(60, (exContainer 1 60 []).toData), (61, (exContainer 1 61 []).toData),
      (100, (exStack 2 100 4294967295).toData), (101, (exStack 2 101 1).toData)] }


/-! ## Subtrees by item id -/

/-- The ids of the items that the database lists as located in the item `id`, in the order
of the rows: what `GetItemContents` fetches. -/
def World.listed (w : World) (id : Nat) : List Nat :=
  (w.rows.filter (fun e => decide (e.2.locationID = id))).map Prod.fst

/-- The resident instance of the item `id`. -/
def World.inst (w : World) (id : Nat) : Option InventoryItem :=
  (mapFind id w.m_items).bind w.get

/-- The ids of the items of the subtree of the item `id` in the database, down to `n` levels:
the item, the items that the database lists as located in it, and so on. -/
def World.tree (w : World) : Nat → Nat → List Nat
  | 0, _ => []
  | n + 1, id => id :: ((w.listed id).map fun k => World.tree w n k).flatten

/-- The item `id` can be reached by `Delete`: it is not the disposal location 6 and
* when it is resident, its map is in key order, holds every child that the database lists
  for it when its contents are loaded, and is empty when they are not, in which case the
  query for its children does not fail;
* when it is not resident, it can be loaded: it has a row, the type of the row is in the
  catalog, a type of the blueprint category has its blueprint row, and neither the load of
  its attributes nor the query for its children fails. -/
def World.nodeOK (w : World) (id : Nat) : Bool :=
  decide (id ≠ 6) &&
  match mapFind id w.m_items with
  | some p =>
    match w.get p with
    | none => false
    | some x =>
      decide (mapSorted x.m_contents) &&
        (if x.m_contentsLoaded then
          (w.listed id).all fun c => (mapFind c x.m_contents).isSome
        else x.m_contents.isEmpty && decide (id ∉ w.contentsQueryFails))
  | none =>
    match mapFind id w.rows with
    | none => false
    | some d =>
      match mapFind d.typeID w.types with
      | none => false
      | some t =>
        (decide (t.categoryID ≠ invCategories_Blueprint) || (mapFind id w.bpRows).isSome) &&
          decide (id ∉ w.attrLoadFails) && decide (id ∉ w.contentsQueryFails)

/-- The reference count of the child `k` of the item `parent` leaves room for what `Delete`
of the parent does to it. A resident child in the map of a parent with its contents loaded
holds the references of the cache and of the map and has room for one more, the one of the
caller of its own `Delete`; a resident child of a parent whose contents are yet to be loaded
has room for two more, the one of the map as well. -/
def World.kidOK (w : World) (parent k : Nat) : Bool :=
  match w.inst k with
  | some x =>
    if (w.loaded parent).isSome then decide (2 ≤ x.m_refCount ∧ x.m_refCount + 1 < 2 ^ 16)
    else decide (x.m_refCount + 2 < 2 ^ 16)
  | none => true

/-- The subtree of the item `id` is at most `n` levels deep and every item of it can be
reached by `Delete`, with room in the reference count of every child. -/
def World.good (w : World) : Nat → Nat → Bool
  | 0, _ => false
  | n + 1, id => w.nodeOK id && (w.listed id).all fun k => w.kidOK id k && World.good w n k

/-- The persisted row of every resident item has the location of the instance. -/
def RowsAgree (w : World) : Prop :=
  ∀ k p x, mapFind k w.m_items = some p → w.get p = some x →
    ∃ d, mapFind k w.rows = some d ∧ d.locationID = x.m_locationID

/-- A check of `RowsAgree` that can be evaluated. -/
def rowsAgreeB (w : World) : Bool :=
  w.m_items.all fun e =>
    match w.get e.2 with
    | some x =>
      match mapFind e.1 w.rows with
      | some d => decide (d.locationID = x.m_locationID)
      | none => false
    | none => true

/-- The invariants of a world in which subtrees are loaded and deleted: the cache entries
are live, the resident containers mirror their resident children, the persisted rows have
the locations of the resident items and are in key order. -/
structure Sound (w : World) : Prop where
  live : CacheLive w
  mirrors : Mirrors w
  agree : RowsAgree w
  keyed : mapSorted w.rows

/-- The world `w'` is `w` after items of `T` were loaded (made resident, with their contents
loaded): the database is untouched, the cache has gained entries for items of `T` only, at
new addresses, and every instance of `w` that is neither at the address `e` nor the
resident instance of an item of `T` is as it was. -/
structure World.grown (w' w : World) (T : List Nat) (e : Nat) : Prop where
  rows : w'.rows = w.rows
  bpRows : w'.bpRows = w.bpRows
  attrRows : w'.attrRows = w.attrRows
  types : w'.types = w.types
  attrFails : w'.attrLoadFails = w.attrLoadFails
  queryFails : w'.contentsQueryFails = w.contentsQueryFails
  addr : w.nextAddr ≤ w'.nextAddr
  cache_out : ∀ k, k ∉ T → mapFind k w'.m_items = mapFind k w.m_items
  cache_in : ∀ k p, mapFind k w.m_items = some p → mapFind k w'.m_items = some p
  cache_new : ∀ k p, mapFind k w'.m_items = some p →
    mapFind k w.m_items = some p ∨ w.nextAddr ≤ p
  frame : ∀ q x, w.get q = some x → q ≠ e → (∀ k ∈ T, mapFind k w.m_items ≠ some q) →
    w'.get q = some x

/-- The world `w'` is `w` after the items `T`, the subtree of the item of the instance `ib`,
were deleted: their cache entries, rows and attribute rows are gone and those of the other
items are as they were; every instance of `w` that is not the resident instance of an item
of `T` is as it was, but for the map of the resident container of the item, which has lost
the entry of the item. -/
structure World.removed (w' w : World) (T : List Nat) (ib : InventoryItem) : Prop where
  frame : ∀ q x, w.get q = some x → (∀ k ∈ T, mapFind k w.m_items ≠ some q) →
    w'.get q = some
      { x with
        m_contents :=
          if w.loaded ib.m_locationID = some q then mapErase ib.m_itemID x.m_contents
          else x.m_contents }
  cache : ∀ k, mapFind k w'.m_items = if k ∈ T then none else mapFind k w.m_items
  rows : w'.rows = w.rows.filter fun e => decide (e.1 ∉ T)
  attrRows : w'.attrRows = w.attrRows.filter fun e => decide (e.1 ∉ T)
  bpRows : ∀ k, k ∉ T → mapFind k w'.bpRows = mapFind k w.bpRows
  types : w'.types = w.types
  attrFails : w'.attrLoadFails = w.attrLoadFails
  queryFails : w'.contentsQueryFails = w.contentsQueryFails

/-- The world `w'` is `w` after the items `T`, children of the item of the instance at `e`
with their subtrees, were deleted: their cache entries, rows and attribute rows are gone and
those of the other items are as they were; every instance of `w` that is neither at `e` nor
the resident instance of an item of `T` is as it was. -/
structure World.pruned (w' w : World) (T : List Nat) (e : Nat) : Prop where
  frame : ∀ q x, w.get q = some x → q ≠ e → (∀ k ∈ T, mapFind k w.m_items ≠ some q) →
    w'.get q = some x
  cache : ∀ k, mapFind k w'.m_items = if k ∈ T then none else mapFind k w.m_items
  rows : w'.rows = w.rows.filter fun e => decide (e.1 ∉ T)
  attrRows : w'.attrRows = w.attrRows.filter fun e => decide (e.1 ∉ T)
  bpRows : ∀ k, k ∉ T → mapFind k w'.bpRows = mapFind k w.bpRows
  types : w'.types = w.types
  attrFails : w'.attrLoadFails = w.attrLoadFails
  queryFails : w'.contentsQueryFails = w.contentsQueryFails

/-! ## Example worlds with stored children -/

/-- The container 60 at address 3 is resident with its contents not loaded, held by the cache
and by one caller; the database lists the container 61 as its child and the stack 100 as the
child of the container 61, and neither of the two is resident. -/
def exStored : World :=
  { heap := [(3, { exContainer 2 60 [] with m_contentsLoaded := false })],
    nextAddr := 4, m_items := [(60, 3)],
    types := [(27, ⟨2, "Hangar"⟩), (34, ⟨4, "Tritanium"⟩)],
    rows := [(60, (exContainer 2 60 []).toData),
      (61, ({ exContainer 2 61 [] with m_locationID := 60 } : InventoryItem).toData),
      (100, ({ exStack 2 100 5 with m_locationID := 61 } : InventoryItem).toData)],
    bpRows := [], attrRows := [(60, [(9, 1)]), (100, [])], nextItemID := 102, insertOk := true,
    attrLoadFails := [], contentsQueryFails := [], online := [], sent := [], fetched := [] }

/-- The world `exWorld 5 3` with one more row in the database: the item 200, a stack of the
catalogued type 34 located in the item 101, which is not resident and can be loaded. -/
def exParcel : World :=
  { exWorld 5 3 with
    rows := [(100, (exStack 2 100 5).toData), (101, (exStack 2 101 3).toData),
      (200, { (exStack 2 200 1).toData with locationID := 101 })] }

/-- The world `exCargo 4 4 4` with one more row in the database: the item 200, a stack of the
catalogued type 34 located in the stack 101, which is not resident and can be loaded. -/
def exCrate : World :=
  { exCargo 4 4 4 with
    rows := [(60, (exContainer 1 60 []).toData), (100, (exStackAt 2 100 5 4).toData),
      (101, (exStackAt 2 101 3 4).toData), (102, (exStackAt 2 102 2 4).toData),
      (200, { (exStack 2 200 1).toData with locationID := 101 })] }


/-! ## Lemmas on maps -/

theorem mapFind_mapInsert {α : Type} (k k' : Nat) (v : α) (m : AMap α) :
    mapFind k' (mapInsert k v m) = if k' = k then some v else mapFind k' m := by
  induction m with
  | nil =>
    by_cases h : k' = k
    · simp [mapInsert, mapFind, h]
    · have h' : ¬ k = k' := fun e => h e.symm
      simp [mapInsert, mapFind, h, h']
  | cons e t ih =>
    obtain ⟨k0, v0⟩ := e
    by_cases h1 : k < k0
    · by_cases h : k' = k
      · simp [mapInsert, mapFind, h1, h]
      · have h' : ¬ k = k' := fun e => h e.symm
        simp [mapInsert, mapFind, h1, h, h']
    · by_cases h2 : k = k0
      · subst h2
        by_cases h : k' = k
        · simp [mapInsert, mapFind, h]
        · have h' : ¬ k = k' := fun e => h e.symm
          simp [mapInsert, mapFind, h, h']
      · by_cases h : k' = k
        · subst h
          have h3 : ¬ k0 = k' := fun e => h2 e.symm
          simp [mapInsert, mapFind, h1, h2, h3, ih]
        · simp [mapInsert, mapFind, h1, h2, h, ih]

theorem mapFind_mapErase {α : Type} (k k' : Nat) (m : AMap α) :
    mapFind k' (mapErase k m) = if k' = k then none else mapFind k' m := by
  induction m with
  | nil => simp [mapErase, mapFind]
  | cons e t ih =>
    obtain ⟨k0, v0⟩ := e
    by_cases h0 : k0 = k
    · subst h0
      by_cases h : k' = k0
      · subst h
        simpa [mapErase, mapFind] using ih
      · have h' : ¬ k0 = k' := fun e => h e.symm
        simp [mapErase, mapFind, h, h', ih]
    · by_cases h : k' = k
      · subst h
        simp [mapErase, mapFind, h0, ih]
      · simp [mapErase, mapFind, h0, h, ih]

/-! ## Lemmas on the heap -/

theorem World.get_guard {w : World} {p : Nat} {it : InventoryItem} (h : w.get p = some it) :
    0 < p ∧ p < w.nextAddr := by
  unfold World.get at h
  by_cases hg : 0 < p ∧ p < w.nextAddr
  · exact hg
  · simp [hg] at h

theorem World.get_set (w : World) (p q : Nat) (it : InventoryItem) :
    (w.set p it).get q =
      if q = p then (if 0 < p ∧ p < w.nextAddr then some it else none) else w.get q := by
  unfold World.get World.set
  by_cases h : q = p
  · subst h
    simp [mapFind_mapInsert]
  · simp [mapFind_mapInsert, h]

theorem World.get_set_live {w : World} {p : Nat} {it0 : InventoryItem} (h : w.get p = some it0)
    (q : Nat) (it : InventoryItem) :
    (w.set p it).get q = if q = p then some it else w.get q := by
  rw [World.get_set]
  simp [World.get_guard h]

theorem World.get_free (w : World) (p q : Nat) :
    (w.free p).get q = if q = p then none else w.get q := by
  unfold World.get World.free
  by_cases h : q = p
  · subst h
    simp [mapFind_mapErase]
  · simp [mapFind_mapErase, h]

theorem World.get_fresh (w : World) : w.get (max w.nextAddr 1) = none := by
  unfold World.get
  have : ¬ (max w.nextAddr 1 < w.nextAddr) := by omega
  simp [this]

theorem World.get_alloc (w : World) (it : InventoryItem) (q : Nat) :
    (w.alloc it).2.get q = if q = max w.nextAddr 1 then some it else w.get q := by
  unfold World.get World.alloc
  by_cases h : q = max w.nextAddr 1
  · subst h
    have h1 : 0 < max w.nextAddr 1 := by omega
    simp [mapFind_mapInsert, h1]
  · by_cases hg : 0 < q ∧ q < w.nextAddr
    · have hg' : 0 < q ∧ q < max w.nextAddr 1 + 1 := by omega
      simp [mapFind_mapInsert, h, hg, hg']
    · have hg' : ¬ (0 < q ∧ q < max w.nextAddr 1 + 1) := by omega
      simp [h, hg, hg']


/-! ## The frame relation -/

theorem Keeps.refl {α : Type} (f : InventoryItem → α) (w : World) : Keeps f w w :=
  ⟨le_refl _, fun _ it' _ h => ⟨it', h, rfl⟩⟩

theorem Keeps.trans {α : Type} {f : InventoryItem → α} {w1 w2 w3 : World}
    (h12 : Keeps f w1 w2) (h23 : Keeps f w2 w3) : Keeps f w1 w3 := by
  refine ⟨le_trans h12.1 h23.1, fun p it3 hp h3 => ?_⟩
  obtain ⟨it2, h2, e23⟩ := h23.2 p it3 (lt_of_lt_of_le hp h12.1) h3
  obtain ⟨it1, h1, e12⟩ := h12.2 p it2 hp h2
  exact ⟨it1, h1, e23.trans e12⟩

theorem Keeps.of_heap {α : Type} (f : InventoryItem → α) {w w' : World}
    (hh : w'.heap = w.heap) (hn : w'.nextAddr = w.nextAddr) : Keeps f w w' := by
  refine ⟨le_of_eq hn.symm, fun p it' _ h => ⟨it', ?_, rfl⟩⟩
  unfold World.get at h ⊢
  rw [hh, hn] at h
  exact h

theorem Keeps.set {α : Type} {f : InventoryItem → α} {w : World} {p : Nat}
    {it it' : InventoryItem} (h : w.get p = some it) (hf : f it' = f it) :
    Keeps f w (w.set p it') := by
  refine ⟨le_refl _, fun q iq _ hq => ?_⟩
  rw [World.get_set_live h] at hq
  by_cases e : q = p
  · subst e
    simp at hq
    subst hq
    exact ⟨it, h, hf⟩
  · simp [e] at hq
    exact ⟨iq, hq, rfl⟩

theorem Keeps.free {α : Type} (f : InventoryItem → α) (w : World) (p : Nat) :
    Keeps f w (w.free p) := by
  refine ⟨le_refl _, fun q iq _ hq => ?_⟩
  rw [World.get_free] at hq
  by_cases e : q = p
  · simp [e] at hq
  · simp [e] at hq
    exact ⟨iq, hq, rfl⟩

theorem Keeps.alloc {α : Type} (f : InventoryItem → α) (w : World) (it : InventoryItem) :
    Keeps f w (w.alloc it).2 := by
  refine ⟨?_, fun q iq hlt hq => ?_⟩
  · show w.nextAddr ≤ max w.nextAddr 1 + 1
    omega
  · rw [World.get_alloc] at hq
    have e : ¬ q = max w.nextAddr 1 := by omega
    simp [e] at hq
    exact ⟨iq, hq, rfl⟩

theorem Keeps.foldlM {α β : Type} {f : InventoryItem → α} (g : World → β → Option World)
    (hg : ∀ a x b, g a x = some b → Keeps f a b) :
    ∀ (l : List β) (a b : World), l.foldlM g a = some b → Keeps f a b := by
  intro l
  induction l with
  | nil =>
    intro a b h
    simp at h
    subst h
    exact Keeps.refl f a
  | cons x t ih =>
    intro a b h
    simp [List.foldlM_cons, Option.bind_eq_some] at h
    obtain ⟨a1, h1, h2⟩ := h
    exact (hg a x a1 h1).trans (ih a1 b h2)

theorem Ref_keeps {α : Type} {f : InventoryItem → α} (hrc : IgnRc f) {p r : Nat} {w w' : World}
    (h : InventoryItem.Ref p w = some (r, w')) : Keeps f w w' := by
  unfold InventoryItem.Ref at h
  by_cases h0 : p = 0
  · simp [h0] at h
    rw [← h.2]
    exact Keeps.refl f w
  · simp only [h0, if_false] at h
    cases hg : w.get p with
    | none => simp [hg] at h
    | some it =>
      simp only [hg] at h
      by_cases h1 : it.m_refCount < 1
      · simp [h1] at h
        rw [← h.2]
        exact Keeps.refl f w
      · simp [h1] at h
        rw [← h.2]
        exact Keeps.set hg (hrc it _)

theorem Release_keeps {α : Type} {f : InventoryItem → α} (hrc : IgnRc f) :
    ∀ (fuel p : Nat) (w w' : World), InventoryItem.Release fuel p w = some w' → Keeps f w w' := by
  intro fuel
  induction fuel with
  | zero =>
    intro p w w' h
    unfold InventoryItem.Release at h
    by_cases h0 : p = 0
    · simp [h0] at h
      rw [← h]
      exact Keeps.refl f w
    · simp only [h0, if_false] at h
      cases hg : w.get p with
      | none => simp [hg] at h
      | some it =>
        simp only [hg] at h
        by_cases h1 : it.m_refCount < 1
        · simp [h1] at h
          rw [← h]
          exact Keeps.refl f w
        · by_cases h2 : it.m_refCount - 1 = 0
          · simp [h1, h2] at h
          · simp [h1, h2] at h
            rw [← h]
            exact Keeps.set hg (hrc it _)
  | succ n ih =>
    intro p w w' h
    unfold InventoryItem.Release at h
    by_cases h0 : p = 0
    · simp [h0] at h
      rw [← h]
      exact Keeps.refl f w
    · simp only [h0, if_false] at h
      cases hg : w.get p with
      | none => simp [hg] at h
      | some it =>
        simp only [hg] at h
        by_cases h1 : it.m_refCount < 1
        · simp [h1] at h
          rw [← h]
          exact Keeps.refl f w
        · by_cases h2 : it.m_refCount - 1 = 0
          · simp only [h1, h2, if_true, if_false, Option.map_eq_some'] at h
            obtain ⟨w2, hfold, hw'⟩ := h
            rw [← hw']
            have k1 : Keeps f w (w.set p { it with m_refCount := 0 }) :=
              Keeps.set hg (hrc it _)
            have k2 := Keeps.foldlM (fun acc (e : Nat × Nat) => InventoryItem.Release n e.2 acc)
              (fun a x b hb => ih x.2 a b hb) _ _ _ hfold
            exact (k1.trans k2).trans (Keeps.free f w2 p)
          · simp [h1, h2] at h
            rw [← h]
            exact Keeps.set hg (hrc it _)


/-! ## Saving and notifying -/

theorem SaveItem_heap (id : Nat) (d : ItemData) (w : World) :
    (ItemDB.SaveItem id d w).heap = w.heap ∧ (ItemDB.SaveItem id d w).nextAddr = w.nextAddr := by
  unfold ItemDB.SaveItem
  cases mapFind id w.rows <;> simp

theorem SaveBlueprint_heap (id : Nat) (d : BlueprintData) (w : World) :
    (ItemDB.SaveBlueprint id d w).heap = w.heap ∧
      (ItemDB.SaveBlueprint id d w).nextAddr = w.nextAddr := by
  unfold ItemDB.SaveBlueprint
  cases mapFind id w.bpRows <;> simp

theorem saved_heap (w : World) (it : InventoryItem) :
    (w.saved it).heap = w.heap ∧ (w.saved it).nextAddr = w.nextAddr := by
  unfold World.saved
  cases it.bp with
  | none => exact SaveItem_heap _ _ _
  | some b =>
    exact ⟨(SaveBlueprint_heap _ _ _).1.trans (SaveItem_heap _ _ _).1,
      (SaveBlueprint_heap _ _ _).2.trans (SaveItem_heap _ _ _).2⟩

theorem saved_m_items (w : World) (it : InventoryItem) : (w.saved it).m_items = w.m_items := by
  unfold World.saved ItemDB.SaveItem ItemDB.SaveBlueprint
  cases it.bp <;> simp <;> split <;> (try split) <;> rfl

theorem get_of_heap {w w' : World} (hh : w'.heap = w.heap) (hn : w'.nextAddr = w.nextAddr)
    (p : Nat) : w'.get p = w.get p := by
  unfold World.get
  rw [hh, hn]

theorem get_saved (w : World) (it : InventoryItem) (p : Nat) : (w.saved it).get p = w.get p :=
  get_of_heap (saved_heap w it).1 (saved_heap w it).2 p

theorem Save_false {w : World} {this : Nat} {it : InventoryItem} (h : w.get this = some it)
    (fuel : Nat) (sa : Bool) :
    InventoryItem.Save fuel this false sa w = some (w.saved it) := by
  unfold InventoryItem.Save World.saved
  simp only [h]
  cases it.bp <;> simp

theorem Save_false_none {w : World} {this : Nat} (h : w.get this = none)
    (fuel : Nat) (sa : Bool) :
    InventoryItem.Save fuel this false sa w = none := by
  unfold InventoryItem.Save
  simp only [h]

theorem SendItemChange_heap {this toID : Nat} {ch ch' : Changes} {w w' : World}
    (h : InventoryItem.SendItemChange this toID ch w = some (ch', w')) :
    w'.heap = w.heap ∧ w'.nextAddr = w.nextAddr := by
  unfold InventoryItem.SendItemChange at h
  by_cases ho : toID ∈ w.online
  · simp only [ho, if_true] at h
    cases hg : w.get this with
    | none => simp [hg] at h
    | some it =>
      simp [hg] at h
      rw [← h.2]
      exact ⟨rfl, rfl⟩
  · simp [ho] at h
    rw [← h.2]
    exact ⟨rfl, rfl⟩

theorem SendItemChange_m_items {this toID : Nat} {ch ch' : Changes} {w w' : World}
    (h : InventoryItem.SendItemChange this toID ch w = some (ch', w')) :
    w'.m_items = w.m_items := by
  unfold InventoryItem.SendItemChange at h
  by_cases ho : toID ∈ w.online
  · simp only [ho, if_true] at h
    cases hg : w.get this with
    | none => simp [hg] at h
    | some it =>
      simp [hg] at h
      rw [← h.2]
  · simp [ho] at h
    rw [← h.2]

theorem SendItemChange_live {w : World} {this : Nat} {it : InventoryItem}
    (h : w.get this = some it) (toID : Nat) (ch : Changes) :
    ∃ ch' w', InventoryItem.SendItemChange this toID ch w = some (ch', w') := by
  unfold InventoryItem.SendItemChange
  by_cases ho : toID ∈ w.online
  · simp [ho, h]
  · simp [ho]

/-! ## Frame lemmas of the containment primitives -/

theorem GetIfContentsLoaded_keeps {α : Type} {f : InventoryItem → α} (hrc : IgnRc f)
    {id r : Nat} {w w' : World}
    (h : ItemFactory._GetIfContentsLoaded id w = some (r, w')) : Keeps f w w' := by
  unfold ItemFactory._GetIfContentsLoaded at h
  cases hc : mapFind id w.m_items with
  | none =>
    simp [hc] at h
    rw [← h.2]
    exact Keeps.refl f w
  | some p =>
    simp only [hc] at h
    cases hg : w.get p with
    | none => simp [hg] at h
    | some it =>
      simp only [hg] at h
      by_cases hl : it.m_contentsLoaded = true
      · simp only [hl, if_true] at h
        exact Ref_keeps hrc h
      · simp [hl] at h
        rw [← h.2]
        exact Keeps.refl f w

theorem AddContainedItem_keeps {α : Type} {f : InventoryItem → α} (hrc : IgnRc f)
    (hc : IgnContents f) {this it : Nat} {w w' : World}
    (h : InventoryItem.AddContainedItem this it w = some w') : Keeps f w w' := by
  unfold InventoryItem.AddContainedItem at h
  cases hg1 : w.get this with
  | none => simp [hg1] at h
  | some c =>
    cases hg2 : w.get it with
    | none => simp [hg1, hg2] at h
    | some i =>
      simp only [hg1, hg2] at h
      cases hf : mapFind i.m_itemID c.m_contents with
      | some x =>
        simp [hf] at h
        rw [← h]
        exact Keeps.refl f w
      | none =>
        simp only [hf] at h
        cases hr : InventoryItem.Ref it w with
        | none => simp [hr] at h
        | some rw1 =>
          obtain ⟨r, w1⟩ := rw1
          simp only [hr] at h
          cases hg3 : w1.get this with
          | none => simp [hg3] at h
          | some c1 =>
            simp [hg3] at h
            rw [← h]
            exact (Ref_keeps hrc hr).trans (Keeps.set hg3 (hc c1 _))

theorem RemoveContainedItem_keeps {α : Type} {f : InventoryItem → α} (hrc : IgnRc f)
    (hc : IgnContents f) {fuel this it : Nat} {w w' : World}
    (h : InventoryItem.RemoveContainedItem fuel this it w = some w') : Keeps f w w' := by
  unfold InventoryItem.RemoveContainedItem at h
  cases hg1 : w.get this with
  | none => simp [hg1] at h
  | some c =>
    cases hg2 : w.get it with
    | none => simp [hg1, hg2] at h
    | some i =>
      simp only [hg1, hg2] at h
      cases hf : mapFind i.m_itemID c.m_contents with
      | none =>
        simp [hf] at h
        rw [← h]
        exact Keeps.refl f w
      | some old_inst =>
        simp only [hf] at h
        cases hr : InventoryItem.Release fuel old_inst w with
        | none => simp [hr] at h
        | some w1 =>
          simp only [hr] at h
          cases hg3 : w1.get this with
          | none => simp [hg3] at h
          | some c1 =>
            simp [hg3] at h
            rw [← h]
            exact (Release_keeps hrc _ _ _ _ hr).trans (Keeps.set hg3 (hc c1 _))


/-- Inversion of a successful `Move`. -/
theorem Move_inv {fuel this location new_flag : Nat} {notify : Bool} {w w' : World}
    (h : InventoryItem.Move fuel this location new_flag notify w = some w') :
    ∃ me, w.get this = some me ∧
      ((location = me.m_locationID ∧ new_flag = me.m_flag ∧ w' = w) ∨
       (¬ (location = me.m_locationID ∧ new_flag = me.m_flag) ∧
        ∃ oc w1 w2 nc w3 w4 me4,
          ItemFactory._GetIfContentsLoaded me.m_locationID w = some (oc, w1) ∧
          (if oc ≠ 0 then
              (InventoryItem.RemoveContainedItem fuel oc this w1).bind
                (InventoryItem.Release fuel oc)
            else some w1) = some w2 ∧
          ItemFactory._GetIfContentsLoaded location w2 = some (nc, w3) ∧
          (if nc ≠ 0 then
              (InventoryItem.AddContainedItem nc this w3).bind (InventoryItem.Release fuel nc)
            else some w3) = some w4 ∧
          w4.get this = some me4 ∧
          w'.heap = (w4.set this { me4 with m_locationID := location, m_flag := new_flag }).heap ∧
          w'.nextAddr = w4.nextAddr ∧ w'.m_items = w4.m_items)) := by
  unfold InventoryItem.Move at h
  cases hme : w.get this with
  | none => simp [hme] at h
  | some me =>
    refine ⟨me, rfl, ?_⟩
    simp only [hme] at h
    by_cases hc : location = me.m_locationID ∧ new_flag = me.m_flag
    · simp only [hc, and_self, if_true, Option.some.injEq] at h
      exact Or.inl ⟨hc.1, hc.2, h.symm⟩
    · right
      refine ⟨hc, ?_⟩
      simp only [hc, if_false, Option.bind_eq_some] at h
      obtain ⟨w2, ⟨⟨oc, w1⟩, h1, h2⟩, w4, ⟨⟨nc, w3⟩, h3, h4⟩, me4, h5, w6, h6, h7⟩ := h
      refine ⟨oc, w1, w2, nc, w3, w4, me4, h1, h2, h3, h4, h5, ?_⟩
      have hlive : (w4.set this { me4 with m_locationID := location, m_flag := new_flag }).get this
          = some { me4 with m_locationID := location, m_flag := new_flag } := by
        rw [World.get_set_live h5]; simp
      rw [Save_false hlive] at h6
      simp only [Option.some.injEq] at h6
      have e6 := saved_heap (w4.set this { me4 with m_locationID := location, m_flag := new_flag })
        { me4 with m_locationID := location, m_flag := new_flag }
      rw [h6] at e6
      have e6m : w6.m_items = w4.m_items := by
        rw [← h6]; exact saved_m_items _ _
      cases notify with
      | true =>
        simp only [if_true, Option.map_eq_some'] at h7
        obtain ⟨⟨ch, w7⟩, h7, e7⟩ := h7
        simp only at e7
        subst e7
        have e7 := SendItemChange_heap h7
        exact ⟨e7.1.trans e6.1, e7.2.trans e6.2, (SendItemChange_m_items h7).trans e6m⟩
      | false =>
        simp only [Bool.false_eq_true, if_false, Option.some.injEq] at h7
        subst h7
        exact ⟨e6.1, e6.2, e6m⟩

theorem Move_keeps {α : Type} {f : InventoryItem → α} (hrc : IgnRc f) (hc : IgnContents f)
    (hl : IgnLoc f) {fuel this location new_flag : Nat} {notify : Bool} {w w' : World}
    (h : InventoryItem.Move fuel this location new_flag notify w = some w') : Keeps f w w' := by
  obtain ⟨me, hme, h⟩ := Move_inv h
  rcases h with ⟨_, _, e⟩ | ⟨_, oc, w1, w2, nc, w3, w4, me4, h1, h2, h3, h4, h5, e1, e2, _⟩
  · rw [e]; exact Keeps.refl f w
  · have k1 := GetIfContentsLoaded_keeps hrc h1 (f := f)
    have k2 : Keeps f w1 w2 := by
      by_cases ho : oc ≠ 0
      · simp only [ho, if_true, ne_eq, not_false_eq_true, Option.bind_eq_some] at h2
        obtain ⟨wa, ha, hb⟩ := h2
        exact (RemoveContainedItem_keeps hrc hc ha).trans (Release_keeps hrc _ _ _ _ hb)
      · simp only [ho, if_false, Option.some.injEq] at h2
        rw [← h2]; exact Keeps.refl f w1
    have k3 := GetIfContentsLoaded_keeps hrc h3 (f := f)
    have k4 : Keeps f w3 w4 := by
      by_cases ho : nc ≠ 0
      · simp only [ho, if_true, ne_eq, not_false_eq_true, Option.bind_eq_some] at h4
        obtain ⟨wa, ha, hb⟩ := h4
        exact (AddContainedItem_keeps hrc hc ha).trans (Release_keeps hrc _ _ _ _ hb)
      · simp only [ho, if_false, Option.some.injEq] at h4
        rw [← h4]; exact Keeps.refl f w3
    have k5 : Keeps f w4 (w4.set this { me4 with m_locationID := location, m_flag := new_flag }) :=
      Keeps.set h5 (hl me4 _ _)
    have k6 : Keeps f (w4.set this { me4 with m_locationID := location, m_flag := new_flag }) w' :=
      Keeps.of_heap f e1 e2
    exact (((((k1.trans k2).trans k3).trans k4).trans k5).trans k6)


/-! ## The simple mutators -/

theorem World.updates.get {w' w : World} {this : Nat} {it it' : InventoryItem}
    (h : w'.updates w this it') (hl : w.get this = some it) (q : Nat) :
    w'.get q = if q = this then some it' else w.get q := by
  rw [get_of_heap h.1 (by rw [h.2.1]; rfl) q, World.get_set_live hl]

theorem World.updates.keeps {α : Type} {f : InventoryItem → α} {w' w : World} {this : Nat}
    {it it' : InventoryItem} (h : w'.updates w this it') (hl : w.get this = some it)
    (hf : f it' = f it) : Keeps f w w' :=
  (Keeps.set hl hf).trans (Keeps.of_heap f h.1 (by rw [h.2.1]; rfl))

/-- The shape shared by the mutators that write one member, save and notify. -/
theorem save_notify_updates {β : Type} {w : World} {this : Nat} {it it' : InventoryItem}
    (hl : w.get this = some it) (notify : Bool) (toID : Nat) (ch : Changes)
    (g : Changes × World → β) (g' : World → β) (r : β)
    (h : ((InventoryItem.Save 0 this false false (w.set this it')).bind fun w2 =>
        if notify then (InventoryItem.SendItemChange this toID ch w2).map g
        else some (g' w2)) = some r) :
    ∃ w2, (w.set this it').saved it' = w2 ∧
      ((notify = true ∧ ∃ ch' w3, InventoryItem.SendItemChange this toID ch w2 = some (ch', w3) ∧
          r = g (ch', w3) ∧ w3.updates w this it') ∨
       (notify = false ∧ r = g' w2 ∧ w2.updates w this it')) := by
  have hlive : (w.set this it').get this = some it' := by
    rw [World.get_set_live hl]; simp
  rw [Save_false hlive] at h
  simp only [Option.some_bind] at h
  refine ⟨_, rfl, ?_⟩
  have e := saved_heap (w.set this it') it'
  have em := saved_m_items (w.set this it') it'
  cases notify with
  | true =>
    left
    simp only [if_true, Option.map_eq_some'] at h
    obtain ⟨⟨ch', w3⟩, h3, e3⟩ := h
    refine ⟨rfl, ch', w3, h3, e3.symm, ?_⟩
    have e7 := SendItemChange_heap h3
    exact ⟨e7.1.trans e.1, e7.2.trans e.2, (SendItemChange_m_items h3).trans em⟩
  | false =>
    right
    simp only [Bool.false_eq_true, if_false, Option.some.injEq] at h
    exact ⟨rfl, h.symm, e.1, e.2, em⟩

theorem ChangeFlag_inv {this new_flag : Nat} {notify : Bool} {w w' : World}
    (h : InventoryItem.ChangeFlag this new_flag notify w = some w') :
    ∃ me, w.get this = some me ∧
      (w' = w ∨ w'.updates w this { me with m_flag := new_flag }) := by
  unfold InventoryItem.ChangeFlag at h
  cases hme : w.get this with
  | none => simp [hme] at h
  | some me =>
    refine ⟨me, rfl, ?_⟩
    simp only [hme] at h
    by_cases hc : new_flag = me.m_flag
    · simp only [hc, if_true, Option.some.injEq] at h
      exact Or.inl h.symm
    · simp only [hc, if_false] at h
      obtain ⟨w2, _, h2⟩ := save_notify_updates hme notify _ _ Prod.snd id w' h
      rcases h2 with ⟨_, ch', w3, _, e, hu⟩ | ⟨_, e, hu⟩
      · right; rw [e]; exact hu
      · right; rw [e]; exact hu

theorem SetQuantity_inv {this qty_new : Nat} {notify : Bool} {w : World} {r : Bool × World}
    (h : InventoryItem.SetQuantity this qty_new notify w = some r) :
    ∃ me, w.get this = some me ∧
      ((me.m_singleton = true ∧ r = (false, w)) ∨
       (me.m_singleton = false ∧ r.1 = true ∧
          r.2.updates w this { me with m_quantity := qty_new })) := by
  unfold InventoryItem.SetQuantity at h
  cases hme : w.get this with
  | none => simp [hme] at h
  | some me =>
    refine ⟨me, rfl, ?_⟩
    simp only [hme] at h
    by_cases hc : me.m_singleton = true
    · rw [if_pos hc] at h
      simp only [Option.some.injEq] at h
      exact Or.inl ⟨hc, h.symm⟩
    · rw [if_neg hc] at h
      have hc' : me.m_singleton = false := by simpa using hc
      obtain ⟨w2, _, h2⟩ := save_notify_updates hme notify _ _
        (fun r => (true, r.2)) (fun w2 => (true, w2)) r h
      rcases h2 with ⟨_, ch', w3, _, e, hu⟩ | ⟨_, e, hu⟩
      · right; rw [e]; exact ⟨hc', rfl, hu⟩
      · right; rw [e]; exact ⟨hc', rfl, hu⟩

theorem AlterQuantity_inv {this : Nat} {qty_change : Int} {notify : Bool} {w : World}
    {r : Bool × World} (h : InventoryItem.AlterQuantity this qty_change notify w = some r) :
    ∃ me, w.get this = some me ∧
      ((qty_change = 0 ∧ r = (true, w)) ∨
       (qty_change ≠ 0 ∧ toInt32 ((me.m_quantity : Int) + qty_change) < 0 ∧ r = (false, w)) ∨
       (qty_change ≠ 0 ∧ ¬ toInt32 ((me.m_quantity : Int) + qty_change) < 0 ∧
          me.m_singleton = true ∧ r = (false, w)) ∨
       (qty_change ≠ 0 ∧ ¬ toInt32 ((me.m_quantity : Int) + qty_change) < 0 ∧
          me.m_singleton = false ∧ r.1 = true ∧
          r.2.updates w this
            { me with m_quantity := toUint32 (toInt32 ((me.m_quantity : Int) + qty_change)) })) := by
  unfold InventoryItem.AlterQuantity at h
  cases hme : w.get this with
  | none => simp [hme] at h
  | some me =>
    refine ⟨me, rfl, ?_⟩
    simp only [hme] at h
    by_cases h0 : qty_change = 0
    · simp only [h0, if_true, Option.some.injEq] at h
      exact Or.inl ⟨h0, h.symm⟩
    · simp only [h0, if_false] at h
      by_cases h1 : toInt32 ((me.m_quantity : Int) + qty_change) < 0
      · simp only [h1, if_true, Option.some.injEq] at h
        exact Or.inr (Or.inl ⟨h0, h1, h.symm⟩)
      · simp only [h1, if_false] at h
        obtain ⟨me', hme', h2⟩ := SetQuantity_inv h
        rw [hme] at hme'
        simp only [Option.some.injEq] at hme'
        subst hme'
        rcases h2 with ⟨hs, e⟩ | ⟨hs, e1, hu⟩
        · exact Or.inr (Or.inr (Or.inl ⟨h0, h1, hs, e⟩))
        · exact Or.inr (Or.inr (Or.inr ⟨h0, h1, hs, e1, hu⟩))

theorem ChangeSingleton_inv {this : Nat} {new_singleton notify : Bool} {w : World}
    {r : Bool × World} (h : InventoryItem.ChangeSingleton this new_singleton notify w = some r) :
    ∃ me, w.get this = some me ∧ r.1 = true ∧
      (r.2 = w ∨ r.2.updates w this { me with m_singleton := new_singleton }) := by
  unfold InventoryItem.ChangeSingleton at h
  cases hme : w.get this with
  | none => simp [hme] at h
  | some me =>
    refine ⟨me, rfl, ?_⟩
    simp only [hme] at h
    by_cases hc : new_singleton = me.m_singleton
    · simp only [hc, if_true, Option.some.injEq] at h
      rw [← h]; exact ⟨rfl, Or.inl rfl⟩
    · simp only [hc, if_false] at h
      obtain ⟨w2, _, h2⟩ := save_notify_updates hme notify _ _
        (fun r => (true, r.2)) (fun w2 => (true, w2)) r h
      rcases h2 with ⟨_, ch', w3, _, e, hu⟩ | ⟨_, e, hu⟩
      · rw [e]; exact ⟨rfl, Or.inr hu⟩
      · rw [e]; exact ⟨rfl, Or.inr hu⟩

theorem ChangeOwner_inv {this new_owner : Nat} {notify : Bool} {w w' : World}
    (h : InventoryItem.ChangeOwner this new_owner notify w = some w') :
    ∃ me, w.get this = some me ∧
      (w' = w ∨ w'.updates w this { me with m_ownerID := new_owner }) := by
  unfold InventoryItem.ChangeOwner at h
  cases hme : w.get this with
  | none => simp [hme] at h
  | some me =>
    refine ⟨me, rfl, ?_⟩
    simp only [hme] at h
    by_cases hc : new_owner = me.m_ownerID
    · simp only [hc, if_true, Option.some.injEq] at h
      exact Or.inl h.symm
    · right
      simp only [hc, if_false] at h
      have hlive : (w.set this { me with m_ownerID := new_owner }).get this
          = some { me with m_ownerID := new_owner } := by
        rw [World.get_set_live hme]; simp
      rw [Save_false hlive] at h
      simp only [Option.some_bind] at h
      have e := saved_heap (w.set this { me with m_ownerID := new_owner })
        { me with m_ownerID := new_owner }
      have em := saved_m_items (w.set this { me with m_ownerID := new_owner })
        { me with m_ownerID := new_owner }
      cases notify with
      | true =>
        simp only [if_true, Option.bind_eq_some, Option.map_eq_some'] at h
        obtain ⟨⟨ch1, w3⟩, h3, ⟨ch2, w4⟩, h4, e4⟩ := h
        simp only at e4 h4
        subst e4
        have e3 := SendItemChange_heap h3
        have e4 := SendItemChange_heap h4
        exact ⟨e4.1.trans (e3.1.trans e.1), e4.2.trans (e3.2.trans e.2),
          (SendItemChange_m_items h4).trans ((SendItemChange_m_items h3).trans em)⟩
      | false =>
        simp only [Bool.false_eq_true, if_false, Option.some.injEq] at h
        subst h
        exact ⟨e.1, e.2, em⟩

theorem set_save_updates {w w' : World} {this : Nat} {it it' : InventoryItem}
    (hl : w.get this = some it)
    (h : InventoryItem.Save 0 this false false (w.set this it') = some w') :
    w'.updates w this it' := by
  have hlive : (w.set this it').get this = some it' := by
    rw [World.get_set_live hl]; simp
  rw [Save_false hlive] at h
  simp only [Option.some.injEq] at h
  subst h
  exact ⟨(saved_heap _ _).1, (saved_heap _ _).2, saved_m_items _ _⟩

theorem Rename_inv {this : Nat} {to_ : String} {w w' : World}
    (h : InventoryItem.Rename this to_ w = some w') :
    ∃ me, w.get this = some me ∧ w'.updates w this { me with m_itemName := to_ } := by
  unfold InventoryItem.Rename at h
  cases hme : w.get this with
  | none => simp [hme] at h
  | some me =>
    simp only [hme] at h
    exact ⟨me, rfl, set_save_updates hme h⟩

theorem SetCustomInfo_inv {this : Nat} {ci : Option String} {w w' : World}
    (h : InventoryItem.SetCustomInfo this ci w = some w') :
    ∃ me, w.get this = some me ∧
      w'.updates w this { me with m_customInfo := ci.getD "" } := by
  unfold InventoryItem.SetCustomInfo at h
  cases hme : w.get this with
  | none => simp [hme] at h
  | some me =>
    simp only [hme] at h
    exact ⟨me, rfl, set_save_updates hme h⟩

theorem Relocate_inv {this : Nat} {pos : GPoint} {w w' : World}
    (h : InventoryItem.Relocate this pos w = some w') :
    ∃ me, w.get this = some me ∧
      (w' = w ∨ w'.updates w this { me with m_position := pos }) := by
  unfold InventoryItem.Relocate at h
  cases hme : w.get this with
  | none => simp [hme] at h
  | some me =>
    refine ⟨me, rfl, ?_⟩
    simp only [hme] at h
    by_cases hc : me.m_position = pos
    · simp only [hc, if_true, Option.some.injEq] at h
      exact Or.inl h.symm
    · simp only [hc, if_false] at h
      exact Or.inr (set_save_updates hme h)


/-! ## Frame lemmas of loading and spawning -/

theorem Load_id_keeps {α : Type} (f : InventoryItem → α) (itemID : Nat) (w : World) :
    Keeps f w (InventoryItem._Load_id itemID w).2 := by
  unfold InventoryItem._Load_id
  cases ItemDB.GetItem itemID w with
  | none => exact Keeps.refl f w
  | some data =>
    simp only
    cases ItemFactory.GetType data.typeID w with
    | none => exact Keeps.refl f w
    | some type =>
      simp only
      unfold InventoryItem._Load_type
      by_cases hc : type.categoryID = invCategories_Blueprint
      · rw [if_pos hc]
        unfold BlueprintItem._Load_type
        cases ItemDB.GetBlueprint itemID w with
        | none => exact Keeps.refl f w
        | some b => exact Keeps.alloc f w _
      · rw [if_neg hc]
        exact Keeps.alloc f w _

theorem Blueprint_Load_id_keeps {α : Type} (f : InventoryItem → α) (itemID : Nat) (w : World) :
    Keeps f w (BlueprintItem._Load_id itemID w).2 := by
  unfold BlueprintItem._Load_id
  cases ItemDB.GetItem itemID w with
  | none => exact Keeps.refl f w
  | some data =>
    simp only
    cases ItemFactory.GetBlueprintType data.typeID w with
    | none => exact Keeps.refl f w
    | some type =>
      simp only
      unfold BlueprintItem._Load_type
      cases ItemDB.GetBlueprint itemID w with
      | none => exact Keeps.refl f w
      | some b => exact Keeps.alloc f w _

theorem attach_keeps {α : Type} {f : InventoryItem → α} (hrc : IgnRc f) (hc : IgnContents f)
    {fuel container this : Nat} {w1 w2 : World}
    (h : (if container ≠ 0 then
        (InventoryItem.AddContainedItem container this w1).bind
          (InventoryItem.Release fuel container)
      else some w1) = some w2) : Keeps f w1 w2 := by
  by_cases ho : container ≠ 0
  · rw [if_pos ho] at h
    simp only [Option.bind_eq_some] at h
    obtain ⟨wa, ha, hb⟩ := h
    exact (AddContainedItem_keeps hrc hc ha).trans (Release_keeps hrc _ _ _ _ hb)
  · rw [if_neg ho] at h
    simp only [Option.some.injEq] at h
    rw [← h]; exact Keeps.refl f w1

theorem load_family_keeps {α : Type} {f : InventoryItem → α} (hf : IgnAll f) : ∀ fuel : Nat,
    (∀ this r w res, InventoryItem.LoadContents fuel this r w = some res → Keeps f w res.2) ∧
    (∀ id r w res, ItemFactory.GetItem fuel id r w = some res → Keeps f w res.2) ∧
    (∀ id r w res, InventoryItem.Load fuel id r w = some res → Keeps f w res.2) ∧
    (∀ this r w res, InventoryItem._Load fuel this r w = some res → Keeps f w res.2) := by
  intro fuel
  induction fuel with
  | zero =>
    refine ⟨?_, ?_, ?_, ?_⟩ <;> intro a r w res h
    · simp [InventoryItem.LoadContents] at h
    · simp [ItemFactory.GetItem] at h
    · simp [InventoryItem.Load] at h
    · simp [InventoryItem._Load] at h
  | succ n ih =>
    obtain ⟨ihLC, ihGI, ihL, ih_L⟩ := ih
    refine ⟨?_, ?_, ?_, ?_⟩
    · -- LoadContents
      intro this r w res h
      rw [InventoryItem.LoadContents] at h
      cases hme : w.get this with
      | none => simp [hme] at h
      | some me =>
        simp only [hme] at h
        by_cases hl : me.m_contentsLoaded = true
        · rw [if_pos hl] at h
          simp only [Option.some.injEq] at h
          rw [← h]; exact Keeps.refl f w
        · rw [if_neg hl] at h
          have k0 : Keeps f w (ItemDB.GetItemContents me.m_itemID w).2 := Keeps.of_heap f rfl rfl
          generalize ItemDB.GetItemContents me.m_itemID w = qr at h k0
          obtain ⟨oids, w0⟩ := qr
          cases oids with
          | none =>
            simp only [Option.some.injEq] at h
            rw [← h]; exact k0
          | some ids =>
            simp only at h
            split at h
            · simp at h
            · rename_i w1 hfold
              have k1 : Keeps f w0 w1 := by
                refine Keeps.foldlM _ ?_ _ _ _ hfold
                intro a x b hb
                cases hg : ItemFactory.GetItem n x r a with
                | none => simp [hg] at hb
                | some iw =>
                  obtain ⟨i, a1⟩ := iw
                  simp only [hg] at hb
                  have kg := ihGI x r a (i, a1) hg
                  by_cases hi : i = 0
                  · rw [if_pos hi] at hb
                    simp only [Option.some.injEq] at hb
                    rw [← hb]; exact kg
                  · rw [if_neg hi] at hb
                    simp only [Option.bind_eq_some] at hb
                    obtain ⟨wa, ha, hb⟩ := hb
                    exact (kg.trans (AddContainedItem_keeps hf.rc hf.contents ha)).trans
                      (Release_keeps hf.rc _ _ _ _ hb)
              cases hme1 : w1.get this with
              | none => simp [hme1] at h
              | some me1 =>
                simp only [hme1, Option.some.injEq] at h
                rw [← h]
                exact k0.trans (k1.trans (Keeps.set hme1 (hf.loaded me1 _)))
    · -- GetItem
      intro id r w res h
      rw [ItemFactory.GetItem] at h
      cases hc : mapFind id w.m_items with
      | none =>
        simp only [hc] at h
        cases hL : InventoryItem.Load n id r w with
        | none => simp [hL] at h
        | some iw =>
          obtain ⟨i, w1⟩ := iw
          simp only [hL] at h
          have kL := ihL id r w (i, w1) hL
          by_cases hi : i = 0
          · rw [if_pos hi] at h
            simp only [Option.some.injEq] at h
            rw [← h]; exact kL
          · rw [if_neg hi] at h
            obtain ⟨r', w'⟩ := res
            have kc : Keeps f w1 { w1 with m_items := mapInsert id i w1.m_items } :=
              Keeps.of_heap f rfl rfl
            exact (kL.trans kc).trans (Ref_keeps hf.rc h)
      | some p =>
        simp only [hc] at h
        by_cases hr : r = true
        · rw [if_pos hr] at h
          cases hLC : InventoryItem.LoadContents n p true w with
          | none => simp [hLC] at h
          | some ow =>
            obtain ⟨ok, w1⟩ := ow
            simp only [hLC] at h
            have kL := ihLC p true w (ok, w1) hLC
            by_cases hok : ok = true
            · rw [if_pos hok] at h
              obtain ⟨r', w'⟩ := res
              exact kL.trans (Ref_keeps hf.rc h)
            · rw [if_neg hok] at h
              simp only [Option.some.injEq] at h
              rw [← h]; exact kL
        · rw [if_neg hr] at h
          obtain ⟨r', w'⟩ := res
          exact Ref_keeps hf.rc h
    · -- Load
      intro id r w res h
      rw [InventoryItem.Load] at h
      have k0 := Load_id_keeps f id w
      generalize InventoryItem._Load_id id w = iw at h k0
      obtain ⟨i, w1⟩ := iw
      simp only at h k0
      by_cases hi : i = 0
      · rw [if_pos hi] at h
        simp only [Option.some.injEq] at h
        rw [← h]; exact k0
      · rw [if_neg hi] at h
        cases hL : InventoryItem._Load n i r w1 with
        | none => simp [hL] at h
        | some ow =>
          obtain ⟨ok, w2⟩ := ow
          simp only [hL] at h
          have kL := ih_L i r w1 (ok, w2) hL
          by_cases hok : ok = true
          · rw [if_pos hok] at h
            simp only [Option.some.injEq] at h
            rw [← h]; exact k0.trans kL
          · rw [if_neg hok] at h
            simp only [Option.map_eq_some'] at h
            obtain ⟨w3, h3, e⟩ := h
            rw [← e]
            exact (k0.trans kL).trans (Release_keeps hf.rc _ _ _ _ h3)
    · -- _Load
      intro this r w res h
      rw [InventoryItem._Load] at h
      cases hme : w.get this with
      | none => simp [hme] at h
      | some me =>
        simp only [hme] at h
        by_cases ha : me.m_itemID ∈ w.attrLoadFails
        · rw [if_pos ha] at h
          simp only [Option.some.injEq] at h
          rw [← h]; exact Keeps.refl f w
        · rw [if_neg ha] at h
          cases hg : ItemFactory._GetIfContentsLoaded me.m_locationID w with
          | none => simp [hg] at h
          | some cw =>
            obtain ⟨container, w1⟩ := cw
            simp only [hg] at h
            have k1 := GetIfContentsLoaded_keeps hf.rc hg (f := f)
            split at h
            · simp at h
            · rename_i w2 hatt
              have k2 := attach_keeps hf.rc hf.contents hatt
              by_cases hr : r = true
              · rw [if_pos hr] at h
                exact (k1.trans k2).trans (ihLC this r w2 res h)
              · rw [if_neg hr] at h
                simp only [Option.some.injEq] at h
                rw [← h]; exact k1.trans k2


theorem NewItem_keeps {α : Type} (f : InventoryItem → α) (data : ItemData) (w : World) :
    Keeps f w (ItemDB.NewItem data w).2 := by
  unfold ItemDB.NewItem
  split
  · exact Keeps.of_heap f rfl rfl
  · exact Keeps.refl f w

theorem NewBlueprint_keeps {α : Type} (f : InventoryItem → α) (id : Nat) (data : BlueprintData)
    (w : World) : Keeps f w (ItemDB.NewBlueprint id data w).2 := by
  unfold ItemDB.NewBlueprint
  split
  · exact Keeps.of_heap f rfl rfl
  · exact Keeps.refl f w

theorem Blueprint_Load_keeps {α : Type} {f : InventoryItem → α} (hf : IgnAll f)
    {fuel id : Nat} {r : Bool} {w : World} {res : Nat × World}
    (h : BlueprintItem.Load fuel id r w = some res) : Keeps f w res.2 := by
  unfold BlueprintItem.Load at h
  have k0 := Blueprint_Load_id_keeps f id w
  generalize BlueprintItem._Load_id id w = iw at h k0
  obtain ⟨i, w1⟩ := iw
  simp only at h k0
  by_cases hi : i = 0
  · rw [if_pos hi] at h
    simp only [Option.some.injEq] at h
    rw [← h]; exact k0
  · rw [if_neg hi] at h
    cases hL : InventoryItem._Load fuel i r w1 with
    | none => simp [hL] at h
    | some ow =>
      obtain ⟨ok, w2⟩ := ow
      simp only [hL] at h
      have kL := (load_family_keeps hf fuel).2.2.2 i r w1 (ok, w2) hL
      by_cases hok : ok = true
      · rw [if_pos hok] at h
        simp only [Option.some.injEq] at h
        rw [← h]; exact k0.trans kL
      · rw [if_neg hok] at h
        simp only [Option.map_eq_some'] at h
        obtain ⟨w3, h3, e⟩ := h
        rw [← e]
        exact (k0.trans kL).trans (Release_keeps hf.rc _ _ _ _ h3)

theorem Spawn_keeps {α : Type} {f : InventoryItem → α} (hf : IgnAll f)
    {fuel : Nat} {data : ItemData} {w : World} {res : Nat × World}
    (h : InventoryItem.Spawn fuel data w = some res) : Keeps f w res.2 := by
  unfold InventoryItem.Spawn at h
  cases ht : ItemFactory.GetType data.typeID w with
  | none =>
    simp only [ht, Option.some.injEq] at h
    rw [← h]; exact Keeps.refl f w
  | some t =>
    simp only [ht] at h
    by_cases hc : t.categoryID = invCategories_Blueprint
    · rw [if_pos hc] at h
      unfold BlueprintItem.Spawn at h
      split at h
      · simp only [Option.some.injEq] at h
        rw [← h]; exact Keeps.refl f w
      · rename_i t2 ht2
        simp only at h
        split at h
        · simp only [Option.some.injEq] at h
          rw [← h]; exact Keeps.refl f w
        · unfold BlueprintItem._Spawn at h
          generalize hd : (if (if data.name = "" then { data with name := t.name } else data).name = ""
            then { (if data.name = "" then { data with name := t.name } else data) with name := t2.name }
            else (if data.name = "" then { data with name := t.name } else data)) = d1 at h
          have k0 := NewItem_keeps f d1 w
          generalize ItemDB.NewItem d1 w = iw at h k0
          obtain ⟨id, w1⟩ := iw
          simp only at h k0
          by_cases hi : id = 0
          · rw [if_pos hi] at h
            simp only [Option.some.injEq] at h
            rw [← h]; exact k0
          · rw [if_neg hi] at h
            have k1 := NewBlueprint_keeps f id BlueprintData.default w1
            generalize ItemDB.NewBlueprint id BlueprintData.default w1 = ow at h k1
            obtain ⟨ok, w2⟩ := ow
            simp only at h k1
            by_cases hok : ok = true
            · rw [if_pos hok] at h
              exact (k0.trans k1).trans (Blueprint_Load_keeps hf h)
            · rw [if_neg hok] at h
              simp only [Option.some.injEq] at h
              rw [← h]; exact k0.trans k1
    · rw [if_neg hc] at h
      unfold InventoryItem._Spawn at h
      generalize (if data.name = "" then { data with name := t.name } else data) = d1 at h
      have k0 := NewItem_keeps f d1 w
      generalize ItemDB.NewItem d1 w = iw at h k0
      obtain ⟨id, w1⟩ := iw
      simp only at h k0
      by_cases hi : id = 0
      · rw [if_pos hi] at h
        simp only [Option.some.injEq] at h
        rw [← h]; exact k0
      · rw [if_neg hi] at h
        exact k0.trans ((load_family_keeps hf fuel).2.2.1 id false w1 res h)

theorem SpawnItem_keeps {α : Type} {f : InventoryItem → α} (hf : IgnAll f)
    {fuel : Nat} {data : ItemData} {w : World} {res : Nat × World}
    (h : ItemFactory.SpawnItem fuel data w = some res) : Keeps f w res.2 := by
  unfold ItemFactory.SpawnItem at h
  cases hs : InventoryItem.Spawn fuel data w with
  | none => simp [hs] at h
  | some iw =>
    obtain ⟨i, w1⟩ := iw
    simp only [hs] at h
    have k0 := Spawn_keeps hf hs
    by_cases hi : i = 0
    · rw [if_pos hi] at h
      simp only [Option.some.injEq] at h
      rw [← h]; exact k0
    · rw [if_neg hi] at h
      cases hg : w1.get i with
      | none => simp [hg] at h
      | some it =>
        simp only [hg] at h
        have kc : Keeps f w1 { w1 with m_items := mapInsert it.m_itemID i w1.m_items } :=
          Keeps.of_heap f rfl rfl
        obtain ⟨r', w'⟩ := res
        exact (k0.trans kc).trans (Ref_keeps hf.rc h)

theorem DeleteItem_keeps {α : Type} {f : InventoryItem → α} (hrc : IgnRc f)
    {fuel id : Nat} {w w' : World}
    (h : ItemFactory._DeleteItem fuel id w = some w') : Keeps f w w' := by
  unfold ItemFactory._DeleteItem at h
  cases hc : mapFind id w.m_items with
  | none =>
    simp only [hc, Option.some.injEq] at h
    rw [← h]; exact Keeps.refl f w
  | some p =>
    simp only [hc, Option.map_eq_some'] at h
    obtain ⟨w1, h1, e⟩ := h
    rw [← e]
    exact (Release_keeps hrc _ _ _ _ h1).trans (Keeps.of_heap f rfl rfl)

theorem ChangeOwner_keeps {α : Type} {f : InventoryItem → α} (ho : IgnOwner f)
    {this new_owner : Nat} {notify : Bool} {w w' : World}
    (h : InventoryItem.ChangeOwner this new_owner notify w = some w') : Keeps f w w' := by
  obtain ⟨me, hme, h⟩ := ChangeOwner_inv h
  rcases h with e | hu
  · rw [e]; exact Keeps.refl f w
  · exact hu.keeps hme (ho me _)

theorem Delete_keeps {α : Type} {f : InventoryItem → α} (hf : IgnAll f) :
    ∀ (fuel this : Nat) (w w' : World), InventoryItem.Delete fuel this w = some w' →
      Keeps f w w' := by
  intro fuel
  induction fuel with
  | zero =>
    intro this w w' h
    simp [InventoryItem.Delete] at h
  | succ n ih =>
    intro this w w' h
    rw [InventoryItem.Delete] at h
    cases hme : w.get this with
    | none => simp [hme] at h
    | some me0 =>
      simp only [hme, Option.bind_eq_some] at h
      obtain ⟨w2, h2, w3, h3, r4, h4, me4, hme4, w5, h5, me5, hme5, w7, h7, me7, hme7, h9⟩ := h
      have k1 : Keeps f w (match me0.bp with
          | some _ => ItemDB.DeleteBlueprint me0.m_itemID w
          | none => w) := by
        cases me0.bp with
        | none => exact Keeps.refl f w
        | some b => exact Keeps.of_heap f rfl rfl
      have k2 := Move_keeps hf.rc hf.contents hf.loc h2 (f := f)
      have k3 := ChangeOwner_keeps hf.owner h3 (f := f)
      have k4 := (load_family_keeps hf n).1 this true w3 r4 h4
      have k5 : Keeps f r4.2 w5 := by
        refine Keeps.foldlM _ ?_ _ _ _ h5
        intro a x b hb
        simp only [Option.bind_eq_some] at hb
        obtain ⟨⟨r, a1⟩, hr, hd⟩ := hb
        exact (Ref_keeps hf.rc hr).trans (ih _ _ _ hd)
      have k6 : Keeps f w5 (w5.set this { me5 with m_contents := [] }) :=
        Keeps.set hme5 (hf.contents me5 _)
      have k7 := DeleteItem_keeps hf.rc h7 (f := f)
      have k8 : Keeps f w7 (ItemDB.DeleteItem me7.m_itemID
            { w7 with attrRows := mapErase me7.m_itemID w7.attrRows }) :=
        Keeps.of_heap f rfl rfl
      have hme8 : (ItemDB.DeleteItem me7.m_itemID
            { w7 with attrRows := mapErase me7.m_itemID w7.attrRows }).get this = some me7 := hme7
      have k9 : Keeps f w7 (if me7.m_refCount ≠ 1 then
          (ItemDB.DeleteItem me7.m_itemID
            { w7 with attrRows := mapErase me7.m_itemID w7.attrRows }).set this
            { me7 with m_itemName := "BAD DELETED ITEM", m_quantity := 0,
                       m_contentsLoaded := true }
        else
          ItemDB.DeleteItem me7.m_itemID
            { w7 with attrRows := mapErase me7.m_itemID w7.attrRows }) := by
        split
        · refine k8.trans (Keeps.set hme8 ?_)
          have e1 := hf.name me7 "BAD DELETED ITEM"
          have e2 := hf.qty { me7 with m_itemName := "BAD DELETED ITEM" } 0
          have e3 := hf.loaded { me7 with m_itemName := "BAD DELETED ITEM", m_quantity := 0 } true
          exact e3.trans (e2.trans e1)
        · exact k8
      have k10 := Release_keeps hf.rc _ _ _ _ h9 (f := f)
      exact ((((((((k1.trans k2).trans k3).trans k4).trans k5).trans k6).trans k7).trans k9).trans
        k10)


theorem ignAll_singleton : IgnAll (fun it : InventoryItem => it.m_singleton) :=
  ⟨fun _ _ => rfl, fun _ _ => rfl, fun _ _ => rfl, fun _ _ _ => rfl, fun _ _ => rfl,
    fun _ _ => rfl, fun _ _ => rfl⟩

theorem AlterQuantity_keeps {α : Type} {f : InventoryItem → α} (hq : IgnQty f)
    {this : Nat} {qty_change : Int} {notify : Bool} {w : World} {r : Bool × World}
    (h : InventoryItem.AlterQuantity this qty_change notify w = some r) : Keeps f w r.2 := by
  obtain ⟨me, hme, h⟩ := AlterQuantity_inv h
  rcases h with ⟨_, e⟩ | ⟨_, _, e⟩ | ⟨_, _, _, e⟩ | ⟨_, _, _, _, hu⟩
  · rw [e]; exact Keeps.refl f w
  · rw [e]; exact Keeps.refl f w
  · rw [e]; exact Keeps.refl f w
  · exact hu.keeps hme (hq me _)

/-- After a successful `AlterQuantity` with a non-zero change the item is not a singleton. -/
theorem AlterQuantity_true_singleton {this : Nat} {qty_change : Int} {notify : Bool} {w : World}
    {r : Bool × World} (h : InventoryItem.AlterQuantity this qty_change notify w = some r)
    (h0 : qty_change ≠ 0) (hr : r.1 = true) :
    ∃ it, r.2.get this = some it ∧ it.m_singleton = false := by
  obtain ⟨me, hme, h⟩ := AlterQuantity_inv h
  rcases h with ⟨e0, _⟩ | ⟨_, _, e⟩ | ⟨_, _, _, e⟩ | ⟨_, _, hs, _, hu⟩
  · exact absurd e0 h0
  · rw [e] at hr; simp at hr
  · rw [e] at hr; simp at hr
  · refine ⟨{ me with m_quantity := toUint32 (toInt32 ((me.m_quantity : Int) + qty_change)) },
      ?_, hs⟩
    rw [hu.get hme]; simp

theorem Split_keeps {α : Type} {f : InventoryItem → α} (hf : IgnAll f)
    {fuel this : Nat} {qty_to_take : Int} {notify : Bool} {w : World} {res : Nat × World}
    (h : InventoryItem.Split fuel this qty_to_take notify w = some res) : Keeps f w res.2 := by
  unfold InventoryItem.Split at h
  cases hme : w.get this with
  | none => simp [hme] at h
  | some me =>
    simp only [hme] at h
    by_cases hq : qty_to_take ≤ 0
    · rw [if_pos hq] at h
      simp only [Option.some.injEq] at h
      rw [← h]; exact Keeps.refl f w
    · rw [if_neg hq] at h
      simp only [Option.bind_eq_some] at h
      obtain ⟨r1, h1, h⟩ := h
      have k1 := AlterQuantity_keeps hf.qty h1 (f := f)
      by_cases hok : r1.1 = false
      · rw [if_pos hok] at h
        simp only [Option.some.injEq] at h
        rw [← h]; exact k1
      · rw [if_neg hok] at h
        simp only [Option.bind_eq_some] at h
        obtain ⟨me1, hme1, sp, hsp, h⟩ := h
        have k2 := SpawnItem_keeps hf hsp
        cases notify with
        | false =>
          simp only [Bool.false_eq_true, if_false, Option.some.injEq] at h
          rw [← h]; exact k1.trans k2
        | true =>
          simp only [if_true, Option.bind_eq_some, Option.map_eq_some'] at h
          obtain ⟨me2, hme2, w3, h3, e⟩ := h
          rw [← e]
          exact (k1.trans k2).trans (Move_keeps hf.rc hf.contents hf.loc h3)

theorem Merge_keeps {α : Type} {f : InventoryItem → α} (hf : IgnAll f)
    {fuel this to_merge : Nat} {qty : Int} {notify : Bool} {w : World} {res : Bool × World}
    (h : InventoryItem.Merge fuel this to_merge qty notify w = some res) : Keeps f w res.2 := by
  unfold InventoryItem.Merge at h
  cases hme : w.get this with
  | none => simp [hme] at h
  | some me =>
    simp only [hme] at h
    by_cases hz : to_merge = 0
    · rw [if_pos hz] at h
      simp only [Option.some.injEq] at h
      rw [← h]; exact Keeps.refl f w
    · rw [if_neg hz] at h
      cases hot : w.get to_merge with
      | none => simp [hot] at h
      | some other =>
        simp only [hot] at h
        generalize (if qty = 0 then toInt32 (other.m_quantity : Int) else qty) = qty1 at h
        by_cases ht : me.m_type ≠ other.m_type
        · rw [if_pos ht] at h
          simp only [Option.some.injEq] at h
          rw [← h]; exact Keeps.refl f w
        · rw [if_neg ht] at h
          by_cases hl : me.m_locationID ≠ other.m_locationID ∨ me.m_flag ≠ other.m_flag
          · rw [if_pos hl] at h
            simp only [Option.some.injEq] at h
            rw [← h]; exact Keeps.refl f w
          · rw [if_neg hl] at h
            by_cases hq : qty1 ≤ 0
            · rw [if_pos hq] at h
              simp only [Option.some.injEq] at h
              rw [← h]; exact Keeps.refl f w
            · rw [if_neg hq] at h
              simp only [Option.bind_eq_some] at h
              obtain ⟨r1, h1, h⟩ := h
              have k1 := AlterQuantity_keeps hf.qty h1 (f := f)
              by_cases hok : r1.1 = false
              · rw [if_pos hok] at h
                simp only [Option.some.injEq] at h
                rw [← h]; exact k1
              · rw [if_neg hok] at h
                simp only [Option.bind_eq_some] at h
                obtain ⟨other1, ho1, h⟩ := h
                by_cases hall : toUint32 qty1 = other1.m_quantity
                · rw [if_pos hall] at h
                  simp only [Option.map_eq_some'] at h
                  obtain ⟨w2, h2, e⟩ := h
                  rw [← e]
                  exact k1.trans (Delete_keeps hf _ _ _ _ h2)
                · rw [if_neg hall] at h
                  simp only [Option.bind_eq_some] at h
                  obtain ⟨r2, h2, h⟩ := h
                  have k2 := AlterQuantity_keeps hf.qty h2 (f := f)
                  by_cases hok2 : r2.1 = false
                  · rw [if_pos hok2] at h
                    simp only [Option.some.injEq] at h
                    rw [← h]; exact k1.trans k2
                  · rw [if_neg hok2] at h
                    simp only [Option.map_eq_some'] at h
                    obtain ⟨w3, h3, e⟩ := h
                    rw [← e]
                    exact (k1.trans k2).trans (Release_keeps hf.rc _ _ _ _ h3)


/-- What `AlterQuantity` does to the item it is called on. -/
theorem AlterQuantity_this {this : Nat} {qty_change : Int} {notify : Bool} {w : World}
    {r : Bool × World} (h : InventoryItem.AlterQuantity this qty_change notify w = some r) :
    (r.2 = w ∧ (qty_change ≠ 0 → r.1 = false)) ∨
      (r.1 = true ∧ ∃ it, r.2.get this = some it ∧ it.m_singleton = false) := by
  obtain ⟨me, hme, h⟩ := AlterQuantity_inv h
  rcases h with ⟨e0, e⟩ | ⟨_, _, e⟩ | ⟨_, _, _, e⟩ | ⟨_, _, hs, hr, hu⟩
  · left; rw [e]; exact ⟨rfl, fun h0 => absurd e0 h0⟩
  · left; rw [e]; exact ⟨rfl, fun _ => rfl⟩
  · left; rw [e]; exact ⟨rfl, fun _ => rfl⟩
  · right
    refine ⟨hr, { me with m_quantity := toUint32 (toInt32 ((me.m_quantity : Int) + qty_change)) },
      ?_, hs⟩
    rw [hu.get hme]; simp

theorem keeps_singleton_false {w w' : World} {p : Nat} {it it' : InventoryItem}
    (k : Keeps (fun it : InventoryItem => it.m_singleton) w w')
    (h : w.get p = some it) (hs : it.m_singleton = false) (h' : w'.get p = some it') :
    it'.m_singleton = false := by
  obtain ⟨it0, h0, e⟩ := k.2 p it' (World.get_guard h).2 h'
  rw [h] at h0
  simp only [Option.some.injEq] at h0
  subst h0
  simp only at e
  rw [e, hs]

/-- After `Split` the item it was called on is unchanged or is not a singleton. -/
theorem Split_this {fuel this : Nat} {qty_to_take : Int} {notify : Bool} {w : World}
    {res : Nat × World} {it it' : InventoryItem}
    (h : InventoryItem.Split fuel this qty_to_take notify w = some res)
    (hl : w.get this = some it) (hl' : res.2.get this = some it') :
    it' = it ∨ it'.m_singleton = false := by
  unfold InventoryItem.Split at h
  simp only [hl] at h
  by_cases hq : qty_to_take ≤ 0
  · rw [if_pos hq] at h
    simp only [Option.some.injEq] at h
    rw [← h] at hl'
    simp only [hl, Option.some.injEq] at hl'
    exact Or.inl hl'.symm
  · rw [if_neg hq] at h
    simp only [Option.bind_eq_some] at h
    obtain ⟨r1, h1, h⟩ := h
    have hne : -qty_to_take ≠ 0 := by omega
    rcases AlterQuantity_this h1 with ⟨e, hf⟩ | ⟨hr, it1, hit1, hs1⟩
    · rw [if_pos (hf hne)] at h
      simp only [Option.some.injEq] at h
      rw [← h, e] at hl'
      simp only [hl, Option.some.injEq] at hl'
      exact Or.inl hl'.symm
    · right
      have hok : ¬ r1.1 = false := by rw [hr]; simp
      rw [if_neg hok] at h
      simp only [Option.bind_eq_some] at h
      obtain ⟨me1, hme1, sp, hsp, h⟩ := h
      have k2 := SpawnItem_keeps ignAll_singleton hsp
      cases notify with
      | false =>
        simp only [Bool.false_eq_true, if_false, Option.some.injEq] at h
        rw [← h] at hl'
        exact keeps_singleton_false k2 hit1 hs1 hl'
      | true =>
        simp only [if_true, Option.bind_eq_some, Option.map_eq_some'] at h
        obtain ⟨me2, hme2, w3, h3, e⟩ := h
        rw [← e] at hl'
        exact keeps_singleton_false
          (k2.trans (Move_keeps ignAll_singleton.rc ignAll_singleton.contents
            ignAll_singleton.loc h3)) hit1 hs1 hl'

/-- After `Merge` the item it was called on is unchanged or is not a singleton. -/
theorem Merge_this {fuel this to_merge : Nat} {qty : Int} {notify : Bool} {w : World}
    {res : Bool × World} {it it' : InventoryItem}
    (h : InventoryItem.Merge fuel this to_merge qty notify w = some res)
    (hl : w.get this = some it) (hl' : res.2.get this = some it') :
    it' = it ∨ it'.m_singleton = false := by
  have same : ∀ {r : Bool × World}, some r = some res → r.2 = w → it' = it := by
    intro r e ew
    simp only [Option.some.injEq] at e
    rw [← e, ew] at hl'
    simp only [hl, Option.some.injEq] at hl'
    exact hl'.symm
  unfold InventoryItem.Merge at h
  simp only [hl] at h
  by_cases hz : to_merge = 0
  · rw [if_pos hz] at h
    exact Or.inl (same h rfl)
  · rw [if_neg hz] at h
    cases hot : w.get to_merge with
    | none => simp [hot] at h
    | some other =>
      simp only [hot] at h
      generalize (if qty = 0 then toInt32 (other.m_quantity : Int) else qty) = qty1 at h
      by_cases ht : it.m_type ≠ other.m_type
      · rw [if_pos ht] at h
        exact Or.inl (same h rfl)
      · rw [if_neg ht] at h
        by_cases hloc : it.m_locationID ≠ other.m_locationID ∨ it.m_flag ≠ other.m_flag
        · rw [if_pos hloc] at h
          exact Or.inl (same h rfl)
        · rw [if_neg hloc] at h
          by_cases hq : qty1 ≤ 0
          · rw [if_pos hq] at h
            exact Or.inl (same h rfl)
          · rw [if_neg hq] at h
            simp only [Option.bind_eq_some] at h
            obtain ⟨r1, h1, h⟩ := h
            have hne : qty1 ≠ 0 := by omega
            rcases AlterQuantity_this h1 with ⟨e, hf⟩ | ⟨hr, it1, hit1, hs1⟩
            · rw [if_pos (hf hne)] at h
              exact Or.inl (same h e)
            · right
              have hok : ¬ r1.1 = false := by rw [hr]; simp
              rw [if_neg hok] at h
              simp only [Option.bind_eq_some] at h
              obtain ⟨other1, ho1, h⟩ := h
              by_cases hall : toUint32 qty1 = other1.m_quantity
              · rw [if_pos hall] at h
                simp only [Option.map_eq_some'] at h
                obtain ⟨w2, h2, e⟩ := h
                rw [← e] at hl'
                exact keeps_singleton_false (Delete_keeps ignAll_singleton _ _ _ _ h2)
                  hit1 hs1 hl'
              · rw [if_neg hall] at h
                simp only [Option.bind_eq_some] at h
                obtain ⟨r2, h2, h⟩ := h
                have k2 := AlterQuantity_keeps ignAll_singleton.qty h2
                by_cases hok2 : r2.1 = false
                · rw [if_pos hok2] at h
                  simp only [Option.some.injEq] at h
                  rw [← h] at hl'
                  exact keeps_singleton_false k2 hit1 hs1 hl'
                · rw [if_neg hok2] at h
                  simp only [Option.map_eq_some'] at h
                  obtain ⟨w3, h3, e⟩ := h
                  rw [← e] at hl'
                  exact keeps_singleton_false
                    (k2.trans (Release_keeps ignAll_singleton.rc _ _ _ _ h3)) hit1 hs1 hl'

theorem inv_of_singleton_false {it : InventoryItem} (h : it.m_singleton = false) :
    QuantityInvariant it := by
  unfold QuantityInvariant
  simp [h]

/-- An update of the item at `this` that keeps the singleton bit and the quantity keeps what
is read there afterwards. -/
theorem updates_same {w w' : World} {this : Nat} {it it1 it' : InventoryItem}
    (hu : w'.updates w this it1) (hl : w.get this = some it) (hl' : w'.get this = some it') :
    it' = it1 := by
  rw [hu.get hl] at hl'
  simpa using hl'.symm


/-! ## Forward lemmas: reference counting on a live instance -/

theorem World.get_ne_zero {w : World} {p : Nat} {it : InventoryItem} (h : w.get p = some it) :
    p ≠ 0 := by
  have := (World.get_guard h).1
  omega

/-- The counter after `m_refCount++` when it was below its largest value. -/
theorem refCount_succ {n : Nat} (h : n + 1 < 2 ^ 16) : (n + 1) % 2 ^ 16 = n + 1 :=
  Nat.mod_eq_of_lt h

theorem Ref_fwd {w : World} {p : Nat} {it : InventoryItem} (h : w.get p = some it)
    (hrc : 1 ≤ it.m_refCount) (hmax : it.m_refCount + 1 < 2 ^ 16) :
    InventoryItem.Ref p w = some (p, w.set p { it with m_refCount := it.m_refCount + 1 }) := by
  unfold InventoryItem.Ref
  rw [if_neg (World.get_ne_zero h)]
  simp only [h]
  rw [if_neg (by omega), refCount_succ hmax]

theorem Release_fwd {w : World} {p : Nat} {it : InventoryItem} (h : w.get p = some it)
    (hrc : 2 ≤ it.m_refCount) (fuel : Nat) :
    InventoryItem.Release fuel p w
      = some (w.set p { it with m_refCount := it.m_refCount - 1 }) := by
  unfold InventoryItem.Release
  rw [if_neg (World.get_ne_zero h)]
  simp only [h]
  rw [if_neg (by omega), if_neg (by omega)]

theorem World.set_m_items (w : World) (p : Nat) (it : InventoryItem) :
    (w.set p it).m_items = w.m_items := rfl

theorem World.mapped.mrefl (w : World) : w.mapped w (fun _ it => it) :=
  ⟨fun q => by cases w.get q <;> rfl, rfl⟩

theorem World.mapped.mtrans {w1 w2 w3 : World} {F G : Nat → InventoryItem → InventoryItem}
    (h12 : w2.mapped w1 F) (h23 : w3.mapped w2 G) :
    w3.mapped w1 (fun q it => G q (F q it)) := by
  refine ⟨fun q => ?_, h23.2.trans h12.2⟩
  rw [h23.1 q, h12.1 q]
  cases w1.get q <;> rfl

theorem World.mapped.congr {w' w : World} {F G : Nat → InventoryItem → InventoryItem}
    (h : w'.mapped w F) (e : ∀ q it, w.get q = some it → F q it = G q it) : w'.mapped w G := by
  refine ⟨fun q => ?_, h.2⟩
  rw [h.1 q]
  cases hq : w.get q with
  | none => rfl
  | some it => simp [e q it hq]

theorem World.mapped.mset {w : World} {p : Nat} {it : InventoryItem} (h : w.get p = some it)
    (g : InventoryItem → InventoryItem) :
    (w.set p (g it)).mapped w (fun q x => if q = p then g x else x) := by
  refine ⟨fun q => ?_, rfl⟩
  rw [World.get_set_live h]
  by_cases e : q = p
  · subst e; simp [h]
  · simp only [e, if_false]
    cases w.get q <;> rfl

theorem World.mapped.mof_heap {w1 w2 w : World} {F : Nat → InventoryItem → InventoryItem}
    (h : w1.mapped w F) (hh : w2.heap = w1.heap) (hn : w2.nextAddr = w1.nextAddr)
    (hm : w2.m_items = w1.m_items) : w2.mapped w F :=
  ⟨fun q => (get_of_heap hh hn q).trans (h.1 q), hm.trans h.2⟩

/-! ## Forward lemmas: detaching and attaching -/

theorem GetIfContentsLoaded_fwd {w : World} {id pc : Nat} {c : InventoryItem}
    (hc : mapFind id w.m_items = some pc) (hg : w.get pc = some c)
    (hl : c.m_contentsLoaded = true) (hrc : 1 ≤ c.m_refCount)
    (hmax : c.m_refCount + 1 < 2 ^ 16) :
    ItemFactory._GetIfContentsLoaded id w
      = some (pc, w.set pc { c with m_refCount := c.m_refCount + 1 }) := by
  unfold ItemFactory._GetIfContentsLoaded
  simp only [hc, hg]
  rw [if_pos hl]
  exact Ref_fwd hg hrc hmax

theorem GetIfContentsLoaded_absent {w : World} {id : Nat}
    (hc : mapFind id w.m_items = none) :
    ItemFactory._GetIfContentsLoaded id w = some (0, w) := by
  unfold ItemFactory._GetIfContentsLoaded
  simp only [hc]

theorem GetIfContentsLoaded_unloaded {w : World} {id pc : Nat} {c : InventoryItem}
    (hc : mapFind id w.m_items = some pc) (hg : w.get pc = some c)
    (hl : c.m_contentsLoaded = false) :
    ItemFactory._GetIfContentsLoaded id w = some (0, w) := by
  unfold ItemFactory._GetIfContentsLoaded
  simp only [hc, hg]
  rw [if_neg (by simp [hl])]

theorem Ref_mapped {w : World} {p : Nat} {it : InventoryItem} (h : w.get p = some it)
    (hrc : 1 ≤ it.m_refCount) (hmax : it.m_refCount + 1 < 2 ^ 16) :
    ∃ w', InventoryItem.Ref p w = some (p, w') ∧
      w'.mapped w (fun q x => if q = p then { x with m_refCount := x.m_refCount + 1 } else x) :=
  ⟨_, Ref_fwd h hrc hmax, World.mapped.mset h (fun x => { x with m_refCount := x.m_refCount + 1 })⟩

theorem Release_mapped {w : World} {p : Nat} {it : InventoryItem} (h : w.get p = some it)
    (hrc : 2 ≤ it.m_refCount) (fuel : Nat) :
    ∃ w', InventoryItem.Release fuel p w = some w' ∧
      w'.mapped w (fun q x => if q = p then { x with m_refCount := x.m_refCount - 1 } else x) :=
  ⟨_, Release_fwd h hrc fuel,
    World.mapped.mset h (fun x => { x with m_refCount := x.m_refCount - 1 })⟩

theorem World.mapped.get_some {w' w : World} {F : Nat → InventoryItem → InventoryItem}
    (h : w'.mapped w F) {q : Nat} {it : InventoryItem} (hq : w.get q = some it) :
    w'.get q = some (F q it) := by
  rw [h.1 q, hq]; rfl

theorem RemoveContainedItem_mapped {w : World} {this it old : Nat} {c i io : InventoryItem}
    (fuel : Nat) (hc : w.get this = some c) (hi : w.get it = some i)
    (hent : mapFind i.m_itemID c.m_contents = some old) (ho : w.get old = some io)
    (hrc : 2 ≤ io.m_refCount) :
    ∃ w', InventoryItem.RemoveContainedItem fuel this it w = some w' ∧
      w'.mapped w (fun q x =>
        { x with
          m_refCount := if q = old then x.m_refCount - 1 else x.m_refCount,
          m_contents := if q = this then mapErase i.m_itemID x.m_contents else x.m_contents }) := by
  obtain ⟨w1, hR, hm1⟩ := Release_mapped ho hrc fuel
  obtain ⟨c1, hc1⟩ : ∃ c1, w1.get this = some c1 := ⟨_, hm1.get_some hc⟩
  have hm2 := World.mapped.mset hc1 (fun x =>
    { x with m_contents := mapErase i.m_itemID x.m_contents })
  refine ⟨_, ?_, (hm1.mtrans hm2).congr ?_⟩
  · unfold InventoryItem.RemoveContainedItem
    simp only [hc, hi, hent, hR, hc1]
  · intro q x _
    by_cases h1 : q = old
    · subst h1
      by_cases h2 : q = this
      · subst h2; simp
      · simp [h2]
    · by_cases h2 : q = this
      · subst h2; simp [h1]
      · simp [h1, h2]

theorem AddContainedItem_mapped {w : World} {this it : Nat} {c i : InventoryItem}
    (hc : w.get this = some c) (hi : w.get it = some i)
    (hent : mapFind i.m_itemID c.m_contents = none) (hrc : 1 ≤ i.m_refCount)
    (hmax : i.m_refCount + 1 < 2 ^ 16) :
    ∃ w', InventoryItem.AddContainedItem this it w = some w' ∧
      w'.mapped w (fun q x =>
        { x with
          m_refCount := if q = it then x.m_refCount + 1 else x.m_refCount,
          m_contents := if q = this then mapInsert i.m_itemID it x.m_contents
            else x.m_contents }) := by
  obtain ⟨w1, hR, hm1⟩ := Ref_mapped hi hrc hmax
  obtain ⟨c1, hc1⟩ : ∃ c1, w1.get this = some c1 := ⟨_, hm1.get_some hc⟩
  have hm2 := World.mapped.mset hc1 (fun x =>
    { x with m_contents := mapInsert i.m_itemID it x.m_contents })
  refine ⟨_, ?_, (hm1.mtrans hm2).congr ?_⟩
  · unfold InventoryItem.AddContainedItem
    simp only [hc, hi, hent, hR, hc1]
  · intro q x _
    by_cases h1 : q = it
    · subst h1
      by_cases h2 : q = this
      · subst h2; simp
      · simp [h2]
    · by_cases h2 : q = this
      · subst h2; simp [h1]
      · simp [h1, h2]


/-- The block of `Move` that takes the item out of its old container, when that container is
resident with its contents loaded and holds the item. -/
theorem detach_fwd {w : World} {this pc loc : Nat} {me c : InventoryItem} (fuel : Nat)
    (hme : w.get this = some me) (hcache : mapFind loc w.m_items = some pc)
    (hc : w.get pc = some c) (hl : c.m_contentsLoaded = true) (hrc : 1 ≤ c.m_refCount)
    (hmax : c.m_refCount + 1 < 2 ^ 16)
    (hent : mapFind me.m_itemID c.m_contents = some this) (hrc2 : 2 ≤ me.m_refCount) :
    ∃ w2, ((ItemFactory._GetIfContentsLoaded loc w).bind fun old =>
        if old.1 ≠ 0 then
          (InventoryItem.RemoveContainedItem fuel old.1 this old.2).bind
            (InventoryItem.Release fuel old.1)
        else some old.2) = some w2 ∧
      w2.mapped w (detachF this pc me.m_itemID) := by
  have hp0 : pc ≠ 0 := World.get_ne_zero hc
  obtain ⟨w1, hR1, hm1⟩ := Ref_mapped hc hrc hmax
  have hG : ItemFactory._GetIfContentsLoaded loc w = some (pc, w1) := by
    unfold ItemFactory._GetIfContentsLoaded
    simp only [hcache, hc]
    rw [if_pos hl]
    exact hR1
  obtain ⟨c1, hc1, hc1c, hc1r⟩ : ∃ c1, w1.get pc = some c1 ∧ c1.m_contents = c.m_contents ∧
      c1.m_refCount = c.m_refCount + 1 := ⟨_, hm1.get_some hc, by simp, by simp⟩
  obtain ⟨i1, hi1, hi1i, hi1r⟩ : ∃ i1, w1.get this = some i1 ∧ i1.m_itemID = me.m_itemID ∧
      me.m_refCount ≤ i1.m_refCount := by
    refine ⟨_, hm1.get_some hme, ?_, ?_⟩
    · split <;> rfl
    · split
      · simp
      · exact le_refl _
  have hent1 : mapFind i1.m_itemID c1.m_contents = some this := by rw [hi1i, hc1c]; exact hent
  obtain ⟨w2, hR2, hm2⟩ := RemoveContainedItem_mapped fuel hc1 hi1 hent1 hi1 (by omega)
  obtain ⟨c2, hc2, hc2r⟩ : ∃ c2, w2.get pc = some c2 ∧ 2 ≤ c2.m_refCount := by
    refine ⟨_, hm2.get_some hc1, ?_⟩
    simp only
    by_cases e : pc = this
    · subst e
      rw [hc] at hme
      simp only [Option.some.injEq] at hme
      subst hme
      simp; omega
    · simp [e]; omega
  obtain ⟨w3, hR3, hm3⟩ := Release_mapped hc2 hc2r fuel
  refine ⟨w3, ?_, ((hm1.mtrans hm2).mtrans hm3).congr ?_⟩
  · rw [hG]
    simp only [Option.some_bind]
    rw [if_pos hp0, hR2]
    simp only [Option.some_bind]
    exact hR3
  · intro q x _
    rw [hi1i]
    unfold detachF
    by_cases h1 : q = pc
    · subst h1
      by_cases h2 : q = this
      · subst h2; simp
      · simp [h2]
    · by_cases h2 : q = this
      · subst h2; simp [h1]
      · simp [h1, h2]

/-- The block of `Move` that puts the item into its new container, when that container is
resident with its contents loaded and does not hold the item yet. -/
theorem attach_fwd {w : World} {this pc loc : Nat} {me c : InventoryItem} (fuel : Nat)
    (hme : w.get this = some me) (hcache : mapFind loc w.m_items = some pc)
    (hc : w.get pc = some c) (hl : c.m_contentsLoaded = true) (hrc : 1 ≤ c.m_refCount)
    (hmax : c.m_refCount + 1 < 2 ^ 16)
    (hmaxi : me.m_refCount + (if pc = this then 2 else 1) < 2 ^ 16)
    (hent : mapFind me.m_itemID c.m_contents = none) (hrc1 : 1 ≤ me.m_refCount) :
    ∃ w2, ((ItemFactory._GetIfContentsLoaded loc w).bind fun new =>
        if new.1 ≠ 0 then
          (InventoryItem.AddContainedItem new.1 this new.2).bind
            (InventoryItem.Release fuel new.1)
        else some new.2) = some w2 ∧
      w2.mapped w (attachF this pc me.m_itemID) := by
  have hp0 : pc ≠ 0 := World.get_ne_zero hc
  obtain ⟨w1, hR1, hm1⟩ := Ref_mapped hc hrc hmax
  have hG : ItemFactory._GetIfContentsLoaded loc w = some (pc, w1) := by
    unfold ItemFactory._GetIfContentsLoaded
    simp only [hcache, hc]
    rw [if_pos hl]
    exact hR1
  obtain ⟨c1, hc1, hc1c, hc1r⟩ : ∃ c1, w1.get pc = some c1 ∧ c1.m_contents = c.m_contents ∧
      c1.m_refCount = c.m_refCount + 1 := ⟨_, hm1.get_some hc, by simp, by simp⟩
  obtain ⟨i1, hi1, hi1i, hi1r, hi1m⟩ : ∃ i1, w1.get this = some i1 ∧
      i1.m_itemID = me.m_itemID ∧ me.m_refCount ≤ i1.m_refCount ∧
      i1.m_refCount + 1 < 2 ^ 16 := by
    refine ⟨_, hm1.get_some hme, ?_, ?_, ?_⟩
    · split <;> rfl
    · split
      · simp
      · exact le_refl _
    · by_cases e : pc = this
      · rw [if_pos e] at hmaxi
        rw [if_pos e.symm]
        show me.m_refCount + 1 + 1 < 2 ^ 16
        omega
      · rw [if_neg e] at hmaxi
        rw [if_neg (fun h => e h.symm)]
        exact hmaxi
  have hent1 : mapFind i1.m_itemID c1.m_contents = none := by rw [hi1i, hc1c]; exact hent
  obtain ⟨w2, hR2, hm2⟩ := AddContainedItem_mapped hc1 hi1 hent1 (by omega) hi1m
  obtain ⟨c2, hc2, hc2r⟩ : ∃ c2, w2.get pc = some c2 ∧ 2 ≤ c2.m_refCount := by
    refine ⟨_, hm2.get_some hc1, ?_⟩
    simp only
    split <;> omega
  obtain ⟨w3, hR3, hm3⟩ := Release_mapped hc2 hc2r fuel
  refine ⟨w3, ?_, ((hm1.mtrans hm2).mtrans hm3).congr ?_⟩
  · rw [hG]
    simp only [Option.some_bind]
    rw [if_pos hp0, hR2]
    simp only [Option.some_bind]
    exact hR3
  · intro q x _
    rw [hi1i]
    unfold attachF
    by_cases h1 : q = pc
    · subst h1
      by_cases h2 : q = this
      · subst h2; simp
      · simp [h2]
    · by_cases h2 : q = this
      · subst h2; simp [h1]
      · simp [h1, h2]


/-! ## Forward lemma of `Move` -/

theorem World.loaded_some {w : World} {id p : Nat} (h : w.loaded id = some p) :
    mapFind id w.m_items = some p ∧ ∃ c, w.get p = some c ∧ c.m_contentsLoaded = true := by
  unfold World.loaded at h
  cases hc : mapFind id w.m_items with
  | none => simp [hc] at h
  | some p' =>
    simp only [hc] at h
    cases hg : w.get p' with
    | none => simp [hg] at h
    | some c =>
      simp only [hg] at h
      by_cases hl : c.m_contentsLoaded = true
      · rw [if_pos hl] at h
        simp only [Option.some.injEq] at h
        subst h
        exact ⟨rfl, c, hg, hl⟩
      · rw [if_neg hl] at h
        simp at h

theorem World.loaded_of {w : World} {id p : Nat} {c : InventoryItem}
    (hc : mapFind id w.m_items = some p) (hg : w.get p = some c)
    (hl : c.m_contentsLoaded = true) : w.loaded id = some p := by
  unfold World.loaded
  simp only [hc, hg]
  rw [if_pos hl]

/-- The lookup of a container that is not resident with its contents loaded gives null. -/
theorem GetIfContentsLoaded_none {w : World} {id : Nat} (hcl : CacheLive w)
    (h : w.loaded id = none) : ItemFactory._GetIfContentsLoaded id w = some (0, w) := by
  cases hc : mapFind id w.m_items with
  | none => exact GetIfContentsLoaded_absent hc
  | some p =>
    obtain ⟨c, hg, _, _⟩ := hcl id p hc
    cases hl : c.m_contentsLoaded with
    | false => exact GetIfContentsLoaded_unloaded hc hg hl
    | true => rw [World.loaded_of hc hg hl] at h; simp at h

theorem World.loaded_mapped {w' w : World} {F : Nat → InventoryItem → InventoryItem}
    (h : w'.mapped w F) (hF : ∀ q x, (F q x).m_contentsLoaded = x.m_contentsLoaded) (id : Nat) :
    w'.loaded id = w.loaded id := by
  unfold World.loaded
  rw [h.2]
  cases mapFind id w.m_items with
  | none => rfl
  | some p =>
    simp only
    rw [h.1 p]
    cases w.get p with
    | none => rfl
    | some c => simp [hF]

/-- The bound that `Move` asks of the item when it is attached, from room for two more
references. -/
theorem roomI_of_two {w : World} {this location : Nat} {me : InventoryItem}
    (h : me.m_refCount + 2 < 2 ^ 16) : ∀ pn, w.loaded location = some pn →
      me.m_refCount - (if (w.loaded me.m_locationID).isSome then 1 else 0)
        + (if pn = this then 2 else 1) < 2 ^ 16 := by
  intro pn _
  split <;> split <;> omega

/-- The bound that `Move` asks of the item when it is attached to another instance, from room
for one more reference. -/
theorem roomI_of_one {w : World} {this location : Nat} {me : InventoryItem}
    (h : me.m_refCount + 1 < 2 ^ 16) (hne : w.loaded location ≠ some this) :
    ∀ pn, w.loaded location = some pn →
      me.m_refCount - (if (w.loaded me.m_locationID).isSome then 1 else 0)
        + (if pn = this then 2 else 1) < 2 ^ 16 := by
  intro pn hpn
  rw [if_neg (fun e : pn = this => hne (by rw [← e]; exact hpn))]
  split <;> omega

theorem Move_fwd {w : World} {this : Nat} {me : InventoryItem} (fuel location new_flag : Nat)
    (notify : Bool) (hme : w.get this = some me)
    (hcache : mapFind me.m_itemID w.m_items = some this) (hcl : CacheLive w) (hmir : Mirrors w)
    (hrc : (w.loaded me.m_locationID).isSome → 2 ≤ me.m_refCount)
    (hroomC : ∀ pc c, (w.loaded me.m_locationID = some pc ∨ w.loaded location = some pc) →
      w.get pc = some c → c.m_refCount + 1 < 2 ^ 16)
    (hroomI : ∀ pn, w.loaded location = some pn →
      me.m_refCount - (if (w.loaded me.m_locationID).isSome then 1 else 0)
        + (if pn = this then 2 else 1) < 2 ^ 16)
    (hne : ¬ (location = me.m_locationID ∧ new_flag = me.m_flag)) :
    ∃ w', InventoryItem.Move fuel this location new_flag notify w = some w' ∧
      w'.mapped w (moveF this me.m_itemID (w.loaded me.m_locationID) (w.loaded location)
        location new_flag) := by
  have hrc1 : 1 ≤ me.m_refCount := by
    obtain ⟨c, hg, _, h1⟩ := hcl _ _ hcache
    rw [hme] at hg
    simp only [Option.some.injEq] at hg
    subst hg
    exact h1
  -- the old container
  obtain ⟨w2, hB1, hm2⟩ : ∃ w2, ((ItemFactory._GetIfContentsLoaded me.m_locationID w).bind
      fun old =>
        if old.1 ≠ 0 then
          (InventoryItem.RemoveContainedItem fuel old.1 this old.2).bind
            (InventoryItem.Release fuel old.1)
        else some old.2) = some w2 ∧
      w2.mapped w (moveF this me.m_itemID (w.loaded me.m_locationID) none
        me.m_locationID me.m_flag) := by
    cases hdet : w.loaded me.m_locationID with
    | none =>
      refine ⟨w, ?_, (World.mapped.mrefl w).congr ?_⟩
      · rw [GetIfContentsLoaded_none hcl hdet]
        simp
      · intro q x hq
        unfold moveF
        by_cases e : q = this
        · subst e
          rw [hme] at hq
          simp only [Option.some.injEq] at hq
          subst hq
          simp
        · simp [e]
    | some pc =>
      obtain ⟨hc, c, hg, hl⟩ := World.loaded_some hdet
      obtain ⟨c', hg', _, hcrc⟩ := hcl _ _ hc
      rw [hg] at hg'
      simp only [Option.some.injEq] at hg'
      subst hg'
      have hent : mapFind me.m_itemID c.m_contents = some this :=
        (hmir _ _ _ hc hg hl _ _).2 ⟨hcache, me, hme, rfl⟩
      have h2 : 2 ≤ me.m_refCount := hrc (by rw [hdet]; rfl)
      obtain ⟨w2, hB, hm⟩ := detach_fwd fuel hme hc hg hl hcrc (hroomC _ _ (Or.inl hdet) hg) hent h2
      refine ⟨w2, hB, hm.congr ?_⟩
      intro q x hq
      unfold moveF detachF
      by_cases e : q = this
      · subst e
        rw [hme] at hq
        simp only [Option.some.injEq] at hq
        subst hq
        by_cases e2 : pc = q
        · simp [e2]
        · have e3 : ¬ q = pc := fun h => e2 h.symm
          simp [e2, e3]
      · by_cases e2 : pc = q
        · subst e2; simp [e]
        · have e3 : ¬ q = pc := fun h => e2 h.symm
          simp [e, e2, e3]
  -- the state between the two blocks
  have hF2 : ∀ q x, (moveF this me.m_itemID (w.loaded me.m_locationID) none
      me.m_locationID me.m_flag q x).m_contentsLoaded = x.m_contentsLoaded := fun _ _ => rfl
  have hme2 := hm2.get_some hme
  generalize hme2e : moveF this me.m_itemID (w.loaded me.m_locationID) none
      me.m_locationID me.m_flag this me = me2 at hme2
  have hme2i : me2.m_itemID = me.m_itemID := by rw [← hme2e]; rfl
  have hme2r : me2.m_refCount = me.m_refCount - (if (w.loaded me.m_locationID).isSome then 1 else 0) := by
    rw [← hme2e]; simp [moveF]
  have hme2r1 : 1 ≤ me2.m_refCount := by
    rw [hme2r]
    by_cases hd : (w.loaded me.m_locationID).isSome = true
    · have := hrc hd
      simp [hd]; omega
    · simp [hd]; omega
  -- the new container
  obtain ⟨w4, hB2, hm4⟩ : ∃ w4, ((ItemFactory._GetIfContentsLoaded location w2).bind
      fun new =>
        if new.1 ≠ 0 then
          (InventoryItem.AddContainedItem new.1 this new.2).bind
            (InventoryItem.Release fuel new.1)
        else some new.2) = some w4 ∧
      w4.mapped w (moveF this me.m_itemID (w.loaded me.m_locationID) (w.loaded location)
        me.m_locationID me.m_flag) := by
    have hcl2 : CacheLive w2 := by
      intro k p hk
      rw [hm2.2] at hk
      obtain ⟨c, hg, hi, hr⟩ := hcl k p hk
      refine ⟨_, hm2.get_some hg, hi, ?_⟩
      unfold moveF
      simp only
      by_cases e : p = this
      · subst e
        rw [hme] at hg
        simp only [Option.some.injEq] at hg
        subst hg
        rw [hme2r] at hme2r1
        simpa using hme2r1
      · simp [e]; exact hr
    have hld : w2.loaded location = w.loaded location := World.loaded_mapped hm2 hF2 location
    cases hatt : w.loaded location with
    | none =>
      rw [hatt] at hld
      refine ⟨w2, ?_, hm2⟩
      rw [GetIfContentsLoaded_none hcl2 hld]
      simp
    | some pn =>
      rw [hatt] at hld
      obtain ⟨hc, c, hg, hl⟩ := World.loaded_some hatt
      obtain ⟨hc2, c2, hg2, hl2⟩ := World.loaded_some hld
      obtain ⟨c2', hg2', _, hcrc2⟩ := hcl2 _ _ hc2
      rw [hg2] at hg2'
      simp only [Option.some.injEq] at hg2'
      subst hg2'
      have hg2e := hm2.get_some hg
      rw [hg2] at hg2e
      simp only [Option.some.injEq] at hg2e
      have hent : mapFind me2.m_itemID c2.m_contents = none := by
        rw [hme2i, hg2e]
        unfold moveF
        simp only
        by_cases hd : w.loaded me.m_locationID = some pn
        · simp [hd, mapFind_mapErase]
        · simp only [hd, if_false]
          cases hf : mapFind me.m_itemID c.m_contents with
          | none => exact hf
          | some q =>
            exfalso
            obtain ⟨hq1, iq, hq2, hq3⟩ := (hmir _ _ _ hc hg hl _ _).1 hf
            rw [hcache] at hq1
            simp only [Option.some.injEq] at hq1
            subst hq1
            rw [hme] at hq2
            simp only [Option.some.injEq] at hq2
            subst hq2
            apply hd
            rw [hq3]; exact hatt
      have hc2le : c2.m_refCount ≤ c.m_refCount := by
        rw [hg2e]
        unfold moveF
        simp only
        split
        · simp
        · exact le_refl _
      have hcmax := hroomC _ _ (Or.inr hatt) hg
      have himax := hroomI _ hatt
      obtain ⟨w4, hB, hm⟩ := attach_fwd fuel hme2 hc2 hg2 hl2 hcrc2
        (Nat.lt_of_le_of_lt (Nat.add_le_add_right hc2le 1) hcmax)
        (by rw [hme2r]; exact himax) hent hme2r1
      refine ⟨w4, hB, (hm2.mtrans hm).congr ?_⟩
      intro q x hq
      rw [hme2i]
      unfold moveF attachF
      by_cases e : q = this
      · subst e
        by_cases e2 : pn = q
        · simp [e2]
        · have e3 : ¬ q = pn := fun h => e2 h.symm
          simp [e2, e3]
      · by_cases e2 : pn = q
        · subst e2; simp [e]
        · have e3 : ¬ q = pn := fun h => e2 h.symm
          simp [e, e2, e3]
  -- the members, the save and the notification
  have hme4 := hm4.get_some hme
  generalize hme4e : moveF this me.m_itemID (w.loaded me.m_locationID) (w.loaded location)
      me.m_locationID me.m_flag this me = me4 at hme4
  have hm5 := World.mapped.mset hme4
    (fun x => { x with m_locationID := location, m_flag := new_flag })
  have hlive5 : (w4.set this { me4 with m_locationID := location, m_flag := new_flag }).get this
      = some { me4 with m_locationID := location, m_flag := new_flag } := by
    rw [World.get_set_live hme4]; simp
  have hfinal : ∀ q x, w.get q = some x →
      (fun q x => (fun q x => if q = this then
          { x with m_locationID := location, m_flag := new_flag } else x) q
        (moveF this me.m_itemID (w.loaded me.m_locationID) (w.loaded location)
          me.m_locationID me.m_flag q x)) q x
      = moveF this me.m_itemID (w.loaded me.m_locationID) (w.loaded location)
          location new_flag q x := by
    intro q x hq
    unfold moveF
    by_cases e : q = this
    · subst e
      rw [hme] at hq
      simp only [Option.some.injEq] at hq
      subst hq
      simp
    · simp [e]
  have hm6 := (hm4.mtrans hm5).congr hfinal
  unfold InventoryItem.Move
  simp only [hme]
  rw [if_neg hne, hB1]
  simp only [Option.some_bind]
  rw [hB2]
  simp only [Option.some_bind, hme4]
  rw [Save_false hlive5]
  simp only [Option.some_bind]
  have hs := saved_heap (w4.set this { me4 with m_locationID := location, m_flag := new_flag })
    { me4 with m_locationID := location, m_flag := new_flag }
  have hsm := saved_m_items (w4.set this { me4 with m_locationID := location, m_flag := new_flag })
    { me4 with m_locationID := location, m_flag := new_flag }
  cases notify with
  | false =>
    simp only [Bool.false_eq_true, if_false]
    exact ⟨_, rfl, hm6.mof_heap hs.1 hs.2 hsm⟩
  | true =>
    simp only [if_true]
    have hlive6 : ((w4.set this { me4 with m_locationID := location, m_flag := new_flag }).saved
        { me4 with m_locationID := location, m_flag := new_flag }).get this
        = some { me4 with m_locationID := location, m_flag := new_flag } := by
      rw [get_saved]; exact hlive5
    obtain ⟨ch', w7, h7⟩ := SendItemChange_live hlive6 me4.m_ownerID
      { Changes.empty with
        ixLocationID := some me.m_locationID,
        ixFlag := if new_flag ≠ me.m_flag then some me.m_flag else none }
    rw [h7]
    have e7 := SendItemChange_heap h7
    exact ⟨_, rfl, (hm6.mof_heap hs.1 hs.2 hsm).mof_heap e7.1 e7.2 (SendItemChange_m_items h7)⟩


/-! ## More lemmas on maps -/

theorem mapErase_of_not_mem {α : Type} (k : Nat) (m : AMap α) (h : ∀ e ∈ m, e.1 ≠ k) :
    mapErase k m = m := by
  induction m with
  | nil => rfl
  | cons e t ih =>
    obtain ⟨k0, v0⟩ := e
    have h0 : k0 ≠ k := h (k0, v0) (List.mem_cons_self _ _)
    have ht : ∀ e ∈ t, e.1 ≠ k := fun e he => h e (List.mem_cons_of_mem _ he)
    simp [mapErase, h0, ih ht]

theorem mapFind_none_iff {α : Type} (k : Nat) (m : AMap α) :
    mapFind k m = none ↔ ∀ e ∈ m, e.1 ≠ k := by
  induction m with
  | nil => simp [mapFind]
  | cons e t ih =>
    obtain ⟨k0, v0⟩ := e
    by_cases h0 : k0 = k
    · simp [mapFind, h0]
    · simp [mapFind, h0, ih]

theorem mapErase_of_find_none {α : Type} {k : Nat} {m : AMap α} (h : mapFind k m = none) :
    mapErase k m = m :=
  mapErase_of_not_mem k m ((mapFind_none_iff k m).1 h)

theorem mapErase_mapInsert_self {α : Type} {k : Nat} (v : α) {m : AMap α}
    (h : mapFind k m = none) : mapErase k (mapInsert k v m) = m := by
  induction m with
  | nil => simp [mapInsert, mapErase]
  | cons e t ih =>
    obtain ⟨k0, v0⟩ := e
    have h0 : k0 ≠ k := by
      intro e0
      simp [mapFind, e0] at h
    have ht : mapFind k t = none := by
      simpa [mapFind, h0] using h
    have h0' : ¬ k = k0 := fun e0 => h0 e0.symm
    by_cases h1 : k < k0
    · simp only [mapInsert, if_pos h1]
      simp only [mapErase, if_true, if_neg h0]
      have := mapErase_of_find_none ht
      rw [this]
    · simp only [mapInsert, if_neg h1, if_neg h0']
      simp only [mapErase, if_neg h0]
      rw [ih ht]

theorem mapSorted_tail {α : Type} {e : Nat × α} {t : AMap α} (h : mapSorted (e :: t)) :
    mapSorted t := by
  unfold mapSorted at h ⊢
  simp only [List.map_cons, List.pairwise_cons] at h
  exact h.2

theorem mapSorted_head_lt {α : Type} {e : Nat × α} {t : AMap α} (h : mapSorted (e :: t)) :
    ∀ e' ∈ t, e.1 < e'.1 := by
  unfold mapSorted at h
  simp only [List.map_cons, List.pairwise_cons] at h
  intro e' he'
  exact h.1 e'.1 (List.mem_map_of_mem _ he')

theorem mapInsert_mapErase_self {α : Type} {k : Nat} {v : α} {m : AMap α}
    (hs : mapSorted m) (h : mapFind k m = some v) : mapInsert k v (mapErase k m) = m := by
  induction m with
  | nil => simp [mapFind] at h
  | cons e t ih =>
    obtain ⟨k0, v0⟩ := e
    have hlt := mapSorted_head_lt hs
    by_cases h0 : k0 = k
    · subst h0
      simp only [mapFind, if_true, Option.some.injEq] at h
      subst h
      have hnot : ∀ e ∈ t, e.1 ≠ k0 := fun e he => by
        have := hlt e he
        simp only at this
        omega
      simp only [mapErase, if_true]
      rw [mapErase_of_not_mem k0 t hnot]
      cases t with
      | nil => rfl
      | cons e1 t1 =>
        obtain ⟨k1, v1⟩ := e1
        have : k0 < k1 := hlt (k1, v1) (List.mem_cons_self _ _)
        simp [mapInsert, this]
    · have ht : mapFind k t = some v := by
        simpa [mapFind, h0] using h
      have hk : k0 < k := by
        have hmem : ∃ e ∈ t, e.1 = k := by
          by_contra hcon
          push_neg at hcon
          have := (mapFind_none_iff k t).2 hcon
          rw [this] at ht
          simp at ht
        obtain ⟨e, he, hek⟩ := hmem
        have := hlt e he
        simp only at this
        omega
      have h1 : ¬ k < k0 := by omega
      have h2 : ¬ k = k0 := by omega
      simp only [mapErase, if_neg h0, mapInsert, if_neg h1, if_neg h2]
      rw [ih (mapSorted_tail hs) ht]


/-! ## The checks of the world invariants -/

theorem mapFind_mem {α : Type} {k : Nat} {v : α} {m : AMap α} (h : mapFind k m = some v) :
    (k, v) ∈ m := by
  induction m with
  | nil => simp [mapFind] at h
  | cons e t ih =>
    obtain ⟨k0, v0⟩ := e
    by_cases h0 : k0 = k
    · simp [mapFind, h0] at h
      subst h0; subst h
      exact List.mem_cons_self _ _
    · simp [mapFind, h0] at h
      exact List.mem_cons_of_mem _ (ih h)

theorem World.get_mem {w : World} {p : Nat} {it : InventoryItem} (h : w.get p = some it) :
    (p, it) ∈ w.heap := by
  unfold World.get at h
  by_cases hg : 0 < p ∧ p < w.nextAddr
  · rw [if_pos hg] at h
    exact mapFind_mem h
  · rw [if_neg hg] at h
    simp at h

theorem cacheLive_of_check {w : World} (h : cacheLiveB w = true) : CacheLive w := by
  intro k p hk
  unfold cacheLiveB at h
  rw [List.all_eq_true] at h
  have := h (k, p) (mapFind_mem hk)
  simp only at this
  cases hg : w.get p with
  | none => simp [hg] at this
  | some c =>
    simp only [hg, decide_eq_true_eq] at this
    exact ⟨c, rfl, this.1, this.2⟩

theorem room_of_check {w : World} {n : Nat} (h : roomB w n = true) : w.room n := by
  intro p x hg
  unfold roomB at h
  rw [List.all_eq_true] at h
  unfold World.get at hg
  split at hg
  · simpa using h (p, x) (mapFind_mem hg)
  · simp at hg

theorem World.room.weaker {w : World} {n m : Nat} (h : w.room n) (hm : m ≤ n) : w.room m := by
  intro p x hg
  have := h p x hg
  omega

/-- Room in a world whose live instances were live with no fewer references. -/
theorem World.room.of_get {w' w : World} {n : Nat} (hr : w.room n)
    (h : ∀ q x', w'.get q = some x' → ∃ x, w.get q = some x ∧ x'.m_refCount ≤ x.m_refCount) :
    w'.room n := by
  intro q x' hq
  obtain ⟨x, hx, hle⟩ := h q x' hq
  have := hr q x hx
  omega

theorem World.locatedIn_iff (w : World) (q k : Nat) :
    w.locatedIn q k = true ↔ ∃ iq, w.get q = some iq ∧ iq.m_locationID = k := by
  unfold World.locatedIn
  cases w.get q with
  | none => simp
  | some iq => simp

theorem mirrors_of_check {w : World} (h : mirrorsB w = true) : Mirrors w := by
  intro k pc c hk hg hl id q
  unfold mirrorsB at h
  rw [List.all_eq_true] at h
  have h1 := h (k, pc) (mapFind_mem hk)
  simp only [hg, hl, Bool.not_true, Bool.false_or, Bool.and_eq_true, List.all_eq_true,
    decide_eq_true_eq, Bool.or_eq_true, Bool.not_eq_true'] at h1
  constructor
  · intro hf
    have := h1.1 (id, q) (mapFind_mem hf)
    exact ⟨this.1, (w.locatedIn_iff q k).1 this.2⟩
  · rintro ⟨hc, hloc⟩
    have := h1.2 (id, q) (mapFind_mem hc)
    rcases this with hno | hyes
    · have := (w.locatedIn_iff q k).2 hloc
      simp only at hno
      rw [this] at hno
      simp at hno
    · exact hyes

theorem mapsSorted_of_check {w : World} (h : mapsSortedB w = true) : MapsSorted w := by
  intro p c hg
  unfold mapsSortedB at h
  rw [List.all_eq_true] at h
  have := h (p, c) (World.get_mem hg)
  simpa using this


/-! ## The state after a `Move` -/

/-- In a world with a live cache an instance is cached under its own id only. -/
theorem cache_key_unique {w : World} (hcl : CacheLive w) {k k' p : Nat}
    (h : mapFind k w.m_items = some p) (h' : mapFind k' w.m_items = some p) : k = k' := by
  obtain ⟨c, hg, hi, _⟩ := hcl k p h
  obtain ⟨c', hg', hi', _⟩ := hcl k' p h'
  rw [hg] at hg'
  simp only [Option.some.injEq] at hg'
  subst hg'
  rw [← hi, ← hi']

theorem loaded_eq_iff {w : World} (hcl : CacheLive w) {k l pc : Nat}
    (hk : w.loaded k = some pc) : w.loaded l = some pc ↔ l = k := by
  constructor
  · intro hl
    exact cache_key_unique hcl (World.loaded_some hl).1 (World.loaded_some hk).1
  · intro e; rw [e]; exact hk

/-- The containment map of a resident container with its contents loaded, after a move of
the item `me` at `this` to `location`. -/
theorem moveF_contents {w : World} {this : Nat} {me : InventoryItem} (location new_flag : Nat)
    (hme : w.get this = some me) (hcache : mapFind me.m_itemID w.m_items = some this)
    (hcl : CacheLive w) (hmir : Mirrors w) {k pc : Nat} {c : InventoryItem}
    (hk : mapFind k w.m_items = some pc) (hg : w.get pc = some c)
    (hl : c.m_contentsLoaded = true) (id : Nat) :
    mapFind id (moveF this me.m_itemID (w.loaded me.m_locationID) (w.loaded location)
        location new_flag pc c).m_contents
      = if id = me.m_itemID then (if location = k then some this else none)
        else mapFind id c.m_contents := by
  have hld : w.loaded k = some pc := World.loaded_of hk hg hl
  have ha : w.loaded location = some pc ↔ location = k := loaded_eq_iff hcl hld
  have hd : w.loaded me.m_locationID = some pc ↔ me.m_locationID = k := loaded_eq_iff hcl hld
  have hold : me.m_locationID ≠ k → mapFind me.m_itemID c.m_contents = none := by
    intro hne
    cases hf : mapFind me.m_itemID c.m_contents with
    | none => rfl
    | some q =>
      exfalso
      obtain ⟨hq1, iq, hq2, hq3⟩ := (hmir _ _ _ hk hg hl _ _).1 hf
      rw [hcache] at hq1
      simp only [Option.some.injEq] at hq1
      subst hq1
      rw [hme] at hq2
      simp only [Option.some.injEq] at hq2
      subst hq2
      exact hne hq3
  unfold moveF
  simp only
  by_cases e : id = me.m_itemID
  · subst e
    by_cases h1 : location = k
    · rw [if_pos (ha.2 h1)]
      simp [mapFind_mapInsert, h1]
    · have h1' : ¬ w.loaded location = some pc := fun h => h1 (ha.1 h)
      rw [if_neg h1']
      by_cases h2 : me.m_locationID = k
      · rw [if_pos (hd.2 h2)]
        simp [mapFind_mapErase, h1]
      · have h2' : ¬ w.loaded me.m_locationID = some pc := fun h => h2 (hd.1 h)
        rw [if_neg h2']
        simp [h1, hold h2]
  · by_cases h1 : w.loaded location = some pc
    · rw [if_pos h1]
      by_cases h2 : w.loaded me.m_locationID = some pc
      · rw [if_pos h2]
        simp [mapFind_mapInsert, mapFind_mapErase, e]
      · rw [if_neg h2]
        simp [mapFind_mapInsert, e]
    · rw [if_neg h1]
      by_cases h2 : w.loaded me.m_locationID = some pc
      · rw [if_pos h2]
        simp [mapFind_mapErase, e]
      · rw [if_neg h2]
        simp [e]

/-- The invariants of the world hold again after a move. -/
theorem Move_post {w w' : World} {this : Nat} {me : InventoryItem} {location new_flag : Nat}
    (hme : w.get this = some me) (hcache : mapFind me.m_itemID w.m_items = some this)
    (hcl : CacheLive w) (hmir : Mirrors w)
    (hrc : (w.loaded me.m_locationID).isSome → 2 ≤ me.m_refCount)
    (hm : w'.mapped w (moveF this me.m_itemID (w.loaded me.m_locationID) (w.loaded location)
      location new_flag)) :
    CacheLive w' ∧ Mirrors w' ∧ (∀ id, w'.loaded id = w.loaded id) := by
  have hrc1 : 1 ≤ me.m_refCount := by
    obtain ⟨c, hg, _, h1⟩ := hcl _ _ hcache
    rw [hme] at hg
    simp only [Option.some.injEq] at hg
    subst hg
    exact h1
  refine ⟨?_, ?_, ?_⟩
  · intro k p hk
    rw [hm.2] at hk
    obtain ⟨c, hg, hi, hr⟩ := hcl k p hk
    refine ⟨_, hm.get_some hg, hi, ?_⟩
    unfold moveF
    simp only
    by_cases e : p = this
    · subst e
      rw [hme] at hg
      simp only [Option.some.injEq] at hg
      subst hg
      rw [if_pos rfl]
      by_cases hd : (w.loaded me.m_locationID).isSome = true
      · have := hrc hd
        rw [if_pos hd]
        split <;> omega
      · rw [if_neg hd]
        split <;> omega
    · rw [if_neg e]; exact hr
  · intro k pc c' hk hg' hl' id q
    rw [hm.2] at hk
    obtain ⟨c, hg, _, _⟩ := hcl k pc hk
    have hc' := hm.get_some hg
    rw [hg'] at hc'
    simp only [Option.some.injEq] at hc'
    have hl : c.m_contentsLoaded = true := by
      rw [hc'] at hl'; exact hl'
    rw [hc', moveF_contents location new_flag hme hcache hcl hmir hk hg hl id, hm.2]
    by_cases e : id = me.m_itemID
    · subst e
      rw [if_pos rfl, hcache]
      constructor
      · intro h
        by_cases h1 : location = k
        · rw [if_pos h1] at h
          simp only [Option.some.injEq] at h
          subst h
          exact ⟨rfl, _, hm.get_some hme, by simp [moveF, h1]⟩
        · rw [if_neg h1] at h
          simp at h
      · rintro ⟨h1, iq, h2, h3⟩
        simp only [Option.some.injEq] at h1
        subst h1
        rw [hm.get_some hme] at h2
        simp only [Option.some.injEq] at h2
        subst h2
        simp only [moveF, if_true] at h3
        rw [if_pos h3]
    · rw [if_neg e, hmir _ _ _ hk hg hl id q]
      have hq : mapFind id w.m_items = some q → q ≠ this := by
        intro hc hqt
        subst hqt
        exact e (cache_key_unique hcl hc hcache)
      constructor
      · rintro ⟨h1, iq, h2, h3⟩
        refine ⟨h1, _, hm.get_some h2, ?_⟩
        simp [moveF, hq h1, h3]
      · rintro ⟨h1, iq', h2, h3⟩
        refine ⟨h1, ?_⟩
        rw [hm.1 q] at h2
        cases hgq : w.get q with
        | none => simp [hgq] at h2
        | some iq =>
          simp only [hgq, Option.map_some', Option.some.injEq] at h2
          subst h2
          refine ⟨iq, rfl, ?_⟩
          simpa [moveF, hq h1] using h3
  · intro id
    exact World.loaded_mapped hm (fun _ _ => rfl) id


/-- In a mirroring world the map of a resident container with its contents loaded holds a
resident item exactly if the item is located in the container. -/
theorem entry_of_mirror {w : World} {this : Nat} {me : InventoryItem}
    (hme : w.get this = some me) (hcache : mapFind me.m_itemID w.m_items = some this)
    (hmir : Mirrors w) {k pc : Nat} {c : InventoryItem}
    (hk : mapFind k w.m_items = some pc) (hg : w.get pc = some c)
    (hl : c.m_contentsLoaded = true) :
    mapFind me.m_itemID c.m_contents = if me.m_locationID = k then some this else none := by
  by_cases h : me.m_locationID = k
  · rw [if_pos h]
    exact (hmir _ _ _ hk hg hl _ _).2 ⟨hcache, me, hme, h⟩
  · rw [if_neg h]
    cases hf : mapFind me.m_itemID c.m_contents with
    | none => rfl
    | some q =>
      exfalso
      obtain ⟨hq1, iq, hq2, hq3⟩ := (hmir _ _ _ hk hg hl _ _).1 hf
      rw [hcache] at hq1
      simp only [Option.some.injEq] at hq1
      subst hq1
      rw [hme] at hq2
      simp only [Option.some.injEq] at hq2
      subst hq2
      exact h hq3

/-- Moving there and back again gives every instance its old value. -/
theorem moveF_round_trip {w : World} {this : Nat} {me : InventoryItem} (A fX : Nat)
    (hme : w.get this = some me) (hcache : mapFind me.m_itemID w.m_items = some this)
    (hcl : CacheLive w) (hmir : Mirrors w) (hs : MapsSorted w)
    {q : Nat} {x : InventoryItem} (hq : w.get q = some x) :
    moveF this me.m_itemID (w.loaded A) (w.loaded me.m_locationID) me.m_locationID me.m_flag q
      (moveF this me.m_itemID (w.loaded me.m_locationID) (w.loaded A) A fX q x) = x := by
  have hrc1 : 1 ≤ me.m_refCount := by
    obtain ⟨c, hg, _, h1⟩ := hcl _ _ hcache
    rw [hme] at hg
    simp only [Option.some.injEq] at hg
    subst hg
    exact h1
  have hdet : w.loaded me.m_locationID = some q →
      mapFind me.m_itemID x.m_contents = some this := by
    intro h
    obtain ⟨hk, c, hg, hl⟩ := World.loaded_some h
    rw [hq] at hg
    simp only [Option.some.injEq] at hg
    subst hg
    rw [entry_of_mirror hme hcache hmir hk hq hl, if_pos rfl]
  have hatt : w.loaded A = some q → ¬ w.loaded me.m_locationID = some q →
      mapFind me.m_itemID x.m_contents = none := by
    intro h hn
    obtain ⟨hk, c, hg, hl⟩ := World.loaded_some h
    rw [hq] at hg
    simp only [Option.some.injEq] at hg
    subst hg
    rw [entry_of_mirror hme hcache hmir hk hq hl]
    by_cases e : me.m_locationID = A
    · exfalso; apply hn; rw [e]; exact h
    · rw [if_neg e]
  have hsorted := hs q x hq
  have hrcq : q = this → 1 ≤ x.m_refCount := by
    intro e
    subst e
    rw [hme] at hq
    simp only [Option.some.injEq] at hq
    subst hq
    exact hrc1
  have hlq : q = this → x.m_locationID = me.m_locationID ∧ x.m_flag = me.m_flag := by
    intro e
    subst e
    rw [hme] at hq
    simp only [Option.some.injEq] at hq
    subst hq
    exact ⟨rfl, rfl⟩
  cases x with
  | mk rc iid nm ty ow lo fl cb sg qt ps ci ct cl bp =>
    simp only [moveF, InventoryItem.mk.injEq, and_true, true_and]
    simp only at hdet hatt hsorted hrcq hlq
    refine ⟨?_, ?_, ?_, ?_⟩
    · by_cases e : q = this
      · have := hrcq e
        simp only [e, if_true]
        split <;> split <;> omega
      · simp only [e, if_false]
    · by_cases e : q = this
      · simp only [e, if_true]; exact ((hlq e).1).symm
      · simp only [e, if_false]
    · by_cases e : q = this
      · simp only [e, if_true]; exact ((hlq e).2).symm
      · simp only [e, if_false]
    · by_cases hd : w.loaded me.m_locationID = some q
      · have hf := hdet hd
        by_cases ha : w.loaded A = some q
        · simp only [hd, ha, if_true]
          rw [mapErase_mapInsert_self this (by rw [mapFind_mapErase]; simp)]
          exact mapInsert_mapErase_self hsorted hf
        · simp only [hd, ha, if_true, if_false]
          exact mapInsert_mapErase_self hsorted hf
      · by_cases ha : w.loaded A = some q
        · simp only [hd, ha, if_true, if_false]
          exact mapErase_mapInsert_self this (hatt ha hd)
        · simp only [hd, ha, if_false]


/-! ## Operations that allocate nothing and leave the cache alone -/

theorem Quiet.qrefl (w : World) : Quiet w w := ⟨rfl, rfl⟩

theorem Quiet.qtrans {w1 w2 w3 : World} (h12 : Quiet w1 w2) (h23 : Quiet w2 w3) : Quiet w1 w3 :=
  ⟨h23.1.trans h12.1, h23.2.trans h12.2⟩

theorem Quiet.qfoldlM {β : Type} (g : World → β → Option World)
    (hg : ∀ a x b, g a x = some b → Quiet a b) :
    ∀ (l : List β) (a b : World), l.foldlM g a = some b → Quiet a b := by
  intro l
  induction l with
  | nil =>
    intro a b h
    simp at h
    subst h
    exact Quiet.qrefl a
  | cons x t ih =>
    intro a b h
    simp [List.foldlM_cons, Option.bind_eq_some] at h
    obtain ⟨a1, h1, h2⟩ := h
    exact (hg a x a1 h1).qtrans (ih a1 b h2)

theorem Ref_quiet {p r : Nat} {w w' : World} (h : InventoryItem.Ref p w = some (r, w')) :
    Quiet w w' ∧ (r = p ∨ r = 0) := by
  unfold InventoryItem.Ref at h
  by_cases h0 : p = 0
  · rw [if_pos h0] at h
    simp only [Option.some.injEq, Prod.mk.injEq] at h
    rw [← h.2]
    exact ⟨Quiet.qrefl w, Or.inr h.1.symm⟩
  · rw [if_neg h0] at h
    cases hg : w.get p with
    | none => simp [hg] at h
    | some it =>
      simp only [hg] at h
      by_cases h1 : it.m_refCount < 1
      · rw [if_pos h1] at h
        simp only [Option.some.injEq, Prod.mk.injEq] at h
        rw [← h.2]
        exact ⟨Quiet.qrefl w, Or.inr h.1.symm⟩
      · rw [if_neg h1] at h
        simp only [Option.some.injEq, Prod.mk.injEq] at h
        rw [← h.2]
        exact ⟨⟨rfl, rfl⟩, Or.inl h.1.symm⟩

theorem Release_quiet : ∀ (fuel p : Nat) (w w' : World),
    InventoryItem.Release fuel p w = some w' → Quiet w w' := by
  intro fuel
  induction fuel with
  | zero =>
    intro p w w' h
    unfold InventoryItem.Release at h
    by_cases h0 : p = 0
    · rw [if_pos h0] at h
      simp only [Option.some.injEq] at h
      rw [← h]; exact Quiet.qrefl w
    · rw [if_neg h0] at h
      cases hg : w.get p with
      | none => simp [hg] at h
      | some it =>
        simp only [hg] at h
        by_cases h1 : it.m_refCount < 1
        · rw [if_pos h1] at h
          simp only [Option.some.injEq] at h
          rw [← h]; exact Quiet.qrefl w
        · rw [if_neg h1] at h
          by_cases h2 : it.m_refCount - 1 = 0
          · rw [if_pos h2] at h
            simp at h
          · rw [if_neg h2] at h
            simp only [Option.some.injEq] at h
            rw [← h]; exact ⟨rfl, rfl⟩
  | succ n ih =>
    intro p w w' h
    unfold InventoryItem.Release at h
    by_cases h0 : p = 0
    · rw [if_pos h0] at h
      simp only [Option.some.injEq] at h
      rw [← h]; exact Quiet.qrefl w
    · rw [if_neg h0] at h
      cases hg : w.get p with
      | none => simp [hg] at h
      | some it =>
        simp only [hg] at h
        by_cases h1 : it.m_refCount < 1
        · rw [if_pos h1] at h
          simp only [Option.some.injEq] at h
          rw [← h]; exact Quiet.qrefl w
        · rw [if_neg h1] at h
          by_cases h2 : it.m_refCount - 1 = 0
          · rw [if_pos h2] at h
            simp only [Option.map_eq_some'] at h
            obtain ⟨w2, hfold, hw'⟩ := h
            rw [← hw']
            have k2 := Quiet.qfoldlM (fun acc (e : Nat × Nat) => InventoryItem.Release n e.2 acc)
              (fun a x b hb => ih x.2 a b hb) _ _ _ hfold
            exact Quiet.qtrans (Quiet.qtrans ⟨rfl, rfl⟩ k2) ⟨rfl, rfl⟩
          · rw [if_neg h2] at h
            simp only [Option.some.injEq] at h
            rw [← h]; exact ⟨rfl, rfl⟩

theorem GetIfContentsLoaded_quiet {id r : Nat} {w w' : World}
    (h : ItemFactory._GetIfContentsLoaded id w = some (r, w')) :
    Quiet w w' ∧ (r = 0 ∨ w.loaded id = some r) := by
  unfold ItemFactory._GetIfContentsLoaded at h
  cases hc : mapFind id w.m_items with
  | none =>
    simp only [hc, Option.some.injEq, Prod.mk.injEq] at h
    rw [← h.2]
    exact ⟨Quiet.qrefl w, Or.inl h.1.symm⟩
  | some p =>
    simp only [hc] at h
    cases hg : w.get p with
    | none => simp [hg] at h
    | some it =>
      simp only [hg] at h
      by_cases hl : it.m_contentsLoaded = true
      · rw [if_pos hl] at h
        obtain ⟨hq, hr⟩ := Ref_quiet h
        refine ⟨hq, ?_⟩
        rcases hr with e | e
        · right; rw [e]; exact World.loaded_of hc hg hl
        · left; exact e
      · rw [if_neg hl] at h
        simp only [Option.some.injEq, Prod.mk.injEq] at h
        rw [← h.2]
        exact ⟨Quiet.qrefl w, Or.inl h.1.symm⟩

/-- The frame relation without the bound on the address, for operations that allocate
nothing. -/
theorem Keeps.of_quiet {α : Type} {f : InventoryItem → α} {w w' : World} (k : Keeps f w w')
    (hq : Quiet w w') {p : Nat} {it' : InventoryItem} (h : w'.get p = some it') :
    ∃ it, w.get p = some it ∧ f it' = f it := by
  have := (World.get_guard h).2
  rw [hq.1] at this
  exact k.2 p it' this h

theorem mem_mapErase {α : Type} {k : Nat} {m : AMap α} {e : Nat × α} (h : e ∈ mapErase k m) :
    e ∈ m := by
  induction m with
  | nil => simp [mapErase] at h
  | cons e0 t ih =>
    obtain ⟨k0, v0⟩ := e0
    by_cases h0 : k0 = k
    · simp only [mapErase, if_pos h0] at h
      exact List.mem_cons_of_mem _ (ih h)
    · simp only [mapErase, if_neg h0, List.mem_cons] at h
      rcases h with h | h
      · rw [h]; exact List.mem_cons_self _ _
      · exact List.mem_cons_of_mem _ (ih h)

theorem mem_mapInsert {α : Type} {k : Nat} {v : α} {m : AMap α} {e : Nat × α}
    (h : e ∈ mapInsert k v m) : e = (k, v) ∨ e ∈ m := by
  induction m with
  | nil =>
    simp only [mapInsert, List.mem_singleton] at h
    exact Or.inl h
  | cons e0 t ih =>
    obtain ⟨k0, v0⟩ := e0
    by_cases h1 : k < k0
    · simp only [mapInsert, if_pos h1, List.mem_cons] at h
      rcases h with h | h | h
      · exact Or.inl h
      · right; rw [h]; exact List.mem_cons_self _ _
      · right; exact List.mem_cons_of_mem _ h
    · by_cases h2 : k = k0
      · simp only [mapInsert, if_neg h1, if_pos h2, List.mem_cons] at h
        rcases h with h | h
        · exact Or.inl h
        · right; exact List.mem_cons_of_mem _ h
      · simp only [mapInsert, if_neg h1, if_neg h2, List.mem_cons] at h
        rcases h with h | h
        · right; rw [h]; exact List.mem_cons_self _ _
        · rcases ih h with h | h
          · exact Or.inl h
          · right; exact List.mem_cons_of_mem _ h


/-! ## The entries of the containment maps, backwards -/

theorem ContentsSub.crefl (X : Nat → Nat × Nat → Prop) (w : World) : ContentsSub X w w :=
  ⟨Quiet.qrefl w, fun _ c' h => ⟨c', h, rfl, fun _ he => Or.inl he⟩⟩

theorem ContentsSub.ctrans {X : Nat → Nat × Nat → Prop} {w1 w2 w3 : World}
    (h12 : ContentsSub X w1 w2) (h23 : ContentsSub X w2 w3) : ContentsSub X w1 w3 := by
  refine ⟨h12.1.qtrans h23.1, fun p c3 h3 => ?_⟩
  obtain ⟨c2, h2, l23, e23⟩ := h23.2 p c3 h3
  obtain ⟨c1, h1, l12, e12⟩ := h12.2 p c2 h2
  refine ⟨c1, h1, l23.trans l12, fun e he => ?_⟩
  rcases e23 e he with h | h
  · exact e12 e h
  · exact Or.inr h

theorem ContentsSub.of_keeps {X : Nat → Nat × Nat → Prop} {w w' : World}
    (k : Keeps (fun it : InventoryItem => (it.m_contents, it.m_contentsLoaded)) w w')
    (hq : Quiet w w') : ContentsSub X w w' := by
  refine ⟨hq, fun p c' h => ?_⟩
  obtain ⟨c, hc, e⟩ := k.of_quiet hq h
  simp only [Prod.mk.injEq] at e
  exact ⟨c, hc, e.2, fun x hx => Or.inl (e.1 ▸ hx)⟩

theorem ContentsSub.cset {X : Nat → Nat × Nat → Prop} {w : World} {p : Nat}
    {c c' : InventoryItem} (h : w.get p = some c)
    (hl : c'.m_contentsLoaded = c.m_contentsLoaded)
    (he : ∀ e ∈ c'.m_contents, e ∈ c.m_contents ∨ X p e) : ContentsSub X w (w.set p c') := by
  refine ⟨⟨rfl, rfl⟩, fun q cq hq => ?_⟩
  rw [World.get_set_live h] at hq
  by_cases e : q = p
  · subst e
    simp only [if_true, Option.some.injEq] at hq
    subst hq
    exact ⟨c, h, hl, he⟩
  · simp only [e, if_false] at hq
    exact ⟨cq, hq, rfl, fun _ hx => Or.inl hx⟩

theorem ignRc_contents :
    IgnRc (fun it : InventoryItem => (it.m_contents, it.m_contentsLoaded)) :=
  fun _ _ => rfl

theorem Ref_contentsSub {X : Nat → Nat × Nat → Prop} {p r : Nat} {w w' : World}
    (h : InventoryItem.Ref p w = some (r, w')) : ContentsSub X w w' :=
  ContentsSub.of_keeps (Ref_keeps ignRc_contents h) (Ref_quiet h).1

theorem Release_contentsSub {X : Nat → Nat × Nat → Prop} {fuel p : Nat} {w w' : World}
    (h : InventoryItem.Release fuel p w = some w') : ContentsSub X w w' :=
  ContentsSub.of_keeps (Release_keeps ignRc_contents _ _ _ _ h) (Release_quiet _ _ _ _ h)

theorem RemoveContainedItem_contentsSub {X : Nat → Nat × Nat → Prop} {fuel this it : Nat}
    {w w' : World} (h : InventoryItem.RemoveContainedItem fuel this it w = some w') :
    ContentsSub X w w' := by
  unfold InventoryItem.RemoveContainedItem at h
  cases hg1 : w.get this with
  | none => simp [hg1] at h
  | some c =>
    cases hg2 : w.get it with
    | none => simp [hg1, hg2] at h
    | some i =>
      simp only [hg1, hg2] at h
      cases hf : mapFind i.m_itemID c.m_contents with
      | none =>
        simp only [hf, Option.some.injEq] at h
        rw [← h]
        exact ContentsSub.crefl X w
      | some old_inst =>
        simp only [hf] at h
        cases hr : InventoryItem.Release fuel old_inst w with
        | none => simp [hr] at h
        | some w1 =>
          simp only [hr] at h
          cases hg3 : w1.get this with
          | none => simp [hg3] at h
          | some c1 =>
            simp only [hg3, Option.some.injEq] at h
            rw [← h]
            exact (Release_contentsSub hr).ctrans
              (ContentsSub.cset hg3 rfl (fun e he => Or.inl (mem_mapErase he)))

theorem AddContainedItem_contentsSub {this it : Nat} {w w' : World}
    (h : InventoryItem.AddContainedItem this it w = some w') :
    ContentsSub (fun p e => p = this ∧ (e.2 = it ∨ e.2 = 0)) w w' := by
  unfold InventoryItem.AddContainedItem at h
  cases hg1 : w.get this with
  | none => simp [hg1] at h
  | some c =>
    cases hg2 : w.get it with
    | none => simp [hg1, hg2] at h
    | some i =>
      simp only [hg1, hg2] at h
      cases hf : mapFind i.m_itemID c.m_contents with
      | some x =>
        simp only [hf, Option.some.injEq] at h
        rw [← h]
        exact ContentsSub.crefl _ w
      | none =>
        simp only [hf] at h
        cases hr : InventoryItem.Ref it w with
        | none => simp [hr] at h
        | some rw1 =>
          obtain ⟨r, w1⟩ := rw1
          simp only [hr] at h
          cases hg3 : w1.get this with
          | none => simp [hg3] at h
          | some c1 =>
            simp only [hg3, Option.some.injEq] at h
            rw [← h]
            refine (Ref_contentsSub hr).ctrans (ContentsSub.cset hg3 rfl (fun e he => ?_))
            rcases mem_mapInsert he with e1 | e1
            · right
              refine ⟨rfl, ?_⟩
              rw [e1]
              exact (Ref_quiet hr).2
            · exact Or.inl e1

theorem ContentsSub.mono {X Y : Nat → Nat × Nat → Prop} {w w' : World}
    (h : ContentsSub X w w') (hxy : ∀ p e, X p e → Y p e) : ContentsSub Y w w' := by
  refine ⟨h.1, fun p c' hc' => ?_⟩
  obtain ⟨c, hc, hl, he⟩ := h.2 p c' hc'
  refine ⟨c, hc, hl, fun e hx => ?_⟩
  rcases he e hx with h1 | h1
  · exact Or.inl h1
  · exact Or.inr (hxy p e h1)

theorem ContentsSub.cof_heap {X : Nat → Nat × Nat → Prop} {w w' : World}
    (hh : w'.heap = w.heap) (hn : w'.nextAddr = w.nextAddr) (hm : w'.m_items = w.m_items) :
    ContentsSub X w w' := by
  refine ⟨⟨hn, hm⟩, fun p c' hc' => ?_⟩
  rw [get_of_heap hh hn p] at hc'
  exact ⟨c', hc', rfl, fun _ hx => Or.inl hx⟩

/-- Loadedness of a container goes backwards along `ContentsSub`. -/
theorem ContentsSub.loaded {X : Nat → Nat × Nat → Prop} {w w' : World}
    (h : ContentsSub X w w') {id p : Nat} (hl : w'.loaded id = some p) : w.loaded id = some p := by
  obtain ⟨hc, c', hg', hl'⟩ := World.loaded_some hl
  obtain ⟨c, hg, hlc, _⟩ := h.2 p c' hg'
  rw [h.1.2] at hc
  exact World.loaded_of hc hg (hlc ▸ hl')

/-- The entries of the containment maps after a `Move`: the only new entry is the moved item
in the map of the destination container, when that is resident with its contents loaded. -/
theorem Move_contentsSub {fuel this location new_flag : Nat} {notify : Bool} {w w' : World}
    (h : InventoryItem.Move fuel this location new_flag notify w = some w') :
    ContentsSub (fun p e => w.loaded location = some p ∧ (e.2 = this ∨ e.2 = 0)) w w' := by
  obtain ⟨me, hme, h⟩ := Move_inv h
  rcases h with ⟨_, _, e⟩ | ⟨_, oc, w1, w2, nc, w3, w4, me4, h1, h2, h3, h4, h5, e1, e2, e3⟩
  · rw [e]; exact ContentsSub.crefl _ w
  · have k1 : ContentsSub (fun p e => w.loaded location = some p ∧ (e.2 = this ∨ e.2 = 0))
        w w1 :=
      ContentsSub.of_keeps (GetIfContentsLoaded_keeps ignRc_contents h1)
        (GetIfContentsLoaded_quiet h1).1
    have k2 : ContentsSub (fun p e => w.loaded location = some p ∧ (e.2 = this ∨ e.2 = 0))
        w1 w2 := by
      by_cases ho : oc ≠ 0
      · rw [if_pos ho] at h2
        simp only [Option.bind_eq_some] at h2
        obtain ⟨wa, ha, hb⟩ := h2
        exact (RemoveContainedItem_contentsSub ha).ctrans (Release_contentsSub hb)
      · rw [if_neg ho] at h2
        simp only [Option.some.injEq] at h2
        rw [← h2]; exact ContentsSub.crefl _ w1
    have k12 := k1.ctrans k2
    have k3 : ContentsSub (fun p e => w.loaded location = some p ∧ (e.2 = this ∨ e.2 = 0))
        w2 w3 :=
      ContentsSub.of_keeps (GetIfContentsLoaded_keeps ignRc_contents h3)
        (GetIfContentsLoaded_quiet h3).1
    have k4 : ContentsSub (fun p e => w.loaded location = some p ∧ (e.2 = this ∨ e.2 = 0))
        w3 w4 := by
      by_cases ho : nc ≠ 0
      · rw [if_pos ho] at h4
        simp only [Option.bind_eq_some] at h4
        obtain ⟨wa, ha, hb⟩ := h4
        have hnc : w.loaded location = some nc := by
          rcases (GetIfContentsLoaded_quiet h3).2 with e0 | hl
          · exact absurd e0 ho
          · exact k12.loaded hl
        refine ((AddContainedItem_contentsSub ha).mono ?_).ctrans (Release_contentsSub hb)
        intro p e hx
        exact ⟨hx.1 ▸ hnc, hx.2⟩
      · rw [if_neg ho] at h4
        simp only [Option.some.injEq] at h4
        rw [← h4]; exact ContentsSub.crefl _ w3
    have k5 : ContentsSub (fun p e => w.loaded location = some p ∧ (e.2 = this ∨ e.2 = 0))
        w4 (w4.set this { me4 with m_locationID := location, m_flag := new_flag }) :=
      ContentsSub.cset h5 rfl (fun _ hx => Or.inl hx)
    have k6 : ContentsSub (fun p e => w.loaded location = some p ∧ (e.2 = this ∨ e.2 = 0))
        (w4.set this { me4 with m_locationID := location, m_flag := new_flag }) w' :=
      ContentsSub.cof_heap e1 e2 e3
    exact ((((k12.ctrans k3).ctrans k4).ctrans k5).ctrans k6)


/-! ## Rejected quantity changes -/

theorem toInt32_neg_of {x : Int} (h1 : -2 ^ 31 ≤ x) (h2 : x < 0) : toInt32 x < 0 := by
  unfold toInt32
  omega

theorem toInt32_of_range {x : Int} (h1 : -2 ^ 31 ≤ x) (h2 : x < 2 ^ 31) : toInt32 x = x := by
  unfold toInt32
  omega

/-- A change that would make the quantity negative is refused and the world is untouched. -/
theorem AlterQuantity_refused {w : World} {this : Nat} {it : InventoryItem} {delta : Int}
    (notify : Bool) (hlive : w.get this = some it) (hq : it.m_quantity < 2 ^ 32)
    (hd : -2 ^ 31 ≤ delta ∧ delta < 2 ^ 31) (hneg : (it.m_quantity : Int) + delta < 0) :
    InventoryItem.AlterQuantity this delta notify w = some (false, w) := by
  have h0 : delta ≠ 0 := by omega
  have h1 : toInt32 ((it.m_quantity : Int) + delta) < 0 := toInt32_neg_of (by omega) hneg
  simp [InventoryItem.AlterQuantity, hlive, h0, h1]


/-! ## Parts of the world that the heap primitives do not see -/

theorem foldlM_proj {β γ : Type} (π : World → γ) (g : World → β → Option World)
    (hg : ∀ a x b, g a x = some b → π b = π a) :
    ∀ (l : List β) (a b : World), l.foldlM g a = some b → π b = π a := by
  intro l
  induction l with
  | nil =>
    intro a b h
    simp at h
    subst h
    rfl
  | cons x t ih =>
    intro a b h
    simp [List.foldlM_cons, Option.bind_eq_some] at h
    obtain ⟨a1, h1, h2⟩ := h
    exact (ih a1 b h2).trans (hg a x a1 h1)

theorem Ref_proj {γ : Type} (π : World → γ) (hs : ∀ w p it, π (World.set w p it) = π w)
    {p r : Nat} {w w' : World} (h : InventoryItem.Ref p w = some (r, w')) : π w' = π w := by
  unfold InventoryItem.Ref at h
  by_cases h0 : p = 0
  · rw [if_pos h0] at h
    simp only [Option.some.injEq, Prod.mk.injEq] at h
    rw [← h.2]
  · rw [if_neg h0] at h
    cases hg : w.get p with
    | none => simp [hg] at h
    | some it =>
      simp only [hg] at h
      by_cases h1 : it.m_refCount < 1
      · rw [if_pos h1] at h
        simp only [Option.some.injEq, Prod.mk.injEq] at h
        rw [← h.2]
      · rw [if_neg h1] at h
        simp only [Option.some.injEq, Prod.mk.injEq] at h
        rw [← h.2]
        exact hs _ _ _

theorem Release_proj {γ : Type} (π : World → γ) (hs : ∀ w p it, π (World.set w p it) = π w)
    (hf : ∀ w p, π (World.free w p) = π w) : ∀ (fuel p : Nat) (w w' : World),
    InventoryItem.Release fuel p w = some w' → π w' = π w := by
  intro fuel
  induction fuel with
  | zero =>
    intro p w w' h
    unfold InventoryItem.Release at h
    by_cases h0 : p = 0
    · rw [if_pos h0] at h
      simp only [Option.some.injEq] at h
      rw [← h]
    · rw [if_neg h0] at h
      cases hg : w.get p with
      | none => simp [hg] at h
      | some it =>
        simp only [hg] at h
        by_cases h1 : it.m_refCount < 1
        · rw [if_pos h1] at h
          simp only [Option.some.injEq] at h
          rw [← h]
        · rw [if_neg h1] at h
          by_cases h2 : it.m_refCount - 1 = 0
          · rw [if_pos h2] at h
            simp at h
          · rw [if_neg h2] at h
            simp only [Option.some.injEq] at h
            rw [← h]; exact hs _ _ _
  | succ n ih =>
    intro p w w' h
    unfold InventoryItem.Release at h
    by_cases h0 : p = 0
    · rw [if_pos h0] at h
      simp only [Option.some.injEq] at h
      rw [← h]
    · rw [if_neg h0] at h
      cases hg : w.get p with
      | none => simp [hg] at h
      | some it =>
        simp only [hg] at h
        by_cases h1 : it.m_refCount < 1
        · rw [if_pos h1] at h
          simp only [Option.some.injEq] at h
          rw [← h]
        · rw [if_neg h1] at h
          by_cases h2 : it.m_refCount - 1 = 0
          · rw [if_pos h2] at h
            simp only [Option.map_eq_some'] at h
            obtain ⟨w2, hfold, hw'⟩ := h
            rw [← hw']
            have k2 := foldlM_proj π (fun acc (e : Nat × Nat) => InventoryItem.Release n e.2 acc)
              (fun a x b hb => ih x.2 a b hb) _ _ _ hfold
            rw [hf, k2, hs]
          · rw [if_neg h2] at h
            simp only [Option.some.injEq] at h
            rw [← h]; exact hs _ _ _

theorem GetIfContentsLoaded_proj {γ : Type} (π : World → γ)
    (hs : ∀ w p it, π (World.set w p it) = π w) {id r : Nat} {w w' : World}
    (h : ItemFactory._GetIfContentsLoaded id w = some (r, w')) : π w' = π w := by
  unfold ItemFactory._GetIfContentsLoaded at h
  cases hc : mapFind id w.m_items with
  | none =>
    simp only [hc, Option.some.injEq, Prod.mk.injEq] at h
    rw [← h.2]
  | some p =>
    simp only [hc] at h
    cases hg : w.get p with
    | none => simp [hg] at h
    | some it =>
      simp only [hg] at h
      by_cases hl : it.m_contentsLoaded = true
      · rw [if_pos hl] at h
        exact Ref_proj π hs h
      · rw [if_neg hl] at h
        simp only [Option.some.injEq, Prod.mk.injEq] at h
        rw [← h.2]

theorem AddContainedItem_proj {γ : Type} (π : World → γ)
    (hs : ∀ w p it, π (World.set w p it) = π w) {this it : Nat} {w w' : World}
    (h : InventoryItem.AddContainedItem this it w = some w') : π w' = π w := by
  unfold InventoryItem.AddContainedItem at h
  cases hc : w.get this with
  | none => simp [hc] at h
  | some c =>
    cases hi : w.get it with
    | none => simp [hc, hi] at h
    | some i =>
      simp only [hc, hi] at h
      cases hf : mapFind i.m_itemID c.m_contents with
      | some _ =>
        simp only [hf, Option.some.injEq] at h
        rw [← h]
      | none =>
        simp only [hf] at h
        cases hr : InventoryItem.Ref it w with
        | none => simp [hr] at h
        | some r =>
          obtain ⟨r, w1⟩ := r
          simp only [hr] at h
          cases hc1 : w1.get this with
          | none => simp [hc1] at h
          | some c1 =>
            simp only [hc1, Option.some.injEq] at h
            rw [← h, hs]
            exact Ref_proj π hs hr

theorem RemoveContainedItem_proj {γ : Type} (π : World → γ)
    (hs : ∀ w p it, π (World.set w p it) = π w) (hf : ∀ w p, π (World.free w p) = π w)
    {fuel this it : Nat} {w w' : World}
    (h : InventoryItem.RemoveContainedItem fuel this it w = some w') : π w' = π w := by
  unfold InventoryItem.RemoveContainedItem at h
  cases hc : w.get this with
  | none => simp [hc] at h
  | some c =>
    cases hi : w.get it with
    | none => simp [hc, hi] at h
    | some i =>
      simp only [hc, hi] at h
      cases hfd : mapFind i.m_itemID c.m_contents with
      | none =>
        simp only [hfd, Option.some.injEq] at h
        rw [← h]
      | some old =>
        simp only [hfd] at h
        cases hr : InventoryItem.Release fuel old w with
        | none => simp [hr] at h
        | some w1 =>
          simp only [hr] at h
          cases hc1 : w1.get this with
          | none => simp [hc1] at h
          | some c1 =>
            simp only [hc1, Option.some.injEq] at h
            rw [← h, hs]
            exact Release_proj π hs hf _ _ _ _ hr

theorem SendItemChange_rows {this toID : Nat} {ch ch' : Changes} {w w' : World}
    (h : InventoryItem.SendItemChange this toID ch w = some (ch', w')) : w'.rows = w.rows := by
  unfold InventoryItem.SendItemChange at h
  by_cases ho : toID ∈ w.online
  · simp only [ho, if_true] at h
    cases hg : w.get this with
    | none => simp [hg] at h
    | some it =>
      simp only [hg, Option.some.injEq, Prod.mk.injEq] at h
      rw [← h.2]
  · simp only [ho, if_false, Option.some.injEq, Prod.mk.injEq] at h
    rw [← h.2]

theorem mem_saved_rows {w : World} {it : InventoryItem} {e : Nat × ItemData}
    (h : e ∈ (w.saved it).rows) : e ∈ w.rows ∨ e = (it.m_itemID, it.toData) := by
  have key : ∀ w0 : World, e ∈ (ItemDB.SaveItem it.m_itemID it.toData w0).rows →
      e ∈ w0.rows ∨ e = (it.m_itemID, it.toData) := by
    intro w0 h0
    unfold ItemDB.SaveItem at h0
    cases hf : mapFind it.m_itemID w0.rows with
    | none =>
      simp only [hf] at h0
      exact Or.inl h0
    | some _ =>
      simp only [hf] at h0
      exact (mem_mapInsert h0).symm
  unfold World.saved at h
  cases hb : it.bp with
  | none =>
    simp only [hb] at h
    exact key w h
  | some b =>
    simp only [hb] at h
    have hr : (ItemDB.SaveBlueprint it.m_itemID b (ItemDB.SaveItem it.m_itemID it.toData w)).rows
        = (ItemDB.SaveItem it.m_itemID it.toData w).rows := by
      unfold ItemDB.SaveBlueprint
      split <;> rfl
    rw [hr] at h
    exact key w h


/-! ## Forward lemmas of the field mutators -/

/-- The invariants of the world do not see a change that keeps the item id, the reference
count, the containment map, the loaded flag and the location of every instance. -/
theorem inv_of_mapped {w' w : World} {F : Nat → InventoryItem → InventoryItem}
    (h : w'.mapped w F)
    (hF : ∀ q x, (F q x).m_itemID = x.m_itemID ∧ (F q x).m_refCount = x.m_refCount ∧
      (F q x).m_contents = x.m_contents ∧ (F q x).m_contentsLoaded = x.m_contentsLoaded ∧
      (F q x).m_locationID = x.m_locationID)
    (hcl : CacheLive w) (hmir : Mirrors w) : CacheLive w' ∧ Mirrors w' := by
  constructor
  · intro k p hk
    rw [h.2] at hk
    obtain ⟨c, hg, hi, hr⟩ := hcl k p hk
    refine ⟨F p c, h.get_some hg, ?_, ?_⟩
    · rw [(hF p c).1]; exact hi
    · rw [(hF p c).2.1]; exact hr
  · intro k pc c' hk hg' hl' id q
    rw [h.2] at hk
    rw [h.1 pc] at hg'
    cases hg : w.get pc with
    | none => simp [hg] at hg'
    | some c =>
      simp only [hg, Option.map_some', Option.some.injEq] at hg'
      subst hg'
      rw [(hF pc c).2.2.2.1] at hl'
      rw [(hF pc c).2.2.1, hmir k pc c hk hg hl' id q, h.2]
      constructor
      · rintro ⟨h1, iq, h2, h3⟩
        exact ⟨h1, F q iq, h.get_some h2, by rw [(hF q iq).2.2.2.2]; exact h3⟩
      · rintro ⟨h1, iq', h2, h3⟩
        rw [h.1 q] at h2
        cases hq : w.get q with
        | none => simp [hq] at h2
        | some iq =>
          simp only [hq, Option.map_some', Option.some.injEq] at h2
          subst h2
          exact ⟨h1, iq, rfl, by rw [← (hF q iq).2.2.2.2]; exact h3⟩

theorem World.wrote.mapped {w' w : World} {this : Nat} {it : InventoryItem}
    (g : InventoryItem → InventoryItem) (h : w'.wrote w this (g it))
    (hl : w.get this = some it) : w'.mapped w (fun q x => if q = this then g x else x) := by
  refine ⟨fun q => ?_, h.2.1⟩
  rw [h.1 q]
  by_cases e : q = this
  · subst e; simp [hl]
  · simp only [e, if_false]
    cases w.get q <;> rfl

theorem World.room.of_mapped {w' w : World} {F : Nat → InventoryItem → InventoryItem}
    {n : Nat} (hr : w.room n) (h : w'.mapped w F)
    (hF : ∀ q x, (F q x).m_refCount ≤ x.m_refCount) : w'.room n := by
  refine hr.of_get (fun q x' hq => ?_)
  rw [h.1 q] at hq
  cases hw : w.get q with
  | none => simp [hw] at hq
  | some x =>
    simp only [hw, Option.map_some', Option.some.injEq] at hq
    exact ⟨x, rfl, by rw [← hq]; exact hF q x⟩

/-- Room after a write that keeps the reference count. -/
theorem World.room.of_wrote {w' w : World} {this : Nat} {it it' : InventoryItem} {n : Nat}
    (hr : w.room n) (h : w'.wrote w this it') (hl : w.get this = some it)
    (hrc : it'.m_refCount ≤ it.m_refCount) : w'.room n := by
  refine hr.of_get (fun q x' hq => ?_)
  rw [h.1 q] at hq
  by_cases e : q = this
  · rw [if_pos e] at hq
    simp only [Option.some.injEq] at hq
    subst hq
    exact ⟨it, by rw [e]; exact hl, hrc⟩
  · rw [if_neg e] at hq
    exact ⟨x', hq, le_refl _⟩

theorem World.wrote.same {w : World} {this : Nat} {it : InventoryItem}
    (hl : w.get this = some it) : w.wrote w this it := by
  refine ⟨fun q => ?_, rfl, fun e he => Or.inl he, rfl, rfl⟩
  by_cases e : q = this
  · subst e; simp [hl]
  · simp [e]

theorem SendItemChange_nextItemID {this toID : Nat} {ch ch' : Changes} {w w' : World}
    (h : InventoryItem.SendItemChange this toID ch w = some (ch', w')) :
    w'.nextItemID = w.nextItemID := by
  unfold InventoryItem.SendItemChange at h
  by_cases ho : toID ∈ w.online
  · simp only [ho, if_true] at h
    cases hg : w.get this with
    | none => simp [hg] at h
    | some it =>
      simp only [hg, Option.some.injEq, Prod.mk.injEq] at h
      rw [← h.2]
  · simp only [ho, if_false, Option.some.injEq, Prod.mk.injEq] at h
    rw [← h.2]

theorem saved_nextItemID (w : World) (it : InventoryItem) :
    (w.saved it).nextItemID = w.nextItemID := by
  unfold World.saved ItemDB.SaveBlueprint ItemDB.SaveItem
  cases it.bp <;> simp only <;> repeat (split <;> try rfl)

theorem send_fwd {w : World} {this : Nat} {it : InventoryItem} (h : w.get this = some it)
    (toID : Nat) (ch : Changes) :
    ∃ ch' w', InventoryItem.SendItemChange this toID ch w = some (ch', w') ∧
      (∀ q, w'.get q = w.get q) ∧ w'.m_items = w.m_items ∧ w'.rows = w.rows ∧
      w'.nextItemID = w.nextItemID ∧ w'.nextAddr = w.nextAddr := by
  obtain ⟨ch', w', hs⟩ := SendItemChange_live h toID ch
  have hh := SendItemChange_heap hs
  exact ⟨ch', w', hs, get_of_heap hh.1 hh.2, SendItemChange_m_items hs, SendItemChange_rows hs,
    SendItemChange_nextItemID hs, hh.2⟩

theorem set_save_fwd {w : World} {this : Nat} {it : InventoryItem}
    (hl : w.get this = some it) (it' : InventoryItem) :
    ∃ w2, InventoryItem.Save 0 this false false (w.set this it') = some w2 ∧
      w2.wrote w this it' := by
  have hlive : (w.set this it').get this = some it' := by
    rw [World.get_set_live hl]; simp
  refine ⟨_, Save_false hlive 0 false, fun q => ?_, ?_, fun e he => ?_, ?_, ?_⟩
  · rw [get_saved, World.get_set_live hl]
  · rw [saved_m_items]; rfl
  · exact mem_saved_rows (w := w.set this it') he
  · rw [saved_nextItemID]; rfl
  · rw [(saved_heap _ _).2]; rfl

theorem World.wrote.send {w2 w3 w : World} {this : Nat} {it' : InventoryItem}
    (h : w2.wrote w this it') (hg : ∀ q, w3.get q = w2.get q) (hm : w3.m_items = w2.m_items)
    (hr : w3.rows = w2.rows ∧ w3.nextItemID = w2.nextItemID ∧ w3.nextAddr = w2.nextAddr) :
    w3.wrote w this it' :=
  ⟨fun q => (hg q).trans (h.1 q), hm.trans h.2.1, fun e he => h.2.2.1 e (hr.1 ▸ he),
    hr.2.1.trans h.2.2.2.1, hr.2.2.trans h.2.2.2.2⟩

theorem World.wrote.live {w' w : World} {this : Nat} {it' : InventoryItem}
    (h : w'.wrote w this it') : w'.get this = some it' := by
  rw [h.1 this]; simp

theorem SetQuantity_fwd {w : World} {this : Nat} {me : InventoryItem}
    (hl : w.get this = some me) (hs : me.m_singleton = false) (qty_new : Nat) (notify : Bool) :
    ∃ w', InventoryItem.SetQuantity this qty_new notify w = some (true, w') ∧
      w'.wrote w this { me with m_quantity := qty_new } := by
  obtain ⟨w2, hsave, hw2⟩ := set_save_fwd hl { me with m_quantity := qty_new }
  unfold InventoryItem.SetQuantity
  simp only [hl]
  rw [if_neg (by simp [hs]), hsave]
  simp only [Option.some_bind]
  cases notify with
  | false => exact ⟨w2, by simp, hw2⟩
  | true =>
    obtain ⟨ch', w3, h3, hg, hm, hr⟩ := send_fwd hw2.live me.m_ownerID
      { Changes.empty with ixQuantity := some me.m_quantity }
    refine ⟨w3, ?_, hw2.send hg hm hr⟩
    simp [h3]

theorem AlterQuantity_fwd {w : World} {this : Nat} {me : InventoryItem}
    (hl : w.get this = some me) (hs : me.m_singleton = false) (delta : Int) (notify : Bool)
    (h0 : 0 ≤ (me.m_quantity : Int) + delta) (h1 : (me.m_quantity : Int) + delta < 2 ^ 31) :
    ∃ w', InventoryItem.AlterQuantity this delta notify w = some (true, w') ∧
      w'.wrote w this { me with m_quantity := ((me.m_quantity : Int) + delta).toNat } := by
  unfold InventoryItem.AlterQuantity
  simp only [hl]
  by_cases hd : delta = 0
  · rw [if_pos hd]
    refine ⟨w, rfl, ?_⟩
    have : { me with m_quantity := ((me.m_quantity : Int) + delta).toNat } = me := by
      subst hd
      simp
    rw [this]
    exact World.wrote.same hl
  · rw [if_neg hd]
    have e : toInt32 ((me.m_quantity : Int) + delta) = (me.m_quantity : Int) + delta :=
      toInt32_of_range (by omega) h1
    rw [e, if_neg (by omega)]
    have e2 : toUint32 ((me.m_quantity : Int) + delta) = ((me.m_quantity : Int) + delta).toNat := by
      unfold toUint32
      rw [Int.emod_eq_of_lt h0 (by omega)]
    rw [e2]
    exact SetQuantity_fwd hl hs _ notify

theorem ChangeOwner_fwd {w : World} {this : Nat} {me : InventoryItem}
    (hl : w.get this = some me) (new_owner : Nat) (notify : Bool) :
    ∃ w', InventoryItem.ChangeOwner this new_owner notify w = some w' ∧
      w'.wrote w this { me with m_ownerID := new_owner } := by
  unfold InventoryItem.ChangeOwner
  simp only [hl]
  by_cases hd : new_owner = me.m_ownerID
  · rw [if_pos hd]
    refine ⟨w, rfl, ?_⟩
    have : { me with m_ownerID := new_owner } = me := by
      subst hd
      rfl
    rw [this]
    exact World.wrote.same hl
  · rw [if_neg hd]
    obtain ⟨w2, hsave, hw2⟩ := set_save_fwd hl { me with m_ownerID := new_owner }
    rw [hsave]
    simp only [Option.some_bind]
    cases notify with
    | false => exact ⟨w2, by simp, hw2⟩
    | true =>
      obtain ⟨ch3, w3, h3, hg3, hm3, hr3⟩ := send_fwd hw2.live new_owner
        { Changes.empty with ixOwnerID := some me.m_ownerID }
      have hw3 := hw2.send hg3 hm3 hr3
      obtain ⟨ch4, w4, h4, hg4, hm4, hr4⟩ := send_fwd hw3.live me.m_ownerID
        { ch3 with ixOwnerID := some me.m_ownerID }
      refine ⟨w4, ?_, hw3.send hg4 hm4 hr4⟩
      simp [h3, h4]

/-- The rows after a `Move`: the only row written is one at the new location. -/
theorem Move_rows {fuel this location new_flag : Nat} {notify : Bool} {w w' : World}
    (h : InventoryItem.Move fuel this location new_flag notify w = some w') :
    ∀ e ∈ w'.rows, e ∈ w.rows ∨ e.2.locationID = location := by
  unfold InventoryItem.Move at h
  cases hme : w.get this with
  | none => simp [hme] at h
  | some me =>
    simp only [hme] at h
    by_cases hc : location = me.m_locationID ∧ new_flag = me.m_flag
    · simp only [hc, and_self, if_true, Option.some.injEq] at h
      subst h
      exact fun e he => Or.inl he
    · simp only [hc, if_false, Option.bind_eq_some] at h
      obtain ⟨w2, ⟨⟨oc, w1⟩, h1, h2⟩, w4, ⟨⟨nc, w3⟩, h3, h4⟩, me4, h5, w6, h6, h7⟩ := h
      have hs : ∀ (w : World) (p : Nat) (it : InventoryItem), (w.set p it).rows = w.rows :=
        fun _ _ _ => rfl
      have hf : ∀ (w : World) (p : Nat), (w.free p).rows = w.rows := fun _ _ => rfl
      have r1 : w1.rows = w.rows := GetIfContentsLoaded_proj World.rows hs h1
      have r2 : w2.rows = w1.rows := by
        simp only at h2
        by_cases ho : oc ≠ 0
        · rw [if_pos ho] at h2
          simp only [Option.bind_eq_some] at h2
          obtain ⟨wa, ha, hb⟩ := h2
          exact (Release_proj World.rows hs hf _ _ _ _ hb).trans
            (RemoveContainedItem_proj World.rows hs hf ha)
        · rw [if_neg ho] at h2
          simp only [Option.some.injEq] at h2
          rw [h2]
      have r3 : w3.rows = w2.rows := GetIfContentsLoaded_proj World.rows hs h3
      have r4 : w4.rows = w3.rows := by
        simp only at h4
        by_cases ho : nc ≠ 0
        · rw [if_pos ho] at h4
          simp only [Option.bind_eq_some] at h4
          obtain ⟨wa, ha, hb⟩ := h4
          exact (Release_proj World.rows hs hf _ _ _ _ hb).trans
            (AddContainedItem_proj World.rows hs ha)
        · rw [if_neg ho] at h4
          simp only [Option.some.injEq] at h4
          rw [h4]
      have hlive : (w4.set this { me4 with m_locationID := location, m_flag := new_flag }).get this
          = some { me4 with m_locationID := location, m_flag := new_flag } := by
        rw [World.get_set_live h5]; simp
      rw [Save_false hlive] at h6
      simp only [Option.some.injEq] at h6
      have r6 : ∀ e ∈ w6.rows, e ∈ w.rows ∨ e.2.locationID = location := by
        intro e he
        rw [← h6] at he
        rcases mem_saved_rows he with h8 | h8
        · left
          have : (w4.set this { me4 with m_locationID := location, m_flag := new_flag }).rows
              = w.rows := by
            rw [hs, r4, r3, r2, r1]
          rw [← this]; exact h8
        · right
          rw [h8]
          rfl
      cases notify with
      | true =>
        simp only [if_true, Option.map_eq_some'] at h7
        obtain ⟨⟨ch, w7⟩, h7, e7⟩ := h7
        simp only at e7
        subst e7
        intro e he
        rw [SendItemChange_rows h7] at he
        exact r6 e he
      | false =>
        simp only [Bool.false_eq_true, if_false, Option.some.injEq] at h7
        subst h7
        exact r6


/-! ## Deleting an item that holds nothing -/

theorem moveF_other {f : InventoryItem → α} (hf : IgnContents f) (this id : Nat)
    (det att : Option Nat) (location new_flag : Nat) {q : Nat} (hq : q ≠ this)
    (it : InventoryItem) : f (moveF this id det att location new_flag q it) = f it := by
  unfold moveF
  simp only [if_neg hq]
  exact hf it _

/-- A `Move` of a cached item with an empty map. -/
theorem Move_leaf {w : World} {b : Nat} {ib : InventoryItem} (fuel location new_flag : Nat)
    (notify : Bool) (hb : w.get b = some ib)
    (hcache : mapFind ib.m_itemID w.m_items = some b) (hcl : CacheLive w) (hmir : Mirrors w)
    (hrc : 2 + (if (w.loaded ib.m_locationID).isSome then 1 else 0) ≤ ib.m_refCount)
    (hroom : w.room 1)
    (hempty : ib.m_contents = []) (hid : ib.m_itemID ≠ location) :
    ∃ w2 ib2, InventoryItem.Move fuel b location new_flag notify w = some w2 ∧
      w2.get b = some ib2 ∧ ib2.m_itemID = ib.m_itemID ∧ ib2.m_contents = [] ∧
      2 ≤ ib2.m_refCount ∧ ib2.m_contentsLoaded = ib.m_contentsLoaded ∧
      ib2.m_locationID = location ∧
      (w.loaded location = none → ib2.m_refCount
        = ib.m_refCount - (if (w.loaded ib.m_locationID).isSome then 1 else 0)) ∧
      w2.m_items = w.m_items ∧
      (∀ {α : Type} (f : InventoryItem → α), IgnContents f →
        ∀ q, q ≠ b → (w2.get q).map f = (w.get q).map f) ∧
      (∀ e ∈ w2.rows, e ∈ w.rows ∨ e.2.locationID = location) := by
  have hatt : w.loaded location ≠ some b := by
    intro h
    exact hid (cache_key_unique hcl hcache (World.loaded_some h).1)
  by_cases hnop : location = ib.m_locationID ∧ new_flag = ib.m_flag
  · have hM : InventoryItem.Move fuel b location new_flag notify w = some w := by
      unfold InventoryItem.Move
      simp only [hb]
      rw [if_pos hnop]
    refine ⟨w, ib, hM, hb, rfl, hempty, by omega, rfl, hnop.1.symm, ?_, rfl,
      fun f _ q _ => rfl, fun e he => Or.inl he⟩
    intro h0
    rw [← hnop.1, h0]
    simp
  · obtain ⟨w2, hM, hm⟩ := Move_fwd fuel location new_flag notify hb hcache hcl hmir
      (fun h => by rw [if_pos h] at hrc; omega) (fun pc c _ hg => hroom pc c hg)
      (roomI_of_one (hroom b ib hb) hatt) hnop
    refine ⟨w2, _, hM, hm.get_some hb, rfl, ?_, ?_, rfl, by simp [moveF], ?_, hm.2, ?_,
      Move_rows hM⟩
    · simp only [moveF, hempty]
      rw [if_neg hatt]
      split <;> simp [mapErase]
    · simp only [moveF, if_true]
      split at hrc <;> split <;> simp_all <;> omega
    · intro h0
      simp only [moveF, if_true, h0]
      simp
    · intro α f hf q hq
      rw [hm.1 q]
      cases w.get q with
      | none => rfl
      | some it => simp [moveF_other hf _ _ _ _ _ _ hq]

/-- Loading the contents of an item that holds nothing, in memory and in the database. -/
theorem LoadContents_leaf {w : World} {b : Nat} {ib : InventoryItem} (fuel : Nat)
    (recursive : Bool) (hb : w.get b = some ib)
    (hleaf : ib.m_contentsLoaded = true ∨ ∀ e ∈ w.rows, e.2.locationID ≠ ib.m_itemID) :
    ∃ ok w4 l, InventoryItem.LoadContents (fuel + 1) b recursive w = some (ok, w4) ∧
      w4.get b = some { ib with m_contentsLoaded := l } ∧
      (∀ q, q ≠ b → w4.get q = w.get q) ∧ w4.m_items = w.m_items ∧ w4.rows = w.rows := by
  unfold InventoryItem.LoadContents
  simp only [hb]
  by_cases hl : ib.m_contentsLoaded = true
  · rw [if_pos hl]
    refine ⟨true, w, true, rfl, ?_, fun _ _ => rfl, rfl, rfl⟩
    rw [hb, ← hl]
  · rw [if_neg hl]
    have hrows : ∀ e ∈ w.rows, e.2.locationID ≠ ib.m_itemID := by
      rcases hleaf with h | h
      · exact absurd h hl
      · exact h
    have hb0 : World.get { w with fetched := w.fetched ++ [ib.m_itemID] } b = some ib := hb
    unfold ItemDB.GetItemContents
    by_cases hf : ib.m_itemID ∈ w.contentsQueryFails
    · rw [if_pos hf]
      exact ⟨false, _, ib.m_contentsLoaded, rfl, hb0, fun _ _ => rfl, rfl, rfl⟩
    · rw [if_neg hf]
      have hids : (w.rows.filter (fun e => decide (e.2.locationID = ib.m_itemID))).map Prod.fst
          = [] := by
        rw [List.map_eq_nil_iff, List.filter_eq_nil_iff]
        intro e he
        simpa using hrows e he
      rw [hids]
      simp only [List.foldlM_nil, pure, hb0]
      refine ⟨true, _, true, rfl, ?_, fun q hq => ?_, rfl, rfl⟩
      · rw [World.get_set_live hb0]; simp
      · rw [World.get_set_live hb0, if_neg hq]
        rfl

/-- The end of `Delete`, from the eviction on, for an item with an empty map that is held by the
cache and by the caller. -/
theorem Delete_tail {w5 : World} {b : Nat} {x : InventoryItem} (fuel : Nat)
    (hb : w5.get b = some x) (hcache : mapFind x.m_itemID w5.m_items = some b)
    (hempty : x.m_contents = []) (hrc : 2 ≤ x.m_refCount) :
    ∃ w', ((ItemFactory._DeleteItem (fuel + 1) x.m_itemID
        (w5.set b { x with m_contents := [] })).bind fun w7 =>
      (w7.get b).bind fun me7 =>
      InventoryItem.Release (fuel + 1) b
        (if me7.m_refCount ≠ 1 then
          (ItemDB.DeleteItem me7.m_itemID
            { w7 with attrRows := mapErase me7.m_itemID w7.attrRows }).set b
            { me7 with m_itemName := "BAD DELETED ITEM", m_quantity := 0,
                       m_contentsLoaded := true }
        else
          ItemDB.DeleteItem me7.m_itemID
            { w7 with attrRows := mapErase me7.m_itemID w7.attrRows })) = some w' ∧
      mapFind x.m_itemID w'.m_items = none ∧ mapFind x.m_itemID w'.rows = none ∧
      (∀ q, q ≠ b → w'.get q = w5.get q) ∧
      (x.m_refCount = 2 → w'.get b = none) := by
  have hx : { x with m_contents := [] } = x := by rw [← hempty]
  have hb6 : (w5.set b x).get b = some x := by
    rw [World.get_set_live hb]; simp
  obtain ⟨w7, hD, hb7, hother, hm7⟩ : ∃ w7,
      ItemFactory._DeleteItem (fuel + 1) x.m_itemID (w5.set b x) = some w7 ∧
      w7.get b = some { x with m_refCount := x.m_refCount - 1 } ∧
      (∀ q, q ≠ b → w7.get q = w5.get q) ∧ mapFind x.m_itemID w7.m_items = none := by
    refine ⟨{ (w5.set b x).set b { x with m_refCount := x.m_refCount - 1 } with
      m_items := mapErase x.m_itemID w5.m_items }, ?_, ?_, ?_, ?_⟩
    · unfold ItemFactory._DeleteItem
      rw [World.set_m_items, hcache]
      simp only
      rw [Release_fwd hb6 hrc]
      rfl
    · have : World.get { (w5.set b x).set b { x with m_refCount := x.m_refCount - 1 } with
          m_items := mapErase x.m_itemID w5.m_items } b
          = ((w5.set b x).set b { x with m_refCount := x.m_refCount - 1 }).get b := rfl
      rw [this, World.get_set_live hb6]; simp
    · intro q hq
      have : World.get { (w5.set b x).set b { x with m_refCount := x.m_refCount - 1 } with
          m_items := mapErase x.m_itemID w5.m_items } q
          = ((w5.set b x).set b { x with m_refCount := x.m_refCount - 1 }).get q := rfl
      rw [this, World.get_set_live hb6, if_neg hq, World.get_set_live hb, if_neg hq]
    · simp [mapFind_mapErase]
  simp only [Option.some_bind, hx, hD]
  simp only [hb7, Option.some_bind]
  by_cases h1 : x.m_refCount - 1 = 1
  · rw [if_neg (by simp [h1])]
    have hg : (ItemDB.DeleteItem x.m_itemID
        { w7 with attrRows := mapErase x.m_itemID w7.attrRows }).get b
        = some { x with m_refCount := x.m_refCount - 1 } := hb7
    have hR : InventoryItem.Release (fuel + 1) b (ItemDB.DeleteItem x.m_itemID
        { w7 with attrRows := mapErase x.m_itemID w7.attrRows })
        = some (((ItemDB.DeleteItem x.m_itemID
          { w7 with attrRows := mapErase x.m_itemID w7.attrRows }).set b
            { x with m_refCount := x.m_refCount - 1 - 1 }).free b) := by
      unfold InventoryItem.Release
      rw [if_neg (World.get_ne_zero hb)]
      simp only [hg]
      rw [if_neg (by omega), if_pos (by omega)]
      simp [hempty]
    refine ⟨_, hR, hm7, ?_, fun q hq => ?_, fun _ => ?_⟩
    · simp [ItemDB.DeleteItem, World.free, World.set, mapFind_mapErase]
    · rw [World.get_free, if_neg hq, World.get_set_live hg, if_neg hq]
      exact hother q hq
    · rw [World.get_free]; simp
  · rw [if_pos (by simpa using h1)]
    have hg : (ItemDB.DeleteItem x.m_itemID
        { w7 with attrRows := mapErase x.m_itemID w7.attrRows }).get b
        = some { x with m_refCount := x.m_refCount - 1 } := hb7
    have hg2 := World.get_set_live hg b
      { x with
        m_refCount := x.m_refCount - 1
        m_itemName := "BAD DELETED ITEM"
        m_quantity := 0
        m_contentsLoaded := true }
    rw [if_pos rfl] at hg2
    refine ⟨_, Release_fwd hg2 (by simp; omega) (fuel + 1), hm7, ?_, fun q hq => ?_,
      fun h2 => by omega⟩
    · simp [ItemDB.DeleteItem, World.set, mapFind_mapErase]
    · rw [World.get_set_live hg2, if_neg hq, World.get_set_live hg, if_neg hq]
      exact hother q hq

/-- The body of `Delete` after the blueprint row is dealt with, for a cached item that holds
nothing, in memory and in the database, and that the caller has a reference to. -/
theorem Delete_core {w : World} {b : Nat} {ib : InventoryItem} (fuel : Nat)
    (hb : w.get b = some ib) (hcache : mapFind ib.m_itemID w.m_items = some b)
    (hcl : CacheLive w) (hmir : Mirrors w)
    (hrc : 2 + (if (w.loaded ib.m_locationID).isSome then 1 else 0) ≤ ib.m_refCount)
    (hroom : w.room 1)
    (hempty : ib.m_contents = []) (h6 : ib.m_itemID ≠ 6)
    (hleaf : ib.m_contentsLoaded = true ∨ ∀ e ∈ w.rows, e.2.locationID ≠ ib.m_itemID) :
    ∃ w', ((InventoryItem.Move (fuel + 1) b 6 flagAutoFit defaultNotify w).bind fun w2 =>
      (InventoryItem.ChangeOwner b 2 defaultNotify w2).bind fun w3 =>
      (InventoryItem.LoadContents (fuel + 1) b true w3).bind fun r4 =>
      (r4.2.get b).bind fun me4 =>
      (me4.m_contents.foldlM (fun acc e =>
        (InventoryItem.Ref e.2 acc).bind
          (fun r => InventoryItem.Delete (fuel + 1) r.1 r.2)) r4.2).bind fun w5 =>
      (w5.get b).bind fun me5 =>
      (ItemFactory._DeleteItem (fuel + 1) me5.m_itemID
        (w5.set b { me5 with m_contents := [] })).bind fun w7 =>
      (w7.get b).bind fun me7 =>
      InventoryItem.Release (fuel + 1) b
        (if me7.m_refCount ≠ 1 then
          (ItemDB.DeleteItem me7.m_itemID
            { w7 with attrRows := mapErase me7.m_itemID w7.attrRows }).set b
            { me7 with m_itemName := "BAD DELETED ITEM", m_quantity := 0,
                       m_contentsLoaded := true }
        else
          ItemDB.DeleteItem me7.m_itemID
            { w7 with attrRows := mapErase me7.m_itemID w7.attrRows })) = some w' ∧
      mapFind ib.m_itemID w'.m_items = none ∧ mapFind ib.m_itemID w'.rows = none ∧
      (∀ {α : Type} (f : InventoryItem → α), IgnContents f →
        ∀ q, q ≠ b → (w'.get q).map f = (w.get q).map f) ∧
      (w.loaded 6 = none →
        ib.m_refCount = 2 + (if (w.loaded ib.m_locationID).isSome then 1 else 0) →
        w'.get b = none) := by
  obtain ⟨w2, ib2, hM, hb2, hid2, hc2, hrc2, hld2, hloc2, hrcEq, hm2, hoth2, hrows2⟩ :=
    Move_leaf (fuel + 1) 6 flagAutoFit defaultNotify hb hcache hcl hmir hrc hroom hempty h6
  rw [hM]
  simp only [Option.some_bind]
  obtain ⟨w3, hCO, hw3⟩ := ChangeOwner_fwd hb2 2 defaultNotify
  rw [hCO]
  simp only [Option.some_bind]
  have hleaf3 : ({ ib2 with m_ownerID := 2 } : InventoryItem).m_contentsLoaded = true ∨
      ∀ e ∈ w3.rows, e.2.locationID ≠ ({ ib2 with m_ownerID := 2 } : InventoryItem).m_itemID := by
    rcases hleaf with h | h
    · left
      exact hld2.trans h
    · right
      intro e he
      have hne : (6 : Nat) ≠ ib.m_itemID := fun h => h6 h.symm
      show e.2.locationID ≠ ib2.m_itemID
      rw [hid2]
      rcases hw3.2.2.1 e he with h1 | h1
      · rcases hrows2 e h1 with h2 | h2
        · exact h e h2
        · rw [h2]; exact hne
      · rw [h1]
        show ib2.m_locationID ≠ _
        rw [hloc2]; exact hne
  obtain ⟨ok, w4, l, hLC, hb4, hoth4, hm4, hr4⟩ := LoadContents_leaf fuel true hw3.live hleaf3
  rw [hLC]
  obtain ⟨w', hT, hk1, hk2, hk3, hk4⟩ := Delete_tail
    (x := { ib2 with m_ownerID := 2, m_contentsLoaded := l }) fuel hb4
    (by
      show mapFind ib2.m_itemID w4.m_items = some b
      rw [hm4, hw3.2.1, hm2, hid2]; exact hcache)
    hc2 hrc2
  refine ⟨w', ?_, ?_, ?_, ?_, ?_⟩
  · simp only [Option.some_bind, hb4]
    have hnil : ({ ib2 with m_ownerID := 2, m_contentsLoaded := l } : InventoryItem).m_contents
        = [] := hc2
    rw [hnil]
    simp only [List.foldlM_nil, pure, Option.some_bind, hb4]
    exact hT
  · rw [← hid2]; exact hk1
  · rw [← hid2]; exact hk2
  · intro α f hf q hq
    rw [hk3 q hq, hoth4 q hq, hw3.1 q, if_neg hq, hoth2 f hf q hq]
  · intro h0 hr
    apply hk4
    show ib2.m_refCount = 2
    rw [hrcEq h0, hr]
    omega

/-- The method `Delete` of a cached item that holds nothing, in memory and in the database, and that the
caller has a reference to: the call returns, the item is gone from the cache and from the
database, and no other instance changes but for the map of its container. -/
theorem Delete_leaf_fwd {w : World} {b : Nat} {ib : InventoryItem} (fuel : Nat)
    (hb : w.get b = some ib) (hcache : mapFind ib.m_itemID w.m_items = some b)
    (hcl : CacheLive w) (hmir : Mirrors w)
    (hrc : 2 + (if (w.loaded ib.m_locationID).isSome then 1 else 0) ≤ ib.m_refCount)
    (hroom : w.room 1)
    (hempty : ib.m_contents = []) (h6 : ib.m_itemID ≠ 6)
    (hleaf : ib.m_contentsLoaded = true ∨ ∀ e ∈ w.rows, e.2.locationID ≠ ib.m_itemID) :
    ∃ w', InventoryItem.Delete (fuel + 2) b w = some w' ∧
      mapFind ib.m_itemID w'.m_items = none ∧ mapFind ib.m_itemID w'.rows = none ∧
      (∀ {α : Type} (f : InventoryItem → α), IgnContents f →
        ∀ q, q ≠ b → (w'.get q).map f = (w.get q).map f) ∧
      (w.loaded 6 = none →
        ib.m_refCount = 2 + (if (w.loaded ib.m_locationID).isSome then 1 else 0) →
        w'.get b = none) := by
  unfold InventoryItem.Delete
  simp only [hb]
  cases hbp : ib.bp with
  | none => exact Delete_core fuel hb hcache hcl hmir hrc hroom hempty h6 hleaf
  | some d =>
    exact Delete_core (w := ItemDB.DeleteBlueprint ib.m_itemID w) fuel hb hcache hcl hmir hrc
      hroom hempty h6 hleaf


/-! ## Inversion of a successful spawn -/

theorem Load_id_inv {n i : Nat} {w w1 : World} (h : InventoryItem._Load_id n w = (i, w1))
    (hi : i ≠ 0) :
    ∃ d bp, ItemDB.GetItem n w = some d ∧ (i, w1) = w.alloc (InventoryItem.new n d bp) := by
  unfold InventoryItem._Load_id at h
  cases hg : ItemDB.GetItem n w with
  | none =>
    simp only [hg, Prod.mk.injEq] at h
    exact absurd h.1.symm hi
  | some d =>
    simp only [hg] at h
    cases ht : ItemFactory.GetType d.typeID w with
    | none =>
      simp only [ht, Prod.mk.injEq] at h
      exact absurd h.1.symm hi
    | some t =>
      simp only [ht] at h
      unfold InventoryItem._Load_type at h
      by_cases hc : t.categoryID = invCategories_Blueprint
      · rw [if_pos hc] at h
        unfold BlueprintItem._Load_type at h
        cases hb : ItemDB.GetBlueprint n w with
        | none =>
          simp only [hb, Prod.mk.injEq] at h
          exact absurd h.1.symm hi
        | some b =>
          simp only [hb] at h
          exact ⟨d, some b, rfl, h.symm⟩
      · rw [if_neg hc] at h
        exact ⟨d, none, rfl, h.symm⟩

theorem Blueprint_Load_id_inv {n i : Nat} {w w1 : World}
    (h : BlueprintItem._Load_id n w = (i, w1)) (hi : i ≠ 0) :
    ∃ d bp, ItemDB.GetItem n w = some d ∧ (i, w1) = w.alloc (InventoryItem.new n d bp) := by
  unfold BlueprintItem._Load_id at h
  cases hg : ItemDB.GetItem n w with
  | none =>
    simp only [hg, Prod.mk.injEq] at h
    exact absurd h.1.symm hi
  | some d =>
    simp only [hg] at h
    cases ht : ItemFactory.GetBlueprintType d.typeID w with
    | none =>
      simp only [ht, Prod.mk.injEq] at h
      exact absurd h.1.symm hi
    | some t =>
      simp only [ht] at h
      unfold BlueprintItem._Load_type at h
      cases hb : ItemDB.GetBlueprint n w with
      | none =>
        simp only [hb, Prod.mk.injEq] at h
        exact absurd h.1.symm hi
      | some b =>
        simp only [hb] at h
        exact ⟨d, some b, rfl, h.symm⟩

/-- The end of both `Load` functions: the instance was allocated and then loaded. -/
theorem Load_tail_inv {fuel i0 i : Nat} {w1 w' : World} (hi : i ≠ 0)
    (h : (match InventoryItem._Load fuel i0 false w1 with
      | none => none
      | some (ok, w2) =>
        if ok then some (i0, w2)
        else (InventoryItem.Release fuel i0 w2).map (fun w3 => (0, w3))) = some (i, w')) :
    i0 = i ∧ InventoryItem._Load fuel i0 false w1 = some (true, w') := by
  cases hl : InventoryItem._Load fuel i0 false w1 with
  | none => simp [hl] at h
  | some ow =>
    obtain ⟨ok, w2⟩ := ow
    simp only [hl] at h
    by_cases hok : ok = true
    · rw [if_pos hok] at h
      simp only [Option.some.injEq, Prod.mk.injEq] at h
      rw [hok, h.2]
      exact ⟨h.1, rfl⟩
    · rw [if_neg hok] at h
      simp only [Option.map_eq_some', Prod.mk.injEq] at h
      obtain ⟨w3, _, e, _⟩ := h
      exact absurd e.symm hi

theorem Load_inv {fuel n i : Nat} {w w' : World}
    (h : InventoryItem.Load fuel n false w = some (i, w')) (hi : i ≠ 0) :
    ∃ d bp fuel', ItemDB.GetItem n w = some d ∧ i = max w.nextAddr 1 ∧
      InventoryItem._Load fuel' i false (w.alloc (InventoryItem.new n d bp)).2
        = some (true, w') := by
  cases fuel with
  | zero => rw [InventoryItem.Load] at h; simp at h
  | succ m =>
    rw [InventoryItem.Load] at h
    cases hL : InventoryItem._Load_id n w with
    | mk i0 w1 =>
      simp only [hL] at h
      by_cases hi0 : i0 = 0
      · rw [if_pos hi0] at h
        simp only [Option.some.injEq, Prod.mk.injEq] at h
        exact absurd h.1.symm hi
      · rw [if_neg hi0] at h
        obtain ⟨e, hl⟩ := Load_tail_inv hi h
        obtain ⟨d, bp, hg, ha⟩ := Load_id_inv hL hi0
        refine ⟨d, bp, m, hg, ?_, ?_⟩
        · rw [← e]
          exact congrArg Prod.fst ha
        · have e2 : w1 = (w.alloc (InventoryItem.new n d bp)).2 := congrArg Prod.snd ha
          rw [← e2, ← e]
          exact hl

theorem Blueprint_Load_inv {fuel n i : Nat} {w w' : World}
    (h : BlueprintItem.Load fuel n false w = some (i, w')) (hi : i ≠ 0) :
    ∃ d bp fuel', ItemDB.GetItem n w = some d ∧ i = max w.nextAddr 1 ∧
      InventoryItem._Load fuel' i false (w.alloc (InventoryItem.new n d bp)).2
        = some (true, w') := by
  unfold BlueprintItem.Load at h
  cases hL : BlueprintItem._Load_id n w with
  | mk i0 w1 =>
    simp only [hL] at h
    by_cases hi0 : i0 = 0
    · rw [if_pos hi0] at h
      simp only [Option.some.injEq, Prod.mk.injEq] at h
      exact absurd h.1.symm hi
    · rw [if_neg hi0] at h
      obtain ⟨e, hl⟩ := Load_tail_inv hi h
      obtain ⟨d, bp, hg, ha⟩ := Blueprint_Load_id_inv hL hi0
      refine ⟨d, bp, fuel, hg, ?_, ?_⟩
      · rw [← e]
        exact congrArg Prod.fst ha
      · have e2 : w1 = (w.alloc (InventoryItem.new n d bp)).2 := congrArg Prod.snd ha
        rw [← e2, ← e]
        exact hl

theorem NewItem_inv {d1 : ItemData} {n : Nat} {w w1 : World}
    (h : ItemDB.NewItem d1 w = (n, w1)) (hn : n ≠ 0) :
    n = w.nextItemID ∧ w1.heap = w.heap ∧ w1.nextAddr = w.nextAddr ∧ w1.m_items = w.m_items ∧
      ItemDB.GetItem n w1 = some d1 := by
  unfold ItemDB.NewItem at h
  by_cases hc : w.insertOk = true ∧ w.nextItemID ≠ 0
  · rw [if_pos hc] at h
    simp only [Prod.mk.injEq] at h
    obtain ⟨h1, h2⟩ := h
    subst h2
    refine ⟨h1.symm, rfl, rfl, rfl, ?_⟩
    unfold ItemDB.GetItem
    simp only
    rw [mapFind_mapInsert, if_pos h1.symm]
  · rw [if_neg hc] at h
    simp only [Prod.mk.injEq] at h
    exact absurd h.1.symm hn

theorem ItemData.agrees_rename (data : ItemData) (s : String) :
    (if data.name = "" then { data with name := s } else data).agrees data := by
  unfold ItemData.agrees
  split <;> exact ⟨rfl, rfl, rfl, rfl, rfl, rfl⟩

theorem ItemData.agrees.atrans {a b c : ItemData} (h1 : a.agrees b) (h2 : b.agrees c) :
    a.agrees c :=
  ⟨h1.1.trans h2.1, h1.2.1.trans h2.2.1, h1.2.2.1.trans h2.2.2.1,
    h1.2.2.2.1.trans h2.2.2.2.1, h1.2.2.2.2.1.trans h2.2.2.2.2.1,
    h1.2.2.2.2.2.trans h2.2.2.2.2.2⟩

/-- Inversion of a successful `Spawn`: a row with a fresh id was inserted, an instance was
allocated from that row, and the instance was loaded. -/
theorem Spawn_inv {fuel i : Nat} {data : ItemData} {w w' : World}
    (h : InventoryItem.Spawn fuel data w = some (i, w')) (hi : i ≠ 0) :
    ∃ (d : ItemData) (bp : Option BlueprintData) (wN : World) (fuel' : Nat),
      d.agrees data ∧ w.nextItemID ≠ 0 ∧ wN.heap = w.heap ∧
      wN.nextAddr = w.nextAddr ∧ wN.m_items = w.m_items ∧ i = max w.nextAddr 1 ∧
      InventoryItem._Load fuel' i false (wN.alloc (InventoryItem.new w.nextItemID d bp)).2
        = some (true, w') := by
  unfold InventoryItem.Spawn at h
  cases ht : ItemFactory.GetType data.typeID w with
  | none =>
    simp only [ht, Option.some.injEq, Prod.mk.injEq] at h
    exact absurd h.1.symm hi
  | some t =>
    simp only [ht] at h
    have hag := ItemData.agrees_rename data t.name
    generalize (if data.name = "" then { data with name := t.name } else data) = d1 at h hag
    by_cases hc : t.categoryID = invCategories_Blueprint
    · rw [if_pos hc] at h
      unfold BlueprintItem.Spawn at h
      cases ht2 : ItemFactory.GetType d1.typeID w with
      | none =>
        simp only [ht2, Option.some.injEq, Prod.mk.injEq] at h
        exact absurd h.1.symm hi
      | some t2 =>
        simp only [ht2] at h
        have hag2 := ItemData.agrees_rename d1 t2.name
        generalize (if d1.name = "" then { d1 with name := t2.name } else d1) = d2 at h hag2
        by_cases hc2 : t2.categoryID ≠ invCategories_Blueprint
        · rw [if_pos hc2] at h
          simp only [Option.some.injEq, Prod.mk.injEq] at h
          exact absurd h.1.symm hi
        · rw [if_neg hc2] at h
          unfold BlueprintItem._Spawn at h
          cases hN : ItemDB.NewItem d2 w with
          | mk n w1 =>
            simp only [hN] at h
            by_cases hn : n = 0
            · rw [if_pos hn] at h
              simp only [Option.some.injEq, Prod.mk.injEq] at h
              exact absurd h.1.symm hi
            · rw [if_neg hn] at h
              obtain ⟨en, eh, ea, em, eg⟩ := NewItem_inv hN hn
              cases hB : ItemDB.NewBlueprint n BlueprintData.default w1 with
              | mk ok w2 =>
                simp only [hB] at h
                by_cases hok : ok = true
                · rw [if_pos hok] at h
                  have hw2 : w2.heap = w1.heap ∧ w2.nextAddr = w1.nextAddr ∧
                      w2.m_items = w1.m_items ∧ w2.rows = w1.rows := by
                    unfold ItemDB.NewBlueprint at hB
                    split at hB
                    · simp only [Prod.mk.injEq] at hB
                      rw [← hB.2]
                      exact ⟨rfl, rfl, rfl, rfl⟩
                    · simp only [Prod.mk.injEq] at hB
                      rw [← hB.2]
                      exact ⟨rfl, rfl, rfl, rfl⟩
                  obtain ⟨d, bp, fuel', hg, e1, hl⟩ := Blueprint_Load_inv h hi
                  have hd : d = d2 := by
                    unfold ItemDB.GetItem at hg eg
                    rw [hw2.2.2.2, eg] at hg
                    simp only [Option.some.injEq] at hg
                    exact hg.symm
                  subst hd
                  rw [en] at hn hl
                  exact ⟨d, bp, w2, fuel', hag2.atrans hag, hn, hw2.1.trans eh,
                    hw2.2.1.trans ea, hw2.2.2.1.trans em, by rw [e1, hw2.2.1, ea], hl⟩
                · rw [if_neg hok] at h
                  simp only [Option.some.injEq, Prod.mk.injEq] at h
                  exact absurd h.1.symm hi
    · rw [if_neg hc] at h
      unfold InventoryItem._Spawn at h
      cases hN : ItemDB.NewItem d1 w with
      | mk n w1 =>
        simp only [hN] at h
        by_cases hn : n = 0
        · rw [if_pos hn] at h
          simp only [Option.some.injEq, Prod.mk.injEq] at h
          exact absurd h.1.symm hi
        · rw [if_neg hn] at h
          obtain ⟨en, eh, ea, em, eg⟩ := NewItem_inv hN hn
          obtain ⟨d, bp, fuel', hg, e1, hl⟩ := Load_inv h hi
          have hd : d = d1 := by
            rw [eg] at hg
            simp only [Option.some.injEq] at hg
            exact hg.symm
          subst hd
          rw [en] at hn hl
          exact ⟨d, bp, w1, fuel', hag, hn, eh, ea, em, by rw [e1, ea], hl⟩


/-! ## Reference counting when a counter may wrap around

The count of an instance is a 16-bit unsigned integer: `Ref` takes a count of 65535 to 0 and
still answers the instance; an instance with count 0 is refused by `Ref` and left alone by
`Release`. The lemmas of this section follow the calls without a bound on the counts. -/

theorem CacheLive.keyed {w : World} (h : CacheLive w) : CacheKeyed w := by
  intro k p hk
  obtain ⟨c, hc, hi, _⟩ := h k p hk
  exact ⟨c, hc, hi⟩

theorem World.recounted.rrefl (w : World) : w.recounted w :=
  ⟨rfl, fun _ h => h, fun _ x h => ⟨x.m_refCount, x.m_contents, h, fun h => h⟩⟩

theorem World.recounted.rtrans {w1 w2 w3 : World} (h12 : w2.recounted w1)
    (h23 : w3.recounted w2) : w3.recounted w1 := by
  refine ⟨h23.1.trans h12.1, fun q h => h23.2.1 q (h12.2.1 q h), fun q x h => ?_⟩
  obtain ⟨n, m, h2, hn⟩ := h12.2.2 q x h
  obtain ⟨n', m', h3, hn'⟩ := h23.2.2 q _ h2
  exact ⟨n', m', h3, fun hx => hn' (hn hx)⟩

theorem World.recounted.rset {w : World} {p : Nat} {x : InventoryItem} (h : w.get p = some x)
    (n : Nat) (m : AMap Nat) (hn : x.m_refCount < 2 ^ 16 → n < 2 ^ 16) :
    (w.set p { x with m_refCount := n, m_contents := m }).recounted w := by
  refine ⟨rfl, fun q hq => ?_, fun q y hq => ?_⟩
  · rw [World.get_set_live h]
    have hne : q ≠ p := fun e => by rw [e, h] at hq; cases hq
    rw [if_neg hne]
    exact hq
  · rw [World.get_set_live h]
    by_cases e : q = p
    · subst e
      rw [h] at hq
      simp only [Option.some.injEq] at hq
      subst hq
      exact ⟨n, m, by rw [if_pos rfl], hn⟩
    · exact ⟨y.m_refCount, y.m_contents, by rw [if_neg e]; exact hq, fun h => h⟩

/-- The counts of a recounted world fit their 16 bits when they did before. -/
theorem World.recounted.range {w' w : World} (h : w'.recounted w)
    (hr : ∀ p x, w.get p = some x → x.m_refCount < 2 ^ 16) :
    ∀ p x, w'.get p = some x → x.m_refCount < 2 ^ 16 := by
  intro p x' hx'
  cases hw : w.get p with
  | none =>
    rw [h.2.1 p hw] at hx'
    cases hx'
  | some x =>
    obtain ⟨n, m, h2, hn⟩ := h.2.2 p x hw
    rw [h2] at hx'
    simp only [Option.some.injEq] at hx'
    rw [← hx']
    exact hn (hr p x hw)

/-- The entries of the cache of a recounted world point to live instances of their ids. -/
theorem World.recounted.rkeyed {w' w : World} (h : w'.recounted w) (hk : CacheKeyed w) :
    CacheKeyed w' := by
  intro k p hp
  rw [h.1] at hp
  obtain ⟨c, hc, hi⟩ := hk k p hp
  obtain ⟨n, m, h2, _⟩ := h.2.2 p c hc
  exact ⟨_, h2, hi⟩

theorem Ref_soft {w : World} {p : Nat} {it : InventoryItem} (h : w.get p = some it) :
    (it.m_refCount < 1 ∧ InventoryItem.Ref p w = some (0, w)) ∨
    (1 ≤ it.m_refCount ∧ InventoryItem.Ref p w
      = some (p, w.set p { it with m_refCount := (it.m_refCount + 1) % 2 ^ 16 })) := by
  unfold InventoryItem.Ref
  rw [if_neg (World.get_ne_zero h)]
  simp only [h]
  by_cases h1 : it.m_refCount < 1
  · left
    exact ⟨h1, by rw [if_pos h1]⟩
  · right
    exact ⟨by omega, by rw [if_neg h1]⟩

theorem Release_soft {w : World} {p : Nat} {it : InventoryItem} (h : w.get p = some it)
    (hne : it.m_refCount ≠ 1) (fuel : Nat) :
    (it.m_refCount = 0 ∧ InventoryItem.Release fuel p w = some w) ∨
    (2 ≤ it.m_refCount ∧ InventoryItem.Release fuel p w
      = some (w.set p { it with m_refCount := it.m_refCount - 1 })) := by
  unfold InventoryItem.Release
  rw [if_neg (World.get_ne_zero h)]
  simp only [h]
  by_cases h1 : it.m_refCount < 1
  · left
    exact ⟨by omega, by rw [if_pos h1]⟩
  · right
    exact ⟨by omega, by rw [if_neg h1, if_neg (by omega)]⟩

/-- A `Release` that does not free the instance: the world is recounted, the instance has one
reference less unless it had none, and every other instance is as it was. -/
theorem Release_kept {w : World} {p : Nat} {it : InventoryItem} (h : w.get p = some it)
    (hne : it.m_refCount ≠ 1) (fuel : Nat) :
    ∃ w', InventoryItem.Release fuel p w = some w' ∧ w'.recounted w ∧
      w'.get p = some { it with m_refCount := it.m_refCount - 1 } ∧
      ∀ q, q ≠ p → w'.get q = w.get q := by
  rcases Release_soft h hne fuel with ⟨h0, hR⟩ | ⟨_, hR⟩
  · refine ⟨w, hR, World.recounted.rrefl w, ?_, fun _ _ => rfl⟩
    rw [h]
    have e : it.m_refCount - 1 = it.m_refCount := by omega
    rw [e]
  · refine ⟨_, hR, World.recounted.rset h _ it.m_contents (fun hx => by omega), ?_,
      fun q hq => ?_⟩
    · rw [World.get_set_live h, if_pos rfl]
    · rw [World.get_set_live h, if_neg hq]

/-- The call `AddContainedItem` on live instances returns; the container, whose count was not
1, still has a count that is not 1. -/
theorem Add_soft {v : World} {pc this : Nat} {y i : InventoryItem}
    (hy : v.get pc = some y) (hi : v.get this = some i) (h1 : y.m_refCount ≠ 1)
    (hlt : y.m_refCount < 2 ^ 16) :
    ∃ v' y', InventoryItem.AddContainedItem pc this v = some v' ∧ v'.recounted v ∧
      v'.get pc = some y' ∧ y'.m_refCount ≠ 1 := by
  unfold InventoryItem.AddContainedItem
  simp only [hy, hi]
  cases hf : mapFind i.m_itemID y.m_contents with
  | some old => exact ⟨v, y, rfl, World.recounted.rrefl v, hy, h1⟩
  | none =>
    simp only
    rcases Ref_soft hi with ⟨_, hR⟩ | ⟨hge, hR⟩
    · rw [hR]
      simp only [hy]
      refine ⟨_, { y with m_contents := mapInsert i.m_itemID 0 y.m_contents }, rfl,
        World.recounted.rset hy y.m_refCount _ (fun h => h), ?_, h1⟩
      rw [World.get_set_live hy, if_pos rfl]
    · rw [hR]
      simp only
      have hr1 : (v.set this { i with m_refCount := (i.m_refCount + 1) % 2 ^ 16 }).recounted v :=
        World.recounted.rset hi _ i.m_contents (fun _ => Nat.mod_lt _ (by decide))
      by_cases e : pc = this
      · subst e
        rw [hy] at hi
        simp only [Option.some.injEq] at hi
        subst hi
        have hg : (v.set pc { y with m_refCount := (y.m_refCount + 1) % 2 ^ 16 }).get pc
            = some { y with m_refCount := (y.m_refCount + 1) % 2 ^ 16 } := by
          rw [World.get_set_live hy, if_pos rfl]
        simp only [hg]
        refine ⟨_, { y with
            m_refCount := (y.m_refCount + 1) % 2 ^ 16,
            m_contents := mapInsert y.m_itemID pc y.m_contents }, rfl,
          hr1.rtrans (World.recounted.rset hg ((y.m_refCount + 1) % 2 ^ 16) _ (fun h => h)),
          ?_, ?_⟩
        · rw [World.get_set_live hg, if_pos rfl]
        · show (y.m_refCount + 1) % 2 ^ 16 ≠ 1
          omega
      · have hg : (v.set this { i with m_refCount := (i.m_refCount + 1) % 2 ^ 16 }).get pc
            = some y := by
          rw [World.get_set_live hi, if_neg e]
          exact hy
        simp only [hg]
        refine ⟨_, { y with m_contents := mapInsert i.m_itemID this y.m_contents }, rfl,
          hr1.rtrans (World.recounted.rset hg y.m_refCount _ (fun h => h)), ?_, h1⟩
        rw [World.get_set_live hg, if_pos rfl]

/-- The call `RemoveContainedItem` returns when the entry of the item, if there is one, is the
item itself and the `Release` of it does not free it; the container, whose count was not 1,
still has a count that is not 1. -/
theorem Remove_soft {v : World} {pc this : Nat} {y i : InventoryItem} (fuel : Nat)
    (hy : v.get pc = some y) (hi : v.get this = some i) (h1 : y.m_refCount ≠ 1)
    (hold : ∀ old, mapFind i.m_itemID y.m_contents = some old →
      old = this ∧ i.m_refCount ≠ 1 ∧ (pc = this → y.m_refCount ≠ 2)) :
    ∃ v' y', InventoryItem.RemoveContainedItem fuel pc this v = some v' ∧ v'.recounted v ∧
      v'.get pc = some y' ∧ y'.m_refCount ≠ 1 := by
  unfold InventoryItem.RemoveContainedItem
  simp only [hy, hi]
  cases hf : mapFind i.m_itemID y.m_contents with
  | none => exact ⟨v, y, rfl, World.recounted.rrefl v, hy, h1⟩
  | some old =>
    obtain ⟨e, hi1, h2⟩ := hold old hf
    subst e
    simp only
    obtain ⟨v1, hR, hr1, hg1, ho1⟩ := Release_kept hi hi1 fuel
    rw [hR]
    simp only
    by_cases e : pc = old
    · subst e
      rw [hy] at hi
      simp only [Option.some.injEq] at hi
      subst hi
      simp only [hg1]
      refine ⟨_, { y with
          m_refCount := y.m_refCount - 1,
          m_contents := mapErase y.m_itemID y.m_contents }, rfl,
        hr1.rtrans (World.recounted.rset hg1 (y.m_refCount - 1) _ (fun h => h)), ?_, ?_⟩
      · rw [World.get_set_live hg1, if_pos rfl]
      · show y.m_refCount - 1 ≠ 1
        have := h2 rfl
        omega
    · have hg : v1.get pc = some y := by
        rw [ho1 pc e]
        exact hy
      simp only [hg]
      refine ⟨_, { y with m_contents := mapErase i.m_itemID y.m_contents }, rfl,
        hr1.rtrans (World.recounted.rset hg y.m_refCount _ (fun h => h)), ?_, h1⟩
      rw [World.get_set_live hg, if_pos rfl]

/-- The lookup of a container in a cache whose entry for it, if any, is live: null and no
change, or the container with one more reference, which leaves a count that is not 1. -/
theorem GetIfContentsLoaded_soft {w : World} (loc : Nat)
    (hk : ∀ p, mapFind loc w.m_items = some p → ∃ c, w.get p = some c) :
    ItemFactory._GetIfContentsLoaded loc w = some (0, w) ∨
    ∃ pc c, mapFind loc w.m_items = some pc ∧ w.get pc = some c ∧
      c.m_contentsLoaded = true ∧ 1 ≤ c.m_refCount ∧
      ItemFactory._GetIfContentsLoaded loc w
        = some (pc, w.set pc { c with m_refCount := (c.m_refCount + 1) % 2 ^ 16 }) := by
  unfold ItemFactory._GetIfContentsLoaded
  cases hc : mapFind loc w.m_items with
  | none => left; rfl
  | some pc =>
    obtain ⟨c, hg⟩ := hk pc hc
    simp only [hg]
    by_cases hl : c.m_contentsLoaded = true
    · rw [if_pos hl]
      rcases Ref_soft hg with ⟨_, hR⟩ | ⟨hge, hR⟩
      · left; exact hR
      · right; exact ⟨pc, c, rfl, hg, hl, hge, hR⟩
    · rw [if_neg hl]
      left; rfl

/-- The block of `Move` that takes the item out of its old container returns, whatever the
counts are, when the entry of the item in the map of that container is the item itself, which
then holds two references at least. -/
theorem detach_soft {w : World} {this : Nat} {me : InventoryItem} (fuel loc : Nat)
    (hme : w.get this = some me)
    (hk : ∀ p, mapFind loc w.m_items = some p → ∃ c, w.get p = some c)
    (hr : ∀ p x, w.get p = some x → x.m_refCount < 2 ^ 16)
    (hold : ∀ pc c, mapFind loc w.m_items = some pc → w.get pc = some c →
      c.m_contentsLoaded = true → ∀ old, mapFind me.m_itemID c.m_contents = some old →
        old = this ∧ 2 ≤ me.m_refCount) :
    ∃ w2, ((ItemFactory._GetIfContentsLoaded loc w).bind fun old =>
        if old.1 ≠ 0 then
          (InventoryItem.RemoveContainedItem fuel old.1 this old.2).bind
            (InventoryItem.Release fuel old.1)
        else some old.2) = some w2 ∧ w2.recounted w := by
  rcases GetIfContentsLoaded_soft loc hk with hG | ⟨pc, c, hc, hg, hl, hge, hG⟩
  · refine ⟨w, ?_, World.recounted.rrefl w⟩
    rw [hG]
    simp
  · have hp0 : pc ≠ 0 := World.get_ne_zero hg
    have hclt := hr pc c hg
    have hr1 : (w.set pc { c with m_refCount := (c.m_refCount + 1) % 2 ^ 16 }).recounted w :=
      World.recounted.rset hg _ c.m_contents (fun _ => Nat.mod_lt _ (by decide))
    have hg1 : (w.set pc { c with m_refCount := (c.m_refCount + 1) % 2 ^ 16 }).get pc
        = some { c with m_refCount := (c.m_refCount + 1) % 2 ^ 16 } := by
      rw [World.get_set_live hg, if_pos rfl]
    obtain ⟨i1, hi1, hi1i, hi1r⟩ : ∃ i1,
        (w.set pc { c with m_refCount := (c.m_refCount + 1) % 2 ^ 16 }).get this = some i1 ∧
        i1.m_itemID = me.m_itemID ∧
        i1.m_refCount = (if this = pc then (me.m_refCount + 1) % 2 ^ 16 else me.m_refCount) := by
      rw [World.get_set_live hg]
      by_cases e : this = pc
      · subst e
        rw [hme] at hg
        simp only [Option.some.injEq] at hg
        subst hg
        exact ⟨{ me with m_refCount := (me.m_refCount + 1) % 2 ^ 16 }, by rw [if_pos rfl], rfl,
          by rw [if_pos rfl]⟩
      · exact ⟨me, by rw [if_neg e]; exact hme, rfl, by rw [if_neg e]⟩
    obtain ⟨v2, y2, hR2, hr2, hg2, hy2⟩ := Remove_soft fuel hg1 hi1
      (show (c.m_refCount + 1) % 2 ^ 16 ≠ 1 by omega)
      (by
        intro old ho
        have ho' : mapFind me.m_itemID c.m_contents = some old := by rw [← hi1i]; exact ho
        obtain ⟨e1, e2⟩ := hold pc c hc hg hl old ho'
        refine ⟨e1, ?_, fun e => ?_⟩
        · rw [hi1r]
          by_cases e : this = pc
          · rw [if_pos e]
            have := hr this me hme
            omega
          · rw [if_neg e]
            omega
        · subst e
          rw [hme] at hg
          simp only [Option.some.injEq] at hg
          subst hg
          show (me.m_refCount + 1) % 2 ^ 16 ≠ 2
          omega)
    obtain ⟨w3, hR3, hr3, _, _⟩ := Release_kept hg2 hy2 fuel
    refine ⟨w3, ?_, (hr1.rtrans hr2).rtrans hr3⟩
    rw [hG]
    simp only [Option.some_bind]
    rw [if_pos hp0, hR2]
    simp only [Option.some_bind]
    exact hR3

/-- The block of `Move` that puts the item into its new container returns, whatever the
counts are. -/
theorem attach_soft {w : World} {this : Nat} {me : InventoryItem} (fuel loc : Nat)
    (hme : w.get this = some me)
    (hk : ∀ p, mapFind loc w.m_items = some p → ∃ c, w.get p = some c)
    (hr : ∀ p x, w.get p = some x → x.m_refCount < 2 ^ 16) :
    ∃ w2, ((ItemFactory._GetIfContentsLoaded loc w).bind fun new =>
        if new.1 ≠ 0 then
          (InventoryItem.AddContainedItem new.1 this new.2).bind
            (InventoryItem.Release fuel new.1)
        else some new.2) = some w2 ∧ w2.recounted w := by
  rcases GetIfContentsLoaded_soft loc hk with hG | ⟨pc, c, hc, hg, hl, hge, hG⟩
  · refine ⟨w, ?_, World.recounted.rrefl w⟩
    rw [hG]
    simp
  · have hp0 : pc ≠ 0 := World.get_ne_zero hg
    have hclt := hr pc c hg
    have hr1 : (w.set pc { c with m_refCount := (c.m_refCount + 1) % 2 ^ 16 }).recounted w :=
      World.recounted.rset hg _ c.m_contents (fun _ => Nat.mod_lt _ (by decide))
    have hg1 : (w.set pc { c with m_refCount := (c.m_refCount + 1) % 2 ^ 16 }).get pc
        = some { c with m_refCount := (c.m_refCount + 1) % 2 ^ 16 } := by
      rw [World.get_set_live hg, if_pos rfl]
    obtain ⟨n, m, hi1, _⟩ := hr1.2.2 this me hme
    obtain ⟨v2, y2, hR2, hr2, hg2, hy2⟩ := Add_soft hg1 hi1
      (show (c.m_refCount + 1) % 2 ^ 16 ≠ 1 by omega) (Nat.mod_lt _ (by decide))
    obtain ⟨w3, hR3, hr3, _, _⟩ := Release_kept hg2 hy2 fuel
    refine ⟨w3, ?_, (hr1.rtrans hr2).rtrans hr3⟩
    rw [hG]
    simp only [Option.some_bind]
    rw [if_pos hp0, hR2]
    simp only [Option.some_bind]
    exact hR3

/-! ## `Move` as a total function -/

/-- A `Move` of a cached item returns, whatever the reference counts within their 16 bits are,
puts the item at the new location and flag, and changes nothing else of any instance but
reference counts and containment maps. -/
theorem Move_total {w : World} {this : Nat} {me : InventoryItem} (fuel location new_flag : Nat)
    (notify : Bool) (hme : w.get this = some me)
    (hcache : mapFind me.m_itemID w.m_items = some this) (hck : CacheKeyed w) (hmir : Mirrors w)
    (hrc : (w.loaded me.m_locationID).isSome → 2 ≤ me.m_refCount)
    (hr : ∀ p x, w.get p = some x → x.m_refCount < 2 ^ 16) :
    ∃ w', InventoryItem.Move fuel this location new_flag notify w = some w' ∧
      ∀ q it, w.get q = some it → ∃ it', w'.get q = some it' ∧
        it'.m_itemID = it.m_itemID ∧ it'.m_type = it.m_type ∧ it'.m_ownerID = it.m_ownerID ∧
        it'.m_singleton = it.m_singleton ∧ it'.m_quantity = it.m_quantity ∧
        it'.m_locationID = (if q = this then location else it.m_locationID) ∧
        it'.m_flag = (if q = this then new_flag else it.m_flag) := by
  by_cases hnop : location = me.m_locationID ∧ new_flag = me.m_flag
  · have hM : InventoryItem.Move fuel this location new_flag notify w = some w := by
      unfold InventoryItem.Move
      simp only [hme]
      rw [if_pos hnop]
    refine ⟨w, hM, fun q it hq => ⟨it, hq, rfl, rfl, rfl, rfl, rfl, ?_, ?_⟩⟩
    · by_cases e : q = this
      · subst e
        rw [hme] at hq
        simp only [Option.some.injEq] at hq
        subst hq
        rw [if_pos rfl]; exact hnop.1.symm
      · rw [if_neg e]
    · by_cases e : q = this
      · subst e
        rw [hme] at hq
        simp only [Option.some.injEq] at hq
        subst hq
        rw [if_pos rfl]; exact hnop.2.symm
      · rw [if_neg e]
  · obtain ⟨w2, hB1, hr2⟩ := detach_soft fuel me.m_locationID hme
      (fun p hp => by obtain ⟨c, hc, _⟩ := hck _ p hp; exact ⟨c, hc⟩) hr
      (by
        intro pc c hc hg hl old ho
        obtain ⟨h1, _⟩ := (hmir _ pc c hc hg hl _ old).1 ho
        rw [hcache] at h1
        simp only [Option.some.injEq] at h1
        refine ⟨h1.symm, hrc ?_⟩
        rw [World.loaded_of hc hg hl]
        rfl)
    obtain ⟨n2, m2, hme2, _⟩ := hr2.2.2 this me hme
    have hck2 := hr2.rkeyed hck
    obtain ⟨w4, hB2, hr4⟩ := attach_soft fuel location hme2
      (fun p hp => by obtain ⟨c, hc, _⟩ := hck2 _ p hp; exact ⟨c, hc⟩) (hr2.range hr)
    have hr4' := hr2.rtrans hr4
    obtain ⟨n4, m4, hme4, _⟩ := hr4'.2.2 this me hme
    have hlive5 : (w4.set this { { me with m_refCount := n4, m_contents := m4 } with
          m_locationID := location, m_flag := new_flag }).get this
        = some { { me with m_refCount := n4, m_contents := m4 } with
          m_locationID := location, m_flag := new_flag } := by
      rw [World.get_set_live hme4, if_pos rfl]
    have hfin : ∀ (w' : World), (∀ q, w'.get q = (w4.set this
          { { me with m_refCount := n4, m_contents := m4 } with
            m_locationID := location, m_flag := new_flag }).get q) →
        ∀ q it, w.get q = some it → ∃ it', w'.get q = some it' ∧
          it'.m_itemID = it.m_itemID ∧ it'.m_type = it.m_type ∧
          it'.m_ownerID = it.m_ownerID ∧ it'.m_singleton = it.m_singleton ∧
          it'.m_quantity = it.m_quantity ∧
          it'.m_locationID = (if q = this then location else it.m_locationID) ∧
          it'.m_flag = (if q = this then new_flag else it.m_flag) := by
      intro w' hw' q it hq
      rw [hw' q, World.get_set_live hme4]
      by_cases e : q = this
      · subst e
        rw [hme] at hq
        simp only [Option.some.injEq] at hq
        subst hq
        exact ⟨{ { me with m_refCount := n4, m_contents := m4 } with
            m_locationID := location, m_flag := new_flag }, by rw [if_pos rfl], rfl, rfl, rfl,
          rfl, rfl, by rw [if_pos rfl], by rw [if_pos rfl]⟩
      · obtain ⟨n, m, hq4, _⟩ := hr4'.2.2 q it hq
        exact ⟨{ it with m_refCount := n, m_contents := m }, by rw [if_neg e]; exact hq4, rfl,
          rfl, rfl, rfl, rfl, by rw [if_neg e], by rw [if_neg e]⟩
    unfold InventoryItem.Move
    simp only [hme]
    rw [if_neg hnop, hB1]
    simp only [Option.some_bind]
    rw [hB2]
    simp only [Option.some_bind, hme4]
    rw [Save_false hlive5]
    simp only [Option.some_bind]
    cases notify with
    | false =>
      simp only [Bool.false_eq_true, if_false]
      exact ⟨_, rfl, hfin _ (fun q => get_saved _ _ q)⟩
    | true =>
      simp only [if_true]
      have hlive6 : ((w4.set this { { me with m_refCount := n4, m_contents := m4 } with
            m_locationID := location, m_flag := new_flag }).saved
          { { me with m_refCount := n4, m_contents := m4 } with
            m_locationID := location, m_flag := new_flag }).get this
          = some { { me with m_refCount := n4, m_contents := m4 } with
            m_locationID := location, m_flag := new_flag } := by
        rw [get_saved]; exact hlive5
      obtain ⟨ch', w7, h7⟩ := SendItemChange_live hlive6
        ({ me with m_refCount := n4, m_contents := m4 } : InventoryItem).m_ownerID
        { Changes.empty with
          ixLocationID := some me.m_locationID,
          ixFlag := if new_flag ≠ me.m_flag then some me.m_flag else none }
      rw [h7]
      have e7 := SendItemChange_heap h7
      exact ⟨_, rfl, hfin _ (fun q => (get_of_heap e7.1 e7.2 q).trans (get_saved _ _ q))⟩


/-! ## The world after a successful spawn -/

theorem spawnF_none (i n q : Nat) (it : InventoryItem) : spawnF i n none q it = it := by
  unfold spawnF
  simp

/-- The block of `_Load` that puts a new item into its container, when that container is
resident with its contents loaded; the reference count of the container may be at its largest
value. -/
theorem attach_wrap {w : World} {this pc loc : Nat} {me c : InventoryItem} (fuel : Nat)
    (hme : w.get this = some me) (hcache : mapFind loc w.m_items = some pc)
    (hc : w.get pc = some c) (hl : c.m_contentsLoaded = true) (hrc : 1 ≤ c.m_refCount)
    (hmax : c.m_refCount < 2 ^ 16) (hmaxi : me.m_refCount + 1 < 2 ^ 16) (hne : pc ≠ this)
    (hent : mapFind me.m_itemID c.m_contents = none) (hrc1 : 1 ≤ me.m_refCount) :
    ∃ w2, ((ItemFactory._GetIfContentsLoaded loc w).bind fun new =>
        if new.1 ≠ 0 then
          (InventoryItem.AddContainedItem new.1 this new.2).bind
            (InventoryItem.Release fuel new.1)
        else some new.2) = some w2 ∧
      w2.mapped w (spawnF this me.m_itemID (some pc)) := by
  have hp0 : pc ≠ 0 := World.get_ne_zero hc
  rcases Ref_soft hc with ⟨h0, _⟩ | ⟨_, hR1⟩
  · omega
  have hG : ItemFactory._GetIfContentsLoaded loc w
      = some (pc, w.set pc { c with m_refCount := (c.m_refCount + 1) % 2 ^ 16 }) := by
    unfold ItemFactory._GetIfContentsLoaded
    simp only [hcache, hc]
    rw [if_pos hl]
    exact hR1
  have hg1 : ∀ q, (w.set pc { c with m_refCount := (c.m_refCount + 1) % 2 ^ 16 }).get q
      = if q = pc then some { c with m_refCount := (c.m_refCount + 1) % 2 ^ 16 }
        else w.get q := fun q => World.get_set_live hc q _
  have hc1 := hg1 pc
  rw [if_pos rfl] at hc1
  have hi1 := hg1 this
  rw [if_neg (Ne.symm hne), hme] at hi1
  obtain ⟨w2, hR2, hm2⟩ := AddContainedItem_mapped hc1 hi1 hent hrc1 hmaxi
  have hc2 := hm2.get_some hc1
  obtain ⟨w3, hR3, hr3, hg3, ho3⟩ := Release_kept hc2
    (by
      show (if pc = this then (c.m_refCount + 1) % 2 ^ 16 + 1 else (c.m_refCount + 1) % 2 ^ 16)
        ≠ 1
      rw [if_neg hne]
      omega) fuel
  refine ⟨w3, ?_, ⟨fun q => ?_, hr3.1.trans hm2.2⟩⟩
  · rw [hG]
    simp only [Option.some_bind]
    rw [if_pos hp0, hR2]
    simp only [Option.some_bind]
    exact hR3
  · by_cases e : q = pc
    · subst e
      rw [hg3, hc]
      simp only [Option.map_some', Option.some.injEq]
      unfold spawnF
      simp [hne]
    · rw [ho3 q e, hm2.1 q, hg1 q, if_neg e]
      cases hq : w.get q with
      | none => rfl
      | some x =>
        simp only [Option.map_some', Option.some.injEq]
        unfold spawnF
        have e' : ¬ pc = q := fun h => e h.symm
        by_cases e2 : q = this
        · subst e2
          simp [e, e']
        · simp [e, e', e2]

/-- The non-recursive `_Load` of an instance that no container holds yet. -/
theorem Load_new_inv {wA w' : World} {i fuel : Nat} {me : InventoryItem}
    (hme : wA.get i = some me) (hrc1 : 1 ≤ me.m_refCount) (hcl : CacheLive wA)
    (hent : ∀ pc c, wA.loaded me.m_locationID = some pc → wA.get pc = some c →
      mapFind me.m_itemID c.m_contents = none)
    (hrange : ∀ pc c, wA.loaded me.m_locationID = some pc → wA.get pc = some c →
      c.m_refCount < 2 ^ 16)
    (hmax : me.m_refCount + 1 < 2 ^ 16) (hnc : wA.loaded me.m_locationID ≠ some i)
    (h : InventoryItem._Load fuel i false wA = some (true, w')) :
    w'.mapped wA (spawnF i me.m_itemID (wA.loaded me.m_locationID)) := by
  cases fuel with
  | zero => rw [InventoryItem._Load] at h; simp at h
  | succ m =>
    rw [InventoryItem._Load] at h
    simp only [hme] at h
    by_cases ha : me.m_itemID ∈ wA.attrLoadFails
    · rw [if_pos ha] at h
      simp at h
    · rw [if_neg ha] at h
      cases hl : wA.loaded me.m_locationID with
      | none =>
        rw [GetIfContentsLoaded_none hcl hl] at h
        simp only [ne_eq, not_true_eq_false, if_false, Bool.false_eq_true, Option.some.injEq,
          Prod.mk.injEq, true_and] at h
        subst h
        exact (World.mapped.mrefl wA).congr (fun q it _ => (spawnF_none i _ q it).symm)
      | some pc =>
        obtain ⟨hcache, c, hc, hlc⟩ := World.loaded_some hl
        obtain ⟨c0, hc0, _, hrc⟩ := hcl _ _ hcache
        rw [hc] at hc0
        simp only [Option.some.injEq] at hc0
        subst hc0
        obtain ⟨w2, hX, hm⟩ := attach_wrap m hme hcache hc hlc hrc (hrange pc c hl hc)
          hmax (fun e => hnc (by rw [hl, e])) (hent pc c hl hc) hrc1
        cases hg : ItemFactory._GetIfContentsLoaded me.m_locationID wA with
        | none => simp [hg] at hX
        | some cw =>
          obtain ⟨container, w1⟩ := cw
          simp only [hg, Option.some_bind] at hX
          simp only [hg] at h
          rw [hX] at h
          simp only [Bool.false_eq_true, if_false, Option.some.injEq, Prod.mk.injEq,
            true_and] at h
          subst h
          exact hm

theorem spawnF_fields (i n : Nat) (att : Option Nat) (q : Nat) (it : InventoryItem) :
    (spawnF i n att q it).m_itemID = it.m_itemID ∧
    (spawnF i n att q it).m_contentsLoaded = it.m_contentsLoaded ∧
    (spawnF i n att q it).m_locationID = it.m_locationID :=
  ⟨rfl, rfl, rfl⟩

/-- The counts after a spawn fit their 16 bits when they did before. -/
theorem spawnF_range (i n : Nat) (att : Option Nat) (q : Nat) (it : InventoryItem)
    (hq : q ≠ i) (h : it.m_refCount < 2 ^ 16) : (spawnF i n att q it).m_refCount < 2 ^ 16 := by
  unfold spawnF
  simp only [if_neg hq]
  split <;> omega

/-- The invariants of the world after a new instance `x` of the fresh item `n` was allocated
at the fresh address `i`, attached to its container and put into the cache: the entries of
the cache are live and the maps mirror the resident children. The count of the container may
have wrapped around to 0. -/
theorem spawn_post {w w2 : World} {i n : Nat} {x : InventoryItem}
    (hcl : CacheLive w) (hmir : Mirrors w) (hfresh : mapFind n w.m_items = none)
    (hi : w.get i = none) (hxid : x.m_itemID = n)
    (hxl : x.m_contentsLoaded = false)
    (hget : ∀ q, w2.get q = if q = i then some x
      else (w.get q).map (spawnF i n (w.loaded x.m_locationID) q))
    (hm : w2.m_items = mapInsert n i w.m_items) :
    CacheKeyed w2 ∧ Mirrors w2 ∧ (∀ id, id ≠ n → w2.loaded id = w.loaded id) ∧
      w2.loaded n = none := by
  have hlive : ∀ {k p}, mapFind k w.m_items = some p → p ≠ i := by
    intro k p hk e
    obtain ⟨c, hc, _⟩ := hcl k p hk
    rw [e, hi] at hc
    simp at hc
  have hgi : w2.get i = some x := by rw [hget i, if_pos rfl]
  have hgo : ∀ {q it}, w.get q = some it →
      w2.get q = some (spawnF i n (w.loaded x.m_locationID) q it) := by
    intro q it hq
    have hne : q ≠ i := fun e => by rw [e, hi] at hq; simp at hq
    rw [hget q, if_neg hne, hq]
    rfl
  have hback : ∀ {q it'}, q ≠ i → w2.get q = some it' →
      ∃ it, w.get q = some it ∧ it' = spawnF i n (w.loaded x.m_locationID) q it := by
    intro q it' hne hq
    rw [hget q, if_neg hne] at hq
    cases hw : w.get q with
    | none => simp [hw] at hq
    | some it =>
      simp only [hw, Option.map_some', Option.some.injEq] at hq
      exact ⟨it, rfl, hq.symm⟩
  have hcache : ∀ k p, mapFind k w2.m_items = some p →
      (k = n ∧ p = i) ∨ (k ≠ n ∧ p ≠ i ∧ mapFind k w.m_items = some p) := by
    intro k p hk
    rw [hm, mapFind_mapInsert] at hk
    by_cases e : k = n
    · rw [if_pos e] at hk
      simp only [Option.some.injEq] at hk
      exact Or.inl ⟨e, hk.symm⟩
    · rw [if_neg e] at hk
      exact Or.inr ⟨e, hlive hk, hk⟩
  refine ⟨?_, ?_, ?_, ?_⟩
  · intro k p hk
    rcases hcache k p hk with ⟨e1, e2⟩ | ⟨_, _, h3⟩
    · subst e2
      exact ⟨x, hgi, hxid.trans e1.symm⟩
    · obtain ⟨c, hc, hci, _⟩ := hcl k p h3
      exact ⟨_, hgo hc, hci⟩
  · intro k pc c' hk hg' hl' id q
    rcases hcache k pc hk with ⟨_, e2⟩ | ⟨hkn, hpc, hk'⟩
    · subst e2
      rw [hgi] at hg'
      simp only [Option.some.injEq] at hg'
      rw [← hg', hxl] at hl'
      simp at hl'
    · obtain ⟨c, hc, ec⟩ := hback hpc hg'
      subst ec
      have hl : c.m_contentsLoaded = true := hl'
      have hM := hmir k pc c hk' hc hl
      have hattk : w.loaded x.m_locationID = some pc ↔ x.m_locationID = k :=
        loaded_eq_iff hcl (World.loaded_of hk' hc hl)
      have hnone : ∀ q', mapFind n c.m_contents ≠ some q' := by
        intro q' hq'
        rw [(hM n q').1 hq' |>.1] at hfresh
        simp at hfresh
      by_cases hid : id = n
      · subst hid
        rw [hm, mapFind_mapInsert, if_pos rfl]
        unfold spawnF
        simp only
        by_cases ha : w.loaded x.m_locationID = some pc
        · rw [if_pos ha, mapFind_mapInsert, if_pos rfl]
          constructor
          · intro e
            simp only [Option.some.injEq] at e
            subst e
            exact ⟨rfl, x, hgi, hattk.1 ha⟩
          · rintro ⟨e, _⟩
            exact e
        · rw [if_neg ha]
          constructor
          · intro e
            exact absurd e (hnone q)
          · rintro ⟨e, iq, hq, hloc⟩
            simp only [Option.some.injEq] at e
            subst e
            rw [hgi] at hq
            simp only [Option.some.injEq] at hq
            subst hq
            exact absurd (hattk.2 hloc) ha
      · have e1 : mapFind id (spawnF i n (w.loaded x.m_locationID) pc c).m_contents
            = mapFind id c.m_contents := by
          unfold spawnF
          simp only
          split
          · rw [mapFind_mapInsert, if_neg hid]
          · rfl
        rw [e1, hM id q, hm, mapFind_mapInsert, if_neg hid]
        constructor
        · rintro ⟨h1, iq, h2, h3⟩
          exact ⟨h1, _, hgo h2, h3⟩
        · rintro ⟨h1, iq', h2, h3⟩
          obtain ⟨iq, hq, e⟩ := hback (hlive h1) h2
          subst e
          exact ⟨h1, iq, hq, h3⟩
  · intro id hid
    unfold World.loaded
    rw [hm, mapFind_mapInsert, if_neg hid]
    cases hk : mapFind id w.m_items with
    | none => rfl
    | some p =>
      simp only
      obtain ⟨c, hc, _⟩ := hcl id p hk
      rw [hgo hc, hc]
      rfl
  · unfold World.loaded
    rw [hm, mapFind_mapInsert, if_pos rfl]
    simp only [hgi, hxl]
    rfl

/-- Inversion of a successful `SpawnItem` in a world that satisfies the invariants and whose
next item id is not resident: the new instance is at the fresh address, referenced by the
cache, by the caller and by its container when that is resident with its contents loaded. -/
theorem SpawnItem_inv {fuel res : Nat} {data : ItemData} {w w2 : World}
    (hcl : CacheLive w) (hmir : Mirrors w) (hfresh : mapFind w.nextItemID w.m_items = none)
    (hr : ∀ p x, w.get p = some x → x.m_refCount < 2 ^ 16)
    (h : ItemFactory.SpawnItem fuel data w = some (res, w2)) (hres : res ≠ 0) :
    ∃ (d : ItemData) (bp : Option BlueprintData), d.agrees data ∧ w.get res = none ∧
      (∀ q, w2.get q =
        if q = res then
          some { InventoryItem.new w.nextItemID d bp with
            m_refCount := 2 + (if (w.loaded d.locationID).isSome then 1 else 0) }
        else (w.get q).map (spawnF res w.nextItemID (w.loaded d.locationID) q)) ∧
      w2.m_items = mapInsert w.nextItemID res w.m_items := by
  unfold ItemFactory.SpawnItem at h
  cases hs : InventoryItem.Spawn fuel data w with
  | none => simp [hs] at h
  | some iw =>
    obtain ⟨i, wB⟩ := iw
    simp only [hs] at h
    by_cases hi : i = 0
    · rw [if_pos hi] at h
      simp only [Option.some.injEq, Prod.mk.injEq] at h
      exact absurd h.1.symm hres
    · rw [if_neg hi] at h
      obtain ⟨d, bp, wN, fuel', hag, hn0, eh, ea, em, ei, hl⟩ := Spawn_inv hs hi
      have hwi : w.get i = none := by rw [ei]; exact World.get_fresh w
      have hgN : ∀ q, wN.get q = w.get q := get_of_heap eh ea
      have hgA : ∀ q, (wN.alloc (InventoryItem.new w.nextItemID d bp)).2.get q
          = if q = i then some (InventoryItem.new w.nextItemID d bp) else w.get q := by
        intro q
        rw [World.get_alloc, ea, ← ei, hgN]
      have hmA : (wN.alloc (InventoryItem.new w.nextItemID d bp)).2.m_items = w.m_items := em
      generalize (wN.alloc (InventoryItem.new w.nextItemID d bp)).2 = wA at hl hgA hmA
      have hliveA : ∀ {k p}, mapFind k w.m_items = some p → wA.get p = w.get p := by
        intro k p hk
        obtain ⟨c, hc, _⟩ := hcl k p hk
        have hne : p ≠ i := fun e => by rw [e, hwi] at hc; simp at hc
        rw [hgA p, if_neg hne]
      have hclA : CacheLive wA := by
        intro k p hk
        rw [hmA] at hk
        rw [hliveA hk]
        exact hcl k p hk
      have hlA : ∀ id, wA.loaded id = w.loaded id := by
        intro id
        unfold World.loaded
        rw [hmA]
        cases hk : mapFind id w.m_items with
        | none => rfl
        | some p => simp only; rw [hliveA hk]
      have hmeA : wA.get i = some (InventoryItem.new w.nextItemID d bp) := by
        rw [hgA i, if_pos rfl]
      have hatt : w.loaded d.locationID ≠ some i := by
        intro e
        obtain ⟨_, c, hc, _⟩ := World.loaded_some e
        rw [hwi] at hc
        simp at hc
      have hmap := Load_new_inv hmeA (le_refl 1) hclA
        (by
          intro pc c hpc hc
          rw [hlA] at hpc
          obtain ⟨hk, c0, hc0, hlc⟩ := World.loaded_some hpc
          rw [hliveA hk, hc0] at hc
          simp only [Option.some.injEq] at hc
          subst hc
          cases hf : mapFind (InventoryItem.new w.nextItemID d bp).m_itemID c0.m_contents with
          | none => rfl
          | some q' =>
            have := ((hmir _ pc c0 hk hc0 hlc _ q').1 hf).1
            rw [show (InventoryItem.new w.nextItemID d bp).m_itemID = w.nextItemID from rfl,
              hfresh] at this
            simp at this)
        (by
          intro pc c hpc hc
          rw [hlA] at hpc
          obtain ⟨hk, c0, hc0, _⟩ := World.loaded_some hpc
          rw [hliveA hk] at hc
          exact hr pc c hc)
        (by show 1 + 1 < 2 ^ 16; decide)
        (by
          show wA.loaded d.locationID ≠ some i
          rw [hlA]
          exact hatt)
        hl
      rw [hlA] at hmap
      have hgB : wB.get i = some (spawnF i w.nextItemID (w.loaded d.locationID) i
          (InventoryItem.new w.nextItemID d bp)) := hmap.get_some hmeA
      simp only [hgB] at h
      have hgB' : World.get { wB with m_items := mapInsert w.nextItemID i wB.m_items } i
          = some (spawnF i w.nextItemID (w.loaded d.locationID) i
            (InventoryItem.new w.nextItemID d bp)) := hgB
      replace h : InventoryItem.Ref i { wB with m_items := mapInsert w.nextItemID i wB.m_items }
          = some (res, w2) := h
      have hrcB : 1 ≤ (spawnF i w.nextItemID (w.loaded d.locationID) i
          (InventoryItem.new w.nextItemID d bp)).m_refCount := by
        unfold spawnF InventoryItem.new
        simp only [if_true]
        omega
      have hmaxB : (spawnF i w.nextItemID (w.loaded d.locationID) i
          (InventoryItem.new w.nextItemID d bp)).m_refCount + 1 < 2 ^ 16 := by
        unfold spawnF InventoryItem.new
        simp only
        split <;> (try split) <;> decide
      rw [Ref_fwd hgB' hrcB hmaxB] at h
      simp only [Option.some.injEq, Prod.mk.injEq] at h
      obtain ⟨e1, e2⟩ := h
      subst e1
      subst e2
      refine ⟨d, bp, hag, hwi, fun q => ?_, ?_⟩
      · rw [World.get_set_live hgB']
        by_cases hq : q = i
        · rw [if_pos hq, if_pos hq]
          unfold spawnF InventoryItem.new
          simp only [if_true, if_neg hatt, Option.some.injEq]
          have : (1 + if (w.loaded d.locationID).isSome = true then 1 else 0) + 1
              = 2 + if (w.loaded d.locationID).isSome = true then 1 else 0 := by omega
          rw [this]
        · rw [if_neg hq, if_neg hq]
          show wB.get q = _
          rw [hmap.1 q, hgA q, if_neg hq]
          rfl
      · show mapInsert w.nextItemID i wB.m_items = _
        rw [hmap.2, hmA]

/-- The counts fit their 16 bits after a spawn, the new instance holding at most three
references. -/
theorem spawn_range {w w2 : World} {res n : Nat} {x : InventoryItem} {att : Option Nat}
    (hr : ∀ p y, w.get p = some y → y.m_refCount < 2 ^ 16) (hx : x.m_refCount < 2 ^ 16)
    (hget : ∀ q, w2.get q = if q = res then some x
      else (w.get q).map (spawnF res n att q)) :
    ∀ p y, w2.get p = some y → y.m_refCount < 2 ^ 16 := by
  intro q y hq
  rw [hget q] at hq
  by_cases e : q = res
  · rw [if_pos e] at hq
    simp only [Option.some.injEq] at hq
    rw [← hq]
    exact hx
  · rw [if_neg e] at hq
    cases hw : w.get q with
    | none => simp [hw] at hq
    | some y0 =>
      simp only [hw, Option.map_some', Option.some.injEq] at hq
      rw [← hq]
      exact spawnF_range res n att q y0 e (hr q y0 hw)


/-! ## The quantity taken by `Split` -/

theorem toInt32_nonneg_range {x : Int} (h0 : 0 ≤ x) (h1 : x < 2 ^ 32)
    (h : ¬ toInt32 x < 0) : x < 2 ^ 31 := by
  unfold toInt32 at h
  omega

theorem take_in_range {Q : Nat} {take : Int} (hq : Q < 2 ^ 32) (h0 : 0 < take)
    (hle : take ≤ (Q : Int)) :
    0 ≤ (Q : Int) + -take ∧ (Q : Int) + -take < 2 ^ 32 ∧ -take ≠ 0 ∧
      (((Q : Int) + -take).toNat : Int) = (Q : Int) - take ∧
      ((toUint32 take : Nat) : Int) = take := by
  unfold toUint32
  omega

/-- A successful `AlterQuantity` that takes from the stack left a quantity within the `int32`
range. -/
theorem AlterQuantity_took {w w1 : World} {this : Nat} {it : InventoryItem} {take : Int}
    {notify : Bool} (hlive : w.get this = some it) (hq : it.m_quantity < 2 ^ 32)
    (h0 : 0 < take) (hle : take ≤ (it.m_quantity : Int))
    (hA : InventoryItem.AlterQuantity this (-take) notify w = some (true, w1)) :
    (it.m_quantity : Int) + -take < 2 ^ 31 := by
  obtain ⟨r0, r1, r2, _, _⟩ := take_in_range hq h0 hle
  obtain ⟨me, hme, hc⟩ := AlterQuantity_inv hA
  rw [hlive] at hme
  simp only [Option.some.injEq] at hme
  subst hme
  rcases hc with ⟨e, _⟩ | ⟨_, _, e⟩ | ⟨_, _, _, e⟩ | ⟨_, hn, _⟩
  · exact absurd e r2
  · simp at e
  · simp at e
  · exact toInt32_nonneg_range r0 r1 hn


/-! ## The reads of the child ids -/

theorem Load_id_fetched (n : Nat) (w : World) :
    (InventoryItem._Load_id n w).2.fetched = w.fetched := by
  unfold InventoryItem._Load_id
  cases ItemDB.GetItem n w with
  | none => rfl
  | some data =>
    simp only
    cases ItemFactory.GetType data.typeID w with
    | none => rfl
    | some type =>
      simp only
      unfold InventoryItem._Load_type
      by_cases hc : type.categoryID = invCategories_Blueprint
      · rw [if_pos hc]
        unfold BlueprintItem._Load_type
        cases ItemDB.GetBlueprint n w with
        | none => rfl
        | some b => rfl
      · rw [if_neg hc]
        rfl

/-- A non-recursive `_Load` asks the database for no child ids. -/
theorem Load_this_nonrec_fetched {fuel this : Nat} {w : World} {r : Bool × World}
    (h : InventoryItem._Load fuel this false w = some r) : r.2.fetched = w.fetched := by
  have hs : ∀ (w : World) (p : Nat) (it : InventoryItem), (w.set p it).fetched = w.fetched :=
    fun _ _ _ => rfl
  have hf : ∀ (w : World) (p : Nat), (w.free p).fetched = w.fetched := fun _ _ => rfl
  cases fuel with
  | zero => rw [InventoryItem._Load] at h; simp at h
  | succ m =>
    rw [InventoryItem._Load] at h
    cases hme : w.get this with
    | none => simp [hme] at h
    | some me =>
      simp only [hme] at h
      by_cases ha : me.m_itemID ∈ w.attrLoadFails
      · rw [if_pos ha] at h
        simp only [Option.some.injEq] at h
        rw [← h]
      · rw [if_neg ha] at h
        cases hg : ItemFactory._GetIfContentsLoaded me.m_locationID w with
        | none => simp [hg] at h
        | some cw =>
          obtain ⟨container, w1⟩ := cw
          simp only [hg] at h
          have r1 : w1.fetched = w.fetched := GetIfContentsLoaded_proj World.fetched hs hg
          split at h
          · simp at h
          · rename_i w2 hblock
            simp only [Bool.false_eq_true, if_false, Option.some.injEq] at h
            rw [← h]
            show w2.fetched = w.fetched
            by_cases ho : container ≠ 0
            · rw [if_pos ho] at hblock
              simp only [Option.bind_eq_some] at hblock
              obtain ⟨wa, ha1, hb1⟩ := hblock
              rw [Release_proj World.fetched hs hf _ _ _ _ hb1,
                AddContainedItem_proj World.fetched hs ha1, r1]
            · rw [if_neg ho] at hblock
              simp only [Option.some.injEq] at hblock
              rw [← hblock, r1]

/-- A non-recursive `GetItem` asks the database for no child ids. -/
theorem GetItem_nonrec_fetched {fuel id : Nat} {w : World} {r : Nat × World}
    (h : ItemFactory.GetItem fuel id false w = some r) : r.2.fetched = w.fetched := by
  have hs : ∀ (w : World) (p : Nat) (it : InventoryItem), (w.set p it).fetched = w.fetched :=
    fun _ _ _ => rfl
  have hf : ∀ (w : World) (p : Nat), (w.free p).fetched = w.fetched := fun _ _ => rfl
  cases fuel with
  | zero => rw [ItemFactory.GetItem] at h; simp at h
  | succ n =>
    rw [ItemFactory.GetItem] at h
    cases hc : mapFind id w.m_items with
    | some p =>
      simp only [hc, Bool.false_eq_true, if_false] at h
      obtain ⟨r1, r2⟩ := r
      exact Ref_proj World.fetched hs h
    | none =>
      simp only [hc] at h
      cases hL : InventoryItem.Load n id false w with
      | none => simp [hL] at h
      | some iw =>
        obtain ⟨i, w1⟩ := iw
        simp only [hL] at h
        have k1 : w1.fetched = w.fetched := by
          cases n with
          | zero => rw [InventoryItem.Load] at hL; simp at hL
          | succ m =>
            rw [InventoryItem.Load] at hL
            have k0 := Load_id_fetched id w
            generalize InventoryItem._Load_id id w = iw0 at hL k0
            obtain ⟨i0, w0⟩ := iw0
            simp only at hL k0
            by_cases hi0 : i0 = 0
            · rw [if_pos hi0] at hL
              simp only [Option.some.injEq, Prod.mk.injEq] at hL
              rw [← hL.2]; exact k0
            · rw [if_neg hi0] at hL
              cases hl : InventoryItem._Load m i0 false w0 with
              | none => simp [hl] at hL
              | some ow =>
                obtain ⟨ok, w2⟩ := ow
                simp only [hl] at hL
                have k2 : w2.fetched = w0.fetched := Load_this_nonrec_fetched hl
                by_cases hok : ok = true
                · rw [if_pos hok] at hL
                  simp only [Option.some.injEq, Prod.mk.injEq] at hL
                  rw [← hL.2, k2, k0]
                · rw [if_neg hok] at hL
                  simp only [Option.map_eq_some', Prod.mk.injEq] at hL
                  obtain ⟨w3, h3, _, e⟩ := hL
                  rw [← e, Release_proj World.fetched hs hf _ _ _ _ h3, k2, k0]
        by_cases hi : i = 0
        · rw [if_pos hi] at h
          simp only [Option.some.injEq] at h
          rw [← h]; exact k1
        · rw [if_neg hi] at h
          obtain ⟨r1, r2⟩ := r
          rw [Ref_proj World.fetched hs h]
          exact k1

/-- Inversion of a `LoadContents` that returned true: either the contents were loaded already
and nothing was done, or the database was asked once at the start and the item is marked as
loaded at the end. -/
theorem LoadContents_true_inv {fuel this : Nat} {recursive : Bool} {w w1 : World}
    (h : InventoryItem.LoadContents fuel this recursive w = some (true, w1)) :
    ∃ me, w.get this = some me ∧ (∃ me1, w1.get this = some me1 ∧ me1.m_contentsLoaded = true) ∧
      (me.m_contentsLoaded = true → w1 = w) ∧
      (me.m_contentsLoaded = false → recursive = false →
        w1.fetched = w.fetched ++ [me.m_itemID]) := by
  have hs : ∀ (w : World) (p : Nat) (it : InventoryItem), (w.set p it).fetched = w.fetched :=
    fun _ _ _ => rfl
  have hf : ∀ (w : World) (p : Nat), (w.free p).fetched = w.fetched := fun _ _ => rfl
  cases fuel with
  | zero => rw [InventoryItem.LoadContents] at h; simp at h
  | succ n =>
    rw [InventoryItem.LoadContents] at h
    cases hme : w.get this with
    | none => simp [hme] at h
    | some me =>
      refine ⟨me, rfl, ?_⟩
      simp only [hme] at h
      by_cases hl : me.m_contentsLoaded = true
      · rw [if_pos hl] at h
        simp only [Option.some.injEq, Prod.mk.injEq, true_and] at h
        subst h
        exact ⟨⟨me, hme, hl⟩, fun _ => rfl, fun e => by rw [hl] at e; simp at e⟩
      · rw [if_neg hl] at h
        have k0 : (ItemDB.GetItemContents me.m_itemID w).2.fetched
            = w.fetched ++ [me.m_itemID] := rfl
        generalize ItemDB.GetItemContents me.m_itemID w = qr at h k0
        obtain ⟨oids, w0⟩ := qr
        cases oids with
        | none => simp at h
        | some ids =>
          simp only at h k0
          split at h
          · simp at h
          · rename_i wf hfold
            cases hme1 : wf.get this with
            | none => simp [hme1] at h
            | some me1 =>
              simp only [hme1, Option.some.injEq, Prod.mk.injEq, true_and] at h
              subst h
              refine ⟨⟨_, by rw [World.get_set_live hme1, if_pos rfl], rfl⟩,
                fun e => absurd e hl, fun _ hr => ?_⟩
              subst hr
              show wf.fetched = _
              rw [← k0]
              refine foldlM_proj World.fetched _ ?_ _ _ _ hfold
              intro a x b hb
              cases hg : ItemFactory.GetItem n x false a with
              | none => simp [hg] at hb
              | some iw =>
                obtain ⟨i, a1⟩ := iw
                simp only [hg] at hb
                have kg : a1.fetched = a.fetched := GetItem_nonrec_fetched hg
                by_cases hi : i = 0
                · rw [if_pos hi] at hb
                  simp only [Option.some.injEq] at hb
                  rw [← hb]; exact kg
                · rw [if_neg hi] at hb
                  simp only [Option.bind_eq_some] at hb
                  obtain ⟨wa, ha1, hb1⟩ := hb
                  rw [Release_proj World.fetched hs hf _ _ _ _ hb1,
                    AddContainedItem_proj World.fetched hs ha1, kg]

/-- The method `LoadContents` on an item whose contents are loaded returns true at once. -/
theorem LoadContents_loaded {w : World} {this : Nat} {me : InventoryItem}
    (hme : w.get this = some me) (hl : me.m_contentsLoaded = true) (fuel : Nat)
    (recursive : Bool) :
    InventoryItem.LoadContents (fuel + 1) this recursive w = some (true, w) := by
  rw [InventoryItem.LoadContents]
  simp only [hme]
  rw [if_pos hl]


/-- C1 (as amended): every mutator other than `ChangeSingleton` keeps the quantity invariant
of the item it is called on: if the item satisfies `quantity >= 0` and
`singleton -> quantity == 1` before `SetQuantity`, `AlterQuantity`, `Split`, `Merge`, `Move`,
`ChangeFlag`, `ChangeOwner`, `Rename`, `SetCustomInfo` or `Relocate` (any arguments), it
satisfies it again afterwards; `ChangeSingleton` keeps it when it clears the singleton bit or
the quantity is 1. -/
theorem C1_quantity_invariant_kept (m : Mutator) (fuel this : Nat) (w w' : World)
    (it it' : InventoryItem) (hlive : w.get this = some it) (hinv : QuantityInvariant it)
    (hm : ∀ s n, m = Mutator.ChangeSingleton s n → s = false ∨ it.m_quantity = 1)
    (hrun : m.run fuel this w = some w') (hlive' : w'.get this = some it') :
    QuantityInvariant it' := by
  have same : w' = w → QuantityInvariant it' := by
    intro e
    rw [e, hlive] at hlive'
    simp only [Option.some.injEq] at hlive'
    rw [← hlive']; exact hinv
  have upd : ∀ it1 : InventoryItem, w'.updates w this it1 →
      it1.m_singleton = it.m_singleton → it1.m_quantity = it.m_quantity →
      QuantityInvariant it' := by
    intro it1 hu e1 e2
    rw [updates_same hu hlive hlive']
    unfold QuantityInvariant at hinv ⊢
    rw [e1, e2]; exact hinv
  cases m with
  | SetQuantity qty_new notify =>
    simp only [Mutator.run, Option.map_eq_some'] at hrun
    obtain ⟨r, h, e⟩ := hrun
    subst e
    obtain ⟨me, hme, h⟩ := SetQuantity_inv h
    rw [hlive] at hme
    simp only [Option.some.injEq] at hme
    subst hme
    rcases h with ⟨_, e⟩ | ⟨hs, _, hu⟩
    · apply same; rw [e]
    · rw [updates_same hu hlive hlive']
      exact inv_of_singleton_false hs
  | AlterQuantity qty_change notify =>
    simp only [Mutator.run, Option.map_eq_some'] at hrun
    obtain ⟨r, h, e⟩ := hrun
    subst e
    rcases AlterQuantity_this h with ⟨e, _⟩ | ⟨_, it1, h1, hs⟩
    · exact same e
    · rw [hlive'] at h1
      simp only [Option.some.injEq] at h1
      rw [h1]; exact inv_of_singleton_false hs
  | ChangeSingleton new_singleton notify =>
    simp only [Mutator.run, Option.map_eq_some'] at hrun
    obtain ⟨r, h, e⟩ := hrun
    subst e
    obtain ⟨me, hme, _, h⟩ := ChangeSingleton_inv h
    rw [hlive] at hme
    simp only [Option.some.injEq] at hme
    subst hme
    rcases h with e | hu
    · exact same e
    · rw [updates_same hu hlive hlive']
      rcases hm new_singleton notify rfl with hs | hq
      · exact inv_of_singleton_false hs
      · unfold QuantityInvariant
        exact ⟨Nat.zero_le _, fun _ => hq⟩
  | Split qty_to_take notify =>
    simp only [Mutator.run, Option.map_eq_some'] at hrun
    obtain ⟨r, h, e⟩ := hrun
    subst e
    rcases Split_this h hlive hlive' with e | hs
    · rw [e]; exact hinv
    · exact inv_of_singleton_false hs
  | Merge to_merge qty notify =>
    simp only [Mutator.run, Option.map_eq_some'] at hrun
    obtain ⟨r, h, e⟩ := hrun
    subst e
    rcases Merge_this h hlive hlive' with e | hs
    · rw [e]; exact hinv
    · exact inv_of_singleton_false hs
  | Move location new_flag notify =>
    simp only [Mutator.run] at hrun
    have k : Keeps (fun it : InventoryItem => (it.m_singleton, it.m_quantity)) w w' :=
      Move_keeps (f := fun it : InventoryItem => (it.m_singleton, it.m_quantity))
        (fun _ _ => rfl) (fun _ _ => rfl) (fun _ _ _ => rfl) hrun
    obtain ⟨it0, h0, e⟩ := k.2 this it' (World.get_guard hlive).2 hlive'
    rw [hlive] at h0
    simp only [Option.some.injEq] at h0
    subst h0
    simp only [Prod.mk.injEq] at e
    unfold QuantityInvariant at hinv ⊢
    rw [e.1, e.2]; exact hinv
  | ChangeFlag new_flag notify =>
    simp only [Mutator.run] at hrun
    obtain ⟨me, hme, h⟩ := ChangeFlag_inv hrun
    rcases h with e | hu
    · exact same e
    · rw [hlive] at hme
      simp only [Option.some.injEq] at hme
      subst hme
      exact upd _ hu rfl rfl
  | ChangeOwner new_owner notify =>
    simp only [Mutator.run] at hrun
    obtain ⟨me, hme, h⟩ := ChangeOwner_inv hrun
    rcases h with e | hu
    · exact same e
    · rw [hlive] at hme
      simp only [Option.some.injEq] at hme
      subst hme
      exact upd _ hu rfl rfl
  | Rename to_ =>
    simp only [Mutator.run] at hrun
    obtain ⟨me, hme, hu⟩ := Rename_inv hrun
    rw [hlive] at hme
    simp only [Option.some.injEq] at hme
    subst hme
    exact upd _ hu rfl rfl
  | SetCustomInfo ci =>
    simp only [Mutator.run] at hrun
    obtain ⟨me, hme, hu⟩ := SetCustomInfo_inv hrun
    rw [hlive] at hme
    simp only [Option.some.injEq] at hme
    subst hme
    exact upd _ hu rfl rfl
  | Relocate pos =>
    simp only [Mutator.run] at hrun
    obtain ⟨me, hme, h⟩ := Relocate_inv hrun
    rcases h with e | hu
    · exact same e
    · rw [hlive] at hme
      simp only [Option.some.injEq] at hme
      subst hme
      exact upd _ hu rfl rfl

/-- Witness of C1: `SetQuantity(7)` on the stack of five. -/
theorem C1_quantity_invariant_kept_witness : QuantityInvariant (exStack 2 100 7) :=
  C1_quantity_invariant_kept (Mutator.SetQuantity 7 false) 0 1 (exWorld 5 3) (exWorld 7 3)
    (exStack 2 100 5) (exStack 2 100 7) (by decide) (by decide)
    (fun s n e => by cases e) (by decide) (by decide)

/-- Counterexample to C1 as stated: `ChangeSingleton(true)` on a stack of five leaves a
singleton of quantity five. -/
theorem C1_counterexample :
    (exWorld 5 3).get 1 = some (exStack 2 100 5) ∧ QuantityInvariant (exStack 2 100 5) ∧
    ((Mutator.ChangeSingleton true false).run 0 1 (exWorld 5 3)).bind (fun w' => w'.get 1)
      = some { exStack 2 100 5 with m_singleton := true } ∧
    ¬ QuantityInvariant { exStack 2 100 5 with m_singleton := true } := by
  refine ⟨by decide, by decide, by decide, by decide⟩


set_option maxHeartbeats 1600000 in
set_option maxRecDepth 100000 in
/-- C2 (divergence): `Merge` is not atomic on failure. On a stack of 5 and a stack of 3 of
the same type, location and flag, `Merge(other, 4, false)` returns false, yet this item's
quantity is 9 afterwards, in memory and in its persisted row, while the other item still
has quantity 3. -/
theorem C2_merge_failure_not_atomic :
    (InventoryItem.Merge 2 1 2 4 false (exWorld 5 3)).map
        (fun r => (r.1, (r.2.get 1).map (fun it => it.m_quantity),
          (r.2.get 2).map (fun it => it.m_quantity),
          (mapFind 100 r.2.rows).map (fun row => row.quantity)))
      = some (false, some 9, some 3, some 9) := by
  decide


/-- C4 (as amended): `Split` success postcondition within the `int32` range. For every live
non-singleton item with quantity `Q` (a `uint32`) and every `take` with `0 < take ≤ Q` and
`Q - take < 2^31`, in a world that satisfies the invariants of the cache and of the
containment maps, whose next item id is not resident and whose reference counts fit their 16
bits: `AlterQuantity(-take)` returns true, and when the spawn succeeds, that is, when
`SpawnItem` of the descriptor that `Split` builds returns a non-null `res` in the world `w1`
that `AlterQuantity` left, then `Split(take, notify)` returns `res`, leaves the original with
quantity `Q - take`, and `res` is a new instance with quantity `take` whose type, owner and
flag are those of the pre-split item and whose final location is the location of the
original, for `notify = false` and `notify = true` alike. -/
theorem C4_split_success (w : World) (fuel this : Nat) (it : InventoryItem)
    (take : Int) (notify : Bool)
    (hlive : w.get this = some it) (hs : it.m_singleton = false)
    (hq : it.m_quantity < 2 ^ 32) (htake : 0 < take ∧ take ≤ (it.m_quantity : Int))
    (hrange : (it.m_quantity : Int) - take < 2 ^ 31)
    (hcl : CacheLive w) (hmir : Mirrors w) (hfresh : mapFind w.nextItemID w.m_items = none)
    (hcount : ∀ p x, w.get p = some x → x.m_refCount < 2 ^ 16) :
    ∃ w1, InventoryItem.AlterQuantity this (-take) notify w = some (true, w1) ∧
      ∀ res w2, ItemFactory.SpawnItem fuel
          (ItemData.stack it.m_type it.m_ownerID (if notify then 1 else it.m_locationID)
            it.m_flag (toUint32 take)) w1 = some (res, w2) → res ≠ 0 →
        ∃ w' orig new, InventoryItem.Split fuel this take notify w = some (res, w') ∧
          res ≠ this ∧ w.get res = none ∧
          w'.get this = some orig ∧ (orig.m_quantity : Int) = (it.m_quantity : Int) - take ∧
          w'.get res = some new ∧ (new.m_quantity : Int) = take ∧ new.m_type = it.m_type ∧
          new.m_ownerID = it.m_ownerID ∧ new.m_flag = it.m_flag ∧
          new.m_locationID = it.m_locationID := by
  obtain ⟨h0, hle⟩ := htake
  obtain ⟨r0, r1, r2, rq, ru⟩ := take_in_range hq h0 hle
  have r31 : (it.m_quantity : Int) + -take < 2 ^ 31 := by omega
  obtain ⟨w1, hA, hw1⟩ := AlterQuantity_fwd hlive hs (-take) notify r0 r31
  refine ⟨w1, hA, fun res w2 hS hres => ?_⟩
  have hm1 := hw1.mapped
    (fun x => { x with m_quantity := ((it.m_quantity : Int) + -take).toNat }) hlive
  obtain ⟨hcl1, hmir1⟩ := inv_of_mapped hm1
    (fun p x => by by_cases e : p = this <;> simp [e]) hcl hmir
  have hl1 : ∀ id, w1.loaded id = w.loaded id :=
    World.loaded_mapped hm1 (fun p x => by by_cases e : p = this <;> simp [e])
  have hfresh1 : mapFind w1.nextItemID w1.m_items = none := by
    rw [hw1.2.2.2.1, hw1.2.1]; exact hfresh
  have hcount1 : ∀ p x, w1.get p = some x → x.m_refCount < 2 ^ 16 := by
    intro p x hp
    rw [hw1.1 p] at hp
    by_cases e : p = this
    · rw [if_pos e] at hp
      simp only [Option.some.injEq] at hp
      rw [← hp]
      exact hcount this it hlive
    · rw [if_neg e] at hp
      exact hcount p x hp
  obtain ⟨d, bp, hag, hres1, hget2, hm2⟩ := SpawnItem_inv hcl1 hmir1 hfresh1 hcount1 hS hres
  have hne : this ≠ res := fun e => by
    rw [← e, hw1.live] at hres1
    simp at hres1
  have hresw : w.get res = none := by
    rw [hw1.1 res, if_neg (Ne.symm hne)] at hres1
    exact hres1
  have hthis2 : w2.get this = some (spawnF res w1.nextItemID (w1.loaded d.locationID) this
      { it with m_quantity := ((it.m_quantity : Int) + -take).toNat }) := by
    rw [hget2, if_neg hne, hw1.live]
    rfl
  have hres2 : w2.get res = some { InventoryItem.new w1.nextItemID d bp with
      m_refCount := 2 + (if (w1.loaded d.locationID).isSome then 1 else 0) } := by
    rw [hget2, if_pos rfl]
  obtain ⟨g1, g2, g3, g4, g5, _⟩ := hag
  have c4 : ∀ x : World, ¬ ((true, x).1 = false) := fun _ h => Bool.noConfusion h
  have hS' : ItemFactory.SpawnItem fuel
      (ItemData.stack
        ({ it with m_quantity := ((it.m_quantity : Int) + -take).toNat } : InventoryItem).m_type
        ({ it with m_quantity := ((it.m_quantity : Int) + -take).toNat } : InventoryItem).m_ownerID
        (if notify then 1 else
          ({ it with m_quantity := ((it.m_quantity : Int) + -take).toNat } :
            InventoryItem).m_locationID)
        ({ it with m_quantity := ((it.m_quantity : Int) + -take).toNat } : InventoryItem).m_flag
        (toUint32 take)) w1 = some (res, w2) := hS
  unfold InventoryItem.Split
  simp only [hlive]
  rw [if_neg (not_le.2 h0), hA]
  simp only [Option.some_bind]
  rw [if_neg (c4 w1)]
  simp only [hw1.live, Option.some_bind]
  rw [hS']
  simp only [Option.some_bind]
  cases notify with
  | false =>
    rw [if_neg (by simp)]
    refine ⟨w2, _, _, rfl, Ne.symm hne, hresw, hthis2, rq, hres2, ?_, g1, g2, g4, ?_⟩
    · show ((d.quantity : Nat) : Int) = take
      rw [g5]
      exact ru
    · show d.locationID = it.m_locationID
      rw [g3]
      simp [ItemData.stack]
  | true =>
    rw [if_pos rfl]
    simp only [hthis2, Option.some_bind]
    obtain ⟨hck2, hmir2, _, _⟩ := spawn_post
      (x := { InventoryItem.new w1.nextItemID d bp with
        m_refCount := 2 + (if (w1.loaded d.locationID).isSome then 1 else 0) })
      hcl1 hmir1 hfresh1 hres1 rfl rfl hget2 hm2
    obtain ⟨w', hM, hf⟩ := Move_total fuel it.m_locationID it.m_flag defaultNotify hres2
      (by
        show mapFind w1.nextItemID w2.m_items = some res
        rw [hm2, mapFind_mapInsert, if_pos rfl])
      hck2 hmir2 (fun _ => Nat.le_add_right 2 _)
      (spawn_range hcount1 (by
        show (2 + if (w1.loaded d.locationID).isSome = true then 1 else 0) < 2 ^ 16
        split <;> decide) hget2)
    obtain ⟨o', ho, _, _, _, _, ho5, _, _⟩ := hf this _ hthis2
    obtain ⟨n', hn, _, hn2, hn3, _, hn5, hn6, hn7⟩ := hf res _ hres2
    rw [if_pos rfl] at hn6 hn7
    refine ⟨w', o', n', ?_, Ne.symm hne, hresw, ho, ?_, hn, ?_, ?_, ?_, hn7, hn6⟩
    · show (InventoryItem.Move fuel res it.m_locationID it.m_flag defaultNotify w2).map _ = _
      rw [hM]
      rfl
    · rw [ho5]
      exact rq
    · rw [hn5]
      show ((d.quantity : Nat) : Int) = take
      rw [g5]
      exact ru
    · rw [hn2]; exact g1
    · rw [hn3]; exact g2

set_option maxHeartbeats 1600000 in
set_option maxRecDepth 100000 in
/-- Witness of C4: the example of the spec, a stack of 10 split by 4 with notification; the
original keeps 6 and the new item holds 4 at the location of the original. -/
theorem C4_split_success_witness :
    ∃ w' orig new, InventoryItem.Split 3 1 4 true (exWorld 10 3) = some (3, w') ∧
      (3 : Nat) ≠ 1 ∧ (exWorld 10 3).get 3 = none ∧
      w'.get 1 = some orig ∧ (orig.m_quantity : Int) = 6 ∧
      w'.get 3 = some new ∧ (new.m_quantity : Int) = 4 ∧ new.m_type = 34 ∧
      new.m_ownerID = 7 ∧ new.m_flag = 4 ∧ new.m_locationID = 60 := by
  obtain ⟨w1, hA, h⟩ := C4_split_success (exWorld 10 3) 3 1 (exStack 2 100 10) 4 true
    (by decide) (by decide) (by decide) (by decide) (by decide) (cacheLive_of_check (by decide))
    (mirrors_of_check (by decide)) (by decide)
    (fun p x hp => room_of_check (by decide : roomB (exWorld 10 3) 0 = true) p x hp)
  have h0 : InventoryItem.AlterQuantity 1 (-4) true (exWorld 10 3)
      = some (true, exWorld 6 3) := by decide
  rw [h0] at hA
  simp only [Option.some.injEq, Prod.mk.injEq, true_and] at hA
  subst hA
  exact h 3 exSpawned (by decide) (by decide)

/-- Counterexample to C4 as stated: a stack of 3000000000 units, a quantity that fits the
`uint32` member, and `take = 5` with `0 < take ≤ Q`. The spawn of the descriptor that `Split`
builds succeeds in this world, yet `Split(5)` returns null and changes nothing: the new
quantity 2999999995 is negative as an `int32`, so `AlterQuantity` refuses it. -/
theorem C4_counterexample :
    (exWorld 3000000000 3).get 1 = some (exStack 2 100 3000000000) ∧
    (exStack 2 100 3000000000).m_singleton = false ∧
    (exStack 2 100 3000000000).m_quantity < 2 ^ 32 ∧
    (0 < (5 : Int) ∧ (5 : Int) ≤ ((exStack 2 100 3000000000).m_quantity : Int)) ∧
    (ItemFactory.SpawnItem 3 (ItemData.stack 34 7 60 4 (toUint32 5))
      (exWorld 3000000000 3)).map Prod.fst = some 3 ∧
    InventoryItem.Split 3 1 5 false (exWorld 3000000000 3)
      = some (0, exWorld 3000000000 3) := by
  refine ⟨by decide, rfl, by decide, by decide, by decide, by decide⟩


/-- C5: `Split` rejects bad amounts without mutating. For every live item (quantity a
`uint32`) and every `int32` amount `qty_to_take` with `qty_to_take ≤ 0` or
`qty_to_take > quantity`, `Split` returns the null pointer and the whole world state, the
item's fields, the cache, the persisted rows and the notification log included, is exactly
what it was: no item is spawned and nothing is changed. -/
theorem C5_split_rejects_bad_amounts (w : World) (fuel this : Nat) (it : InventoryItem)
    (qty_to_take : Int) (notify : Bool)
    (hlive : w.get this = some it) (hq : it.m_quantity < 2 ^ 32)
    (hd : -2 ^ 31 ≤ qty_to_take ∧ qty_to_take < 2 ^ 31)
    (hbad : qty_to_take ≤ 0 ∨ (it.m_quantity : Int) < qty_to_take) :
    InventoryItem.Split fuel this qty_to_take notify w = some (0, w) := by
  by_cases h : qty_to_take ≤ 0
  · simp [InventoryItem.Split, hlive, h]
  · have hlt : (it.m_quantity : Int) < qty_to_take := by
      rcases hbad with hb | hb
      · exact absurd hb h
      · exact hb
    have ha := @AlterQuantity_refused w this it (-qty_to_take) notify hlive hq (by omega)
      (by omega)
    simp [InventoryItem.Split, hlive, h, ha]

/-- Witness of C5: taking 6 from a stack of 5. -/
theorem C5_split_rejects_bad_amounts_witness :
    InventoryItem.Split 3 1 6 true (exWorld 5 3) = some (0, exWorld 5 3) :=
  C5_split_rejects_bad_amounts (exWorld 5 3) 3 1 (exStack 2 100 5) 6 true (by decide)
    (by decide) (by decide) (by decide)

/-- C6: `AlterQuantity` fails without mutating when the result would be negative. For every
live item with quantity `Q` (a `uint32`) and every `int32` change `delta` with
`Q + delta < 0`, `AlterQuantity(delta)` returns false and the whole world state is unchanged:
the quantity is still `Q`, no row is written and no notification is sent. -/
theorem C6_alter_quantity_negative_fails (w : World) (this : Nat) (it : InventoryItem)
    (delta : Int) (notify : Bool)
    (hlive : w.get this = some it) (hq : it.m_quantity < 2 ^ 32)
    (hd : -2 ^ 31 ≤ delta ∧ delta < 2 ^ 31)
    (hneg : (it.m_quantity : Int) + delta < 0) :
    InventoryItem.AlterQuantity this delta notify w = some (false, w) ∧
    (w.get this).map (fun i => i.m_quantity) = some it.m_quantity :=
  ⟨AlterQuantity_refused notify hlive hq hd hneg, by rw [hlive]; rfl⟩

/-- Witness of C6: quantity 5 and a change of -100. -/
theorem C6_alter_quantity_negative_fails_witness :
    InventoryItem.AlterQuantity 1 (-100) true (exWorld 5 3) = some (false, exWorld 5 3) ∧
    ((exWorld 5 3).get 1).map (fun i => i.m_quantity) = some 5 :=
  C6_alter_quantity_negative_fails (exWorld 5 3) 1 (exStack 2 100 5) (-100) true (by decide)
    (by decide) (by decide) (by decide)

/-- C7: `SetQuantity` on a singleton always fails. For every live item whose singleton bit
is set and every new quantity, `SetQuantity` returns false and the whole world state, every
field of the item, the persisted rows and the notification log included, is unchanged. -/
theorem C7_set_quantity_singleton_fails (w : World) (this : Nat) (it : InventoryItem)
    (qty_new : Nat) (notify : Bool)
    (hlive : w.get this = some it) (hs : it.m_singleton = true) :
    InventoryItem.SetQuantity this qty_new notify w = some (false, w) := by
  simp [InventoryItem.SetQuantity, hlive, hs]

/-- Witness of C7: the singleton container 60 is asked to take its current quantity 1. -/
theorem C7_set_quantity_singleton_fails_witness :
    InventoryItem.SetQuantity 3 1 true exHangar = some (false, exHangar) :=
  C7_set_quantity_singleton_fails exHangar 3 (exContainer 1 60 [(100, 1)]) 1 true (by decide)
    (by decide)


/-- The method `Move` to the place where the item already is does nothing. -/
theorem Move_same {w : World} {this : Nat} {me : InventoryItem} (fuel : Nat) (notify : Bool)
    (hme : w.get this = some me) {location new_flag : Nat}
    (h : location = me.m_locationID ∧ new_flag = me.m_flag) :
    InventoryItem.Move fuel this location new_flag notify w = some w := by
  unfold InventoryItem.Move
  simp only [hme]
  rw [if_pos h]

/-- C8 (as amended): Move round trip below the largest reference count. For every resident
item at `(L0, f0)` in a world whose resident containers mirror their resident children (the
cache entries are live, the item holds the references of its cache entry and of its
containment edge, the maps are ordered as a `std::map` is) and every target `(A, fX)`, when
the reference counts of the containers `L0` and `A`, if resident with their contents loaded,
are below 65535, the one of the item fits its 16 bits and, when the item is attached to `A`,
its count, less the reference of the old edge when it is detached first, is below 65535
(below 65534 when it is attached to itself): `Move(A, fX)` followed by `Move(L0, f0)`
succeeds and gives every instance exactly the value it had before the first
`Move`: the item has its location, flag and reference count back, and the containment maps of
the container `L0`, of the container `A` and of every other instance are the maps they
were. -/
theorem C8_move_round_trip (w : World) (this : Nat) (me : InventoryItem)
    (fuel A fX : Nat) (notify1 notify2 : Bool)
    (hme : w.get this = some me) (hcache : mapFind me.m_itemID w.m_items = some this)
    (hcl : CacheLive w) (hmir : Mirrors w) (hs : MapsSorted w)
    (hrc : (w.loaded me.m_locationID).isSome → 2 ≤ me.m_refCount)
    (hroomC : ∀ pc c, (w.loaded me.m_locationID = some pc ∨ w.loaded A = some pc) →
      w.get pc = some c → c.m_refCount + 1 < 2 ^ 16)
    (hroomI : ∀ pn, w.loaded A = some pn →
      me.m_refCount - (if (w.loaded me.m_locationID).isSome then 1 else 0)
        + (if pn = this then 2 else 1) < 2 ^ 16)
    (hrange : me.m_refCount < 2 ^ 16) :
    ∃ w1 w2, InventoryItem.Move fuel this A fX notify1 w = some w1 ∧
      InventoryItem.Move fuel this me.m_locationID me.m_flag notify2 w1 = some w2 ∧
      (∀ p, w2.get p = w.get p) ∧ w2.m_items = w.m_items := by
  by_cases hsame : A = me.m_locationID ∧ fX = me.m_flag
  · refine ⟨w, w, Move_same fuel notify1 hme hsame, Move_same fuel notify2 hme ⟨rfl, rfl⟩,
      fun _ => rfl, rfl⟩
  · obtain ⟨w1, hM1, hm1⟩ := Move_fwd fuel A fX notify1 hme hcache hcl hmir hrc hroomC
      hroomI hsame
    obtain ⟨hcl1, hmir1, hld1⟩ := Move_post hme hcache hcl hmir hrc hm1
    have hme1 := hm1.get_some hme
    generalize hme1e : moveF this me.m_itemID (w.loaded me.m_locationID) (w.loaded A) A fX
      this me = me1 at hme1
    have hi1 : me1.m_itemID = me.m_itemID := by rw [← hme1e]; rfl
    have hl1 : me1.m_locationID = A := by rw [← hme1e]; simp [moveF]
    have hf1 : me1.m_flag = fX := by rw [← hme1e]; simp [moveF]
    have hr1 : me1.m_refCount = me.m_refCount
        - (if (w.loaded me.m_locationID).isSome then 1 else 0)
        + (if (w.loaded A).isSome then 1 else 0) := by
      rw [← hme1e]; simp [moveF]
    have hrc1 : 1 ≤ me.m_refCount := by
      obtain ⟨c, hg, _, h1⟩ := hcl _ _ hcache
      rw [hme] at hg
      simp only [Option.some.injEq] at hg
      subst hg
      exact h1
    have hcache1 : mapFind me1.m_itemID w1.m_items = some this := by
      rw [hi1, hm1.2]; exact hcache
    have hrc' : (w1.loaded me1.m_locationID).isSome → 2 ≤ me1.m_refCount := by
      intro h
      rw [hl1, hld1] at h
      rw [hr1, if_pos h]
      by_cases hd : (w.loaded me.m_locationID).isSome = true
      · have := hrc hd
        rw [if_pos hd]; omega
      · rw [if_neg hd]; omega
    have hne' : ¬ (me.m_locationID = me1.m_locationID ∧ me.m_flag = me1.m_flag) := by
      rw [hl1, hf1]
      intro h
      exact hsame ⟨h.1.symm, h.2.symm⟩
    have hroomC1 : ∀ pc c, (w1.loaded me1.m_locationID = some pc ∨
        w1.loaded me.m_locationID = some pc) → w1.get pc = some c →
        c.m_refCount + 1 < 2 ^ 16 := by
      intro pc c1 hpc hc1
      rw [hl1, hld1, hld1] at hpc
      by_cases e : pc = this
      · rw [e, hme1] at hc1
        simp only [Option.some.injEq] at hc1
        rw [← hc1, hr1]
        have hself : me.m_refCount + 1 < 2 ^ 16 := hroomC this me (e ▸ hpc.symm) hme
        by_cases hd : (w.loaded me.m_locationID).isSome = true
        · have := hrc hd
          rw [if_pos hd]
          split <;> omega
        · rw [if_neg hd]
          have hA : w.loaded A = some this := by
            rcases hpc with h | h
            · rw [e] at h; exact h
            · rw [h] at hd; exact absurd rfl hd
          have := hroomI this hA
          rw [if_neg hd, if_pos rfl] at this
          split <;> omega
      · rw [hm1.1 pc] at hc1
        cases hw : w.get pc with
        | none => simp [hw] at hc1
        | some c =>
          simp only [hw, Option.map_some', Option.some.injEq] at hc1
          have := hroomC pc c hpc.symm hw
          rw [← hc1]
          unfold moveF
          simp only [if_neg e]
          exact this
    have hroomI1 : ∀ pn, w1.loaded me.m_locationID = some pn →
        me1.m_refCount - (if (w1.loaded me1.m_locationID).isSome then 1 else 0)
          + (if pn = this then 2 else 1) < 2 ^ 16 := by
      intro pn hpn
      rw [hld1] at hpn
      rw [hr1, hl1, hld1]
      have hd : (w.loaded me.m_locationID).isSome = true := by rw [hpn]; rfl
      have h2 := hrc hd
      by_cases e : pn = this
      · rw [if_pos e]
        have hself : me.m_refCount + 1 < 2 ^ 16 := hroomC this me (Or.inl (e ▸ hpn)) hme
        rw [if_pos hd]
        split <;> omega
      · rw [if_neg e, if_pos hd]
        split <;> omega
    obtain ⟨w2, hM2, hm2⟩ := Move_fwd fuel me.m_locationID me.m_flag notify2 hme1 hcache1
      hcl1 hmir1 hrc' hroomC1 hroomI1 hne'
    rw [hi1, hl1, hld1, hld1] at hm2
    refine ⟨w1, w2, hM1, hM2, fun p => ?_, hm2.2.trans hm1.2⟩
    rw [(hm1.mtrans hm2).1 p]
    cases hp : w.get p with
    | none => rfl
    | some x =>
      simp only [Option.map_some', Option.some.injEq]
      exact moveF_round_trip A fX hme hcache hcl hmir hs hp

/-- Witness of C8: the stack in container 60 is moved to container 61 and back. -/
theorem C8_move_round_trip_witness :
    ∃ w1 w2, InventoryItem.Move 0 1 61 2 true exHangar = some w1 ∧
      InventoryItem.Move 0 1 60 4 true w1 = some w2 ∧
      (∀ p, w2.get p = exHangar.get p) ∧ w2.m_items = exHangar.m_items :=
  C8_move_round_trip exHangar 1 (exStack 2 100 5) 0 61 2 true true (by decide) (by decide)
    (cacheLive_of_check (by decide)) (mirrors_of_check (by decide))
    (mapsSorted_of_check (by decide)) (fun _ => by decide)
    (fun pc c _ hc => room_of_check (by decide : roomB exHangar 1 = true) pc c hc)
    (roomI_of_two (by decide)) (by decide)

/-- Counterexample to C8 as stated: the world of the witness with the reference count of the
container 61 at its largest value 65535. The invariants hold. `Move(61, 2)` takes a
reference to the container, which wraps its count around to 0, so the `Release` that follows
does nothing; on the way back the lookup of the container 61 answers null, because its count
is 0, and the item is not detached: after `Move(60, 4)` the map of the container 61 still
holds the item, and the item has three references instead of two. -/
theorem C8_counterexample :
    cacheLiveB (exCounts 2 1 65535) = true ∧ mirrorsB (exCounts 2 1 65535) = true ∧
    mapsSortedB (exCounts 2 1 65535) = true ∧
    (exCounts 2 1 65535).get 1 = some (exStack 2 100 5) ∧
    ((exCounts 2 1 65535).get 4).map (fun c => c.m_contents) = some [] ∧
    InventoryItem.Move 0 1 61 2 true (exCounts 2 1 65535) = some exThere ∧
    ((InventoryItem.Move 0 1 60 4 true exThere).bind fun w2 =>
      (w2.get 4).map fun c => c.m_contents) = some [(100, 1)] ∧
    ((InventoryItem.Move 0 1 60 4 true exThere).bind fun w2 =>
      (w2.get 1).map fun x => x.m_refCount) = some 3 := by
  refine ⟨by decide, by decide, by decide, by decide, by decide, by decide, by decide,
    by decide⟩

/-- C9 (as amended): Move keeps the containment maps consistent with the location, below
the largest reference count. Starting from a state in which the map of every resident
container with its contents loaded holds exactly its resident children, where the reference
counts of the resident containers at the old and at the new location are below 65535 and,
when the item is attached, its own count, less the reference of the old edge when it is
detached first, is below 65535 (below 65534 when it is attached to itself), `Move(L, f)` of
a resident item with `(L, f)` different from its current location and flag succeeds;
afterwards the item has `locationID = L` and `flag = f`; the map
of a resident container with its contents loaded holds the item exactly if the container is
`L`, so the item is in the map of `L` when `L` is resident with its contents loaded and in no
other container's map; no instance appears or disappears and no entry of any map under
another id has changed; the reference count of the item has changed by `+1` if it was
attached (`L` resident with contents loaded) and `-1` if it was detached (the old location
resident with contents loaded); and the maps mirror the resident children again. -/
theorem C9_move_maps_consistent (w : World) (this : Nat) (me : InventoryItem)
    (fuel location new_flag : Nat) (notify : Bool)
    (hme : w.get this = some me) (hcache : mapFind me.m_itemID w.m_items = some this)
    (hcl : CacheLive w) (hmir : Mirrors w)
    (hrc : (w.loaded me.m_locationID).isSome → 2 ≤ me.m_refCount)
    (hroomC : ∀ pc c, (w.loaded me.m_locationID = some pc ∨ w.loaded location = some pc) →
      w.get pc = some c → c.m_refCount + 1 < 2 ^ 16)
    (hroomI : ∀ pn, w.loaded location = some pn →
      me.m_refCount - (if (w.loaded me.m_locationID).isSome then 1 else 0)
        + (if pn = this then 2 else 1) < 2 ^ 16)
    (hne : ¬ (location = me.m_locationID ∧ new_flag = me.m_flag)) :
    ∃ w' me', InventoryItem.Move fuel this location new_flag notify w = some w' ∧
      w'.get this = some me' ∧ me'.m_locationID = location ∧ me'.m_flag = new_flag ∧
      (∀ k pc c', mapFind k w'.m_items = some pc → w'.get pc = some c' →
        c'.m_contentsLoaded = true →
        mapFind me.m_itemID c'.m_contents = if k = location then some this else none) ∧
      (∀ id, w'.loaded id = w.loaded id) ∧
      (∀ p, (w'.get p).isSome = (w.get p).isSome) ∧
      (∀ p c c' id, w.get p = some c → w'.get p = some c' → id ≠ me.m_itemID →
        mapFind id c'.m_contents = mapFind id c.m_contents) ∧
      (∀ p c c', w.get p = some c → w'.get p = some c' →
        w.loaded me.m_locationID ≠ some p → w.loaded location ≠ some p →
        c'.m_contents = c.m_contents) ∧
      me'.m_refCount + (if (w.loaded me.m_locationID).isSome then 1 else 0)
        = me.m_refCount + (if (w.loaded location).isSome then 1 else 0) ∧
      Mirrors w' := by
  obtain ⟨w', hM, hm⟩ := Move_fwd fuel location new_flag notify hme hcache hcl hmir hrc hroomC
    hroomI hne
  obtain ⟨hcl', hmir', hld'⟩ := Move_post hme hcache hcl hmir hrc hm
  refine ⟨w', _, hM, hm.get_some hme, by simp [moveF], by simp [moveF], ?_, hld', ?_, ?_, ?_,
    ?_, hmir'⟩
  · intro k pc c' hk hg' hl'
    rw [hm.2] at hk
    obtain ⟨c, hg, _, _⟩ := hcl k pc hk
    have hc' := hm.get_some hg
    rw [hg'] at hc'
    simp only [Option.some.injEq] at hc'
    have hl : c.m_contentsLoaded = true := by
      rw [hc'] at hl'; exact hl'
    rw [hc', moveF_contents location new_flag hme hcache hcl hmir hk hg hl, if_pos rfl]
    by_cases e : k = location
    · rw [if_pos e, if_pos e.symm]
    · rw [if_neg e, if_neg (fun h => e h.symm)]
  · intro p
    rw [hm.1 p]
    cases w.get p <;> rfl
  · intro p c c' id hg hg' hid
    rw [hm.get_some hg] at hg'
    simp only [Option.some.injEq] at hg'
    rw [← hg']
    unfold moveF
    simp only
    split
    · split
      · simp [mapFind_mapInsert, mapFind_mapErase, hid]
      · simp [mapFind_mapInsert, hid]
    · split
      · simp [mapFind_mapErase, hid]
      · rfl
  · intro p c c' hg hg' h1 h2
    rw [hm.get_some hg] at hg'
    simp only [Option.some.injEq] at hg'
    rw [← hg']
    unfold moveF
    simp only
    rw [if_neg h2, if_neg h1]
  · have hrc1 : 1 ≤ me.m_refCount := by
      obtain ⟨c, hg, _, h1⟩ := hcl _ _ hcache
      rw [hme] at hg
      simp only [Option.some.injEq] at hg
      subst hg
      exact h1
    simp only [moveF, if_true]
    by_cases hd : (w.loaded me.m_locationID).isSome = true
    · have := hrc hd
      rw [if_pos hd]
      split <;> omega
    · rw [if_neg hd]
      split <;> omega

/-- Witness of C9: the stack in container 60 is moved to container 61. -/
theorem C9_move_maps_consistent_witness :
    ∃ w' me', InventoryItem.Move 0 1 61 4 false exHangar = some w' ∧
      w'.get 1 = some me' ∧ me'.m_locationID = 61 ∧ me'.m_flag = 4 ∧
      (∀ k pc c', mapFind k w'.m_items = some pc → w'.get pc = some c' →
        c'.m_contentsLoaded = true →
        mapFind 100 c'.m_contents = if k = 61 then some 1 else none) ∧
      (∀ id, w'.loaded id = exHangar.loaded id) ∧
      (∀ p, (w'.get p).isSome = (exHangar.get p).isSome) ∧
      (∀ p c c' id, exHangar.get p = some c → w'.get p = some c' → id ≠ 100 →
        mapFind id c'.m_contents = mapFind id c.m_contents) ∧
      (∀ p c c', exHangar.get p = some c → w'.get p = some c' →
        exHangar.loaded 60 ≠ some p → exHangar.loaded 61 ≠ some p →
        c'.m_contents = c.m_contents) ∧
      me'.m_refCount + (if (exHangar.loaded 60).isSome then 1 else 0)
        = 2 + (if (exHangar.loaded 61).isSome then 1 else 0) ∧
      Mirrors w' :=
  C9_move_maps_consistent exHangar 1 (exStack 2 100 5) 0 61 4 false (by decide) (by decide)
    (cacheLive_of_check (by decide)) (mirrors_of_check (by decide)) (fun _ => by decide)
    (fun pc c _ hc => room_of_check (by decide : roomB exHangar 1 = true) pc c hc)
    (roomI_of_two (by decide)) (by decide)

/-- Counterexample to C9 as stated: the stack 100, whose location 70 is not resident, has
the largest reference count 65535, and the container 61 is resident with its contents
loaded. The invariants hold. `Move(61, 4)` attaches the stack to the container, and the
reference of the new edge wraps the count of the stack around to 0: the count has not
changed by `+1`. -/
theorem C9_counterexample :
    cacheLiveB (exLoose 65535) = true ∧ mirrorsB (exLoose 65535) = true ∧
    ((exLoose 65535).get 1).map (fun x => (x.m_refCount, x.m_locationID, x.m_flag))
      = some (65535, 70, 4) ∧
    (exLoose 65535).loaded 70 = none ∧ (exLoose 65535).loaded 61 = some 4 ∧
    ((InventoryItem.Move 0 1 61 4 false (exLoose 65535)).bind fun w1 =>
      (w1.get 1).map fun x => x.m_refCount) = some 0 := by
  refine ⟨by decide, by decide, by decide, by decide, by decide, by decide⟩


/-! ## Acyclic containment -/

/-- Adding one edge `a → b` to an acyclic relation keeps it acyclic when `a` was not
reachable from `b`. -/
theorem acyclic_add_edge {E E' : Nat → Nat → Prop} (a b : Nat)
    (hsub : ∀ p q, E' p q → E p q ∨ (p = a ∧ q = b))
    (hac : ∀ p, ¬ Relation.TransGen E p p) (hno : ¬ Relation.ReflTransGen E b a) :
    ∀ p, ¬ Relation.TransGen E' p p := by
  have aux : ∀ x y, Relation.TransGen E' x y →
      Relation.TransGen E x y ∨ (Relation.ReflTransGen E x a ∧ Relation.ReflTransGen E b y) := by
    intro x y h
    induction h with
    | single hxy =>
      rcases hsub _ _ hxy with h1 | ⟨h1, h2⟩
      · exact Or.inl (Relation.TransGen.single h1)
      · right
        rw [h1, h2]
        exact ⟨Relation.ReflTransGen.refl, Relation.ReflTransGen.refl⟩
    | tail hxy hyz ih =>
      rcases hsub _ _ hyz with h1 | ⟨h1, h2⟩
      · rcases ih with h3 | ⟨h3, h4⟩
        · exact Or.inl (Relation.TransGen.tail h3 h1)
        · exact Or.inr ⟨h3, Relation.ReflTransGen.tail h4 h1⟩
      · right
        rw [h2]
        refine ⟨?_, Relation.ReflTransGen.refl⟩
        rw [← h1]
        rcases ih with h3 | ⟨h3, _⟩
        · exact h3.to_reflTransGen
        · rw [h1]; exact h3
  intro p hp
  rcases aux p p hp with h | ⟨h1, h2⟩
  · exact hac p h
  · exact hno (h2.trans h1)

/-- Removing edges keeps a relation acyclic. -/
theorem acyclic_mono {E E' : Nat → Nat → Prop} (hsub : ∀ p q, E' p q → E p q)
    (hac : ∀ p, ¬ Relation.TransGen E p p) : ∀ p, ¬ Relation.TransGen E' p p :=
  fun p hp => hac p (Relation.TransGen.mono hsub hp)

/-- The edges after a `Move`. -/
theorem Move_edges {fuel this location new_flag : Nat} {notify : Bool} {w w' : World}
    (h : InventoryItem.Move fuel this location new_flag notify w = some w') (p q : Nat)
    (he : Edge w' p q) : Edge w p q ∨ (w.loaded location = some p ∧ q = this) := by
  have hs := Move_contentsSub h
  obtain ⟨c', k, hc', hmem, hlive⟩ := he
  obtain ⟨c, hc, _, hsub⟩ := hs.2 p c' hc'
  have hq : (w.get q).isSome = true := by
    cases hq' : w'.get q with
    | none => simp [hq'] at hlive
    | some iq' =>
      obtain ⟨iq, hiq, _, _⟩ := hs.2 q iq' hq'
      simp [hiq]
  rcases hsub (k, q) hmem with h1 | ⟨h1, h2⟩
  · exact Or.inl ⟨c, k, hc, h1, hq⟩
  · rcases h2 with h2 | h2
    · exact Or.inr ⟨h1, h2⟩
    · exfalso
      simp only at h2
      subst h2
      cases hq0 : w.get 0 with
      | none => simp [hq0] at hq
      | some x => exact World.get_ne_zero hq0 rfl

theorem Move_acyclic {fuel this location new_flag : Nat} {notify : Bool} {w w' : World}
    (hacyc : Acyclic w)
    (hdest : ∀ pc, w.loaded location = some pc → ¬ Relation.ReflTransGen (Edge w) this pc)
    (h : InventoryItem.Move fuel this location new_flag notify w = some w') : Acyclic w' := by
  cases hl : w.loaded location with
  | none =>
    refine acyclic_mono (fun p q he => ?_) hacyc
    rcases Move_edges h p q he with h1 | ⟨h1, _⟩
    · exact h1
    · rw [hl] at h1; simp at h1
  | some pc =>
    refine acyclic_add_edge pc this (fun p q he => ?_) hacyc (hdest pc hl)
    rcases Move_edges h p q he with h1 | ⟨h1, h2⟩
    · exact Or.inl h1
    · rw [hl] at h1
      simp only [Option.some.injEq] at h1
      exact Or.inr ⟨h1.symm, h2⟩

/-- C10 (as amended): containment stays a tree under `Move` and `MoveInto` when the item is
not moved into itself or into something it contains. For every world state in which no item
is contained, directly or transitively, in its own containment map, and every item and
target location whose container, if resident with its contents loaded, is neither the item
itself nor held directly or transitively by the map of the item, the state after
`Move(location, flag)`, and after `MoveInto(new_home, flag)` for a `new_home` with that item
id, again has no item that is its own direct or transitive container. -/
theorem C10_move_keeps_tree (w : World) (fuel this location new_flag : Nat) (notify : Bool)
    (hacyc : Acyclic w)
    (hdest : ∀ pc, w.loaded location = some pc → ¬ Relation.ReflTransGen (Edge w) this pc) :
    (∀ w', InventoryItem.Move fuel this location new_flag notify w = some w' → Acyclic w') ∧
    (∀ w' new_home h, w.get new_home = some h → h.m_itemID = location →
      InventoryItem.MoveInto fuel this new_home new_flag notify w = some w' → Acyclic w') := by
  refine ⟨fun w' h => Move_acyclic hacyc hdest h, fun w' new_home hh hg hid h => ?_⟩
  unfold InventoryItem.MoveInto at h
  simp only [hg] at h
  rw [hid] at h
  exact Move_acyclic hacyc hdest h

/-- The only edge of the example world: container 60 holds the stack. -/
theorem exHangar_edge {p q : Nat} (h : Edge exHangar p q) : p = 3 ∧ q = 1 := by
  obtain ⟨c, k, hc, hmem, _⟩ := h
  have hm := World.get_mem hc
  simp only [exHangar, List.mem_cons, Prod.mk.injEq, List.mem_singleton, List.not_mem_nil,
    or_false] at hm
  rcases hm with ⟨rfl, rfl⟩ | ⟨rfl, rfl⟩ | ⟨rfl, rfl⟩
  · simp [exStack] at hmem
  · simp [exContainer] at hmem
    exact ⟨rfl, hmem.2⟩
  · simp [exContainer] at hmem

theorem exHangar_acyclic : Acyclic exHangar := by
  intro p hp
  obtain ⟨b, _, hb⟩ := Relation.TransGen.tail'_iff.1 hp
  obtain ⟨c, hc, _⟩ := Relation.TransGen.head'_iff.1 hp
  have h1 := exHangar_edge hb
  have h2 := exHangar_edge hc
  omega

/-- Witness of C10: the stack is moved from container 60 into container 61. -/
theorem C10_move_keeps_tree_witness :
    ∃ w', InventoryItem.Move 0 1 61 4 false exHangar = some w' ∧ Acyclic w' := by
  obtain ⟨w', hM, _⟩ := @Move_fwd exHangar 1 (exStack 2 100 5) 0 61 4 false
    (by decide) (by decide) (cacheLive_of_check (by decide))
    (mirrors_of_check (by decide)) (fun _ => by decide)
    (fun pc c _ hc => room_of_check (by decide : roomB exHangar 1 = true) pc c hc)
    (roomI_of_two (by decide)) (by decide)
  refine ⟨w', hM, (C10_move_keeps_tree exHangar 0 1 61 4 false exHangar_acyclic ?_).1 w' hM⟩
  intro pc _ hr
  have h1 : pc = 1 := by
    rcases Relation.ReflTransGen.cases_head hr with e | ⟨c, hc, _⟩
    · exact e.symm
    · have := exHangar_edge hc
      omega
  subst h1
  have : exHangar.loaded 61 = some 4 := by decide
  simp_all

/-- Counterexample to C10 as stated: moving container 60 into itself puts it into its own
containment map. -/
theorem C10_counterexample :
    Acyclic exHangar ∧
    ∃ w', InventoryItem.Move 0 3 60 0 false exHangar = some w' ∧ ¬ Acyclic w' := by
  refine ⟨exHangar_acyclic, ?_⟩
  obtain ⟨w', hM, hm⟩ := @Move_fwd exHangar 3 (exContainer 1 60 [(100, 1)]) 0 60 0 false
    (by decide) (by decide) (cacheLive_of_check (by decide))
    (mirrors_of_check (by decide)) (fun h => by revert h; decide)
    (fun pc c _ hc => room_of_check (by decide : roomB exHangar 1 = true) pc c hc)
    (roomI_of_two (by decide)) (by decide)
  refine ⟨w', hM, fun hac => hac 3 (Relation.TransGen.single ?_)⟩
  have h3 := hm.get_some (show exHangar.get 3 = some (exContainer 1 60 [(100, 1)]) by decide)
  refine ⟨_, 60, h3, ?_, by rw [h3]; rfl⟩
  have hl : exHangar.loaded 60 = some 3 := by decide
  have hl0 : exHangar.loaded 0 = none := by decide
  simp [moveF, exContainer, hl, hl0, mapInsert]


/-! ## The database side of `Move` and `ChangeFlag` -/

theorem World.db_set (w : World) (p : Nat) (it : InventoryItem) : (w.set p it).db = w.db := rfl

theorem World.db_free (w : World) (p : Nat) : (w.free p).db = w.db := rfl

theorem saved_db (w : World) (it : InventoryItem) : (w.saved it).db = w.db.saved it := by
  unfold World.saved ItemDB.SaveBlueprint ItemDB.SaveItem World.db
  cases it.bp with
  | none =>
    simp only
    cases mapFind it.m_itemID w.rows <;> rfl
  | some b =>
    simp only
    cases mapFind it.m_itemID w.rows with
    | none =>
      simp only
      cases mapFind it.m_itemID w.bpRows <;> rfl
    | some d =>
      simp only
      cases mapFind it.m_itemID w.bpRows <;> rfl

theorem SendItemChange_db {this toID : Nat} {ch ch' : Changes} {w w' : World}
    {it : InventoryItem} (hg : w.get this = some it)
    (h : InventoryItem.SendItemChange this toID ch w = some (ch', w')) :
    w'.db = w.db.notified toID it.GetEntityRow ch := by
  unfold InventoryItem.SendItemChange at h
  unfold World.notified
  have ho : w.db.online = w.online := rfl
  rw [ho]
  by_cases hon : toID ∈ w.online
  · rw [if_pos hon] at h
    simp only [hg, Option.some.injEq, Prod.mk.injEq] at h
    rw [if_pos hon, ← h.2]
    rfl
  · rw [if_neg hon] at h
    simp only [Option.some.injEq, Prod.mk.injEq] at h
    rw [if_neg hon, ← h.2]

/-- The database, the clients and the logs after `Save(false, false)` of the new value `it'` of
the item and the notification of its owner. -/
theorem save_notify_db {w w' : World} {this : Nat} {it it' : InventoryItem}
    (hl : w.get this = some it) (notify : Bool) (toID : Nat) (ch : Changes)
    (h : ((InventoryItem.Save 0 this false false (w.set this it')).bind fun w2 =>
        if notify then (InventoryItem.SendItemChange this toID ch w2).map Prod.snd
        else some w2) = some w') :
    w'.get this = some it' ∧
    w'.db = if notify then (w.db.saved it').notified toID it'.GetEntityRow ch
      else w.db.saved it' := by
  have hlive : (w.set this it').get this = some it' := by
    rw [World.get_set_live hl]; simp
  rw [Save_false hlive] at h
  simp only [Option.some_bind] at h
  have hlive2 : ((w.set this it').saved it').get this = some it' := by
    rw [get_saved]; exact hlive
  have hdb : ((w.set this it').saved it').db = w.db.saved it' := by
    rw [saved_db, World.db_set]
  cases notify with
  | false =>
    simp only [Bool.false_eq_true, if_false, Option.some.injEq] at h
    subst h
    exact ⟨hlive2, by rw [hdb]; rfl⟩
  | true =>
    simp only [if_true, Option.map_eq_some'] at h
    obtain ⟨⟨ch', w7⟩, h7, e7⟩ := h
    simp only at e7
    subst e7
    have hh := SendItemChange_heap h7
    refine ⟨?_, ?_⟩
    · rw [get_of_heap hh.1 hh.2]; exact hlive2
    · rw [SendItemChange_db hlive2 h7, hdb, if_pos rfl]

/-- The database side of a `ChangeFlag` to another flag. -/
theorem ChangeFlag_db {this new_flag : Nat} {notify : Bool} {w w' : World} {me : InventoryItem}
    (hme : w.get this = some me) (hne : new_flag ≠ me.m_flag)
    (h : InventoryItem.ChangeFlag this new_flag notify w = some w') :
    w'.db = if notify then
        (w.db.saved { me with m_flag := new_flag }).notified me.m_ownerID
          ({ me with m_flag := new_flag } : InventoryItem).GetEntityRow
          { Changes.empty with ixFlag := some me.m_flag }
      else w.db.saved { me with m_flag := new_flag } := by
  unfold InventoryItem.ChangeFlag at h
  simp only [hme] at h
  rw [if_neg hne] at h
  exact (save_notify_db hme notify me.m_ownerID _ h).2

/-- The database side of a `Move` that is not a no-op, in terms of the value `me'` of the item
after the call. -/
theorem Move_db {fuel this location new_flag : Nat} {notify : Bool} {w w' : World}
    {me me' : InventoryItem} (hme : w.get this = some me)
    (hne : ¬ (location = me.m_locationID ∧ new_flag = me.m_flag))
    (h : InventoryItem.Move fuel this location new_flag notify w = some w')
    (hme' : w'.get this = some me') :
    w'.db = if notify then
        (w.db.saved me').notified me'.m_ownerID me'.GetEntityRow
          { Changes.empty with
            ixLocationID := some me.m_locationID
            ixFlag := if new_flag ≠ me.m_flag then some me.m_flag else none }
      else w.db.saved me' := by
  unfold InventoryItem.Move at h
  simp only [hme] at h
  rw [if_neg hne] at h
  simp only [Option.bind_eq_some] at h
  obtain ⟨w2, ⟨⟨oc, w1⟩, h1, h2⟩, w4, ⟨⟨nc, w3⟩, h3, h4⟩, me4, h5, h6⟩ := h
  have hs := World.db_set
  have hf := World.db_free
  have r1 : w1.db = w.db := GetIfContentsLoaded_proj World.db hs h1
  have r2 : w2.db = w1.db := by
    simp only at h2
    by_cases ho : oc ≠ 0
    · rw [if_pos ho] at h2
      simp only [Option.bind_eq_some] at h2
      obtain ⟨wa, ha, hb⟩ := h2
      exact (Release_proj World.db hs hf _ _ _ _ hb).trans
        (RemoveContainedItem_proj World.db hs hf ha)
    · rw [if_neg ho] at h2
      simp only [Option.some.injEq] at h2
      rw [h2]
  have r3 : w3.db = w2.db := GetIfContentsLoaded_proj World.db hs h3
  have r4 : w4.db = w3.db := by
    simp only at h4
    by_cases ho : nc ≠ 0
    · rw [if_pos ho] at h4
      simp only [Option.bind_eq_some] at h4
      obtain ⟨wa, ha, hb⟩ := h4
      exact (Release_proj World.db hs hf _ _ _ _ hb).trans
        (AddContainedItem_proj World.db hs ha)
    · rw [if_neg ho] at h4
      simp only [Option.some.injEq] at h4
      rw [h4]
  have hdb4 : w4.db = w.db := by rw [r4, r3, r2, r1]
  have h6' : ((InventoryItem.Save 0 this false false
      (w4.set this { me4 with m_locationID := location, m_flag := new_flag })).bind fun w6 =>
      if notify then (InventoryItem.SendItemChange this me4.m_ownerID
          { Changes.empty with
            ixLocationID := some me.m_locationID
            ixFlag := if new_flag ≠ me.m_flag then some me.m_flag else none } w6).map Prod.snd
      else some w6) = some w' := by
    obtain ⟨w6, h6a, h6b⟩ := h6
    rw [h6a]
    exact h6b
  obtain ⟨hg, hd⟩ := save_notify_db h5 notify me4.m_ownerID _ h6'
  rw [hme'] at hg
  simp only [Option.some.injEq] at hg
  subst hg
  rw [hd, hdb4]


/-! ## `ChangeFlag` against `Move` with the location held fixed -/

theorem ChangeFlag_fwd {w : World} {this : Nat} {me : InventoryItem}
    (hl : w.get this = some me) (new_flag : Nat) (notify : Bool) :
    ∃ w', InventoryItem.ChangeFlag this new_flag notify w = some w' ∧
      w'.wrote w this { me with m_flag := new_flag } := by
  unfold InventoryItem.ChangeFlag
  simp only [hl]
  by_cases hd : new_flag = me.m_flag
  · rw [if_pos hd]
    refine ⟨w, rfl, ?_⟩
    have : { me with m_flag := new_flag } = me := by
      subst hd
      rfl
    rw [this]
    exact World.wrote.same hl
  · rw [if_neg hd]
    obtain ⟨w2, hsave, hw2⟩ := set_save_fwd hl { me with m_flag := new_flag }
    rw [hsave]
    simp only [Option.some_bind]
    cases notify with
    | false => exact ⟨w2, by simp, hw2⟩
    | true =>
      obtain ⟨ch3, w3, h3, hg3, hm3, hr3⟩ := send_fwd hw2.live me.m_ownerID
        { Changes.empty with ixFlag := some me.m_flag }
      refine ⟨w3, ?_, hw2.send hg3 hm3 hr3⟩
      simp [h3]

/-- What a `Move` to the same location does to an instance: the item gets the new flag,
nothing else changes (the entry of the item is taken out of the map of its container and put
back, its reference is given up and taken again). -/
theorem moveF_same_location {w : World} {this : Nat} {me : InventoryItem} (fX : Nat)
    (hme : w.get this = some me) (hcache : mapFind me.m_itemID w.m_items = some this)
    (hmir : Mirrors w) (hs : MapsSorted w)
    (hrc : (w.loaded me.m_locationID).isSome → 2 ≤ me.m_refCount)
    {q : Nat} {x : InventoryItem} (hq : w.get q = some x) :
    moveF this me.m_itemID (w.loaded me.m_locationID) (w.loaded me.m_locationID)
      me.m_locationID fX q x = if q = this then { x with m_flag := fX } else x := by
  have hcont : (if w.loaded me.m_locationID = some q then
        mapInsert me.m_itemID this
          (if w.loaded me.m_locationID = some q then mapErase me.m_itemID x.m_contents
            else x.m_contents)
      else if w.loaded me.m_locationID = some q then mapErase me.m_itemID x.m_contents
      else x.m_contents) = x.m_contents := by
    by_cases hd : w.loaded me.m_locationID = some q
    · rw [if_pos hd, if_pos hd]
      obtain ⟨hk, c, hc, hl⟩ := World.loaded_some hd
      rw [hq] at hc
      simp only [Option.some.injEq] at hc
      subst hc
      have he := entry_of_mirror hme hcache hmir hk hq hl
      rw [if_pos rfl] at he
      exact mapInsert_mapErase_self (hs q x hq) he
    · rw [if_neg hd, if_neg hd]
  unfold moveF
  rw [hcont]
  by_cases e : q = this
  · subst e
    rw [hme] at hq
    simp only [Option.some.injEq] at hq
    subst hq
    simp only [if_true]
    have hr : me.m_refCount - (if (w.loaded me.m_locationID).isSome = true then 1 else 0)
        + (if (w.loaded me.m_locationID).isSome = true then 1 else 0) = me.m_refCount := by
      by_cases hd : (w.loaded me.m_locationID).isSome = true
      · have := hrc hd
        rw [if_pos hd]
        omega
      · rw [if_neg hd]
        rfl
    rw [hr]
  · simp only [if_neg e]

/-- The methods `ChangeFlag` and `Move` to the same location side by side: the same memory and the same
cache; when the flag changes, the same database after the save, and change records that
differ in the previous location. -/
theorem ChangeFlag_Move_same {w : World} {this : Nat} {me : InventoryItem}
    (fuel new_flag : Nat) (notify : Bool)
    (hme : w.get this = some me) (hcache : mapFind me.m_itemID w.m_items = some this)
    (hcl : CacheLive w) (hmir : Mirrors w) (hs : MapsSorted w)
    (hrc : (w.loaded me.m_locationID).isSome → 2 ≤ me.m_refCount)
    (hroomC : ∀ pc c, w.loaded me.m_locationID = some pc → w.get pc = some c →
      c.m_refCount + 1 < 2 ^ 16)
    (hroomI : me.m_refCount < 2 ^ 16) :
    ∃ w1 w2, InventoryItem.ChangeFlag this new_flag notify w = some w1 ∧
      InventoryItem.Move fuel this me.m_locationID new_flag notify w = some w2 ∧
      (∀ p, w1.get p = w2.get p) ∧ w1.m_items = w2.m_items ∧
      (new_flag = me.m_flag → w1 = w ∧ w2 = w) ∧
      (new_flag ≠ me.m_flag →
        w1.db = (if notify then
            (w.db.saved { me with m_flag := new_flag }).notified me.m_ownerID
              ({ me with m_flag := new_flag } : InventoryItem).GetEntityRow
              { Changes.empty with ixFlag := some me.m_flag }
          else w.db.saved { me with m_flag := new_flag }) ∧
        w2.db = (if notify then
            (w.db.saved { me with m_flag := new_flag }).notified me.m_ownerID
              ({ me with m_flag := new_flag } : InventoryItem).GetEntityRow
              { Changes.empty with
                ixLocationID := some me.m_locationID
                ixFlag := some me.m_flag }
          else w.db.saved { me with m_flag := new_flag })) := by
  by_cases hnop : new_flag = me.m_flag
  · have h1 : InventoryItem.ChangeFlag this new_flag notify w = some w := by
      unfold InventoryItem.ChangeFlag
      simp only [hme]
      rw [if_pos hnop]
    have h2 : InventoryItem.Move fuel this me.m_locationID new_flag notify w = some w := by
      unfold InventoryItem.Move
      rw [hme]
      exact if_pos ⟨rfl, hnop⟩
    exact ⟨w, w, h1, h2, fun _ => rfl, rfl, fun _ => ⟨rfl, rfl⟩, fun h => absurd hnop h⟩
  · obtain ⟨w1, h1, hw1⟩ := ChangeFlag_fwd hme new_flag notify
    have hne : ¬ (me.m_locationID = me.m_locationID ∧ new_flag = me.m_flag) := fun h => hnop h.2
    obtain ⟨w2, h2, hm2⟩ := Move_fwd fuel me.m_locationID new_flag notify hme hcache hcl hmir
      hrc (fun pc c hpc hc => hroomC pc c (hpc.elim id id) hc)
      (by
        intro pn hpn
        have hd : (w.loaded me.m_locationID).isSome = true := by rw [hpn]; rfl
        have h2 := hrc hd
        rw [if_pos hd]
        by_cases e : pn = this
        · rw [if_pos e]
          have := hroomC pn me hpn (by rw [e]; exact hme)
          omega
        · rw [if_neg e]
          omega)
      hne
    have hg2 : ∀ p, w2.get p = if p = this then some { me with m_flag := new_flag }
        else w.get p := by
      intro p
      rw [hm2.1 p]
      cases hp : w.get p with
      | none =>
        have : p ≠ this := fun e => by rw [e, hme] at hp; simp at hp
        simp [this]
      | some x =>
        simp only [Option.map_some']
        rw [moveF_same_location new_flag hme hcache hmir hs hrc hp]
        by_cases e : p = this
        · subst e
          rw [hme] at hp
          simp only [Option.some.injEq] at hp
          subst hp
          simp
        · simp [e]
    have hme2 : w2.get this = some { me with m_flag := new_flag } := by
      rw [hg2 this, if_pos rfl]
    have hd1 := ChangeFlag_db hme hnop h1
    have hd2 := Move_db hme hne h2 hme2
    refine ⟨w1, w2, h1, h2, ?_, ?_, fun h => absurd h hnop, fun _ => ⟨hd1, ?_⟩⟩
    · intro p
      rw [hw1.1 p, hg2 p]
    · rw [hw1.2.1, hm2.2]
    · rw [hd2, if_pos hnop]


/-! ## `Delete` up to the test of the reference count -/

theorem bind_congr_fun {α β : Type} {f g : α → Option β} (x : Option α)
    (h : ∀ a, x = some a → f a = g a) : x.bind f = x.bind g := by
  cases x with
  | none => rfl
  | some a => exact h a rfl

/-- The method `Delete` is `Delete_upToTest` followed by the test of the reference count, the poisoning
and the final `Release`. -/
theorem Delete_eq_upToTest (fuel this : Nat) (w0 : World) :
    InventoryItem.Delete (fuel + 1) this w0 =
      (InventoryItem.Delete_upToTest fuel this w0).bind fun w8 =>
      (w8.get this).bind fun me8 =>
      InventoryItem.Release fuel this
        (if me8.m_refCount ≠ 1 then
          w8.set this
            { me8 with
              m_itemName := "BAD DELETED ITEM"
              m_quantity := 0
              m_contentsLoaded := true }
        else w8) := by
  unfold InventoryItem.Delete InventoryItem.Delete_upToTest
  cases w0.get this with
  | none => rfl
  | some me0 =>
    simp only [Option.bind_assoc]
    refine bind_congr_fun _ (fun w2 _ => ?_)
    refine bind_congr_fun _ (fun w3 _ => ?_)
    refine bind_congr_fun _ (fun r4 _ => ?_)
    refine bind_congr_fun _ (fun me4 _ => ?_)
    refine bind_congr_fun _ (fun w5 _ => ?_)
    refine bind_congr_fun _ (fun me5 _ => ?_)
    refine bind_congr_fun _ (fun w7 _ => ?_)
    cases h7 : w7.get this with
    | none => rfl
    | some me7 =>
      have h8 : (ItemDB.DeleteItem me7.m_itemID
          { w7 with attrRows := mapErase me7.m_itemID w7.attrRows }).get this = some me7 := h7
      simp only [Option.map_some', Option.some_bind, h8]

/-- The end of `Delete` when the reference count is not 1 at the test: the instance is
poisoned and loses one reference, if it has any; it is not freed. -/
theorem Delete_poisons {fuel this : Nat} {w0 w8 : World} {me8 : InventoryItem}
    (h : InventoryItem.Delete_upToTest fuel this w0 = some w8)
    (hme : w8.get this = some me8) (hrc : me8.m_refCount ≠ 1) :
    ∃ w', InventoryItem.Delete (fuel + 1) this w0 = some w' ∧
      w'.get this = some
        { me8 with
          m_refCount := me8.m_refCount - 1
          m_itemName := "BAD DELETED ITEM"
          m_quantity := 0
          m_contentsLoaded := true } ∧
      (∀ q, q ≠ this → w'.get q = w8.get q) ∧ w'.db = w8.db ∧ w'.m_items = w8.m_items := by
  rw [Delete_eq_upToTest, h]
  simp only [Option.some_bind, hme]
  rw [if_pos hrc]
  have hp := World.get_set_live hme this
    { me8 with
      m_itemName := "BAD DELETED ITEM"
      m_quantity := 0
      m_contentsLoaded := true }
  rw [if_pos rfl] at hp
  by_cases h0 : me8.m_refCount < 1
  · have hR : InventoryItem.Release fuel this (w8.set this
        { me8 with
          m_itemName := "BAD DELETED ITEM"
          m_quantity := 0
          m_contentsLoaded := true }) = some (w8.set this
        { me8 with
          m_itemName := "BAD DELETED ITEM"
          m_quantity := 0
          m_contentsLoaded := true }) := by
      unfold InventoryItem.Release
      rw [if_neg (World.get_ne_zero hme)]
      simp only [hp]
      rw [if_pos h0]
    refine ⟨_, hR, ?_, fun q hq => ?_, rfl, rfl⟩
    · rw [hp]
      have : me8.m_refCount - 1 = me8.m_refCount := by omega
      rw [this]
    · rw [World.get_set_live hme, if_neg hq]
  · refine ⟨_, Release_fwd hp (by show 2 ≤ me8.m_refCount; omega) fuel, ?_, fun q hq => ?_,
      rfl, rfl⟩
    · rw [World.get_set_live hp, if_pos rfl]
    · rw [World.get_set_live hp, if_neg hq, World.get_set_live hme, if_neg hq]


/-! ## What `Move` and `ChangeOwner` leave alone in the database -/

theorem saved_rows_other (w : World) (it : InventoryItem) {k : Nat} (hk : k ≠ it.m_itemID) :
    mapFind k (w.saved it).rows = mapFind k w.rows := by
  have key : ∀ w0 : World, mapFind k (ItemDB.SaveItem it.m_itemID it.toData w0).rows
      = mapFind k w0.rows := by
    intro w0
    unfold ItemDB.SaveItem
    cases mapFind it.m_itemID w0.rows with
    | none => rfl
    | some _ =>
      show mapFind k (mapInsert it.m_itemID it.toData w0.rows) = _
      rw [mapFind_mapInsert, if_neg hk]
  unfold World.saved
  cases it.bp with
  | none => exact key w
  | some b =>
    have hr : (ItemDB.SaveBlueprint it.m_itemID b (ItemDB.SaveItem it.m_itemID it.toData w)).rows
        = (ItemDB.SaveItem it.m_itemID it.toData w).rows := by
      unfold ItemDB.SaveBlueprint
      split <;> rfl
    show mapFind k (ItemDB.SaveBlueprint it.m_itemID b
      (ItemDB.SaveItem it.m_itemID it.toData w)).rows = _
    rw [hr]
    exact key w

theorem saved_static (w : World) (it : InventoryItem) :
    (w.saved it).attrRows = w.attrRows ∧ (w.saved it).types = w.types := by
  unfold World.saved ItemDB.SaveBlueprint ItemDB.SaveItem
  cases it.bp with
  | none =>
    simp only
    cases mapFind it.m_itemID w.rows <;> exact ⟨rfl, rfl⟩
  | some b =>
    simp only
    cases mapFind it.m_itemID w.rows with
    | none =>
      simp only
      cases mapFind it.m_itemID w.bpRows <;> exact ⟨rfl, rfl⟩
    | some d =>
      simp only
      cases mapFind it.m_itemID w.bpRows <;> exact ⟨rfl, rfl⟩

theorem World.notified_static (w : World) (toID : Nat) (row : EntityRow) (ch : Changes) :
    (w.notified toID row ch).rows = w.rows ∧ (w.notified toID row ch).attrRows = w.attrRows ∧
      (w.notified toID row ch).types = w.types := by
  unfold World.notified
  split <;> exact ⟨rfl, rfl, rfl⟩

/-- A `Move` writes no row but the one of the item and touches neither the attributes nor the
type catalog. -/
theorem Move_static {fuel this location new_flag : Nat} {notify : Bool} {w w' : World}
    {me me' : InventoryItem} (hme : w.get this = some me)
    (h : InventoryItem.Move fuel this location new_flag notify w = some w')
    (hme' : w'.get this = some me') :
    (∀ k, k ≠ me'.m_itemID → mapFind k w'.rows = mapFind k w.rows) ∧
      w'.attrRows = w.attrRows ∧ w'.types = w.types := by
  by_cases hnop : location = me.m_locationID ∧ new_flag = me.m_flag
  · have hM : InventoryItem.Move fuel this location new_flag notify w = some w := by
      unfold InventoryItem.Move
      rw [hme]
      exact if_pos hnop
    rw [hM] at h
    simp only [Option.some.injEq] at h
    subst h
    exact ⟨fun _ _ => rfl, rfl, rfl⟩
  · have hdb := Move_db hme hnop h hme'
    have hr : w'.rows = w'.db.rows := rfl
    have ha : w'.attrRows = w'.db.attrRows := rfl
    have ht : w'.types = w'.db.types := rfl
    rw [hr, ha, ht, hdb]
    cases notify with
    | true =>
      simp only [if_true]
      obtain ⟨n1, n2, n3⟩ := World.notified_static (w.db.saved me') me'.m_ownerID
        me'.GetEntityRow
        { Changes.empty with
          ixLocationID := some me.m_locationID
          ixFlag := if new_flag ≠ me.m_flag then some me.m_flag else none }
      rw [n1, n2, n3]
      exact ⟨fun k hk => saved_rows_other w.db me' hk, (saved_static w.db me').1,
        (saved_static w.db me').2⟩
    | false =>
      exact ⟨fun k hk => saved_rows_other w.db me' hk, (saved_static w.db me').1,
        (saved_static w.db me').2⟩

/-- A `ChangeOwner` writes no row but the one of the item and touches neither the attributes
nor the type catalog. -/
theorem ChangeOwner_static {this new_owner : Nat} {notify : Bool} {w w' : World}
    {me : InventoryItem} (hme : w.get this = some me)
    (h : InventoryItem.ChangeOwner this new_owner notify w = some w') :
    (∀ k, k ≠ me.m_itemID → mapFind k w'.rows = mapFind k w.rows) ∧
      w'.attrRows = w.attrRows ∧ w'.types = w.types := by
  unfold InventoryItem.ChangeOwner at h
  simp only [hme] at h
  by_cases hd : new_owner = me.m_ownerID
  · rw [if_pos hd] at h
    simp only [Option.some.injEq] at h
    subst h
    exact ⟨fun _ _ => rfl, rfl, rfl⟩
  · rw [if_neg hd] at h
    have hlive : (w.set this { me with m_ownerID := new_owner }).get this
        = some { me with m_ownerID := new_owner } := by
      rw [World.get_set_live hme]; simp
    rw [Save_false hlive] at h
    simp only [Option.some_bind] at h
    have hdb2 : ((w.set this { me with m_ownerID := new_owner }).saved
        { me with m_ownerID := new_owner }).db = w.db.saved { me with m_ownerID := new_owner } := by
      rw [saved_db]
      rfl
    have hfin : w'.db.rows = (w.db.saved { me with m_ownerID := new_owner }).rows ∧
        w'.db.attrRows = (w.db.saved { me with m_ownerID := new_owner }).attrRows ∧
        w'.db.types = (w.db.saved { me with m_ownerID := new_owner }).types := by
      cases notify with
      | false =>
        simp only [Bool.false_eq_true, if_false, Option.some.injEq] at h
        rw [← h, hdb2]
        exact ⟨rfl, rfl, rfl⟩
      | true =>
        simp only [if_true, Option.bind_eq_some, Option.map_eq_some'] at h
        obtain ⟨⟨ch1, w3⟩, h3, ⟨ch2, w4⟩, h4, h5⟩ := h
        have hl2 : ((w.set this { me with m_ownerID := new_owner }).saved
            { me with m_ownerID := new_owner }).get this
            = some { me with m_ownerID := new_owner } := by
          rw [get_saved]; exact hlive
        have d3 := SendItemChange_db hl2 h3
        have hl3 : w3.get this = some { me with m_ownerID := new_owner } := by
          have hh := SendItemChange_heap h3
          rw [get_of_heap hh.1 hh.2]
          exact hl2
        have d4 := SendItemChange_db hl3 h4
        simp only at h5
        subst h5
        rw [d4, d3, hdb2]
        obtain ⟨a1, a2, a3⟩ := World.notified_static
          ((w.db.saved { me with m_ownerID := new_owner }).notified new_owner
            ({ me with m_ownerID := new_owner } : InventoryItem).GetEntityRow
            { Changes.empty with ixOwnerID := some me.m_ownerID }) me.m_ownerID
          ({ me with m_ownerID := new_owner } : InventoryItem).GetEntityRow
          { ch1 with ixOwnerID := some me.m_ownerID }
        obtain ⟨b1, b2, b3⟩ := World.notified_static
          (w.db.saved { me with m_ownerID := new_owner }) new_owner
          ({ me with m_ownerID := new_owner } : InventoryItem).GetEntityRow
          { Changes.empty with ixOwnerID := some me.m_ownerID }
        exact ⟨a1.trans b1, a2.trans b2, a3.trans b3⟩
    obtain ⟨f1, f2, f3⟩ := hfin
    have f1' : w'.rows = (w.db.saved { me with m_ownerID := new_owner }).rows := f1
    have f2' : w'.attrRows = (w.db.saved { me with m_ownerID := new_owner }).attrRows := f2
    have f3' : w'.types = (w.db.saved { me with m_ownerID := new_owner }).types := f3
    rw [f1', f2', f3']
    exact ⟨fun k hk => saved_rows_other w.db _ hk,
      (saved_static w.db _).1, (saved_static w.db _).2⟩

/-! ## Loading the contents of an item none of whose listed children loads -/

theorem foldlM_fixed {β : Type} (g : World → β → Option World) (a : World) :
    ∀ l : List β, (∀ x ∈ l, g a x = some a) → l.foldlM g a = some a := by
  intro l
  induction l with
  | nil => intro _; rfl
  | cons x t ih =>
    intro h
    rw [List.foldlM_cons, h x (List.mem_cons_self _ _)]
    exact ih (fun y hy => h y (List.mem_cons_of_mem _ hy))

/-- An item that is not resident and whose type is not in the catalog cannot be loaded: the
factory returns null and the world is untouched. -/
theorem GetItem_unloadable {w : World} {id : Nat} (fuel : Nat) (recurse : Bool)
    (hc : mapFind id w.m_items = none)
    (ht : ∀ d, mapFind id w.rows = some d → mapFind d.typeID w.types = none) :
    ItemFactory.GetItem (fuel + 2) id recurse w = some (0, w) := by
  have hL : InventoryItem._Load_id id w = (0, w) := by
    unfold InventoryItem._Load_id ItemDB.GetItem ItemFactory.GetType
    cases hd : mapFind id w.rows with
    | none => rfl
    | some d =>
      simp only
      rw [ht d hd]
  unfold ItemFactory.GetItem
  simp only [hc]
  unfold InventoryItem.Load
  simp only [hL, if_true]

/-- Loading the contents of an item that has its contents loaded already, or none of whose
children listed by the database can be loaded: every listed child is skipped. -/
theorem LoadContents_skips {w : World} {b : Nat} {ib : InventoryItem} (fuel : Nat)
    (recursive : Bool) (hb : w.get b = some ib)
    (hskip : ib.m_contentsLoaded = true ∨ ∀ e ∈ w.rows, e.2.locationID = ib.m_itemID →
      mapFind e.1 w.m_items = none ∧
      ∀ d, mapFind e.1 w.rows = some d → mapFind d.typeID w.types = none) :
    ∃ ok w4 l, InventoryItem.LoadContents (fuel + 3) b recursive w = some (ok, w4) ∧
      w4.get b = some { ib with m_contentsLoaded := l } ∧
      (∀ q, q ≠ b → w4.get q = w.get q) ∧ w4.m_items = w.m_items ∧ w4.rows = w.rows ∧
      w4.attrRows = w.attrRows := by
  unfold InventoryItem.LoadContents
  simp only [hb]
  by_cases hl : ib.m_contentsLoaded = true
  · rw [if_pos hl]
    refine ⟨true, w, true, rfl, ?_, fun _ _ => rfl, rfl, rfl, rfl⟩
    rw [hb, ← hl]
  · rw [if_neg hl]
    have hrows := hskip.resolve_left hl
    have hb0 : World.get { w with fetched := w.fetched ++ [ib.m_itemID] } b = some ib := hb
    unfold ItemDB.GetItemContents
    by_cases hf : ib.m_itemID ∈ w.contentsQueryFails
    · rw [if_pos hf]
      exact ⟨false, _, ib.m_contentsLoaded, rfl, hb0, fun _ _ => rfl, rfl, rfl, rfl⟩
    · rw [if_neg hf]
      simp only []
      rw [foldlM_fixed]
      · simp only [hb0]
        refine ⟨true, _, true, rfl, ?_, fun q hq => ?_, rfl, rfl, rfl⟩
        · rw [World.get_set_live hb0]; simp
        · rw [World.get_set_live hb0, if_neg hq]
          rfl
      · intro id hid
        simp only [List.mem_map, List.mem_filter, decide_eq_true_eq] at hid
        obtain ⟨e, ⟨he, hloc⟩, rfl⟩ := hid
        obtain ⟨h1, h2⟩ := hrows e he hloc
        have hG := @GetItem_unloadable { w with fetched := w.fetched ++ [ib.m_itemID] } e.1
          fuel recursive h1 h2
        simp only [hG, if_true]

/-- Loading the contents of an item that holds nothing, in memory and in the database; it
does not touch the attributes. -/
theorem LoadContents_leaf_full {w : World} {b : Nat} {ib : InventoryItem} (fuel : Nat)
    (recursive : Bool) (hb : w.get b = some ib)
    (hleaf : ib.m_contentsLoaded = true ∨ ∀ e ∈ w.rows, e.2.locationID ≠ ib.m_itemID) :
    ∃ ok w4 l, InventoryItem.LoadContents (fuel + 1) b recursive w = some (ok, w4) ∧
      w4.get b = some { ib with m_contentsLoaded := l } ∧
      (∀ q, q ≠ b → w4.get q = w.get q) ∧ w4.m_items = w.m_items ∧ w4.rows = w.rows ∧
      w4.attrRows = w.attrRows := by
  unfold InventoryItem.LoadContents
  simp only [hb]
  by_cases hl : ib.m_contentsLoaded = true
  · rw [if_pos hl]
    refine ⟨true, w, true, rfl, ?_, fun _ _ => rfl, rfl, rfl, rfl⟩
    rw [hb, ← hl]
  · rw [if_neg hl]
    have hrows : ∀ e ∈ w.rows, e.2.locationID ≠ ib.m_itemID := hleaf.resolve_left hl
    have hb0 : World.get { w with fetched := w.fetched ++ [ib.m_itemID] } b = some ib := hb
    unfold ItemDB.GetItemContents
    by_cases hf : ib.m_itemID ∈ w.contentsQueryFails
    · rw [if_pos hf]
      exact ⟨false, _, ib.m_contentsLoaded, rfl, hb0, fun _ _ => rfl, rfl, rfl, rfl⟩
    · rw [if_neg hf]
      have hids : (w.rows.filter (fun e => decide (e.2.locationID = ib.m_itemID))).map Prod.fst
          = [] := by
        rw [List.map_eq_nil_iff, List.filter_eq_nil_iff]
        intro e he
        simpa using hrows e he
      rw [hids]
      simp only [List.foldlM_nil, pure, hb0]
      refine ⟨true, _, true, rfl, ?_, fun q hq => ?_, rfl, rfl, rfl⟩
      · rw [World.get_set_live hb0]; simp
      · rw [World.get_set_live hb0, if_neg hq]
        rfl


/-! ## `Delete` of an item that holds nothing, in full -/

theorem mem_mapErase_key {α : Type} {k : Nat} {m : AMap α} {e : Nat × α}
    (h : e ∈ mapErase k m) : e.1 ≠ k := by
  induction m with
  | nil => simp [mapErase] at h
  | cons e0 t ih =>
    obtain ⟨k0, v0⟩ := e0
    by_cases h0 : k0 = k
    · simp only [mapErase, h0, if_true] at h
      exact ih h
    · simp only [mapErase, h0, if_false, List.mem_cons] at h
      rcases h with h | h
      · rw [h]; exact h0
      · exact ih h

theorem World.notified_rows (w : World) (toID : Nat) (row : EntityRow) (ch : Changes) :
    (w.notified toID row ch).rows = w.rows := by
  unfold World.notified
  split <;> rfl

/-- The rows after a `Move`: the only row written is the one of the item. -/
theorem Move_rows_key {fuel this location new_flag : Nat} {notify : Bool} {w w' : World}
    {me me' : InventoryItem} (hme : w.get this = some me)
    (h : InventoryItem.Move fuel this location new_flag notify w = some w')
    (hme' : w'.get this = some me') :
    ∀ e ∈ w'.rows, e ∈ w.rows ∨ e.1 = me'.m_itemID := by
  by_cases hnop : location = me.m_locationID ∧ new_flag = me.m_flag
  · have hM : InventoryItem.Move fuel this location new_flag notify w = some w := by
      unfold InventoryItem.Move
      rw [hme]
      exact if_pos hnop
    rw [hM] at h
    simp only [Option.some.injEq] at h
    subst h
    exact fun e he => Or.inl he
  · have hdb := Move_db hme hnop h hme'
    intro e he
    have he2 : e ∈ w'.db.rows := he
    rw [hdb] at he2
    have he3 : e ∈ (w.db.saved me').rows := by
      cases notify with
      | true =>
        simp only [if_true] at he2
        rw [World.notified_rows] at he2
        exact he2
      | false => exact he2
    rcases mem_saved_rows he3 with h1 | h1
    · exact Or.inl h1
    · right
      rw [h1]

/-- A `Move` of a cached item with an empty map to a location that is not resident with its
contents loaded: the item is detached from its container, if that is resident with its
contents loaded. -/
theorem Move_detach {w : World} {b : Nat} {ib : InventoryItem} (fuel location new_flag : Nat)
    (notify : Bool) (hb : w.get b = some ib)
    (hcache : mapFind ib.m_itemID w.m_items = some b) (hcl : CacheLive w) (hmir : Mirrors w)
    (hrc : 2 + (if (w.loaded ib.m_locationID).isSome then 1 else 0) ≤ ib.m_refCount)
    (hcmax : ∀ pc c, w.loaded ib.m_locationID = some pc → w.get pc = some c →
      c.m_refCount + 1 < 2 ^ 16)
    (hempty : ib.m_contents = []) (hatt : w.loaded location = none) :
    ∃ w2, InventoryItem.Move fuel b location new_flag notify w = some w2 ∧
      w2.get b = some
        { ib with
          m_refCount := ib.m_refCount - (if (w.loaded ib.m_locationID).isSome then 1 else 0)
          m_locationID := location
          m_flag := new_flag } ∧
      (∀ q, q ≠ b → w2.get q = (w.get q).map fun x =>
        { x with
          m_contents :=
            if w.loaded ib.m_locationID = some q then mapErase ib.m_itemID x.m_contents
            else x.m_contents }) ∧
      w2.m_items = w.m_items ∧ (∀ e ∈ w2.rows, e ∈ w.rows ∨ e.1 = ib.m_itemID) ∧
      (∀ k, k ≠ ib.m_itemID → mapFind k w2.rows = mapFind k w.rows) ∧
      w2.attrRows = w.attrRows ∧ w2.types = w.types := by
  by_cases hnop : location = ib.m_locationID ∧ new_flag = ib.m_flag
  · have hM : InventoryItem.Move fuel b location new_flag notify w = some w := by
      unfold InventoryItem.Move
      rw [hb]
      exact if_pos hnop
    have hdet : w.loaded ib.m_locationID = none := by rw [← hnop.1]; exact hatt
    refine ⟨w, hM, ?_, fun q _ => ?_, rfl, fun e he => Or.inl he, fun _ _ => rfl, rfl, rfl⟩
    · rw [hb, hdet, hnop.1, hnop.2]
      rfl
    · rw [hdet]
      cases w.get q <;> rfl
  · obtain ⟨w2, hM, hmap⟩ := Move_fwd fuel location new_flag notify hb hcache hcl hmir
      (fun _ => le_trans (Nat.le_add_right 2 _) hrc)
      (fun pc c hpc hc => hcmax pc c (hpc.resolve_right (by rw [hatt]; simp)) hc)
      (fun pn hpn => by rw [hatt] at hpn; simp at hpn) hnop
    rw [hatt] at hmap
    have hb2 : w2.get b = some
        { ib with
          m_refCount := ib.m_refCount - (if (w.loaded ib.m_locationID).isSome then 1 else 0)
          m_locationID := location
          m_flag := new_flag } := by
      rw [hmap.1 b, hb]
      simp only [Option.map_some', moveF, if_true, Option.isSome_none, Bool.false_eq_true,
        if_false, Nat.add_zero, hempty, Option.some.injEq]
      have : (if w.loaded ib.m_locationID = some b then mapErase ib.m_itemID ([] : AMap Nat)
          else []) = [] := by split <;> rfl
      rw [this]
      simp [hempty]
    have hst := Move_static hb hM hb2
    refine ⟨w2, hM, hb2, fun q hq => ?_, hmap.2, ?_, hst⟩
    · rw [hmap.1 q]
      cases w.get q with
      | none => rfl
      | some x =>
        simp only [Option.map_some', moveF, if_neg hq, Option.some.injEq]
        rfl
    · exact fun e he => Move_rows_key hb hM hb2 e he

/-- The eviction of a cached item that the cache is not the only holder of. -/
theorem DeleteItem_evicts {w : World} {b : Nat} {x : InventoryItem} (fuel : Nat)
    (hb : w.get b = some x) (hcache : mapFind x.m_itemID w.m_items = some b)
    (hrc : 2 ≤ x.m_refCount) :
    ∃ w7, ItemFactory._DeleteItem fuel x.m_itemID w = some w7 ∧
      w7.get b = some { x with m_refCount := x.m_refCount - 1 } ∧
      (∀ q, q ≠ b → w7.get q = w.get q) ∧ w7.m_items = mapErase x.m_itemID w.m_items ∧
      w7.rows = w.rows ∧ w7.attrRows = w.attrRows := by
  refine ⟨{ w.set b { x with m_refCount := x.m_refCount - 1 } with
    m_items := mapErase x.m_itemID w.m_items }, ?_, ?_, ?_, rfl, rfl, rfl⟩
  · unfold ItemFactory._DeleteItem
    rw [hcache]
    simp only
    rw [Release_fwd hb hrc]
    rfl
  · have : World.get { w.set b { x with m_refCount := x.m_refCount - 1 } with
        m_items := mapErase x.m_itemID w.m_items } b
        = (w.set b { x with m_refCount := x.m_refCount - 1 }).get b := rfl
    rw [this, World.get_set_live hb]; simp
  · intro q hq
    have : World.get { w.set b { x with m_refCount := x.m_refCount - 1 } with
        m_items := mapErase x.m_itemID w.m_items } q
        = (w.set b { x with m_refCount := x.m_refCount - 1 }).get q := rfl
    rw [this, World.get_set_live hb, if_neg hq]

/-- The body of `Delete_upToTest` after the blueprint row is dealt with, for a cached item
with an empty map that the caller has a reference to, when the disposal location is not
resident with its contents loaded and the forced load of the contents brings nothing in
(`hLC`). -/
theorem Delete_upToTest_core {w : World} {b : Nat} {ib : InventoryItem} (fuel : Nat)
    (hb : w.get b = some ib) (hcache : mapFind ib.m_itemID w.m_items = some b)
    (hcl : CacheLive w) (hmir : Mirrors w)
    (hrc : 2 + (if (w.loaded ib.m_locationID).isSome then 1 else 0) ≤ ib.m_refCount)
    (hcmax : ∀ pc c, w.loaded ib.m_locationID = some pc → w.get pc = some c →
      c.m_refCount + 1 < 2 ^ 16)
    (hempty : ib.m_contents = []) (h6l : w.loaded 6 = none)
    (hLC : ∀ w3 x, w3.get b = some x → x.m_itemID = ib.m_itemID →
      x.m_contentsLoaded = ib.m_contentsLoaded → w3.m_items = w.m_items →
      w3.types = w.types → (∀ k, k ≠ ib.m_itemID → mapFind k w3.rows = mapFind k w.rows) →
      (∀ e ∈ w3.rows, e ∈ w.rows ∨ e.2.locationID = 6) →
      ∃ ok w4 l, InventoryItem.LoadContents (fuel + 1) b true w3 = some (ok, w4) ∧
        w4.get b = some { x with m_contentsLoaded := l } ∧
        (∀ q, q ≠ b → w4.get q = w3.get q) ∧ w4.m_items = w3.m_items ∧
        w4.rows = w3.rows ∧ w4.attrRows = w3.attrRows) :
    ∃ w8 l, ((InventoryItem.Move (fuel + 1) b 6 flagAutoFit defaultNotify w).bind fun w2 =>
      (InventoryItem.ChangeOwner b 2 defaultNotify w2).bind fun w3 =>
      (InventoryItem.LoadContents (fuel + 1) b true w3).bind fun r4 =>
      (r4.2.get b).bind fun me4 =>
      (me4.m_contents.foldlM (fun acc e =>
        (InventoryItem.Ref e.2 acc).bind
          (fun r => InventoryItem.Delete (fuel + 1) r.1 r.2)) r4.2).bind fun w5 =>
      (w5.get b).bind fun me5 =>
      (ItemFactory._DeleteItem (fuel + 1) me5.m_itemID
        (w5.set b { me5 with m_contents := [] })).bind fun w7 =>
      (w7.get b).map fun me7 =>
        ItemDB.DeleteItem me7.m_itemID
          { w7 with attrRows := mapErase me7.m_itemID w7.attrRows }) = some w8 ∧
      w8.get b = some
        { ib with
          m_refCount :=
            ib.m_refCount - (if (w.loaded ib.m_locationID).isSome then 1 else 0) - 1
          m_locationID := 6
          m_flag := flagAutoFit
          m_ownerID := 2
          m_contentsLoaded := l } ∧
      (∀ q, q ≠ b → w8.get q = (w.get q).map fun x =>
        { x with
          m_contents :=
            if w.loaded ib.m_locationID = some q then mapErase ib.m_itemID x.m_contents
            else x.m_contents }) ∧
      w8.m_items = mapErase ib.m_itemID w.m_items ∧
      (∀ e ∈ w8.rows, e ∈ w.rows ∧ e.1 ≠ ib.m_itemID) ∧
      mapFind ib.m_itemID w8.attrRows = none ∧
      (∀ k, k ≠ ib.m_itemID → mapFind k w8.rows = mapFind k w.rows) ∧
      w8.attrRows = mapErase ib.m_itemID w.attrRows := by
  obtain ⟨w2, hM, hb2, hoth2, hm2, hrows2, hro2, hat2, hty2⟩ :=
    Move_detach (fuel + 1) 6 flagAutoFit defaultNotify hb hcache hcl hmir hrc hcmax hempty h6l
  rw [hM]
  simp only [Option.some_bind]
  obtain ⟨w3, hCO, hw3⟩ := ChangeOwner_fwd hb2 2 defaultNotify
  obtain ⟨hro3, hat3, hty3⟩ := ChangeOwner_static hb2 hCO
  rw [hCO]
  simp only [Option.some_bind]
  have hrows3 : ∀ e ∈ w3.rows, e ∈ w.rows ∨ e.1 = ib.m_itemID := by
    intro e he
    rcases hw3.2.2.1 e he with h1 | h1
    · exact hrows2 e h1
    · right
      rw [h1]
  have hloc3 : ∀ e ∈ w3.rows, e ∈ w.rows ∨ e.2.locationID = 6 := by
    intro e he
    rcases hw3.2.2.1 e he with h1 | h1
    · rcases Move_rows hM e h1 with h2 | h2
      · exact Or.inl h2
      · exact Or.inr h2
    · right
      rw [h1]
      rfl
  have hro3' : ∀ k, k ≠ ib.m_itemID → mapFind k w3.rows = mapFind k w.rows :=
    fun k hk => (hro3 k hk).trans (hro2 k hk)
  obtain ⟨ok, w4, l, hLCe, hb4, hoth4, hm4, hr4, ha4⟩ := hLC w3 _ hw3.live rfl rfl
    (hw3.2.1.trans hm2) (hty3.trans hty2) hro3' hloc3
  rw [hLCe]
  simp only [Option.some_bind, hb4]
  have hnil : ({ ib with
      m_refCount := ib.m_refCount - (if (w.loaded ib.m_locationID).isSome then 1 else 0)
      m_locationID := 6
      m_flag := flagAutoFit
      m_ownerID := 2
      m_contentsLoaded := l } : InventoryItem).m_contents = [] := hempty
  rw [hnil]
  simp only [List.foldlM_nil, pure, Option.some_bind, hb4]
  have hx : ∀ x : InventoryItem, x.m_contents = [] → { x with m_contents := [] } = x := by
    intro x h
    rw [← h]
  rw [hx _ hnil]
  have hb5 : (w4.set b { ib with
      m_refCount := ib.m_refCount - (if (w.loaded ib.m_locationID).isSome then 1 else 0)
      m_locationID := 6
      m_flag := flagAutoFit
      m_ownerID := 2
      m_contentsLoaded := l }).get b = some { ib with
      m_refCount := ib.m_refCount - (if (w.loaded ib.m_locationID).isSome then 1 else 0)
      m_locationID := 6
      m_flag := flagAutoFit
      m_ownerID := 2
      m_contentsLoaded := l } := by
    rw [World.get_set_live hb4]; simp
  obtain ⟨w7, hD, hb7, hoth7, hm7, hr7, ha7⟩ := DeleteItem_evicts (fuel + 1) hb5
    (by
      show mapFind ib.m_itemID w4.m_items = some b
      rw [hm4, hw3.2.1, hm2]; exact hcache)
    (by
      show 2 ≤ ib.m_refCount - (if (w.loaded ib.m_locationID).isSome then 1 else 0)
      omega)
  have hD2 : ItemFactory._DeleteItem (fuel + 1) ib.m_itemID (w4.set b { ib with
      m_refCount := ib.m_refCount - (if (w.loaded ib.m_locationID).isSome then 1 else 0)
      m_locationID := 6
      m_flag := flagAutoFit
      m_ownerID := 2
      m_contentsLoaded := l }) = some w7 := hD
  rw [hD2]
  simp only [Option.some_bind, hb7, Option.map_some']
  have hrows7 : w7.rows = w3.rows := by
    rw [hr7]
    show w4.rows = _
    exact hr4
  have hattr7 : w7.attrRows = w.attrRows := by
    rw [ha7]
    show w4.attrRows = _
    rw [ha4, hat3, hat2]
  refine ⟨_, l, rfl, ?_, fun q hq => ?_, ?_, fun e he => ?_, ?_, fun k hk => ?_, ?_⟩
  · show w7.get b = _
    rw [hb7]
    simp [hempty]
  · have : (ItemDB.DeleteItem ib.m_itemID
        { w7 with attrRows := mapErase ib.m_itemID w7.attrRows }).get q = w7.get q := rfl
    rw [this, hoth7 q hq, World.get_set_live hb4, if_neg hq, hoth4 q hq, hw3.1 q, if_neg hq,
      hoth2 q hq]
  · show w7.m_items = _
    rw [hm7]
    show mapErase ib.m_itemID w4.m_items = _
    rw [hm4, hw3.2.1, hm2]
  · have he1 : e ∈ mapErase ib.m_itemID w7.rows := he
    have hk := mem_mapErase_key he1
    have he2 := mem_mapErase he1
    rw [hrows7] at he2
    rcases hrows3 e he2 with h1 | h1
    · exact ⟨h1, hk⟩
    · exact absurd h1 hk
  · show mapFind ib.m_itemID (mapErase ib.m_itemID w7.attrRows) = none
    rw [mapFind_mapErase, if_pos rfl]
  · show mapFind k (mapErase ib.m_itemID w7.rows) = _
    rw [mapFind_mapErase, if_neg hk, hrows7]
    exact hro3' k hk
  · show mapErase ib.m_itemID w7.attrRows = _
    rw [hattr7]

/-- The method `Delete` up to the test of the reference count, for a cached item with an empty
map that the caller has a reference to, when the disposal location is not resident with its
contents loaded and the forced load of the contents brings nothing in (`hLC`). -/
theorem Delete_upToTest_empty {w : World} {b : Nat} {ib : InventoryItem} (fuel : Nat)
    (hb : w.get b = some ib) (hcache : mapFind ib.m_itemID w.m_items = some b)
    (hcl : CacheLive w) (hmir : Mirrors w)
    (hrc : 2 + (if (w.loaded ib.m_locationID).isSome then 1 else 0) ≤ ib.m_refCount)
    (hcmax : ∀ pc c, w.loaded ib.m_locationID = some pc → w.get pc = some c →
      c.m_refCount + 1 < 2 ^ 16)
    (hempty : ib.m_contents = []) (h6l : w.loaded 6 = none)
    (hLC : ∀ w3 x, w3.get b = some x → x.m_itemID = ib.m_itemID →
      x.m_contentsLoaded = ib.m_contentsLoaded → w3.m_items = w.m_items →
      w3.types = w.types → (∀ k, k ≠ ib.m_itemID → mapFind k w3.rows = mapFind k w.rows) →
      (∀ e ∈ w3.rows, e ∈ w.rows ∨ e.2.locationID = 6) →
      ∃ ok w4 l, InventoryItem.LoadContents (fuel + 1) b true w3 = some (ok, w4) ∧
        w4.get b = some { x with m_contentsLoaded := l } ∧
        (∀ q, q ≠ b → w4.get q = w3.get q) ∧ w4.m_items = w3.m_items ∧
        w4.rows = w3.rows ∧ w4.attrRows = w3.attrRows) :
    ∃ w8 l, InventoryItem.Delete_upToTest (fuel + 1) b w = some w8 ∧
      w8.get b = some
        { ib with
          m_refCount :=
            ib.m_refCount - (if (w.loaded ib.m_locationID).isSome then 1 else 0) - 1
          m_locationID := 6
          m_flag := flagAutoFit
          m_ownerID := 2
          m_contentsLoaded := l } ∧
      (∀ q, q ≠ b → w8.get q = (w.get q).map fun x =>
        { x with
          m_contents :=
            if w.loaded ib.m_locationID = some q then mapErase ib.m_itemID x.m_contents
            else x.m_contents }) ∧
      w8.m_items = mapErase ib.m_itemID w.m_items ∧
      (∀ e ∈ w8.rows, e ∈ w.rows ∧ e.1 ≠ ib.m_itemID) ∧
      mapFind ib.m_itemID w8.attrRows = none ∧
      (∀ k, k ≠ ib.m_itemID → mapFind k w8.rows = mapFind k w.rows) ∧
      w8.attrRows = mapErase ib.m_itemID w.attrRows := by
  unfold InventoryItem.Delete_upToTest
  simp only [hb]
  cases hbp : ib.bp with
  | none =>
    have h := Delete_upToTest_core fuel hb hcache hcl hmir hrc hcmax hempty h6l hLC
    rw [hbp] at h
    exact h
  | some d =>
    have hb' : (ItemDB.DeleteBlueprint ib.m_itemID w).get b = some ib := hb
    have hcl' : CacheLive (ItemDB.DeleteBlueprint ib.m_itemID w) := hcl
    have hmir' : Mirrors (ItemDB.DeleteBlueprint ib.m_itemID w) := hmir
    have h := @Delete_upToTest_core (ItemDB.DeleteBlueprint ib.m_itemID w) b ib fuel hb' hcache
      hcl' hmir' hrc hcmax hempty h6l hLC
    rw [hbp] at h
    exact h

/-- The method `Delete` up to the test of the reference count, for a cached item that holds
nothing, in memory and in the database, and that the caller has a reference to, when the
disposal location is not resident with its contents loaded. -/
theorem Delete_upToTest_leaf {w : World} {b : Nat} {ib : InventoryItem} (fuel : Nat)
    (hb : w.get b = some ib) (hcache : mapFind ib.m_itemID w.m_items = some b)
    (hcl : CacheLive w) (hmir : Mirrors w)
    (hrc : 2 + (if (w.loaded ib.m_locationID).isSome then 1 else 0) ≤ ib.m_refCount)
    (hcmax : ∀ pc c, w.loaded ib.m_locationID = some pc → w.get pc = some c →
      c.m_refCount + 1 < 2 ^ 16)
    (hempty : ib.m_contents = []) (h6 : ib.m_itemID ≠ 6)
    (hleaf : ib.m_contentsLoaded = true ∨ ∀ e ∈ w.rows, e.2.locationID ≠ ib.m_itemID)
    (h6l : w.loaded 6 = none) :
    ∃ w8 l, InventoryItem.Delete_upToTest (fuel + 1) b w = some w8 ∧
      w8.get b = some
        { ib with
          m_refCount :=
            ib.m_refCount - (if (w.loaded ib.m_locationID).isSome then 1 else 0) - 1
          m_locationID := 6
          m_flag := flagAutoFit
          m_ownerID := 2
          m_contentsLoaded := l } ∧
      (∀ q, q ≠ b → w8.get q = (w.get q).map fun x =>
        { x with
          m_contents :=
            if w.loaded ib.m_locationID = some q then mapErase ib.m_itemID x.m_contents
            else x.m_contents }) ∧
      w8.m_items = mapErase ib.m_itemID w.m_items ∧
      (∀ e ∈ w8.rows, e ∈ w.rows ∧ e.1 ≠ ib.m_itemID) ∧
      mapFind ib.m_itemID w8.attrRows = none ∧
      (∀ k, k ≠ ib.m_itemID → mapFind k w8.rows = mapFind k w.rows) ∧
      w8.attrRows = mapErase ib.m_itemID w.attrRows := by
  refine Delete_upToTest_empty fuel hb hcache hcl hmir hrc hcmax hempty h6l ?_
  intro w3 x hx hid hld _ _ _ hloc
  refine LoadContents_leaf_full fuel true hx ?_
  rcases hleaf with h | h
  · exact Or.inl (hld.trans h)
  · right
    intro e he
    rw [hid]
    rcases hloc e he with h1 | h1
    · exact h e h1
    · rw [h1]; exact fun e6 => h6 e6.symm

/-- After `Delete_upToTest` the row and the attributes of the item are gone and the cache
has no entry for it. -/
theorem Delete_upToTest_gone {fuel this : Nat} {w0 w8 : World} {me8 : InventoryItem}
    (h : InventoryItem.Delete_upToTest fuel this w0 = some w8)
    (hme : w8.get this = some me8) :
    mapFind me8.m_itemID w8.rows = none ∧ mapFind me8.m_itemID w8.attrRows = none := by
  unfold InventoryItem.Delete_upToTest at h
  cases h0 : w0.get this with
  | none => simp [h0] at h
  | some me0 =>
    simp only [h0, Option.bind_eq_some, Option.map_eq_some'] at h
    obtain ⟨w2, _, w3, _, r4, _, me4, _, w5, _, me5, _, w7, _, me7, h7, h8⟩ := h
    subst h8
    have : w7.get this = some me8 := hme
    rw [h7] at this
    simp only [Option.some.injEq] at this
    subst this
    constructor
    · show mapFind me7.m_itemID (mapErase me7.m_itemID w7.rows) = none
      rw [mapFind_mapErase, if_pos rfl]
    · show mapFind me7.m_itemID (mapErase me7.m_itemID w7.attrRows) = none
      rw [mapFind_mapErase, if_pos rfl]

/-- The example `exHeld`: `Delete` of the stack 101, which two callers hold, up to the test of
the reference count. -/
theorem exHeld_upToTest :
    ∃ w8 me8, InventoryItem.Delete_upToTest 1 2 exHeld = some w8 ∧ w8.get 2 = some me8 ∧
      me8.m_refCount = 2 ∧ me8.m_itemID = 101 := by
  obtain ⟨w8, l, h, hb, _⟩ := @Delete_upToTest_leaf exHeld 2 (exStack 3 101 3) 0
    (by decide) (by decide) (cacheLive_of_check (by decide)) (mirrors_of_check (by decide))
    (by decide) (fun pc c _ hc => room_of_check (by decide : roomB exHeld 1 = true) pc c hc)
    (by decide) (by decide) (Or.inr (by decide)) (by decide)
  refine ⟨w8, _, h, hb, ?_, rfl⟩
  show (exStack 3 101 3).m_refCount
    - (if (exHeld.loaded (exStack 3 101 3).m_locationID).isSome then 1 else 0) - 1 = 2
  decide


/-! ## Stacking: an evaluation -/

/-- Stacking the slot 5 of the container of `exCargo 4 5 5`: the first stack found of the
type is the one in slot 4, both `Merge` calls fail on the slot, and the two stacks of slot 5
are left with the reference that was taken for the call. -/
theorem exCargo_stack_slot5 :
    InventoryItem.StackContainedItems 4 3 5 0 (exCargo 4 5 5)
      = some { exCargo 4 5 5 with
          heap := [(1, exStackAt 2 100 5 4), (2, exStackAt 3 101 3 5),
            (3, exContainer 1 60 [(100, 1), (101, 2), (102, 4)]), (4, exStackAt 3 102 2 5)] } := by
  decide


/-! ## The invariants after the deletion of an item that holds nothing -/

/-- The invariants of the world do not see a change that keeps the item id, the containment
map, the loaded flag and the location of every instance and takes no reference away. -/
theorem inv_of_mapped_rc {w' w : World} {F : Nat → InventoryItem → InventoryItem}
    (h : w'.mapped w F)
    (hF : ∀ q x, (F q x).m_itemID = x.m_itemID ∧ x.m_refCount ≤ (F q x).m_refCount ∧
      (F q x).m_contents = x.m_contents ∧ (F q x).m_contentsLoaded = x.m_contentsLoaded ∧
      (F q x).m_locationID = x.m_locationID)
    (hcl : CacheLive w) (hmir : Mirrors w) : CacheLive w' ∧ Mirrors w' := by
  constructor
  · intro k p hk
    rw [h.2] at hk
    obtain ⟨c, hg, hi, hr⟩ := hcl k p hk
    refine ⟨F p c, h.get_some hg, ?_, ?_⟩
    · rw [(hF p c).1]; exact hi
    · exact le_trans hr (hF p c).2.1
  · intro k pc c' hk hg' hl' id q
    rw [h.2] at hk
    rw [h.1 pc] at hg'
    cases hg : w.get pc with
    | none => simp [hg] at hg'
    | some c =>
      simp only [hg, Option.map_some', Option.some.injEq] at hg'
      subst hg'
      rw [(hF pc c).2.2.2.1] at hl'
      rw [(hF pc c).2.2.1, hmir k pc c hk hg hl' id q, h.2]
      constructor
      · rintro ⟨h1, iq, h2, h3⟩
        exact ⟨h1, F q iq, h.get_some h2, by rw [(hF q iq).2.2.2.2]; exact h3⟩
      · rintro ⟨h1, iq', h2, h3⟩
        rw [h.1 q] at h2
        cases hq : w.get q with
        | none => simp [hq] at h2
        | some iq =>
          simp only [hq, Option.map_some', Option.some.injEq] at h2
          subst h2
          exact ⟨h1, iq, rfl, by rw [← (hF q iq).2.2.2.2]; exact h3⟩

/-- The invariants of the world after a cached item was evicted and taken out of the map of
its container, whatever became of its instance. -/
theorem erase_post {w w' : World} {b : Nat} {ib : InventoryItem}
    (hcache : mapFind ib.m_itemID w.m_items = some b)
    (hb : w.get b = some ib) (hcl : CacheLive w) (hmir : Mirrors w)
    (hoth : ∀ q, q ≠ b → w'.get q = (w.get q).map fun x =>
      { x with
        m_contents :=
          if w.loaded ib.m_locationID = some q then mapErase ib.m_itemID x.m_contents
          else x.m_contents })
    (hm : w'.m_items = mapErase ib.m_itemID w.m_items) :
    CacheLive w' ∧ Mirrors w' ∧ ∀ k, k ≠ ib.m_itemID → w'.loaded k = w.loaded k := by
  have hkey : ∀ {k p}, mapFind k w'.m_items = some p →
      k ≠ ib.m_itemID ∧ mapFind k w.m_items = some p ∧ p ≠ b := by
    intro k p hk
    rw [hm, mapFind_mapErase] at hk
    by_cases e : k = ib.m_itemID
    · rw [if_pos e] at hk
      exact absurd hk (by simp)
    · rw [if_neg e] at hk
      refine ⟨e, hk, fun hp => e ?_⟩
      subst hp
      exact cache_key_unique hcl hk hcache
  have hback : ∀ {k p}, k ≠ ib.m_itemID → mapFind k w.m_items = some p →
      mapFind k w'.m_items = some p := by
    intro k p e hk
    rw [hm, mapFind_mapErase, if_neg e]
    exact hk
  refine ⟨?_, ?_, ?_⟩
  · intro k p hk
    obtain ⟨_, hk0, hp⟩ := hkey hk
    obtain ⟨c, hg, hi, hr⟩ := hcl k p hk0
    rw [hoth p hp, hg]
    exact ⟨_, rfl, hi, hr⟩
  · intro k pc c' hk hg' hl' id q
    obtain ⟨hkne, hk0, hp⟩ := hkey hk
    rw [hoth pc hp] at hg'
    cases hg : w.get pc with
    | none => simp [hg] at hg'
    | some c =>
      simp only [hg, Option.map_some', Option.some.injEq] at hg'
      subst hg'
      have hl : c.m_contentsLoaded = true := hl'
      have hlk : w.loaded k = some pc := World.loaded_of hk0 hg hl
      show mapFind id (if w.loaded ib.m_locationID = some pc then
          mapErase ib.m_itemID c.m_contents else c.m_contents) = some q ↔ _
      by_cases hid : id = ib.m_itemID
      · subst hid
        constructor
        · intro h1
          exfalso
          by_cases hd : w.loaded ib.m_locationID = some pc
          · rw [if_pos hd, mapFind_mapErase, if_pos rfl] at h1
            exact absurd h1 (by simp)
          · rw [if_neg hd] at h1
            obtain ⟨h2, iq, h3, h4⟩ := (hmir k pc c hk0 hg hl _ q).1 h1
            rw [hcache] at h2
            simp only [Option.some.injEq] at h2
            subst h2
            rw [hb] at h3
            simp only [Option.some.injEq] at h3
            subst h3
            rw [h4] at hd
            exact hd hlk
        · rintro ⟨h1, _⟩
          exact absurd rfl (hkey h1).1
      · have hfind : mapFind id (if w.loaded ib.m_locationID = some pc then
            mapErase ib.m_itemID c.m_contents else c.m_contents) = mapFind id c.m_contents := by
          by_cases hd : w.loaded ib.m_locationID = some pc
          · rw [if_pos hd, mapFind_mapErase, if_neg hid]
          · rw [if_neg hd]
        rw [hfind, hmir k pc c hk0 hg hl id q]
        constructor
        · rintro ⟨h1, iq, h2, h3⟩
          have hq : q ≠ b := by
            intro e
            subst e
            exact hid (cache_key_unique hcl h1 hcache)
          refine ⟨hback hid h1, ?_⟩
          rw [hoth q hq, h2]
          exact ⟨_, rfl, h3⟩
        · rintro ⟨h1, iq', h2, h3⟩
          obtain ⟨_, h10, hq⟩ := hkey h1
          rw [hoth q hq] at h2
          cases hq0 : w.get q with
          | none => simp [hq0] at h2
          | some iq =>
            simp only [hq0, Option.map_some', Option.some.injEq] at h2
            subst h2
            exact ⟨h10, iq, rfl, h3⟩
  · intro k hk
    unfold World.loaded
    rw [hm, mapFind_mapErase, if_neg hk]
    cases hf : mapFind k w.m_items with
    | none => rfl
    | some p =>
      have hp : p ≠ b := by
        intro e
        subst e
        exact hk (cache_key_unique hcl hf hcache)
      simp only
      rw [hoth p hp]
      cases w.get p <;> rfl

/-- The end of `Delete` after `Delete_upToTest`, when the map of the item is empty: when one
reference is left the instance is freed, otherwise it is poisoned; nothing else changes. -/
theorem Delete_after_upToTest {fuel this : Nat} {w0 w8 : World} {x8 : InventoryItem}
    (h : InventoryItem.Delete_upToTest (fuel + 1) this w0 = some w8)
    (hme : w8.get this = some x8) (hempty : x8.m_contents = []) :
    ∃ w', InventoryItem.Delete (fuel + 2) this w0 = some w' ∧
      (∀ q, q ≠ this → w'.get q = w8.get q) ∧ w'.m_items = w8.m_items ∧ w'.db = w8.db ∧
      (x8.m_refCount = 1 → w'.get this = none) := by
  by_cases h1 : x8.m_refCount = 1
  · rw [Delete_eq_upToTest, h]
    simp only [Option.some_bind, hme]
    rw [if_neg (by simpa using h1)]
    have hR : InventoryItem.Release (fuel + 1) this w8
        = some ((w8.set this { x8 with m_refCount := x8.m_refCount - 1 }).free this) := by
      unfold InventoryItem.Release
      rw [if_neg (World.get_ne_zero hme)]
      simp only [hme]
      rw [if_neg (by omega), if_pos (by omega)]
      simp [hempty]
    refine ⟨_, hR, fun q hq => ?_, rfl, rfl, fun _ => ?_⟩
    · rw [World.get_free, if_neg hq, World.get_set_live hme, if_neg hq]
    · rw [World.get_free]; simp
  · obtain ⟨w', hD, _, hoth, hdb, hm⟩ := Delete_poisons h hme h1
    exact ⟨w', hD, hoth, hm, hdb, fun h2 => absurd h2 h1⟩

/-- The method `Delete` of a cached item that holds nothing, in memory and in the database, and that the
caller has a reference to, when the disposal location is not resident with its contents
loaded: the call returns, the item is evicted and taken out of the map of its container, its
row and its attributes are deleted, and nothing else changes in memory. -/
theorem Delete_leaf_full {w : World} {b : Nat} {ib : InventoryItem} (fuel : Nat)
    (hb : w.get b = some ib) (hcache : mapFind ib.m_itemID w.m_items = some b)
    (hcl : CacheLive w) (hmir : Mirrors w)
    (hrc : 2 + (if (w.loaded ib.m_locationID).isSome then 1 else 0) ≤ ib.m_refCount)
    (hcmax : ∀ pc c, w.loaded ib.m_locationID = some pc → w.get pc = some c →
      c.m_refCount + 1 < 2 ^ 16)
    (hempty : ib.m_contents = []) (h6 : ib.m_itemID ≠ 6)
    (hleaf : ib.m_contentsLoaded = true ∨ ∀ e ∈ w.rows, e.2.locationID ≠ ib.m_itemID)
    (h6l : w.loaded 6 = none) :
    ∃ w', InventoryItem.Delete (fuel + 2) b w = some w' ∧
      (∀ q, q ≠ b → w'.get q = (w.get q).map fun x =>
        { x with
          m_contents :=
            if w.loaded ib.m_locationID = some q then mapErase ib.m_itemID x.m_contents
            else x.m_contents }) ∧
      w'.m_items = mapErase ib.m_itemID w.m_items ∧
      (∀ e ∈ w'.rows, e ∈ w.rows ∧ e.1 ≠ ib.m_itemID) ∧
      (ib.m_refCount = 2 + (if (w.loaded ib.m_locationID).isSome then 1 else 0) →
        w'.get b = none) ∧
      (∀ e ∈ w'.attrRows, e ∈ w.attrRows ∧ e.1 ≠ ib.m_itemID) := by
  obtain ⟨w8, l, h8, hb8, hoth8, hm8, hr8, _, _, ha8⟩ :=
    Delete_upToTest_leaf fuel hb hcache hcl hmir hrc hcmax hempty h6 hleaf h6l
  obtain ⟨w', hD, hoth, hm, hdb, hfree⟩ := Delete_after_upToTest h8 hb8 hempty
  have hr' : w'.rows = w8.rows := @congrArg World _ w'.db w8.db World.rows hdb
  have ha' : w'.attrRows = w8.attrRows := @congrArg World _ w'.db w8.db World.attrRows hdb
  refine ⟨w', hD, fun q hq => ?_, hm.trans hm8, fun e he => hr8 e (hr' ▸ he), fun h2 => ?_,
    fun e he => ?_⟩
  · rw [hoth q hq]
    exact hoth8 q hq
  · apply hfree
    show ib.m_refCount - (if (w.loaded ib.m_locationID).isSome then 1 else 0) - 1 = 1
    omega
  · rw [ha', ha8] at he
    exact ⟨mem_mapErase he, mem_mapErase_key he⟩


/-! ## `Merge` of two children of a resident container -/

theorem toInt32_pos_small {n : Nat} (h : n < 2 ^ 32) (hp : 0 < toInt32 (n : Int)) :
    toInt32 (n : Int) = (n : Int) ∧ n < 2 ^ 31 := by
  unfold toInt32 at hp ⊢
  omega

theorem toUint32_small {n : Nat} (h : n < 2 ^ 32) : toUint32 (n : Int) = n := by
  unfold toUint32
  omega

theorem toUint32_lt (x : Int) : toUint32 x < 2 ^ 32 := by
  unfold toUint32
  omega

/-- A change of quantity that is not zero and does not make the `int32` sum negative is
made. -/
theorem AlterQuantity_grow {w : World} {this : Nat} {me : InventoryItem}
    (hl : w.get this = some me) (hs : me.m_singleton = false) (delta : Int) (notify : Bool)
    (hd : delta ≠ 0) (hnn : ¬ toInt32 ((me.m_quantity : Int) + delta) < 0) :
    ∃ w', InventoryItem.AlterQuantity this delta notify w = some (true, w') ∧
      w'.wrote w this
        { me with m_quantity := toUint32 (toInt32 ((me.m_quantity : Int) + delta)) } := by
  unfold InventoryItem.AlterQuantity
  simp only [hl]
  rw [if_neg hd, if_neg hnn]
  exact SetQuantity_fwd hl hs _ notify

/-- A child of a resident container with its contents loaded is the resident instance of its
key and is located in the container; it is not the container when the container does not
hold itself. -/
theorem child_facts {w : World} {this k q : Nat} {c x : InventoryItem}
    (hcl : CacheLive w) (hmir : Mirrors w)
    (hc : w.get this = some c) (hcc : mapFind c.m_itemID w.m_items = some this)
    (hld : c.m_contentsLoaded = true) (hself : mapFind c.m_itemID c.m_contents = none)
    (hk : mapFind k c.m_contents = some q) (hx : w.get q = some x) :
    mapFind k w.m_items = some q ∧ x.m_itemID = k ∧ x.m_locationID = c.m_itemID ∧
      1 ≤ x.m_refCount ∧ q ≠ this ∧ k ≠ c.m_itemID := by
  obtain ⟨h1, iq, h2, h3⟩ := (hmir c.m_itemID this c hcc hc hld k q).1 hk
  rw [hx] at h2
  simp only [Option.some.injEq] at h2
  subst h2
  obtain ⟨x', h4, h5, h6⟩ := hcl k q h1
  rw [hx] at h4
  simp only [Option.some.injEq] at h4
  subst h4
  have hkc : k ≠ c.m_itemID := by
    intro e
    rw [e, hself] at hk
    exact absurd hk (by simp)
  refine ⟨h1, h5, h3, h6, ?_, hkc⟩
  intro e
  subst e
  exact hkc (cache_key_unique hcl h1 hcc)

/-- The method `Merge` of the whole of a child `b` of a resident container into another child `a`, `b` an
item that holds nothing, in memory and in the database, and that the caller has a reference
to. The call returns; it changes nothing when the types or the slots differ or the `int32`
quantities do not allow it, and otherwise `a` has the sum, `b` is deleted and taken out of the
map of the container, and nothing else changes in memory. -/
theorem Merge_child {w : World} {this a b ka kb : Nat} {c ia ib : InventoryItem} (fuel : Nat)
    (hcl : CacheLive w) (hmir : Mirrors w) (h6l : w.loaded 6 = none)
    (hc : w.get this = some c) (hcc : mapFind c.m_itemID w.m_items = some this)
    (hld : c.m_contentsLoaded = true) (hself : mapFind c.m_itemID c.m_contents = none)
    (hka : mapFind ka c.m_contents = some a) (ha : w.get a = some ia)
    (hsa : ia.m_singleton = false)
    (hkb : mapFind kb c.m_contents = some b) (hb : w.get b = some ib)
    (hkab : ka ≠ kb) (hempty : ib.m_contents = []) (hrc : 3 ≤ ib.m_refCount)
    (hcmax : c.m_refCount + 1 < 2 ^ 16) (h6 : kb ≠ 6)
    (hq : ib.m_quantity < 2 ^ 32)
    (hleaf : ib.m_contentsLoaded = true ∨ ∀ e ∈ w.rows, e.2.locationID ≠ kb) :
    ∃ ok w', InventoryItem.Merge (fuel + 2) a b 0 defaultNotify w = some (ok, w') ∧
      (¬ (ia.m_type = ib.m_type ∧ ia.m_flag = ib.m_flag ∧ 0 < toInt32 ib.m_quantity ∧
          0 ≤ toInt32 ((ia.m_quantity : Int) + toInt32 ib.m_quantity)) → w' = w) ∧
      ((ia.m_type = ib.m_type ∧ ia.m_flag = ib.m_flag ∧ 0 < toInt32 ib.m_quantity ∧
          0 ≤ toInt32 ((ia.m_quantity : Int) + toInt32 ib.m_quantity)) →
        w'.get a = some
          { ia with
            m_quantity := toUint32 (toInt32 ((ia.m_quantity : Int) + toInt32 ib.m_quantity)) } ∧
        w'.get this = some { c with m_contents := mapErase kb c.m_contents } ∧
        (∀ q, q ≠ a → q ≠ b → q ≠ this → w'.get q = w.get q) ∧
        w'.m_items = mapErase kb w.m_items ∧
        (∀ e ∈ w'.rows, e ∈ w.rows ∨ e.2.locationID = c.m_itemID) ∧
        CacheLive w' ∧ Mirrors w' ∧ (∀ k, k ≠ kb → w'.loaded k = w.loaded k) ∧
        (ib.m_refCount = 3 → w'.get b = none)) := by
  obtain ⟨hca, hida, hloca, _, hat, hkac⟩ := child_facts hcl hmir hc hcc hld hself hka ha
  obtain ⟨hcb, hidb, hlocb, _, hbt, hkbc⟩ := child_facts hcl hmir hc hcc hld hself hkb hb
  have hab : a ≠ b := by
    intro e
    subst e
    exact hkab (cache_key_unique hcl hca hcb)
  have hlc : w.loaded c.m_itemID = some this := World.loaded_of hcc hc hld
  unfold InventoryItem.Merge
  simp only [ha, hb, if_true]
  rw [if_neg (World.get_ne_zero hb)]
  by_cases hty : ia.m_type = ib.m_type
  swap
  · rw [if_pos hty]
    exact ⟨false, w, rfl, fun _ => rfl, fun h => absurd h.1 hty⟩
  rw [if_neg (not_not.mpr hty)]
  by_cases hfl : ia.m_flag = ib.m_flag
  swap
  · rw [if_pos (Or.inr hfl)]
    exact ⟨false, w, rfl, fun _ => rfl, fun h => absurd h.2.1 hfl⟩
  have c2 : ¬ (ia.m_locationID ≠ ib.m_locationID ∨ ia.m_flag ≠ ib.m_flag) := by
    rw [hloca, hlocb]
    simp [hfl]
  rw [if_neg c2]
  by_cases hpos : 0 < toInt32 (ib.m_quantity : Int)
  swap
  · rw [if_pos (not_lt.mp hpos)]
    exact ⟨false, w, rfl, fun _ => rfl, fun h => absurd h.2.2.1 hpos⟩
  rw [if_neg (not_le.mpr hpos)]
  by_cases hnn : 0 ≤ toInt32 ((ia.m_quantity : Int) + toInt32 (ib.m_quantity : Int))
  swap
  · have hA : InventoryItem.AlterQuantity a (toInt32 (ib.m_quantity : Int)) defaultNotify w
        = some (false, w) := by
      unfold InventoryItem.AlterQuantity
      simp only [ha]
      rw [if_neg (ne_of_gt hpos), if_pos (not_le.mp hnn)]
    rw [hA]
    exact ⟨false, w, rfl, fun _ => rfl, fun h => absurd h.2.2.2 hnn⟩
  obtain ⟨w1, hA, hw1⟩ := AlterQuantity_grow ha hsa (toInt32 (ib.m_quantity : Int))
    defaultNotify (ne_of_gt hpos) (not_lt.mpr hnn)
  rw [hA]
  have c4 : ∀ x : World, ¬ ((true, x).1 = false) := fun _ h => Bool.noConfusion h
  simp only [Option.some_bind]
  rw [if_neg (c4 w1)]
  have hb1 : w1.get b = some ib := by
    rw [hw1.1 b, if_neg (Ne.symm hab)]; exact hb
  have hc1 : w1.get this = some c := by
    rw [hw1.1 this, if_neg (Ne.symm hat)]; exact hc
  obtain ⟨e1, _⟩ := toInt32_pos_small hq hpos
  have hu : toUint32 (toInt32 (ib.m_quantity : Int)) = ib.m_quantity := by
    rw [e1]; exact toUint32_small hq
  rw [hb1, Option.some_bind, if_pos hu]
  have hm1 := hw1.mapped (fun x =>
    { x with
      m_quantity := toUint32 (toInt32 ((ia.m_quantity : Int) + toInt32 ib.m_quantity)) }) ha
  obtain ⟨hcl1, hmir1⟩ := inv_of_mapped hm1
    (fun p x => by by_cases e : p = a <;> simp [e]) hcl hmir
  have hl1 : ∀ id, w1.loaded id = w.loaded id :=
    World.loaded_mapped hm1 (fun p x => by by_cases e : p = a <;> simp [e])
  have hlb : w1.loaded ib.m_locationID = some this := by rw [hl1, hlocb]; exact hlc
  have hrc1 : 2 + (if (w1.loaded ib.m_locationID).isSome then 1 else 0) ≤ ib.m_refCount := by
    rw [hlb]
    exact hrc
  have hleaf1 : ib.m_contentsLoaded = true ∨ ∀ e ∈ w1.rows, e.2.locationID ≠ ib.m_itemID := by
    rcases hleaf with h | h
    · exact Or.inl h
    · right
      intro e he
      rw [hidb]
      rcases hw1.2.2.1 e he with h3 | h3
      · exact h e h3
      · rw [h3]
        show ia.m_locationID ≠ kb
        rw [hloca]
        exact Ne.symm hkbc
  obtain ⟨w', hD, hoth, hm, hrows, hfree, _⟩ := Delete_leaf_full fuel hb1
    (by rw [hw1.2.1, hidb]; exact hcb) hcl1 hmir1 hrc1
    (by
      intro pc c' hpc hc'
      rw [hlb] at hpc
      simp only [Option.some.injEq] at hpc
      subst hpc
      rw [hc1] at hc'
      simp only [Option.some.injEq] at hc'
      subst hc'
      exact hcmax)
    hempty (by rw [hidb]; exact h6) hleaf1
    (by rw [hl1]; exact h6l)
  rw [hD]
  obtain ⟨hcl', hmir', hl'⟩ := erase_post (by rw [hw1.2.1, hidb]; exact hcb) hb1 hcl1 hmir1
    hoth hm
  refine ⟨true, w', rfl, fun h => absurd ⟨hty, hfl, hpos, hnn⟩ h, fun _ =>
    ⟨?_, ?_, fun q hqa hqb hqt => ?_, ?_, fun e he => ?_, hcl', hmir', fun k hk => ?_,
      fun h3 => ?_⟩⟩
  · rw [hoth a hab, hw1.live, hlb]
    simp only [Option.map_some', Option.some.injEq]
    rw [if_neg (fun e => hat e.symm)]
  · rw [hoth this (Ne.symm hbt), hc1, hlb, hidb]
    simp only [Option.map_some', if_true]
  · rw [hoth q hqb, hw1.1 q, if_neg hqa, hlb]
    cases w.get q with
    | none => rfl
    | some x =>
      simp only [Option.map_some', Option.some.injEq]
      rw [if_neg (fun e => hqt e.symm)]
  · rw [hm, hw1.2.1, hidb]
  · rcases hw1.2.2.1 e (hrows e he).1 with h3 | h3
    · exact Or.inl h3
    · right
      rw [h3]
      exact hloca
  · rw [hl' k (by rw [hidb]; exact hk), hl1]
  · apply hfree
    rw [hlb, h3]
    rfl


/-- C11: `Move` is a no-op when nothing changes. For every live item, `Move(locationID, flag,
notify)` called with the current location and the current flag of the item returns with the
whole world state exactly as it was: the fields of the item, the containment map and the
reference count of every instance, the cache, the persisted rows and the notification log, for
both values of `notify`. -/
theorem C11_move_noop (w : World) (this : Nat) (me : InventoryItem) (fuel : Nat)
    (notify : Bool) (hme : w.get this = some me) :
    InventoryItem.Move fuel this me.m_locationID me.m_flag notify w = some w :=
  Move_same fuel notify hme ⟨rfl, rfl⟩

/-- Witness of C11: the stack in container 60 is moved to where it is, with notification. -/
theorem C11_move_noop_witness :
    InventoryItem.Move 0 1 60 4 true exHangar = some exHangar :=
  C11_move_noop exHangar 1 (exStack 2 100 5) 0 true (by decide)


/-- C12 (as amended): `ChangeFlag` is `Move` with the location held fixed, up to the change
record and below the largest reference count. For every cached item in a world whose cache
entries are live and whose resident containers mirror their resident children (with maps
ordered by key, the item holding the reference of its containment edge), where the reference
count of the container of the item, if resident with its contents loaded, is below 65535 and
the one of the item fits its 16 bits, every new flag and every `notify`:
`ChangeFlag(new_flag, notify)` and `Move(current locationID, new_flag, notify)` both return
and give the same fields, containment map and reference count to every instance, the same
cache and the same database `X` (persisted rows included). When `notify` is set and the flag
changes, both send one change record to the owner with the same item row; the record of
`ChangeFlag` names the previous flag only, the record of `Move` names the previous location
as well. Otherwise neither sends a record. -/
theorem C12_change_flag_is_move (w : World) (this : Nat) (me : InventoryItem)
    (fuel new_flag : Nat) (notify : Bool)
    (hme : w.get this = some me) (hcache : mapFind me.m_itemID w.m_items = some this)
    (hcl : CacheLive w) (hmir : Mirrors w) (hs : MapsSorted w)
    (hrc : (w.loaded me.m_locationID).isSome → 2 ≤ me.m_refCount)
    (hroomC : ∀ pc c, w.loaded me.m_locationID = some pc → w.get pc = some c →
      c.m_refCount + 1 < 2 ^ 16)
    (hroomI : me.m_refCount < 2 ^ 16) :
    ∃ (w1 w2 X : World) (row : EntityRow),
      InventoryItem.ChangeFlag this new_flag notify w = some w1 ∧
      InventoryItem.Move fuel this me.m_locationID new_flag notify w = some w2 ∧
      (∀ p, w1.get p = w2.get p) ∧ w1.m_items = w2.m_items ∧
      w1.db = (if notify = true ∧ new_flag ≠ me.m_flag then
          X.notified me.m_ownerID row { Changes.empty with ixFlag := some me.m_flag }
        else X) ∧
      w2.db = (if notify = true ∧ new_flag ≠ me.m_flag then
          X.notified me.m_ownerID row
            { Changes.empty with
              ixLocationID := some me.m_locationID
              ixFlag := some me.m_flag }
        else X) := by
  obtain ⟨w1, w2, h1, h2, h3, h4, h5, h6⟩ :=
    ChangeFlag_Move_same fuel new_flag notify hme hcache hcl hmir hs hrc hroomC hroomI
  by_cases hnop : new_flag = me.m_flag
  · obtain ⟨e1, e2⟩ := h5 hnop
    subst e1
    have hc : ¬ (notify = true ∧ new_flag ≠ me.m_flag) := fun h => h.2 hnop
    refine ⟨w1, w2, w1.db, me.GetEntityRow, h1, h2, h3, h4, ?_, ?_⟩
    · rw [if_neg hc]
    · rw [if_neg hc, e2]
  · obtain ⟨d1, d2⟩ := h6 hnop
    refine ⟨w1, w2, w.db.saved { me with m_flag := new_flag },
      ({ me with m_flag := new_flag } : InventoryItem).GetEntityRow, h1, h2, h3, h4, ?_, ?_⟩
    · rw [d1]
      cases notify with
      | false => simp
      | true => simp [hnop]
    · rw [d2]
      cases notify with
      | false => simp
      | true => simp [hnop]

/-- Witness of C12: the flag of the stack in container 60 is changed from 4 to 5 with
notification, the owner being online. -/
theorem C12_change_flag_is_move_witness :
    ∃ (w1 w2 X : World) (row : EntityRow),
      InventoryItem.ChangeFlag 1 5 true exOnline = some w1 ∧
      InventoryItem.Move 0 1 60 5 true exOnline = some w2 ∧
      (∀ p, w1.get p = w2.get p) ∧ w1.m_items = w2.m_items ∧
      w1.db = X.notified 7 row { Changes.empty with ixFlag := some 4 } ∧
      w2.db = X.notified 7 row
        { Changes.empty with
          ixLocationID := some 60
          ixFlag := some 4 } := by
  obtain ⟨w1, w2, X, row, h1, h2, h3, h4, h5, h6⟩ := C12_change_flag_is_move exOnline 1
    (exStack 2 100 5) 0 5 true (by decide) (by decide) (cacheLive_of_check (by decide))
    (mirrors_of_check (by decide)) (mapsSorted_of_check (by decide)) (fun _ => by decide)
    (fun pc c _ hc => room_of_check (by decide : roomB exOnline 1 = true) pc c hc) (by decide)
  rw [if_pos (by decide)] at h5 h6
  exact ⟨w1, w2, X, row, h1, h2, h3, h4, h5, h6⟩

/-- Counterexample to C12 as stated: with the owner online, `ChangeFlag(5, true)` on the stack
in container 60 sends a record that names the previous flag only, `Move(60, 5, true)` sends a
record that names the previous location and the previous flag. And in the same world with
the reference count of the container 60 at its largest value 65535, `ChangeFlag(5, true)`
leaves the container as it is, while `Move(60, 5, true)` takes a reference to the container,
which wraps its count around to 0, detaches the stack and then finds no container to attach
it to: the map of the container is empty afterwards. -/
theorem C12_counterexample :
    (∃ w1 w2, InventoryItem.ChangeFlag 1 5 true exOnline = some w1 ∧
      InventoryItem.Move 0 1 60 5 true exOnline = some w2 ∧
      w1.sent.map (fun n => n.changes) = [{ Changes.empty with ixFlag := some 4 }] ∧
      w2.sent.map (fun n => n.changes)
        = [{ Changes.empty with
              ixLocationID := some 60
              ixFlag := some 4 }] ∧
      w1.sent ≠ w2.sent) ∧
    cacheLiveB (exCounts 2 65535 1) = true ∧ mirrorsB (exCounts 2 65535 1) = true ∧
    mapsSortedB (exCounts 2 65535 1) = true ∧
    ((InventoryItem.ChangeFlag 1 5 true (exCounts 2 65535 1)).bind fun w1 =>
      (w1.get 3).map fun c => (c.m_refCount, c.m_contents)) = some (65535, [(100, 1)]) ∧
    ((InventoryItem.Move 0 1 60 5 true (exCounts 2 65535 1)).bind fun w2 =>
      (w2.get 3).map fun c => (c.m_refCount, c.m_contents)) = some (0, []) := by
  refine ⟨?_, by decide, by decide, by decide, by decide, by decide⟩
  obtain ⟨w1, w2, h1, h2, _, _, _, h6⟩ := @ChangeFlag_Move_same exOnline 1 (exStack 2 100 5)
    0 5 true (by decide) (by decide) (cacheLive_of_check (by decide))
    (mirrors_of_check (by decide)) (mapsSorted_of_check (by decide)) (fun _ => by decide)
    (fun pc c _ hc => room_of_check (by decide : roomB exOnline 1 = true) pc c hc) (by decide)
  obtain ⟨d1, d2⟩ := h6 (by decide)
  have s1 : w1.sent = w1.db.sent := rfl
  have s2 : w2.sent = w2.db.sent := rfl
  have e1 : w1.sent.map (fun n => n.changes) = [{ Changes.empty with ixFlag := some 4 }] := by
    rw [s1, d1]
    decide
  have e2 : w2.sent.map (fun n => n.changes)
      = [{ Changes.empty with
            ixLocationID := some 60
            ixFlag := some 4 }] := by
    rw [s2, d2]
    decide
  refine ⟨w1, w2, h1, h2, e1, e2, fun h => ?_⟩
  rw [h, e2] at e1
  revert e1
  decide


/-- C14 (as amended): `Delete` poisons instead of freeing when holders remain. If the part of
`Delete` before the test of the reference count (the relocation, the deletion of the
children, the eviction from the cache and the deletion of the attributes and of the row)
returns and leaves the instance with a reference count that is not 1, then `Delete`
returns, the instance is not destroyed, its name is the marker `"BAD DELETED ITEM"` (it is
not zeroed), its quantity is 0 and its contents-loaded flag is true; the final `Release`
takes one reference, if there is one, the row and the attributes of the item are gone, and
nothing else changes after the test. -/
theorem C14_delete_poisons (w0 w8 : World) (fuel this : Nat) (me8 : InventoryItem)
    (h : InventoryItem.Delete_upToTest fuel this w0 = some w8)
    (hme : w8.get this = some me8) (hrc : me8.m_refCount ≠ 1) :
    ∃ w' x, InventoryItem.Delete (fuel + 1) this w0 = some w' ∧ w'.get this = some x ∧
      x.m_itemName = "BAD DELETED ITEM" ∧ x.m_quantity = 0 ∧ x.m_contentsLoaded = true ∧
      x.m_refCount = me8.m_refCount - 1 ∧ x.m_itemID = me8.m_itemID ∧
      mapFind x.m_itemID w'.rows = none ∧ mapFind x.m_itemID w'.attrRows = none ∧
      (∀ q, q ≠ this → w'.get q = w8.get q) ∧ w'.db = w8.db ∧ w'.m_items = w8.m_items := by
  obtain ⟨w', hD, hx, hoth, hdb, hm⟩ := Delete_poisons h hme hrc
  obtain ⟨hr, ha⟩ := Delete_upToTest_gone h hme
  have hr' : w'.rows = w8.rows := @congrArg World _ w'.db w8.db World.rows hdb
  have ha' : w'.attrRows = w8.attrRows := @congrArg World _ w'.db w8.db World.attrRows hdb
  refine ⟨w', _, hD, hx, rfl, rfl, rfl, rfl, rfl, ?_, ?_, hoth, hdb, hm⟩
  · rw [hr']; exact hr
  · rw [ha']; exact ha

/-- Witness of C14: the stack 101 of `exHeld` is held by the cache and by two callers; one of
them deletes it, and the other is left with a poisoned instance. -/
theorem C14_delete_poisons_witness :
    ∃ w' x, InventoryItem.Delete 2 2 exHeld = some w' ∧ w'.get 2 = some x ∧
      x.m_itemName = "BAD DELETED ITEM" ∧ x.m_quantity = 0 ∧ x.m_contentsLoaded = true ∧
      x.m_refCount = 1 ∧ mapFind 101 w'.rows = none := by
  obtain ⟨w8, me8, h, hme, hrc, hid⟩ := exHeld_upToTest
  obtain ⟨w', x, hD, hx, h1, h2, h3, h4, h5, h6, _⟩ :=
    C14_delete_poisons exHeld w8 1 2 me8 h hme (by rw [hrc]; decide)
  refine ⟨w', x, hD, hx, h1, h2, h3, ?_, ?_⟩
  · rw [h4, hrc]
  · rw [← hid, ← h5]; exact h6

/-- Counterexample to C14 as stated: in `exHeld` the reference count of the stack 101 is 2 at
the test inside `Delete`, the instance is poisoned and not freed, and its name is not zeroed:
it is `"BAD DELETED ITEM"`. -/
theorem C14_counterexample :
    ∃ w8 me8 w' x, InventoryItem.Delete_upToTest 1 2 exHeld = some w8 ∧
      w8.get 2 = some me8 ∧ me8.m_refCount ≠ 1 ∧
      InventoryItem.Delete 2 2 exHeld = some w' ∧ w'.get 2 = some x ∧
      x.m_quantity = 0 ∧ x.m_contentsLoaded = true ∧
      x.m_itemName = "BAD DELETED ITEM" ∧ x.m_itemName ≠ "" := by
  obtain ⟨w8, me8, h, hme, hrc, _⟩ := exHeld_upToTest
  have hne : me8.m_refCount ≠ 1 := by rw [hrc]; decide
  obtain ⟨w', hD, hx, _⟩ := Delete_poisons h hme hne
  refine ⟨w8, me8, w', _, h, hme, hne, hD, hx, rfl, rfl, rfl, ?_⟩
  show "BAD DELETED ITEM" ≠ ""
  decide


/-- C15 (failing input): `StackContainedItems` does not keep the reference balance when a
`Merge` fails. In `exCargo 4 5 5` the container 60 holds the stacks 100 (slot 4), 101 and 102
(slot 5) of one type, each with reference count 2 (the cache and the map of the container).
`StackContainedItems(5, 0)` returns; the stacks 101 and 102 still exist, in the cache and in
the map of the container, and their reference count is 3: the reference taken with `Ref()`
for each failed `Merge` was not consumed. -/
theorem C15_stack_leaks_reference :
    ∃ w' c', InventoryItem.StackContainedItems 4 3 5 0 (exCargo 4 5 5) = some w' ∧
      ((exCargo 4 5 5).get 2).map (fun x => x.m_refCount) = some 2 ∧
      ((exCargo 4 5 5).get 4).map (fun x => x.m_refCount) = some 2 ∧
      (w'.get 2).map (fun x => x.m_refCount) = some 3 ∧
      (w'.get 4).map (fun x => x.m_refCount) = some 3 ∧
      mapFind 101 w'.m_items = some 2 ∧ mapFind 102 w'.m_items = some 4 ∧
      w'.get 3 = some c' ∧ mapFind 101 c'.m_contents = some 2 ∧
      mapFind 102 c'.m_contents = some 4 :=
  ⟨_, exContainer 1 60 [(100, 1), (101, 2), (102, 4)], exCargo_stack_slot5, by decide, by decide, by decide, by decide, by decide, by decide,
    by decide, by decide, by decide⟩


/-- C16 (failing input): `StackContainedItems` does not stack a slot completely. In
`exCargo 4 5 5` the container 60, with its contents loaded, holds the stacks 100 (slot 4),
101 and 102 (slot 5), all non-singleton, of type 34 and of owner 7. After
`StackContainedItems(5, 0)` the container still holds the two distinct stacks 101 and 102 of
that type in slot 5, with their quantities 3 and 2: the argument `locFlag` is not looked at,
the first stack found of the type is the one of slot 4, and no stack of slot 5 can be merged
into it. -/
theorem C16_stack_leaves_two_stacks :
    ∃ w' c' x y, InventoryItem.StackContainedItems 4 3 5 0 (exCargo 4 5 5) = some w' ∧
      w'.get 3 = some c' ∧ c'.m_contentsLoaded = true ∧
      mapFind 101 c'.m_contents = some 2 ∧ mapFind 102 c'.m_contents = some 4 ∧
      w'.get 2 = some x ∧ w'.get 4 = some y ∧
      x.m_singleton = false ∧ y.m_singleton = false ∧ x.m_type = y.m_type ∧
      x.m_ownerID = y.m_ownerID ∧ x.m_flag = 5 ∧ y.m_flag = 5 ∧
      x.m_quantity = 3 ∧ y.m_quantity = 2 :=
  ⟨_, exContainer 1 60 [(100, 1), (101, 2), (102, 4)], exStackAt 3 101 3 5,
    exStackAt 3 102 2 5, exCargo_stack_slot5, by decide, by decide, by decide, by decide, by decide,
    by decide, by decide, by decide, by decide, by decide, by decide, by decide, by decide,
    by decide⟩


/-- C19: `LoadContents` is idempotent. For every item on which `LoadContents` has returned
true, a second `LoadContents` call, with either value of `recursive`, returns true and leaves
the whole world state exactly as it was: no child ids are asked of the database (the log of
the reads is the same), and the containment maps and the reference counts are unchanged. The
first call itself did nothing when the contents were loaded before it; when they were not,
a non-recursive first call asked the database for the children of the item exactly once, so
that the two calls together perform exactly one read. -/
theorem C19_load_contents_idempotent (w w1 : World) (fuel fuel2 this : Nat)
    (recursive recursive2 : Bool)
    (h : InventoryItem.LoadContents fuel this recursive w = some (true, w1)) :
    InventoryItem.LoadContents (fuel2 + 1) this recursive2 w1 = some (true, w1) ∧
    (∀ me, w.get this = some me → me.m_contentsLoaded = true → w1 = w) ∧
    (∀ me, w.get this = some me → me.m_contentsLoaded = false → recursive = false →
      w1.fetched = w.fetched ++ [me.m_itemID]) := by
  obtain ⟨me, hme, ⟨me1, hme1, hl1⟩, h1, h2⟩ := LoadContents_true_inv h
  refine ⟨LoadContents_loaded hme1 hl1 fuel2 recursive2, ?_, ?_⟩
  · intro me0 hme0 hl0
    rw [hme] at hme0
    simp only [Option.some.injEq] at hme0
    subst hme0
    exact h1 hl0
  · intro me0 hme0 hl0 hr
    rw [hme] at hme0
    simp only [Option.some.injEq] at hme0
    subst hme0
    exact h2 hl0 hr

/-- Witness of C19: the contents of the stack 100, which holds nothing, are loaded twice; the
database is asked once. -/
theorem C19_load_contents_idempotent_witness :
    InventoryItem.LoadContents 1 1 true
      { (exWorld 5 3).set 1 { exStack 2 100 5 with m_contentsLoaded := true } with
        fetched := [100] }
      = some (true,
        { (exWorld 5 3).set 1 { exStack 2 100 5 with m_contentsLoaded := true } with
          fetched := [100] }) ∧
    ({ (exWorld 5 3).set 1 { exStack 2 100 5 with m_contentsLoaded := true } with
        fetched := [100] } : World).fetched = (exWorld 5 3).fetched ++ [100] :=
  ⟨(C19_load_contents_idempotent (exWorld 5 3) _ 1 0 1 false true (by decide)).1,
    (C19_load_contents_idempotent (exWorld 5 3) _ 1 0 1 false true (by decide)).2.2
      (exStack 2 100 5) (by decide) (by decide) rfl⟩


/-- The second of two `AddContainedItem` calls finds the entry and changes nothing. -/
theorem AddContainedItem_twice {w w1 : World} {this it : Nat}
    (h : InventoryItem.AddContainedItem this it w = some w1) :
    InventoryItem.AddContainedItem this it w1 = some w1 := by
  have h0 := h
  unfold InventoryItem.AddContainedItem at h
  cases hc : w.get this with
  | none => simp [hc] at h
  | some c =>
    cases hi : w.get it with
    | none => simp [hc, hi] at h
    | some i =>
      simp only [hc, hi] at h
      cases hf : mapFind i.m_itemID c.m_contents with
      | some x =>
        simp only [hf, Option.some.injEq] at h
        subst h
        exact h0
      | none =>
        simp only [hf] at h
        cases hr : InventoryItem.Ref it w with
        | none => simp [hr] at h
        | some rw1 =>
          obtain ⟨r, wa⟩ := rw1
          simp only [hr] at h
          cases hc1 : wa.get this with
          | none => simp [hc1] at h
          | some c1 =>
            simp only [hc1, Option.some.injEq] at h
            have hia : ∃ ia, wa.get it = some ia ∧ ia.m_itemID = i.m_itemID := by
              unfold InventoryItem.Ref at hr
              rw [if_neg (World.get_ne_zero hi)] at hr
              simp only [hi] at hr
              by_cases h1 : i.m_refCount < 1
              · rw [if_pos h1] at hr
                simp only [Option.some.injEq, Prod.mk.injEq] at hr
                rw [← hr.2]
                exact ⟨i, hi, rfl⟩
              · rw [if_neg h1] at hr
                simp only [Option.some.injEq, Prod.mk.injEq] at hr
                rw [← hr.2, World.get_set_live hi, if_pos rfl]
                exact ⟨_, rfl, rfl⟩
            obtain ⟨ia, hia, hid⟩ := hia
            have hthis : w1.get this
                = some { c1 with m_contents := mapInsert i.m_itemID r c1.m_contents } := by
              rw [← h, World.get_set_live hc1, if_pos rfl]
            have hit : ∃ ib, w1.get it = some ib ∧ ib.m_itemID = i.m_itemID := by
              by_cases e : it = this
              · subst e
                rw [hia] at hc1
                simp only [Option.some.injEq] at hc1
                subst hc1
                exact ⟨_, hthis, hid⟩
              · refine ⟨ia, ?_, hid⟩
                rw [← h, World.get_set_live hc1, if_neg e]
                exact hia
            obtain ⟨ib, hib, hibid⟩ := hit
            unfold InventoryItem.AddContainedItem
            simp only [hthis, hib, hibid, mapFind_mapInsert, if_true]

/-- The method `AddContainedItem` returns for every live container and every live child. -/
theorem AddContainedItem_total {w : World} {this it : Nat} {c i : InventoryItem}
    (hc : w.get this = some c) (hi : w.get it = some i) :
    ∃ w1, InventoryItem.AddContainedItem this it w = some w1 := by
  unfold InventoryItem.AddContainedItem
  simp only [hc, hi]
  cases hf : mapFind i.m_itemID c.m_contents with
  | some x => exact ⟨w, rfl⟩
  | none =>
    simp only
    unfold InventoryItem.Ref
    rw [if_neg (World.get_ne_zero hi)]
    simp only [hi]
    by_cases h1 : i.m_refCount < 1
    · rw [if_pos h1]
      simp only [hc]
      exact ⟨_, rfl⟩
    · rw [if_neg h1]
      simp only [World.get_set_live hi]
      by_cases e : this = it
      · rw [if_pos e]
        exact ⟨_, rfl⟩
      · rw [if_neg e]
        simp only [hc]
        exact ⟨_, rfl⟩

/-- C20 (as amended): `AddContainedItem` is idempotent. For every live container and every
live instance of a child, `AddContainedItem(child)` returns, and a second
`AddContainedItem(child)` returns with the whole world state, the containment map and the
reference count of the child included, exactly as after the first call. The first call, when
the map has no entry under the id of the child and the child holds at least one reference and
fewer than 65535, adds the entry `id ↦ child` to the map of the container and one reference
to the child and changes nothing else; when the map already has an entry under that id it
changes nothing. -/
theorem C20_add_contained_idempotent (w : World) (this it : Nat) (c i : InventoryItem)
    (hc : w.get this = some c) (hi : w.get it = some i) (hrc : 1 ≤ i.m_refCount) :
    ∃ w1, InventoryItem.AddContainedItem this it w = some w1 ∧
      InventoryItem.AddContainedItem this it w1 = some w1 ∧
      (mapFind i.m_itemID c.m_contents = none → i.m_refCount + 1 < 2 ^ 16 →
        w1.mapped w (fun q x =>
          { x with
            m_refCount := if q = it then x.m_refCount + 1 else x.m_refCount
            m_contents := if q = this then mapInsert i.m_itemID it x.m_contents
              else x.m_contents })) ∧
      (mapFind i.m_itemID c.m_contents ≠ none → w1 = w) := by
  cases hf : mapFind i.m_itemID c.m_contents with
  | none =>
    obtain ⟨w1, h1⟩ := AddContainedItem_total hc hi
    refine ⟨w1, h1, AddContainedItem_twice h1, fun _ hmax => ?_, fun h => absurd rfl h⟩
    obtain ⟨w1', h1', hm⟩ := AddContainedItem_mapped hc hi hf hrc hmax
    rw [h1] at h1'
    simp only [Option.some.injEq] at h1'
    rw [h1']
    exact hm
  | some x =>
    have h1 : InventoryItem.AddContainedItem this it w = some w := by
      unfold InventoryItem.AddContainedItem
      simp only [hc, hi, hf]
    exact ⟨w, h1, AddContainedItem_twice h1, fun h => by simp at h, fun _ => rfl⟩

/-- Witness of C20: the stack 100 is added to the empty container 61 twice. -/
theorem C20_add_contained_idempotent_witness :
    ∃ w1, InventoryItem.AddContainedItem 4 1 exHangar = some w1 ∧
      InventoryItem.AddContainedItem 4 1 w1 = some w1 ∧
      (w1.get 4).map (fun x => x.m_contents) = some [(100, 1)] ∧
      (w1.get 1).map (fun x => x.m_refCount) = some 3 := by
  obtain ⟨w1, h1, h2, h3, _⟩ := C20_add_contained_idempotent exHangar 4 1
    (exContainer 1 61 []) (exStack 2 100 5) (by decide) (by decide) (by decide)
  have hm := h3 (by decide) (by decide)
  refine ⟨w1, h1, h2, ?_, ?_⟩
  · rw [hm.1 4]
    decide
  · rw [hm.1 1]
    decide

/-- Counterexample to C20 as stated: the stack 100 holds the largest reference count 65535
and is not in the map of the live container 61. The first `AddContainedItem` adds the entry,
and the reference it takes wraps the count of the stack around to 0: the call has not added
one reference. -/
theorem C20_counterexample :
    ((exLoose 65535).get 4).map (fun x => x.m_contents) = some [] ∧
    ((exLoose 65535).get 1).map (fun x => x.m_refCount) = some 65535 ∧
    ((InventoryItem.AddContainedItem 4 1 (exLoose 65535)).bind fun w1 =>
      (w1.get 4).map fun x => x.m_contents) = some [(100, 1)] ∧
    ((InventoryItem.AddContainedItem 4 1 (exLoose 65535)).bind fun w1 =>
      (w1.get 1).map fun x => x.m_refCount) = some 0 := by
  refine ⟨by decide, by decide, by decide, by decide⟩


/-! ## The iterator of `StackContainedItems` -/

theorem mapFind_isSome_of_mem {α : Type} {k : Nat} {v : α} {m : AMap α} (h : (k, v) ∈ m) :
    (mapFind k m).isSome = true := by
  induction m with
  | nil => simp at h
  | cons e t ih =>
    obtain ⟨k0, v0⟩ := e
    by_cases h0 : k0 = k
    · simp [mapFind, h0]
    · simp only [mapFind, h0, if_false]
      simp only [List.mem_cons, Prod.mk.injEq] at h
      rcases h with h | h
      · exact absurd h.1.symm h0
      · exact ih h

theorem mem_of_mapFind {α : Type} {k : Nat} {v : α} {m : AMap α} (h : mapFind k m = some v) :
    (k, v) ∈ m := by
  induction m with
  | nil => simp [mapFind] at h
  | cons e t ih =>
    obtain ⟨k0, v0⟩ := e
    by_cases h0 : k0 = k
    · simp only [mapFind, h0, if_true, Option.some.injEq] at h
      subst h
      subst h0
      exact List.mem_cons_self _ _
    · simp only [mapFind, h0, if_false] at h
      exact List.mem_cons_of_mem _ (ih h)

theorem mapFirst_some {α : Type} {k : Nat} {m : AMap α} (h : mapFirst m = some k) :
    (mapFind k m).isSome = true := by
  cases m with
  | nil => simp [mapFirst] at h
  | cons e t =>
    obtain ⟨k0, v0⟩ := e
    simp only [mapFirst, List.head?_cons, Option.map_some', Option.some.injEq] at h
    subst h
    simp [mapFind]

theorem mapNext_some {α : Type} {k k' : Nat} {m : AMap α} (h : mapNext k m = some k') :
    k < k' ∧ (mapFind k' m).isSome = true := by
  unfold mapNext at h
  cases hf : m.find? (fun e => decide (k < e.1)) with
  | none => simp [hf] at h
  | some e =>
    simp only [hf, Option.map_some', Option.some.injEq] at h
    subst h
    have h1 := List.find?_some hf
    have h2 := List.mem_of_find?_eq_some hf
    exact ⟨by simpa using h1, mapFind_isSome_of_mem h2⟩

/-- The entries with a key from `k'` on are no more than the entries with a key from `k` on,
when `k ≤ k'`. -/
theorem filter_key_mono {α : Type} {k k' : Nat} (hlt : k ≤ k') (m : AMap α) :
    (m.filter fun e => decide (k' ≤ e.1)).length ≤ (m.filter fun e => decide (k ≤ e.1)).length := by
  induction m with
  | nil => simp
  | cons e t ih =>
    by_cases h1 : k' ≤ e.1
    · have h2 : k ≤ e.1 := le_trans hlt h1
      simp only [List.filter_cons, h1, h2, decide_True, if_true, List.length_cons]
      omega
    · by_cases h2 : k ≤ e.1
      · simp only [List.filter_cons, h1, h2, decide_True, decide_False, if_true,
          List.length_cons]
        simp only [Bool.false_eq_true, if_false]
        omega
      · simp only [List.filter_cons, h1, h2, decide_False]
        simp only [Bool.false_eq_true, if_false]
        exact ih

theorem filter_key_lt {α : Type} {k k' : Nat} (hlt : k < k') {m : AMap α}
    (hk : (mapFind k m).isSome = true) :
    (m.filter fun e => decide (k' ≤ e.1)).length < (m.filter fun e => decide (k ≤ e.1)).length := by
  induction m with
  | nil => simp [mapFind] at hk
  | cons e t ih =>
    obtain ⟨k0, v0⟩ := e
    by_cases h0 : k0 = k
    · subst h0
      have h1 : ¬ k' ≤ k0 := by omega
      have := filter_key_mono (le_of_lt hlt) t
      simp only [List.filter_cons, h1, decide_False, le_refl, decide_True, if_true,
        List.length_cons]
      simp only [Bool.false_eq_true, if_false]
      omega
    · simp only [mapFind, h0, if_false] at hk
      have := ih hk
      by_cases h1 : k' ≤ k0
      · have h2 : k ≤ k0 := by omega
        simp only [List.filter_cons, h1, h2, decide_True, if_true, List.length_cons]
        omega
      · by_cases h2 : k ≤ k0
        · simp only [List.filter_cons, h1, h2, decide_True, decide_False, if_true,
            List.length_cons]
          simp only [Bool.false_eq_true, if_false]
          omega
        · simp only [List.filter_cons, h1, h2, decide_False]
          simp only [Bool.false_eq_true, if_false]
          exact this

theorem filter_erase_le {α : Type} (p : Nat × α → Bool) (j : Nat) (m : AMap α) :
    ((mapErase j m).filter p).length ≤ (m.filter p).length := by
  induction m with
  | nil => simp [mapErase]
  | cons e t ih =>
    obtain ⟨k0, v0⟩ := e
    by_cases h0 : k0 = j
    · simp only [mapErase, h0, if_true]
      cases hp : p (j, v0)
      · simp only [List.filter_cons, hp]
        simpa using ih
      · simp only [List.filter_cons, hp, if_true, List.length_cons]
        omega
    · simp only [mapErase, h0, if_false]
      cases hp : p (k0, v0)
      · simp only [List.filter_cons, hp]
        simpa using ih
      · simp only [List.filter_cons, hp, if_true, List.length_cons]
        omega

/-! ## The steps of the loop -/

theorem Stack_loop_end (fuel this forOwner : Nat) (types : AMap Nat) (w : World) :
    InventoryItem.StackContainedItems_loop (fuel + 1) this forOwner none types w = some w := rfl

theorem Stack_loop_skip {fuel this forOwner k i : Nat} {types : AMap Nat} {w : World}
    {me it : InventoryItem} (hc : w.get this = some me)
    (hk : mapFind k me.m_contents = some i) (hi : w.get i = some it)
    (hcond : ¬ (it.m_singleton = false ∧ (forOwner = it.m_ownerID ∨ forOwner = 0))) :
    InventoryItem.StackContainedItems_loop (fuel + 1) this forOwner (some k) types w
      = InventoryItem.StackContainedItems_loop fuel this forOwner (mapNext k me.m_contents)
          types w := by
  rw [InventoryItem.StackContainedItems_loop, hc, Option.some_bind, hk, Option.some_bind, hi,
    Option.some_bind, if_neg hcond]

theorem Stack_loop_first {fuel this forOwner k i : Nat} {types : AMap Nat} {w : World}
    {me it : InventoryItem} (hc : w.get this = some me)
    (hk : mapFind k me.m_contents = some i) (hi : w.get i = some it)
    (hcond : it.m_singleton = false ∧ (forOwner = it.m_ownerID ∨ forOwner = 0))
    (ht : mapFind it.m_type types = none) :
    InventoryItem.StackContainedItems_loop (fuel + 1) this forOwner (some k) types w
      = InventoryItem.StackContainedItems_loop fuel this forOwner (mapNext k me.m_contents)
          (mapInsert it.m_type i types) w := by
  rw [InventoryItem.StackContainedItems_loop, hc, Option.some_bind, hk, Option.some_bind, hi,
    Option.some_bind, if_pos hcond]
  simp only [ht]

theorem Stack_loop_merge {fuel this forOwner k i res : Nat} {types : AMap Nat} {w : World}
    {me it : InventoryItem} {r : Nat × World} {m : Bool × World} (hc : w.get this = some me)
    (hk : mapFind k me.m_contents = some i) (hi : w.get i = some it)
    (hcond : it.m_singleton = false ∧ (forOwner = it.m_ownerID ∨ forOwner = 0))
    (ht : mapFind it.m_type types = some res) (hR : InventoryItem.Ref i w = some r)
    (hM : InventoryItem.Merge fuel res r.1 0 defaultNotify r.2 = some m) :
    InventoryItem.StackContainedItems_loop (fuel + 1) this forOwner (some k) types w
      = InventoryItem.StackContainedItems_loop fuel this forOwner (mapNext k me.m_contents)
          types m.2 := by
  rw [InventoryItem.StackContainedItems_loop, hc, Option.some_bind, hk, Option.some_bind, hi,
    Option.some_bind, if_pos hcond]
  simp only [ht]
  rw [hR, Option.some_bind, hM, Option.some_bind]


/-! ## The children that `StackContainedItems` can merge -/

theorem leafChild_iff {w : World} {q : Nat} :
    leafChild w q = true ↔ ∃ x, w.get q = some x ∧
      (x.m_singleton = true ∨
        (x.m_contents = [] ∧ 2 ≤ x.m_refCount ∧ x.m_itemID ≠ 6 ∧ x.m_quantity < 2 ^ 32 ∧
          (x.m_contentsLoaded = true ∨ ∀ e ∈ w.rows, e.2.locationID ≠ x.m_itemID))) := by
  unfold leafChild
  cases w.get q with
  | none => simp
  | some x =>
    simp only [Bool.or_eq_true, Bool.and_eq_true, List.isEmpty_iff, decide_eq_true_eq,
      List.all_eq_true, Option.some.injEq, exists_eq_left', and_assoc]


/-! ## `Delete` of a child that holds nothing, whatever the reference counts are

The lemmas of this section follow `Move` and `Delete` of a child of a resident container
without a bound on the counts: the count of the container may wrap around to 0 when it is
referenced, and a container whose count is 0 is not handed out by the cache, so the child
stays in its map. -/

/-- The lookup of a container that is not resident with its contents loaded gives null, when
the entry of the cache for it, if any, is live. -/
theorem GetIfContentsLoaded_idle {w : World} {id : Nat}
    (hk : ∀ p, mapFind id w.m_items = some p → ∃ x, w.get p = some x)
    (h : w.loaded id = none) : ItemFactory._GetIfContentsLoaded id w = some (0, w) := by
  cases hc : mapFind id w.m_items with
  | none => exact GetIfContentsLoaded_absent hc
  | some p =>
    obtain ⟨c, hg⟩ := hk p hc
    cases hl : c.m_contentsLoaded with
    | false => exact GetIfContentsLoaded_unloaded hc hg hl
    | true => rw [World.loaded_of hc hg hl] at h; simp at h

/-- The block of `Move` that takes the item `b` out of the map of its container `pc`: when the
count of the container is 0 nothing happens; otherwise the entry is erased, the item loses
one reference unless it has none, and the container gets its count back unless that was
65535 and is 0 now. -/
theorem detach_out {w : World} {b pc : Nat} {ib c : InventoryItem} (fuel : Nat)
    (hb : w.get b = some ib) (hpc : mapFind ib.m_locationID w.m_items = some pc)
    (hc : w.get pc = some c) (hl : c.m_contentsLoaded = true) (hne : b ≠ pc)
    (hent : mapFind ib.m_itemID c.m_contents = some b) (hrc : ib.m_refCount ≠ 1)
    (hcr : c.m_refCount < 2 ^ 16) :
    ∃ w2 n nc m, ((ItemFactory._GetIfContentsLoaded ib.m_locationID w).bind fun old =>
        if old.1 ≠ 0 then
          (InventoryItem.RemoveContainedItem fuel old.1 b old.2).bind
            (InventoryItem.Release fuel old.1)
        else some old.2) = some w2 ∧
      w2.get b = some { ib with m_refCount := n } ∧
      (n = ib.m_refCount ∨ n = ib.m_refCount - 1) ∧
      w2.get pc = some { c with m_refCount := nc, m_contents := m } ∧ nc < 2 ^ 16 ∧
      (m = c.m_contents ∨ m = mapErase ib.m_itemID c.m_contents) ∧
      (∀ q, q ≠ b → q ≠ pc → w2.get q = w.get q) ∧ w2.m_items = w.m_items := by
  have hp0 : pc ≠ 0 := World.get_ne_zero hc
  have hG0 : ItemFactory._GetIfContentsLoaded ib.m_locationID w = InventoryItem.Ref pc w := by
    unfold ItemFactory._GetIfContentsLoaded
    simp only [hpc, hc]
    rw [if_pos hl]
  rw [hG0]
  rcases Ref_soft hc with ⟨_, hR⟩ | ⟨hge, hR⟩
  · rw [hR]
    refine ⟨w, ib.m_refCount, c.m_refCount, c.m_contents, by simp, hb, Or.inl rfl, hc, hcr,
      Or.inl rfl, fun _ _ _ => rfl, rfl⟩
  · rw [hR]
    simp only [Option.some_bind]
    rw [if_pos hp0]
    have hg1 : ∀ q, (w.set pc { c with m_refCount := (c.m_refCount + 1) % 2 ^ 16 }).get q
        = if q = pc then some { c with m_refCount := (c.m_refCount + 1) % 2 ^ 16 }
          else w.get q := fun q => World.get_set_live hc q _
    have hc1 := hg1 pc
    rw [if_pos rfl] at hc1
    have hb1 := hg1 b
    rw [if_neg hne, hb] at hb1
    obtain ⟨v2, hR2, hr2, hb2, ho2⟩ := Release_kept hb1 hrc fuel
    have hc2 : v2.get pc = some { c with m_refCount := (c.m_refCount + 1) % 2 ^ 16 } := by
      rw [ho2 pc (Ne.symm hne)]
      exact hc1
    have hRem : InventoryItem.RemoveContainedItem fuel pc b
        (w.set pc { c with m_refCount := (c.m_refCount + 1) % 2 ^ 16 })
        = some (v2.set pc { c with
            m_refCount := (c.m_refCount + 1) % 2 ^ 16,
            m_contents := mapErase ib.m_itemID c.m_contents }) := by
      unfold InventoryItem.RemoveContainedItem
      simp only [hc1, hb1, hent, hR2, hc2]
    rw [hRem]
    simp only [Option.some_bind]
    have hc3 : (v2.set pc { c with
          m_refCount := (c.m_refCount + 1) % 2 ^ 16,
          m_contents := mapErase ib.m_itemID c.m_contents }).get pc
        = some { c with
          m_refCount := (c.m_refCount + 1) % 2 ^ 16,
          m_contents := mapErase ib.m_itemID c.m_contents } := by
      rw [World.get_set_live hc2, if_pos rfl]
    obtain ⟨v4, hR4, hr4, hc4, ho4⟩ := Release_kept hc3
      (show (c.m_refCount + 1) % 2 ^ 16 ≠ 1 by omega) fuel
    refine ⟨v4, ib.m_refCount - 1, (c.m_refCount + 1) % 2 ^ 16 - 1,
      mapErase ib.m_itemID c.m_contents, hR4, ?_, Or.inr rfl, hc4, by omega, Or.inr rfl,
      fun q hqb hqp => ?_, ?_⟩
    · rw [ho4 b hne, World.get_set_live hc2, if_neg hne]
      exact hb2
    · rw [ho4 q hqp, World.get_set_live hc2, if_neg hqp, ho2 q hqb, hg1 q, if_neg hqp]
    · rw [hr4.1]
      show v2.m_items = _
      rw [hr2.1]
      rfl

/-- A `Move` of the child `b` of the resident container `pc` to a location that is not
resident with its contents loaded, whatever the counts are: the call returns, the item is at
the new location and flag and has lost at most one reference, the map of the container is as
it was or has lost the entry of the item, and nothing else changes in memory. -/
theorem Move_out {w : World} {b pc : Nat} {ib c : InventoryItem} (fuel location new_flag : Nat)
    (notify : Bool) (hb : w.get b = some ib)
    (hpc : mapFind ib.m_locationID w.m_items = some pc) (hc : w.get pc = some c)
    (hl : c.m_contentsLoaded = true) (hne : b ≠ pc)
    (hent : mapFind ib.m_itemID c.m_contents = some b) (hrc : ib.m_refCount ≠ 1)
    (hcr : c.m_refCount < 2 ^ 16)
    (hk : ∀ p, mapFind location w.m_items = some p → ∃ x, w.get p = some x)
    (hatt : w.loaded location = none) :
    ∃ w2 n nc m, InventoryItem.Move fuel b location new_flag notify w = some w2 ∧
      w2.get b = some
        { ib with m_refCount := n, m_locationID := location, m_flag := new_flag } ∧
      (n = ib.m_refCount ∨ n = ib.m_refCount - 1) ∧
      w2.get pc = some { c with m_refCount := nc, m_contents := m } ∧ nc < 2 ^ 16 ∧
      (m = c.m_contents ∨ m = mapErase ib.m_itemID c.m_contents) ∧
      (∀ q, q ≠ b → q ≠ pc → w2.get q = w.get q) ∧ w2.m_items = w.m_items := by
  have hnop : ¬ (location = ib.m_locationID ∧ new_flag = ib.m_flag) := by
    intro h
    rw [h.1, World.loaded_of hpc hc hl] at hatt
    cases hatt
  obtain ⟨w2, n, nc, m, hB1, hb2, hn, hc2, hnc, hm, ho2, hmi2⟩ :=
    detach_out fuel hb hpc hc hl hne hent hrc hcr
  have hlive2 : ∀ q x, w.get q = some x → ∃ x2, w2.get q = some x2 ∧
      x2.m_contentsLoaded = x.m_contentsLoaded := by
    intro q x hq
    by_cases e1 : q = b
    · subst e1
      rw [hb] at hq
      simp only [Option.some.injEq] at hq
      subst hq
      exact ⟨_, hb2, rfl⟩
    · by_cases e2 : q = pc
      · subst e2
        rw [hc] at hq
        simp only [Option.some.injEq] at hq
        subst hq
        exact ⟨_, hc2, rfl⟩
      · exact ⟨x, by rw [ho2 q e1 e2]; exact hq, rfl⟩
  have hk2 : ∀ p, mapFind location w2.m_items = some p → ∃ x, w2.get p = some x := by
    intro p hp
    rw [hmi2] at hp
    obtain ⟨x, hx⟩ := hk p hp
    obtain ⟨x2, hx2, _⟩ := hlive2 p x hx
    exact ⟨x2, hx2⟩
  have hatt2 : w2.loaded location = none := by
    unfold World.loaded at hatt ⊢
    rw [hmi2]
    cases hf : mapFind location w.m_items with
    | none => rfl
    | some p =>
      simp only [hf] at hatt
      obtain ⟨x, hx⟩ := hk p hf
      obtain ⟨x2, hx2, hl2⟩ := hlive2 p x hx
      simp only [hx] at hatt
      simp only [hx2, hl2]
      exact hatt
  have hB2 := GetIfContentsLoaded_idle hk2 hatt2
  have hlive5 : (w2.set b { ib with
        m_refCount := n, m_locationID := location, m_flag := new_flag }).get b
      = some { ib with m_refCount := n, m_locationID := location, m_flag := new_flag } := by
    rw [World.get_set_live hb2, if_pos rfl]
  have hfin : ∀ (w' : World), (∀ q, w'.get q = (w2.set b { ib with
        m_refCount := n, m_locationID := location, m_flag := new_flag }).get q) →
      w'.m_items = w2.m_items →
      w'.get b = some
        { ib with m_refCount := n, m_locationID := location, m_flag := new_flag } ∧
      (n = ib.m_refCount ∨ n = ib.m_refCount - 1) ∧
      w'.get pc = some { c with m_refCount := nc, m_contents := m } ∧ nc < 2 ^ 16 ∧
      (m = c.m_contents ∨ m = mapErase ib.m_itemID c.m_contents) ∧
      (∀ q, q ≠ b → q ≠ pc → w'.get q = w.get q) ∧ w'.m_items = w.m_items := by
    intro w' hw' hmi
    refine ⟨by rw [hw' b]; exact hlive5, hn, ?_, hnc, hm, fun q hqb hqp => ?_, hmi.trans hmi2⟩
    · rw [hw' pc, World.get_set_live hb2, if_neg (Ne.symm hne)]
      exact hc2
    · rw [hw' q, World.get_set_live hb2, if_neg hqb]
      exact ho2 q hqb hqp
  unfold InventoryItem.Move
  simp only [hb]
  rw [if_neg hnop, hB1]
  simp only [Option.some_bind]
  rw [hB2]
  simp only [Option.some_bind, ne_eq, not_true_eq_false, if_false, hb2]
  rw [Save_false hlive5]
  simp only [Option.some_bind]
  cases notify with
  | false =>
    simp only [Bool.false_eq_true, if_false]
    exact ⟨_, n, nc, m, rfl, hfin _ (fun q => get_saved _ _ q) (saved_m_items _ _)⟩
  | true =>
    simp only [if_true]
    have hlive6 : ((w2.set b { ib with
          m_refCount := n, m_locationID := location, m_flag := new_flag }).saved
        { ib with m_refCount := n, m_locationID := location, m_flag := new_flag }).get b
        = some { ib with m_refCount := n, m_locationID := location, m_flag := new_flag } := by
      rw [get_saved]; exact hlive5
    obtain ⟨ch', w7, h7⟩ := SendItemChange_live hlive6
      ({ ib with m_refCount := n } : InventoryItem).m_ownerID
      { Changes.empty with
        ixLocationID := some ib.m_locationID,
        ixFlag := if new_flag ≠ ib.m_flag then some ib.m_flag else none }
    rw [h7]
    have e7 := SendItemChange_heap h7
    exact ⟨_, n, nc, m, rfl, hfin _
      (fun q => (get_of_heap e7.1 e7.2 q).trans (get_saved _ _ q))
      ((SendItemChange_m_items h7).trans (saved_m_items _ _))⟩

/-- The eviction of a cached item whose `Release` does not free it. -/
theorem DeleteItem_evicts_kept {w : World} {b : Nat} {x : InventoryItem} (fuel : Nat)
    (hb : w.get b = some x) (hcache : mapFind x.m_itemID w.m_items = some b)
    (hrc : x.m_refCount ≠ 1) :
    ∃ w7, ItemFactory._DeleteItem fuel x.m_itemID w = some w7 ∧
      w7.get b = some { x with m_refCount := x.m_refCount - 1 } ∧
      (∀ q, q ≠ b → w7.get q = w.get q) ∧ w7.m_items = mapErase x.m_itemID w.m_items ∧
      w7.rows = w.rows ∧ w7.attrRows = w.attrRows := by
  rcases Release_soft hb hrc fuel with ⟨h0, hR⟩ | ⟨_, hR⟩
  · refine ⟨{ w with m_items := mapErase x.m_itemID w.m_items }, ?_, ?_, fun _ _ => rfl, rfl,
      rfl, rfl⟩
    · unfold ItemFactory._DeleteItem
      rw [hcache]
      simp only
      rw [hR]
      rfl
    · have e : World.get { w with m_items := mapErase x.m_itemID w.m_items } b = w.get b := rfl
      rw [e, hb]
      have e2 : x.m_refCount - 1 = x.m_refCount := by omega
      rw [e2]
  · refine ⟨{ w.set b { x with m_refCount := x.m_refCount - 1 } with
      m_items := mapErase x.m_itemID w.m_items }, ?_, ?_, ?_, rfl, rfl, rfl⟩
    · unfold ItemFactory._DeleteItem
      rw [hcache]
      simp only
      rw [hR]
      rfl
    · have : World.get { w.set b { x with m_refCount := x.m_refCount - 1 } with
          m_items := mapErase x.m_itemID w.m_items } b
          = (w.set b { x with m_refCount := x.m_refCount - 1 }).get b := rfl
      rw [this, World.get_set_live hb]; simp
    · intro q hq
      have : World.get { w.set b { x with m_refCount := x.m_refCount - 1 } with
          m_items := mapErase x.m_itemID w.m_items } q
          = (w.set b { x with m_refCount := x.m_refCount - 1 }).get q := rfl
      rw [this, World.get_set_live hb, if_neg hq]

/-- The body of `Delete_upToTest` after the blueprint row is dealt with, for a child `b` of the
resident container `pc` that holds nothing, in memory and in the database, when the disposal
location is not resident with its contents loaded, whatever the counts are. -/
theorem Delete_upToTest_out_core {w : World} {b pc : Nat} {ib c : InventoryItem} (fuel : Nat)
    (hb : w.get b = some ib) (hcache : mapFind ib.m_itemID w.m_items = some b)
    (hpc : mapFind ib.m_locationID w.m_items = some pc) (hc : w.get pc = some c)
    (hl : c.m_contentsLoaded = true) (hne : b ≠ pc)
    (hent : mapFind ib.m_itemID c.m_contents = some b)
    (hrc : ib.m_refCount = 0 ∨ 3 ≤ ib.m_refCount) (hcr : c.m_refCount < 2 ^ 16)
    (hempty : ib.m_contents = []) (h6 : ib.m_itemID ≠ 6)
    (hleaf : ib.m_contentsLoaded = true ∨ ∀ e ∈ w.rows, e.2.locationID ≠ ib.m_itemID)
    (hk6 : ∀ p, mapFind 6 w.m_items = some p → ∃ x, w.get p = some x)
    (h6l : w.loaded 6 = none) :
    ∃ w8 x8 nc m, ((InventoryItem.Move (fuel + 1) b 6 flagAutoFit defaultNotify w).bind
      fun w2 =>
      (InventoryItem.ChangeOwner b 2 defaultNotify w2).bind fun w3 =>
      (InventoryItem.LoadContents (fuel + 1) b true w3).bind fun r4 =>
      (r4.2.get b).bind fun me4 =>
      (me4.m_contents.foldlM (fun acc e =>
        (InventoryItem.Ref e.2 acc).bind
          (fun r => InventoryItem.Delete (fuel + 1) r.1 r.2)) r4.2).bind fun w5 =>
      (w5.get b).bind fun me5 =>
      (ItemFactory._DeleteItem (fuel + 1) me5.m_itemID
        (w5.set b { me5 with m_contents := [] })).bind fun w7 =>
      (w7.get b).map fun me7 =>
        ItemDB.DeleteItem me7.m_itemID
          { w7 with attrRows := mapErase me7.m_itemID w7.attrRows }) = some w8 ∧
      w8.get b = some x8 ∧ x8.m_contents = [] ∧ x8.m_refCount ≤ ib.m_refCount ∧
      w8.get pc = some { c with m_refCount := nc, m_contents := m } ∧ nc < 2 ^ 16 ∧
      (m = c.m_contents ∨ m = mapErase ib.m_itemID c.m_contents) ∧
      (∀ q, q ≠ b → q ≠ pc → w8.get q = w.get q) ∧
      w8.m_items = mapErase ib.m_itemID w.m_items ∧
      (∀ e ∈ w8.rows, e ∈ w.rows ∧ e.1 ≠ ib.m_itemID) := by
  obtain ⟨w2, n, nc, m, hM, hb2, hn, hc2, hnc, hm, ho2, hmi2⟩ :=
    Move_out (fuel + 1) 6 flagAutoFit defaultNotify hb hpc hc hl hne hent (by omega) hcr hk6 h6l
  obtain ⟨hro2, hat2, hty2⟩ := Move_static hb hM hb2
  have hrows2 := Move_rows_key hb hM hb2
  rw [hM]
  simp only [Option.some_bind]
  obtain ⟨w3, hCO, hw3⟩ := ChangeOwner_fwd hb2 2 defaultNotify
  rw [hCO]
  simp only [Option.some_bind]
  have hrows3 : ∀ e ∈ w3.rows, e ∈ w.rows ∨ e.1 = ib.m_itemID := by
    intro e he
    rcases hw3.2.2.1 e he with h1 | h1
    · exact hrows2 e h1
    · right
      rw [h1]
  have hloc3 : ∀ e ∈ w3.rows, e ∈ w.rows ∨ e.2.locationID = 6 := by
    intro e he
    rcases hw3.2.2.1 e he with h1 | h1
    · rcases Move_rows hM e h1 with h2 | h2
      · exact Or.inl h2
      · exact Or.inr h2
    · right
      rw [h1]
      rfl
  obtain ⟨ok, w4, l, hLCe, hb4, hoth4, hm4, hr4, _⟩ := LoadContents_leaf_full fuel true
    hw3.live (by
      rcases hleaf with h | h
      · exact Or.inl h
      · right
        intro e he
        show e.2.locationID ≠ ib.m_itemID
        rcases hloc3 e he with h1 | h1
        · exact h e h1
        · rw [h1]; exact fun e6 => h6 e6.symm)
  rw [hLCe]
  simp only [Option.some_bind, hb4]
  have hnil : ({ ib with
      m_refCount := n
      m_locationID := 6
      m_flag := flagAutoFit
      m_ownerID := 2
      m_contentsLoaded := l } : InventoryItem).m_contents = [] := hempty
  rw [hnil]
  simp only [List.foldlM_nil, pure, Option.some_bind, hb4]
  have hx : ∀ x : InventoryItem, x.m_contents = [] → { x with m_contents := [] } = x := by
    intro x h
    rw [← h]
  rw [hx _ hnil]
  have hb5 : (w4.set b { ib with
      m_refCount := n
      m_locationID := 6
      m_flag := flagAutoFit
      m_ownerID := 2
      m_contentsLoaded := l }).get b = some { ib with
      m_refCount := n
      m_locationID := 6
      m_flag := flagAutoFit
      m_ownerID := 2
      m_contentsLoaded := l } := by
    rw [World.get_set_live hb4]; simp
  obtain ⟨w7, hD, hb7, hoth7, hm7, hr7, _⟩ := DeleteItem_evicts_kept (fuel + 1) hb5
    (by
      show mapFind ib.m_itemID w4.m_items = some b
      rw [hm4, hw3.2.1, hmi2]; exact hcache)
    (by
      show n ≠ 1
      omega)
  have hD2 : ItemFactory._DeleteItem (fuel + 1) ib.m_itemID (w4.set b { ib with
      m_refCount := n
      m_locationID := 6
      m_flag := flagAutoFit
      m_ownerID := 2
      m_contentsLoaded := l }) = some w7 := hD
  rw [hD2]
  simp only [Option.some_bind, hb7, Option.map_some']
  have hrows7 : w7.rows = w3.rows := by
    rw [hr7]
    show w4.rows = _
    exact hr4
  have hget8 : ∀ q, (ItemDB.DeleteItem ib.m_itemID
      { w7 with attrRows := mapErase ib.m_itemID w7.attrRows }).get q = w7.get q :=
    fun _ => rfl
  refine ⟨_, { ib with
      m_refCount := n - 1
      m_locationID := 6
      m_flag := flagAutoFit
      m_ownerID := 2
      m_contentsLoaded := l }, nc, m, rfl, ?_, ?_, ?_, ?_, hnc, hm, fun q hqb hqp => ?_, ?_,
    fun e he => ?_⟩
  · show w7.get b = _
    exact hb7
  · exact hempty
  · show n - 1 ≤ ib.m_refCount
    omega
  · show w7.get pc = _
    rw [hoth7 pc (Ne.symm hne), World.get_set_live hb4, if_neg (Ne.symm hne),
      hoth4 pc (Ne.symm hne), hw3.1 pc, if_neg (Ne.symm hne)]
    exact hc2
  · show w7.get q = _
    rw [hoth7 q hqb, World.get_set_live hb4, if_neg hqb, hoth4 q hqb, hw3.1 q, if_neg hqb]
    exact ho2 q hqb hqp
  · show w7.m_items = _
    rw [hm7]
    show mapErase ib.m_itemID w4.m_items = _
    rw [hm4, hw3.2.1, hmi2]
  · have he1 : e ∈ mapErase ib.m_itemID w7.rows := he
    have hk := mem_mapErase_key he1
    have he2 := mem_mapErase he1
    rw [hrows7] at he2
    rcases hrows3 e he2 with h1 | h1
    · exact ⟨h1, hk⟩
    · exact absurd h1 hk

/-- The method `Delete` of a child `b` of the resident container `pc` that holds nothing, in
memory and in the database, when the disposal location is not resident with its contents
loaded and the count of the child is 0 or at least 3, whatever the counts are otherwise:
the call returns, the item is evicted, its row is deleted, the map of the container is as
it was or has lost the entry of the item, and no other instance changes. The instance of
the item is freed or stays behind with a count that is not larger. -/
theorem Delete_out {w : World} {b pc : Nat} {ib c : InventoryItem} (fuel : Nat)
    (hb : w.get b = some ib) (hcache : mapFind ib.m_itemID w.m_items = some b)
    (hpc : mapFind ib.m_locationID w.m_items = some pc) (hc : w.get pc = some c)
    (hl : c.m_contentsLoaded = true) (hne : b ≠ pc)
    (hent : mapFind ib.m_itemID c.m_contents = some b)
    (hrc : ib.m_refCount = 0 ∨ 3 ≤ ib.m_refCount) (hcr : c.m_refCount < 2 ^ 16)
    (hempty : ib.m_contents = []) (h6 : ib.m_itemID ≠ 6)
    (hleaf : ib.m_contentsLoaded = true ∨ ∀ e ∈ w.rows, e.2.locationID ≠ ib.m_itemID)
    (hk6 : ∀ p, mapFind 6 w.m_items = some p → ∃ x, w.get p = some x)
    (h6l : w.loaded 6 = none) :
    ∃ w' nc m, InventoryItem.Delete (fuel + 2) b w = some w' ∧
      w'.get pc = some { c with m_refCount := nc, m_contents := m } ∧ nc < 2 ^ 16 ∧
      (m = c.m_contents ∨ m = mapErase ib.m_itemID c.m_contents) ∧
      (∀ q, q ≠ b → q ≠ pc → w'.get q = w.get q) ∧
      w'.m_items = mapErase ib.m_itemID w.m_items ∧
      (∀ e ∈ w'.rows, e ∈ w.rows ∧ e.1 ≠ ib.m_itemID) ∧
      (∀ x, w'.get b = some x → x.m_refCount ≤ ib.m_refCount) := by
  obtain ⟨w8, x8, nc, m, h8, hb8, hnil8, hle8, hc8, hnc, hm, ho8, hmi8, hr8⟩ :
      ∃ w8 x8 nc m, InventoryItem.Delete_upToTest (fuel + 1) b w = some w8 ∧
        w8.get b = some x8 ∧ x8.m_contents = [] ∧ x8.m_refCount ≤ ib.m_refCount ∧
        w8.get pc = some { c with m_refCount := nc, m_contents := m } ∧ nc < 2 ^ 16 ∧
        (m = c.m_contents ∨ m = mapErase ib.m_itemID c.m_contents) ∧
        (∀ q, q ≠ b → q ≠ pc → w8.get q = w.get q) ∧
        w8.m_items = mapErase ib.m_itemID w.m_items ∧
        (∀ e ∈ w8.rows, e ∈ w.rows ∧ e.1 ≠ ib.m_itemID) := by
    unfold InventoryItem.Delete_upToTest
    simp only [hb]
    cases hbp : ib.bp with
    | none =>
      have h := Delete_upToTest_out_core fuel hb hcache hpc hc hl hne hent hrc hcr hempty h6
        hleaf hk6 h6l
      exact h
    | some d =>
      have hb' : (ItemDB.DeleteBlueprint ib.m_itemID w).get b = some ib := hb
      have hc' : (ItemDB.DeleteBlueprint ib.m_itemID w).get pc = some c := hc
      have h := @Delete_upToTest_out_core (ItemDB.DeleteBlueprint ib.m_itemID w) b pc ib c fuel
        hb' hcache hpc hc' hl hne hent hrc hcr hempty h6 hleaf hk6 h6l
      exact h
  obtain ⟨w', hD, hoth, hm', hdb, hfree⟩ := Delete_after_upToTest h8 hb8 hnil8
  have hr' : w'.rows = w8.rows := @congrArg World _ w'.db w8.db World.rows hdb
  refine ⟨w', nc, m, hD, ?_, hnc, hm, fun q hqb hqp => ?_, hm'.trans hmi8,
    fun e he => hr8 e (hr' ▸ he), fun x hx => ?_⟩
  · rw [hoth pc (Ne.symm hne)]
    exact hc8
  · rw [hoth q hqb]
    exact ho8 q hqb hqp
  · by_cases h1 : x8.m_refCount = 1
    · rw [hfree h1] at hx
      cases hx
    · obtain ⟨w'', hD', hg', _⟩ := Delete_poisons h8 hb8 h1
      rw [hD] at hD'
      simp only [Option.some.injEq] at hD'
      subst hD'
      rw [hg'] at hx
      simp only [Option.some.injEq] at hx
      rw [← hx]
      show x8.m_refCount - 1 ≤ ib.m_refCount
      omega


/-! ## `Merge` of two children of a resident container, whatever the reference counts are -/

/-- The method `Merge` of the whole of a child `b` of a resident container into another child
`a`, `b` an item that holds nothing, in memory and in the database, with a count that is 0 or
at least 3, whatever the counts are otherwise. The call returns; it changes nothing, or `a`
has another quantity, `b` is evicted and its row deleted, the map of the container is as it
was or has lost the entry of `b`, and no other instance changes. -/
theorem Merge_out {w : World} {this a b kb : Nat} {c ia ib : InventoryItem} (fuel : Nat)
    (hk6 : ∀ p, mapFind 6 w.m_items = some p → ∃ x, w.get p = some x)
    (h6l : w.loaded 6 = none)
    (hc : w.get this = some c) (hcc : mapFind c.m_itemID w.m_items = some this)
    (hld : c.m_contentsLoaded = true) (hcr : c.m_refCount < 2 ^ 16)
    (ha : w.get a = some ia) (hsa : ia.m_singleton = false)
    (hloca : ia.m_locationID = c.m_itemID)
    (hkb : mapFind kb c.m_contents = some b) (hb : w.get b = some ib)
    (hidb : ib.m_itemID = kb) (hcb : mapFind kb w.m_items = some b)
    (hlocb : ib.m_locationID = c.m_itemID)
    (hab : a ≠ b) (hat : a ≠ this) (hbt : b ≠ this)
    (hempty : ib.m_contents = []) (hrc : ib.m_refCount = 0 ∨ 3 ≤ ib.m_refCount)
    (h6 : kb ≠ 6) (hq : ib.m_quantity < 2 ^ 32)
    (hleaf : ib.m_contentsLoaded = true ∨ ∀ e ∈ w.rows, e.2.locationID ≠ kb) :
    ∃ ok w', InventoryItem.Merge (fuel + 2) a b 0 defaultNotify w = some (ok, w') ∧
      (w' = w ∨
        ∃ nc m qa, w'.get this = some { c with m_refCount := nc, m_contents := m } ∧
          nc < 2 ^ 16 ∧ (m = c.m_contents ∨ m = mapErase kb c.m_contents) ∧
          w'.get a = some { ia with m_quantity := qa } ∧
          (∀ q, q ≠ a → q ≠ b → q ≠ this → w'.get q = w.get q) ∧
          w'.m_items = mapErase kb w.m_items ∧
          (∀ e ∈ w'.rows, e ∈ w.rows ∨ e.2.locationID = c.m_itemID) ∧
          (∀ x, w'.get b = some x → x.m_refCount ≤ ib.m_refCount)) := by
  have hkbc : kb ≠ c.m_itemID := by
    intro e
    rw [e, hcc] at hcb
    exact hbt (Option.some.inj hcb).symm
  unfold InventoryItem.Merge
  simp only [ha, hb, if_true]
  rw [if_neg (World.get_ne_zero hb)]
  by_cases hty : ia.m_type = ib.m_type
  swap
  · rw [if_pos hty]
    exact ⟨false, w, rfl, Or.inl rfl⟩
  rw [if_neg (not_not.mpr hty)]
  by_cases hfl : ia.m_flag = ib.m_flag
  swap
  · rw [if_pos (Or.inr hfl)]
    exact ⟨false, w, rfl, Or.inl rfl⟩
  have c2 : ¬ (ia.m_locationID ≠ ib.m_locationID ∨ ia.m_flag ≠ ib.m_flag) := by
    rw [hloca, hlocb]
    simp [hfl]
  rw [if_neg c2]
  by_cases hpos : 0 < toInt32 (ib.m_quantity : Int)
  swap
  · rw [if_pos (not_lt.mp hpos)]
    exact ⟨false, w, rfl, Or.inl rfl⟩
  rw [if_neg (not_le.mpr hpos)]
  by_cases hnn : 0 ≤ toInt32 ((ia.m_quantity : Int) + toInt32 (ib.m_quantity : Int))
  swap
  · have hA : InventoryItem.AlterQuantity a (toInt32 (ib.m_quantity : Int)) defaultNotify w
        = some (false, w) := by
      unfold InventoryItem.AlterQuantity
      simp only [ha]
      rw [if_neg (ne_of_gt hpos), if_pos (not_le.mp hnn)]
    rw [hA]
    exact ⟨false, w, rfl, Or.inl rfl⟩
  obtain ⟨w1, hA, hw1⟩ := AlterQuantity_grow ha hsa (toInt32 (ib.m_quantity : Int))
    defaultNotify (ne_of_gt hpos) (not_lt.mpr hnn)
  rw [hA]
  have c4 : ∀ x : World, ¬ ((true, x).1 = false) := fun _ h => Bool.noConfusion h
  simp only [Option.some_bind]
  rw [if_neg (c4 w1)]
  have hb1 : w1.get b = some ib := by
    rw [hw1.1 b, if_neg (Ne.symm hab)]; exact hb
  have hc1 : w1.get this = some c := by
    rw [hw1.1 this, if_neg (Ne.symm hat)]; exact hc
  obtain ⟨e1, _⟩ := toInt32_pos_small hq hpos
  have hu : toUint32 (toInt32 (ib.m_quantity : Int)) = ib.m_quantity := by
    rw [e1]; exact toUint32_small hq
  rw [hb1, Option.some_bind, if_pos hu]
  have hm1 := hw1.mapped (fun x =>
    { x with
      m_quantity := toUint32 (toInt32 ((ia.m_quantity : Int) + toInt32 ib.m_quantity)) }) ha
  have hl1 : ∀ id, w1.loaded id = w.loaded id :=
    World.loaded_mapped hm1 (fun p x => by by_cases e : p = a <;> simp [e])
  have hleaf1 : ib.m_contentsLoaded = true ∨ ∀ e ∈ w1.rows, e.2.locationID ≠ ib.m_itemID := by
    rcases hleaf with h | h
    · exact Or.inl h
    · right
      intro e he
      rw [hidb]
      rcases hw1.2.2.1 e he with h3 | h3
      · exact h e h3
      · rw [h3]
        show ia.m_locationID ≠ kb
        rw [hloca]
        exact Ne.symm hkbc
  have hk61 : ∀ p, mapFind 6 w1.m_items = some p → ∃ x, w1.get p = some x := by
    intro p hp
    rw [hw1.2.1] at hp
    obtain ⟨x, hx⟩ := hk6 p hp
    exact ⟨_, hm1.get_some hx⟩
  obtain ⟨w', nc, m, hD, hc', hnc, hm, hoth, hmi, hrows, hle⟩ := Delete_out fuel hb1
    (by rw [hw1.2.1, hidb]; exact hcb) (by rw [hw1.2.1, hlocb]; exact hcc) hc1 hld hbt
    (by rw [hidb]; exact hkb) hrc hcr hempty (by rw [hidb]; exact h6) hleaf1 hk61
    (by rw [hl1]; exact h6l)
  rw [hD]
  refine ⟨true, w', rfl, Or.inr ⟨nc, m,
    toUint32 (toInt32 ((ia.m_quantity : Int) + toInt32 ib.m_quantity)), hc', hnc, ?_, ?_,
    fun q hqa hqb hqt => ?_, ?_, fun e he => ?_, hle⟩⟩
  · rw [hidb] at hm
    exact hm
  · rw [hoth a hab hat]
    exact hw1.live
  · rw [hoth q hqb hqt, hw1.1 q, if_neg hqa]
  · rw [hmi, hw1.2.1, hidb]
  · rcases hw1.2.2.1 e (hrows e he).1 with h3 | h3
    · exact Or.inl h3
    · right
      rw [h3]
      exact hloca

/-- One `Merge` of the loop of `StackContainedItems`, whatever the reference counts within
their 16 bits are: the child `i` under the key `k` is referenced and merged into the child
`a` found before. Both calls return; the container has its members but for the count and the
map, which is the same or has lost the key `k`; `a` has its members but for the quantity; no
instance but the container, `a` and `i` changes; the cache is the same or has lost the key
`k`; no row is written but one located in the container; and the entries of the cache are
live, the counts fit their 16 bits and the disposal location is not resident as before. -/
theorem Stack_merge_soft {w : World} {this a i k : Nat} {c xa it : InventoryItem} (fuel : Nat)
    (hck : CacheKeyed w) (hr : ∀ p x, w.get p = some x → x.m_refCount < 2 ^ 16)
    (h6l : w.loaded 6 = none)
    (hc : w.get this = some c) (hcc : mapFind c.m_itemID w.m_items = some this)
    (hld : c.m_contentsLoaded = true)
    (hk : mapFind k c.m_contents = some i) (hi : w.get i = some it)
    (hci : mapFind k w.m_items = some i) (hloci : it.m_locationID = c.m_itemID)
    (hit : i ≠ this) (hempty : it.m_contents = []) (hrc2 : 2 ≤ it.m_refCount) (hk6 : k ≠ 6)
    (hq32 : it.m_quantity < 2 ^ 32)
    (hleaf : it.m_contentsLoaded = true ∨ ∀ e ∈ w.rows, e.2.locationID ≠ k)
    (hxa : w.get a = some xa) (hsa : xa.m_singleton = false)
    (hloca : xa.m_locationID = c.m_itemID) (hai : a ≠ i) (hat : a ≠ this) :
    ∃ r m nc mc qa, InventoryItem.Ref i w = some r ∧
      InventoryItem.Merge (fuel + 2) a r.1 0 defaultNotify r.2 = some m ∧
      m.2.get this = some { c with m_refCount := nc, m_contents := mc } ∧
      (mc = c.m_contents ∨ mc = mapErase k c.m_contents) ∧
      (∀ q, q ≠ this → q ≠ a → q ≠ i → m.2.get q = w.get q) ∧
      m.2.get a = some { xa with m_quantity := qa } ∧
      (∀ k0, k0 ≠ k → mapFind k0 m.2.m_items = mapFind k0 w.m_items) ∧
      CacheKeyed m.2 ∧ (∀ p x, m.2.get p = some x → x.m_refCount < 2 ^ 16) ∧
      m.2.loaded 6 = none ∧
      (∀ e ∈ m.2.rows, e ∈ w.rows ∨ e.2.locationID = c.m_itemID) := by
  have hidi : it.m_itemID = k := by
    obtain ⟨x, hx, hxi⟩ := hck k i hci
    rw [hi] at hx
    simp only [Option.some.injEq] at hx
    subst hx
    exact hxi
  have hilt := hr i it hi
  rcases Ref_soft hi with ⟨h0, _⟩ | ⟨_, hR⟩
  · omega
  have hg1 : ∀ q, (w.set i { it with m_refCount := (it.m_refCount + 1) % 2 ^ 16 }).get q
      = if q = i then some { it with m_refCount := (it.m_refCount + 1) % 2 ^ 16 }
        else w.get q := fun q => World.get_set_live hi q _
  have hb1 := hg1 i
  rw [if_pos rfl] at hb1
  have hc1 := hg1 this
  rw [if_neg (Ne.symm hit), hc] at hc1
  have hxa1 := hg1 a
  rw [if_neg hai, hxa] at hxa1
  have hm1 := World.mapped.mset hi
    (fun x => { x with m_refCount := (x.m_refCount + 1) % 2 ^ 16 })
  have hl1 : ∀ id, (w.set i { it with m_refCount := (it.m_refCount + 1) % 2 ^ 16 }).loaded id
      = w.loaded id :=
    World.loaded_mapped hm1 (fun p x => by by_cases e : p = i <;> simp [e])
  obtain ⟨ok, w2, hM, hcase⟩ := Merge_out fuel
    (w := w.set i { it with m_refCount := (it.m_refCount + 1) % 2 ^ 16 })
    (by
      intro p hp
      obtain ⟨x, hx, _⟩ := hck 6 p hp
      exact ⟨_, hm1.get_some hx⟩)
    (by rw [hl1]; exact h6l) hc1 hcc hld (hr this c hc) hxa1 hsa hloca hk hb1 hidi hci hloci
    hai hat hit hempty
    (by
      show (it.m_refCount + 1) % 2 ^ 16 = 0 ∨ 3 ≤ (it.m_refCount + 1) % 2 ^ 16
      omega)
    hk6 hq32 hleaf
  have h6p : ∀ p, mapFind 6 w.m_items = some p → p ≠ i ∧ p ≠ this := by
    intro p hp
    obtain ⟨x, hx, hxi⟩ := hck 6 p hp
    constructor
    · intro e
      subst e
      rw [hi] at hx
      simp only [Option.some.injEq] at hx
      subst hx
      exact hk6 (hidi.symm.trans hxi)
    · intro e
      subst e
      rw [hc] at hx
      simp only [Option.some.injEq] at hx
      subst hx
      rw [World.loaded_of hp hc hld] at h6l
      cases h6l
  rcases hcase with e | ⟨nc, mc, qa, hc2, hnc, hmc, ha2, hoth, hmi, hrows, hle⟩
  · subst e
    refine ⟨_, (ok, _), c.m_refCount, c.m_contents, xa.m_quantity, hR, hM, hc1, Or.inl rfl,
      fun q _ _ hqi => ?_, hxa1, fun _ _ => rfl, ?_, ?_, ?_, fun e he => Or.inl he⟩
    · show (w.set i { it with m_refCount := (it.m_refCount + 1) % 2 ^ 16 }).get q = w.get q
      rw [hg1, if_neg hqi]
    · intro k0 p hp
      obtain ⟨x, hx, hxi⟩ := hck k0 p hp
      exact ⟨_, hm1.get_some hx, by
        show (if p = i then _ else x).m_itemID = k0
        split <;> exact hxi⟩
    · intro p x hp
      have hp' : (w.set i { it with m_refCount := (it.m_refCount + 1) % 2 ^ 16 }).get p
          = some x := hp
      rw [hg1] at hp'
      by_cases e : p = i
      · rw [if_pos e] at hp'
        simp only [Option.some.injEq] at hp'
        rw [← hp']
        exact Nat.mod_lt _ (by decide)
      · rw [if_neg e] at hp'
        exact hr p x hp'
    · show (w.set i { it with m_refCount := (it.m_refCount + 1) % 2 ^ 16 }).loaded 6 = none
      rw [hl1]
      exact h6l
  · have hoth' : ∀ q, q ≠ this → q ≠ a → q ≠ i → w2.get q = w.get q := by
      intro q hqt hqa hqi
      rw [hoth q hqa hqi hqt, hg1, if_neg hqi]
    have hmi' : ∀ k0, k0 ≠ k → mapFind k0 w2.m_items = mapFind k0 w.m_items := by
      intro k0 hk0
      rw [hmi, mapFind_mapErase, if_neg hk0]
      rfl
    have hlive : ∀ p x, p ≠ i → w.get p = some x → ∃ x', w2.get p = some x' ∧
        x'.m_itemID = x.m_itemID ∧ x'.m_contentsLoaded = x.m_contentsLoaded ∧
        x'.m_refCount < 2 ^ 16 := by
      intro p x hpi hp
      by_cases e1 : p = this
      · subst e1
        rw [hc] at hp
        simp only [Option.some.injEq] at hp
        subst hp
        exact ⟨_, hc2, rfl, rfl, hnc⟩
      · by_cases e2 : p = a
        · subst e2
          rw [hxa] at hp
          simp only [Option.some.injEq] at hp
          subst hp
          exact ⟨_, ha2, rfl, rfl, hr p xa hxa⟩
        · exact ⟨x, by rw [hoth' p e1 e2 hpi]; exact hp, rfl, rfl, hr p x hp⟩
    refine ⟨_, (ok, w2), nc, mc, qa, hR, hM, hc2, hmc, hoth', ha2, hmi', ?_, ?_, ?_, hrows⟩
    · intro k0 p hp
      have hp' : mapFind k0 (mapErase k w.m_items) = some p := by
        rw [← hp, hmi]
        rfl
      rw [mapFind_mapErase] at hp'
      by_cases e : k0 = k
      · rw [if_pos e] at hp'
        cases hp'
      · rw [if_neg e] at hp'
        obtain ⟨x, hx, hxi⟩ := hck k0 p hp'
        have hpi : p ≠ i := by
          intro e2
          subst e2
          rw [hi] at hx
          simp only [Option.some.injEq] at hx
          subst hx
          exact e (hxi.symm.trans hidi)
        obtain ⟨x', hx', hid', _⟩ := hlive p x hpi hx
        exact ⟨x', hx', hid'.trans hxi⟩
    · intro p x hp
      by_cases e : p = i
      · subst e
        have := hle x hp
        have h2 : (it.m_refCount + 1) % 2 ^ 16 < 2 ^ 16 := Nat.mod_lt _ (by decide)
        exact lt_of_le_of_lt this h2
      · cases hw : w.get p with
        | none =>
          by_cases e1 : p = this
          · rw [e1, hc] at hw
            cases hw
          · by_cases e2 : p = a
            · rw [e2, hxa] at hw
              cases hw
            · rw [hoth' p e1 e2 e, hw] at hp
              cases hp
        | some x0 =>
          obtain ⟨x', hx', _, _, hlt⟩ := hlive p x0 e hw
          rw [hx'] at hp
          simp only [Option.some.injEq] at hp
          rw [← hp]
          exact hlt
    · unfold World.loaded at h6l ⊢
      rw [hmi' 6 (Ne.symm hk6)]
      cases hf : mapFind 6 w.m_items with
      | none => rfl
      | some p =>
        simp only [hf] at h6l
        obtain ⟨x, hx, _⟩ := hck 6 p hf
        obtain ⟨hpi, _⟩ := h6p p hf
        obtain ⟨x', hx', _, hl', _⟩ := hlive p x hpi hx
        simp only [hx] at h6l
        simp only [hx', hl']
        exact h6l


/-! ## The loop of `StackContainedItems`, whatever the reference counts are -/

/-- Two entries of a cache whose entries are live instances of their ids point to different
instances when their keys differ. -/
theorem keyed_ne {w : World} {k1 k2 p1 p2 : Nat} (hck : CacheKeyed w)
    (h1 : mapFind k1 w.m_items = some p1) (h2 : mapFind k2 w.m_items = some p2)
    (hne : k1 ≠ k2) : p1 ≠ p2 := by
  intro e
  subst e
  obtain ⟨x1, hx1, e1⟩ := hck k1 p1 h1
  obtain ⟨x2, hx2, e2⟩ := hck k2 p1 h2
  rw [hx1] at hx2
  simp only [Option.some.injEq] at hx2
  subst hx2
  exact hne (e1.symm.trans e2)

/-- The loop of `StackContainedItems` over the children of a resident container with its
contents loaded, in a world whose cache entries are live and whose counts fit their 16 bits,
every child at or after the cursor being the resident instance of its key, located in the
container, and, unless it is a singleton, a stack that can be merged away: with enough fuel
the loop returns, the container keeps its members but for the count and the map, which loses
entries only, and every instance that is a singleton, has another owner than the one asked
for, or is not a child of the container, is left as it was; the children that are singletons
or have another owner stay in the map. -/
theorem Stack_loop_soft (this forOwner : Nat) :
    ∀ (fuel : Nat) (cur : Option Nat) (types : AMap Nat) (w : World) (c : InventoryItem),
      CacheKeyed w → (∀ p x, w.get p = some x → x.m_refCount < 2 ^ 16) →
      w.loaded 6 = none → w.get this = some c →
      mapFind c.m_itemID w.m_items = some this → c.m_contentsLoaded = true →
      mapFind c.m_itemID c.m_contents = none →
      (∀ k, cur = some k → ∀ k0 q, k ≤ k0 → mapFind k0 c.m_contents = some q →
        ∃ x, w.get q = some x ∧ mapFind k0 w.m_items = some q ∧
          x.m_locationID = c.m_itemID ∧
          (x.m_singleton = true ∨
            (x.m_contents = [] ∧ 2 ≤ x.m_refCount ∧ k0 ≠ 6 ∧ x.m_quantity < 2 ^ 32 ∧
              (x.m_contentsLoaded = true ∨ ∀ e ∈ w.rows, e.2.locationID ≠ k0)))) →
      (∀ k, cur = some k → (mapFind k c.m_contents).isSome = true ∧
        (c.m_contents.filter fun e => decide (k ≤ e.1)).length + 2 ≤ fuel) →
      1 ≤ fuel →
      (∀ t a, mapFind t types = some a → ∃ ka xa, mapFind ka c.m_contents = some a ∧
        (∀ k, cur = some k → ka < k) ∧ w.get a = some xa ∧
        mapFind ka w.m_items = some a ∧ xa.m_locationID = c.m_itemID ∧
        xa.m_singleton = false ∧ (forOwner = xa.m_ownerID ∨ forOwner = 0)) →
      ∃ w' c', InventoryItem.StackContainedItems_loop fuel this forOwner cur types w
          = some w' ∧
        w'.get this = some c' ∧
        (∃ n m, c' = { c with m_refCount := n, m_contents := m }) ∧
        (∀ k q, mapFind k c'.m_contents = some q → mapFind k c.m_contents = some q) ∧
        (∀ q x, q ≠ this → w.get q = some x →
          (x.m_singleton = true ∨ ¬ (forOwner = x.m_ownerID ∨ forOwner = 0) ∨
            ∀ k, mapFind k c.m_contents ≠ some q) → w'.get q = some x) ∧
        (∀ k q x, mapFind k c.m_contents = some q → w.get q = some x →
          (x.m_singleton = true ∨ ¬ (forOwner = x.m_ownerID ∨ forOwner = 0)) →
          mapFind k c'.m_contents = some q) := by
  intro fuel
  induction fuel with
  | zero =>
    intro cur types w c _ _ _ _ _ _ _ _ _ hf _
    exact absurd hf (by decide)
  | succ fuel ih =>
    intro cur types w c hck hr h6l hc hcc hld hself hpend hcur _ htypes
    cases cur with
    | none =>
      exact ⟨w, c, Stack_loop_end fuel this forOwner types w, hc,
        ⟨c.m_refCount, c.m_contents, rfl⟩, fun _ _ h => h, fun q x _ hx _ => hx,
        fun _ _ _ h _ _ => h⟩
    | some k =>
      obtain ⟨hsome, hlen⟩ := hcur k rfl
      obtain ⟨i, hk⟩ := Option.isSome_iff_exists.1 hsome
      obtain ⟨it, hi, hci, hloci, hleafi⟩ := hpend k rfl k i (le_refl _) hk
      have hlen1 := filter_key_lt (Nat.lt_succ_self k) hsome
      have hf1 : 1 ≤ fuel := by omega
      have hnext : ∀ m' : AMap Nat, (m' = c.m_contents ∨ m' = mapErase k c.m_contents) →
          ∀ k', mapNext k c.m_contents = some k' → (mapFind k' m').isSome = true ∧
            (m'.filter fun e => decide (k' ≤ e.1)).length + 2 ≤ fuel := by
        intro m' hm' k' hk'
        obtain ⟨hlt, hs⟩ := mapNext_some hk'
        have h1 := filter_key_lt hlt hsome
        rcases hm' with rfl | rfl
        · exact ⟨hs, by omega⟩
        · refine ⟨by rw [mapFind_mapErase, if_neg (ne_of_gt hlt)]; exact hs, ?_⟩
          have := filter_erase_le (fun e => decide (k' ≤ e.1)) k c.m_contents
          omega
      have hltnext : ∀ k', mapNext k c.m_contents = some k' → k < k' :=
        fun k' hk' => (mapNext_some hk').1
      have hpendN : ∀ k', mapNext k c.m_contents = some k' → ∀ k0 q, k' ≤ k0 →
          mapFind k0 c.m_contents = some q →
          ∃ x, w.get q = some x ∧ mapFind k0 w.m_items = some q ∧
            x.m_locationID = c.m_itemID ∧
            (x.m_singleton = true ∨
              (x.m_contents = [] ∧ 2 ≤ x.m_refCount ∧ k0 ≠ 6 ∧ x.m_quantity < 2 ^ 32 ∧
                (x.m_contentsLoaded = true ∨ ∀ e ∈ w.rows, e.2.locationID ≠ k0))) :=
        fun k' hk' k0 q hle h0 =>
          hpend k rfl k0 q (le_trans (le_of_lt (hltnext k' hk')) hle) h0
      by_cases hcond : it.m_singleton = false ∧ (forOwner = it.m_ownerID ∨ forOwner = 0)
      · cases ht : mapFind it.m_type types with
        | none =>
          rw [Stack_loop_first hc hk hi hcond ht]
          refine ih _ _ w c hck hr h6l hc hcc hld hself
            (fun k' hk' => hpendN k' hk') (hnext _ (Or.inl rfl)) hf1 ?_
          intro t a hta
          rw [mapFind_mapInsert] at hta
          by_cases e : t = it.m_type
          · rw [if_pos e] at hta
            simp only [Option.some.injEq] at hta
            subst hta
            exact ⟨k, it, hk, hltnext, hi, hci, hloci, hcond.1, hcond.2⟩
          · rw [if_neg e] at hta
            obtain ⟨ka, xa, h1, h2, h3⟩ := htypes t a hta
            exact ⟨ka, xa, h1, fun k' hk' => lt_trans (h2 k rfl) (hltnext k' hk'), h3⟩
        | some a =>
          obtain ⟨ka, xa, hka, hlt, hxa, hca, hloca, hsa, hoa⟩ := htypes _ a ht
          have hkak : ka < k := hlt k rfl
          obtain ⟨f2, hf2⟩ : ∃ f2, fuel = f2 + 2 := ⟨fuel - 2, by omega⟩
          subst hf2
          have hkc : k ≠ c.m_itemID := by
            intro e
            rw [e, hself] at hk
            cases hk
          have hkac : ka ≠ c.m_itemID := by
            intro e
            rw [e, hself] at hka
            cases hka
          have hit : i ≠ this := keyed_ne hck hci hcc hkc
          have hat : a ≠ this := keyed_ne hck hca hcc hkac
          have hai : a ≠ i := keyed_ne hck hca hci (ne_of_lt hkak)
          rcases hleafi with hs1 | ⟨hempty, hrc2, hk6, hq32, hleaf⟩
          · rw [hcond.1] at hs1
            cases hs1
          obtain ⟨r, m, nc, mc, qa, hR, hM, hc2, hcont, hfr, hxa2, hmi, hck2, hr2, h6l2, hrows⟩ :=
            Stack_merge_soft f2 hck hr h6l hc hcc hld hk hi hci hloci hit hempty hrc2 hk6 hq32
              hleaf hxa hsa hloca hai hat
          rw [Stack_loop_merge hc hk hi hcond ht hR hM]
          have hsub : ∀ k0 q, mapFind k0 mc = some q → mapFind k0 c.m_contents = some q := by
            intro k0 q h
            rcases hcont with e | e
            · rw [e] at h; exact h
            · rw [e, mapFind_mapErase] at h
              by_cases e2 : k0 = k
              · rw [if_pos e2] at h
                exact absurd h (by simp)
              · rw [if_neg e2] at h
                exact h
          have hkeep : ∀ k0 q, k0 ≠ k → mapFind k0 c.m_contents = some q →
              mapFind k0 mc = some q := by
            intro k0 q hne h
            rcases hcont with e | e
            · rw [e]; exact h
            · rw [e, mapFind_mapErase, if_neg hne]; exact h
          have hself2 : mapFind c.m_itemID mc = none := by
            cases hf : mapFind c.m_itemID mc with
            | none => rfl
            | some q =>
              rw [hsub _ q hf] at hself
              exact absurd hself (by simp)
          have hne_a : ∀ q x, w.get q = some x →
              (x.m_singleton = true ∨ ¬ (forOwner = x.m_ownerID ∨ forOwner = 0) ∨
                ∀ k, mapFind k c.m_contents ≠ some q) → q ≠ a ∧ q ≠ i := by
            intro q x hx hskip
            constructor
            · intro e
              subst e
              rw [hxa] at hx
              simp only [Option.some.injEq] at hx
              subst hx
              rcases hskip with h | h | h
              · rw [hsa] at h
                exact absurd h (by simp)
              · exact h hoa
              · exact h ka hka
            · intro e
              subst e
              rw [hi] at hx
              simp only [Option.some.injEq] at hx
              subst hx
              rcases hskip with h | h | h
              · rw [hcond.1] at h
                exact absurd h (by simp)
              · exact h hcond.2
              · exact h k hk
          obtain ⟨w', c', hL, hc', ⟨n', m', hceq'⟩, hR2, hR1, hR3⟩ := ih
            (mapNext k c.m_contents) types m.2
            { c with m_refCount := nc, m_contents := mc } hck2 hr2 h6l2 hc2
            (by
              show mapFind c.m_itemID m.2.m_items = some this
              rw [hmi _ (Ne.symm hkc)]
              exact hcc)
            hld hself2
            (by
              intro k' hk' k0 q hle h0
              have h0c : mapFind k0 c.m_contents = some q := hsub k0 q h0
              have hk0 : k < k0 := lt_of_lt_of_le (hltnext k' hk') hle
              obtain ⟨x, hx, hcq, hlocq, hleafq⟩ := hpend k rfl k0 q (le_of_lt hk0) h0c
              have hk0c : k0 ≠ c.m_itemID := by
                intro e
                rw [e, hself] at h0c
                cases h0c
              have hqi : q ≠ i := keyed_ne hck hcq hci (ne_of_gt hk0)
              have hqa : q ≠ a := keyed_ne hck hcq hca (by omega)
              have hqt : q ≠ this := keyed_ne hck hcq hcc hk0c
              refine ⟨x, by rw [hfr q hqt hqa hqi]; exact hx,
                by rw [hmi k0 (ne_of_gt hk0)]; exact hcq, hlocq, ?_⟩
              rcases hleafq with h | ⟨h1, h2, h3, h4, h5⟩
              · exact Or.inl h
              · refine Or.inr ⟨h1, h2, h3, h4, ?_⟩
                rcases h5 with h5 | h5
                · exact Or.inl h5
                · right
                  intro e he
                  rcases hrows e he with h6 | h6
                  · exact h5 e h6
                  · rw [h6]
                    exact Ne.symm hk0c)
            (hnext mc hcont) hf1
            (by
              intro t a0 hta
              obtain ⟨ka0, xa0, h1, h2, h3, h4, h5, h6, h7⟩ := htypes t a0 hta
              have hk0 : ka0 ≠ k := ne_of_lt (h2 k rfl)
              refine ⟨ka0, ?_⟩
              by_cases e : a0 = a
              · subst e
                rw [hxa] at h3
                simp only [Option.some.injEq] at h3
                subst h3
                exact ⟨{ xa with m_quantity := qa }, hkeep _ _ hk0 h1,
                  fun k' hk' => lt_trans (h2 k rfl) (hltnext k' hk'), hxa2,
                  by rw [hmi _ hk0]; exact h4, h5, h6, h7⟩
              · have hka0c : ka0 ≠ c.m_itemID := by
                  intro e2
                  rw [e2, hself] at h1
                  cases h1
                have ha0t : a0 ≠ this := keyed_ne hck h4 hcc hka0c
                have ha0i : a0 ≠ i := keyed_ne hck h4 hci hk0
                exact ⟨xa0, hkeep _ _ hk0 h1,
                  fun k' hk' => lt_trans (h2 k rfl) (hltnext k' hk'),
                  by rw [hfr a0 ha0t e ha0i]; exact h3, by rw [hmi _ hk0]; exact h4, h5, h6,
                  h7⟩)
          refine ⟨w', c', hL, hc', ⟨n', m', hceq'⟩, fun k0 q h => hsub k0 q (hR2 k0 q h), ?_, ?_⟩
          · intro q x hqt hx hskip
            obtain ⟨hqa, hqi⟩ := hne_a q x hx hskip
            refine hR1 q x hqt (by rw [hfr q hqt hqa hqi]; exact hx) ?_
            rcases hskip with h | h | h
            · exact Or.inl h
            · exact Or.inr (Or.inl h)
            · exact Or.inr (Or.inr fun k0 h0 => h k0 (hsub k0 q h0))
          · intro k0 q x hk0 hx hskip
            have hskip3 : x.m_singleton = true ∨ ¬ (forOwner = x.m_ownerID ∨ forOwner = 0) ∨
                ∀ k, mapFind k c.m_contents ≠ some q := by
              rcases hskip with h | h
              · exact Or.inl h
              · exact Or.inr (Or.inl h)
            obtain ⟨hqa, hqi⟩ := hne_a q x hx hskip3
            have hk0k : k0 ≠ k := by
              intro e
              subst e
              rw [hk] at hk0
              exact hqi (Option.some.inj hk0).symm
            by_cases hqt : q = this
            · subst hqt
              rw [hc] at hx
              simp only [Option.some.injEq] at hx
              subst hx
              exact hR3 k0 q { c with m_refCount := nc, m_contents := mc }
                (hkeep k0 q hk0k hk0) hc2 hskip
            · exact hR3 k0 q x (hkeep k0 q hk0k hk0)
                (by rw [hfr q hqt hqa hqi]; exact hx) hskip
      · rw [Stack_loop_skip hc hk hi hcond]
        refine ih _ types w c hck hr h6l hc hcc hld hself
          (fun k' hk' => hpendN k' hk') (hnext _ (Or.inl rfl)) hf1 ?_
        intro t a hta
        obtain ⟨ka, xa, h1, h2, h3⟩ := htypes t a hta
        exact ⟨ka, xa, h1, fun k' hk' => lt_trans (h2 k rfl) (hltnext k' hk'), h3⟩


/-- C18: `StackContainedItems` never merges singletons. For a resident container with its
contents loaded in a well-formed world (the cache and the containment maps agree, the
disposal location 6 is not resident, the container does not hold itself, every child
that is not a singleton is a stack that holds nothing, is held by the cache and by the
container, and has a quantity that fits its `uint32` member, and every reference count fits
its 16 bits), for every flag and every owner filter, with fuel for every child,
`StackContainedItems` returns; every child with `singleton == true` is still in the map of
the container and its instance is as it was, so its quantity is unchanged; and the only
instances whose quantity is not what it was, or that are gone, are children that are not
singletons: no quantity moved from or to a singleton. -/
theorem C18_stack_keeps_singletons (w : World) (fuel this locFlag forOwner : Nat)
    (c : InventoryItem) (hcl : CacheLive w) (hmir : Mirrors w) (h6l : w.loaded 6 = none)
    (hc : w.get this = some c) (hcc : mapFind c.m_itemID w.m_items = some this)
    (hld : c.m_contentsLoaded = true) (hself : mapFind c.m_itemID c.m_contents = none)
    (hch : ∀ e ∈ c.m_contents, leafChild w e.2 = true)
    (hcount : ∀ p x, w.get p = some x → x.m_refCount < 2 ^ 16)
    (hfuel : c.m_contents.length + 2 ≤ fuel) :
    ∃ w' c', InventoryItem.StackContainedItems fuel this locFlag forOwner w = some w' ∧
      w'.get this = some c' ∧
      (∀ k s x, mapFind k c.m_contents = some s → w.get s = some x → x.m_singleton = true →
        mapFind k c'.m_contents = some s ∧ w'.get s = some x) ∧
      (∀ q x, w.get q = some x →
        (w'.get q).map (fun y => y.m_quantity) ≠ some x.m_quantity →
        x.m_singleton = false ∧ ∃ k, mapFind k c.m_contents = some q) := by
  obtain ⟨w', c', hL, hc', ⟨n', m', hceq⟩, _, hR1, hR3⟩ := Stack_loop_soft this forOwner fuel
    (mapFirst c.m_contents) [] w c hcl.keyed hcount h6l hc hcc hld hself
    (by
      intro k _ k0 q _ h0
      obtain ⟨x, hx, hleaf⟩ := leafChild_iff.1 (hch (k0, q) (mem_of_mapFind h0))
      obtain ⟨hcq, hid, hloc, _, _, _⟩ := child_facts hcl hmir hc hcc hld hself h0 hx
      refine ⟨x, hx, hcq, hloc, ?_⟩
      rcases hleaf with h | ⟨h1, h2, h3, h4, h5⟩
      · exact Or.inl h
      · rw [hid] at h3 h5
        exact Or.inr ⟨h1, h2, h3, h4, h5⟩)
    (fun k hk => ⟨mapFirst_some hk, by
      have := List.length_filter_le (fun e : Nat × Nat => decide (k ≤ e.1)) c.m_contents
      omega⟩)
    (by omega)
    (fun t a h => by simp [mapFind] at h)
  refine ⟨w', c', ?_, hc', ?_, ?_⟩
  · unfold InventoryItem.StackContainedItems
    rw [hc]
    exact hL
  · intro k s x hk hx hs
    obtain ⟨_, _, _, _, hst, _⟩ := child_facts hcl hmir hc hcc hld hself hk hx
    exact ⟨hR3 k s x hk hx (Or.inl hs), hR1 s x hst hx (Or.inl hs)⟩
  · intro q x hx hne
    by_cases hq : q = this
    · subst hq
      exfalso
      rw [hc] at hx
      simp only [Option.some.injEq] at hx
      subst hx
      apply hne
      rw [hc', hceq]
      rfl
    · by_contra hcon
      apply hne
      have hskip : x.m_singleton = true ∨ ¬ (forOwner = x.m_ownerID ∨ forOwner = 0) ∨
          ∀ k, mapFind k c.m_contents ≠ some q := by
        by_cases hs : x.m_singleton = true
        · exact Or.inl hs
        · right
          right
          intro k hk
          exact hcon ⟨by simpa using hs, k, hk⟩
      rw [hR1 q x hq hx hskip]
      rfl

/-- Witness of C18: the container of `exMixed` holds the stack 100, the singleton 101 and the
stack 102 of one type in one slot; after `StackContainedItems(4, 0)` the singleton is still
in the map of the container and its instance, with quantity 1, is as it was. -/
theorem C18_stack_keeps_singletons_witness :
    ∃ w' c', InventoryItem.StackContainedItems 5 3 4 0 exMixed = some w' ∧
      w'.get 3 = some c' ∧ mapFind 101 c'.m_contents = some 2 ∧
      w'.get 2 = some { exStackAt 2 101 1 4 with m_singleton := true } := by
  obtain ⟨w', c', h1, h2, h3, _⟩ := C18_stack_keeps_singletons exMixed 5 3 4 0
    (exContainer 1 60 [(100, 1), (101, 2), (102, 4)])
    (cacheLive_of_check (by decide)) (mirrors_of_check (by decide)) (by decide) (by decide)
    (by decide) (by decide) (by decide) (by decide)
    (fun p x hp => room_of_check (by decide : roomB exMixed 0 = true) p x hp) (by decide)
  obtain ⟨h4, h5⟩ := h3 101 2 { exStackAt 2 101 1 4 with m_singleton := true }
    (by decide) (by decide) rfl
  exact ⟨w', c', h1, h2, h4, h5⟩


/-- C17 (failing input): `StackContainedItems` touches children outside the slot asked for.
In `exMixed` the container 60 holds the stack 100 (quantity 5), the singleton 101 and the
stack 102 (quantity 2), all in slot 4. `StackContainedItems(5, 0)` asks for slot 5, which
none of them is in; yet the call returns with the stack 102 merged into the stack 100: the
stack 100 has quantity 7, and the stack 102 is gone from the map of the container and from
the cache and its instance is freed. The argument `locFlag` is not looked at. -/
theorem C17_stack_ignores_slot :
    ∃ w' c', InventoryItem.StackContainedItems 5 3 5 0 exMixed = some w' ∧
      (exMixed.get 1).map (fun x => (x.m_flag, x.m_quantity)) = some (4, 5) ∧
      (exMixed.get 4).map (fun x => (x.m_flag, x.m_quantity)) = some (4, 2) ∧
      (exMixed.get 3).map (fun x => x.m_contents) = some [(100, 1), (101, 2), (102, 4)] ∧
      (w'.get 1).map (fun x => (x.m_flag, x.m_quantity)) = some (4, 7) ∧
      w'.get 4 = none ∧ mapFind 102 w'.m_items = none ∧
      w'.get 3 = some c' ∧ c'.m_contents = [(100, 1), (101, 2)] := by
  have hc : exMixed.get 3 = some (exContainer 1 60 [(100, 1), (101, 2), (102, 4)]) := by
    decide
  have e0 : InventoryItem.StackContainedItems 5 3 5 0 exMixed
      = InventoryItem.StackContainedItems_loop 5 3 0 (some 100) [] exMixed := by
    have hf : mapFirst (exContainer 1 60 [(100, 1), (101, 2), (102, 4)]).m_contents
        = some 100 := rfl
    unfold InventoryItem.StackContainedItems
    rw [hc, Option.some_bind, hf]
  have hn1 : mapNext 100 (exContainer 1 60 [(100, 1), (101, 2), (102, 4)]).m_contents
      = some 101 := by decide
  have hn2 : mapNext 101 (exContainer 1 60 [(100, 1), (101, 2), (102, 4)]).m_contents
      = some 102 := by decide
  have hn3 : mapNext 102 (exContainer 1 60 [(100, 1), (101, 2), (102, 4)]).m_contents
      = none := by decide
  have ht1 : mapInsert (exStackAt 2 100 5 4).m_type 1 ([] : AMap Nat) = [(34, 1)] := rfl
  have e1 := @Stack_loop_first 4 3 0 100 1 [] exMixed _ (exStackAt 2 100 5 4) hc (by decide)
    (by decide) (by decide) (by decide)
  rw [hn1, ht1] at e1
  have e2 := @Stack_loop_skip 3 3 0 101 2 [(34, 1)] exMixed _
    { exStackAt 2 101 1 4 with m_singleton := true } hc (by decide) (by decide) (by decide)
  rw [hn2] at e2
  have hR : InventoryItem.Ref 4 exMixed
      = some (4, exMixed.set 4 (exStackAt 3 102 2 4)) := by decide
  obtain ⟨ok, w2, hM, _, hyes⟩ := @Merge_child (exMixed.set 4 (exStackAt 3 102 2 4)) 3 1 4
    100 102 (exContainer 1 60 [(100, 1), (101, 2), (102, 4)]) (exStackAt 2 100 5 4)
    (exStackAt 3 102 2 4) 0 (cacheLive_of_check (by decide)) (mirrors_of_check (by decide))
    (by decide) (by decide) (by decide) (by decide) (by decide) (by decide) (by decide)
    (by decide) (by decide) (by decide) (by decide) (by decide) (by decide) (by decide)
    (by decide) (by decide) (Or.inr (by decide))
  have e3 := @Stack_loop_merge 2 3 0 102 4 1 [(34, 1)] exMixed _ (exStackAt 2 102 2 4)
    (4, exMixed.set 4 (exStackAt 3 102 2 4)) (ok, w2) hc (by decide) (by decide) (by decide)
    (by decide) hR hM
  rw [hn3] at e3
  obtain ⟨p1, p2, _, p4, _, _, _, _, p9⟩ := hyes (by decide)
  refine ⟨w2, _, ?_, by decide, by decide, by decide, ?_, p9 (by decide), ?_, p2, by decide⟩
  · rw [e0, e1, e2, e3]
    exact Stack_loop_end 1 3 0 [(34, 1)] w2
  · rw [p1]
    decide
  · rw [p4]
    decide


/-! ## `Delete` of an item whose listed children cannot be loaded -/

/-- The method `Delete` of a cached item with an empty map that the caller has a reference to, when
every child that the database lists for it is not resident and cannot be loaded: the call
returns, the item is evicted and its row is deleted, and every other row of the database is
as it was, the rows of the listed children among them. -/
theorem Delete_skips {w : World} {b : Nat} {ib : InventoryItem} (fuel : Nat)
    (hb : w.get b = some ib) (hcache : mapFind ib.m_itemID w.m_items = some b)
    (hcl : CacheLive w) (hmir : Mirrors w)
    (hrc : 2 + (if (w.loaded ib.m_locationID).isSome then 1 else 0) ≤ ib.m_refCount)
    (hcmax : ∀ pc c, w.loaded ib.m_locationID = some pc → w.get pc = some c →
      c.m_refCount + 1 < 2 ^ 16)
    (hempty : ib.m_contents = []) (h6 : ib.m_itemID ≠ 6) (h6l : w.loaded 6 = none)
    (hskip : ib.m_contentsLoaded = true ∨ ∀ e ∈ w.rows, e.2.locationID = ib.m_itemID →
      e.1 ≠ ib.m_itemID ∧ mapFind e.1 w.m_items = none ∧
      ∀ d, mapFind e.1 w.rows = some d → mapFind d.typeID w.types = none) :
    ∃ w', InventoryItem.Delete (fuel + 4) b w = some w' ∧
      w'.m_items = mapErase ib.m_itemID w.m_items ∧
      (∀ k, k ≠ ib.m_itemID → mapFind k w'.rows = mapFind k w.rows) ∧
      mapFind ib.m_itemID w'.rows = none ∧
      (ib.m_refCount = 2 + (if (w.loaded ib.m_locationID).isSome then 1 else 0) →
        w'.get b = none) := by
  obtain ⟨w8, l, h8, hb8, _, hm8, hr8, _, hro8, _⟩ :=
    Delete_upToTest_empty (fuel + 2) hb hcache hcl hmir hrc hcmax hempty h6l
      (by
        intro w3 x hx hid hld hm3 hty3 hro3 hloc3
        refine LoadContents_skips fuel true hx ?_
        rcases hskip with h | h
        · exact Or.inl (hld.trans h)
        · right
          intro e he heloc
          rw [hid] at heloc
          have he0 : e ∈ w.rows := by
            rcases hloc3 e he with h1 | h1
            · exact h1
            · rw [h1] at heloc
              exact absurd heloc.symm h6
          obtain ⟨h1, h2, h3⟩ := h e he0 heloc
          refine ⟨by rw [hm3]; exact h2, fun d hd => ?_⟩
          rw [hro3 e.1 h1] at hd
          rw [hty3]
          exact h3 d hd)
  obtain ⟨w', hD, _, hm, hdb, hfree⟩ := Delete_after_upToTest h8 hb8 hempty
  have hr' : w'.rows = w8.rows := @congrArg World _ w'.db w8.db World.rows hdb
  refine ⟨w', hD, hm.trans hm8, fun k hk => ?_, ?_, fun h2 => ?_⟩
  · rw [hr']; exact hro8 k hk
  · rw [hr', mapFind_none_iff]
    exact fun e he => (hr8 e he).2
  · apply hfree
    show ib.m_refCount - (if (w.loaded ib.m_locationID).isSome then 1 else 0) - 1 = 1
    omega


/-! ## Maps in key order -/

theorem mapFind_of_mem_sorted {α : Type} {m : AMap α} (hs : mapSorted m) {e : Nat × α}
    (he : e ∈ m) : mapFind e.1 m = some e.2 := by
  induction m with
  | nil => simp at he
  | cons e0 t ih =>
    obtain ⟨k0, v0⟩ := e0
    rcases List.mem_cons.1 he with h | h
    · subst h
      simp [mapFind]
    · have hlt := mapSorted_head_lt hs e h
      have hne : k0 ≠ e.1 := ne_of_lt hlt
      simp only [mapFind, hne, if_false]
      exact ih (mapSorted_tail hs) h

theorem mapErase_head_sorted {α : Type} {e : Nat × α} {t : AMap α}
    (hs : mapSorted (e :: t)) : mapErase e.1 (e :: t) = t := by
  obtain ⟨k0, v0⟩ := e
  simp only [mapErase, if_true]
  apply mapErase_of_not_mem
  intro e' he'
  exact ne_of_gt (mapSorted_head_lt hs e' he')

/-- A child of a resident node with its contents loaded and a map in key order: the child is
the resident instance of its key, located in the node. -/
theorem child_of_node {w : World} {p : Nat} {x : InventoryItem} {e : Nat × Nat}
    (hcl : CacheLive w) (hmir : Mirrors w) (hx : w.get p = some x)
    (hc : mapFind x.m_itemID w.m_items = some p) (hs : mapSorted x.m_contents)
    (hld : x.m_contentsLoaded = true) (he : e ∈ x.m_contents) :
    mapFind e.1 x.m_contents = some e.2 ∧ w.loaded x.m_itemID = some p ∧
      mapFind e.1 w.m_items = some e.2 ∧
      ∃ y, w.get e.2 = some y ∧ y.m_itemID = e.1 ∧ y.m_locationID = x.m_itemID := by
  have hf := mapFind_of_mem_sorted hs he
  obtain ⟨hc', y, hy, hloc⟩ := (hmir x.m_itemID p x hc hx hld e.1 e.2).1 hf
  obtain ⟨y', hy', hid, _⟩ := hcl e.1 e.2 hc'
  rw [hy] at hy'
  simp only [Option.some.injEq] at hy'
  subst hy'
  exact ⟨hf, World.loaded_of hc hx hld, hc', y, hy, hid, hloc⟩


/-! ## The steps of `Delete` around the deletion of the children -/

/-- The first steps of `Delete` for a cached item that is not its own container: the `Move`
to the disposal location and the `ChangeOwner` to the system owner return; the item is
detached from its container, if that is resident with its contents loaded, and nothing else
changes in memory; no row is written but the one of the item, whose location is then 6. -/
theorem Delete_prefix {w : World} {b : Nat} {ib : InventoryItem} (fuel : Nat)
    (hb : w.get b = some ib) (hcache : mapFind ib.m_itemID w.m_items = some b)
    (hcl : CacheLive w) (hmir : Mirrors w)
    (hrc : 2 + (if (w.loaded ib.m_locationID).isSome then 1 else 0) ≤ ib.m_refCount)
    (hcmax : ∀ pc c, w.loaded ib.m_locationID = some pc → w.get pc = some c →
      c.m_refCount + 1 < 2 ^ 16)
    (hself : w.loaded ib.m_locationID ≠ some b) (h6l : w.loaded 6 = none) :
    ∃ w2 w3, InventoryItem.Move fuel b 6 flagAutoFit defaultNotify w = some w2 ∧
      InventoryItem.ChangeOwner b 2 defaultNotify w2 = some w3 ∧
      w3.get b = some
        { ib with
          m_refCount := ib.m_refCount - (if (w.loaded ib.m_locationID).isSome then 1 else 0)
          m_locationID := 6
          m_flag := flagAutoFit
          m_ownerID := 2 } ∧
      (∀ q, q ≠ b → w3.get q = (w.get q).map fun x =>
        { x with
          m_contents :=
            if w.loaded ib.m_locationID = some q then mapErase ib.m_itemID x.m_contents
            else x.m_contents }) ∧
      w3.m_items = w.m_items ∧ (∀ e ∈ w3.rows, e ∈ w.rows ∨ e.1 = ib.m_itemID) ∧
      (∀ e ∈ w3.rows, e ∈ w.rows ∨ e.2.locationID = 6) ∧
      w3.attrRows = w.attrRows ∧
      CacheLive w3 ∧ Mirrors w3 ∧ (∀ k, w3.loaded k = w.loaded k) := by
  have hrc' : (w.loaded ib.m_locationID).isSome → 2 ≤ ib.m_refCount :=
    fun _ => le_trans (Nat.le_add_right 2 _) hrc
  -- the `Move`
  have hMove : ∃ w2, InventoryItem.Move fuel b 6 flagAutoFit defaultNotify w = some w2 ∧
      w2.get b = some
        { ib with
          m_refCount := ib.m_refCount - (if (w.loaded ib.m_locationID).isSome then 1 else 0)
          m_locationID := 6
          m_flag := flagAutoFit } ∧
      (∀ q, q ≠ b → w2.get q = (w.get q).map fun x =>
        { x with
          m_contents :=
            if w.loaded ib.m_locationID = some q then mapErase ib.m_itemID x.m_contents
            else x.m_contents }) ∧
      w2.m_items = w.m_items ∧ CacheLive w2 ∧ Mirrors w2 ∧ (∀ k, w2.loaded k = w.loaded k) := by
    by_cases hnop : 6 = ib.m_locationID ∧ flagAutoFit = ib.m_flag
    · have hM : InventoryItem.Move fuel b 6 flagAutoFit defaultNotify w = some w := by
        unfold InventoryItem.Move
        rw [hb]
        exact if_pos hnop
      have hdet : w.loaded ib.m_locationID = none := by rw [← hnop.1]; exact h6l
      refine ⟨w, hM, ?_, fun q _ => ?_, rfl, hcl, hmir, fun _ => rfl⟩
      · rw [hb, hdet, hnop.1, hnop.2]
        rfl
      · rw [hdet]
        cases w.get q <;> rfl
    · obtain ⟨w2, hM, hmap⟩ := Move_fwd fuel 6 flagAutoFit defaultNotify hb hcache hcl hmir
        hrc' (fun pc c hpc hc => hcmax pc c (hpc.resolve_right (by rw [h6l]; simp)) hc)
        (fun pn hpn => by rw [h6l] at hpn; simp at hpn) hnop
      obtain ⟨hcl2, hmir2, hl2⟩ := Move_post hb hcache hcl hmir hrc' hmap
      rw [h6l] at hmap
      refine ⟨w2, hM, ?_, fun q hq => ?_, hmap.2, hcl2, hmir2, hl2⟩
      · rw [hmap.1 b, hb]
        simp only [Option.map_some', moveF, if_true, Option.isSome_none, Bool.false_eq_true,
          if_false, Nat.add_zero, Option.some.injEq, if_neg hself]
        simp
      · rw [hmap.1 q]
        cases w.get q with
        | none => rfl
        | some x =>
          simp only [Option.map_some', moveF, if_neg hq, Option.some.injEq]
          rfl
  obtain ⟨w2, hM, hb2, hoth2, hm2, hcl2, hmir2, hl2⟩ := hMove
  have hst := Move_static hb hM hb2
  have hkey2 : ∀ e ∈ w2.rows, e ∈ w.rows ∨ e.1 = ib.m_itemID :=
    fun e he => Move_rows_key hb hM hb2 e he
  obtain ⟨w3, hCO, hw3⟩ := ChangeOwner_fwd hb2 2 defaultNotify
  obtain ⟨_, hat3, _⟩ := ChangeOwner_static hb2 hCO
  have hmap3 := World.wrote.mapped (fun x : InventoryItem => { x with m_ownerID := 2 }) hw3 hb2
  obtain ⟨hcl3, hmir3⟩ := inv_of_mapped hmap3
    (fun q x => by by_cases h : q = b <;> simp [h]) hcl2 hmir2
  have hl3 : ∀ k, w3.loaded k = w2.loaded k :=
    World.loaded_mapped hmap3 (fun q x => by by_cases h : q = b <;> simp [h])
  refine ⟨w2, w3, hM, hCO, hw3.live, fun q hq => ?_, hw3.2.1.trans hm2, fun e he => ?_,
    fun e he => ?_, hat3.trans hst.2.1, hcl3, hmir3, fun k => (hl3 k).trans (hl2 k)⟩
  · rw [hw3.1 q, if_neg hq, hoth2 q hq]
  · rcases hw3.2.2.1 e he with h1 | h1
    · exact hkey2 e h1
    · right
      rw [h1]
  · rcases hw3.2.2.1 e he with h1 | h1
    · rcases Move_rows hM e h1 with h2 | h2
      · exact Or.inl h2
      · exact Or.inr h2
    · right
      rw [h1]
      rfl

/-- The steps of `Delete` after the deletion of the children, up to the test of the reference
count, for a cached item that the cache is not the only holder of: the map is cleared, the
item is evicted from the cache, and its attributes and its row are deleted. -/
theorem Delete_suffix {w : World} {b : Nat} {x : InventoryItem} (fuel : Nat)
    (hb : w.get b = some x) (hcache : mapFind x.m_itemID w.m_items = some b)
    (hrc : 2 ≤ x.m_refCount) :
    ∃ w7, ItemFactory._DeleteItem fuel x.m_itemID (w.set b { x with m_contents := [] })
        = some w7 ∧
      w7.get b = some { x with m_contents := [], m_refCount := x.m_refCount - 1 } ∧
      (∀ q, q ≠ b → w7.get q = w.get q) ∧ w7.m_items = mapErase x.m_itemID w.m_items ∧
      w7.rows = w.rows ∧ w7.attrRows = w.attrRows := by
  have hb5 : (w.set b { x with m_contents := [] }).get b = some { x with m_contents := [] } := by
    rw [World.get_set_live hb]; simp
  obtain ⟨w7, hD, hb7, hoth7, hm7, hr7, ha7⟩ := DeleteItem_evicts fuel hb5 hcache hrc
  refine ⟨w7, hD, hb7, fun q hq => ?_, hm7, hr7, ha7⟩
  rw [hoth7 q hq, World.get_set_live hb, if_neg hq]

/-- The cache after the entry of the item at `b` was erased: what is left are the entries
of the other instances. -/
theorem cache_erase_iff {w : World} {b : Nat} {ib : InventoryItem} (hcl : CacheLive w)
    (hcache : mapFind ib.m_itemID w.m_items = some b) (k p : Nat) :
    mapFind k (mapErase ib.m_itemID w.m_items) = some p ↔
      mapFind k w.m_items = some p ∧ p ≠ b := by
  rw [mapFind_mapErase]
  by_cases e : k = ib.m_itemID
  · rw [if_pos e]
    constructor
    · intro h
      exact absurd h (by simp)
    · rintro ⟨h, hp⟩
      rw [e, hcache] at h
      simp only [Option.some.injEq] at h
      exact absurd h.symm hp
  · rw [if_neg e]
    constructor
    · intro h
      refine ⟨h, fun hp => e ?_⟩
      subst hp
      exact cache_key_unique hcl h hcache
    · exact fun h => h.1


/-- C21: `AddContainedItem` rejects a second representation of an identity. For every live
container whose map already holds an instance `x` under the id of the live instance `y`,
`AddContainedItem(y)` returns with the whole world state exactly as it was: the map still
holds `x` under that id and no reference count has changed, that of `x` and that of `y`
included. This holds whether or not `x` is `y`, so in particular for a different instance. -/
theorem C21_add_rejects_second_instance (w : World) (this x y : Nat) (c iy : InventoryItem)
    (hc : w.get this = some c) (hy : w.get y = some iy)
    (hx : mapFind iy.m_itemID c.m_contents = some x) :
    InventoryItem.AddContainedItem this y w = some w := by
  unfold InventoryItem.AddContainedItem
  simp only [hc, hy, hx]

/-- Witness of C21: in `exTwin` the map of the container 60 holds the instance at address 1
under the id 100; adding the other instance of the item 100, at address 2, changes nothing. -/
theorem C21_add_rejects_second_instance_witness :
    InventoryItem.AddContainedItem 3 2 exTwin = some exTwin ∧
      (exTwin.get 3).map (fun c => mapFind 100 c.m_contents) = some (some 1) :=
  ⟨C21_add_rejects_second_instance exTwin 3 1 2 (exContainer 1 60 [(100, 1)]) (exStack 1 100 5)
    (by decide) (by decide) (by decide), by decide⟩


/-- The pair of calls `AddContainedItem(child)`, `RemoveContainedItem(child)` on a child that
holds a reference and whose id is not in the map. -/
theorem add_remove_live {w : World} {this it : Nat} {c i : InventoryItem} (fuel : Nat)
    (hc : w.get this = some c) (hi : w.get it = some i)
    (hf : mapFind i.m_itemID c.m_contents = none) (hrc : 1 ≤ i.m_refCount)
    (hmax : i.m_refCount + 1 < 2 ^ 16) :
    ∃ w1 w2, InventoryItem.AddContainedItem this it w = some w1 ∧
      InventoryItem.RemoveContainedItem fuel this it w1 = some w2 ∧
      (∀ q, w2.get q = w.get q) ∧ w2.m_items = w.m_items := by
  obtain ⟨w1, h1, hm1⟩ := AddContainedItem_mapped hc hi hf hrc hmax
  have hc1 := hm1.get_some hc
  have hi1 := hm1.get_some hi
  obtain ⟨w2, h2, hm2⟩ := @RemoveContainedItem_mapped w1 this it it _ _ _ fuel hc1 hi1
    (by
      show mapFind i.m_itemID (if this = this then mapInsert i.m_itemID it c.m_contents
        else c.m_contents) = some it
      rw [if_pos rfl, mapFind_mapInsert, if_pos rfl])
    hi1
    (by
      show 2 ≤ (if it = it then i.m_refCount + 1 else i.m_refCount)
      rw [if_pos rfl]
      omega)
  refine ⟨w1, w2, h1, h2, fun q => ?_, hm2.2.trans hm1.2⟩
  rw [hm2.1 q, hm1.1 q]
  cases hq : w.get q with
  | none => rfl
  | some x =>
    simp only [Option.map_some', Option.some.injEq]
    have hcont : (if q = this then mapErase i.m_itemID
        (if q = this then mapInsert i.m_itemID it x.m_contents else x.m_contents)
        else (if q = this then mapInsert i.m_itemID it x.m_contents else x.m_contents))
        = x.m_contents := by
      by_cases e : q = this
      · rw [if_pos e, if_pos e]
        subst e
        rw [hc] at hq
        simp only [Option.some.injEq] at hq
        subst hq
        exact mapErase_mapInsert_self it hf
      · rw [if_neg e, if_neg e]
    have hrcq : (if q = it then (if q = it then x.m_refCount + 1 else x.m_refCount) - 1
        else (if q = it then x.m_refCount + 1 else x.m_refCount)) = x.m_refCount := by
      by_cases e : q = it
      · rw [if_pos e, if_pos e]
        omega
      · rw [if_neg e, if_neg e]
    show ({ x with
      m_refCount := if q = it then (if q = it then x.m_refCount + 1 else x.m_refCount) - 1
        else (if q = it then x.m_refCount + 1 else x.m_refCount)
      m_contents := if q = this then mapErase i.m_itemID
        (if q = this then mapInsert i.m_itemID it x.m_contents else x.m_contents)
        else (if q = this then mapInsert i.m_itemID it x.m_contents else x.m_contents) } :
      InventoryItem) = x
    rw [hcont, hrcq]

/-- The pair of calls `AddContainedItem(child)`, `RemoveContainedItem(child)` on a child that
holds no reference and whose id is not in the map: `Ref` gives null, the map holds the null
pointer under the id for a while, and `Release` of it does nothing. -/
theorem add_remove_dead {w : World} {this it : Nat} {c i : InventoryItem} (fuel : Nat)
    (hc : w.get this = some c) (hi : w.get it = some i)
    (hf : mapFind i.m_itemID c.m_contents = none) (hrc : i.m_refCount < 1) :
    ∃ w1 w2, InventoryItem.AddContainedItem this it w = some w1 ∧
      InventoryItem.RemoveContainedItem fuel this it w1 = some w2 ∧
      (∀ q, w2.get q = w.get q) ∧ w2.m_items = w.m_items := by
  have hR : InventoryItem.Ref it w = some (0, w) := by
    unfold InventoryItem.Ref
    rw [if_neg (World.get_ne_zero hi)]
    simp only [hi]
    rw [if_pos hrc]
  have h1 : InventoryItem.AddContainedItem this it w
      = some (w.set this { c with m_contents := mapInsert i.m_itemID 0 c.m_contents }) := by
    unfold InventoryItem.AddContainedItem
    simp only [hc, hi, hf, hR]
  have hc1 : (w.set this { c with m_contents := mapInsert i.m_itemID 0 c.m_contents }).get this
      = some { c with m_contents := mapInsert i.m_itemID 0 c.m_contents } := by
    rw [World.get_set_live hc, if_pos rfl]
  obtain ⟨i1, hi1, hid⟩ : ∃ i1,
      (w.set this { c with m_contents := mapInsert i.m_itemID 0 c.m_contents }).get it
        = some i1 ∧ i1.m_itemID = i.m_itemID := by
    rw [World.get_set_live hc]
    by_cases e : it = this
    · rw [if_pos e]
      refine ⟨_, rfl, ?_⟩
      rw [e, hc] at hi
      simp only [Option.some.injEq] at hi
      rw [← hi]
    · rw [if_neg e]
      exact ⟨i, hi, rfl⟩
  have hR0 : ∀ v : World, InventoryItem.Release fuel 0 v = some v := by
    intro v
    unfold InventoryItem.Release
    rw [if_pos rfl]
  have h2 : InventoryItem.RemoveContainedItem fuel this it
      (w.set this { c with m_contents := mapInsert i.m_itemID 0 c.m_contents })
      = some ((w.set this { c with m_contents := mapInsert i.m_itemID 0 c.m_contents }).set this
          { c with m_contents := mapErase i.m_itemID (mapInsert i.m_itemID 0 c.m_contents) }) := by
    unfold InventoryItem.RemoveContainedItem
    simp only [hc1, hi1, hid, mapFind_mapInsert, if_true, hR0]
  refine ⟨_, _, h1, h2, fun q => ?_, rfl⟩
  rw [World.get_set_live hc1, World.get_set_live hc, mapErase_mapInsert_self 0 hf]
  by_cases e : q = this
  · rw [if_pos e, e, hc]
  · rw [if_neg e, if_neg e]

/-- C22 (as amended): `RemoveContainedItem` undoes `AddContainedItem` below the largest
reference count. For every live container and every live child whose id is not in the map of
the container and whose reference count is below 65535, `AddContainedItem(child)` and then
`RemoveContainedItem(child)` both return, and afterwards every instance is exactly as it was
before the two calls, the containment map of the container and the reference count of the
child included, and so is the cache. And `RemoveContainedItem` of a child whose id is not in
the map returns with the whole world state unchanged, whatever the counts. -/
theorem C22_remove_undoes_add (w : World) (fuel this it : Nat) (c i : InventoryItem)
    (hc : w.get this = some c) (hi : w.get it = some i)
    (hf : mapFind i.m_itemID c.m_contents = none) :
    (i.m_refCount + 1 < 2 ^ 16 →
      ∃ w1 w2, InventoryItem.AddContainedItem this it w = some w1 ∧
        InventoryItem.RemoveContainedItem fuel this it w1 = some w2 ∧
        (∀ q, w2.get q = w.get q) ∧ w2.m_items = w.m_items) ∧
    InventoryItem.RemoveContainedItem fuel this it w = some w := by
  constructor
  · intro hmax
    by_cases hrc : 1 ≤ i.m_refCount
    · exact add_remove_live fuel hc hi hf hrc hmax
    · exact add_remove_dead fuel hc hi hf (by omega)
  · unfold InventoryItem.RemoveContainedItem
    simp only [hc, hi, hf]

/-- Witness of C22: the stack 100 is added to the empty container 61 and removed again. -/
theorem C22_remove_undoes_add_witness :
    ∃ w1 w2, InventoryItem.AddContainedItem 4 1 exHangar = some w1 ∧
      InventoryItem.RemoveContainedItem 0 4 1 w1 = some w2 ∧
      w2.get 4 = some (exContainer 1 61 []) ∧ w2.get 1 = some (exStack 2 100 5) := by
  obtain ⟨h, _⟩ := C22_remove_undoes_add exHangar 0 4 1
    (exContainer 1 61 []) (exStack 2 100 5) (by decide) (by decide) (by decide)
  obtain ⟨w1, w2, h1, h2, h3, _⟩ := h (by decide)
  exact ⟨w1, w2, h1, h2, by rw [h3 4]; decide, by rw [h3 1]; decide⟩

/-- Counterexample to C22 as stated: the stack 100 holds the largest reference count 65535
and its id is not in the map of the live container 61. `AddContainedItem` wraps the count of
the stack around to 0, the `Release` inside `RemoveContainedItem` then finds no reference to
give up, and after the two calls the map is as it was but the count of the stack is 0 instead
of 65535. -/
theorem C22_counterexample :
    ((exLoose 65535).get 4).map (fun x => x.m_contents) = some [] ∧
    ((exLoose 65535).get 1).map (fun x => x.m_refCount) = some 65535 ∧
    ((InventoryItem.AddContainedItem 4 1 (exLoose 65535)).bind fun w1 =>
      (InventoryItem.RemoveContainedItem 0 4 1 w1).bind fun w2 =>
      (w2.get 4).map fun x => x.m_contents) = some [] ∧
    ((InventoryItem.AddContainedItem 4 1 (exLoose 65535)).bind fun w1 =>
      (InventoryItem.RemoveContainedItem 0 4 1 w1).bind fun w2 =>
      (w2.get 1).map fun x => x.m_refCount) = some 0 := by
  refine ⟨by decide, by decide, by decide, by decide⟩


/-- The loop of the destructor over a map whose entries point to instances that hold more
references than the map has entries for them: each instance loses one reference for each
entry that points to it. -/
theorem Release_children (fuel : Nat) : ∀ (l : AMap Nat) (v : World),
    (∀ e ∈ l, ∃ x, v.get e.2 = some x ∧ (l.map Prod.snd).count e.2 + 1 ≤ x.m_refCount) →
    ∃ v', l.foldlM (fun acc e => InventoryItem.Release fuel e.2 acc) v = some v' ∧
      ∀ q, v'.get q = (v.get q).map fun x =>
        { x with m_refCount := x.m_refCount - (l.map Prod.snd).count q } := by
  intro l
  induction l with
  | nil =>
    intro v _
    refine ⟨v, rfl, fun q => ?_⟩
    cases v.get q <;> rfl
  | cons e t ih =>
    intro v hv
    obtain ⟨x, hx, hxrc⟩ := hv e (List.mem_cons_self _ _)
    have hce : ((e :: t).map Prod.snd).count e.2 = (t.map Prod.snd).count e.2 + 1 := by
      simp
    have hR := Release_fwd hx (by omega : 2 ≤ x.m_refCount) fuel
    obtain ⟨v', hf, hg⟩ := ih (v.set e.2 { x with m_refCount := x.m_refCount - 1 }) (by
      intro e' he'
      obtain ⟨x', hx', hxrc'⟩ := hv e' (List.mem_cons_of_mem _ he')
      rw [World.get_set_live hx]
      by_cases hq : e'.2 = e.2
      · rw [if_pos hq]
        refine ⟨_, rfl, ?_⟩
        show (t.map Prod.snd).count e'.2 + 1 ≤ x.m_refCount - 1
        rw [hq]
        omega
      · rw [if_neg hq]
        refine ⟨x', hx', ?_⟩
        have : ((e :: t).map Prod.snd).count e'.2 = (t.map Prod.snd).count e'.2 := by
          simp [List.count_cons, Ne.symm hq]
        omega)
    refine ⟨v', ?_, fun q => ?_⟩
    · rw [List.foldlM_cons, hR]
      exact hf
    · rw [hg q, World.get_set_live hx]
      by_cases hq : q = e.2
      · rw [if_pos hq, hq, hx]
        simp only [Option.map_some', Option.some.injEq]
        show ({ x with m_refCount := x.m_refCount - 1 - (t.map Prod.snd).count e.2 } :
          InventoryItem) = { x with m_refCount := x.m_refCount - ((e :: t).map Prod.snd).count e.2 }
        rw [hce, Nat.sub_sub, Nat.add_comm]
      · rw [if_neg hq]
        have : ((e :: t).map Prod.snd).count q = (t.map Prod.snd).count q := by
          simp [List.count_cons, Ne.symm hq]
        rw [this]

/-- C23 (as amended): reference counting on a live instance, the count being a 16-bit
counter. For every live instance with count `n ≥ 1`:
* when `n < 65535`, `Ref()` returns the instance and leaves the count at `n + 1`, nothing
  else changing;
* when `n ≥ 2`, `Release()` leaves the count at `n - 1`, the instance stays live and nothing
  else changes;
* when `n = 1`, `Release()` runs the destructor: the result is that of `Release()` on the
  entries of the containment map, one call for each entry in the order of the map, followed
  by freeing the instance, so whenever the call returns the instance is destroyed; and
  when every entry of the map points to another live instance that holds more references
  than the map has entries for it, the call returns, the instance is destroyed, and each
  instance has lost exactly one reference for each entry of the map that pointed to it;
* when `n < 65535`, `Release()` after `Ref()` returns with every instance as before the two
  calls: the count is `n` again and the instance was not destroyed. -/
theorem C23_ref_release_live (w : World) (p fuel : Nat) (it : InventoryItem)
    (h : w.get p = some it) (hn : 1 ≤ it.m_refCount) :
    (it.m_refCount + 1 < 2 ^ 16 →
      InventoryItem.Ref p w = some (p, w.set p { it with m_refCount := it.m_refCount + 1 }) ∧
      (w.set p { it with m_refCount := it.m_refCount + 1 }).get p
        = some { it with m_refCount := it.m_refCount + 1 }) ∧
    (2 ≤ it.m_refCount →
      InventoryItem.Release fuel p w
        = some (w.set p { it with m_refCount := it.m_refCount - 1 }) ∧
      (w.set p { it with m_refCount := it.m_refCount - 1 }).get p
        = some { it with m_refCount := it.m_refCount - 1 }) ∧
    (it.m_refCount = 1 →
      InventoryItem.Release (fuel + 1) p w
        = (it.m_contents.foldlM (fun acc e => InventoryItem.Release fuel e.2 acc)
            (w.set p { it with m_refCount := 0 })).map (fun w2 => w2.free p) ∧
      (∀ w', InventoryItem.Release (fuel + 1) p w = some w' → w'.get p = none) ∧
      ((∀ e ∈ it.m_contents, e.2 ≠ p ∧ ∃ x, w.get e.2 = some x ∧
          (it.m_contents.map Prod.snd).count e.2 + 1 ≤ x.m_refCount) →
        ∃ w', InventoryItem.Release (fuel + 1) p w = some w' ∧ w'.get p = none ∧
          ∀ q, q ≠ p → w'.get q = (w.get q).map fun x =>
            { x with m_refCount := x.m_refCount - (it.m_contents.map Prod.snd).count q })) ∧
    (it.m_refCount + 1 < 2 ^ 16 →
      ∃ w2, ((InventoryItem.Ref p w).bind fun r => InventoryItem.Release fuel r.1 r.2)
        = some w2 ∧ ∀ q, w2.get q = w.get q) := by
  have hset : ∀ x : InventoryItem, (w.set p x).get p = some x := by
    intro x
    rw [World.get_set_live h, if_pos rfl]
  refine ⟨fun hmax => ⟨Ref_fwd h hn hmax, hset _⟩,
    fun h2 => ⟨Release_fwd h h2 fuel, hset _⟩, fun h1 => ?_, fun hmax => ?_⟩
  · have hD : InventoryItem.Release (fuel + 1) p w
        = (it.m_contents.foldlM (fun acc e => InventoryItem.Release fuel e.2 acc)
            (w.set p { it with m_refCount := 0 })).map (fun w2 => w2.free p) := by
      rw [InventoryItem.Release, if_neg (World.get_ne_zero h)]
      simp only [h]
      rw [if_neg (by omega), if_pos (by omega)]
      have e0 : it.m_refCount - 1 = 0 := by omega
      rw [e0]
    refine ⟨hD, fun w' hw' => ?_, fun hch => ?_⟩
    · rw [hD] at hw'
      simp only [Option.map_eq_some'] at hw'
      obtain ⟨w2, _, e⟩ := hw'
      rw [← e, World.get_free, if_pos rfl]
    · obtain ⟨v', hf, hg⟩ := Release_children fuel it.m_contents
        (w.set p { it with m_refCount := 0 }) (by
          intro e he
          obtain ⟨hne, x, hx, hxrc⟩ := hch e he
          exact ⟨x, by rw [World.get_set_live h, if_neg hne]; exact hx, hxrc⟩)
      refine ⟨v'.free p, by rw [hD, hf]; rfl, by rw [World.get_free, if_pos rfl],
        fun q hq => ?_⟩
      rw [World.get_free, if_neg hq, hg q, World.get_set_live h, if_neg hq]
  · refine ⟨(w.set p { it with m_refCount := it.m_refCount + 1 }).set p
      { it with m_refCount := it.m_refCount + 1 - 1 }, ?_, fun q => ?_⟩
    · rw [Ref_fwd h hn hmax, Option.some_bind]
      exact Release_fwd (hset _) (by
        show 2 ≤ it.m_refCount + 1
        omega) fuel
    · rw [World.get_set_live (hset _), World.get_set_live h]
      by_cases hq : q = p
      · rw [if_pos hq, hq, h]
        simp
      · rw [if_neg hq, if_neg hq]

/-- Witness of C23: in `exHangar` the container 60 at address 3 holds one reference and its
map holds the stack 100 at address 1, which holds two. `Release()` destroys the container
and takes one reference from the stack. -/
theorem C23_ref_release_live_witness :
    ∃ w', InventoryItem.Release 1 3 exHangar = some w' ∧ w'.get 3 = none ∧
      w'.get 1 = some (exStack 1 100 5) := by
  obtain ⟨_, _, h3, _⟩ := C23_ref_release_live exHangar 3 0 (exContainer 1 60 [(100, 1)])
    (by decide) (by decide)
  obtain ⟨w', hR, hp, hq⟩ := (h3 rfl).2.2 (by decide)
  exact ⟨w', hR, hp, by rw [hq 1 (by decide)]; decide⟩

/-- Counterexample to C23 as stated: the live stack 100 at address 1 holds `n = 65535`
references, the largest value of the counter. `Ref()` returns the instance and leaves the
count at 0, not at `n + 1`; the `Release()` that follows finds no reference to give up and
leaves the count at 0, so the pair does not restore the count to `n`. -/
theorem C23_counterexample :
    ((exLoose 65535).get 1).map (fun x => x.m_refCount) = some 65535 ∧
    (InventoryItem.Ref 1 (exLoose 65535)).map Prod.fst = some 1 ∧
    ((InventoryItem.Ref 1 (exLoose 65535)).bind fun r =>
      (r.2.get 1).map fun x => x.m_refCount) = some 0 ∧
    ((InventoryItem.Ref 1 (exLoose 65535)).bind fun r =>
      (InventoryItem.Release 0 r.1 r.2).bind fun w2 =>
      (w2.get 1).map fun x => x.m_refCount) = some 0 := by
  refine ⟨by decide, by decide, by decide, by decide⟩


/-- C24: `Ref` and `Release` on an instance that is not live have no effect. For every
instance in memory whose count is less than 1, `Ref()` returns null and `Release()` returns,
each with the whole world state exactly as it was: the count is unchanged and the instance is
not destroyed. -/
theorem C24_ref_release_dead (w : World) (p fuel : Nat) (it : InventoryItem)
    (h : w.get p = some it) (hn : it.m_refCount < 1) :
    InventoryItem.Ref p w = some (0, w) ∧ InventoryItem.Release fuel p w = some w := by
  constructor
  · unfold InventoryItem.Ref
    rw [if_neg (World.get_ne_zero h)]
    simp only [h]
    rw [if_pos hn]
  · unfold InventoryItem.Release
    rw [if_neg (World.get_ne_zero h)]
    simp only [h]
    rw [if_pos hn]

/-- Witness of C24: the instance of the stack 100 at address 1, with a count of 0. -/
theorem C24_ref_release_dead_witness :
    InventoryItem.Ref 1 ((exWorld 5 3).set 1 (exStack 0 100 5))
      = some (0, (exWorld 5 3).set 1 (exStack 0 100 5)) ∧
    InventoryItem.Release 0 1 ((exWorld 5 3).set 1 (exStack 0 100 5))
      = some ((exWorld 5 3).set 1 (exStack 0 100 5)) :=
  C24_ref_release_dead ((exWorld 5 3).set 1 (exStack 0 100 5)) 1 0 (exStack 0 100 5)
    (by decide) (by decide)


/-- C28 (failing input): a failed `Load` can leave the instance behind. In `exFailedLoad` the
container 60 is resident at address 3 with its contents loaded and an empty map, the item
100, located in 60, is not resident, and the query for the children of the item 100 fails.
`Load(100, recurse = true)` constructs the instance at the fresh address 4, `_Load` adds it to
the map of its container, which takes a reference, and then `LoadContents` fails. `Load`
returns null after its `Release()`, which takes the count from 2 to 1 and does not destroy
the instance: the instance is still in memory, the map of the resident container 60 still
holds it under the id 100, and the cache has no entry for the item. -/
theorem C28_failed_load_leaves_instance :
    InventoryItem.Load 3 100 true exFailedLoad
      = some (0,
          { exFailedLoad with
            heap := [(3, exContainer 1 60 [(100, 4)]), (4, exStack 1 100 5)]
            nextAddr := 5
            fetched := [100] }) ∧
    exFailedLoad.get 4 = none ∧
    (exFailedLoad.get 3).map (fun c => c.m_contents) = some [] ∧
    exFailedLoad.loaded 60 = some 3 ∧
    mapFind 100 exFailedLoad.m_items = none := by
  decide


/-- C29 (as amended): `AlterQuantity` is exact while the result fits an `int32`. For every
live non-singleton item with `uint32` quantity `Q` and every `int32` `delta` with
`Q + delta < 2^31`: `AlterQuantity(delta)` returns, it returns true if and only if
`Q + delta ≥ 0` as mathematical integers, when it returns true the new quantity is
`Q + delta` and nothing else about the item has changed, and when it returns false the whole
world state is unchanged. -/
theorem C29_alter_quantity_exact (w : World) (this : Nat) (delta : Int) (notify : Bool)
    (me : InventoryItem) (h : w.get this = some me) (hs : me.m_singleton = false)
    (hq : me.m_quantity < 2 ^ 32) (hd : -2 ^ 31 ≤ delta ∧ delta < 2 ^ 31)
    (hsum : (me.m_quantity : Int) + delta < 2 ^ 31) :
    ∃ ok w', InventoryItem.AlterQuantity this delta notify w = some (ok, w') ∧
      (ok = true ↔ 0 ≤ (me.m_quantity : Int) + delta) ∧
      (ok = true → ∃ q : Nat, (q : Int) = (me.m_quantity : Int) + delta ∧
        w'.get this = some { me with m_quantity := q }) ∧
      (ok = false → w' = w) := by
  by_cases h0 : 0 ≤ (me.m_quantity : Int) + delta
  · obtain ⟨w', hA, hw⟩ := AlterQuantity_fwd h hs delta notify h0 hsum
    refine ⟨true, w', hA, ⟨fun _ => h0, fun _ => rfl⟩, fun _ => ?_, fun hf => ?_⟩
    · exact ⟨((me.m_quantity : Int) + delta).toNat, Int.toNat_of_nonneg h0, hw.live⟩
    · exact absurd hf (by simp)
  · have hA := AlterQuantity_refused notify h hq hd (by omega)
    refine ⟨false, w, hA, ⟨fun hf => absurd hf (by simp), fun hp => absurd hp h0⟩,
      fun hf => absurd hf (by simp), fun _ => rfl⟩

/-- Witness of C29: 3 is added to a stack of 5, and 6 cannot be taken from it. -/
theorem C29_alter_quantity_exact_witness :
    (∃ w', InventoryItem.AlterQuantity 1 3 false (exWorld 5 3) = some (true, w') ∧
      w'.get 1 = some (exStack 2 100 8)) ∧
    InventoryItem.AlterQuantity 1 (-6) false (exWorld 5 3) = some (false, exWorld 5 3) := by
  constructor
  · obtain ⟨ok, w', hA, hiff, ht, _⟩ := C29_alter_quantity_exact (exWorld 5 3) 1 3 false
      (exStack 2 100 5) (by decide) (by decide) (by decide) (by decide) (by decide)
    have hok : ok = true := hiff.2 (by decide)
    subst hok
    obtain ⟨q, hq, hg⟩ := ht rfl
    have hq8 : q = 8 := by
      have : (q : Int) = 8 := hq
      omega
    subst hq8
    exact ⟨w', hA, hg⟩
  · obtain ⟨ok, w', hA, hiff, _, hf⟩ := C29_alter_quantity_exact (exWorld 5 3) 1 (-6) false
      (exStack 2 100 5) (by decide) (by decide) (by decide) (by decide) (by decide)
    cases ok with
    | true => exact absurd (hiff.1 rfl) (by decide)
    | false =>
      rw [hf rfl] at hA
      exact hA

/-- Counterexample to C29 as stated: with `Q = 2^31 - 1` and `delta = 1` the sum is computed
as the `int32` `-2^31` and `AlterQuantity` returns false, the quantity unchanged, although
`Q + delta ≥ 0`; with `Q = 2^32 - 1` and `delta = 1` the sum wraps to 0 and `AlterQuantity`
returns true with the new quantity 0, which is not `Q + delta`. -/
theorem C29_counterexample :
    InventoryItem.AlterQuantity 1 1 false (exWorld 2147483647 3)
      = some (false, exWorld 2147483647 3) ∧
    (0 : Int) ≤ ((exStack 2 100 2147483647).m_quantity : Int) + 1 ∧
    (InventoryItem.AlterQuantity 1 1 false (exWorld 4294967295 3)).map
        (fun r => (r.1, (r.2.get 1).map (fun x => x.m_quantity)))
      = some (true, some 0) := by
  decide


/-! ## The row after a mutator -/

theorem saved_row {v : World} {it : InventoryItem}
    (h : (mapFind it.m_itemID v.rows).isSome = true) :
    mapFind it.m_itemID (v.saved it).rows = some it.toData := by
  have key : mapFind it.m_itemID (ItemDB.SaveItem it.m_itemID it.toData v).rows
      = some it.toData := by
    unfold ItemDB.SaveItem
    cases hf : mapFind it.m_itemID v.rows with
    | none => simp [hf] at h
    | some d =>
      simp only
      rw [mapFind_mapInsert, if_pos rfl]
  have hb : ∀ (b : BlueprintData) (u : World),
      (ItemDB.SaveBlueprint it.m_itemID b u).rows = u.rows := by
    intro b u
    unfold ItemDB.SaveBlueprint
    cases mapFind it.m_itemID u.bpRows <;> rfl
  unfold World.saved
  cases it.bp with
  | none => exact key
  | some b =>
    simp only
    rw [hb]
    exact key

theorem set_save_durable {w w' : World} {this id : Nat} {it : InventoryItem}
    (hl : w.get this = some it) (it' : InventoryItem) (hid : it'.m_itemID = id)
    (hrow : (mapFind id w.rows).isSome = true)
    (h : InventoryItem.Save 0 this false false (w.set this it') = some w') :
    w'.durable this id := by
  have hlive : (w.set this it').get this = some it' := by
    rw [World.get_set_live hl, if_pos rfl]
  rw [Save_false hlive] at h
  simp only [Option.some.injEq] at h
  subst h
  refine ⟨it', by rw [get_saved]; exact hlive, hid, ?_⟩
  rw [← hid]
  exact saved_row (by rw [hid]; exact hrow)

theorem send_durable {w w' : World} {this toID id : Nat} {ch ch' : Changes}
    (h : InventoryItem.SendItemChange this toID ch w = some (ch', w'))
    (hd : w.durable this id) : w'.durable this id := by
  obtain ⟨me, h1, h2, h3⟩ := hd
  have hh := SendItemChange_heap h
  exact ⟨me, by rw [get_of_heap hh.1 hh.2]; exact h1, h2, by rw [SendItemChange_rows h]; exact h3⟩

theorem World.durable.row {w : World} {this id : Nat} (hd : w.durable this id) :
    (mapFind id w.rows).isSome = true := by
  obtain ⟨_, _, _, h⟩ := hd
  rw [h]
  rfl

/-- The shape shared by the mutators that write one member, save and notify: the row is that
of the instance afterwards. -/
theorem save_notify_durable {β : Type} {w : World} {this id : Nat} {it : InventoryItem}
    (hl : w.get this = some it) (it' : InventoryItem) (hid : it'.m_itemID = id)
    (hrow : (mapFind id w.rows).isSome = true) (notify : Bool) (toID : Nat) (ch : Changes)
    (g : Changes × World → β) (g' : World → β) (r : β)
    (h : ((InventoryItem.Save 0 this false false (w.set this it')).bind fun w2 =>
        if notify then (InventoryItem.SendItemChange this toID ch w2).map g
        else some (g' w2)) = some r) :
    ∃ wf, wf.durable this id ∧ ((∃ ch', r = g (ch', wf)) ∨ r = g' wf) := by
  simp only [Option.bind_eq_some] at h
  obtain ⟨w2, h1, h2⟩ := h
  have d2 := set_save_durable hl it' hid hrow h1
  cases notify with
  | true =>
    simp only [if_true, Option.map_eq_some'] at h2
    obtain ⟨⟨ch', w3⟩, h3, e3⟩ := h2
    exact ⟨w3, send_durable h3 d2, Or.inl ⟨ch', e3.symm⟩⟩
  | false =>
    simp only [Bool.false_eq_true, if_false, Option.some.injEq] at h2
    exact ⟨w2, d2, Or.inr h2.symm⟩

theorem ChangeFlag_durable {this new_flag id : Nat} {notify : Bool} {w w' : World}
    (h : InventoryItem.ChangeFlag this new_flag notify w = some w') (hd : w.durable this id) :
    w'.durable this id := by
  obtain ⟨me, hme, hid, hrow⟩ := hd
  unfold InventoryItem.ChangeFlag at h
  simp only [hme] at h
  by_cases hc : new_flag = me.m_flag
  · rw [if_pos hc] at h
    simp only [Option.some.injEq] at h
    subst h
    exact ⟨me, hme, hid, hrow⟩
  · rw [if_neg hc] at h
    obtain ⟨wf, hf, e | e⟩ := save_notify_durable hme { me with m_flag := new_flag } hid
      (by rw [hrow]; rfl) notify _ _ Prod.snd (fun w2 => w2) w' h
    · obtain ⟨ch', e⟩ := e
      rw [e]; exact hf
    · rw [e]; exact hf

theorem SetQuantity_durable {this qty_new id : Nat} {notify : Bool} {w : World}
    {r : Bool × World} (h : InventoryItem.SetQuantity this qty_new notify w = some r)
    (hd : w.durable this id) : r.2.durable this id := by
  obtain ⟨me, hme, hid, hrow⟩ := hd
  unfold InventoryItem.SetQuantity at h
  simp only [hme] at h
  by_cases hc : me.m_singleton = true
  · rw [if_pos hc] at h
    simp only [Option.some.injEq] at h
    subst h
    exact ⟨me, hme, hid, hrow⟩
  · rw [if_neg hc] at h
    obtain ⟨wf, hf, e | e⟩ := save_notify_durable hme { me with m_quantity := qty_new }
      hid (by rw [hrow]; rfl) notify _ _ (fun r => (true, r.2)) (fun w2 => (true, w2)) r h
    · obtain ⟨ch', e⟩ := e
      rw [e]; exact hf
    · rw [e]; exact hf

theorem AlterQuantity_durable {this id : Nat} {qty_change : Int} {notify : Bool} {w : World}
    {r : Bool × World} (h : InventoryItem.AlterQuantity this qty_change notify w = some r)
    (hd : w.durable this id) : r.2.durable this id := by
  have hd0 := hd
  obtain ⟨me, hme, _, _⟩ := hd0
  unfold InventoryItem.AlterQuantity at h
  simp only [hme] at h
  by_cases h0 : qty_change = 0
  · rw [if_pos h0] at h
    simp only [Option.some.injEq] at h
    subst h
    exact hd
  · rw [if_neg h0] at h
    by_cases h1 : toInt32 ((me.m_quantity : Int) + qty_change) < 0
    · rw [if_pos h1] at h
      simp only [Option.some.injEq] at h
      subst h
      exact hd
    · rw [if_neg h1] at h
      exact SetQuantity_durable h hd

theorem ChangeSingleton_durable {this id : Nat} {new_singleton notify : Bool} {w : World}
    {r : Bool × World} (h : InventoryItem.ChangeSingleton this new_singleton notify w = some r)
    (hd : w.durable this id) : r.2.durable this id := by
  obtain ⟨me, hme, hid, hrow⟩ := hd
  unfold InventoryItem.ChangeSingleton at h
  simp only [hme] at h
  by_cases hc : new_singleton = me.m_singleton
  · rw [if_pos hc] at h
    simp only [Option.some.injEq] at h
    subst h
    exact ⟨me, hme, hid, hrow⟩
  · rw [if_neg hc] at h
    obtain ⟨wf, hf, e | e⟩ := save_notify_durable hme
      { me with m_singleton := new_singleton }
      hid (by rw [hrow]; rfl) notify _ _ (fun r => (true, r.2)) (fun w2 => (true, w2)) r h
    · obtain ⟨ch', e⟩ := e
      rw [e]; exact hf
    · rw [e]; exact hf

theorem ChangeOwner_durable {this new_owner id : Nat} {notify : Bool} {w w' : World}
    (h : InventoryItem.ChangeOwner this new_owner notify w = some w') (hd : w.durable this id) :
    w'.durable this id := by
  obtain ⟨me, hme, hid, hrow⟩ := hd
  unfold InventoryItem.ChangeOwner at h
  simp only [hme] at h
  by_cases hc : new_owner = me.m_ownerID
  · rw [if_pos hc] at h
    simp only [Option.some.injEq] at h
    subst h
    exact ⟨me, hme, hid, hrow⟩
  · rw [if_neg hc] at h
    simp only [Option.bind_eq_some] at h
    obtain ⟨w2, h1, h2⟩ := h
    have d2 := set_save_durable hme { me with m_ownerID := new_owner } hid
      (by rw [hrow]; rfl) h1
    cases notify with
    | true =>
      simp only [if_true, Option.bind_eq_some, Option.map_eq_some'] at h2
      obtain ⟨⟨ch3, w3⟩, h3, ⟨ch4, w4⟩, h4, e4⟩ := h2
      simp only at e4
      subst e4
      exact send_durable h4 (send_durable h3 d2)
    | false =>
      simp only [Bool.false_eq_true, if_false, Option.some.injEq] at h2
      subst h2
      exact d2

theorem Rename_durable {this id : Nat} {to_ : String} {w w' : World}
    (h : InventoryItem.Rename this to_ w = some w') (hd : w.durable this id) :
    w'.durable this id := by
  obtain ⟨me, hme, hid, hrow⟩ := hd
  unfold InventoryItem.Rename at h
  simp only [hme] at h
  exact set_save_durable hme { me with m_itemName := to_ } hid (by rw [hrow]; rfl) h

theorem SetCustomInfo_durable {this id : Nat} {ci : Option String} {w w' : World}
    (h : InventoryItem.SetCustomInfo this ci w = some w') (hd : w.durable this id) :
    w'.durable this id := by
  obtain ⟨me, hme, hid, hrow⟩ := hd
  unfold InventoryItem.SetCustomInfo at h
  simp only [hme] at h
  exact set_save_durable hme { me with m_customInfo := ci.getD "" } hid
    (by rw [hrow]; rfl) h

theorem Relocate_durable {this id : Nat} {pos : GPoint} {w w' : World}
    (h : InventoryItem.Relocate this pos w = some w') (hd : w.durable this id) :
    w'.durable this id := by
  obtain ⟨me, hme, hid, hrow⟩ := hd
  unfold InventoryItem.Relocate at h
  simp only [hme] at h
  by_cases hc : me.m_position = pos
  · rw [if_pos hc] at h
    simp only [Option.some.injEq] at h
    subst h
    exact ⟨me, hme, hid, hrow⟩
  · rw [if_neg hc] at h
    exact set_save_durable hme { me with m_position := pos } hid (by rw [hrow]; rfl) h

/-- A `Move` that returns leaves the row of the item equal to its members, whatever became of
the maps of the two containers. -/
theorem Move_durable {fuel this location new_flag id : Nat} {notify : Bool} {w w' : World}
    (h : InventoryItem.Move fuel this location new_flag notify w = some w')
    (hd : w.durable this id) : w'.durable this id := by
  have hd0 := hd
  obtain ⟨me, hme, hid, hrow⟩ := hd0
  obtain ⟨me0, hme0, hcase⟩ := Move_inv h
  rw [hme] at hme0
  simp only [Option.some.injEq] at hme0
  subst hme0
  rcases hcase with ⟨_, _, e⟩ | ⟨hne, oc, w1, w2, nc, w3, w4, me4, _, _, _, _, h5, e1, e2, _⟩
  · rw [e]; exact hd
  · have hlive : w'.get this = some { me4 with m_locationID := location, m_flag := new_flag } := by
      rw [get_of_heap e1 e2, World.get_set_live h5, if_pos rfl]
    have hk : Keeps (fun x : InventoryItem => x.m_itemID) w w' :=
      @Move_keeps _ (fun x : InventoryItem => x.m_itemID) (fun _ _ => rfl) (fun _ _ => rfl)
        (fun _ _ _ => rfl) _ _ _ _ _ _ _ h
    obtain ⟨it0, hit0, e0⟩ := hk.2 this _ (World.get_guard hme).2 hlive
    rw [hme] at hit0
    simp only [Option.some.injEq] at hit0
    subst hit0
    have hid4 : ({ me4 with m_locationID := location, m_flag := new_flag } :
        InventoryItem).m_itemID = id := e0.trans hid
    subst hid4
    refine ⟨_, hlive, rfl, ?_⟩
    have hdb := Move_db hme hne h hlive
    have hr : w'.rows = w'.db.rows := rfl
    rw [hr, hdb]
    have hrow0 : (mapFind me4.m_itemID w.db.rows).isSome = true := by
      show (mapFind me4.m_itemID w.rows).isSome = true
      rw [hrow]; rfl
    have key := @saved_row w.db { me4 with m_locationID := location, m_flag := new_flag } hrow0
    cases notify with
    | true =>
      simp only [if_true]
      rw [World.notified_rows]
      exact key
    | false =>
      simp only [Bool.false_eq_true, if_false]
      exact key

/-! ## The mutators return -/

theorem save_notify_total {β : Type} {w : World} {this : Nat} {it : InventoryItem}
    (hl : w.get this = some it) (it' : InventoryItem) (notify : Bool) (toID : Nat)
    (ch : Changes) (g : Changes × World → β) (g' : World → β) :
    ∃ r, ((InventoryItem.Save 0 this false false (w.set this it')).bind fun w2 =>
        if notify then (InventoryItem.SendItemChange this toID ch w2).map g
        else some (g' w2)) = some r := by
  obtain ⟨w2, h2, hw⟩ := set_save_fwd hl it'
  have hl2 : w2.get this = some it' := by rw [hw.1 this, if_pos rfl]
  rw [h2]
  simp only [Option.some_bind]
  cases notify with
  | true =>
    obtain ⟨ch', w3, h3⟩ := SendItemChange_live hl2 toID ch
    exact ⟨g (ch', w3), by simp [h3]⟩
  | false => exact ⟨g' w2, by simp⟩

/-- Each of the mutators but `Split`, `Merge` and `Move` returns on a live item. -/
theorem Mutator.run_total (m : Mutator) (fuel : Nat) {w : World} {this : Nat}
    {me : InventoryItem} (hme : w.get this = some me)
    (hS : ∀ q n, m ≠ Mutator.Split q n) (hM : ∀ t q n, m ≠ Mutator.Merge t q n)
    (hV : ∀ l f n, m ≠ Mutator.Move l f n) : ∃ w', m.run fuel this w = some w' := by
  cases m with
  | SetQuantity qty_new notify =>
    show ∃ w', (InventoryItem.SetQuantity this qty_new notify w).map Prod.snd = some w'
    unfold InventoryItem.SetQuantity
    simp only [hme]
    by_cases hc : me.m_singleton = true
    · rw [if_pos hc]; exact ⟨_, rfl⟩
    · rw [if_neg hc]
      obtain ⟨r, hr⟩ := save_notify_total hme { me with m_quantity := qty_new } notify
        me.m_ownerID { Changes.empty with ixQuantity := some me.m_quantity }
        (fun r => (true, r.2)) (fun w2 => (true, w2))
      rw [hr]; exact ⟨_, rfl⟩
  | AlterQuantity qty_change notify =>
    show ∃ w', (InventoryItem.AlterQuantity this qty_change notify w).map Prod.snd = some w'
    unfold InventoryItem.AlterQuantity
    simp only [hme]
    by_cases h0 : qty_change = 0
    · rw [if_pos h0]; exact ⟨_, rfl⟩
    · rw [if_neg h0]
      by_cases h1 : toInt32 ((me.m_quantity : Int) + qty_change) < 0
      · rw [if_pos h1]; exact ⟨_, rfl⟩
      · rw [if_neg h1]
        unfold InventoryItem.SetQuantity
        simp only [hme]
        by_cases hc : me.m_singleton = true
        · rw [if_pos hc]; exact ⟨_, rfl⟩
        · rw [if_neg hc]
          obtain ⟨r, hr⟩ := save_notify_total hme
            { me with
              m_quantity := toUint32 (toInt32 ((me.m_quantity : Int) + qty_change)) } notify
            me.m_ownerID { Changes.empty with ixQuantity := some me.m_quantity }
            (fun r => (true, r.2)) (fun w2 => (true, w2))
          rw [hr]; exact ⟨_, rfl⟩
  | ChangeSingleton new_singleton notify =>
    show ∃ w', (InventoryItem.ChangeSingleton this new_singleton notify w).map Prod.snd
      = some w'
    unfold InventoryItem.ChangeSingleton
    simp only [hme]
    by_cases hc : new_singleton = me.m_singleton
    · rw [if_pos hc]; exact ⟨_, rfl⟩
    · rw [if_neg hc]
      obtain ⟨r, hr⟩ := save_notify_total hme { me with m_singleton := new_singleton } notify
        me.m_ownerID { Changes.empty with ixSingleton := some (if me.m_singleton then 1 else 0) }
        (fun r => (true, r.2)) (fun w2 => (true, w2))
      rw [hr]; exact ⟨_, rfl⟩
  | Split q n => exact absurd rfl (hS q n)
  | Merge t q n => exact absurd rfl (hM t q n)
  | Move l f n => exact absurd rfl (hV l f n)
  | ChangeFlag new_flag notify =>
    show ∃ w', InventoryItem.ChangeFlag this new_flag notify w = some w'
    unfold InventoryItem.ChangeFlag
    simp only [hme]
    by_cases hc : new_flag = me.m_flag
    · rw [if_pos hc]; exact ⟨_, rfl⟩
    · rw [if_neg hc]
      exact save_notify_total hme { me with m_flag := new_flag } notify _ _ Prod.snd
        (fun w2 => w2)
  | ChangeOwner new_owner notify =>
    show ∃ w', InventoryItem.ChangeOwner this new_owner notify w = some w'
    by_cases hc : new_owner = me.m_ownerID
    · unfold InventoryItem.ChangeOwner
      simp only [hme]
      rw [if_pos hc]; exact ⟨_, rfl⟩
    · obtain ⟨w', h, _⟩ := ChangeOwner_fwd hme new_owner notify
      exact ⟨w', h⟩
  | Rename to_ =>
    show ∃ w', InventoryItem.Rename this to_ w = some w'
    unfold InventoryItem.Rename
    simp only [hme]
    obtain ⟨w2, h2, _⟩ := set_save_fwd hme { me with m_itemName := to_ }
    exact ⟨w2, h2⟩
  | SetCustomInfo ci =>
    show ∃ w', InventoryItem.SetCustomInfo this ci w = some w'
    unfold InventoryItem.SetCustomInfo
    simp only [hme]
    obtain ⟨w2, h2, _⟩ := set_save_fwd hme { me with m_customInfo := ci.getD "" }
    exact ⟨w2, h2⟩
  | Relocate pos =>
    show ∃ w', InventoryItem.Relocate this pos w = some w'
    unfold InventoryItem.Relocate
    simp only [hme]
    by_cases hc : me.m_position = pos
    · rw [if_pos hc]; exact ⟨_, rfl⟩
    · rw [if_neg hc]
      obtain ⟨w2, h2, _⟩ := set_save_fwd hme { me with m_position := pos }
      exact ⟨w2, h2⟩

/-- Each of the mutators but `Split` and `Merge` leaves the row of the item equal to its
members when it was so before the call. -/
theorem Mutator.run_durable (m : Mutator) {fuel this id : Nat} {w w' : World}
    (hS : ∀ q n, m ≠ Mutator.Split q n) (hM : ∀ t q n, m ≠ Mutator.Merge t q n)
    (hd : w.durable this id) (h : m.run fuel this w = some w') : w'.durable this id := by
  cases m with
  | SetQuantity qty_new notify =>
    change (InventoryItem.SetQuantity this qty_new notify w).map Prod.snd = some w' at h
    simp only [Option.map_eq_some'] at h
    obtain ⟨r, hr, e⟩ := h
    rw [← e]; exact SetQuantity_durable hr hd
  | AlterQuantity qty_change notify =>
    change (InventoryItem.AlterQuantity this qty_change notify w).map Prod.snd = some w' at h
    simp only [Option.map_eq_some'] at h
    obtain ⟨r, hr, e⟩ := h
    rw [← e]; exact AlterQuantity_durable hr hd
  | ChangeSingleton new_singleton notify =>
    change (InventoryItem.ChangeSingleton this new_singleton notify w).map Prod.snd
      = some w' at h
    simp only [Option.map_eq_some'] at h
    obtain ⟨r, hr, e⟩ := h
    rw [← e]; exact ChangeSingleton_durable hr hd
  | Split q n => exact absurd rfl (hS q n)
  | Merge t q n => exact absurd rfl (hM t q n)
  | Move l f n => exact Move_durable h hd
  | ChangeFlag new_flag notify => exact ChangeFlag_durable h hd
  | ChangeOwner new_owner notify => exact ChangeOwner_durable h hd
  | Rename to_ => exact Rename_durable h hd
  | SetCustomInfo ci => exact SetCustomInfo_durable h hd
  | Relocate pos => exact Relocate_durable h hd


/-- C25: mutations are durable before return. Let the instance at `this` be a live instance of
the item `id` whose persisted row equals its members (name, type, owner, location, flag,
contraband, singleton, quantity, position and custom info). For each call `m` of `Rename`,
`Move`, `ChangeFlag`, `SetQuantity`, `AlterQuantity`, `ChangeSingleton`, `ChangeOwner`,
`SetCustomInfo` or `Relocate` on it, with any arguments: whenever the call returns, whether
it reports success or not, the instance is still live and the row of the item again equals
its members. Each of these calls but `Move` returns; `Move` returns when the invariants of
the world hold, the instance is the one in the cache, when its container is resident
with contents loaded, the item is held by the map of that container as well as by the cache,
and every reference count fits its 16 bits. -/
theorem C25_mutations_durable (m : Mutator) (fuel this id : Nat) (w : World)
    (hS : ∀ q n, m ≠ Mutator.Split q n) (hM : ∀ t q n, m ≠ Mutator.Merge t q n)
    (hd : w.durable this id) :
    (∀ w', m.run fuel this w = some w' → w'.durable this id) ∧
    ((∀ l f n, m ≠ Mutator.Move l f n) → ∃ w', m.run fuel this w = some w') ∧
    (CacheLive w → Mirrors w → mapFind id w.m_items = some this →
      (∀ me, w.get this = some me → (w.loaded me.m_locationID).isSome → 2 ≤ me.m_refCount) →
      (∀ p x, w.get p = some x → x.m_refCount < 2 ^ 16) →
      ∃ w', m.run fuel this w = some w') := by
  have hd0 := hd
  obtain ⟨me, hme, hid, _⟩ := hd0
  refine ⟨fun w' h => Mutator.run_durable m hS hM hd h,
    fun hV => Mutator.run_total m fuel hme hS hM hV, fun hcl hmir hc hrc hroom => ?_⟩
  by_cases hV : ∀ l f n, m ≠ Mutator.Move l f n
  · exact Mutator.run_total m fuel hme hS hM hV
  · simp only [not_forall, not_not] at hV
    obtain ⟨l, f, n, e⟩ := hV
    subst e
    obtain ⟨w', h, _⟩ := Move_total fuel l f n hme (by rw [hid]; exact hc) hcl.keyed hmir
      (hrc me hme) hroom
    exact ⟨w', h⟩

/-- Witness of C25: the stack 100 is moved from the container 60 to the container 61. -/
theorem C25_mutations_durable_witness :
    exHangar.durable 1 100 ∧
    (∀ w', (Mutator.Move 61 5 true).run 1 1 exHangar = some w' → w'.durable 1 100) ∧
    (∃ w', (Mutator.Move 61 5 true).run 1 1 exHangar = some w') :=
  ⟨⟨exStack 2 100 5, by decide, rfl, rfl⟩,
    (C25_mutations_durable (Mutator.Move 61 5 true) 1 1 100 exHangar (fun _ _ h => by cases h)
      (fun _ _ _ h => by cases h) ⟨exStack 2 100 5, by decide, rfl, rfl⟩).1,
    (C25_mutations_durable (Mutator.Move 61 5 true) 1 1 100 exHangar (fun _ _ h => by cases h)
      (fun _ _ _ h => by cases h) ⟨exStack 2 100 5, by decide, rfl, rfl⟩).2.2
      (cacheLive_of_check (by decide)) (mirrors_of_check (by decide)) (by decide)
      (fun me hme _ => by
        have e : me = exStack 2 100 5 := by
          have h0 : exHangar.get 1 = some (exStack 2 100 5) := by decide
          rw [h0] at hme
          exact (Option.some.inj hme).symm
        rw [e]
        decide)
      (fun p x hp => room_of_check (by decide : roomB exHangar 0 = true) p x hp)⟩


/-! ## The instance that a spawn of a blueprint type creates -/

theorem ignAll_bp : IgnAll (fun it : InventoryItem => it.bp) :=
  ⟨fun _ _ => rfl, fun _ _ => rfl, fun _ _ => rfl, fun _ _ _ => rfl, fun _ _ => rfl,
    fun _ _ => rfl, fun _ _ => rfl⟩

theorem Blueprint_Load_id_some {n i : Nat} {w w1 : World}
    (h : BlueprintItem._Load_id n w = (i, w1)) (hi : i ≠ 0) :
    ∃ d b, (i, w1) = w.alloc (InventoryItem.new n d (some b)) := by
  unfold BlueprintItem._Load_id at h
  cases hg : ItemDB.GetItem n w with
  | none =>
    simp only [hg, Prod.mk.injEq] at h
    exact absurd h.1.symm hi
  | some d =>
    simp only [hg] at h
    cases ht : ItemFactory.GetBlueprintType d.typeID w with
    | none =>
      simp only [ht, Prod.mk.injEq] at h
      exact absurd h.1.symm hi
    | some t =>
      simp only [ht] at h
      unfold BlueprintItem._Load_type at h
      cases hb : ItemDB.GetBlueprint n w with
      | none =>
        simp only [hb, Prod.mk.injEq] at h
        exact absurd h.1.symm hi
      | some b =>
        simp only [hb] at h
        exact ⟨d, b, h.symm⟩

/-- The instance that `BlueprintItem::Load` returns carries the manufacturing members. -/
theorem Blueprint_Load_bp {fuel n i : Nat} {w w' : World} {it : InventoryItem}
    (h : BlueprintItem.Load fuel n false w = some (i, w')) (hi : i ≠ 0)
    (hit : w'.get i = some it) : it.bp.isSome = true := by
  unfold BlueprintItem.Load at h
  cases hL : BlueprintItem._Load_id n w with
  | mk i0 w1 =>
    simp only [hL] at h
    by_cases hi0 : i0 = 0
    · rw [if_pos hi0] at h
      simp only [Option.some.injEq, Prod.mk.injEq] at h
      exact absurd h.1.symm hi
    · rw [if_neg hi0] at h
      obtain ⟨e, hl⟩ := Load_tail_inv hi h
      subst e
      obtain ⟨d, b, ha⟩ := Blueprint_Load_id_some hL hi0
      have e1 : i0 = max w.nextAddr 1 := congrArg Prod.fst ha
      have e2 : w1 = (w.alloc (InventoryItem.new n d (some b))).2 := congrArg Prod.snd ha
      have k : Keeps (fun x : InventoryItem => x.bp) w1 w' :=
        (load_family_keeps ignAll_bp fuel).2.2.2 _ _ _ _ hl
      have hlt : i0 < w1.nextAddr := by
        rw [e2, e1]
        show max w.nextAddr 1 < max w.nextAddr 1 + 1
        omega
      obtain ⟨it0, h0, e0⟩ := k.2 i0 it hlt hit
      rw [e2, World.get_alloc, if_pos e1] at h0
      simp only [Option.some.injEq] at h0
      subst h0
      simp only at e0
      rw [e0]
      rfl

/-- The instance that `Spawn` returns for a type of the blueprint category carries the
manufacturing members. -/
theorem Spawn_bp {fuel i : Nat} {data : ItemData} {w w' : World} {t : TypeInfo}
    {it : InventoryItem} (h : InventoryItem.Spawn fuel data w = some (i, w')) (hi : i ≠ 0)
    (ht : mapFind data.typeID w.types = some t) (hcat : t.categoryID = invCategories_Blueprint)
    (hit : w'.get i = some it) : it.bp.isSome = true := by
  unfold InventoryItem.Spawn at h
  have ht0 : ItemFactory.GetType data.typeID w = some t := ht
  simp only [ht0] at h
  rw [if_pos hcat] at h
  generalize (if data.name = "" then { data with name := t.name } else data) = d1 at h
  unfold BlueprintItem.Spawn at h
  cases ht2 : ItemFactory.GetType d1.typeID w with
  | none =>
    simp only [ht2, Option.some.injEq, Prod.mk.injEq] at h
    exact absurd h.1.symm hi
  | some t2 =>
    simp only [ht2] at h
    generalize (if d1.name = "" then { d1 with name := t2.name } else d1) = d2 at h
    by_cases hc2 : t2.categoryID ≠ invCategories_Blueprint
    · rw [if_pos hc2] at h
      simp only [Option.some.injEq, Prod.mk.injEq] at h
      exact absurd h.1.symm hi
    · rw [if_neg hc2] at h
      unfold BlueprintItem._Spawn at h
      cases hN : ItemDB.NewItem d2 w with
      | mk n w1 =>
        simp only [hN] at h
        by_cases hn : n = 0
        · rw [if_pos hn] at h
          simp only [Option.some.injEq, Prod.mk.injEq] at h
          exact absurd h.1.symm hi
        · rw [if_neg hn] at h
          cases hB : ItemDB.NewBlueprint n BlueprintData.default w1 with
          | mk ok w2 =>
            simp only [hB] at h
            by_cases hok : ok = true
            · rw [if_pos hok] at h
              exact Blueprint_Load_bp h hi hit
            · rw [if_neg hok] at h
              simp only [Option.some.injEq, Prod.mk.injEq] at h
              exact absurd h.1.symm hi

/-- The instance that `SpawnItem` returns for a type of the blueprint category carries the
manufacturing members. -/
theorem SpawnItem_bp {fuel res : Nat} {data : ItemData} {w w2 : World} {t : TypeInfo}
    {r : InventoryItem} (h : ItemFactory.SpawnItem fuel data w = some (res, w2))
    (hres : res ≠ 0) (ht : mapFind data.typeID w.types = some t)
    (hcat : t.categoryID = invCategories_Blueprint) (hr : w2.get res = some r) :
    r.bp.isSome = true := by
  unfold ItemFactory.SpawnItem at h
  cases hs : InventoryItem.Spawn fuel data w with
  | none => simp [hs] at h
  | some iw =>
    obtain ⟨i, wB⟩ := iw
    simp only [hs] at h
    by_cases hi : i = 0
    · rw [if_pos hi] at h
      simp only [Option.some.injEq, Prod.mk.injEq] at h
      exact absurd h.1.symm hres
    · rw [if_neg hi] at h
      cases hg : wB.get i with
      | none => simp [hg] at h
      | some it =>
        simp only [hg] at h
        have hbp := Spawn_bp hs hi ht hcat hg
        have k := Ref_keeps (f := fun x : InventoryItem => x.bp) (fun _ _ => rfl) h
        obtain ⟨hq, e⟩ := Ref_quiet h
        rcases e with e | e
        · subst e
          have hlt : res < ({ wB with m_items := mapInsert it.m_itemID res wB.m_items } :
              World).nextAddr := (World.get_guard hg).2
          obtain ⟨it0, h0, e0⟩ := k.2 res r hlt hr
          have h1 : ({ wB with m_items := mapInsert it.m_itemID res wB.m_items } : World).get res
              = wB.get res := rfl
          rw [h1, hg] at h0
          simp only [Option.some.injEq] at h0
          subst h0
          simp only at e0
          rw [e0]
          exact hbp
        · exact absurd e hres

/-! ## The two items after a split -/

theorem SendItemChange_types {this toID : Nat} {ch ch' : Changes} {w w' : World}
    (h : InventoryItem.SendItemChange this toID ch w = some (ch', w')) : w'.types = w.types := by
  unfold InventoryItem.SendItemChange at h
  by_cases hon : toID ∈ w.online
  · rw [if_pos hon] at h
    cases hg : w.get this with
    | none => simp [hg] at h
    | some it =>
      simp only [hg, Option.some.injEq, Prod.mk.injEq] at h
      rw [← h.2]
  · rw [if_neg hon] at h
    simp only [Option.some.injEq, Prod.mk.injEq] at h
    rw [← h.2]

theorem SetQuantity_types {this qty_new : Nat} {notify : Bool} {w : World} {r : Bool × World}
    (h : InventoryItem.SetQuantity this qty_new notify w = some r) : r.2.types = w.types := by
  unfold InventoryItem.SetQuantity at h
  cases hme : w.get this with
  | none => simp [hme] at h
  | some me =>
    simp only [hme] at h
    by_cases hc : me.m_singleton = true
    · rw [if_pos hc] at h
      simp only [Option.some.injEq] at h
      rw [← h]
    · rw [if_neg hc] at h
      have hlive : (w.set this { me with m_quantity := qty_new }).get this
          = some { me with m_quantity := qty_new } := by
        rw [World.get_set_live hme, if_pos rfl]
      rw [Save_false hlive] at h
      simp only [Option.some_bind] at h
      have hs : ((w.set this { me with m_quantity := qty_new }).saved
          { me with m_quantity := qty_new }).types = w.types := (saved_static _ _).2
      cases notify with
      | true =>
        simp only [if_true, Option.map_eq_some'] at h
        obtain ⟨⟨ch', w3⟩, h3, e3⟩ := h
        rw [← e3]
        exact (SendItemChange_types h3).trans hs
      | false =>
        simp only [Bool.false_eq_true, if_false, Option.some.injEq] at h
        rw [← h]
        exact hs

theorem AlterQuantity_types {this : Nat} {qty_change : Int} {notify : Bool} {w : World}
    {r : Bool × World} (h : InventoryItem.AlterQuantity this qty_change notify w = some r) :
    r.2.types = w.types := by
  unfold InventoryItem.AlterQuantity at h
  cases hme : w.get this with
  | none => simp [hme] at h
  | some me =>
    simp only [hme] at h
    by_cases h0 : qty_change = 0
    · rw [if_pos h0] at h
      simp only [Option.some.injEq] at h
      rw [← h]
    · rw [if_neg h0] at h
      by_cases h1 : toInt32 ((me.m_quantity : Int) + qty_change) < 0
      · rw [if_pos h1] at h
        simp only [Option.some.injEq] at h
        rw [← h]
      · rw [if_neg h1] at h
        exact SetQuantity_types h

/-- An `AlterQuantity` by a change that is not zero and that reports success has written the
new quantity. -/
theorem AlterQuantity_true_wrote {this : Nat} {delta : Int} {notify : Bool} {w w1 : World}
    {me : InventoryItem} (hme : w.get this = some me) (hd : delta ≠ 0)
    (h : InventoryItem.AlterQuantity this delta notify w = some (true, w1)) :
    w1.wrote w this
      { me with m_quantity := toUint32 (toInt32 ((me.m_quantity : Int) + delta)) } := by
  unfold InventoryItem.AlterQuantity at h
  simp only [hme] at h
  rw [if_neg hd] at h
  by_cases h1 : toInt32 ((me.m_quantity : Int) + delta) < 0
  · rw [if_pos h1] at h
    simp at h
  · rw [if_neg h1] at h
    by_cases hs : me.m_singleton = true
    · simp [InventoryItem.SetQuantity, hme, hs] at h
    · have hs' : me.m_singleton = false := by simpa using hs
      obtain ⟨w', h', hw⟩ := SetQuantity_fwd hme hs'
        (toUint32 (toInt32 ((me.m_quantity : Int) + delta))) notify
      rw [h] at h'
      simp only [Option.some.injEq, Prod.mk.injEq, true_and] at h'
      rw [h']
      exact hw

/-- The two items after a `Split` that returned a new item, in a world that satisfies the
invariants and whose next item id is not resident: both instances are live, they are
different, the original has the manufacturing members it had, and the new item is of the
type of the original and carries manufacturing members when that type is of the blueprint
category. -/
theorem Split_live {fuel this res : Nat} {qty_to_take : Int} {notify : Bool} {w w1 : World}
    {me : InventoryItem} (hcl : CacheLive w) (hmir : Mirrors w)
    (hfresh : mapFind w.nextItemID w.m_items = none)
    (hcount : ∀ p x, w.get p = some x → x.m_refCount < 2 ^ 16) (hme : w.get this = some me)
    (h : InventoryItem.Split fuel this qty_to_take notify w = some (res, w1)) (hres : res ≠ 0) :
    res ≠ this ∧ w.get res = none ∧ ∃ orig new, w1.get this = some orig ∧
      w1.get res = some new ∧ orig.bp = me.bp ∧ new.m_type = me.m_type ∧
      (∀ t, mapFind me.m_type w.types = some t → t.categoryID = invCategories_Blueprint →
        new.bp.isSome = true) := by
  have hk : Keeps (fun x : InventoryItem => x.bp) w w1 := Split_keeps ignAll_bp h
  have horig : ∀ orig, w1.get this = some orig → orig.bp = me.bp := by
    intro orig ho
    obtain ⟨it0, h0, e0⟩ := hk.2 this orig (World.get_guard hme).2 ho
    rw [hme] at h0
    simp only [Option.some.injEq] at h0
    subst h0
    exact e0
  unfold InventoryItem.Split at h
  simp only [hme] at h
  by_cases hq : qty_to_take ≤ 0
  · rw [if_pos hq] at h
    simp only [Option.some.injEq, Prod.mk.injEq] at h
    exact absurd h.1.symm hres
  · rw [if_neg hq] at h
    simp only [Option.bind_eq_some] at h
    obtain ⟨⟨ok, wa⟩, h1, h⟩ := h
    by_cases hok : ok = false
    · simp only [hok, if_true, Option.some.injEq, Prod.mk.injEq] at h
      exact absurd h.1.symm hres
    · have hok' : ok = true := by simpa using hok
      subst hok'
      simp only [Bool.true_eq_false, if_false, Option.bind_eq_some] at h
      obtain ⟨me1, hme1, ⟨res', w2⟩, hS, h⟩ := h
      have hw1 := AlterQuantity_true_wrote hme (by omega) h1
      have ht1 : wa.types = w.types := AlterQuantity_types h1
      rw [hw1.live] at hme1
      simp only [Option.some.injEq] at hme1
      subst hme1
      have hm1 := hw1.mapped
        (fun x => { x with
          m_quantity := toUint32 (toInt32 ((me.m_quantity : Int) + -qty_to_take)) }) hme
      obtain ⟨hcl1, hmir1⟩ := inv_of_mapped hm1
        (fun p x => by by_cases e : p = this <;> simp [e]) hcl hmir
      have hfresh1 : mapFind wa.nextItemID wa.m_items = none := by
        rw [hw1.2.2.2.1, hw1.2.1]; exact hfresh
      have hres' : res' = res ∧ res' ≠ 0 := by
        cases notify with
        | false =>
          simp only [Bool.false_eq_true, if_false, Option.some.injEq, Prod.mk.injEq] at h
          exact ⟨h.1, by rw [h.1]; exact hres⟩
        | true =>
          simp only [if_true, Option.bind_eq_some, Option.map_eq_some', Prod.mk.injEq] at h
          obtain ⟨_, _, _, _, e, _⟩ := h
          exact ⟨e, by rw [e]; exact hres⟩
      obtain ⟨e, hres0⟩ := hres'
      subst e
      have hcount1 : ∀ p x, wa.get p = some x → x.m_refCount < 2 ^ 16 := by
        intro p x hp
        rw [hw1.1 p] at hp
        by_cases e : p = this
        · rw [if_pos e] at hp
          simp only [Option.some.injEq] at hp
          rw [← hp]
          exact hcount this me hme
        · rw [if_neg e] at hp
          exact hcount p x hp
      obtain ⟨d, bp, hag, hres1, hget2, hm2⟩ := SpawnItem_inv hcl1 hmir1 hfresh1
        hcount1 hS hres0
      have hne : this ≠ res' := fun e => by
        rw [← e, hw1.live] at hres1
        simp at hres1
      have hresw : w.get res' = none := by
        rw [hw1.1 res', if_neg (Ne.symm hne)] at hres1
        exact hres1
      have hthis2 : ∃ o2, w2.get this = some o2 := by
        rw [hget2, if_neg hne, hw1.live]
        exact ⟨_, rfl⟩
      have hres2 : w2.get res' = some { InventoryItem.new wa.nextItemID d bp with
          m_refCount := 2 + (if (wa.loaded d.locationID).isSome then 1 else 0) } := by
        rw [hget2, if_pos rfl]
      have hbp2 : ∀ t, mapFind me.m_type w.types = some t →
          t.categoryID = invCategories_Blueprint → bp.isSome = true := by
        intro t ht hcat
        exact SpawnItem_bp hS hres0 (by rw [ht1]; exact ht) hcat hres2
      have hty : d.typeID = me.m_type := hag.1
      cases notify with
      | false =>
        simp only [Bool.false_eq_true, if_false, Option.some.injEq, Prod.mk.injEq] at h
        obtain ⟨_, e2⟩ := h
        subst e2
        obtain ⟨o2, ho2⟩ := hthis2
        exact ⟨Ne.symm hne, hresw, o2, _, ho2, hres2, horig o2 ho2, hty, hbp2⟩
      | true =>
        simp only [if_true, Option.bind_eq_some, Option.map_eq_some', Prod.mk.injEq] at h
        obtain ⟨me2, hme2, w3, hM, _, e3⟩ := h
        subst e3
        obtain ⟨hcl2, hmir2, _, _⟩ := spawn_post
          (x := { InventoryItem.new wa.nextItemID d bp with
            m_refCount := 2 + (if (wa.loaded d.locationID).isSome then 1 else 0) })
          hcl1 hmir1 hfresh1 hres1 rfl rfl hget2 hm2
        obtain ⟨w', hM', hf⟩ := Move_total fuel me2.m_locationID me2.m_flag defaultNotify hres2
          (by
            show mapFind wa.nextItemID w2.m_items = some res'
            rw [hm2, mapFind_mapInsert, if_pos rfl])
          hcl2 hmir2 (fun _ => Nat.le_add_right 2 _)
          (spawn_range hcount1 (by
            show (2 + if (wa.loaded d.locationID).isSome = true then 1 else 0) < 2 ^ 16
            split <;> decide) hget2)
        rw [hM] at hM'
        simp only [Option.some.injEq] at hM'
        subst hM'
        obtain ⟨o', ho, _⟩ := hf this _ hme2
        obtain ⟨n', hn, _, hn2, _⟩ := hf res' _ hres2
        have kM : Keeps (fun x : InventoryItem => x.bp) w2 w3 :=
          @Move_keeps _ (fun x : InventoryItem => x.bp) (fun _ _ => rfl) (fun _ _ => rfl)
            (fun _ _ _ => rfl) _ _ _ _ _ _ _ hM
        obtain ⟨n0, hn0, en0⟩ := kM.2 res' n' (World.get_guard hres2).2 hn
        rw [hres2] at hn0
        simp only [Option.some.injEq] at hn0
        subst hn0
        refine ⟨Ne.symm hne, hresw, o', n', ho, hn, horig o' ho, hn2.trans hty, ?_⟩
        intro t ht hcat
        have e : n'.bp = bp := en0
        rw [e]
        exact hbp2 t ht hcat

/-! ## The setters of the manufacturing members -/

/-- A setter of a manufacturing member: the member is written and the item is saved; no other
instance changes. -/
theorem bp_setter_step {w : World} {p : Nat} {r : InventoryItem} (hr : w.get p = some r)
    (nb : BlueprintData) :
    ∃ w', InventoryItem.Save 0 p false false (w.set p { r with bp := some nb }) = some w' ∧
      w'.get p = some { r with bp := some nb } ∧ ∀ q, q ≠ p → w'.get q = w.get q := by
  have hlive : (w.set p { r with bp := some nb }).get p = some { r with bp := some nb } := by
    rw [World.get_set_live hr, if_pos rfl]
  refine ⟨_, Save_false hlive 0 false, ?_, fun q hq => ?_⟩
  · rw [get_saved]; exact hlive
  · rw [get_saved, World.get_set_live hr, if_neg hq]

theorem BlueprintItem.member_live {α : Type} (m : BlueprintData → α) {w : World} {p : Nat}
    {o : InventoryItem} {b : BlueprintData} (ho : w.get p = some o) (hb : o.bp = some b) :
    BlueprintItem.member m p w = some (m b) := by
  unfold BlueprintItem.member
  rw [ho]
  simp only [Option.some_bind, hb, Option.map_some']

/-- The method `SplitBlueprint` after a base split that returned a new item: when both
instances are live blueprints, the call returns the new item with the manufacturing members of
the original, and the original is as the base split left it. -/
theorem SplitBlueprint_fwd {fuel this res : Nat} {qty_to_take : Int} {notify : Bool}
    {w w1 : World} {orig new : InventoryItem} {b nb : BlueprintData}
    (hS : InventoryItem.Split fuel this qty_to_take notify w = some (res, w1)) (hres : res ≠ 0)
    (hne : res ≠ this) (ho : w1.get this = some orig) (hob : orig.bp = some b)
    (hn : w1.get res = some new) (hnb : new.bp = some nb) :
    ∃ w', BlueprintItem.SplitBlueprint fuel this qty_to_take notify w = some (res, w') ∧
      w'.get res = some { new with bp := some b } ∧ w'.get this = some orig := by
  obtain ⟨wa, sa, ga, oa⟩ := bp_setter_step hn { nb with copy := b.copy }
  obtain ⟨wb, sb, gb, ob⟩ := bp_setter_step ga
    { nb with copy := b.copy, materialLevel := b.materialLevel }
  obtain ⟨wc, sc, gc, oc⟩ := bp_setter_step gb
    { nb with
      copy := b.copy, materialLevel := b.materialLevel,
      productivityLevel := b.productivityLevel }
  obtain ⟨wd, sd, gd, od⟩ := bp_setter_step gc b
  have hoa : wa.get this = some orig := by rw [oa this (Ne.symm hne)]; exact ho
  have hob2 : wb.get this = some orig := by rw [ob this (Ne.symm hne)]; exact hoa
  have hoc : wc.get this = some orig := by rw [oc this (Ne.symm hne)]; exact hob2
  have hod : wd.get this = some orig := by rw [od this (Ne.symm hne)]; exact hoc
  have e1 : BlueprintItem.SetCopy res b.copy w1 = some wa := by
    unfold BlueprintItem.SetCopy
    simp only [hn, hnb]
    exact sa
  have e2 : BlueprintItem.SetMaterialLevel res b.materialLevel wa = some wb := by
    unfold BlueprintItem.SetMaterialLevel
    simp only [ga]
    exact sb
  have e3 : BlueprintItem.SetProductivityLevel res b.productivityLevel wb = some wc := by
    unfold BlueprintItem.SetProductivityLevel
    simp only [gb]
    exact sc
  have e4 : BlueprintItem.SetLicensedProductionRunsRemaining res
      b.licensedProductionRunsRemaining wc = some wd := by
    unfold BlueprintItem.SetLicensedProductionRunsRemaining
    simp only [gc]
    exact sd
  refine ⟨wd, ?_, gd, hod⟩
  unfold BlueprintItem.SplitBlueprint
  rw [hS]
  simp only [Option.some_bind]
  rw [if_neg hres, BlueprintItem.member_live _ ho hob]
  simp only [Option.some_bind]
  rw [e1]
  simp only [Option.some_bind]
  rw [BlueprintItem.member_live _ hoa hob]
  simp only [Option.some_bind]
  rw [e2]
  simp only [Option.some_bind]
  rw [BlueprintItem.member_live _ hob2 hob]
  simp only [Option.some_bind]
  rw [e3]
  simp only [Option.some_bind]
  rw [BlueprintItem.member_live _ hoc hob]
  simp only [Option.some_bind]
  rw [e4]
  rfl

/-- The method `Split` without notification, step by step: the quantity is taken and the new
item is spawned at the location of the original. -/
theorem Split_eval {fuel this : Nat} {qty_to_take : Int} {w wa : World}
    {me me1 : InventoryItem} {r : Nat × World} (hme : w.get this = some me)
    (hq : 0 < qty_to_take)
    (hA : InventoryItem.AlterQuantity this (-qty_to_take) false w = some (true, wa))
    (h1 : wa.get this = some me1)
    (hS : ItemFactory.SpawnItem fuel
      (ItemData.stack me1.m_type me1.m_ownerID me1.m_locationID me1.m_flag
        (toUint32 qty_to_take)) wa = some r) :
    InventoryItem.Split fuel this qty_to_take false w = some r := by
  unfold InventoryItem.Split
  simp only [hme]
  rw [if_neg (not_le.2 hq), hA]
  simp only [Option.some_bind, Bool.true_eq_false, if_false, h1, Bool.false_eq_true]
  rw [hS]
  rfl


/-- C26: `SplitBlueprint` preserves the manufacturing fields. Let the item at `this` be a live
blueprint, an instance with manufacturing members `b` whose type is of the blueprint
category, in a world that satisfies the invariants of the cache and of the containment maps,
whose next item id is not resident and whose reference counts fit their 16 bits, and let
the base `Split(qty_to_take, notify)` return `res`. When `res` is null (the base split failed), `SplitBlueprint` returns null and does
nothing more. When `res` is not null, `SplitBlueprint` returns `res`, a new instance other
than the source, whose manufacturing members (copy, material level, productivity level and
licensed production runs remaining) are those of the source, and the manufacturing members of
the source are still `b`. -/
theorem C26_split_blueprint_preserves (w w1 : World) (fuel this res : Nat)
    (me : InventoryItem) (b : BlueprintData) (t : TypeInfo) (qty_to_take : Int) (notify : Bool)
    (hcl : CacheLive w) (hmir : Mirrors w) (hfresh : mapFind w.nextItemID w.m_items = none)
    (hcount : ∀ p x, w.get p = some x → x.m_refCount < 2 ^ 16)
    (hlive : w.get this = some me) (hbp : me.bp = some b)
    (ht : mapFind me.m_type w.types = some t) (hcat : t.categoryID = invCategories_Blueprint)
    (hS : InventoryItem.Split fuel this qty_to_take notify w = some (res, w1)) :
    (res = 0 → BlueprintItem.SplitBlueprint fuel this qty_to_take notify w = some (0, w1)) ∧
    (res ≠ 0 → ∃ w' new orig,
      BlueprintItem.SplitBlueprint fuel this qty_to_take notify w = some (res, w') ∧
      res ≠ this ∧ w.get res = none ∧
      w'.get res = some new ∧ new.bp = some b ∧
      w'.get this = some orig ∧ orig.bp = some b) := by
  constructor
  · intro h0
    subst h0
    unfold BlueprintItem.SplitBlueprint
    rw [hS]
    rfl
  · intro hres
    obtain ⟨hne, hfr, orig, new, ho, hn, hob, _, hnb⟩ :=
      Split_live hcl hmir hfresh hcount hlive hS hres
    obtain ⟨nb, hnb'⟩ := Option.isSome_iff_exists.1 (hnb t ht hcat)
    obtain ⟨w', h', g1, g2⟩ := SplitBlueprint_fwd hS hres hne ho (hob.trans hbp) hn hnb'
    exact ⟨w', _, orig, h', hne, hfr, g1, rfl, g2, hob.trans hbp⟩

set_option maxHeartbeats 1600000 in
set_option maxRecDepth 100000 in
/-- Witness of C26: 4 copies are split off a stack of 10 blueprint copies with material level
3, productivity level 7 and 20 licensed runs; the base split gives the new item the default
members, and `SplitBlueprint` returns it with the members of the source. -/
theorem C26_split_blueprint_preserves_witness :
    ∃ w' new orig,
      BlueprintItem.SplitBlueprint 3 1 4 false exBlueprint = some (2, w') ∧
      (2 : Nat) ≠ 1 ∧ exBlueprint.get 2 = none ∧
      w'.get 2 = some new ∧ new.bp = some ⟨true, 3, 7, 20⟩ ∧
      w'.get 1 = some orig ∧ orig.bp = some ⟨true, 3, 7, 20⟩ :=
  (C26_split_blueprint_preserves exBlueprint exBlueprintSplit 3 1 2
    { exStack 2 100 10 with
      m_itemName := "Raven Blueprint", m_type := 900, bp := some ⟨true, 3, 7, 20⟩ }
    ⟨true, 3, 7, 20⟩ ⟨9, "Raven Blueprint"⟩ 4 false (cacheLive_of_check (by decide))
    (mirrors_of_check (by decide)) (by decide)
    (fun p x hp => room_of_check (by decide : roomB exBlueprint 0 = true) p x hp) (by decide) rfl
    (by decide) (by decide)
    (@Split_eval 3 1 4 exBlueprint
      { exBlueprint with
        heap := [(1, { exStack 2 100 6 with
          m_itemName := "Raven Blueprint", m_type := 900, bp := some ⟨true, 3, 7, 20⟩ })],
        rows := [(100, ({ exStack 2 100 6 with
          m_itemName := "Raven Blueprint", m_type := 900 } : InventoryItem).toData)] }
      { exStack 2 100 10 with
        m_itemName := "Raven Blueprint", m_type := 900, bp := some ⟨true, 3, 7, 20⟩ }
      { exStack 2 100 6 with
        m_itemName := "Raven Blueprint", m_type := 900, bp := some ⟨true, 3, 7, 20⟩ }
      (2, exBlueprintSplit) (by decide) (by decide) (by decide) (by decide) (by decide))).2
    (by decide)


/-! ## `Contains` -/

/-- The direct check of `Contains`: the id of the item is looked up in the map. -/
theorem Contains_direct {w : World} {c x : Nat} {cc it : InventoryItem}
    (hc : w.get c = some cc) (hx : w.get x = some it) (fuel : Nat) :
    InventoryItem.Contains (fuel + 1) c x false w
      = some (mapFind it.m_itemID cc.m_contents).isSome := by
  unfold InventoryItem.Contains
  simp only [hc, hx]
  cases (mapFind it.m_itemID cc.m_contents).isSome <;> simp

/-- The loop of `Contains` over the children, once a child has answered yes. -/
theorem Contains_loop_true (g : Nat → Option Bool) (l : AMap Nat) :
    l.foldl (fun acc e =>
      match acc with
      | some false => g e.2
      | r => r) (some true) = some true := by
  induction l with
  | nil => rfl
  | cons e t ih => exact ih

/-- The loop of `Contains` over the children: when every child answers, the loop answers, and
it answers yes exactly when one of the children does. -/
theorem Contains_loop (g : Nat → Option Bool) (R : Nat → Prop) (l : AMap Nat)
    (h : ∀ e ∈ l, ∃ b, g e.2 = some b ∧ (b = true ↔ R e.2)) :
    ∃ b, l.foldl (fun acc e =>
      match acc with
      | some false => g e.2
      | r => r) (some false) = some b ∧ (b = true ↔ ∃ e ∈ l, R e.2) := by
  induction l with
  | nil => exact ⟨false, rfl, by simp⟩
  | cons e t ih =>
    obtain ⟨b, hb, hR⟩ := h e (List.mem_cons_self _ _)
    obtain ⟨b', hb', hR'⟩ := ih (fun e' he' => h e' (List.mem_cons_of_mem _ he'))
    rw [List.foldl_cons]
    simp only [hb]
    cases b with
    | true =>
      refine ⟨true, Contains_loop_true g t, ?_⟩
      simp only [true_iff]
      exact ⟨e, List.mem_cons_self _ _, hR.1 rfl⟩
    | false =>
      refine ⟨b', hb', ?_⟩
      rw [hR']
      constructor
      · rintro ⟨e', he', hr⟩
        exact ⟨e', List.mem_cons_of_mem _ he', hr⟩
      · rintro ⟨e', he', hr⟩
        rcases List.mem_cons.1 he' with h1 | h1
        · subst h1
          exact absurd (hR.2 hr) (by simp)
        · exact ⟨e', h1, hr⟩

/-- The recursive check of `Contains` returns when the depth of the recursion is bounded by a
measure that decreases along the containment maps, and it answers yes exactly when the id of
the item is a key of the map of an instance that can be reached. -/
theorem Contains_rec {w : World} {c x : Nat} {it : InventoryItem} (hx : w.get x = some it)
    (hval : ∀ p cp e, Relation.ReflTransGen (Edge w) c p → w.get p = some cp →
      e ∈ cp.m_contents → (w.get e.2).isSome = true)
    (μ : Nat → Nat) (hμ : ∀ p q, Edge w p q → μ q < μ p) :
    ∀ (fuel p : Nat) (cp : InventoryItem), Relation.ReflTransGen (Edge w) c p →
      w.get p = some cp → μ p < fuel →
      ∃ b, InventoryItem.Contains fuel p x true w = some b ∧
        (b = true ↔ ∃ q cq, Relation.ReflTransGen (Edge w) p q ∧ w.get q = some cq ∧
          (mapFind it.m_itemID cq.m_contents).isSome = true) := by
  intro fuel
  induction fuel with
  | zero => intro p cp _ _ h; exact absurd h (Nat.not_lt_zero _)
  | succ n ih =>
    intro p cp hreach hp hlt
    unfold InventoryItem.Contains
    simp only [hp, hx]
    by_cases hk : (mapFind it.m_itemID cp.m_contents).isSome = true
    · rw [if_pos hk]
      exact ⟨true, rfl, by simp only [true_iff]; exact ⟨p, cp, Relation.ReflTransGen.refl, hp, hk⟩⟩
    · rw [if_neg hk, if_neg (by simp)]
      have hedge : ∀ e ∈ cp.m_contents, Edge w p e.2 :=
        fun e he => ⟨cp, e.1, hp, he, hval p cp e hreach hp he⟩
      have hch : ∀ e ∈ cp.m_contents, ∃ b, InventoryItem.Contains n e.2 x true w = some b ∧
          (b = true ↔ ∃ q cq, Relation.ReflTransGen (Edge w) e.2 q ∧ w.get q = some cq ∧
            (mapFind it.m_itemID cq.m_contents).isSome = true) := by
        intro e he
        obtain ⟨ce, hce⟩ := Option.isSome_iff_exists.1 (hval p cp e hreach hp he)
        have hlt' : μ e.2 < n := by
          have := hμ p e.2 (hedge e he)
          omega
        exact ih e.2 ce (hreach.tail (hedge e he)) hce hlt'
      obtain ⟨b, hb, hR⟩ := Contains_loop (fun q => InventoryItem.Contains n q x true w)
        (fun r => ∃ q cq, Relation.ReflTransGen (Edge w) r q ∧ w.get q = some cq ∧
          (mapFind it.m_itemID cq.m_contents).isSome = true) cp.m_contents hch
      refine ⟨b, hb, ?_⟩
      rw [hR]
      constructor
      · rintro ⟨e, he, q, cq, hq, hcq, hkq⟩
        exact ⟨q, cq, Relation.ReflTransGen.head (hedge e he) hq, hcq, hkq⟩
      · rintro ⟨q, cq, hq, hcq, hkq⟩
        rcases Relation.ReflTransGen.cases_head hq with h1 | ⟨r, hr, hrq⟩
        · subst h1
          rw [hp] at hcq
          simp only [Option.some.injEq] at hcq
          subst hcq
          exact absurd hkq hk
        · obtain ⟨cp', k, hcp', hmem, _⟩ := hr
          rw [hp] at hcp'
          simp only [Option.some.injEq] at hcp'
          subst hcp'
          exact ⟨(k, r), hmem, q, cq, hrq, hcq, hkq⟩

/-- In an acyclic world the number of instances below an instance decreases along the
containment maps and is at most the number of instances. -/
theorem acyclic_measure {w : World} (hac : Acyclic w) :
    ∃ μ : Nat → Nat, (∀ p q, Edge w p q → μ q < μ p) ∧ ∀ p, μ p ≤ w.heap.length := by
  classical
  refine ⟨fun p => ((w.heap.map Prod.fst).toFinset.filter
    (fun q => Relation.TransGen (Edge w) p q)).card, fun p q hpq => ?_, fun p => ?_⟩
  · apply Finset.card_lt_card
    rw [Finset.ssubset_iff_of_subset]
    · refine ⟨q, ?_, ?_⟩
      · rw [Finset.mem_filter, List.mem_toFinset, List.mem_map]
        have hq : (w.get q).isSome = true := by
          obtain ⟨_, _, _, _, hq⟩ := hpq
          exact hq
        obtain ⟨cq, hcq⟩ := Option.isSome_iff_exists.1 hq
        exact ⟨⟨(q, cq), World.get_mem hcq, rfl⟩, Relation.TransGen.single hpq⟩
      · rw [Finset.mem_filter]
        exact fun h => hac q h.2
    · intro r hr
      rw [Finset.mem_filter] at hr ⊢
      exact ⟨hr.1, Relation.TransGen.head hpq hr.2⟩
  · calc ((w.heap.map Prod.fst).toFinset.filter
        (fun q => Relation.TransGen (Edge w) p q)).card
        ≤ (w.heap.map Prod.fst).toFinset.card := Finset.card_filter_le _ _
      _ ≤ (w.heap.map Prod.fst).length := List.toFinset_card_le _
      _ = w.heap.length := List.length_map _ _

/-- A world in which a rank decreases along the containment maps is acyclic. -/
theorem acyclic_of_rank {w : World} (r : Nat → Nat) (h : ∀ p q, Edge w p q → r q < r p) :
    Acyclic w := by
  have key : ∀ p q, Relation.TransGen (Edge w) p q → r q < r p := by
    intro p q hpq
    induction hpq with
    | single e => exact h _ _ e
    | tail _ e ih => exact lt_trans (h _ _ e) ih
  exact fun p hp => lt_irrefl _ (key p p hp)

/-- The edges of the world `exNested`: container 60 holds container 61, which holds the
stack. -/
theorem exNested_edge {p q : Nat} (h : Edge exNested p q) :
    (p = 3 ∧ q = 4) ∨ (p = 4 ∧ q = 1) := by
  obtain ⟨c, k, hc, hmem, _⟩ := h
  have hm := World.get_mem hc
  simp only [exNested, List.mem_cons, Prod.mk.injEq, List.mem_singleton, List.not_mem_nil,
    or_false] at hm
  rcases hm with ⟨rfl, rfl⟩ | ⟨rfl, rfl⟩ | ⟨rfl, rfl⟩
  · simp [exStack] at hmem
  · simp [exContainer] at hmem
    exact Or.inl ⟨rfl, hmem.2⟩
  · simp [exContainer] at hmem
    exact Or.inr ⟨rfl, hmem.2⟩

theorem exNested_acyclic : Acyclic exNested := by
  refine acyclic_of_rank (fun p => if p = 3 then 2 else if p = 4 then 1 else 0) ?_
  intro p q h
  rcases exNested_edge h with ⟨rfl, rfl⟩ | ⟨rfl, rfl⟩ <;> decide

/-- Every entry of a containment map of the world `exNested` points to a live instance. -/
theorem exNested_valid {p : Nat} {cp : InventoryItem} {e : Nat × Nat}
    (hp : exNested.get p = some cp) (he : e ∈ cp.m_contents) :
    (exNested.get e.2).isSome = true := by
  have hm := World.get_mem hp
  simp only [exNested, List.mem_cons, Prod.mk.injEq, List.mem_singleton, List.not_mem_nil,
    or_false] at hm
  rcases hm with ⟨rfl, rfl⟩ | ⟨rfl, rfl⟩ | ⟨rfl, rfl⟩
  · simp [exStack] at he
  · simp [exContainer] at he
    subst he
    decide
  · simp [exContainer] at he
    subst he
    decide


/-- C27: `Contains` computes direct and transitive membership. Let the containment state be
acyclic, let the container `c` and the item `x` be live, and let every entry of the map of an
instance that can be reached from `c` point to a live instance. Then `Contains(x, false)`
returns, and it returns true exactly when the id of `x` is a key of the map of `c`; and
`Contains(x, true)` returns (a depth of recursion of the number of instances is enough), and
it returns true exactly when the id of `x` is a key of the map of `c` or of an instance that
can be reached from `c` through the containment maps. -/
theorem C27_contains_membership (w : World) (c x : Nat) (cc it : InventoryItem)
    (hc : w.get c = some cc) (hx : w.get x = some it) (hac : Acyclic w)
    (hval : ∀ p cp e, Relation.ReflTransGen (Edge w) c p → w.get p = some cp →
      e ∈ cp.m_contents → (w.get e.2).isSome = true) :
    (∀ fuel, InventoryItem.Contains (fuel + 1) c x false w
      = some (mapFind it.m_itemID cc.m_contents).isSome) ∧
    (∀ fuel, w.heap.length < fuel →
      ∃ b, InventoryItem.Contains fuel c x true w = some b ∧
        (b = true ↔ ∃ q cq, Relation.ReflTransGen (Edge w) c q ∧ w.get q = some cq ∧
          (mapFind it.m_itemID cq.m_contents).isSome = true)) := by
  refine ⟨Contains_direct hc hx, fun fuel hf => ?_⟩
  obtain ⟨μ, hμ, hle⟩ := acyclic_measure hac
  exact Contains_rec hx hval μ hμ fuel c cc Relation.ReflTransGen.refl hc
    (lt_of_le_of_lt (hle c) hf)

/-- Witness of C27: the stack 100 lies in the container 61, which lies in the container 60;
the direct check of the container 60 for the stack answers no, the recursive check returns,
and with a depth of 4 it answers yes. -/
theorem C27_contains_membership_witness :
    ((∀ fuel, InventoryItem.Contains (fuel + 1) 3 1 false exNested = some false) ∧
    (∀ fuel, 3 < fuel →
      ∃ b, InventoryItem.Contains fuel 3 1 true exNested = some b ∧
        (b = true ↔ ∃ q cq, Relation.ReflTransGen (Edge exNested) 3 q ∧
          exNested.get q = some cq ∧ (mapFind 100 cq.m_contents).isSome = true))) ∧
    InventoryItem.Contains 4 3 1 true exNested = some true :=
  ⟨C27_contains_membership exNested 3 1 (exContainer 2 60 [(61, 4)])
    { exStack 2 100 5 with m_locationID := 61 } (by decide) (by decide) exNested_acyclic
    (fun _ _ _ _ hp he => exNested_valid hp he), by decide⟩


/-! ## Sums over a containment map -/

theorem mapErase_sublist {α : Type} (k : Nat) (m : AMap α) : (mapErase k m).Sublist m := by
  induction m with
  | nil => exact List.Sublist.slnil
  | cons e t ih =>
    obtain ⟨k0, v0⟩ := e
    by_cases h0 : k0 = k
    · simp only [mapErase, if_pos h0]
      exact List.Sublist.cons _ ih
    · simp only [mapErase, if_neg h0]
      exact List.Sublist.cons₂ _ ih

theorem mapErase_sorted {α : Type} (k : Nat) {m : AMap α} (hs : mapSorted m) :
    mapSorted (mapErase k m) := by
  unfold mapSorted at hs ⊢
  exact List.Pairwise.sublist ((mapErase_sublist k m).map Prod.fst) hs

/-- The sum over a map in key order is the value of one entry and the sum over the map
without that entry. -/
theorem sum_mapErase {m : AMap Nat} (hs : mapSorted m) (f : Nat × Nat → Nat) {k i : Nat}
    (hk : mapFind k m = some i) :
    (m.map f).sum = f (k, i) + ((mapErase k m).map f).sum := by
  induction m with
  | nil => simp [mapFind] at hk
  | cons e t ih =>
    obtain ⟨k0, v0⟩ := e
    by_cases h0 : k0 = k
    · subst h0
      simp only [mapFind, if_true, Option.some.injEq] at hk
      subst hk
      have e1 : mapErase k0 ((k0, v0) :: t) = t := @mapErase_head_sorted _ (k0, v0) t hs
      rw [e1]
      rfl
    · simp only [mapFind, if_neg h0] at hk
      have ih' := ih (mapSorted_tail hs) hk
      simp only [mapErase, if_neg h0, List.map_cons, List.sum_cons]
      rw [ih']
      omega

/-- The sum over a map in key order after the value of one entry has grown by `d`. -/
theorem sum_update {m : AMap Nat} (hs : mapSorted m) (f g : Nat × Nat → Nat) {ka a d : Nat}
    (hka : mapFind ka m = some a) (hother : ∀ e ∈ m, e.1 ≠ ka → g e = f e)
    (hg : g (ka, a) = f (ka, a) + d) : (m.map g).sum = (m.map f).sum + d := by
  induction m with
  | nil => simp [mapFind] at hka
  | cons e t ih =>
    obtain ⟨k0, v0⟩ := e
    by_cases h0 : k0 = ka
    · subst h0
      simp only [mapFind, if_true, Option.some.injEq] at hka
      subst hka
      have ht : t.map g = t.map f := by
        apply List.map_congr_left
        intro e he
        exact hother e (List.mem_cons_of_mem _ he)
          (ne_of_gt (mapSorted_head_lt hs e he))
      simp only [List.map_cons, List.sum_cons]
      rw [ht, hg]
      omega
    · simp only [mapFind, if_neg h0] at hka
      have ih' := ih (mapSorted_tail hs) hka
        (fun e he hne => hother e (List.mem_cons_of_mem _ he) hne)
      have hh : g (k0, v0) = f (k0, v0) := hother (k0, v0) (List.mem_cons_self _ _) h0
      simp only [List.map_cons, List.sum_cons]
      rw [ih', hh]
      omega

theorem le_sum_of_mem_map {m : AMap Nat} (f : Nat × Nat → Nat) {e : Nat × Nat} (he : e ∈ m) :
    f e ≤ (m.map f).sum := by
  induction m with
  | nil => simp at he
  | cons e0 t ih =>
    simp only [List.map_cons, List.sum_cons]
    rcases List.mem_cons.1 he with h | h
    · subst h
      omega
    · have := ih h
      omega

/-! ## The stock of a container -/

theorem World.quantityOf_live {w : World} {q : Nat} {x : InventoryItem} (t : Nat)
    (h : w.get q = some x) :
    w.quantityOf t q = if x.m_type = t then x.m_quantity else 0 := by
  unfold World.quantityOf
  rw [h]

theorem World.quantityOf_congr {w w' : World} {q : Nat} (t : Nat)
    (h : (w'.get q).map (fun x => (x.m_type, x.m_quantity))
      = (w.get q).map (fun x => (x.m_type, x.m_quantity))) :
    w'.quantityOf t q = w.quantityOf t q := by
  unfold World.quantityOf
  cases h1 : w'.get q with
  | none =>
    cases h2 : w.get q with
    | none => rfl
    | some y => simp [h1, h2] at h
  | some x =>
    cases h2 : w.get q with
    | none => simp [h1, h2] at h
    | some y =>
      simp only [h1, h2, Option.map_some', Option.some.injEq, Prod.mk.injEq] at h
      simp only [h.1, h.2]

theorem typeQuantity_congr {w w' : World} {m : AMap Nat} (t : Nat)
    (h : ∀ e ∈ m, w'.quantityOf t e.2 = w.quantityOf t e.2) :
    typeQuantity w' t m = typeQuantity w t m := by
  unfold typeQuantity
  rw [List.map_congr_left h]

/-- The stock of a type is at most the sum of the quantities of all the children. -/
theorem typeQuantity_le_total (w : World) (t : Nat) (m : AMap Nat) :
    typeQuantity w t m ≤ (m.map fun e =>
      match w.get e.2 with
      | some x => x.m_quantity
      | none => 0).sum := by
  unfold typeQuantity
  induction m with
  | nil => exact le_refl _
  | cons e tl ih =>
    simp only [List.map_cons, List.sum_cons]
    have h1 : w.quantityOf t e.2 ≤ (match w.get e.2 with
        | some x => x.m_quantity
        | none => 0) := by
      unfold World.quantityOf
      cases w.get e.2 with
      | none => exact le_refl _
      | some x =>
        simp only
        split
        · exact le_refl _
        · exact Nat.zero_le _
    exact Nat.add_le_add h1 ih

/-- The quantity that `Merge` writes when the two quantities together fit the `uint32`
member and the `int32` tests of `Merge` and `AlterQuantity` pass: the sum. -/
theorem merge_sum_exact {a b : Nat} (hb32 : b < 2 ^ 32) (hpos : 0 < toInt32 (b : Int))
    (hsum : a + b < 2 ^ 32) (hnn : 0 ≤ toInt32 ((a : Int) + toInt32 (b : Int))) :
    toUint32 (toInt32 ((a : Int) + toInt32 (b : Int))) = a + b := by
  unfold toInt32 toUint32 at *
  omega

/-- Two children of a container under different keys of its map: their quantities are both
part of the stock of a type they share. -/
theorem pair_le_typeQuantity {w : World} {m : AMap Nat} (hs : mapSorted m) {k ka i a : Nat}
    {it xa : InventoryItem} (hk : mapFind k m = some i) (hka : mapFind ka m = some a)
    (hne : ka ≠ k) (hi : w.get i = some it) (hxa : w.get a = some xa)
    (hty : xa.m_type = it.m_type) :
    xa.m_quantity + it.m_quantity ≤ typeQuantity w it.m_type m := by
  unfold typeQuantity
  rw [sum_mapErase hs (fun e => w.quantityOf it.m_type e.2) hk]
  have hka' : mapFind ka (mapErase k m) = some a := by
    rw [mapFind_mapErase, if_neg hne]; exact hka
  have h1 := le_sum_of_mem_map (fun e => w.quantityOf it.m_type e.2) (mem_of_mapFind hka')
  have h2 : w.quantityOf it.m_type i = it.m_quantity := by
    rw [World.quantityOf_live _ hi, if_pos rfl]
  have h3 : w.quantityOf it.m_type a = xa.m_quantity := by
    rw [World.quantityOf_live _ hxa, if_pos hty]
  simp only [h2] at h1 ⊢
  simp only [h3] at h1
  omega


/-! ## The children that the database lists -/

theorem mem_listed {w : World} {id k : Nat} :
    k ∈ w.listed id ↔ ∃ d, (k, d) ∈ w.rows ∧ d.locationID = id := by
  unfold World.listed
  simp only [List.mem_map, List.mem_filter, decide_eq_true_eq]
  constructor
  · rintro ⟨⟨k', d⟩, ⟨hm, hl⟩, rfl⟩
    exact ⟨d, hm, hl⟩
  · rintro ⟨d, hm, hl⟩
    exact ⟨(k, d), ⟨hm, hl⟩, rfl⟩

theorem mem_listed_iff {w : World} (hs : mapSorted w.rows) {id k : Nat} :
    k ∈ w.listed id ↔ ∃ d, mapFind k w.rows = some d ∧ d.locationID = id := by
  rw [mem_listed]
  constructor
  · rintro ⟨d, hm, hl⟩
    exact ⟨d, mapFind_of_mem_sorted hs hm, hl⟩
  · rintro ⟨d, hm, hl⟩
    exact ⟨d, mapFind_mem hm, hl⟩

/-- An item is listed as a child of one item only. -/
theorem listed_unique {w : World} (hs : mapSorted w.rows) {k P P' : Nat}
    (h : k ∈ w.listed P) (h' : k ∈ w.listed P') : P = P' := by
  obtain ⟨d, hd, hl⟩ := (mem_listed_iff hs).1 h
  obtain ⟨d', hd', hl'⟩ := (mem_listed_iff hs).1 h'
  rw [hd] at hd'
  simp only [Option.some.injEq] at hd'
  subst hd'
  rw [← hl, ← hl']

theorem listed_pairwise {w : World} (hs : mapSorted w.rows) (id : Nat) :
    (w.listed id).Pairwise (fun a b => a < b) := by
  unfold World.listed
  exact List.Pairwise.sublist (List.Sublist.map _ (List.filter_sublist _)) hs

theorem listed_congr {w w' : World} (h : w'.rows = w.rows) (id : Nat) :
    w'.listed id = w.listed id := by
  unfold World.listed
  rw [h]

/-! ## The subtree of an item in the database -/

theorem mem_tree_succ {w : World} {n r x : Nat} :
    x ∈ w.tree (n + 1) r ↔ x = r ∨ ∃ k ∈ w.listed r, x ∈ w.tree n k := by
  show x ∈ r :: ((w.listed r).map fun k => World.tree w n k).flatten ↔ _
  simp only [List.mem_cons, List.mem_flatten, List.mem_map]
  constructor
  · rintro (h | ⟨l, ⟨k, hk, rfl⟩, hx⟩)
    · exact Or.inl h
    · exact Or.inr ⟨k, hk, hx⟩
  · rintro (h | ⟨k, hk, hx⟩)
    · exact Or.inl h
    · exact Or.inr ⟨_, ⟨k, hk, rfl⟩, hx⟩

theorem self_mem_tree (w : World) (n r : Nat) : r ∈ w.tree (n + 1) r :=
  mem_tree_succ.2 (Or.inl rfl)

theorem tree_mono (w : World) : ∀ (n r x : Nat), x ∈ w.tree n r → x ∈ w.tree (n + 1) r := by
  intro n
  induction n with
  | zero =>
    intro r x h
    simp [World.tree] at h
  | succ n ih =>
    intro r x h
    rcases mem_tree_succ.1 h with h | ⟨k, hk, hx⟩
    · exact mem_tree_succ.2 (Or.inl h)
    · exact mem_tree_succ.2 (Or.inr ⟨k, hk, ih k x hx⟩)

theorem tree_mono_le (w : World) {n m : Nat} (h : n ≤ m) (r x : Nat)
    (hx : x ∈ w.tree n r) : x ∈ w.tree m r := by
  induction h with
  | refl => exact hx
  | step _ ih => exact tree_mono w _ r x ih

/-- A child of an item of a subtree is in the subtree, one level further down. -/
theorem tree_kid (w : World) : ∀ (n r x g : Nat), x ∈ w.tree n r → g ∈ w.listed x →
    g ∈ w.tree (n + 1) r := by
  intro n
  induction n with
  | zero =>
    intro r x g h
    simp [World.tree] at h
  | succ n ih =>
    intro r x g h hg
    rcases mem_tree_succ.1 h with h | ⟨k, hk, hx⟩
    · subst h
      exact mem_tree_succ.2 (Or.inr ⟨g, hg, self_mem_tree w n g⟩)
    · exact mem_tree_succ.2 (Or.inr ⟨k, hk, ih k x g hx hg⟩)

/-- An item of a subtree is its root, or a child of an item of the subtree. -/
theorem tree_up (w : World) : ∀ (n r x : Nat), x ∈ w.tree (n + 1) r →
    x = r ∨ ∃ P, x ∈ w.listed P ∧ P ∈ w.tree n r := by
  intro n
  induction n with
  | zero =>
    intro r x h
    rcases mem_tree_succ.1 h with h | ⟨k, _, hx⟩
    · exact Or.inl h
    · simp [World.tree] at hx
  | succ n ih =>
    intro r x h
    rcases mem_tree_succ.1 h with h | ⟨k, hk, hx⟩
    · exact Or.inl h
    · right
      rcases ih k x hx with h | ⟨P, hP, hin⟩
      · subst h
        exact ⟨r, hk, self_mem_tree w n r⟩
      · exact ⟨P, hP, mem_tree_succ.2 (Or.inr ⟨k, hk, hin⟩)⟩

theorem tree_congr {w w' : World} : ∀ (n r : Nat),
    (∀ N x, x ∈ w.tree N r → w'.listed x = w.listed x) → w'.tree n r = w.tree n r := by
  intro n
  induction n with
  | zero => intro r _; rfl
  | succ n ih =>
    intro r h
    show r :: ((w'.listed r).map fun k => World.tree w' n k).flatten
      = r :: ((w.listed r).map fun k => World.tree w n k).flatten
    rw [h 1 r (self_mem_tree w 0 r)]
    congr 2
    apply List.map_congr_left
    intro k hk
    exact ih k (fun N x hx => h (N + 1) x (mem_tree_succ.2 (Or.inr ⟨k, hk, hx⟩)))

theorem tree_rows {w w' : World} (h : w'.rows = w.rows) (n r : Nat) :
    w'.tree n r = w.tree n r :=
  tree_congr n r (fun _ x _ => listed_congr h x)

/-! ## Subtrees that can be deleted -/

theorem good_succ {w : World} {n id : Nat} :
    w.good (n + 1) id = true ↔
      w.nodeOK id = true ∧ ∀ k ∈ w.listed id, w.kidOK id k = true ∧ w.good n k = true := by
  show (w.nodeOK id && (w.listed id).all fun k => w.kidOK id k && World.good w n k) = true ↔ _
  simp only [Bool.and_eq_true, List.all_eq_true]

theorem good_pos {w : World} {n id : Nat} (h : w.good n id = true) : ∃ m, n = m + 1 := by
  cases n with
  | zero => simp [World.good] at h
  | succ m => exact ⟨m, rfl⟩

/-- An item of a subtree that can be deleted is the root of a subtree that can be deleted,
which is not deeper. -/
theorem sub_good {w : World} : ∀ (N m g x : Nat), w.good m g = true → x ∈ w.tree N g →
    ∃ j, j ≤ m ∧ w.good j x = true := by
  intro N
  induction N with
  | zero =>
    intro m g x _ h
    simp [World.tree] at h
  | succ N ih =>
    intro m g x hg h
    rcases mem_tree_succ.1 h with h | ⟨k, hk, hx⟩
    · subst h
      exact ⟨m, le_refl _, hg⟩
    · obtain ⟨m', rfl⟩ := good_pos hg
      obtain ⟨j, hj, hgood⟩ := ih m' k x ((good_succ.1 hg).2 k hk).2 hx
      exact ⟨j, Nat.le_succ_of_le hj, hgood⟩

/-- A subtree that can be deleted, of `n` levels, has no item below the level `n`. -/
theorem tree_stable {w : World} : ∀ (n N r x : Nat), w.good n r = true → x ∈ w.tree N r →
    x ∈ w.tree n r := by
  intro n
  induction n with
  | zero =>
    intro N r x h
    simp [World.good] at h
  | succ n ih =>
    intro N r x hg hx
    cases N with
    | zero => simp [World.tree] at hx
    | succ N =>
      rcases mem_tree_succ.1 hx with h | ⟨k, hk, hx'⟩
      · exact mem_tree_succ.2 (Or.inl h)
      · exact mem_tree_succ.2 (Or.inr ⟨k, hk, ih N k x ((good_succ.1 hg).2 k hk).2 hx'⟩)

/-- The root of a subtree that can be deleted is the child of no item of the subtree. -/
theorem good_acyclic {w : World} : ∀ (n r : Nat), w.good n r = true →
    ∀ N x, x ∈ w.tree N r → r ∉ w.listed x := by
  intro n
  induction n using Nat.strong_induction_on with
  | _ n ih =>
    intro r hg N x hx hr
    obtain ⟨j, hj, hgx⟩ := sub_good N n r x hg hx
    obtain ⟨j', rfl⟩ := good_pos hgx
    have hgr : w.good j' r = true := ((good_succ.1 hgx).2 r hr).2
    exact ih j' (by omega) r hgr N x hx hr

/-- The root of a subtree that can be deleted is not in the subtree of one of its
children. -/
theorem root_not_in_kid {w : World} {n p k : Nat} (hg : w.good n p = true)
    (hk : k ∈ w.listed p) : ∀ N, p ∉ w.tree N k := by
  intro N hp
  cases N with
  | zero => simp [World.tree] at hp
  | succ N =>
    rcases tree_up w N k p hp with h | ⟨P, hP, hin⟩
    · subst h
      exact good_acyclic n p hg 1 p (self_mem_tree w 0 p) hk
    · exact good_acyclic n p hg (N + 1) P (mem_tree_succ.2 (Or.inr ⟨k, hk, hin⟩)) hP

/-- The item in which the database locates the root of a subtree that can be deleted is not
in the subtree. -/
theorem loc_not_in_tree {w : World} {n k P : Nat} (hg : w.good n k = true)
    (hk : k ∈ w.listed P) : ∀ N, P ∉ w.tree N k :=
  fun N hP => good_acyclic n k hg N P hP hk

/-- The subtrees of two children of an item, neither of which holds the item, have no item in
common. -/
theorem kids_disjoint {w : World} (hs : mapSorted w.rows) {p k1 k2 : Nat}
    (h1 : ∀ N, p ∉ w.tree N k1) (h2 : ∀ N, p ∉ w.tree N k2)
    (hk1 : k1 ∈ w.listed p) (hk2 : k2 ∈ w.listed p) (hne : k1 ≠ k2) :
    ∀ N1 N2 x, x ∈ w.tree N1 k1 → x ∉ w.tree N2 k2 := by
  intro N1
  induction N1 with
  | zero =>
    intro N2 x h
    simp [World.tree] at h
  | succ N1 ih =>
    intro N2 x hx1 hx2
    cases N2 with
    | zero => simp [World.tree] at hx2
    | succ N2 =>
      rcases tree_up w N1 k1 x hx1 with h | ⟨P, hP, hin⟩
      · subst h
        rcases tree_up w N2 k2 x hx2 with h | ⟨P', hP', hin'⟩
        · exact hne h
        · have := listed_unique hs hk1 hP'
          subst this
          exact h2 N2 hin'
      · rcases tree_up w N2 k2 x hx2 with h | ⟨P', hP', hin'⟩
        · subst h
          have := listed_unique hs hk2 hP
          subst this
          exact h1 N1 hin
        · have := listed_unique hs hP hP'
          subst this
          exact ih N2 P hin hin'


/-! ## More about finite maps -/

theorem mapInsert_append {α : Type} (k : Nat) (v : α) :
    ∀ (m : AMap α), (∀ e ∈ m, e.1 < k) → mapInsert k v m = m ++ [(k, v)] := by
  intro m
  induction m with
  | nil => intro _; rfl
  | cons e t ih =>
    intro h
    obtain ⟨k', v'⟩ := e
    have hlt : k' < k := h (k', v') (List.mem_cons_self _ _)
    show (if k < k' then (k, v) :: (k', v') :: t
      else if k = k' then (k, v) :: t else (k', v') :: mapInsert k v t) = _
    rw [if_neg (by omega), if_neg (by omega), ih (fun e he => h e (List.mem_cons_of_mem _ he))]
    rfl

theorem mapInsert_sorted {α : Type} (k : Nat) (v : α) :
    ∀ (m : AMap α), mapSorted m → mapSorted (mapInsert k v m) := by
  intro m
  induction m with
  | nil =>
    intro _
    show List.Pairwise _ [k]
    exact List.pairwise_singleton _ _
  | cons e t ih =>
    intro hs
    obtain ⟨k', v'⟩ := e
    have hs' : List.Pairwise (fun a b => a < b) (k' :: t.map Prod.fst) := hs
    obtain ⟨hhead, htail⟩ := List.pairwise_cons.1 hs'
    show mapSorted (if k < k' then (k, v) :: (k', v') :: t
      else if k = k' then (k, v) :: t else (k', v') :: mapInsert k v t)
    by_cases h1 : k < k'
    · rw [if_pos h1]
      show List.Pairwise (fun a b => a < b) (k :: k' :: t.map Prod.fst)
      refine List.pairwise_cons.2 ⟨fun a ha => ?_, hs'⟩
      rcases List.mem_cons.1 ha with h | h
      · rw [h]; exact h1
      · exact Nat.lt_trans h1 (hhead a h)
    · rw [if_neg h1]
      by_cases h2 : k = k'
      · rw [if_pos h2]
        show List.Pairwise (fun a b => a < b) (k :: t.map Prod.fst)
        rw [h2]
        exact hs'
      · rw [if_neg h2]
        show List.Pairwise (fun a b => a < b) (k' :: (mapInsert k v t).map Prod.fst)
        refine List.pairwise_cons.2 ⟨fun a ha => ?_, ih htail⟩
        obtain ⟨e, he, rfl⟩ := List.mem_map.1 ha
        rcases mem_mapInsert he with h | h
        · rw [h]
          show k' < k
          omega
        · exact hhead e.1 (List.mem_map.2 ⟨e, h, rfl⟩)

theorem mapErase_eq_filter {α : Type} (k : Nat) :
    ∀ (m : AMap α), mapErase k m = m.filter fun e => decide (e.1 ≠ k) := by
  intro m
  induction m with
  | nil => rfl
  | cons e t ih =>
    obtain ⟨k', v'⟩ := e
    show (if k' = k then mapErase k t else (k', v') :: mapErase k t) = _
    by_cases h : k' = k
    · rw [if_pos h, List.filter_cons_of_neg (by simp [h]), ih]
    · rw [if_neg h, List.filter_cons_of_pos (by simp [h]), ih]

theorem filter_mapInsert_key {α : Type} (p : Nat → Bool) (k : Nat) (v : α) (hk : p k = false) :
    ∀ (m : AMap α), (mapInsert k v m).filter (fun e => p e.1) = m.filter (fun e => p e.1) := by
  intro m
  induction m with
  | nil =>
    show List.filter (fun e => p e.1) [(k, v)] = _
    rw [List.filter_cons_of_neg (by simp [hk])]
  | cons e t ih =>
    obtain ⟨k', v'⟩ := e
    show (if k < k' then (k, v) :: (k', v') :: t
      else if k = k' then (k, v) :: t else (k', v') :: mapInsert k v t).filter _ = _
    by_cases h1 : k < k'
    · rw [if_pos h1, List.filter_cons_of_neg (by simp [hk])]
    · rw [if_neg h1]
      by_cases h2 : k = k'
      · rw [if_pos h2, List.filter_cons_of_neg (by simp [hk]),
          List.filter_cons_of_neg (by simp [← h2, hk])]
      · rw [if_neg h2, List.filter_cons, List.filter_cons, ih]

theorem mapFind_filter_key {α : Type} (p : Nat → Bool) (k : Nat) :
    ∀ (m : AMap α), mapFind k (m.filter fun e => p e.1) = if p k then mapFind k m else none := by
  intro m
  induction m with
  | nil =>
    show none = _
    split <;> rfl
  | cons e t ih =>
    obtain ⟨k', v'⟩ := e
    by_cases hp : p k' = true
    · rw [List.filter_cons_of_pos (by simpa using hp)]
      show (if k' = k then some v' else mapFind k (t.filter fun e => p e.1)) = 
        if p k then (if k' = k then some v' else mapFind k t) else none
      by_cases h : k' = k
      · rw [if_pos h, ← h, hp]
        simp
      · rw [if_neg h, if_neg h, ih]
    · rw [List.filter_cons_of_neg (by simpa using hp), ih]
      show _ = if p k then (if k' = k then some v' else mapFind k t) else none
      by_cases h : k' = k
      · rw [← h]
        simp [hp]
      · rw [if_neg h]

theorem filter_sorted {α : Type} (p : Nat × α → Bool) {m : AMap α} (hs : mapSorted m) :
    mapSorted (m.filter p) :=
  List.Pairwise.sublist (List.Sublist.map _ (List.filter_sublist _)) hs

/-- Writing the row of an item over the one that is there changes no list of children of an
item that neither the old row nor the new row is located in. -/
theorem filter_mapInsert_loc (P k : Nat) (d : ItemData) (hd : d.locationID ≠ P) :
    ∀ (m : AMap ItemData), mapSorted m →
      (∀ d0, mapFind k m = some d0 → d0.locationID ≠ P) → (mapFind k m).isSome = true →
      (mapInsert k d m).filter (fun e => decide (e.2.locationID = P))
        = m.filter (fun e => decide (e.2.locationID = P)) := by
  intro m
  induction m with
  | nil =>
    intro _ _ h
    simp [mapFind] at h
  | cons e t ih =>
    intro hs h0 hsome
    obtain ⟨k', v'⟩ := e
    show (if k < k' then (k, d) :: (k', v') :: t
      else if k = k' then (k, d) :: t else (k', v') :: mapInsert k d t).filter _ = _
    by_cases h1 : k < k'
    · exfalso
      have hfind : mapFind k ((k', v') :: t) = mapFind k t := by
        show (if k' = k then some v' else mapFind k t) = _
        rw [if_neg (by omega)]
      rw [hfind] at hsome
      cases hf : mapFind k t with
      | none => rw [hf] at hsome; simp at hsome
      | some d1 =>
        have := mapSorted_head_lt hs (k, d1) (mapFind_mem hf)
        simp only at this
        omega
    · rw [if_neg h1]
      by_cases h2 : k = k'
      · rw [if_pos h2, List.filter_cons_of_neg (by simpa using hd)]
        have : v'.locationID ≠ P := h0 v' (by
          show (if k' = k then some v' else mapFind k t) = some v'
          rw [if_pos h2.symm])
        rw [List.filter_cons_of_neg (by simpa using this)]
      · rw [if_neg h2, List.filter_cons, List.filter_cons]
        have hfind : mapFind k ((k', v') :: t) = mapFind k t := by
          show (if k' = k then some v' else mapFind k t) = _
          rw [if_neg (fun h => h2 h.symm)]
        rw [hfind] at h0 hsome
        rw [ih (mapSorted_tail hs) h0 hsome]


/-! ## What the predicates of a subtree depend on -/

theorem all_congr_mem {α : Type} {f g : α → Bool} :
    ∀ (l : List α), (∀ a ∈ l, f a = g a) → l.all f = l.all g := by
  intro l
  induction l with
  | nil => intro _; rfl
  | cons a t ih =>
    intro h
    rw [List.all_cons, List.all_cons, h a (List.mem_cons_self _ _),
      ih (fun b hb => h b (List.mem_cons_of_mem _ hb))]

theorem rowsAgree_of_check {w : World} (h : rowsAgreeB w = true) : RowsAgree w := by
  intro k p x hk hx
  unfold rowsAgreeB at h
  rw [List.all_eq_true] at h
  have := h (k, p) (mapFind_mem hk)
  simp only [hx] at this
  cases hr : mapFind k w.rows with
  | none => simp [hr] at this
  | some d =>
    simp only [hr, decide_eq_true_eq] at this
    exact ⟨d, rfl, this⟩

theorem World.loaded_congr {w w' : World} {x : Nat}
    (hc : mapFind x w'.m_items = mapFind x w.m_items)
    (hi : ∀ p, mapFind x w.m_items = some p → w'.get p = w.get p) :
    w'.loaded x = w.loaded x := by
  unfold World.loaded
  rw [hc]
  cases h : mapFind x w.m_items with
  | none => rfl
  | some p =>
    simp only
    rw [hi p h]

theorem World.inst_congr {w w' : World} {x : Nat}
    (hc : mapFind x w'.m_items = mapFind x w.m_items)
    (hi : ∀ p, mapFind x w.m_items = some p → w'.get p = w.get p) :
    w'.inst x = w.inst x := by
  unfold World.inst
  rw [hc]
  cases h : mapFind x w.m_items with
  | none => rfl
  | some p => exact hi p h

theorem World.inst_some {w : World} {x p : Nat} {y : InventoryItem}
    (hc : mapFind x w.m_items = some p) (hy : w.get p = some y) : w.inst x = some y := by
  unfold World.inst
  rw [hc]
  exact hy

theorem World.inst_none {w : World} {x : Nat} (hc : mapFind x w.m_items = none) :
    w.inst x = none := by
  unfold World.inst
  rw [hc]
  rfl

theorem nodeOK_congr {w w' : World} {x : Nat} (ht : w'.types = w.types)
    (hf1 : w'.attrLoadFails = w.attrLoadFails)
    (hf2 : w'.contentsQueryFails = w.contentsQueryFails)
    (hc : mapFind x w'.m_items = mapFind x w.m_items)
    (hi : ∀ p, mapFind x w.m_items = some p → w'.get p = w.get p)
    (hl : w'.listed x = w.listed x) (hr : mapFind x w'.rows = mapFind x w.rows)
    (hb : mapFind x w'.bpRows = mapFind x w.bpRows) : w'.nodeOK x = w.nodeOK x := by
  unfold World.nodeOK
  rw [hc, hl, hr, hb, ht, hf1, hf2]
  cases h : mapFind x w.m_items with
  | none => rfl
  | some p =>
    simp only
    rw [hi p h]

theorem kidOK_congr {w w' : World} {p k : Nat} (hl : w'.loaded p = w.loaded p)
    (hi : w'.inst k = w.inst k) : w'.kidOK p k = w.kidOK p k := by
  unfold World.kidOK
  rw [hl, hi]

/-- The predicate `good` of a subtree depends on the cache entries, the instances and the
rows of the items of the subtree only. -/
theorem good_congr {w w' : World} (S : Nat → Prop)
    (hS : ∀ x g, S x → g ∈ w.listed x → S g) (ht : w'.types = w.types)
    (hf1 : w'.attrLoadFails = w.attrLoadFails)
    (hf2 : w'.contentsQueryFails = w.contentsQueryFails)
    (hc : ∀ x, S x → mapFind x w'.m_items = mapFind x w.m_items)
    (hi : ∀ x p, S x → mapFind x w.m_items = some p → w'.get p = w.get p)
    (hl : ∀ x, S x → w'.listed x = w.listed x)
    (hr : ∀ x, S x → mapFind x w'.rows = mapFind x w.rows)
    (hb : ∀ x, S x → mapFind x w'.bpRows = mapFind x w.bpRows) :
    ∀ (n r : Nat), S r → w'.good n r = w.good n r := by
  intro n
  induction n with
  | zero => intro r _; rfl
  | succ n ih =>
    intro r hSr
    show (w'.nodeOK r && (w'.listed r).all fun k => w'.kidOK r k && World.good w' n k)
      = (w.nodeOK r && (w.listed r).all fun k => w.kidOK r k && World.good w n k)
    rw [nodeOK_congr ht hf1 hf2 (hc r hSr) (hi r · hSr) (hl r hSr) (hr r hSr) (hb r hSr),
      hl r hSr]
    congr 1
    apply all_congr_mem
    intro k hk
    have hSk := hS r k hSr hk
    rw [kidOK_congr (World.loaded_congr (hc r hSr) (hi r · hSr))
      (World.inst_congr (hc k hSk) (hi k · hSk)), ih k hSk]

/-- The items below `r` in the database. -/
theorem desc_closed (w : World) (r : Nat) :
    ∀ x g, (∃ N, x ∈ w.tree N r) → g ∈ w.listed x → ∃ N, g ∈ w.tree N r :=
  fun x g ⟨N, hx⟩ hg => ⟨N + 1, tree_kid w N r x g hx hg⟩

/-! ## Worlds that have grown -/

theorem World.grown.grefl (w : World) (T : List Nat) (e : Nat) : w.grown w T e :=
  { rows := rfl, bpRows := rfl, attrRows := rfl, types := rfl, attrFails := rfl,
    queryFails := rfl, addr := le_refl _, cache_out := fun _ _ => rfl,
    cache_in := fun _ _ h => h, cache_new := fun _ _ h => Or.inl h,
    frame := fun _ _ h _ _ => h }

theorem World.grown.gtrans {w0 w1 w2 : World} {T1 T2 : List Nat} {e : Nat}
    (h1 : w1.grown w0 T1 e) (h2 : w2.grown w1 T2 e) : w2.grown w0 (T1 ++ T2) e :=
  { rows := h2.rows.trans h1.rows
    bpRows := h2.bpRows.trans h1.bpRows
    attrRows := h2.attrRows.trans h1.attrRows
    types := h2.types.trans h1.types
    attrFails := h2.attrFails.trans h1.attrFails
    queryFails := h2.queryFails.trans h1.queryFails
    addr := le_trans h1.addr h2.addr
    cache_out := fun k hk => by
      rw [h2.cache_out k (fun h => hk (List.mem_append_right _ h)),
        h1.cache_out k (fun h => hk (List.mem_append_left _ h))]
    cache_in := fun k p h => h2.cache_in k p (h1.cache_in k p h)
    cache_new := fun k p h => by
      rcases h2.cache_new k p h with h | h
      · rcases h1.cache_new k p h with h | h
        · exact Or.inl h
        · exact Or.inr h
      · exact Or.inr (le_trans h1.addr h)
    frame := fun q x hq hqe hT => by
      refine h2.frame q x (h1.frame q x hq hqe
        (fun k hk => hT k (List.mem_append_left _ hk))) hqe (fun k hk hc => ?_)
      rcases h1.cache_new k q hc with h | h
      · exact hT k (List.mem_append_right _ hk) h
      · have := (World.get_guard hq).2
        omega }

theorem World.grown.weaken {w' w : World} {T T' : List Nat} {e e' : Nat}
    (h : w'.grown w T e) (hT : ∀ k ∈ T, k ∈ T') (he : e = 0 ∨ e = e') : w'.grown w T' e' :=
  { rows := h.rows, bpRows := h.bpRows, attrRows := h.attrRows, types := h.types,
    attrFails := h.attrFails, queryFails := h.queryFails, addr := h.addr
    cache_out := fun k hk => h.cache_out k (fun hk' => hk (hT k hk'))
    cache_in := h.cache_in
    cache_new := h.cache_new
    frame := fun q x hq hqe hq' => by
      refine h.frame q x hq ?_ (fun k hk => hq' k (hT k hk))
      rcases he with he | he
      · rw [he]
        exact Nat.ne_of_gt (World.get_guard hq).1
      · rw [he]
        exact hqe }

/-- An item outside the items that were loaded has the cache entry and the instance that it
had. -/
theorem World.grown.gsame {w' w : World} {T : List Nat} {e : Nat} (hcl : CacheLive w)
    (h : w'.grown w T e) {x : Nat} (hx : x ∉ T) :
    mapFind x w'.m_items = mapFind x w.m_items ∧
      ∀ p, mapFind x w.m_items = some p → p ≠ e → w'.get p = w.get p := by
  refine ⟨h.cache_out x hx, fun p hp hpe => ?_⟩
  obtain ⟨c, hc, _, _⟩ := hcl x p hp
  rw [hc]
  refine h.frame p c hc hpe (fun k hk hkp => ?_)
  have := cache_key_unique hcl hkp hp
  subst this
  exact hx hk

/-- A subtree none of whose items was loaded, and which does not hold the instance at `e`,
can be deleted after the loading whenever it could be deleted before. -/
theorem World.grown.ggood {w' w : World} {T : List Nat} {e : Nat} (hcl : CacheLive w)
    (h : w'.grown w T e) {r : Nat} (hT : ∀ N x, x ∈ w.tree N r → x ∉ T)
    (he : ∀ N x p, x ∈ w.tree N r → mapFind x w.m_items = some p → p ≠ e) (n : Nat)
    (hr : ∃ N, r ∈ w.tree N r) : w'.good n r = w.good n r := by
  refine good_congr (fun x => ∃ N, x ∈ w.tree N r) (desc_closed w r) h.types h.attrFails
    h.queryFails (fun x ⟨N, hx⟩ => (h.gsame hcl (hT N x hx)).1)
    (fun x p ⟨N, hx⟩ hp => (h.gsame hcl (hT N x hx)).2 p hp (he N x p hx hp))
    (fun x _ => listed_congr h.rows x) (fun x _ => by rw [h.rows])
    (fun x _ => by rw [h.bpRows]) n r hr

theorem World.grown.gloaded {w' w : World} {T : List Nat} {e : Nat} (hcl : CacheLive w)
    (h : w'.grown w T e) {x : Nat} (hx : x ∉ T)
    (he : ∀ p, mapFind x w.m_items = some p → p ≠ e) : w'.loaded x = w.loaded x :=
  World.loaded_congr (h.gsame hcl hx).1 (fun p hp => (h.gsame hcl hx).2 p hp (he p hp))

theorem World.grown.ginst {w' w : World} {T : List Nat} {e : Nat} (hcl : CacheLive w)
    (h : w'.grown w T e) {x : Nat} (hx : x ∉ T)
    (he : ∀ p, mapFind x w.m_items = some p → p ≠ e) : w'.inst x = w.inst x :=
  World.inst_congr (h.gsame hcl hx).1 (fun p hp => (h.gsame hcl hx).2 p hp (he p hp))

/-! ## The map of a container and the list of the database -/

/-- In a well-formed world the map of a resident container with its contents loaded, which
holds every child that the database lists, has exactly the listed children as its keys, in
the order of the database. -/
theorem keys_eq_listed {w : World} (hsd : Sound w) {id p : Nat} {x : InventoryItem}
    (hc : mapFind id w.m_items = some p) (hx : w.get p = some x)
    (hld : x.m_contentsLoaded = true) (hs : mapSorted x.m_contents)
    (hall : ∀ c ∈ w.listed id, (mapFind c x.m_contents).isSome = true) :
    x.m_contents.map Prod.fst = w.listed id := by
  have hid : x.m_itemID = id := by
    obtain ⟨c, hc', h1, _⟩ := hsd.live id p hc
    rw [hx] at hc'
    simp only [Option.some.injEq] at hc'
    subst hc'
    exact h1
  subst hid
  apply List.eq_of_perm_of_sorted ?_ hs (listed_pairwise hsd.keyed _)
  rw [List.perm_ext_iff_of_nodup (List.Pairwise.imp (fun h => Nat.ne_of_lt h) hs)
    (List.Pairwise.imp (fun h => Nat.ne_of_lt h) (listed_pairwise hsd.keyed _))]
  intro k
  constructor
  · intro hk
    obtain ⟨e, he, rfl⟩ := List.mem_map.1 hk
    obtain ⟨_, _, hce, y, hy, _, hloc⟩ := child_of_node hsd.live hsd.mirrors hx hc hs hld he
    obtain ⟨d, hd, hdl⟩ := hsd.agree e.1 e.2 y hce hy
    exact (mem_listed_iff hsd.keyed).2 ⟨d, hd, hdl.trans hloc⟩
  · intro hk
    have := hall k hk
    cases hf : mapFind k x.m_contents with
    | none => rw [hf] at this; simp at this
    | some q => exact List.mem_map.2 ⟨(k, q), mapFind_mem hf, rfl⟩


/-! ## The node predicate, case by case -/

theorem nodeOK_ne6 {w : World} {id : Nat} (h : w.nodeOK id = true) : id ≠ 6 := by
  unfold World.nodeOK at h
  rw [Bool.and_eq_true] at h
  simpa using h.1

theorem nodeOK_resident {w : World} {id p : Nat} {x : InventoryItem}
    (hc : mapFind id w.m_items = some p) (hx : w.get p = some x) :
    w.nodeOK id = true ↔
      id ≠ 6 ∧ mapSorted x.m_contents ∧
      (x.m_contentsLoaded = true → ∀ c ∈ w.listed id, (mapFind c x.m_contents).isSome = true) ∧
      (x.m_contentsLoaded = false → x.m_contents = [] ∧ id ∉ w.contentsQueryFails) := by
  unfold World.nodeOK
  simp only [hc, hx]
  cases hl : x.m_contentsLoaded with
  | true =>
    simp only [if_true, Bool.and_eq_true, decide_eq_true_eq, List.all_eq_true]
    constructor
    · rintro ⟨h1, h2, h3⟩
      exact ⟨h1, h2, fun _ => h3, fun h => by cases h⟩
    · rintro ⟨h1, h2, h3, _⟩
      exact ⟨h1, h2, h3 trivial⟩
  | false =>
    simp only [Bool.false_eq_true, if_false, Bool.and_eq_true, decide_eq_true_eq,
      List.isEmpty_iff]
    constructor
    · rintro ⟨h1, h2, h3, h4⟩
      exact ⟨h1, h2, fun h => h.elim, fun _ => ⟨h3, h4⟩⟩
    · rintro ⟨h1, h2, _, h4⟩
      exact ⟨h1, h2, (h4 trivial).1, (h4 trivial).2⟩

theorem nodeOK_absent {w : World} {id : Nat} (hc : mapFind id w.m_items = none) :
    w.nodeOK id = true ↔
      id ≠ 6 ∧ ∃ d t, mapFind id w.rows = some d ∧ mapFind d.typeID w.types = some t ∧
        (t.categoryID ≠ invCategories_Blueprint ∨ (mapFind id w.bpRows).isSome = true) ∧
        id ∉ w.attrLoadFails ∧ id ∉ w.contentsQueryFails := by
  unfold World.nodeOK
  simp only [hc]
  cases hd : mapFind id w.rows with
  | none => simp
  | some d =>
    simp only
    cases ht : mapFind d.typeID w.types with
    | none =>
      simp only [Bool.and_false, Bool.false_eq_true, false_iff, not_and, not_exists]
      intro _ d' t' hd' ht'
      simp only [Option.some.injEq] at hd'
      subst hd'
      rw [ht] at ht'
      cases ht'
    | some t =>
      simp only [Bool.and_eq_true, Bool.or_eq_true, decide_eq_true_eq]
      constructor
      · rintro ⟨h1, ⟨h2, h3⟩, h4⟩
        exact ⟨h1, d, t, rfl, ht, h2, h3, h4⟩
      · rintro ⟨h1, d', t', hd', ht', h2, h3, h4⟩
        simp only [Option.some.injEq] at hd'
        subst hd'
        rw [ht] at ht'
        simp only [Option.some.injEq] at ht'
        subst ht'
        exact ⟨h1, ⟨h2, h3⟩, h4⟩

/-! ## Changes that the invariants of the world do not see -/

/-- The invariants of the world look at the cached instances only, and only at their item
id, location and loaded flag, at their map when the contents are loaded, and at whether
they hold a reference. -/
theorem Sound.ssame {w w' : World} (hs : Sound w) (hm : w'.m_items = w.m_items)
    (hr : w'.rows = w.rows)
    (hg : ∀ k q x, mapFind k w.m_items = some q → w.get q = some x →
      ∃ x', w'.get q = some x' ∧ x'.m_itemID = x.m_itemID ∧ 1 ≤ x'.m_refCount ∧
        x'.m_locationID = x.m_locationID ∧ x'.m_contentsLoaded = x.m_contentsLoaded ∧
        (x.m_contentsLoaded = true → x'.m_contents = x.m_contents)) : Sound w' := by
  have back : ∀ k q x', mapFind k w.m_items = some q → w'.get q = some x' →
      ∃ x, w.get q = some x ∧ x'.m_itemID = x.m_itemID ∧ 1 ≤ x'.m_refCount ∧
        x'.m_locationID = x.m_locationID ∧ x'.m_contentsLoaded = x.m_contentsLoaded ∧
        (x.m_contentsLoaded = true → x'.m_contents = x.m_contents) := by
    intro k q x' hk hx'
    obtain ⟨x, hx, _, _⟩ := hs.live k q hk
    obtain ⟨x'', hx'', h⟩ := hg k q x hk hx
    rw [hx'] at hx''
    simp only [Option.some.injEq] at hx''
    subst hx''
    exact ⟨x, hx, h⟩
  refine ⟨fun k p hk => ?_, fun k pc c' hk hc' hl' id q => ?_, fun k p x' hk hx' => ?_, ?_⟩
  · rw [hm] at hk
    obtain ⟨x, hx, hid, _⟩ := hs.live k p hk
    obtain ⟨x', hx', h1, h2, _⟩ := hg k p x hk hx
    exact ⟨x', hx', h1.trans hid, h2⟩
  · rw [hm] at hk
    obtain ⟨c, hc, _, _, _, h4, h5⟩ := back k pc c' hk hc'
    rw [hl'] at h4
    rw [h5 h4.symm, hm, hs.mirrors k pc c hk hc h4.symm id q]
    constructor
    · rintro ⟨h1, iq, hiq, hloc⟩
      obtain ⟨iq', hiq', _, _, h3, _⟩ := hg id q iq h1 hiq
      exact ⟨h1, iq', hiq', h3.trans hloc⟩
    · rintro ⟨h1, iq', hiq', hloc⟩
      obtain ⟨iq, hiq, _, _, h3, _⟩ := back id q iq' h1 hiq'
      exact ⟨h1, iq, hiq, h3.symm.trans hloc⟩
  · rw [hm] at hk
    obtain ⟨x, hx, _, _, h3, _⟩ := back k p x' hk hx'
    obtain ⟨d, hd, hloc⟩ := hs.agree k p x hk hx
    exact ⟨d, by rw [hr]; exact hd, hloc.trans h3.symm⟩
  · rw [hr]
    exact hs.keyed

/-- The invariants of the world after the contents of an item were loaded: its map holds
exactly its resident children. -/
theorem Sound.set_loaded {w : World} {this : Nat} {c : InventoryItem} (hs : Sound w)
    (hc : w.get this = some c)
    (hmf : ∀ k a, mapFind k c.m_contents = some a ↔
      (mapFind k w.m_items = some a ∧ ∃ x, w.get a = some x ∧ x.m_locationID = c.m_itemID)) :
    Sound (w.set this { c with m_contentsLoaded := true }) := by
  have hget : ∀ q, (w.set this { c with m_contentsLoaded := true }).get q
      = if q = this then some { c with m_contentsLoaded := true } else w.get q :=
    fun q => World.get_set_live hc q _
  have hloc : ∀ a K, (∃ x, (w.set this { c with m_contentsLoaded := true }).get a = some x ∧
      x.m_locationID = K) ↔ ∃ x, w.get a = some x ∧ x.m_locationID = K := by
    intro a K
    rw [hget]
    by_cases ha : a = this
    · subst ha
      rw [if_pos rfl, hc]
      constructor
      · rintro ⟨x, hx, hl⟩
        simp only [Option.some.injEq] at hx
        subst hx
        exact ⟨c, rfl, hl⟩
      · rintro ⟨x, hx, hl⟩
        simp only [Option.some.injEq] at hx
        subst hx
        exact ⟨_, rfl, hl⟩
    · rw [if_neg ha]
  refine ⟨fun k p hk => ?_, fun k pc c' hk hc' hl' id q => ?_, fun k p x' hk hx' => ?_,
    hs.keyed⟩
  · have hk' : mapFind k w.m_items = some p := hk
    obtain ⟨x, hx, hid, hrc⟩ := hs.live k p hk'
    rw [hget]
    by_cases hp : p = this
    · subst hp
      rw [hc] at hx
      simp only [Option.some.injEq] at hx
      subst hx
      rw [if_pos rfl]
      exact ⟨_, rfl, hid, hrc⟩
    · rw [if_neg hp]
      exact ⟨x, hx, hid, hrc⟩
  · have hk' : mapFind k w.m_items = some pc := hk
    show _ ↔ (mapFind id w.m_items = some q ∧ _)
    rw [hloc]
    rw [hget] at hc'
    by_cases hp : pc = this
    · subst hp
      rw [if_pos rfl] at hc'
      simp only [Option.some.injEq] at hc'
      subst hc'
      obtain ⟨x, hx, hid, _⟩ := hs.live k pc hk'
      rw [hc] at hx
      simp only [Option.some.injEq] at hx
      subst hx
      rw [← hid]
      exact hmf id q
    · rw [if_neg hp] at hc'
      exact hs.mirrors k pc c' hk' hc' hl' id q
  · have hk' : mapFind k w.m_items = some p := hk
    rw [hget] at hx'
    by_cases hp : p = this
    · subst hp
      rw [if_pos rfl] at hx'
      simp only [Option.some.injEq] at hx'
      subst hx'
      exact hs.agree k p c hk' hc
    · rw [if_neg hp] at hx'
      exact hs.agree k p x' hk' hx'

/-- The invariants of the world after a new instance was entered in the cache, when the
item is located in an item that is not resident with its contents loaded. -/
theorem Sound.scache_insert {w : World} {k i : Nat} {c : InventoryItem} {d : ItemData}
    (hs : Sound w) (hi : w.get i = some c) (hid : c.m_itemID = k) (hrc : 1 ≤ c.m_refCount)
    (hnew : mapFind k w.m_items = none) (hrow : mapFind k w.rows = some d)
    (hloc : d.locationID = c.m_locationID) (hP : w.loaded c.m_locationID = none)
    (hPk : c.m_locationID ≠ k)
    (hmf : ∀ g a, mapFind g c.m_contents = some a ↔
      (mapFind g w.m_items = some a ∧ ∃ x, w.get a = some x ∧ x.m_locationID = k))
    : Sound { w with m_items := mapInsert k i w.m_items } := by
  have hget : ∀ q, World.get { w with m_items := mapInsert k i w.m_items } q = w.get q :=
    fun _ => rfl
  have hcache : ∀ g, mapFind g (mapInsert k i w.m_items)
      = if g = k then some i else mapFind g w.m_items := fun g => mapFind_mapInsert k g i _
  refine ⟨fun g p hg => ?_, fun kz pz cz hkz hcz hlz g a => ?_, fun g p x hg hx => ?_,
    hs.keyed⟩
  · have hg' : mapFind g (mapInsert k i w.m_items) = some p := hg
    rw [hcache] at hg'
    rw [hget]
    by_cases hgk : g = k
    · rw [if_pos hgk] at hg'
      simp only [Option.some.injEq] at hg'
      subst hg'
      exact ⟨c, hi, hid.trans hgk.symm, hrc⟩
    · rw [if_neg hgk] at hg'
      exact hs.live g p hg'
  · have hkz' : mapFind kz (mapInsert k i w.m_items) = some pz := hkz
    rw [hcache] at hkz'
    rw [hget] at hcz
    show _ ↔ (mapFind g (mapInsert k i w.m_items) = some a ∧ ∃ x, w.get a = some x ∧ _)
    rw [hcache]
    by_cases hz : kz = k
    · rw [if_pos hz] at hkz'
      simp only [Option.some.injEq] at hkz'
      subst hkz'
      rw [hi] at hcz
      simp only [Option.some.injEq] at hcz
      subst hcz
      rw [hz, hmf g a]
      by_cases hgk : g = k
      · rw [if_pos hgk, hgk, hnew]
        constructor
        · rintro ⟨h, _⟩
          cases h
        · rintro ⟨h, x, hx, hl⟩
          simp only [Option.some.injEq] at h
          subst h
          rw [hi] at hx
          simp only [Option.some.injEq] at hx
          subst hx
          exact absurd hl hPk
      · rw [if_neg hgk]
    · rw [if_neg hz] at hkz'
      rw [hs.mirrors kz pz cz hkz' hcz hlz g a]
      by_cases hgk : g = k
      · rw [if_pos hgk, hgk, hnew]
        constructor
        · rintro ⟨h, _⟩
          cases h
        · rintro ⟨h, x, hx, hl⟩
          simp only [Option.some.injEq] at h
          subst h
          rw [hi] at hx
          simp only [Option.some.injEq] at hx
          subst hx
          rw [hl, World.loaded_of hkz' hcz hlz] at hP
          cases hP
      · rw [if_neg hgk]
  · have hg' : mapFind g (mapInsert k i w.m_items) = some p := hg
    rw [hcache] at hg'
    rw [hget] at hx
    by_cases hgk : g = k
    · rw [if_pos hgk] at hg'
      simp only [Option.some.injEq] at hg'
      subst hg'
      rw [hi] at hx
      simp only [Option.some.injEq] at hx
      subst hx
      rw [hgk]
      exact ⟨d, hrow, hloc⟩
    · rw [if_neg hgk] at hg'
      exact hs.agree g p x hg' hx


/-! ## One child is put into the map of its container -/

theorem refCount_back (x : InventoryItem) :
    ({ x with m_refCount := x.m_refCount + 1 - 1 } : InventoryItem) = x := by
  cases x
  simp

/-- What `LoadContents` does with a child that the factory returned: the child is put into
the map, and the reference that the factory gave is released. -/
theorem attach_release {v : World} {this a : Nat} {c x : InventoryItem} (f : Nat)
    (hc : v.get this = some c) (hx : v.get a = some x) (hne : a ≠ this)
    (hent : mapFind x.m_itemID c.m_contents = none) (hrc : 1 ≤ x.m_refCount)
    (hmax : x.m_refCount + 1 < 2 ^ 16) :
    ∃ v3, (InventoryItem.AddContainedItem this a v).bind (InventoryItem.Release f a) = some v3 ∧
      (∀ q, v3.get q = if q = this then
          some { c with m_contents := mapInsert x.m_itemID a c.m_contents }
        else v.get q) ∧
      v3.m_items = v.m_items ∧ v3.nextAddr = v.nextAddr ∧ v3.db = v.db := by
  have h1 : (v.set a { x with m_refCount := x.m_refCount + 1 }).get this = some c := by
    rw [World.get_set_live hx, if_neg (Ne.symm hne)]
    exact hc
  have hA : InventoryItem.AddContainedItem this a v
      = some ((v.set a { x with m_refCount := x.m_refCount + 1 }).set this
          { c with m_contents := mapInsert x.m_itemID a c.m_contents }) := by
    unfold InventoryItem.AddContainedItem
    simp only [hc, hx, hent]
    rw [Ref_fwd hx hrc hmax]
    simp only [h1]
  have h2 : ((v.set a { x with m_refCount := x.m_refCount + 1 }).set this
      { c with m_contents := mapInsert x.m_itemID a c.m_contents }).get a
      = some { x with m_refCount := x.m_refCount + 1 } := by
    rw [World.get_set_live h1, if_neg hne, World.get_set_live hx, if_pos rfl]
  refine ⟨((v.set a { x with m_refCount := x.m_refCount + 1 }).set this
      { c with m_contents := mapInsert x.m_itemID a c.m_contents }).set a
      { x with m_refCount := x.m_refCount + 1 - 1 }, ?_, fun q => ?_, rfl, rfl, rfl⟩
  · rw [hA, Option.some_bind]
    exact Release_fwd h2 (by show 2 ≤ x.m_refCount + 1; omega) f
  · rw [World.get_set_live h2]
    by_cases hq : q = a
    · subst hq
      rw [if_pos rfl, if_neg hne, hx]
      show some ({ x with m_refCount := x.m_refCount + 1 - 1 } : InventoryItem) = some x
      rw [refCount_back]
    · rw [if_neg hq, World.get_set_live h1]
      by_cases hq2 : q = this
      · rw [if_pos hq2, if_pos hq2]
      · rw [if_neg hq2, if_neg hq2, World.get_set_live hx, if_neg hq]

theorem grown_of_db {w' w : World} {e : Nat} (hdb : w'.db = w.db)
    (hm : w'.m_items = w.m_items) (hn : w'.nextAddr = w.nextAddr)
    (hg : ∀ q, q ≠ e → w'.get q = w.get q) : w'.grown w [] e :=
  { rows := @congrArg World _ w'.db w.db World.rows hdb
    bpRows := @congrArg World _ w'.db w.db World.bpRows hdb
    attrRows := @congrArg World _ w'.db w.db World.attrRows hdb
    types := @congrArg World _ w'.db w.db World.types hdb
    attrFails := @congrArg World _ w'.db w.db World.attrLoadFails hdb
    queryFails := @congrArg World _ w'.db w.db World.contentsQueryFails hdb
    addr := by rw [hn]
    cache_out := fun k _ => by rw [hm]
    cache_in := fun k p h => by rw [hm]; exact h
    cache_new := fun k p h => Or.inl (by rw [← hm]; exact h)
    frame := fun q x hq hqe _ => by rw [hg q hqe]; exact hq }

/-- The instance at `this`, an instance of the item `id`, is the cached instance of no item of
a subtree that does not hold `id`. -/
theorem not_cached_in {v : World} {this id : Nat} {c : InventoryItem} (hcl : CacheLive v)
    (hc : v.get this = some c) (hid : c.m_itemID = id) {r : Nat}
    (hacyc : ∀ N, id ∉ v.tree N r) :
    ∀ N x p, x ∈ v.tree N r → mapFind x v.m_items = some p → p ≠ this := by
  intro N x p hx hp hpt
  subst hpt
  obtain ⟨c', hc', hid', _⟩ := hcl x p hp
  rw [hc] at hc'
  simp only [Option.some.injEq] at hc'
  subst hc'
  exact hacyc N (by rw [← hid, hid']; exact hx)

/-- One step of the loop of `LoadContents(true)` over the listed children: the child `k`,
whose subtree can be deleted, is fetched from the factory with its subtree loaded and put
into the map of the container at `this`, after the entries `M` of the children before it. -/
theorem LC_step (m f this : Nat)
    (GI : ∀ (w : World) (k P : Nat), Sound w → w.good m k = true → k ∈ w.listed P →
      w.loaded P = none → (∀ x, w.inst k = some x → x.m_refCount + 2 < 2 ^ 16) →
      ∃ a w' x, ItemFactory.GetItem f k true w = some (a, w') ∧
        mapFind k w'.m_items = some a ∧ w'.get a = some x ∧ 2 ≤ x.m_refCount ∧
        x.m_refCount + 1 < 2 ^ 16 ∧ w'.good m k = true ∧ Sound w' ∧
        w'.grown w (w.tree m k) 0)
    {v : World} {me : InventoryItem} {M : AMap Nat} {k : Nat}
    (hs : Sound v) (hme : v.get this = some { me with m_contents := M })
    (hld : me.m_contentsLoaded = false)
    (hpar : ∀ p, mapFind me.m_itemID v.m_items = some p → p = this)
    (hk : k ∈ v.listed me.m_itemID) (hM : ∀ e ∈ M, e.1 < k)
    (hgood : v.good m k = true) (hbound : ∀ x, v.inst k = some x → x.m_refCount + 2 < 2 ^ 16)
    (hacyc : ∀ N, me.m_itemID ∉ v.tree N k) :
    ∃ a v1 v3 x, ItemFactory.GetItem f k true v = some (a, v1) ∧ a ≠ 0 ∧
      (InventoryItem.AddContainedItem this a v1).bind (InventoryItem.Release f a) = some v3 ∧
      v3.get this = some { me with m_contents := M ++ [(k, a)] } ∧
      mapFind k v3.m_items = some a ∧ v3.get a = some x ∧ 2 ≤ x.m_refCount ∧
      x.m_refCount + 1 < 2 ^ 16 ∧ v3.good m k = true ∧ Sound v3 ∧
      v3.grown v (v.tree m k) this := by
  have hlP : v.loaded me.m_itemID = none := by
    unfold World.loaded
    cases hc : mapFind me.m_itemID v.m_items with
    | none => rfl
    | some p =>
      have := hpar p hc
      subst this
      simp only [hme]
      show (if me.m_contentsLoaded = true then some p else none) = none
      rw [hld]
      rfl
  obtain ⟨a, v1, x, hG, hca, hx, hrc2, hmax, hgood1, hs1, hgr⟩ :=
    GI v k me.m_itemID hs hgood hk hlP hbound
  have hthis0 : this ≠ 0 := World.get_ne_zero hme
  have hnc := not_cached_in hs.live hme rfl hacyc
  have hme1 : v1.get this = some { me with m_contents := M } :=
    hgr.frame this _ hme hthis0 (fun k' hk' hc => hnc m k' this hk' hc rfl)
  have hxid : x.m_itemID = k := by
    obtain ⟨x', hx', hid, _⟩ := hs1.live k a hca
    rw [hx] at hx'
    simp only [Option.some.injEq] at hx'
    subst hx'
    exact hid
  have hkid : k ≠ me.m_itemID := by
    intro h
    obtain ⟨m', rfl⟩ := good_pos hgood
    exact hacyc (m' + 1) (by rw [← h]; exact self_mem_tree v m' k)
  have hne : a ≠ this := by
    intro h
    subst h
    rw [hx] at hme1
    simp only [Option.some.injEq] at hme1
    subst hme1
    exact hkid hxid.symm
  have hent : mapFind x.m_itemID ({ me with m_contents := M } : InventoryItem).m_contents
      = none := by
    rw [hxid]
    exact (mapFind_none_iff k M).2 (fun e he => Nat.ne_of_lt (hM e he))
  obtain ⟨v3, hAR, hget3, hm3, hn3, hdb3⟩ :=
    attach_release f hme1 hx hne hent (by omega) hmax
  have hgr3 : v3.grown v1 [] this :=
    grown_of_db hdb3 hm3 hn3 (fun q hq => by rw [hget3 q, if_neg hq])
  have hrows1 : v1.rows = v.rows := hgr.rows
  have htree1 : ∀ N r, v1.tree N r = v.tree N r := tree_rows hrows1
  have hme3 : v3.get this = some { me with m_contents := M ++ [(k, a)] } := by
    rw [hget3 this, if_pos rfl, hxid]
    show some ({ me with m_contents := mapInsert k a M } : InventoryItem) = _
    rw [mapInsert_append k a M hM]
  have hx3 : v3.get a = some x := by
    rw [hget3 a, if_neg hne]
    exact hx
  have hs3 : Sound v3 := by
    refine Sound.ssame hs1 hm3 (@congrArg World _ v3.db v1.db World.rows hdb3)
      (fun k' q y hk' hy => ?_)
    rw [hget3 q]
    by_cases hq : q = this
    · subst hq
      rw [hme1] at hy
      simp only [Option.some.injEq] at hy
      subst hy
      rw [if_pos rfl]
      obtain ⟨c, hc, _, hrc⟩ := hs1.live k' q hk'
      rw [hme1] at hc
      simp only [Option.some.injEq] at hc
      subst hc
      refine ⟨_, rfl, rfl, hrc, rfl, rfl, fun h => ?_⟩
      have : me.m_contentsLoaded = true := h
      rw [hld] at this
      cases this
    · rw [if_neg hq]
      obtain ⟨c, hc, _, hrc⟩ := hs1.live k' q hk'
      rw [hy] at hc
      simp only [Option.some.injEq] at hc
      subst hc
      exact ⟨y, hy, rfl, hrc, rfl, rfl, fun _ => rfl⟩
  have hnc1 : ∀ N x' p, x' ∈ v1.tree N k → mapFind x' v1.m_items = some p → p ≠ this :=
    not_cached_in hs1.live hme1 rfl (fun N => by rw [htree1]; exact hacyc N)
  have hgood3 : v3.good m k = true := by
    obtain ⟨m', rfl⟩ := good_pos hgood
    rw [hgr3.ggood hs1.live (fun _ _ _ h => by cases h) hnc1 (m' + 1)
      ⟨1, self_mem_tree v1 0 k⟩]
    exact hgood1
  refine ⟨a, v1, v3, x, hG, World.get_ne_zero hx, hAR, hme3, by rw [hm3]; exact hca, hx3, hrc2,
    hmax, hgood3, hs3, ?_⟩
  exact ((hgr.weaken (fun _ h => h) (Or.inl rfl)).gtrans hgr3).weaken
    (fun k' hk' => by simpa using hk') (Or.inr rfl)


/-! ## The loop of `LoadContents(true)` -/

/-- The loop of `LoadContents(true)` over the children that the database lists, `GI` being
what the factory does for a child whose subtree can be deleted: every child is made resident
with its subtree loaded and is put into the map of the container at `this`. -/
theorem LC_loop (m f this : Nat)
    (GI : ∀ (w : World) (k P : Nat), Sound w → w.good m k = true → k ∈ w.listed P →
      w.loaded P = none → (∀ x, w.inst k = some x → x.m_refCount + 2 < 2 ^ 16) →
      ∃ a w' x, ItemFactory.GetItem f k true w = some (a, w') ∧
        mapFind k w'.m_items = some a ∧ w'.get a = some x ∧ 2 ≤ x.m_refCount ∧
        x.m_refCount + 1 < 2 ^ 16 ∧ w'.good m k = true ∧ Sound w' ∧
        w'.grown w (w.tree m k) 0)
    {g : World → Nat → Option World}
    (hg : ∀ acc cur i acc1, ItemFactory.GetItem f cur true acc = some (i, acc1) → i ≠ 0 →
      g acc cur = (InventoryItem.AddContainedItem this i acc1).bind
        (InventoryItem.Release f i)) :
    ∀ (rest : List Nat) (v : World) (me : InventoryItem) (M : AMap Nat),
      Sound v → v.get this = some { me with m_contents := M } → me.m_contentsLoaded = false →
      (∀ p, mapFind me.m_itemID v.m_items = some p → p = this) →
      v.listed me.m_itemID = M.map Prod.fst ++ rest →
      (∀ k ∈ v.listed me.m_itemID, ∀ N, me.m_itemID ∉ v.tree N k) →
      (∀ e ∈ M, mapFind e.1 v.m_items = some e.2 ∧ ∃ x, v.get e.2 = some x ∧
        2 ≤ x.m_refCount ∧ x.m_refCount + 1 < 2 ^ 16 ∧ v.good m e.1 = true) →
      (∀ k ∈ rest, v.good m k = true ∧ ∀ x, v.inst k = some x → x.m_refCount + 2 < 2 ^ 16) →
      ∀ r, rest.foldlM g v = r →
      ∃ v' M', r = some v' ∧ v'.get this = some { me with m_contents := M' } ∧
        M'.map Prod.fst = v.listed me.m_itemID ∧
        (∀ e ∈ M', mapFind e.1 v'.m_items = some e.2 ∧ ∃ x, v'.get e.2 = some x ∧
          2 ≤ x.m_refCount ∧ x.m_refCount + 1 < 2 ^ 16 ∧ v'.good m e.1 = true) ∧
        Sound v' ∧ v'.grown v ((rest.map (v.tree m)).flatten) this := by
  intro rest
  induction rest with
  | nil =>
    intro v me M hs hme _ _ hlist _ hE _ r hfold
    refine ⟨v, M, hfold.symm, hme, ?_, hE, hs, World.grown.grefl v _ this⟩
    rw [hlist, List.append_nil]
  | cons k rest' ih =>
    intro v me M hs hme hld hpar hlist hall hE hrest r hfold
    have hk : k ∈ v.listed me.m_itemID := by
      rw [hlist]
      exact List.mem_append_right _ (List.mem_cons_self _ _)
    have hpw : List.Pairwise (fun a b => a < b) (M.map Prod.fst ++ k :: rest') := by
      rw [← hlist]
      exact listed_pairwise hs.keyed _
    obtain ⟨_, hpw2, hpw3⟩ := List.pairwise_append.1 hpw
    have hM : ∀ e ∈ M, e.1 < k :=
      fun e he => hpw3 e.1 (List.mem_map.2 ⟨e, he, rfl⟩) k (List.mem_cons_self _ _)
    have hkr : ∀ s ∈ rest', k < s := (List.pairwise_cons.1 hpw2).1
    obtain ⟨hgoodk, hboundk⟩ := hrest k (List.mem_cons_self _ _)
    obtain ⟨a, v1, v3, x, hG, ha0, hAR, hme3, hca3, hx3, hrc, hmax, hgood3, hs3, hgr3⟩ :=
      LC_step m f this GI hs hme hld hpar hk hM hgoodk hboundk (hall k hk)
    have hgk : g v k = some v3 := by
      rw [hg v k a v1 hG ha0]
      exact hAR
    have hrows3 : v3.rows = v.rows := hgr3.rows
    have hlisted3 : ∀ i, v3.listed i = v.listed i := listed_congr hrows3
    have htree3 : World.tree v3 m = World.tree v m := funext (tree_rows hrows3 m)
    -- the other children of the container
    have hsib : ∀ s, s ∈ v.listed me.m_itemID → s ≠ k →
        v3.good m s = v.good m s ∧ v3.inst s = v.inst s ∧
        (∀ p y, mapFind s v.m_items = some p → v.get p = some y → v3.get p = some y) := by
      intro s hs' hne
      have hdis : ∀ N x', x' ∈ v.tree N s → x' ∉ v.tree m k :=
        fun N x' h => kids_disjoint hs.keyed (hall s hs') (hall k hk) hs' hk hne N m x' h
      have hnc := not_cached_in hs.live hme rfl (hall s hs')
      have hself : s ∈ v.tree 1 s := self_mem_tree v 0 s
      refine ⟨hgr3.ggood hs.live hdis hnc m ⟨1, hself⟩,
        hgr3.ginst hs.live (hdis 1 s hself) (fun p hp => hnc 1 s p hself hp),
        fun p y hp hy => hgr3.frame p y hy (hnc 1 s p hself hp) (fun k' hk' hc => ?_)⟩
      have := cache_key_unique hs.live hc hp
      subst this
      exact hdis 1 k' hself hk'
    have hfold' : rest'.foldlM g v3 = r := by
      rw [List.foldlM_cons, hgk] at hfold
      exact hfold
    have hcid : mapFind me.m_itemID v3.m_items = mapFind me.m_itemID v.m_items :=
      hgr3.cache_out _ (hall k hk m)
    obtain ⟨v', M', hr, hme', hkeys, hE', hs', hgr'⟩ :=
      ih v3 me (M ++ [(k, a)]) hs3 hme3 hld (fun p hp => hpar p (by rw [← hcid]; exact hp))
        (by
          rw [hlisted3, hlist, List.map_append, List.append_assoc]
          rfl)
        (fun s hs' N => by
          rw [tree_rows hrows3]
          rw [hlisted3] at hs'
          exact hall s hs' N)
        (fun e he => by
          rcases List.mem_append.1 he with he | he
          · obtain ⟨hc, y, hy, h1, h2, h3⟩ := hE e he
            have hel : e.1 ∈ v.listed me.m_itemID := by
              rw [hlist]
              exact List.mem_append_left _ (List.mem_map.2 ⟨e, he, rfl⟩)
            obtain ⟨s1, _, s3⟩ := hsib e.1 hel (Nat.ne_of_lt (hM e he))
            exact ⟨hgr3.cache_in _ _ hc, y, s3 e.2 y hc hy, h1, h2, by rw [s1]; exact h3⟩
          · simp only [List.mem_singleton] at he
            subst he
            exact ⟨hca3, x, hx3, hrc, hmax, hgood3⟩)
        (fun s hs' => by
          have hsl : s ∈ v.listed me.m_itemID := by
            rw [hlist]
            exact List.mem_append_right _ (List.mem_cons_of_mem _ hs')
          obtain ⟨s1, s2, _⟩ := hsib s hsl (Nat.ne_of_gt (hkr s hs'))
          obtain ⟨h1, h2⟩ := hrest s (List.mem_cons_of_mem _ hs')
          rw [s1, s2]
          exact ⟨h1, h2⟩)
        r hfold'
    refine ⟨v', M', hr, hme', by rw [hkeys, hlisted3], hE', hs', ?_⟩
    rw [htree3] at hgr'
    exact hgr3.gtrans hgr'

/-! ## `LoadContents(true)` of an item whose contents are not loaded -/

theorem GetItemContents_ok {w : World} {id : Nat} (h : id ∉ w.contentsQueryFails) :
    ItemDB.GetItemContents id w
      = (some (w.listed id), { w with fetched := w.fetched ++ [id] }) := by
  unfold ItemDB.GetItemContents World.listed
  rw [if_neg h]

theorem Sound.fetched {w : World} (hs : Sound w) (l : List Nat) :
    Sound { w with fetched := l } :=
  Sound.ssame hs rfl rfl (fun k q x hk hx => by
    obtain ⟨c, hc, _, hrc⟩ := hs.live k q hk
    rw [hx] at hc
    simp only [Option.some.injEq] at hc
    subst hc
    exact ⟨x, hx, rfl, hrc, rfl, rfl, fun _ => rfl⟩)

theorem good_fetched (w : World) (l : List Nat) (n r : Nat) :
    World.good { w with fetched := l } n r = w.good n r :=
  @good_congr w { w with fetched := l } (fun _ => True) (fun _ _ _ _ => trivial) rfl rfl rfl
    (fun _ _ => rfl) (fun _ _ _ _ => rfl) (fun _ _ => rfl) (fun _ _ => rfl) (fun _ _ => rfl) n r
    trivial

theorem set_loaded_loc {w : World} {this : Nat} {c : InventoryItem} (hc : w.get this = some c)
    (a K : Nat) :
    (∃ x, (w.set this { c with m_contentsLoaded := true }).get a = some x ∧
      x.m_locationID = K) ↔ ∃ x, w.get a = some x ∧ x.m_locationID = K := by
  rw [World.get_set_live hc]
  by_cases ha : a = this
  · subst ha
    rw [if_pos rfl, hc]
    constructor
    · rintro ⟨x, hx, hl⟩
      simp only [Option.some.injEq] at hx
      subst hx
      exact ⟨c, rfl, hl⟩
    · rintro ⟨x, hx, hl⟩
      simp only [Option.some.injEq] at hx
      subst hx
      exact ⟨_, rfl, hl⟩
  · rw [if_neg ha]

/-- The method `LoadContents(true)` of an item whose contents are not loaded and whose listed children
have subtrees that can be deleted, `GI` being what the factory does for such a child: the
call returns true, every listed child is resident with its subtree loaded and is in the map
of the item, and the item is marked as loaded. -/
theorem LC_of_GI (m f this : Nat)
    (GI : ∀ (w : World) (k P : Nat), Sound w → w.good m k = true → k ∈ w.listed P →
      w.loaded P = none → (∀ x, w.inst k = some x → x.m_refCount + 2 < 2 ^ 16) →
      ∃ a w' x, ItemFactory.GetItem f k true w = some (a, w') ∧
        mapFind k w'.m_items = some a ∧ w'.get a = some x ∧ 2 ≤ x.m_refCount ∧
        x.m_refCount + 1 < 2 ^ 16 ∧ w'.good m k = true ∧ Sound w' ∧
        w'.grown w (w.tree m k) 0)
    {w : World} {me : InventoryItem} (hs : Sound w) (hme : w.get this = some me)
    (hld : me.m_contentsLoaded = false) (hempty : me.m_contents = [])
    (hq : me.m_itemID ∉ w.contentsQueryFails)
    (hpar : ∀ p, mapFind me.m_itemID w.m_items = some p → p = this)
    (hkids : ∀ k ∈ w.listed me.m_itemID, w.good m k = true ∧
      (∀ x, w.inst k = some x → x.m_refCount + 2 < 2 ^ 16) ∧
      ∀ N, me.m_itemID ∉ w.tree N k) :
    ∃ w' M, InventoryItem.LoadContents (f + 1) this true w = some (true, w') ∧
      w'.get this = some { me with m_contents := M, m_contentsLoaded := true } ∧
      M.map Prod.fst = w.listed me.m_itemID ∧
      (∀ e ∈ M, mapFind e.1 w'.m_items = some e.2 ∧ ∃ x, w'.get e.2 = some x ∧
        2 ≤ x.m_refCount ∧ x.m_refCount + 1 < 2 ^ 16 ∧ w'.good m e.1 = true) ∧
      (∀ k a, mapFind k M = some a ↔
        (mapFind k w'.m_items = some a ∧ ∃ x, w'.get a = some x ∧
          x.m_locationID = me.m_itemID)) ∧
      Sound w' ∧ w'.grown w ((w.listed me.m_itemID).map (w.tree m)).flatten this := by
  have hme0 : World.get { w with fetched := w.fetched ++ [me.m_itemID] } this
      = some { me with m_contents := [] } := by
    rw [← hempty]
    exact hme
  have hgr0 : World.grown { w with fetched := w.fetched ++ [me.m_itemID] } w [] this :=
    { rows := rfl, bpRows := rfl, attrRows := rfl, types := rfl, attrFails := rfl,
      queryFails := rfl, addr := le_refl _, cache_out := fun _ _ => rfl,
      cache_in := fun _ _ h => h, cache_new := fun _ _ h => Or.inl h,
      frame := fun _ _ h _ _ => h }
  have htree0 : ∀ N r, World.tree { w with fetched := w.fetched ++ [me.m_itemID] } N r
      = World.tree w N r :=
    fun N r => @tree_rows w { w with fetched := w.fetched ++ [me.m_itemID] } rfl N r
  have htree0' : World.tree { w with fetched := w.fetched ++ [me.m_itemID] } m
      = World.tree w m := funext (htree0 m)
  rw [InventoryItem.LoadContents]
  simp only [hme]
  rw [if_neg (by rw [hld]; simp), GetItemContents_ok hq]
  simp only
  generalize hfold : List.foldlM (m := Option) _ _ _ = r
  obtain ⟨v', M', hr, hme', hkeys, hE', hs', hgr'⟩ :=
    LC_loop m f this GI
      (by
        intro acc cur i acc1 h hi
        simp only [h, if_neg hi])
      (w.listed me.m_itemID) { w with fetched := w.fetched ++ [me.m_itemID] } me []
      (hs.fetched _) hme0 hld hpar rfl
      (fun k hk N => by
        rw [htree0 N k]
        exact (hkids k hk).2.2 N) (fun e he => by cases he)
      (fun k hk => ⟨by rw [good_fetched]; exact (hkids k hk).1, (hkids k hk).2.1⟩) r hfold
  subst hr
  simp only [hme']
  rw [htree0'] at hgr'
  have hkeys' : M'.map Prod.fst = w.listed me.m_itemID := hkeys
  have hsorted : mapSorted M' := by
    show List.Pairwise _ (M'.map Prod.fst)
    rw [hkeys']
    exact listed_pairwise hs.keyed _
  have hrows' : v'.rows = w.rows := hgr'.rows
  have hall' : ∀ k ∈ v'.listed me.m_itemID, ∀ N, me.m_itemID ∉ v'.tree N k := by
    intro k hk N
    rw [tree_rows hrows']
    rw [listed_congr hrows'] at hk
    exact (hkids k hk).2.2 N
  -- the map holds exactly the resident children
  have hmf : ∀ k a, mapFind k M' = some a ↔
      (mapFind k v'.m_items = some a ∧ ∃ x, v'.get a = some x ∧
        x.m_locationID = me.m_itemID) := by
    intro k a
    constructor
    · intro hka
      have hmem := mapFind_mem hka
      obtain ⟨hc, x, hx, _⟩ := hE' (k, a) hmem
      refine ⟨hc, x, hx, ?_⟩
      obtain ⟨d, hd, hdl⟩ := hs'.agree k a x hc hx
      have hkl : k ∈ v'.listed me.m_itemID := by
        rw [listed_congr hrows', ← hkeys']
        exact List.mem_map.2 ⟨(k, a), hmem, rfl⟩
      obtain ⟨d', hd', hdl'⟩ := (mem_listed_iff hs'.keyed).1 hkl
      rw [hd] at hd'
      simp only [Option.some.injEq] at hd'
      subst hd'
      rw [← hdl, hdl']
    · rintro ⟨hc, x, hx, hloc⟩
      obtain ⟨d, hd, hdl⟩ := hs'.agree k a x hc hx
      have hkl : k ∈ v'.listed me.m_itemID :=
        (mem_listed_iff hs'.keyed).2 ⟨d, hd, hdl.trans hloc⟩
      rw [listed_congr hrows', ← hkeys'] at hkl
      obtain ⟨e, he, hek⟩ := List.mem_map.1 hkl
      obtain ⟨hc', _⟩ := hE' e he
      have hf := mapFind_of_mem_sorted hsorted he
      rw [hek] at hf hc'
      rw [hc] at hc'
      simp only [Option.some.injEq] at hc'
      rw [hf, hc']
  have hsF : Sound (v'.set this
      { ({ me with m_contents := M' } : InventoryItem) with m_contentsLoaded := true }) :=
    Sound.set_loaded hs' hme' hmf
  have hgrF : World.grown (v'.set this
      { ({ me with m_contents := M' } : InventoryItem) with m_contentsLoaded := true }) v' []
      this :=
    grown_of_db rfl rfl rfl (fun q hq => by rw [World.get_set_live hme', if_neg hq])
  refine ⟨_, M', rfl, ?_, hkeys', fun e he => ?_, fun k a => ?_, hsF, ?_⟩
  · rw [World.get_set_live hme', if_pos rfl]
  · obtain ⟨hc, x, hx, h1, h2, h3⟩ := hE' e he
    have hel : e.1 ∈ v'.listed me.m_itemID := by
      rw [listed_congr hrows', ← hkeys']
      exact List.mem_map.2 ⟨e, he, rfl⟩
    have hnc := not_cached_in hs'.live hme' rfl (hall' e.1 hel)
    have hself : e.1 ∈ v'.tree 1 e.1 := self_mem_tree v' 0 e.1
    refine ⟨hc, x, ?_, h1, h2, ?_⟩
    · rw [World.get_set_live hme', if_neg (hnc 1 e.1 e.2 hself hc)]
      exact hx
    · rw [hgrF.ggood hs'.live (fun _ _ _ h => by cases h) hnc m ⟨1, hself⟩]
      exact h3
  · rw [hmf k a]
    show _ ↔ (mapFind k v'.m_items = some a ∧ _)
    rw [set_loaded_loc hme' a me.m_itemID]
  · exact ((hgr0.gtrans hgr').gtrans hgrF).weaken (fun k hk => by simpa using hk) (Or.inr rfl)


/-! ## The counts of the children -/

theorem kidOK_unloaded {w : World} {p g : Nat} (hl : w.loaded p = none) :
    w.kidOK p g = true ↔ ∀ x, w.inst g = some x → x.m_refCount + 2 < 2 ^ 16 := by
  unfold World.kidOK
  rw [hl]
  cases h : w.inst g with
  | none => simp
  | some x => simp

theorem kidOK_loaded {w : World} {p g q : Nat} (hl : w.loaded p = some q) :
    w.kidOK p g = true ↔
      ∀ x, w.inst g = some x → 2 ≤ x.m_refCount ∧ x.m_refCount + 1 < 2 ^ 16 := by
  unfold World.kidOK
  rw [hl]
  cases h : w.inst g with
  | none => simp
  | some x => simp

/-- A resident item with its contents loaded, whose map has the listed children as its keys,
each resident with a subtree that can be deleted, has a subtree that can be deleted. -/
theorem good_of_loaded {w : World} {k p m : Nat} {c : InventoryItem} (hsort : mapSorted w.rows)
    (hc : mapFind k w.m_items = some p) (hx : w.get p = some c)
    (hl : c.m_contentsLoaded = true) (h6 : k ≠ 6)
    (hkeys : c.m_contents.map Prod.fst = w.listed k)
    (hE : ∀ e ∈ c.m_contents, mapFind e.1 w.m_items = some e.2 ∧ ∃ x, w.get e.2 = some x ∧
      2 ≤ x.m_refCount ∧ x.m_refCount + 1 < 2 ^ 16 ∧ w.good m e.1 = true) :
    w.good (m + 1) k = true := by
  have hmem : ∀ g ∈ w.listed k, ∃ e ∈ c.m_contents, e.1 = g := by
    intro g hg
    rw [← hkeys] at hg
    obtain ⟨e, he, heg⟩ := List.mem_map.1 hg
    exact ⟨e, he, heg⟩
  refine good_succ.2 ⟨(nodeOK_resident hc hx).2 ⟨h6, ?_, fun _ g hg => ?_, fun h => ?_⟩,
    fun g hg => ?_⟩
  · show List.Pairwise _ (c.m_contents.map Prod.fst)
    rw [hkeys]
    exact listed_pairwise hsort k
  · obtain ⟨e, he, rfl⟩ := hmem g hg
    exact mapFind_isSome_of_mem he
  · rw [hl] at h
    cases h
  · obtain ⟨e, he, rfl⟩ := hmem g hg
    obtain ⟨hce, x, hxe, h1, h2, h3⟩ := hE e he
    refine ⟨(kidOK_loaded (World.loaded_of hc hx hl)).2 (fun y hy => ?_), h3⟩
    rw [World.inst_some hce hxe] at hy
    simp only [Option.some.injEq] at hy
    subst hy
    exact ⟨h1, h2⟩

/-! ## Steps of the factory -/

theorem World.grown.close {w' w : World} {T T' : List Nat} {e : Nat} (h : w'.grown w T e)
    (hT : ∀ k ∈ T, k ∈ T')
    (he : (∃ k ∈ T', mapFind k w.m_items = some e) ∨ w.nextAddr ≤ e) : w'.grown w T' 0 :=
  { rows := h.rows, bpRows := h.bpRows, attrRows := h.attrRows, types := h.types,
    attrFails := h.attrFails, queryFails := h.queryFails, addr := h.addr
    cache_out := fun k hk => h.cache_out k (fun hk' => hk (hT k hk'))
    cache_in := h.cache_in
    cache_new := h.cache_new
    frame := fun q x hq _ hq' => by
      refine h.frame q x hq (fun hqe => ?_) (fun k hk => hq' k (hT k hk))
      subst hqe
      rcases he with ⟨k, hk, hke⟩ | he
      · exact hq' k hk hke
      · have := (World.get_guard hq).2
        omega }

theorem alloc_get_old {w : World} (it : InventoryItem) {q : Nat} {x : InventoryItem}
    (hq : w.get q = some x) : (w.alloc it).2.get q = some x := by
  rw [World.get_alloc]
  have : q ≠ max w.nextAddr 1 := by
    intro h
    rw [h, World.get_fresh] at hq
    cases hq
  rw [if_neg this]
  exact hq

theorem grown_alloc (w : World) (it : InventoryItem) (e : Nat) : (w.alloc it).2.grown w [] e :=
  { rows := rfl, bpRows := rfl, attrRows := rfl, types := rfl, attrFails := rfl,
    queryFails := rfl
    addr := by
      show w.nextAddr ≤ max w.nextAddr 1 + 1
      omega
    cache_out := fun _ _ => rfl
    cache_in := fun _ _ h => h
    cache_new := fun _ _ h => Or.inl h
    frame := fun q x hq _ _ => alloc_get_old it hq }

theorem Sound.salloc {w : World} (hs : Sound w) (it : InventoryItem) : Sound (w.alloc it).2 :=
  Sound.ssame hs rfl rfl (fun k q x hk hx => by
    obtain ⟨c, hc, _, hrc⟩ := hs.live k q hk
    rw [hx] at hc
    simp only [Option.some.injEq] at hc
    subst hc
    exact ⟨x, alloc_get_old it hx, rfl, hrc, rfl, rfl, fun _ => rfl⟩)

theorem cached_ne_zero {w : World} (hcl : CacheLive w) {x p : Nat}
    (h : mapFind x w.m_items = some p) : p ≠ 0 := by
  obtain ⟨c, hc, _⟩ := hcl x p h
  exact World.get_ne_zero hc

theorem good_alloc {w : World} (hs : Sound w) (it : InventoryItem) (n r : Nat) :
    (w.alloc it).2.good n r = w.good n r := by
  cases n with
  | zero => rfl
  | succ n =>
    exact (grown_alloc w it 0).ggood hs.live (fun _ _ _ h => by cases h)
      (fun _ _ _ _ hp => cached_ne_zero hs.live hp) (n + 1) ⟨1, self_mem_tree w 0 r⟩

theorem inst_alloc {w : World} (hs : Sound w) (it : InventoryItem) (k : Nat) :
    (w.alloc it).2.inst k = w.inst k :=
  (grown_alloc w it 0).ginst hs.live (fun h => by cases h)
    (fun _ hp => cached_ne_zero hs.live hp)

theorem loaded_alloc {w : World} (hs : Sound w) (it : InventoryItem) (k : Nat) :
    (w.alloc it).2.loaded k = w.loaded k :=
  (grown_alloc w it 0).gloaded hs.live (fun h => by cases h)
    (fun _ hp => cached_ne_zero hs.live hp)

theorem World.grown.gcache_insert {w2 w : World} {T : List Nat} {e k i : Nat}
    (h : w2.grown w T e) (hi : w.nextAddr ≤ i) (hk : mapFind k w.m_items = none) :
    World.grown { w2 with m_items := mapInsert k i w2.m_items } w (k :: T) e :=
  { rows := h.rows, bpRows := h.bpRows, attrRows := h.attrRows, types := h.types,
    attrFails := h.attrFails, queryFails := h.queryFails, addr := h.addr
    cache_out := fun k' hk' => by
      show mapFind k' (mapInsert k i w2.m_items) = _
      rw [mapFind_mapInsert, if_neg (fun e => hk' (by rw [e]; exact List.mem_cons_self _ _))]
      exact h.cache_out k' (fun hT => hk' (List.mem_cons_of_mem _ hT))
    cache_in := fun k' p hp => by
      show mapFind k' (mapInsert k i w2.m_items) = _
      rw [mapFind_mapInsert, if_neg (fun e => by rw [e, hk] at hp; cases hp)]
      exact h.cache_in k' p hp
    cache_new := fun k' p hp => by
      have hp' : mapFind k' (mapInsert k i w2.m_items) = some p := hp
      rw [mapFind_mapInsert] at hp'
      by_cases hkk : k' = k
      · rw [if_pos hkk] at hp'
        simp only [Option.some.injEq] at hp'
        rw [← hp']
        exact Or.inr hi
      · rw [if_neg hkk] at hp'
        exact h.cache_new k' p hp'
    frame := fun q x hq hqe hT => h.frame q x hq hqe
      (fun k' hk' => hT k' (List.mem_cons_of_mem _ hk')) }

/-- The static `_Load` of an item that is not resident and can be loaded allocates a
new instance from its row. -/
theorem Load_id_ok {w : World} {k : Nat} {d : ItemData} {t : TypeInfo}
    (hd : mapFind k w.rows = some d) (ht : mapFind d.typeID w.types = some t)
    (hbp : t.categoryID ≠ invCategories_Blueprint ∨ (mapFind k w.bpRows).isSome = true) :
    ∃ bp, InventoryItem._Load_id k w = w.alloc (InventoryItem.new k d bp) := by
  unfold InventoryItem._Load_id ItemDB.GetItem ItemFactory.GetType
  simp only [hd, ht]
  unfold InventoryItem._Load_type
  by_cases hcat : t.categoryID = invCategories_Blueprint
  · rw [if_pos hcat]
    unfold BlueprintItem._Load_type ItemDB.GetBlueprint
    cases hb : mapFind k w.bpRows with
    | none =>
      rcases hbp with h | h
      · exact absurd hcat h
      · rw [hb] at h
        cases h
    | some b => exact ⟨some b, rfl⟩
  · rw [if_neg hcat]
    exact ⟨none, rfl⟩

/-- The reference that the factory takes for its caller, for a resident item whose subtree
can be deleted. -/
theorem GI_finish {w1 : World} {k p n : Nat} {c : InventoryItem} (hs1 : Sound w1)
    (hc : mapFind k w1.m_items = some p) (hx : w1.get p = some c)
    (hmax : c.m_refCount + 1 < 2 ^ 16) (hgood : w1.good n k = true) :
    ∃ w', InventoryItem.Ref p w1 = some (p, w') ∧ mapFind k w'.m_items = some p ∧
      w'.get p = some { c with m_refCount := c.m_refCount + 1 } ∧ Sound w' ∧
      w'.good n k = true ∧ w'.grown w1 [] p := by
  obtain ⟨c', hc', hid, hrc⟩ := hs1.live k p hc
  rw [hx] at hc'
  simp only [Option.some.injEq] at hc'
  subst hc'
  have hget : ∀ q, (w1.set p { c with m_refCount := c.m_refCount + 1 }).get q
      = if q = p then some { c with m_refCount := c.m_refCount + 1 } else w1.get q :=
    fun q => World.get_set_live hx q _
  have hx' : (w1.set p { c with m_refCount := c.m_refCount + 1 }).get p
      = some { c with m_refCount := c.m_refCount + 1 } := by
    rw [hget, if_pos rfl]
  have hgr : (w1.set p { c with m_refCount := c.m_refCount + 1 }).grown w1 [] p :=
    grown_of_db rfl rfl rfl (fun q hq => by rw [hget, if_neg hq])
  have hs' : Sound (w1.set p { c with m_refCount := c.m_refCount + 1 }) := by
    refine Sound.ssame hs1 rfl rfl (fun k' q y hk' hy => ?_)
    rw [hget]
    obtain ⟨y', hy', _, hrc'⟩ := hs1.live k' q hk'
    rw [hy] at hy'
    simp only [Option.some.injEq] at hy'
    subst hy'
    by_cases hq : q = p
    · subst hq
      rw [hx] at hy
      simp only [Option.some.injEq] at hy
      subst hy
      rw [if_pos rfl]
      exact ⟨_, rfl, rfl, by show 1 ≤ c.m_refCount + 1; omega, rfl, rfl, fun _ => rfl⟩
    · rw [if_neg hq]
      exact ⟨y, hy, rfl, hrc', rfl, rfl, fun _ => rfl⟩
  refine ⟨_, Ref_fwd hx hrc hmax, hc, hx', hs', ?_, hgr⟩
  obtain ⟨n', rfl⟩ := good_pos hgood
  obtain ⟨hnode, hkids⟩ := good_succ.1 hgood
  have hc1 : mapFind k (w1.set p { c with m_refCount := c.m_refCount + 1 }).m_items = some p :=
    hc
  have hl' : (w1.set p { c with m_refCount := c.m_refCount + 1 }).loaded k = w1.loaded k := by
    unfold World.loaded
    simp only [hc1, hx', hc, hx]
  refine good_succ.2 ⟨(nodeOK_resident hc1 hx').2 ((nodeOK_resident hc hx).1 hnode),
    fun g hg => ?_⟩
  have hg1 : g ∈ w1.listed k := hg
  have hA2 := root_not_in_kid hgood hg1
  have hnc := not_cached_in hs1.live hx hid hA2
  have hself : g ∈ w1.tree 1 g := self_mem_tree w1 0 g
  obtain ⟨h1, h2⟩ := hkids g hg1
  constructor
  · rw [kidOK_congr hl' (hgr.ginst hs1.live (fun h => by cases h)
      (fun q hq => hnc 1 g q hself hq))]
    exact h1
  · rw [hgr.ggood hs1.live (fun _ _ _ h => by cases h) hnc n' ⟨1, hself⟩]
    exact h2


/-! ## The factory makes a subtree resident -/

/-- The method `GetItem(true)` for an item with a subtree that can be deleted, one level deeper than
what `GI` covers: the item is made resident, if it was not, its contents and those of its
subtree are loaded, and the caller receives a reference. -/
theorem GI_of_LC (m f0 : Nat)
    (GI : ∀ (f : Nat), f0 ≤ f → ∀ (w : World) (k P : Nat), Sound w → w.good m k = true →
      k ∈ w.listed P → w.loaded P = none →
      (∀ x, w.inst k = some x → x.m_refCount + 2 < 2 ^ 16) →
      ∃ a w' x, ItemFactory.GetItem f k true w = some (a, w') ∧
        mapFind k w'.m_items = some a ∧ w'.get a = some x ∧ 2 ≤ x.m_refCount ∧
        x.m_refCount + 1 < 2 ^ 16 ∧ w'.good m k = true ∧ Sound w' ∧
        w'.grown w (w.tree m k) 0)
    (f : Nat) (hf : f0 ≤ f) (w : World) (k P : Nat) (hs : Sound w)
    (hgood : w.good (m + 1) k = true) (hk : k ∈ w.listed P) (hP : w.loaded P = none)
    (hb : ∀ x, w.inst k = some x → x.m_refCount + 2 < 2 ^ 16) :
    ∃ a w' x, ItemFactory.GetItem (f + 4) k true w = some (a, w') ∧
      mapFind k w'.m_items = some a ∧ w'.get a = some x ∧ 2 ≤ x.m_refCount ∧
      x.m_refCount + 1 < 2 ^ 16 ∧ w'.good (m + 1) k = true ∧ Sound w' ∧
      w'.grown w (w.tree (m + 1) k) 0 := by
  obtain ⟨hnode, hkids⟩ := good_succ.1 hgood
  have h6 := nodeOK_ne6 hnode
  have hA2 : ∀ g ∈ w.listed k, ∀ N, k ∉ w.tree N g := fun g hg => root_not_in_kid hgood hg
  have hA3 : ∀ N, P ∉ w.tree N k := loc_not_in_tree hgood hk
  have hsub : ∀ x ∈ ((w.listed k).map (w.tree m)).flatten, x ∈ w.tree (m + 1) k :=
    fun x hx => List.mem_cons_of_mem _ hx
  have hkT : ∀ x ∈ ((w.listed k).map (w.tree m)).flatten, ∃ g ∈ w.listed k, x ∈ w.tree m g := by
    intro x hx
    obtain ⟨l, hl, hxl⟩ := List.mem_flatten.1 hx
    obtain ⟨g, hg, rfl⟩ := List.mem_map.1 hl
    exact ⟨g, hg, hxl⟩
  cases hcache : mapFind k w.m_items with
  | some p =>
    obtain ⟨c, hc, hid, hrc⟩ := hs.live k p hcache
    have hbc := hb c (World.inst_some hcache hc)
    obtain ⟨_, hsorted, hL, hU⟩ := (nodeOK_resident hcache hc).1 hnode
    by_cases hl : c.m_contentsLoaded = true
    · have hLC := LoadContents_loaded hc hl (f + 2) true
      obtain ⟨w', hRef, hc', hx', hs', hgood', hgr'⟩ :=
        GI_finish hs hcache hc (by omega) hgood
      refine ⟨p, w', _, ?_, hc', hx', by show 2 ≤ c.m_refCount + 1; omega,
        by show c.m_refCount + 1 + 1 < 2 ^ 16; omega, hgood', hs',
        hgr'.close (fun _ h => by cases h) (Or.inl ⟨k, self_mem_tree w m k, hcache⟩)⟩
      rw [ItemFactory.GetItem]
      simp only [hcache, hLC, if_true]
      exact hRef
    · have hl' : c.m_contentsLoaded = false := by
        cases h : c.m_contentsLoaded with
        | false => rfl
        | true => exact absurd h hl
      obtain ⟨hempty, hq⟩ := hU hl'
      have hlk : w.loaded k = none := by
        unfold World.loaded
        simp only [hcache, hc]
        rw [hl']
        rfl
      subst hid
      obtain ⟨w1, M, hLC, hme1, hkeys, hE, _, hs1, hgr1⟩ :=
        LC_of_GI m (f + 2) p (GI (f + 2) (by omega)) hs hc hl' hempty hq
          (fun p' hp' => by
            rw [hcache] at hp'
            exact (Option.some.inj hp').symm)
          (fun g hg => ⟨(hkids g hg).2, (kidOK_unloaded hlk).1 (hkids g hg).1, hA2 g hg⟩)
      have hc1 : mapFind c.m_itemID w1.m_items = some p := hgr1.cache_in _ _ hcache
      have hgood1 : w1.good (m + 1) c.m_itemID = true :=
        good_of_loaded hs1.keyed hc1 hme1 rfl h6
          (by rw [listed_congr hgr1.rows]; exact hkeys) hE
      obtain ⟨w', hRef, hc', hx', hs', hgood', hgr'⟩ :=
        GI_finish hs1 hc1 hme1 (by show c.m_refCount + 1 < 2 ^ 16; omega) hgood1
      refine ⟨p, w', _, ?_, hc', hx', by show 2 ≤ c.m_refCount + 1; omega,
        by show c.m_refCount + 1 + 1 < 2 ^ 16; omega, hgood', hs',
        (hgr1.gtrans hgr').close (fun x hx => ?_)
          (Or.inl ⟨c.m_itemID, self_mem_tree w m c.m_itemID, hcache⟩)⟩
      · rw [ItemFactory.GetItem]
        simp only [hcache, hLC, if_true]
        exact hRef
      · rw [List.append_nil] at hx
        exact hsub x hx
  | none =>
    obtain ⟨_, d, t, hd, ht, hbp, hattr, hq⟩ := (nodeOK_absent hcache).1 hnode
    have hdl : d.locationID = P := by
      obtain ⟨d', hd', hdl'⟩ := (mem_listed_iff hs.keyed).1 hk
      rw [hd] at hd'
      simp only [Option.some.injEq] at hd'
      subst hd'
      exact hdl'
    have hlk : w.loaded k = none := by
      unfold World.loaded
      simp only [hcache]
    obtain ⟨bp, hLid⟩ := Load_id_ok hd ht hbp
    have hi0 : max w.nextAddr 1 ≠ 0 := by omega
    have hifresh : w.nextAddr ≤ max w.nextAddr 1 := by omega
    have hgetA : (w.alloc (InventoryItem.new k d bp)).2.get (max w.nextAddr 1)
        = some (InventoryItem.new k d bp) := by
      rw [World.get_alloc, if_pos rfl]
    have hsA := hs.salloc (InventoryItem.new k d bp)
    have htreeA : ∀ N r, (w.alloc (InventoryItem.new k d bp)).2.tree N r = w.tree N r :=
      fun N r => @tree_rows w (w.alloc (InventoryItem.new k d bp)).2 rfl N r
    have htreeA' : World.tree (w.alloc (InventoryItem.new k d bp)).2 m = World.tree w m :=
      funext (htreeA m)
    have hGIC : ItemFactory._GetIfContentsLoaded (InventoryItem.new k d bp).m_locationID
        (w.alloc (InventoryItem.new k d bp)).2
        = some (0, (w.alloc (InventoryItem.new k d bp)).2) := by
      apply GetIfContentsLoaded_none hsA.live
      show (w.alloc (InventoryItem.new k d bp)).2.loaded d.locationID = none
      rw [hdl, loaded_alloc hs]
      exact hP
    obtain ⟨w2, M, hLC, hme2, hkeys, hE, hmf, hs2, hgr2⟩ :=
      LC_of_GI m f (max w.nextAddr 1) (GI f hf) hsA hgetA rfl rfl hq
        (fun p' hp' => by
          have hp'' : mapFind k w.m_items = some p' := hp'
          rw [hcache] at hp''
          cases hp'')
        (fun g hg => ⟨by rw [good_alloc hs]; exact (hkids g hg).2,
          by rw [inst_alloc hs]; exact (kidOK_unloaded hlk).1 (hkids g hg).1,
          fun N => by rw [htreeA]; exact hA2 g hg N⟩)
    rw [htreeA'] at hgr2
    have hkeys' : M.map Prod.fst = w.listed k := hkeys
    have hrows2 : w2.rows = w.rows := hgr2.rows
    have htree2 : ∀ N r, w2.tree N r = w.tree N r := tree_rows hrows2
    have hkT2 : k ∉ ((w.listed k).map (w.tree m)).flatten := by
      intro h
      obtain ⟨g, hg, hx⟩ := hkT k h
      exact hA2 g hg m hx
    have hc2none : mapFind k w2.m_items = none := by
      rw [hgr2.cache_out k hkT2]
      exact hcache
    have hPk : d.locationID ≠ k := by
      rw [hdl]
      intro h
      exact hA3 (m + 1) (by rw [h]; exact self_mem_tree w m k)
    have hP2 : w2.loaded d.locationID = none := by
      rw [hdl, hgr2.gloaded hsA.live (fun h => by
          obtain ⟨g, hg, hx⟩ := hkT P h
          exact hA3 (m + 1) (mem_tree_succ.2 (Or.inr ⟨g, hg, hx⟩)))
        (fun p' hp' => by
          obtain ⟨c', hc', _⟩ := hs.live P p' hp'
          have := (World.get_guard hc').2
          omega), loaded_alloc hs]
      exact hP
    have hs1 : Sound { w2 with m_items := mapInsert k (max w.nextAddr 1) w2.m_items } :=
      Sound.scache_insert hs2 hme2 rfl (le_refl 1) hc2none (by rw [hrows2]; exact hd) rfl hP2
        hPk hmf
    have hc1 : mapFind k
        (World.m_items { w2 with m_items := mapInsert k (max w.nextAddr 1) w2.m_items })
        = some (max w.nextAddr 1) := by
      show mapFind k (mapInsert k (max w.nextAddr 1) w2.m_items) = _
      rw [mapFind_mapInsert, if_pos rfl]
    have hx1 : World.get { w2 with m_items := mapInsert k (max w.nextAddr 1) w2.m_items }
        (max w.nextAddr 1)
        = some { InventoryItem.new k d bp with m_contents := M, m_contentsLoaded := true } :=
      hme2
    have hgood1 : World.good { w2 with m_items := mapInsert k (max w.nextAddr 1) w2.m_items }
        (m + 1) k = true := by
      refine good_of_loaded hs1.keyed hc1 hx1 rfl h6
        (by rw [hkeys']; exact (listed_congr hrows2 k).symm) (fun e he => ?_)
      obtain ⟨hce, x, hxe, h1, h2, h3⟩ := hE e he
      have hel : e.1 ∈ w.listed k := by
        rw [← hkeys']
        exact List.mem_map.2 ⟨e, he, rfl⟩
      have hne : ∀ N x', x' ∈ w2.tree N e.1 → x' ≠ k := by
        intro N x' hx' h
        rw [htree2, h] at hx'
        exact hA2 e.1 hel N hx'
      refine ⟨?_, x, hxe, h1, h2, ?_⟩
      · show mapFind e.1 (mapInsert k (max w.nextAddr 1) w2.m_items) = _
        rw [mapFind_mapInsert, if_neg (hne 1 e.1 (self_mem_tree w2 0 e.1))]
        exact hce
      · rw [@good_congr w2 { w2 with m_items := mapInsert k (max w.nextAddr 1) w2.m_items }
          (fun x' => ∃ N, x' ∈ w2.tree N e.1) (desc_closed w2 e.1) rfl rfl rfl
          (fun x' ⟨N, hx'⟩ => by
            show mapFind x' (mapInsert k (max w.nextAddr 1) w2.m_items) = _
            rw [mapFind_mapInsert, if_neg (hne N x' hx')])
          (fun _ _ _ _ => rfl) (fun _ _ => rfl) (fun _ _ => rfl) (fun _ _ => rfl) m e.1
          ⟨1, self_mem_tree w2 0 e.1⟩]
        exact h3
    obtain ⟨w', hRef, hc', hx', hs', hgood', hgr'⟩ :=
      GI_finish hs1 hc1 hx1 (by show 1 + 1 < 2 ^ 16; omega) hgood1
    have hLoad : InventoryItem._Load (f + 2) (max w.nextAddr 1) true
        (w.alloc (InventoryItem.new k d bp)).2 = some (true, w2) := by
      rw [InventoryItem._Load]
      simp only [hgetA]
      rw [if_neg (show ¬ ((InventoryItem.new k d bp).m_itemID
        ∈ (w.alloc (InventoryItem.new k d bp)).2.attrLoadFails) from hattr)]
      simp only [hGIC, ne_eq, not_true_eq_false, if_false, if_true]
      exact hLC
    have hLid' : InventoryItem._Load_id k w
        = (max w.nextAddr 1, (w.alloc (InventoryItem.new k d bp)).2) := by
      rw [hLid]
      rfl
    have hLoadS : InventoryItem.Load (f + 3) k true w = some (max w.nextAddr 1, w2) := by
      rw [InventoryItem.Load]
      simp only [hLid', hLoad, if_true]
      rw [if_neg hi0]
    refine ⟨max w.nextAddr 1, w', _, ?_, hc', hx', by show 2 ≤ 1 + 1; omega,
      by show 1 + 1 + 1 < 2 ^ 16; omega, hgood', hs', ?_⟩
    · rw [ItemFactory.GetItem]
      simp only [hcache, hLoadS]
      rw [if_neg hi0]
      exact hRef
    · have h1 := ((grown_alloc w (InventoryItem.new k d bp) (max w.nextAddr 1)).gtrans hgr2)
      have h2 := (h1.gcache_insert hifresh hcache).gtrans hgr'
      exact h2.close (fun x hx => by
        rw [List.append_nil, List.nil_append] at hx
        exact hx) (Or.inr hifresh)


/-- The method `GetItem(true)` for an item with a subtree that can be deleted, at most `m` levels
deep, which the database lists as a child of an item that is not resident with its contents
loaded: with fuel for every level the call returns a reference; the item and its subtree
are resident with their contents loaded; nothing else has changed. -/
theorem GetItem_tree : ∀ (m f : Nat), 4 * m ≤ f → ∀ (w : World) (k P : Nat), Sound w →
    w.good m k = true → k ∈ w.listed P → w.loaded P = none →
    (∀ x, w.inst k = some x → x.m_refCount + 2 < 2 ^ 16) →
    ∃ a w' x, ItemFactory.GetItem f k true w = some (a, w') ∧
      mapFind k w'.m_items = some a ∧ w'.get a = some x ∧ 2 ≤ x.m_refCount ∧
      x.m_refCount + 1 < 2 ^ 16 ∧ w'.good m k = true ∧ Sound w' ∧
      w'.grown w (w.tree m k) 0 := by
  intro m
  induction m with
  | zero =>
    intro f _ w k P _ hg
    simp [World.good] at hg
  | succ m ih =>
    intro f hf
    obtain ⟨f', rfl⟩ : ∃ f', f = f' + 4 := ⟨f - 4, by omega⟩
    exact GI_of_LC m (4 * m) ih f' (by omega)

/-- A child with a subtree that can be deleted does not hold its parent. -/
theorem kid_not_holds_parent {w : World} {n k r : Nat} (hg : w.good n k = true)
    (hk : k ∈ w.listed r) : ∀ N, r ∉ w.tree N k := by
  intro N hr
  obtain ⟨j, _, hgr⟩ := sub_good N n k r hg hr
  exact root_not_in_kid hgr hk N hr

/-! ## Rows that were deleted -/

theorem filter_keys_append {α : Type} (T1 T2 : List Nat) (m : AMap α) :
    (m.filter fun e => decide (e.1 ∉ T1)).filter (fun e => decide (e.1 ∉ T2))
      = m.filter fun e => decide (e.1 ∉ T1 ++ T2) := by
  rw [List.filter_filter]
  apply List.filter_congr
  intro e _
  by_cases h1 : e.1 ∈ T1 <;> by_cases h2 : e.1 ∈ T2 <;> simp [h1, h2]

theorem listed_filter {w w' : World} {T : List Nat}
    (h : w'.rows = w.rows.filter fun e => decide (e.1 ∉ T)) (x : Nat)
    (hx : ∀ g ∈ w.listed x, g ∉ T) : w'.listed x = w.listed x := by
  unfold World.listed
  rw [h, List.filter_filter]
  congr 1
  apply List.filter_congr
  intro e he
  by_cases hl : e.2.locationID = x
  · have : e.1 ∉ T := hx e.1 (mem_listed.2 ⟨e.2, he, hl⟩)
    simp [hl, this]
  · simp [hl]

theorem mapFind_filter_not_mem {α : Type} (T : List Nat) (k : Nat) (m : AMap α) :
    mapFind k (m.filter fun e => decide (e.1 ∉ T)) = if k ∈ T then none else mapFind k m := by
  rw [mapFind_filter_key (fun k => decide (k ∉ T)) k m]
  by_cases h : k ∈ T <;> simp [h]

/-! ## Worlds that were pruned -/

theorem World.pruned.prefl (w : World) (e : Nat) : w.pruned w [] e :=
  { frame := fun _ _ h _ _ => h
    cache := fun k => by simp
    rows := by simp
    attrRows := by simp
    bpRows := fun _ _ => rfl
    types := rfl, attrFails := rfl, queryFails := rfl }

theorem World.pruned.ptrans {w0 w1 w2 : World} {T1 T2 : List Nat} {e : Nat}
    (h1 : w1.pruned w0 T1 e) (h2 : w2.pruned w1 T2 e) : w2.pruned w0 (T1 ++ T2) e :=
  { frame := fun q x hq hqe hT => by
      refine h2.frame q x (h1.frame q x hq hqe
        (fun k hk => hT k (List.mem_append_left _ hk))) hqe (fun k hk hc => ?_)
      rw [h1.cache k] at hc
      by_cases hk1 : k ∈ T1
      · rw [if_pos hk1] at hc
        cases hc
      · rw [if_neg hk1] at hc
        exact hT k (List.mem_append_right _ hk) hc
    cache := fun k => by
      rw [h2.cache k, h1.cache k]
      by_cases hk1 : k ∈ T1 <;> by_cases hk2 : k ∈ T2 <;> simp [hk1, hk2]
    rows := by rw [h2.rows, h1.rows, filter_keys_append]
    attrRows := by rw [h2.attrRows, h1.attrRows, filter_keys_append]
    bpRows := fun k hk => by
      rw [h2.bpRows k (fun h => hk (List.mem_append_right _ h)),
        h1.bpRows k (fun h => hk (List.mem_append_left _ h))]
    types := h2.types.trans h1.types
    attrFails := h2.attrFails.trans h1.attrFails
    queryFails := h2.queryFails.trans h1.queryFails }

/-- A subtree none of whose items was deleted can be deleted after the pruning whenever it
could be deleted before. -/
theorem World.pruned.pgood {w' w : World} {T : List Nat} {e : Nat} (hcl : CacheLive w)
    (h : w'.pruned w T e) {r : Nat} (hT : ∀ N x, x ∈ w.tree N r → x ∉ T)
    (he : ∀ N x p, x ∈ w.tree N r → mapFind x w.m_items = some p → p ≠ e) (n : Nat)
    (hr : ∃ N, r ∈ w.tree N r) : w'.good n r = w.good n r := by
  refine good_congr (fun x => ∃ N, x ∈ w.tree N r) (desc_closed w r) h.types h.attrFails
    h.queryFails (fun x ⟨N, hx⟩ => by rw [h.cache x, if_neg (hT N x hx)])
    (fun x p ⟨N, hx⟩ hp => ?_)
    (fun x ⟨N, hx⟩ => listed_filter h.rows x
      (fun g hg => hT (N + 1) g (tree_kid w N r x g hx hg)))
    (fun x ⟨N, hx⟩ => by rw [h.rows, mapFind_filter_not_mem, if_neg (hT N x hx)])
    (fun x ⟨N, hx⟩ => h.bpRows x (hT N x hx)) n r hr
  obtain ⟨c, hc, _, _⟩ := hcl x p hp
  rw [hc]
  refine h.frame p c hc (he N x p hx hp) (fun k hk hkp => ?_)
  have := cache_key_unique hcl hkp hp
  subst this
  exact hT N k hx hk

theorem World.pruned.tree {w' w : World} {T : List Nat} {e : Nat} (h : w'.pruned w T e)
    {r : Nat} (hT : ∀ N x, x ∈ w.tree N r → x ∉ T) (n : Nat) : w'.tree n r = w.tree n r :=
  tree_congr n r (fun N x hx => listed_filter h.rows x
    (fun g hg => hT (N + 1) g (tree_kid w N r x g hx hg)))

theorem World.pruned.pinst {w' w : World} {T : List Nat} {e : Nat} (hcl : CacheLive w)
    (h : w'.pruned w T e) {x : Nat} (hx : x ∉ T)
    (he : ∀ p, mapFind x w.m_items = some p → p ≠ e) : w'.inst x = w.inst x := by
  refine World.inst_congr (by rw [h.cache x, if_neg hx]) (fun p hp => ?_)
  obtain ⟨c, hc, _, _⟩ := hcl x p hp
  rw [hc]
  refine h.frame p c hc (he p hp) (fun k hk hkp => ?_)
  have := cache_key_unique hcl hkp hp
  subst this
  exact hx hk


/-! ## What `Move` and `ChangeOwner` write -/

theorem saved_rows_eq (w : World) (it : InventoryItem) :
    (w.db.saved it).rows
      = if (mapFind it.m_itemID w.rows).isSome = true then
          mapInsert it.m_itemID it.toData w.rows
        else w.rows := by
  have hr : w.db.rows = w.rows := rfl
  unfold World.saved ItemDB.SaveBlueprint ItemDB.SaveItem
  rw [hr]
  cases it.bp with
  | none =>
    simp only
    cases mapFind it.m_itemID w.rows <;> rfl
  | some b =>
    simp only
    cases mapFind it.m_itemID w.rows with
    | none =>
      simp only
      cases mapFind it.m_itemID w.db.bpRows <;> rfl
    | some d =>
      simp only
      cases mapFind it.m_itemID w.db.bpRows <;> rfl

theorem saved_fields (w : World) (it : InventoryItem) :
    (w.db.saved it).attrRows = w.attrRows ∧ (w.db.saved it).types = w.types ∧
    (w.db.saved it).attrLoadFails = w.attrLoadFails ∧
    (w.db.saved it).contentsQueryFails = w.contentsQueryFails ∧
    ∀ k, k ≠ it.m_itemID → mapFind k (w.db.saved it).bpRows = mapFind k w.bpRows := by
  have hb : w.db.bpRows = w.bpRows := rfl
  unfold World.saved ItemDB.SaveBlueprint ItemDB.SaveItem
  cases it.bp with
  | none =>
    simp only
    cases mapFind it.m_itemID w.db.rows <;> exact ⟨rfl, rfl, rfl, rfl, fun _ _ => rfl⟩
  | some b =>
    simp only
    cases mapFind it.m_itemID w.db.rows with
    | none =>
      simp only
      cases mapFind it.m_itemID w.db.bpRows with
      | none => exact ⟨rfl, rfl, rfl, rfl, fun _ _ => rfl⟩
      | some _ =>
        refine ⟨rfl, rfl, rfl, rfl, fun k hk => ?_⟩
        show mapFind k (mapInsert it.m_itemID b w.bpRows) = _
        rw [mapFind_mapInsert, if_neg hk]
    | some d =>
      simp only
      cases mapFind it.m_itemID w.db.bpRows with
      | none => exact ⟨rfl, rfl, rfl, rfl, fun _ _ => rfl⟩
      | some _ =>
        refine ⟨rfl, rfl, rfl, rfl, fun k hk => ?_⟩
        show mapFind k (mapInsert it.m_itemID b w.bpRows) = _
        rw [mapFind_mapInsert, if_neg hk]

theorem notified_proj {α : Type} (f : World → α)
    (hn : ∀ (X : World) (s : List Notification), f { X with sent := s } = f X)
    (X : World) (a : Nat) (r : EntityRow) (c : Changes) : f (X.notified a r c) = f X := by
  unfold World.notified
  split
  · exact hn X _
  · rfl

/-- A `Move` writes the database as `Save` does, or not at all when it is a no-op. -/
theorem Move_proj {α : Type} (f : World → α) (hdb : ∀ X : World, f X.db = f X)
    (hn : ∀ (X : World) (s : List Notification), f { X with sent := s } = f X)
    {fuel this location new_flag : Nat} {notify : Bool} {w w' : World}
    {me me' : InventoryItem} (hme : w.get this = some me)
    (h : InventoryItem.Move fuel this location new_flag notify w = some w')
    (hme' : w'.get this = some me') :
    (w' = w ∧ location = me.m_locationID) ∨ f w' = f (w.db.saved me') := by
  by_cases hnop : location = me.m_locationID ∧ new_flag = me.m_flag
  · have hM : InventoryItem.Move fuel this location new_flag notify w = some w := by
      unfold InventoryItem.Move
      rw [hme]
      exact if_pos hnop
    rw [hM] at h
    simp only [Option.some.injEq] at h
    exact Or.inl ⟨h.symm, hnop.1⟩
  · right
    have hd := Move_db hme hnop h hme'
    rw [← hdb w', hd]
    cases notify with
    | true =>
      simp only [if_true]
      exact notified_proj f hn _ _ _ _
    | false => rfl

/-- A `ChangeOwner` writes the database as `Save` does, or not at all when it is a no-op. -/
theorem ChangeOwner_proj {α : Type} (f : World → α) (hdb : ∀ X : World, f X.db = f X)
    (hn : ∀ (X : World) (s : List Notification), f { X with sent := s } = f X)
    {this new_owner : Nat} {notify : Bool} {w w' : World} {me : InventoryItem}
    (hme : w.get this = some me)
    (h : InventoryItem.ChangeOwner this new_owner notify w = some w') :
    w' = w ∨ f w' = f (w.db.saved { me with m_ownerID := new_owner }) := by
  unfold InventoryItem.ChangeOwner at h
  simp only [hme] at h
  by_cases hd : new_owner = me.m_ownerID
  · rw [if_pos hd] at h
    simp only [Option.some.injEq] at h
    exact Or.inl h.symm
  · right
    rw [if_neg hd] at h
    have hlive : (w.set this { me with m_ownerID := new_owner }).get this
        = some { me with m_ownerID := new_owner } := by
      rw [World.get_set_live hme]; simp
    rw [Save_false hlive] at h
    simp only [Option.some_bind] at h
    have hdb2 : ((w.set this { me with m_ownerID := new_owner }).saved
        { me with m_ownerID := new_owner }).db = w.db.saved { me with m_ownerID := new_owner } := by
      rw [saved_db]
      rfl
    cases notify with
    | false =>
      simp only [Bool.false_eq_true, if_false, Option.some.injEq] at h
      rw [← h, ← hdb, hdb2]
    | true =>
      simp only [if_true, Option.bind_eq_some, Option.map_eq_some'] at h
      obtain ⟨⟨ch1, w3⟩, h3, ⟨ch2, w4⟩, h4, h5⟩ := h
      have hl2 : ((w.set this { me with m_ownerID := new_owner }).saved
          { me with m_ownerID := new_owner }).get this
          = some { me with m_ownerID := new_owner } := by
        rw [get_saved]; exact hlive
      have d3 := SendItemChange_db hl2 h3
      have hl3 : w3.get this = some { me with m_ownerID := new_owner } := by
        have hh := SendItemChange_heap h3
        rw [get_of_heap hh.1 hh.2]
        exact hl2
      have d4 := SendItemChange_db hl3 h4
      simp only at h5
      subst h5
      rw [← hdb w4, d4, notified_proj f hn, d3, notified_proj f hn, hdb2]

/-- What one write of the row of the cached item `r`, at the address `b`, does to the rows:
the other rows, the lists of children of the other places and the invariants of the rows
are as they were. -/
theorem write_step {w w' : World} {b r : Nat} {me me' : InventoryItem} (hs : Sound w)
    (hc : mapFind r w.m_items = some b) (hb : w.get b = some me)
    (hm : w'.m_items = w.m_items) (hb' : w'.get b = some me') (hid : me'.m_itemID = r)
    (hoth : ∀ q x', q ≠ b → w'.get q = some x' →
      ∃ x, w.get q = some x ∧ x'.m_locationID = x.m_locationID)
    (hrows : (w'.rows = w.rows ∧ me'.m_locationID = me.m_locationID) ∨
      w'.rows = (w.db.saved me').rows) :
    mapSorted w'.rows ∧ RowsAgree w' ∧ (∀ k, k ≠ r → mapFind k w'.rows = mapFind k w.rows) ∧
    w'.rows.filter (fun e => decide (e.1 ≠ r)) = w.rows.filter (fun e => decide (e.1 ≠ r)) ∧
    (∀ x, x ≠ me'.m_locationID → x ≠ me.m_locationID → w'.listed x = w.listed x) := by
  obtain ⟨d0, hd0, hl0⟩ := hs.agree r b me hc hb
  have hag : ∀ (rows' : AMap ItemData), w'.rows = rows' →
      (∀ k, k ≠ r → mapFind k rows' = mapFind k w.rows) →
      (∃ d, mapFind r rows' = some d ∧ d.locationID = me'.m_locationID) → RowsAgree w' := by
    intro rows' hr hk hrow k p x' hkp hx'
    rw [hr]
    by_cases hp : p = b
    · subst hp
      rw [hm] at hkp
      have := cache_key_unique hs.live hkp hc
      subst this
      rw [hb'] at hx'
      simp only [Option.some.injEq] at hx'
      subst hx'
      exact hrow
    · obtain ⟨x, hx, hloc⟩ := hoth p x' hp hx'
      rw [hm] at hkp
      have hkr : k ≠ r := by
        intro h
        subst h
        rw [hc] at hkp
        exact hp (Option.some.inj hkp).symm
      obtain ⟨d, hd, hl⟩ := hs.agree k p x hkp hx
      exact ⟨d, by rw [hk k hkr]; exact hd, hl.trans hloc.symm⟩
  rcases hrows with ⟨hr, hloc⟩ | hr
  · refine ⟨by rw [hr]; exact hs.keyed,
      hag w.rows hr (fun _ _ => rfl) ⟨d0, hd0, hl0.trans hloc.symm⟩,
      fun k _ => by rw [hr], by rw [hr], fun x _ _ => listed_congr hr x⟩
  · rw [saved_rows_eq, hid, hd0] at hr
    simp only [Option.isSome_some, if_true] at hr
    refine ⟨by rw [hr]; exact mapInsert_sorted _ _ _ hs.keyed,
      hag _ hr (fun k hk => by rw [mapFind_mapInsert, if_neg hk])
        ⟨me'.toData, by rw [mapFind_mapInsert, if_pos rfl], rfl⟩,
      fun k hk => by rw [hr, mapFind_mapInsert, if_neg hk], ?_, fun x hx1 hx2 => ?_⟩
    · rw [hr]
      exact filter_mapInsert_key (fun k => decide (k ≠ r)) r me'.toData (by simp) w.rows
    · unfold World.listed
      rw [hr, filter_mapInsert_loc x r me'.toData (fun h => hx1 h.symm) w.rows hs.keyed
        (fun d hd => by
          rw [hd0] at hd
          simp only [Option.some.injEq] at hd
          subst hd
          rw [hl0]
          exact fun h => hx2 h.symm)
        (by rw [hd0]; rfl)]


/-! ## The deletion of the children inside `Delete` -/

theorem contents_back (x : InventoryItem) :
    ({ x with m_contents := x.m_contents } : InventoryItem) = x := by
  cases x
  rfl

/-- An entry of the map of a resident container with its contents loaded, in a well-formed
world: the key is a child that the database lists, and the value is the resident instance
of that child. -/
theorem entry_listed {v : World} {b : Nat} {xb : InventoryItem} {e : Nat × Nat} (hs : Sound v)
    (hb : v.get b = some xb) (hc : mapFind xb.m_itemID v.m_items = some b)
    (hsort : mapSorted xb.m_contents) (hld : xb.m_contentsLoaded = true)
    (he : e ∈ xb.m_contents) :
    e.1 ∈ v.listed xb.m_itemID ∧ mapFind e.1 v.m_items = some e.2 ∧
      v.loaded xb.m_itemID = some b ∧
      ∃ y, v.get e.2 = some y ∧ y.m_itemID = e.1 ∧ y.m_locationID = xb.m_itemID := by
  obtain ⟨_, hlb, hce, y, hy, hyid, hyloc⟩ :=
    child_of_node hs.live hs.mirrors hb hc hsort hld he
  obtain ⟨d, hd, hdl⟩ := hs.agree e.1 e.2 y hce hy
  exact ⟨(mem_listed_iff hs.keyed).2 ⟨d, hd, hdl.trans hyloc⟩, hce, hlb, y, hy, hyid, hyloc⟩

/-- One step of the loop of `Delete` over the children: the first child `e` of the node at
`b`, which was moved to the disposal location, is referenced and deleted with its subtree,
`IH` being what `Delete` does to a subtree of `n` levels. The node loses the entry of the
child, and nothing changes outside the subtree of the child. -/
theorem Delete_kid (n F b : Nat)
    (IH : ∀ (w : World) (c : Nat) (ic : InventoryItem), Sound w → w.loaded 6 = none →
      w.get c = some ic → mapFind ic.m_itemID w.m_items = some c →
      w.good n ic.m_itemID = true →
      2 + (if (w.loaded ic.m_locationID).isSome then 1 else 0) ≤ ic.m_refCount →
      ic.m_refCount - (if (w.loaded ic.m_locationID).isSome then 1 else 0) + 1 < 2 ^ 16 →
      (∀ pc c', w.loaded ic.m_locationID = some pc → w.get pc = some c' →
        c'.m_refCount + 1 < 2 ^ 16) →
      ∃ w', InventoryItem.Delete F c w = some w' ∧
        w'.removed w (w.tree n ic.m_itemID) ic ∧ Sound w' ∧ w'.loaded 6 = none)
    {v : World} {xb : InventoryItem} {e : Nat × Nat} {t : AMap Nat}
    (hs : Sound v) (h6l : v.loaded 6 = none) (hb : v.get b = some xb)
    (hcont : xb.m_contents = e :: t) (hld : xb.m_contentsLoaded = true)
    (hc : mapFind xb.m_itemID v.m_items = some b) (hsort : mapSorted (e :: t))
    (hmaxb : xb.m_refCount + 1 < 2 ^ 16)
    (hkid : v.kidOK xb.m_itemID e.1 = true) (hgood : v.good n e.1 = true) :
    ∃ v2, (InventoryItem.Ref e.2 v).bind (fun r => InventoryItem.Delete F r.1 r.2) = some v2 ∧
      v2.get b = some { xb with m_contents := t } ∧ Sound v2 ∧ v2.loaded 6 = none ∧
      v2.pruned v (v.tree n e.1) b := by
  have hmem : e ∈ xb.m_contents := by rw [hcont]; exact List.mem_cons_self _ _
  have hsort' : mapSorted xb.m_contents := by rw [hcont]; exact hsort
  obtain ⟨hkl, hce, hlb, y, hy, hyid, hyloc⟩ := entry_listed hs hb hc hsort' hld hmem
  obtain ⟨hrc2, hmax⟩ := (kidOK_loaded hlb).1 hkid y (World.inst_some hce hy)
  obtain ⟨v1, hRef, hc1, hy1, hs1, hgood1, hgr1⟩ := GI_finish hs hce hy hmax hgood
  obtain ⟨n', rfl⟩ := good_pos hgood
  have hA2 : ∀ N, xb.m_itemID ∉ v.tree N e.1 := kid_not_holds_parent hgood hkl
  have hself : e.1 ∈ v.tree (n' + 1) e.1 := self_mem_tree v n' e.1
  have hne : e.1 ≠ xb.m_itemID := fun h => hA2 (n' + 1) (by rw [← h]; exact hself)
  have heb : b ≠ e.2 := by
    intro h
    rw [← h] at hce
    exact hne (cache_key_unique hs.live hce hc)
  have hb1 : v1.get b = some xb := hgr1.frame b xb hb heb (fun _ h => by cases h)
  have hcache1 : ∀ k, mapFind k v1.m_items = mapFind k v.m_items :=
    fun k => hgr1.cache_out k (fun h => by cases h)
  have hlb1 : v1.loaded xb.m_itemID = some b :=
    World.loaded_of (by rw [hcache1]; exact hc) hb1 hld
  have h66 : e.1 ≠ 6 := nodeOK_ne6 (good_succ.1 hgood).1
  have h6l1 : v1.loaded 6 = none := by
    rw [hgr1.gloaded hs.live (fun h => by cases h) (fun p hp h => by
      rw [h] at hp
      exact h66 (cache_key_unique hs.live hce hp))]
    exact h6l
  have htree1 : v1.tree (n' + 1) e.1 = v.tree (n' + 1) e.1 := tree_rows hgr1.rows _ _
  have hly1 : v1.loaded ({ y with m_refCount := y.m_refCount + 1 } : InventoryItem).m_locationID
      = some b := by
    show v1.loaded y.m_locationID = some b
    rw [hyloc]
    exact hlb1
  obtain ⟨v2, hD, hrem, hs2, h6l2⟩ := IH v1 e.2 { y with m_refCount := y.m_refCount + 1 } hs1
    h6l1 hy1 (by show mapFind y.m_itemID v1.m_items = some e.2; rw [hyid]; exact hc1)
    (by show v1.good (n' + 1) y.m_itemID = true; rw [hyid]; exact hgood1)
    (by
      rw [hly1]
      show 2 + 1 ≤ y.m_refCount + 1
      omega)
    (by
      rw [hly1]
      show y.m_refCount + 1 - 1 + 1 < 2 ^ 16
      omega)
    (fun pc c' hpc hc' => by
      rw [hly1] at hpc
      simp only [Option.some.injEq] at hpc
      subst hpc
      rw [hb1] at hc'
      simp only [Option.some.injEq] at hc'
      subst hc'
      exact hmaxb)
  have hT : v1.tree (n' + 1) ({ y with m_refCount := y.m_refCount + 1 } : InventoryItem).m_itemID
      = v.tree (n' + 1) e.1 := by
    show v1.tree (n' + 1) y.m_itemID = _
    rw [hyid]
    exact htree1
  rw [hT] at hrem
  have hnotb : ∀ k ∈ v.tree (n' + 1) e.1, mapFind k v1.m_items ≠ some b := by
    intro k hk hkb
    rw [hcache1] at hkb
    have := cache_key_unique hs.live hkb hc
    subst this
    exact hA2 (n' + 1) hk
  refine ⟨v2, ?_, ?_, hs2, h6l2, ?_⟩
  · rw [hRef, Option.some_bind]
    exact hD
  · rw [hrem.frame b xb hb1 hnotb, hly1, if_pos rfl]
    show some ({ xb with m_contents := mapErase y.m_itemID xb.m_contents } : InventoryItem) = _
    rw [hyid, hcont, mapErase_head_sorted hsort]
  · refine
      { frame := fun q x hq hqb hqT => ?_
        cache := fun k => by rw [hrem.cache k, hcache1]
        rows := by rw [hrem.rows, hgr1.rows]
        attrRows := by rw [hrem.attrRows, hgr1.attrRows]
        bpRows := fun k hk => by rw [hrem.bpRows k hk, hgr1.bpRows]
        types := hrem.types.trans hgr1.types
        attrFails := hrem.attrFails.trans hgr1.attrFails
        queryFails := hrem.queryFails.trans hgr1.queryFails }
    have hq1 : v1.get q = some x :=
      hgr1.frame q x hq (fun h => hqT e.1 hself (by rw [h]; exact hce)) (fun _ h => by cases h)
    rw [hrem.frame q x hq1 (fun k hk => by rw [hcache1]; exact hqT k hk), hly1,
      if_neg (fun h => hqb (Option.some.inj h).symm), contents_back]

/-- The loop of `Delete` over the children of the node at `b`, which was moved to the disposal
location, `IH` being what `Delete` does to a subtree of `n` levels: every child is deleted
with its subtree, the map of the node is then empty, and nothing changes outside the subtrees
of the children. -/
theorem Delete_kids (n F b : Nat)
    (IH : ∀ (w : World) (c : Nat) (ic : InventoryItem), Sound w → w.loaded 6 = none →
      w.get c = some ic → mapFind ic.m_itemID w.m_items = some c →
      w.good n ic.m_itemID = true →
      2 + (if (w.loaded ic.m_locationID).isSome then 1 else 0) ≤ ic.m_refCount →
      ic.m_refCount - (if (w.loaded ic.m_locationID).isSome then 1 else 0) + 1 < 2 ^ 16 →
      (∀ pc c', w.loaded ic.m_locationID = some pc → w.get pc = some c' →
        c'.m_refCount + 1 < 2 ^ 16) →
      ∃ w', InventoryItem.Delete F c w = some w' ∧
        w'.removed w (w.tree n ic.m_itemID) ic ∧ Sound w' ∧ w'.loaded 6 = none) :
    ∀ (t : AMap Nat) (v : World) (xb : InventoryItem), Sound v → v.loaded 6 = none →
      v.get b = some xb → xb.m_contents = t → xb.m_contentsLoaded = true →
      mapFind xb.m_itemID v.m_items = some b → mapSorted t → xb.m_refCount + 1 < 2 ^ 16 →
      (∀ e ∈ t, v.kidOK xb.m_itemID e.1 = true ∧ v.good n e.1 = true) →
      ∃ v', t.foldlM (fun acc e =>
          (InventoryItem.Ref e.2 acc).bind (fun r => InventoryItem.Delete F r.1 r.2)) v
          = some v' ∧
        v'.get b = some { xb with m_contents := [] } ∧ Sound v' ∧ v'.loaded 6 = none ∧
        v'.pruned v ((t.map fun e => v.tree n e.1).flatten) b := by
  intro t
  induction t with
  | nil =>
    intro v xb hs h6l hb hcont _ _ _ _ _
    refine ⟨v, rfl, ?_, hs, h6l, World.pruned.prefl v b⟩
    rw [hb, ← hcont, contents_back]
  | cons e t ih =>
    intro v xb hs h6l hb hcont hld hc hsort hmaxb hch
    obtain ⟨hkid, hgood⟩ := hch e (List.mem_cons_self _ _)
    obtain ⟨v2, hstep, hb2, hs2, h6l2, hpr2⟩ :=
      Delete_kid n F b IH hs h6l hb hcont hld hc hsort hmaxb hkid hgood
    have hsort' : mapSorted xb.m_contents := by rw [hcont]; exact hsort
    have hme : e ∈ xb.m_contents := by rw [hcont]; exact List.mem_cons_self _ _
    obtain ⟨hkl, hce, hlb, _⟩ := entry_listed hs hb hc hsort' hld hme
    have hA2 : ∀ N, xb.m_itemID ∉ v.tree N e.1 := kid_not_holds_parent hgood hkl
    have hc2 : mapFind xb.m_itemID v2.m_items = some b := by
      rw [hpr2.cache, if_neg (hA2 n)]
      exact hc
    have hlb2 : v2.loaded xb.m_itemID = some b := World.loaded_of hc2 hb2 hld
    -- the subtrees of the other children are untouched
    have hsib : ∀ e' ∈ t, (∀ N x, x ∈ v.tree N e'.1 → x ∉ v.tree n e.1) ∧
        v2.kidOK xb.m_itemID e'.1 = true ∧ v2.good n e'.1 = true := by
      intro e' he'
      have hme' : e' ∈ xb.m_contents := by rw [hcont]; exact List.mem_cons_of_mem _ he'
      obtain ⟨hkl', _, _, _⟩ := entry_listed hs hb hc hsort' hld hme'
      obtain ⟨hkid', hgood'⟩ := hch e' (List.mem_cons_of_mem _ he')
      have hA2' : ∀ N, xb.m_itemID ∉ v.tree N e'.1 := kid_not_holds_parent hgood' hkl'
      have hne : e'.1 ≠ e.1 := Nat.ne_of_gt (mapSorted_head_lt hsort e' he')
      have hdis : ∀ N x, x ∈ v.tree N e'.1 → x ∉ v.tree n e.1 :=
        fun N x hx => kids_disjoint hs.keyed hA2' hA2 hkl' hkl hne N n x hx
      have hnc := not_cached_in hs.live hb rfl hA2'
      have hself : e'.1 ∈ v.tree 1 e'.1 := self_mem_tree v 0 e'.1
      refine ⟨hdis, ?_, ?_⟩
      · rw [kidOK_congr (hlb2.trans hlb.symm)
          (hpr2.pinst hs.live (hdis 1 e'.1 hself) (fun p hp => hnc 1 e'.1 p hself hp))]
        exact hkid'
      · rw [hpr2.pgood hs.live hdis hnc n ⟨1, hself⟩]
        exact hgood'
    obtain ⟨v', hfold, hb', hs', h6l', hpr'⟩ :=
      ih v2 { xb with m_contents := t } hs2 h6l2 hb2 rfl hld hc2 (mapSorted_tail hsort) hmaxb
        (fun e' he' => (hsib e' he').2)
    refine ⟨v', ?_, hb', hs', h6l', ?_⟩
    · rw [List.foldlM_cons, hstep]
      exact hfold
    · have hmap : (t.map fun e => v2.tree n e.1) = t.map fun e => v.tree n e.1 :=
        List.map_congr_left (fun e' he' => hpr2.tree (hsib e' he').1 n)
      rw [hmap] at hpr'
      exact hpr2.ptrans hpr'


/-! ## The first steps of `Delete`, with what they write -/

theorem filter_keys_cons {α : Type} (r : Nat) (T : List Nat) {m m' : AMap α}
    (h : m'.filter (fun e => decide (e.1 ≠ r)) = m.filter (fun e => decide (e.1 ≠ r))) :
    (m'.filter fun e => decide (e.1 ∉ T)).filter (fun e => decide (e.1 ≠ r))
      = m.filter fun e => decide (e.1 ∉ r :: T) := by
  have h1 : (m'.filter fun e => decide (e.1 ∉ T)).filter (fun e => decide (e.1 ≠ r))
      = (m'.filter fun e => decide (e.1 ≠ r)).filter (fun e => decide (e.1 ∉ T)) := by
    rw [List.filter_filter, List.filter_filter]
    apply List.filter_congr
    intro e _
    exact Bool.and_comm _ _
  rw [h1, h, List.filter_filter]
  apply List.filter_congr
  intro e _
  by_cases h1 : e.1 = r <;> by_cases h2 : e.1 ∈ T <;> simp [h1, h2]

theorem DeleteItem_db {fuel id : Nat} {w w7 : World}
    (h : ItemFactory._DeleteItem fuel id w = some w7) : w7.db = w.db := by
  unfold ItemFactory._DeleteItem at h
  cases hc : mapFind id w.m_items with
  | none =>
    simp only [hc, Option.some.injEq] at h
    rw [h]
  | some p =>
    simp only [hc, Option.map_eq_some'] at h
    obtain ⟨w1, h1, h2⟩ := h
    rw [← h2]
    exact Release_proj World.db World.db_set World.db_free fuel p w w1 h1

/-- The first steps of `Delete` for a cached item in a well-formed world: the `Move` to the
disposal location and the `ChangeOwner` to the system owner return; the item is detached
from its container, if that is resident with its contents loaded, and nothing else changes
in memory; no row is written but the one of the item, and the world is well formed. -/
theorem Delete_prefix_full {w : World} {b : Nat} {ib : InventoryItem} (fuel : Nat)
    (hb : w.get b = some ib) (hcache : mapFind ib.m_itemID w.m_items = some b)
    (hs : Sound w)
    (hrc : 2 + (if (w.loaded ib.m_locationID).isSome then 1 else 0) ≤ ib.m_refCount)
    (hcmax : ∀ pc c, w.loaded ib.m_locationID = some pc → w.get pc = some c →
      c.m_refCount + 1 < 2 ^ 16)
    (hself : w.loaded ib.m_locationID ≠ some b) (h6l : w.loaded 6 = none) :
    ∃ w2 w3, InventoryItem.Move fuel b 6 flagAutoFit defaultNotify w = some w2 ∧
      InventoryItem.ChangeOwner b 2 defaultNotify w2 = some w3 ∧
      w3.get b = some
        { ib with
          m_refCount := ib.m_refCount - (if (w.loaded ib.m_locationID).isSome then 1 else 0)
          m_locationID := 6
          m_flag := flagAutoFit
          m_ownerID := 2 } ∧
      (∀ q, q ≠ b → w3.get q = (w.get q).map fun x =>
        { x with
          m_contents :=
            if w.loaded ib.m_locationID = some q then mapErase ib.m_itemID x.m_contents
            else x.m_contents }) ∧
      w3.m_items = w.m_items ∧ Sound w3 ∧ (∀ k, w3.loaded k = w.loaded k) ∧
      (∀ k, k ≠ ib.m_itemID → mapFind k w3.rows = mapFind k w.rows) ∧
      w3.rows.filter (fun e => decide (e.1 ≠ ib.m_itemID))
        = w.rows.filter (fun e => decide (e.1 ≠ ib.m_itemID)) ∧
      (∀ x, x ≠ 6 → x ≠ ib.m_locationID → w3.listed x = w.listed x) ∧
      w3.attrRows = w.attrRows ∧ w3.types = w.types ∧
      w3.attrLoadFails = w.attrLoadFails ∧ w3.contentsQueryFails = w.contentsQueryFails ∧
      (∀ k, k ≠ ib.m_itemID → mapFind k w3.bpRows = mapFind k w.bpRows) := by
  have hcl := hs.live
  have hmir := hs.mirrors
  have hrc' : (w.loaded ib.m_locationID).isSome → 2 ≤ ib.m_refCount :=
    fun _ => le_trans (Nat.le_add_right 2 _) hrc
  -- the `Move`
  have hMove : ∃ w2, InventoryItem.Move fuel b 6 flagAutoFit defaultNotify w = some w2 ∧
      w2.get b = some
        { ib with
          m_refCount := ib.m_refCount - (if (w.loaded ib.m_locationID).isSome then 1 else 0)
          m_locationID := 6
          m_flag := flagAutoFit } ∧
      (∀ q, q ≠ b → w2.get q = (w.get q).map fun x =>
        { x with
          m_contents :=
            if w.loaded ib.m_locationID = some q then mapErase ib.m_itemID x.m_contents
            else x.m_contents }) ∧
      w2.m_items = w.m_items ∧ CacheLive w2 ∧ Mirrors w2 ∧ (∀ k, w2.loaded k = w.loaded k) := by
    by_cases hnop : 6 = ib.m_locationID ∧ flagAutoFit = ib.m_flag
    · have hM : InventoryItem.Move fuel b 6 flagAutoFit defaultNotify w = some w := by
        unfold InventoryItem.Move
        rw [hb]
        exact if_pos hnop
      have hdet : w.loaded ib.m_locationID = none := by rw [← hnop.1]; exact h6l
      refine ⟨w, hM, ?_, fun q _ => ?_, rfl, hcl, hmir, fun _ => rfl⟩
      · rw [hb, hdet, hnop.1, hnop.2]
        rfl
      · rw [hdet]
        cases w.get q <;> rfl
    · obtain ⟨w2, hM, hmap⟩ := Move_fwd fuel 6 flagAutoFit defaultNotify hb hcache hcl hmir
        hrc' (fun pc c hpc hc => hcmax pc c (hpc.resolve_right (by rw [h6l]; simp)) hc)
        (fun pn hpn => by rw [h6l] at hpn; simp at hpn) hnop
      obtain ⟨hcl2, hmir2, hl2⟩ := Move_post hb hcache hcl hmir hrc' hmap
      rw [h6l] at hmap
      refine ⟨w2, hM, ?_, fun q hq => ?_, hmap.2, hcl2, hmir2, hl2⟩
      · rw [hmap.1 b, hb]
        simp only [Option.map_some', moveF, if_true, Option.isSome_none, Bool.false_eq_true,
          if_false, Nat.add_zero, Option.some.injEq, if_neg hself]
        simp
      · rw [hmap.1 q]
        cases w.get q with
        | none => rfl
        | some x =>
          simp only [Option.map_some', moveF, if_neg hq, Option.some.injEq]
          rfl
  obtain ⟨w2, hM, hb2, hoth2, hm2, hcl2, hmir2, hl2⟩ := hMove
  -- what the `Move` wrote
  have hloc2 : ∀ q x', q ≠ b → w2.get q = some x' →
      ∃ x, w.get q = some x ∧ x'.m_locationID = x.m_locationID := by
    intro q x' hq hx'
    rw [hoth2 q hq] at hx'
    cases hx : w.get q with
    | none => rw [hx] at hx'; cases hx'
    | some x =>
      rw [hx] at hx'
      simp only [Option.map_some', Option.some.injEq] at hx'
      exact ⟨x, rfl, by rw [← hx']⟩
  obtain ⟨hsort2, hag2, hk2, hfil2, hlist2⟩ := write_step hs hcache hb hm2 hb2 rfl hloc2
    (by
      rcases Move_proj World.rows (fun _ => rfl) (fun _ _ => rfl) hb hM hb2 with ⟨h1, h2⟩ | h
      · exact Or.inl ⟨by rw [h1], h2⟩
      · exact Or.inr h)
  have hs2 : Sound w2 := ⟨hcl2, hmir2, hag2, hsort2⟩
  have hf2 : w2.attrRows = w.attrRows ∧ w2.types = w.types ∧
      w2.attrLoadFails = w.attrLoadFails ∧ w2.contentsQueryFails = w.contentsQueryFails ∧
      ∀ k, k ≠ ib.m_itemID → mapFind k w2.bpRows = mapFind k w.bpRows := by
    rcases Move_proj (fun X : World => (X.attrRows, X.types, X.attrLoadFails,
        X.contentsQueryFails, X.bpRows)) (fun _ => rfl) (fun _ _ => rfl) hb hM hb2
      with ⟨h1, _⟩ | h
    · rw [h1]
      exact ⟨rfl, rfl, rfl, rfl, fun _ _ => rfl⟩
    · simp only [Prod.mk.injEq] at h
      obtain ⟨a1, a2, a3, a4, a5⟩ := h
      obtain ⟨s1, s2, s3, s4, s5⟩ := saved_fields w
        { ib with
          m_refCount := ib.m_refCount - (if (w.loaded ib.m_locationID).isSome then 1 else 0)
          m_locationID := 6
          m_flag := flagAutoFit }
      exact ⟨a1.trans s1, a2.trans s2, a3.trans s3, a4.trans s4,
        fun k hk => by rw [a5]; exact s5 k hk⟩
  -- the `ChangeOwner`
  obtain ⟨w3, hCO, hw3⟩ := ChangeOwner_fwd hb2 2 defaultNotify
  have hmap3 := World.wrote.mapped (fun x : InventoryItem => { x with m_ownerID := 2 }) hw3 hb2
  obtain ⟨hcl3, hmir3⟩ := inv_of_mapped hmap3
    (fun q x => by by_cases h : q = b <;> simp [h]) hcl2 hmir2
  have hl3 : ∀ k, w3.loaded k = w2.loaded k :=
    World.loaded_mapped hmap3 (fun q x => by by_cases h : q = b <;> simp [h])
  have hloc3 : ∀ q x', q ≠ b → w3.get q = some x' →
      ∃ x, w2.get q = some x ∧ x'.m_locationID = x.m_locationID := by
    intro q x' hq hx'
    rw [hw3.1 q, if_neg hq] at hx'
    exact ⟨x', hx', rfl⟩
  obtain ⟨hsort3, hag3, hk3, hfil3, hlist3⟩ := write_step hs2 (by rw [hm2]; exact hcache) hb2
    hw3.2.1 hw3.live rfl hloc3
    (by
      rcases ChangeOwner_proj World.rows (fun _ => rfl) (fun _ _ => rfl) hb2 hCO with h | h
      · exact Or.inl ⟨by rw [h], rfl⟩
      · exact Or.inr h)
  have hf3 : w3.attrRows = w2.attrRows ∧ w3.types = w2.types ∧
      w3.attrLoadFails = w2.attrLoadFails ∧ w3.contentsQueryFails = w2.contentsQueryFails ∧
      ∀ k, k ≠ ib.m_itemID → mapFind k w3.bpRows = mapFind k w2.bpRows := by
    rcases ChangeOwner_proj (fun X : World => (X.attrRows, X.types, X.attrLoadFails,
        X.contentsQueryFails, X.bpRows)) (fun _ => rfl) (fun _ _ => rfl) hb2 hCO with h | h
    · rw [h]
      exact ⟨rfl, rfl, rfl, rfl, fun _ _ => rfl⟩
    · simp only [Prod.mk.injEq] at h
      obtain ⟨a1, a2, a3, a4, a5⟩ := h
      obtain ⟨s1, s2, s3, s4, s5⟩ := saved_fields w2
        { ({ ib with
          m_refCount := ib.m_refCount - (if (w.loaded ib.m_locationID).isSome then 1 else 0)
          m_locationID := 6
          m_flag := flagAutoFit } : InventoryItem) with m_ownerID := 2 }
      exact ⟨a1.trans s1, a2.trans s2, a3.trans s3, a4.trans s4,
        fun k hk => by rw [a5]; exact s5 k hk⟩
  obtain ⟨f1, f2, f3, f4, f5⟩ := hf2
  obtain ⟨g1, g2, g3, g4, g5⟩ := hf3
  refine ⟨w2, w3, hM, hCO, hw3.live, fun q hq => ?_, hw3.2.1.trans hm2,
    ⟨hcl3, hmir3, hag3, hsort3⟩, fun k => (hl3 k).trans (hl2 k),
    fun k hk => (hk3 k hk).trans (hk2 k hk), hfil3.trans hfil2, fun x hx6 hxL => ?_,
    g1.trans f1, g2.trans f2, g3.trans f3, g4.trans f4, fun k hk => (g5 k hk).trans (f5 k hk)⟩
  · rw [hw3.1 q, if_neg hq, hoth2 q hq]
  · rw [hlist3 x hx6 hx6, hlist2 x hx6 hxL]


/-! ## `Delete` up to the loop over the children -/

/-- The steps of `Delete` before the loop over the children, for a cached item with a subtree
that can be deleted: the `Move` to the disposal location, the `ChangeOwner` and the forced
load of the contents return; afterwards the item has its contents loaded, its map holds the
children that the database lists, each resident with a subtree that can be deleted, and
nothing has changed outside the subtree but the map of the former container. The steps run
on the world `W`, which is `w` but for the blueprint row of the item. -/
theorem Delete_loaded (n G b : Nat) (hG : 4 * n ≤ G) {w W : World} {ib : InventoryItem}
    (hWg : ∀ q, W.get q = w.get q) (hWm : W.m_items = w.m_items) (hWr : W.rows = w.rows)
    (hWa : W.attrRows = w.attrRows) (hWt : W.types = w.types)
    (hWf1 : W.attrLoadFails = w.attrLoadFails)
    (hWf2 : W.contentsQueryFails = w.contentsQueryFails)
    (hWb : ∀ k, k ≠ ib.m_itemID → mapFind k W.bpRows = mapFind k w.bpRows)
    (hs : Sound w) (h6l : w.loaded 6 = none) (hb : w.get b = some ib)
    (hc : mapFind ib.m_itemID w.m_items = some b) (hgood : w.good (n + 1) ib.m_itemID = true)
    (hrc : 2 + (if (w.loaded ib.m_locationID).isSome then 1 else 0) ≤ ib.m_refCount)
    (hcmax : ∀ pc c, w.loaded ib.m_locationID = some pc → w.get pc = some c →
      c.m_refCount + 1 < 2 ^ 16) :
    ∃ w2 w3 w4 xb,
      InventoryItem.Move (G + 1) b 6 flagAutoFit defaultNotify W = some w2 ∧
      InventoryItem.ChangeOwner b 2 defaultNotify w2 = some w3 ∧
      InventoryItem.LoadContents (G + 1) b true w3 = some (true, w4) ∧
      w4.get b = some xb ∧ xb.m_contentsLoaded = true ∧ xb.m_itemID = ib.m_itemID ∧
      xb.m_locationID = 6 ∧
      xb.m_refCount = ib.m_refCount - (if (w.loaded ib.m_locationID).isSome then 1 else 0) ∧
      Sound w4 ∧ w4.loaded 6 = none ∧ mapFind ib.m_itemID w4.m_items = some b ∧
      xb.m_contents.map Prod.fst = w.listed ib.m_itemID ∧
      (∀ e ∈ xb.m_contents, w4.kidOK ib.m_itemID e.1 = true ∧ w4.good n e.1 = true) ∧
      (∀ g ∈ w.listed ib.m_itemID, w4.tree n g = w.tree n g) ∧
      (∀ q x, w.get q = some x →
        (∀ k ∈ w.tree (n + 1) ib.m_itemID, mapFind k w.m_items ≠ some q) →
        w4.get q = some
          { x with
            m_contents :=
              if w.loaded ib.m_locationID = some q then mapErase ib.m_itemID x.m_contents
              else x.m_contents }) ∧
      (∀ k, k ∉ w.tree (n + 1) ib.m_itemID → mapFind k w4.m_items = mapFind k w.m_items) ∧
      (∀ k q x, w.get q = some x → mapFind k w4.m_items = some q →
        mapFind k w.m_items = some q) ∧
      w4.rows.filter (fun e => decide (e.1 ≠ ib.m_itemID))
        = w.rows.filter (fun e => decide (e.1 ≠ ib.m_itemID)) ∧
      w4.attrRows = w.attrRows ∧ w4.types = w.types ∧
      w4.attrLoadFails = w.attrLoadFails ∧ w4.contentsQueryFails = w.contentsQueryFails ∧
      (∀ k, k ≠ ib.m_itemID → mapFind k w4.bpRows = mapFind k w.bpRows) := by
  obtain ⟨hnode, hkids⟩ := good_succ.1 hgood
  have h6 := nodeOK_ne6 hnode
  obtain ⟨hcl_ib, _⟩ := hs.live ib.m_itemID b hc
  have hsW : Sound W := Sound.ssame hs hWm hWr (fun k q x hk hx => by
    obtain ⟨c, hc', _, hrc'⟩ := hs.live k q hk
    rw [hx] at hc'
    simp only [Option.some.injEq] at hc'
    subst hc'
    exact ⟨x, by rw [hWg]; exact hx, rfl, hrc', rfl, rfl, fun _ => rfl⟩)
  have hlW : ∀ k, W.loaded k = w.loaded k :=
    fun k => World.loaded_congr (by rw [hWm]) (fun p _ => hWg p)
  -- the row and the location of the item
  obtain ⟨d0, hd0, hdl0⟩ := hs.agree ib.m_itemID b ib hc hb
  have hrL : ib.m_itemID ∈ w.listed ib.m_locationID :=
    (mem_listed_iff hs.keyed).2 ⟨d0, hd0, hdl0⟩
  have hA3 : ∀ N, ib.m_locationID ∉ w.tree N ib.m_itemID := loc_not_in_tree hgood hrL
  have hrneL : ib.m_itemID ≠ ib.m_locationID :=
    fun h => hA3 (n + 1) (by rw [← h]; exact self_mem_tree w n _)
  have hLb : w.loaded ib.m_locationID ≠ some b := by
    intro h
    exact hrneL (cache_key_unique hs.live hc (World.loaded_some h).1)
  obtain ⟨w2, w3, hM, hCO, hb3, hoth3, hm3, hs3, hl3, hk3, hfil3, hlist3, hat3, hty3, hf13,
      hf23, hbp3⟩ :=
    Delete_prefix_full (G + 1) ((hWg b).trans hb) (by rw [hWm]; exact hc) hsW
      (by rw [hlW]; exact hrc)
      (fun pc c hpc hc' => hcmax pc c (by rw [← hlW]; exact hpc) (by rw [← hWg]; exact hc'))
      (by rw [hlW]; exact hLb) (by rw [hlW]; exact h6l)
  rw [hlW] at hb3
  have hm3' : w3.m_items = w.m_items := hm3.trans hWm
  have hl3' : ∀ k, w3.loaded k = w.loaded k := fun k => (hl3 k).trans (hlW k)
  have hfr3 : ∀ q x, w.get q = some x → q ≠ b → w3.get q = some
      { x with
        m_contents :=
          if w.loaded ib.m_locationID = some q then mapErase ib.m_itemID x.m_contents
          else x.m_contents } := by
    intro q x hx hq
    rw [hoth3 q hq, hWg, hx, hlW]
    rfl
  have hinst : ∀ x p, x ≠ ib.m_itemID → x ≠ ib.m_locationID →
      mapFind x w.m_items = some p → w3.get p = w.get p := by
    intro x p hxr hxL hp
    obtain ⟨y, hy, _, _⟩ := hs.live x p hp
    have hpb : p ≠ b := by
      intro h
      rw [h] at hp
      exact hxr (cache_key_unique hs.live hp hc)
    rw [hfr3 p y hy hpb, if_neg (fun h => hxL
      (cache_key_unique hs.live hp (World.loaded_some h).1)), contents_back, hy]
  have hlist3' : ∀ x, x ≠ 6 → x ≠ ib.m_locationID → w3.listed x = w.listed x :=
    fun x h1 h2 => (hlist3 x h1 h2).trans (listed_congr hWr x)
  have hrlist : w3.listed ib.m_itemID = w.listed ib.m_itemID := hlist3' _ h6 hrneL
  -- the subtrees of the children are untouched by the first steps
  have hdesc : ∀ g ∈ w.listed ib.m_itemID, ∀ N x, x ∈ w.tree N g →
      x ≠ ib.m_itemID ∧ x ≠ ib.m_locationID ∧ x ≠ 6 := by
    intro g hg N x hx
    refine ⟨fun h => root_not_in_kid hgood hg N (by rw [← h]; exact hx), fun h => ?_, ?_⟩
    · exact hA3 (N + 1) (mem_tree_succ.2 (Or.inr ⟨g, hg, by rw [← h]; exact hx⟩))
    · obtain ⟨j, _, hj⟩ := sub_good N n g x (hkids g hg).2 hx
      obtain ⟨j', rfl⟩ := good_pos hj
      exact nodeOK_ne6 (good_succ.1 hj).1
  have hgood3 : ∀ g ∈ w.listed ib.m_itemID, ∀ n', w3.good n' g = w.good n' g := by
    intro g hg n'
    cases n' with
    | zero => rfl
    | succ n' =>
      exact good_congr (fun x => ∃ N, x ∈ w.tree N g) (desc_closed w g) (hty3.trans hWt)
        (hf13.trans hWf1) (hf23.trans hWf2) (fun x _ => by rw [hm3'])
        (fun x p ⟨N, hx⟩ hp => hinst x p (hdesc g hg N x hx).1 (hdesc g hg N x hx).2.1 hp)
        (fun x ⟨N, hx⟩ => hlist3' x (hdesc g hg N x hx).2.2 (hdesc g hg N x hx).2.1)
        (fun x ⟨N, hx⟩ => by rw [hk3 x (hdesc g hg N x hx).1, hWr])
        (fun x ⟨N, hx⟩ => by
          rw [hbp3 x (hdesc g hg N x hx).1, hWb x (hdesc g hg N x hx).1])
        (n' + 1) g ⟨1, self_mem_tree w 0 g⟩
  have htree3 : ∀ g ∈ w.listed ib.m_itemID, ∀ n', w3.tree n' g = w.tree n' g :=
    fun g hg n' => tree_congr n' g
      (fun N x hx => hlist3' x (hdesc g hg N x hx).2.2 (hdesc g hg N x hx).2.1)
  have hkid3 : ∀ g ∈ w.listed ib.m_itemID, w3.kidOK ib.m_itemID g = w.kidOK ib.m_itemID g := by
    intro g hg
    have hself := self_mem_tree w 0 g
    exact kidOK_congr (hl3' _) (World.inst_congr (by rw [hm3'])
      (fun p hp => hinst g p (hdesc g hg 1 g hself).1 (hdesc g hg 1 g hself).2.1 hp))
  have hc3 : mapFind ib.m_itemID w3.m_items = some b := by rw [hm3']; exact hc
  -- the items of the subtrees of the children
  have hT3 : ∀ x ∈ ((w3.listed ib.m_itemID).map (w3.tree n)).flatten,
      ∃ g ∈ w.listed ib.m_itemID, x ∈ w.tree n g := by
    intro x hx
    obtain ⟨l, hl, hxl⟩ := List.mem_flatten.1 hx
    obtain ⟨g, hg, rfl⟩ := List.mem_map.1 hl
    rw [hrlist] at hg
    rw [htree3 g hg] at hxl
    exact ⟨g, hg, hxl⟩
  obtain ⟨_, hsorted, hL, hU⟩ := (nodeOK_resident hc hb).1 hnode
  -- the forced load of the contents
  have hload : ∃ w4 xb, InventoryItem.LoadContents (G + 1) b true w3 = some (true, w4) ∧
      w4.get b = some xb ∧ xb.m_contentsLoaded = true ∧ xb.m_itemID = ib.m_itemID ∧
      xb.m_locationID = 6 ∧
      xb.m_refCount = ib.m_refCount - (if (w.loaded ib.m_locationID).isSome then 1 else 0) ∧
      Sound w4 ∧ xb.m_contents.map Prod.fst = w.listed ib.m_itemID ∧
      (∀ e ∈ xb.m_contents, w4.kidOK ib.m_itemID e.1 = true ∧ w4.good n e.1 = true) ∧
      w4.grown w3 ((w3.listed ib.m_itemID).map (w3.tree n)).flatten b := by
    by_cases hld : ib.m_contentsLoaded = true
    · have hkeys := keys_eq_listed hs3 hc3 hb3 hld hsorted
        (fun c hc' => hL hld c (by rw [← hrlist]; exact hc'))
      rw [hrlist] at hkeys
      refine ⟨w3, _, LoadContents_loaded hb3 hld G true, hb3, hld, rfl, rfl, rfl, hs3, hkeys,
        fun e he => ?_, World.grown.grefl w3 _ b⟩
      have hel : e.1 ∈ w.listed ib.m_itemID := by
        rw [← hkeys]
        exact List.mem_map.2 ⟨e, he, rfl⟩
      rw [hkid3 e.1 hel, hgood3 e.1 hel]
      exact hkids e.1 hel
    · have hld' : ib.m_contentsLoaded = false := by
        cases h : ib.m_contentsLoaded with
        | false => rfl
        | true => exact absurd h hld
      obtain ⟨hempty, hq⟩ := hU hld'
      have hlr3 : w3.loaded ib.m_itemID = none := by
        unfold World.loaded
        simp only [hc3, hb3]
        rw [hld']
        rfl
      obtain ⟨w4, M, hLC, hme4, hkeys, hE, _, hs4, hgr4⟩ :=
        LC_of_GI n G b (GetItem_tree n G hG) hs3 hb3 hld' hempty
          (by
            show ib.m_itemID ∉ w3.contentsQueryFails
            rw [hf23, hWf2]
            exact hq)
          (fun p hp => by
            have hp' : mapFind ib.m_itemID w3.m_items = some p := hp
            rw [hc3] at hp'
            exact (Option.some.inj hp').symm)
          (fun g hg => by
            have hg' : g ∈ w.listed ib.m_itemID := by rw [← hrlist]; exact hg
            have hgd : w3.good n g = true := by rw [hgood3 g hg']; exact (hkids g hg').2
            refine ⟨hgd, (kidOK_unloaded hlr3).1
              (by rw [hkid3 g hg']; exact (hkids g hg').1), kid_not_holds_parent hgd hg⟩)
      have hkeys' : M.map Prod.fst = w.listed ib.m_itemID := hkeys.trans hrlist
      have hc4 : mapFind ib.m_itemID w4.m_items = some b := hgr4.cache_in _ _ hc3
      refine ⟨w4, _, hLC, hme4, rfl, rfl, rfl, rfl, hs4, hkeys', fun e he => ?_, hgr4⟩
      obtain ⟨hce, x, hx, h1, h2, h3⟩ := hE e he
      refine ⟨(kidOK_loaded (World.loaded_of hc4 hme4 rfl)).2 (fun y hy => ?_), h3⟩
      rw [World.inst_some hce hx] at hy
      simp only [Option.some.injEq] at hy
      subst hy
      exact ⟨h1, h2⟩
  obtain ⟨w4, xb, hLC, hb4, hld4, hid4, hloc4, hrc4, hs4, hkeys4, hkid4, hgr4⟩ := hload
  have hTsub : ∀ x ∈ ((w3.listed ib.m_itemID).map (w3.tree n)).flatten,
      x ∈ w.tree (n + 1) ib.m_itemID := by
    intro x hx
    obtain ⟨g, hg, hxg⟩ := hT3 x hx
    exact mem_tree_succ.2 (Or.inr ⟨g, hg, hxg⟩)
  have hnotb : ∀ q, (∀ k ∈ w.tree (n + 1) ib.m_itemID, mapFind k w.m_items ≠ some q) →
      q ≠ b := by
    intro q hq h
    rw [h] at hq
    exact hq ib.m_itemID (self_mem_tree w n _) hc
  have h6T : (6 : Nat) ∉ ((w3.listed ib.m_itemID).map (w3.tree n)).flatten := by
    intro h
    obtain ⟨g, hg, hxg⟩ := hT3 6 h
    exact (hdesc g hg n 6 hxg).2.2 rfl
  refine ⟨w2, w3, w4, xb, hM, hCO, hLC, hb4, hld4, hid4, hloc4, hrc4, hs4, ?_,
    hgr4.cache_in _ _ hc3, hkeys4, hkid4, fun g hg => ?_, fun q x hx hq => ?_, fun k hk => ?_,
    fun k q x hx hk => ?_, ?_, ?_, ?_, ?_, ?_, fun k hk => ?_⟩
  · rw [hgr4.gloaded hs3.live h6T (fun p hp h => by
      rw [h] at hp
      exact h6 (cache_key_unique hs3.live hc3 hp)), hl3']
    exact h6l
  · rw [tree_rows hgr4.rows, htree3 g hg]
  · have hqb := hnotb q hq
    exact hgr4.frame q _ (hfr3 q x hx hqb) hqb
      (fun k hk => by rw [hm3']; exact hq k (hTsub k hk))
  · rw [hgr4.cache_out k (fun h => hk (hTsub k h)), hm3']
  · rcases hgr4.cache_new k q hk with h | h
    · rw [← hm3']
      exact h
    · exfalso
      have hlive : ∃ y, w3.get q = some y := by
        by_cases hqb : q = b
        · rw [hqb]
          exact ⟨_, hb3⟩
        · exact ⟨_, hfr3 q x hx hqb⟩
      obtain ⟨y, hy⟩ := hlive
      have := (World.get_guard hy).2
      omega
  · rw [hgr4.rows, hfil3, hWr]
  · rw [hgr4.attrRows, hat3, hWa]
  · rw [hgr4.types, hty3, hWt]
  · rw [hgr4.attrFails, hf13, hWf1]
  · rw [hgr4.queryFails, hf23, hWf2]
  · rw [hgr4.bpRows, hbp3 k hk, hWb k hk]


/-! ## `Delete` of a subtree -/

/-- The steps of `Delete` up to the test of the reference count, put together. -/
theorem Delete_chain {fuel b : Nat} {W w2 w3 w5 w7 : World} {r4 : Bool × World}
    {me4 me5 me7 : InventoryItem}
    (hM : InventoryItem.Move fuel b 6 flagAutoFit defaultNotify W = some w2)
    (hCO : InventoryItem.ChangeOwner b 2 defaultNotify w2 = some w3)
    (hLC : InventoryItem.LoadContents fuel b true w3 = some r4)
    (hb4 : r4.2.get b = some me4)
    (hfold : me4.m_contents.foldlM (fun acc e =>
      (InventoryItem.Ref e.2 acc).bind (fun r => InventoryItem.Delete fuel r.1 r.2)) r4.2
      = some w5)
    (hb5 : w5.get b = some me5)
    (hD : ItemFactory._DeleteItem fuel me5.m_itemID (w5.set b { me5 with m_contents := [] })
      = some w7)
    (hb7 : w7.get b = some me7) :
    ((InventoryItem.Move fuel b 6 flagAutoFit defaultNotify W).bind fun w2 =>
      (InventoryItem.ChangeOwner b 2 defaultNotify w2).bind fun w3 =>
      (InventoryItem.LoadContents fuel b true w3).bind fun r4 =>
      (r4.2.get b).bind fun me4 =>
      (me4.m_contents.foldlM (fun acc e =>
        (InventoryItem.Ref e.2 acc).bind
          (fun r => InventoryItem.Delete fuel r.1 r.2)) r4.2).bind fun w5 =>
      (w5.get b).bind fun me5 =>
      (ItemFactory._DeleteItem fuel me5.m_itemID
        (w5.set b { me5 with m_contents := [] })).bind fun w7 =>
      (w7.get b).map fun me7 =>
        ItemDB.DeleteItem me7.m_itemID
          { w7 with attrRows := mapErase me7.m_itemID w7.attrRows })
      = some (ItemDB.DeleteItem me7.m_itemID
          { w7 with attrRows := mapErase me7.m_itemID w7.attrRows }) := by
  rw [hM, Option.some_bind, hCO, Option.some_bind, hLC, Option.some_bind, hb4, Option.some_bind,
    hfold, Option.some_bind, hb5, Option.some_bind, hD, Option.some_bind, hb7, Option.map_some']

/-- The method `Delete` up to the test of the reference count, for a cached item with a subtree that
can be deleted, `IH` being what `Delete` does to a subtree of `n` levels. The steps run on
the world `W`, which is `w` but for the blueprint row of the item. Whatever the final
`Release` does to the instance, the subtree is then deleted. -/
theorem Delete_upTo_good (n G b : Nat) (hG : 4 * n ≤ G)
    (IH : ∀ (w : World) (c : Nat) (ic : InventoryItem), Sound w → w.loaded 6 = none →
      w.get c = some ic → mapFind ic.m_itemID w.m_items = some c →
      w.good n ic.m_itemID = true →
      2 + (if (w.loaded ic.m_locationID).isSome then 1 else 0) ≤ ic.m_refCount →
      ic.m_refCount - (if (w.loaded ic.m_locationID).isSome then 1 else 0) + 1 < 2 ^ 16 →
      (∀ pc c', w.loaded ic.m_locationID = some pc → w.get pc = some c' →
        c'.m_refCount + 1 < 2 ^ 16) →
      ∃ w', InventoryItem.Delete (G + 1) c w = some w' ∧
        w'.removed w (w.tree n ic.m_itemID) ic ∧ Sound w' ∧ w'.loaded 6 = none)
    {w W : World} {ib : InventoryItem}
    (hWg : ∀ q, W.get q = w.get q) (hWm : W.m_items = w.m_items) (hWr : W.rows = w.rows)
    (hWa : W.attrRows = w.attrRows) (hWt : W.types = w.types)
    (hWf1 : W.attrLoadFails = w.attrLoadFails)
    (hWf2 : W.contentsQueryFails = w.contentsQueryFails)
    (hWb : ∀ k, k ≠ ib.m_itemID → mapFind k W.bpRows = mapFind k w.bpRows)
    (hs : Sound w) (h6l : w.loaded 6 = none) (hb : w.get b = some ib)
    (hc : mapFind ib.m_itemID w.m_items = some b) (hgood : w.good (n + 1) ib.m_itemID = true)
    (hrc : 2 + (if (w.loaded ib.m_locationID).isSome then 1 else 0) ≤ ib.m_refCount)
    (hup : ib.m_refCount - (if (w.loaded ib.m_locationID).isSome then 1 else 0) + 1 < 2 ^ 16)
    (hcmax : ∀ pc c, w.loaded ib.m_locationID = some pc → w.get pc = some c →
      c.m_refCount + 1 < 2 ^ 16) :
    ∃ w8 x8,
      ((InventoryItem.Move (G + 1) b 6 flagAutoFit defaultNotify W).bind fun w2 =>
        (InventoryItem.ChangeOwner b 2 defaultNotify w2).bind fun w3 =>
        (InventoryItem.LoadContents (G + 1) b true w3).bind fun r4 =>
        (r4.2.get b).bind fun me4 =>
        (me4.m_contents.foldlM (fun acc e =>
          (InventoryItem.Ref e.2 acc).bind
            (fun r => InventoryItem.Delete (G + 1) r.1 r.2)) r4.2).bind fun w5 =>
        (w5.get b).bind fun me5 =>
        (ItemFactory._DeleteItem (G + 1) me5.m_itemID
          (w5.set b { me5 with m_contents := [] })).bind fun w7 =>
        (w7.get b).map fun me7 =>
          ItemDB.DeleteItem me7.m_itemID
            { w7 with attrRows := mapErase me7.m_itemID w7.attrRows }) = some w8 ∧
      w8.get b = some x8 ∧ x8.m_contents = [] ∧
      x8.m_refCount = ib.m_refCount - (if (w.loaded ib.m_locationID).isSome then 1 else 0) - 1 ∧
      (∀ w' : World, (∀ q, q ≠ b → w'.get q = w8.get q) → w'.m_items = w8.m_items →
        w'.db = w8.db →
        w'.removed w (w.tree (n + 1) ib.m_itemID) ib ∧ Sound w' ∧ w'.loaded 6 = none) := by
  obtain ⟨w2, w3, w4, xb, hM, hCO, hLC, hb4, hld4, hid4, hloc4, hrc4, hs4, h6l4, hc4, hkeys4,
      hkid4, htree4, hfr4, hco4, hcn4, hfil4, hat4, hty4, hf14, hf24, hbp4⟩ :=
    Delete_loaded n G b hG hWg hWm hWr hWa hWt hWf1 hWf2 hWb hs h6l hb hc hgood hrc hcmax
  have hsorted4 : mapSorted xb.m_contents := by
    show List.Pairwise _ (xb.m_contents.map Prod.fst)
    rw [hkeys4]
    exact listed_pairwise hs.keyed _
  obtain ⟨w5, hfold, hb5, hs5, h6l5, hpr5⟩ :=
    Delete_kids n (G + 1) b IH xb.m_contents w4 xb hs4 h6l4 hb4 rfl hld4
      (by rw [hid4]; exact hc4) hsorted4 (by rw [hrc4]; exact hup)
      (fun e he => by rw [hid4]; exact hkid4 e he)
  have hTk : (xb.m_contents.map fun e => w4.tree n e.1).flatten
      = ((w.listed ib.m_itemID).map (w.tree n)).flatten := by
    have h1 : (xb.m_contents.map fun e => w4.tree n e.1)
        = (xb.m_contents.map Prod.fst).map (w4.tree n) := by
      rw [List.map_map]
      rfl
    rw [h1, hkeys4, List.map_congr_left (fun g hg => htree4 g hg)]
  rw [hTk] at hpr5
  have hmemT : ∀ k, k ∈ w.tree (n + 1) ib.m_itemID ↔
      k = ib.m_itemID ∨ k ∈ ((w.listed ib.m_itemID).map (w.tree n)).flatten := by
    intro k
    show k ∈ ib.m_itemID :: ((w.listed ib.m_itemID).map (w.tree n)).flatten ↔ _
    exact List.mem_cons
  have hrTk : ib.m_itemID ∉ ((w.listed ib.m_itemID).map (w.tree n)).flatten := by
    intro h
    obtain ⟨l, hl, hxl⟩ := List.mem_flatten.1 h
    obtain ⟨g, hg, rfl⟩ := List.mem_map.1 hl
    exact root_not_in_kid hgood hg n hxl
  have hc5 : mapFind ib.m_itemID w5.m_items = some b := by
    rw [hpr5.cache, if_neg hrTk]
    exact hc4
  have hc5' : mapFind ({ xb with m_contents := [] } : InventoryItem).m_itemID w5.m_items
      = some b := by
    show mapFind xb.m_itemID w5.m_items = some b
    rw [hid4]
    exact hc5
  obtain ⟨w7, hD7, hb7, hoth7, hm7, hr7, hat7⟩ := Delete_suffix (G + 1) hb5 hc5'
    (by
      show 2 ≤ xb.m_refCount
      rw [hrc4]
      omega)
  have hdb7 : w7.db = w5.db := (DeleteItem_db hD7).trans (World.db_set w5 b _)
  have hchain := Delete_chain hM hCO hLC hb4 hfold hb5 hD7 hb7
  have hm7' : w7.m_items = mapErase ib.m_itemID w5.m_items := by
    rw [hm7]
    show mapErase xb.m_itemID w5.m_items = _
    rw [hid4]
  have h6 : ib.m_itemID ≠ 6 := nodeOK_ne6 (good_succ.1 hgood).1
  refine ⟨_, _, hchain, hb7, rfl, ?_, fun w' hg' hm' hdb' => ?_⟩
  · show xb.m_refCount - 1 = _
    rw [hrc4]
  have hget' : ∀ q, q ≠ b → w'.get q = w5.get q := fun q hq => (hg' q hq).trans (hoth7 q hq)
  have hmi' : w'.m_items = mapErase ib.m_itemID w5.m_items := hm'.trans hm7'
  have hrows' : w'.rows = mapErase ib.m_itemID w5.rows := by
    have h1 : w'.rows = mapErase xb.m_itemID w7.rows :=
      @congrArg World _ w'.db _ World.rows hdb'
    rw [h1, hid4, hr7]
  have hattr' : w'.attrRows = mapErase ib.m_itemID w5.attrRows := by
    have h1 : w'.attrRows = mapErase xb.m_itemID w7.attrRows :=
      @congrArg World _ w'.db _ World.attrRows hdb'
    rw [h1, hid4, hat7]
  have hbp' : w'.bpRows = w5.bpRows :=
    (@congrArg World _ w'.db _ World.bpRows hdb').trans
      (@congrArg World _ w7.db w5.db World.bpRows hdb7)
  have hty' : w'.types = w5.types :=
    (@congrArg World _ w'.db _ World.types hdb').trans
      (@congrArg World _ w7.db w5.db World.types hdb7)
  have hf1' : w'.attrLoadFails = w5.attrLoadFails :=
    (@congrArg World _ w'.db _ World.attrLoadFails hdb').trans
      (@congrArg World _ w7.db w5.db World.attrLoadFails hdb7)
  have hf2' : w'.contentsQueryFails = w5.contentsQueryFails :=
    (@congrArg World _ w'.db _ World.contentsQueryFails hdb').trans
      (@congrArg World _ w7.db w5.db World.contentsQueryFails hdb7)
  -- the invariants
  have hoth5 : ∀ q, q ≠ b → w'.get q = (w5.get q).map fun x =>
      { x with
        m_contents :=
          if w5.loaded ({ xb with m_contents := [] } : InventoryItem).m_locationID = some q then
            mapErase ({ xb with m_contents := [] } : InventoryItem).m_itemID x.m_contents
          else x.m_contents } := by
    intro q hq
    rw [hget' q hq]
    have hl6 : w5.loaded ({ xb with m_contents := [] } : InventoryItem).m_locationID = none := by
      show w5.loaded xb.m_locationID = none
      rw [hloc4]
      exact h6l5
    rw [hl6]
    cases w5.get q with
    | none => rfl
    | some x =>
      simp only [Option.map_some', Option.some.injEq]
      exact (contents_back x).symm
  obtain ⟨hcl', hmir', hl'⟩ := erase_post hc5' hb5 hs5.live hs5.mirrors hoth5
    (by
      rw [hmi']
      show _ = mapErase xb.m_itemID w5.m_items
      rw [hid4])
  have hag' : RowsAgree w' := by
    intro k p x' hk hx'
    rw [hmi'] at hk
    obtain ⟨hk5, hpb⟩ := (@cache_erase_iff w5 b ib hs5.live hc5 k p).1 hk
    rw [hget' p hpb] at hx'
    obtain ⟨d, hd, hdl⟩ := hs5.agree k p x' hk5 hx'
    have hkr : k ≠ ib.m_itemID := by
      intro h
      rw [h, hc5] at hk5
      exact hpb (Option.some.inj hk5).symm
    exact ⟨d, by rw [hrows', mapFind_mapErase, if_neg hkr]; exact hd, hdl⟩
  refine ⟨?_, ⟨hcl', hmir', hag', by rw [hrows']; exact mapErase_sorted _ hs5.keyed⟩, ?_⟩
  · refine
      { frame := fun q x hx hq => ?_
        cache := fun k => ?_
        rows := ?_
        attrRows := ?_
        bpRows := fun k hk => ?_
        types := hty'.trans (hpr5.types.trans hty4)
        attrFails := hf1'.trans (hpr5.attrFails.trans hf14)
        queryFails := hf2'.trans (hpr5.queryFails.trans hf24) }
    · have hqb : q ≠ b := by
        intro h
        rw [h] at hq
        exact hq ib.m_itemID (self_mem_tree w n _) hc
      rw [hget' q hqb]
      refine hpr5.frame q _ (hfr4 q x hx hq) hqb (fun k hk hk4 => ?_)
      exact hq k ((hmemT k).2 (Or.inr hk)) (hcn4 k q x hx hk4)
    · rw [hmi', mapFind_mapErase, hpr5.cache]
      by_cases hkr : k = ib.m_itemID
      · rw [if_pos hkr, if_pos ((hmemT k).2 (Or.inl hkr))]
      · rw [if_neg hkr]
        by_cases hkT : k ∈ ((w.listed ib.m_itemID).map (w.tree n)).flatten
        · rw [if_pos hkT, if_pos ((hmemT k).2 (Or.inr hkT))]
        · have hnT : k ∉ w.tree (n + 1) ib.m_itemID := by
            rw [hmemT]
            exact fun h => h.elim hkr hkT
          rw [if_neg hkT, if_neg hnT, hco4 k hnT]
    · rw [hrows', mapErase_eq_filter, hpr5.rows]
      exact filter_keys_cons ib.m_itemID _ hfil4
    · rw [hattr', mapErase_eq_filter, hpr5.attrRows]
      exact filter_keys_cons ib.m_itemID _ (by rw [hat4])
    · have hk' := (not_congr (hmemT k)).1 hk
      rw [hbp', hpr5.bpRows k (fun h => hk' (Or.inr h)), hbp4 k (fun h => hk' (Or.inl h))]
  · rw [hl' 6 (fun h => h6 (hid4.symm.trans h.symm))]
    exact h6l5

/-- The method `Delete` of a cached item with a subtree that can be deleted, at most `n` levels deep,
by a caller that holds a reference, in a well-formed world where the disposal location 6 is
not resident with its contents loaded: with fuel for every level the call returns, and the
subtree is deleted. -/
theorem Delete_good : ∀ (n fuel : Nat) (w : World) (b : Nat) (ib : InventoryItem),
    4 * n ≤ fuel → Sound w → w.loaded 6 = none → w.get b = some ib →
    mapFind ib.m_itemID w.m_items = some b → w.good n ib.m_itemID = true →
    2 + (if (w.loaded ib.m_locationID).isSome then 1 else 0) ≤ ib.m_refCount →
    ib.m_refCount - (if (w.loaded ib.m_locationID).isSome then 1 else 0) + 1 < 2 ^ 16 →
    (∀ pc c, w.loaded ib.m_locationID = some pc → w.get pc = some c →
      c.m_refCount + 1 < 2 ^ 16) →
    ∃ w', InventoryItem.Delete fuel b w = some w' ∧ w'.removed w (w.tree n ib.m_itemID) ib ∧
      Sound w' ∧ w'.loaded 6 = none ∧
      (ib.m_refCount = 2 + (if (w.loaded ib.m_locationID).isSome then 1 else 0) →
        w'.get b = none) := by
  intro n
  induction n with
  | zero =>
    intro fuel w b ib _ _ _ _ _ hg
    simp [World.good] at hg
  | succ n ih =>
    intro fuel w b ib hf hs h6l hb hc hgood hrc hup hcmax
    obtain ⟨G, rfl⟩ : ∃ G, fuel = G + 2 := ⟨fuel - 2, by omega⟩
    have IH : ∀ (w : World) (c : Nat) (ic : InventoryItem), Sound w → w.loaded 6 = none →
        w.get c = some ic → mapFind ic.m_itemID w.m_items = some c →
        w.good n ic.m_itemID = true →
        2 + (if (w.loaded ic.m_locationID).isSome then 1 else 0) ≤ ic.m_refCount →
        ic.m_refCount - (if (w.loaded ic.m_locationID).isSome then 1 else 0) + 1 < 2 ^ 16 →
        (∀ pc c', w.loaded ic.m_locationID = some pc → w.get pc = some c' →
          c'.m_refCount + 1 < 2 ^ 16) →
        ∃ w', InventoryItem.Delete (G + 1) c w = some w' ∧
          w'.removed w (w.tree n ic.m_itemID) ic ∧ Sound w' ∧ w'.loaded 6 = none := by
      intro w c ic a1 a2 a3 a4 a5 a6 a7 a8
      obtain ⟨w', h1, h2, h3, h4, _⟩ := ih (G + 1) w c ic (by omega) a1 a2 a3 a4 a5 a6 a7 a8
      exact ⟨w', h1, h2, h3, h4⟩
    have hup8 : ∃ w8 x8, InventoryItem.Delete_upToTest (G + 1) b w = some w8 ∧
        w8.get b = some x8 ∧ x8.m_contents = [] ∧
        x8.m_refCount
          = ib.m_refCount - (if (w.loaded ib.m_locationID).isSome then 1 else 0) - 1 ∧
        (∀ w' : World, (∀ q, q ≠ b → w'.get q = w8.get q) → w'.m_items = w8.m_items →
          w'.db = w8.db →
          w'.removed w (w.tree (n + 1) ib.m_itemID) ib ∧ Sound w' ∧ w'.loaded 6 = none) := by
      unfold InventoryItem.Delete_upToTest
      simp only [hb]
      cases hbp : ib.bp with
      | none =>
        exact @Delete_upTo_good n G b (by omega) IH w w ib (fun _ => rfl) rfl rfl rfl rfl rfl
          rfl (fun _ _ => rfl) hs h6l hb hc hgood hrc hup hcmax
      | some d =>
        exact @Delete_upTo_good n G b (by omega) IH w (ItemDB.DeleteBlueprint ib.m_itemID w)
          ib (fun _ => rfl) rfl rfl rfl rfl rfl rfl
          (fun k hk => by
            show mapFind k (mapErase ib.m_itemID w.bpRows) = _
            rw [mapFind_mapErase, if_neg hk])
          hs h6l hb hc hgood hrc hup hcmax
    obtain ⟨w8, x8, h8, hb8, hempty, hrc8, hfin⟩ := hup8
    obtain ⟨w', hD, hoth, hm, hdb, hfree⟩ := Delete_after_upToTest h8 hb8 hempty
    obtain ⟨g1, g2, g3⟩ := hfin w' hoth hm hdb
    exact ⟨w', hD, g1, g2, g3, fun h => hfree (by rw [hrc8, h]; omega)⟩


/-! ## What `AlterQuantity` writes -/

/-- An `AlterQuantity` writes the database as `Save` does, or not at all. -/
theorem AlterQuantity_proj {α : Type} (f : World → α) (hdb : ∀ X : World, f X.db = f X)
    (hn : ∀ (X : World) (s : List Notification), f { X with sent := s } = f X)
    {this : Nat} {delta : Int} {notify : Bool} {w : World} {r : Bool × World}
    {me : InventoryItem} (hme : w.get this = some me)
    (h : InventoryItem.AlterQuantity this delta notify w = some r) :
    r.2 = w ∨ f r.2 = f (w.db.saved
      { me with m_quantity := toUint32 (toInt32 ((me.m_quantity : Int) + delta)) }) := by
  unfold InventoryItem.AlterQuantity at h
  simp only [hme] at h
  by_cases hd : delta = 0
  · rw [if_pos hd] at h
    simp only [Option.some.injEq] at h
    exact Or.inl (by rw [← h])
  rw [if_neg hd] at h
  by_cases hneg : toInt32 ((me.m_quantity : Int) + delta) < 0
  · rw [if_pos hneg] at h
    simp only [Option.some.injEq] at h
    exact Or.inl (by rw [← h])
  rw [if_neg hneg] at h
  unfold InventoryItem.SetQuantity at h
  simp only [hme] at h
  by_cases hsing : me.m_singleton = true
  · rw [if_pos hsing] at h
    simp only [Option.some.injEq] at h
    exact Or.inl (by rw [← h])
  rw [if_neg hsing] at h
  right
  generalize toUint32 (toInt32 ((me.m_quantity : Int) + delta)) = Q at h ⊢
  have hlive : (w.set this { me with m_quantity := Q }).get this
      = some { me with m_quantity := Q } := by
    rw [World.get_set_live hme]; simp
  rw [Save_false hlive] at h
  simp only [Option.some_bind] at h
  have hdb2 : ((w.set this { me with m_quantity := Q }).saved { me with m_quantity := Q }).db
      = w.db.saved { me with m_quantity := Q } := by
    rw [saved_db]
    rfl
  cases notify with
  | false =>
    simp only [Bool.false_eq_true, if_false, Option.some.injEq] at h
    rw [← h]
    show f ((w.set this { me with m_quantity := Q }).saved { me with m_quantity := Q }) = _
    rw [← hdb, hdb2]
  | true =>
    simp only [if_true, Option.map_eq_some'] at h
    obtain ⟨⟨ch2, w4⟩, h4, h5⟩ := h
    have hl2 : ((w.set this { me with m_quantity := Q }).saved { me with m_quantity := Q }).get
        this = some { me with m_quantity := Q } := by
      rw [get_saved]; exact hlive
    have d4 := SendItemChange_db hl2 h4
    rw [← h5]
    show f w4 = _
    rw [← hdb w4, d4, notified_proj f hn, hdb2]

/-- What a change of the quantity of the cached item at `a` does to a well-formed world: the
invariants hold again, the same containers are loaded, the other cached instances are the
same, and a subtree that holds neither the item nor the place of the item has the same
items and can be deleted whenever it could be before. -/
theorem quantity_step {w w1 : World} {a Q : Nat} {ia : InventoryItem} (hs : Sound w)
    (ha : w.get a = some ia) (hca : mapFind ia.m_itemID w.m_items = some a)
    (hg : ∀ q, w1.get q = if q = a then some { ia with m_quantity := Q } else w.get q)
    (hm : w1.m_items = w.m_items)
    (hdb : w1 = w ∨
      (w1.rows, w1.bpRows, w1.attrRows, w1.types, w1.attrLoadFails, w1.contentsQueryFails)
        = ((w.db.saved { ia with m_quantity := Q }).rows,
            (w.db.saved { ia with m_quantity := Q }).bpRows,
            (w.db.saved { ia with m_quantity := Q }).attrRows,
            (w.db.saved { ia with m_quantity := Q }).types,
            (w.db.saved { ia with m_quantity := Q }).attrLoadFails,
            (w.db.saved { ia with m_quantity := Q }).contentsQueryFails)) :
    Sound w1 ∧ (∀ k, w1.loaded k = w.loaded k) ∧
    (∀ k, k ≠ ia.m_itemID → w1.inst k = w.inst k) ∧
    (∀ r, (∀ N, ia.m_itemID ∉ w.tree N r) → (∀ N, ia.m_locationID ∉ w.tree N r) →
      ∀ n, w1.good n r = w.good n r ∧ w1.tree n r = w.tree n r) := by
  have hmap : w1.mapped w (fun q x => if q = a then { x with m_quantity := Q } else x) := by
    refine ⟨fun q => ?_, hm⟩
    rw [hg q]
    by_cases e : q = a
    · subst e
      simp [ha]
    · simp only [e, if_false]
      cases w.get q <;> rfl
  obtain ⟨hcl1, hmir1⟩ := inv_of_mapped hmap
    (fun p x => by by_cases e : p = a <;> simp [e]) hs.live hs.mirrors
  have hl1 : ∀ id, w1.loaded id = w.loaded id :=
    World.loaded_mapped hmap (fun p x => by by_cases e : p = a <;> simp [e])
  have ha1 : w1.get a = some { ia with m_quantity := Q } := by rw [hg a, if_pos rfl]
  have hrows : (w1.rows = w.rows ∧
      ({ ia with m_quantity := Q } : InventoryItem).m_locationID = ia.m_locationID) ∨
      w1.rows = (w.db.saved { ia with m_quantity := Q }).rows := by
    rcases hdb with h | h
    · exact Or.inl ⟨by rw [h], rfl⟩
    · exact Or.inr (congrArg Prod.fst h)
  obtain ⟨hk1, hag1, hrow1, _, hlist1⟩ := write_step hs hca ha hm ha1 rfl
    (fun q x' hq hx' => by
      rw [hg q, if_neg hq] at hx'
      exact ⟨x', hx', rfl⟩)
    hrows
  obtain ⟨_, gty, gf1, gf2, gbp⟩ := saved_fields w { ia with m_quantity := Q }
  have hty : w1.types = w.types := by
    rcases hdb with h | h
    · rw [h]
    · exact (congrArg (fun t => t.2.2.2.1) h).trans gty
  have hf1 : w1.attrLoadFails = w.attrLoadFails := by
    rcases hdb with h | h
    · rw [h]
    · exact (congrArg (fun t => t.2.2.2.2.1) h).trans gf1
  have hf2 : w1.contentsQueryFails = w.contentsQueryFails := by
    rcases hdb with h | h
    · rw [h]
    · exact (congrArg (fun t => t.2.2.2.2.2) h).trans gf2
  have hbp : ∀ k, k ≠ ia.m_itemID → mapFind k w1.bpRows = mapFind k w.bpRows := by
    intro k hk
    rcases hdb with h | h
    · rw [h]
    · rw [show w1.bpRows = (w.db.saved { ia with m_quantity := Q }).bpRows from
        congrArg (fun t => t.2.1) h]
      exact gbp k hk
  have hget : ∀ x p, x ≠ ia.m_itemID → mapFind x w.m_items = some p → w1.get p = w.get p := by
    intro x p hx hp
    rw [hg p, if_neg]
    intro e
    rw [e] at hp
    exact hx (cache_key_unique hs.live hp hca)
  refine ⟨⟨hcl1, hmir1, hag1, hk1⟩, hl1, fun k hk => ?_, fun r hid hloc n => ⟨?_, ?_⟩⟩
  · exact World.inst_congr (by rw [hm]) (fun p hp => hget k p hk hp)
  · refine good_congr (fun x => ∃ N, x ∈ w.tree N r) (desc_closed w r) hty hf1 hf2
      (fun x _ => by rw [hm]) (fun x p ⟨N, hx⟩ hp => hget x p (fun e => hid N (e ▸ hx)) hp)
      (fun x ⟨N, hx⟩ => hlist1 x (fun e => hloc N (e ▸ hx)) (fun e => hloc N (e ▸ hx)))
      (fun x ⟨N, hx⟩ => hrow1 x (fun e => hid N (e ▸ hx)))
      (fun x ⟨N, hx⟩ => hbp x (fun e => hid N (e ▸ hx))) n r ⟨1, self_mem_tree w 0 r⟩
  · exact tree_congr n r
      (fun N x hx => hlist1 x (fun e => hloc N (e ▸ hx)) (fun e => hloc N (e ▸ hx)))

/-! ## The place of a cached item -/

/-- The database lists a cached item of a well-formed world as a child of the place where
the instance of the item is. -/
theorem cached_listed {w : World} (hs : Sound w) {b : Nat} {ib : InventoryItem}
    (hb : w.get b = some ib) (hc : mapFind ib.m_itemID w.m_items = some b) :
    ib.m_itemID ∈ w.listed ib.m_locationID := by
  obtain ⟨d, hd, hdl⟩ := hs.agree _ b ib hc hb
  exact (mem_listed_iff hs.keyed).2 ⟨d, hd, hdl⟩

/-- A cached item at the same place as the root of a subtree that can be deleted, and not
the root, is not in the subtree. -/
theorem sibling_not_in_tree {w : World} (hs : Sound w) {a b n : Nat} {ia ib : InventoryItem}
    (ha : w.get a = some ia) (hca : mapFind ia.m_itemID w.m_items = some a)
    (hb : w.get b = some ib) (hcb : mapFind ib.m_itemID w.m_items = some b)
    (hloc : ia.m_locationID = ib.m_locationID) (hab : a ≠ b)
    (hgood : w.good n ib.m_itemID = true) : ∀ N, ia.m_itemID ∉ w.tree N ib.m_itemID := by
  have hlocT : ∀ N, ia.m_locationID ∉ w.tree N ib.m_itemID := by
    rw [hloc]
    exact loc_not_in_tree hgood (cached_listed hs hb hcb)
  intro N hin
  cases N with
  | zero => simp [World.tree] at hin
  | succ N =>
    rcases tree_up w N _ _ hin with h | ⟨P, hP, hPin⟩
    · rw [h] at hca
      exact hab (Option.some.inj (hca.symm.trans hcb))
    · have hP' := listed_unique hs.keyed hP (cached_listed hs ha hca)
      rw [hP'] at hPin
      exact hlocT N hPin


/-- C13 (as amended): `Delete` removes the whole subtree when the children that the database
lists can be loaded. Let the item at `b` be cached, in a well-formed world (`Sound`: the cache
entries are live, the resident containers mirror their resident children, the rows agree
with the resident instances) where the disposal location 6 is not resident with its contents
loaded, and let its subtree in the database be at most `n` levels deep and such that it can
be deleted (`good`): no item of it is the disposal location 6, every item of it that is
resident has a map in key order that holds the listed children when the contents are loaded
and is empty otherwise, every item that is not resident can be loaded (its type is in the
catalog, a blueprint has its blueprint row, and the queries for its attributes and its
children do not fail), and the reference counts of the resident children are those of their
holders and leave room for two more references. Let the caller hold the only outstanding
reference to the root besides the one of the cache and the one of its container, and let the
reference count of that container, when it is resident with its contents loaded, be below
65535, so that the reference that `Move` takes to it does not wrap its count around. Then
`Delete`, with fuel for every level, returns, and afterwards:
* no item of the subtree is in the cache, its row and its attributes are deleted, and no row
  of the database is located in it;
* every child that the database listed for an item of the subtree was an item of the
  subtree, so it is gone as well;
* the map of the former container of the root, when that is resident with its contents
  loaded, has lost the entry of the root and is otherwise as it was;
* every other instance that is not the resident instance of an item of the subtree is as it
  was, no row was added, and the world is well formed again;
* the instance of the root is freed.
A child that the database lists but that cannot be loaded is outside this statement: its row
is left behind. -/
theorem C13_delete_removes_subtree (w : World) (n fuel b : Nat) (ib : InventoryItem)
    (hs : Sound w) (h6l : w.loaded 6 = none) (hb : w.get b = some ib)
    (hc : mapFind ib.m_itemID w.m_items = some b) (hgood : w.good n ib.m_itemID = true)
    (hrc : ib.m_refCount = 2 + (if (w.loaded ib.m_locationID).isSome then 1 else 0))
    (hcmax : ∀ pc c, w.loaded ib.m_locationID = some pc → w.get pc = some c →
      c.m_refCount + 1 < 2 ^ 16)
    (hfuel : 4 * n ≤ fuel) :
    ∃ w', InventoryItem.Delete fuel b w = some w' ∧
      ib.m_itemID ∈ w.tree n ib.m_itemID ∧
      (∀ k ∈ w.tree n ib.m_itemID,
        mapFind k w'.m_items = none ∧ mapFind k w'.rows = none ∧
        mapFind k w'.attrRows = none ∧
        (∀ r ∈ w'.rows, r.2.locationID ≠ k) ∧
        ∀ r ∈ w.rows, r.2.locationID = k → r.1 ∈ w.tree n ib.m_itemID) ∧
      (∀ pc c, w.loaded ib.m_locationID = some pc → w.get pc = some c →
        w'.get pc = some { c with m_contents := mapErase ib.m_itemID c.m_contents }) ∧
      (∀ q x, w.get q = some x → (∀ k ∈ w.tree n ib.m_itemID, mapFind k w.m_items ≠ some q) →
        w.loaded ib.m_locationID ≠ some q → w'.get q = some x) ∧
      (∀ r ∈ w'.rows, r ∈ w.rows) ∧ (∀ r ∈ w'.attrRows, r ∈ w.attrRows) ∧ Sound w' ∧
      w'.get b = none := by
  have hup : ib.m_refCount - (if (w.loaded ib.m_locationID).isSome then 1 else 0) + 1
      < 2 ^ 16 := by
    rw [hrc]
    split <;> omega
  obtain ⟨w', hD, hrem, hs', _, hfree⟩ :=
    Delete_good n fuel w b ib hfuel hs h6l hb hc hgood (Nat.le_of_eq hrc.symm) hup hcmax
  obtain ⟨n', rfl⟩ := good_pos hgood
  have hself := self_mem_tree w n' ib.m_itemID
  have hlocT := loc_not_in_tree hgood (cached_listed hs hb hc)
  have hkid : ∀ k ∈ w.tree (n' + 1) ib.m_itemID, ∀ r ∈ w.rows, r.2.locationID = k →
      r.1 ∈ w.tree (n' + 1) ib.m_itemID := by
    intro k hk r hr hloc
    exact tree_stable (n' + 1) (n' + 2) _ _ hgood
      (tree_kid w (n' + 1) _ k r.1 hk (mem_listed.2 ⟨r.2, hr, hloc⟩))
  refine ⟨w', hD, hself, fun k hk => ⟨?_, ?_, ?_, fun r hr hloc => ?_, hkid k hk⟩,
    fun pc c hpc hcg => ?_, fun q x hx hq hne => ?_, fun r hr => ?_, fun r hr => ?_, hs',
    hfree hrc⟩
  · rw [hrem.cache, if_pos hk]
  · rw [hrem.rows, mapFind_filter_not_mem, if_pos hk]
  · rw [hrem.attrRows, mapFind_filter_not_mem, if_pos hk]
  · rw [hrem.rows] at hr
    obtain ⟨hr1, hr2⟩ := List.mem_filter.1 hr
    exact (of_decide_eq_true hr2) (hkid k hk r hr1 hloc)
  · rw [hrem.frame pc c hcg (fun k hk hkc => ?_), hpc, if_pos rfl]
    have := cache_key_unique hs.live hkc (World.loaded_some hpc).1
    rw [this] at hk
    exact hlocT (n' + 1) hk
  · rw [hrem.frame q x hx hq, if_neg hne, contents_back]
  · rw [hrem.rows] at hr
    exact (List.mem_filter.1 hr).1
  · rw [hrem.attrRows] at hr
    exact (List.mem_filter.1 hr).1

/-- Witness of C13: in `exStored` the container 60 is resident, held by the cache and by the
caller, with its contents not loaded; the database lists the container 61 as its child and
the stack 100 as the child of the container 61, and neither is resident. `Delete` of the
container 60 returns, having loaded and deleted the two, and the three items are in neither
the cache nor the database; the instance of the container is freed. -/
theorem C13_delete_removes_subtree_witness :
    ∃ w', InventoryItem.Delete 12 3 exStored = some w' ∧
      (ItemDB.GetItemContents 60 exStored).1 = some [61] ∧
      mapFind 61 exStored.m_items = none ∧
      (mapFind 60 w'.m_items = none ∧ mapFind 60 w'.rows = none ∧
        mapFind 60 w'.attrRows = none) ∧
      (mapFind 61 w'.m_items = none ∧ mapFind 61 w'.rows = none ∧
        mapFind 61 w'.attrRows = none) ∧
      (mapFind 100 w'.m_items = none ∧ mapFind 100 w'.rows = none ∧
        mapFind 100 w'.attrRows = none) ∧
      w'.get 3 = none := by
  obtain ⟨w', hD, _, h, _, _, _, _, _, hfree⟩ := C13_delete_removes_subtree exStored 3 12 3
    { exContainer 2 60 [] with m_contentsLoaded := false }
    ⟨cacheLive_of_check (by decide), mirrors_of_check (by decide),
      rowsAgree_of_check (by decide), by unfold mapSorted; decide⟩
    (by decide) (by decide) (by decide) (by decide) (by decide)
    (fun pc c hpc _ => by
      have h0 : exStored.loaded
          ({ exContainer 2 60 [] with m_contentsLoaded := false } : InventoryItem).m_locationID
          = none := by decide
      rw [h0] at hpc
      cases hpc)
    (by decide)
  obtain ⟨a1, a2, a3, _⟩ := h 60 (by decide)
  obtain ⟨b1, b2, b3, _⟩ := h 61 (by decide)
  obtain ⟨c1, c2, c3, _⟩ := h 100 (by decide)
  exact ⟨w', hD, by decide, by decide, ⟨a1, a2, a3⟩, ⟨b1, b2, b3⟩, ⟨c1, c2, c3⟩, hfree⟩

/-- Counterexample to C13 as stated: in `exOrphan` the stack 101 is resident, held by the
cache and by the caller, and the database lists the item 200 as its child; the type of the
item 200 is not in the catalog, so it cannot be loaded. `LoadContents` skips it, `Delete`
goes on, returns, and the stack 101 is gone from the cache and from the database, its
memory freed; the row of the listed child 200, located in the deleted item 101, is still in
the database. -/
theorem C13_counterexample :
    ∃ w', InventoryItem.Delete 4 2 exOrphan = some w' ∧
      exOrphan.get 2 = some (exStack 2 101 3) ∧ mapFind 101 exOrphan.m_items = some 2 ∧
      (ItemDB.GetItemContents 101 exOrphan).1 = some [200] ∧
      mapFind 101 w'.m_items = none ∧ mapFind 101 w'.rows = none ∧ w'.get 2 = none ∧
      mapFind 200 w'.rows = mapFind 200 exOrphan.rows ∧
      (mapFind 200 w'.rows).map (fun d => d.locationID) = some 101 := by
  have hlist : ∀ e ∈ exOrphan.rows, e.2.locationID = 101 → e.1 = 200 := by decide
  have h200 : mapFind 200 exOrphan.rows
      = some { (exStack 2 200 1).toData with typeID := 99, locationID := 101 } := by decide
  obtain ⟨w', hD, hm, hoth, hrow, hfree⟩ := @Delete_skips exOrphan 2 (exStack 2 101 3) 0
    (by decide) (by decide) (cacheLive_of_check (by decide)) (mirrors_of_check (by decide))
    (by decide)
    (fun pc c hpc _ => by
      have h0 : exOrphan.loaded (exStack 2 101 3).m_locationID = none := by decide
      rw [h0] at hpc
      cases hpc)
    (by decide) (by decide) (by decide)
    (Or.inr (fun e he hloc => by
      have hk := hlist e he hloc
      rw [hk]
      refine ⟨by decide, by decide, fun d hd => ?_⟩
      rw [h200] at hd
      simp only [Option.some.injEq] at hd
      subst hd
      decide))
  have h200' := hoth 200 (by decide)
  refine ⟨w', hD, by decide, by decide, by decide, ?_, hrow, hfree (by decide), h200', ?_⟩
  · rw [hm]
    decide
  · rw [h200', h200]
    rfl


/-- The `int32` arithmetic of adding to a quantity within the range. -/
theorem add_in_range {A q : Nat} (h : A + q < 2 ^ 31) :
    0 ≤ (A : Int) + (q : Int) ∧ (A : Int) + (q : Int) < 2 ^ 31 ∧
      ((A : Int) + (q : Int)).toNat = A + q := by
  omega

/-- The `int32` arithmetic of taking from a quantity within the range. -/
theorem sub_in_range {B q : Nat} (hle : q ≤ B) (h : B - q < 2 ^ 31) :
    0 ≤ (B : Int) + -(q : Int) ∧ (B : Int) + -(q : Int) < 2 ^ 31 ∧
      ((B : Int) + -(q : Int)).toNat = B - q := by
  omega

theorem toUint32_natCast {q : Nat} (h : q < 2 ^ 31) : toUint32 (q : Int) = q := by
  unfold toUint32
  omega

/-- C3 (as amended): `Merge` success postcondition within the `int32` range. For two distinct
live non-singleton items `a` and `b` of the same type, location and flag, `b` a cached item
referenced by the caller, by the cache and by its container when that is resident, and an
effective amount `q` (`qty`, or the whole quantity of `b` when `qty = 0`) with
`0 < q ≤ b.quantity`, `a.quantity + q < 2^31` and `b.quantity - q < 2^31`: `Merge(b, qty)`
returns true and leaves `a.quantity = old a.quantity + q`; if `q` is not the whole quantity
of `b` then `b` survives with quantity `old b.quantity - q`; if `q` is the whole quantity of
`b` then `b` is deleted, whatever `b` holds: `b` and every item that the database lists
inside `b`, directly or not, are gone from the cache and from the database, the map of the
container of `b` has lost the entry of `b` and the container is otherwise as it was, and
the instance of `b` is freed when nothing else holds it. For the deletion the world is taken
to be well formed: `a` is cached too, the invariants `Sound` hold, the disposal location 6
is not resident with its contents loaded, the subtree of `b` in the database can be loaded
and deleted (`good`, at most `n` levels, with fuel for every level), and the 16-bit
reference counts do not wrap around: the one of the resident container of `b` is below
65535 (`Move` takes a reference to it to detach `b`), and so is the one of `b` after it is
detached (every child of `b` takes a reference to `b` when it is detached in turn). -/
theorem C3_merge_success (w : World) (n fuel a b : Nat) (ia ib : InventoryItem) (qty : Int)
    (q : Nat) (notify : Bool)
    (hab : a ≠ b) (ha : w.get a = some ia) (hb : w.get b = some ib)
    (hsa : ia.m_singleton = false) (hsb : ib.m_singleton = false)
    (hty : ia.m_type = ib.m_type) (hloc : ia.m_locationID = ib.m_locationID)
    (hflag : ia.m_flag = ib.m_flag)
    (hq : (q : Int) = if qty = 0 then (ib.m_quantity : Int) else qty)
    (hpos : 0 < q) (hle : q ≤ ib.m_quantity)
    (hra : ia.m_quantity + q < 2 ^ 31) (hrb : ib.m_quantity - q < 2 ^ 31)
    (hcache : mapFind ib.m_itemID w.m_items = some b)
    (hrc : 2 + (if (w.loaded ib.m_locationID).isSome then 1 else 0) ≤ ib.m_refCount)
    (hdel : q = ib.m_quantity →
      mapFind ia.m_itemID w.m_items = some a ∧ Sound w ∧ w.loaded 6 = none ∧
      w.good n ib.m_itemID = true ∧ 4 * n ≤ fuel ∧
      ib.m_refCount - (if (w.loaded ib.m_locationID).isSome then 1 else 0) + 1 < 2 ^ 16 ∧
      ∀ pc c, w.loaded ib.m_locationID = some pc → w.get pc = some c →
        c.m_refCount + 1 < 2 ^ 16) :
    ∃ w', InventoryItem.Merge fuel a b qty notify w = some (true, w') ∧
      (w'.get a).map (fun i => i.m_quantity) = some (ia.m_quantity + q) ∧
      (q = ib.m_quantity →
        mapFind ib.m_itemID w'.m_items = none ∧ mapFind ib.m_itemID w'.rows = none ∧
        (ib.m_refCount = 2 + (if (w.loaded ib.m_locationID).isSome then 1 else 0) →
          w'.get b = none) ∧
        (∀ k ∈ w.tree n ib.m_itemID,
          mapFind k w'.m_items = none ∧ mapFind k w'.rows = none ∧
          mapFind k w'.attrRows = none) ∧
        (∀ pc c, w.loaded ib.m_locationID = some pc → w.get pc = some c → pc ≠ a →
          w'.get pc = some { c with m_contents := mapErase ib.m_itemID c.m_contents })) ∧
      (q ≠ ib.m_quantity →
        (w'.get b).map (fun i => i.m_quantity) = some (ib.m_quantity - q) ∧
        mapFind ib.m_itemID w'.m_items = some b) := by
  have hqe : (if qty = 0 then toInt32 (ib.m_quantity : Int) else qty) = (q : Int) := by
    by_cases h0 : qty = 0
    · rw [if_pos h0] at hq
      rw [if_pos h0, toInt32_of_range (by omega) (by omega)]
      exact hq.symm
    · rw [if_neg h0] at hq
      rw [if_neg h0]
      exact hq.symm
  obtain ⟨oa1, oa2, hqa⟩ := add_in_range hra
  obtain ⟨ob1, ob2, hqb⟩ := sub_in_range hle hrb
  obtain ⟨w1, hA1, hw1⟩ := AlterQuantity_fwd ha hsa (q : Int) notify oa1 oa2
  have hproj := AlterQuantity_proj
    (fun X : World =>
      (X.rows, X.bpRows, X.attrRows, X.types, X.attrLoadFails, X.contentsQueryFails))
    (fun _ => rfl) (fun _ _ => rfl) ha hA1
  have hQ : toUint32 (toInt32 ((ia.m_quantity : Int) + (q : Int))) = ia.m_quantity + q := by
    rw [toInt32_of_range (by omega) (by omega), ← Nat.cast_add]
    exact toUint32_natCast hra
  rw [hQ] at hproj
  rw [hqa] at hw1
  have hb1 : w1.get b = some ib := by
    rw [hw1.1 b, if_neg (Ne.symm hab)]; exact hb
  have ha1 : w1.get a = some { ia with m_quantity := ia.m_quantity + q } := hw1.live
  have hu : toUint32 (q : Int) = q := toUint32_natCast (by omega)
  unfold InventoryItem.Merge
  simp only [ha, hb]
  rw [if_neg (World.get_ne_zero hb)]
  have c1 : ¬ (ia.m_type ≠ ib.m_type) := by simp [hty]
  have c2 : ¬ (ia.m_locationID ≠ ib.m_locationID ∨ ia.m_flag ≠ ib.m_flag) := by
    simp [hloc, hflag]
  have c3 : ¬ ((q : Int) ≤ 0) := by omega
  rw [if_neg c1, if_neg c2, hqe, if_neg c3, hA1]
  simp only [Option.some_bind, hb1, hu]
  have c4 : ∀ x : World, ¬ ((true, x).1 = false) := fun _ h => Bool.noConfusion h
  rw [if_neg (c4 w1)]
  by_cases hfull : q = ib.m_quantity
  · rw [if_pos hfull]
    obtain ⟨hca, hs, h6l, hgood, hfuel, hup, hcmax⟩ := hdel hfull
    obtain ⟨hs1, hl1, _, hgt1⟩ := quantity_step hs ha hca hw1.1 hw1.2.1 hproj
    have hidT := sibling_not_in_tree hs ha hca hb hcache hloc hab hgood
    have hlocT : ∀ N, ia.m_locationID ∉ w.tree N ib.m_itemID := by
      rw [hloc]
      exact loc_not_in_tree hgood (cached_listed hs hb hcache)
    obtain ⟨hg1, ht1⟩ := hgt1 ib.m_itemID hidT hlocT n
    obtain ⟨w', hD, hrem, _, _, hfree⟩ := Delete_good n fuel w1 b ib hfuel hs1
      (by rw [hl1]; exact h6l) hb1 (by rw [hw1.2.1]; exact hcache)
      (by rw [hg1]; exact hgood) (by rw [hl1]; exact hrc) (by rw [hl1]; exact hup)
      (fun pc c hpc hc' => by
        rw [hl1] at hpc
        rw [hw1.1 pc] at hc'
        by_cases e : pc = a
        · rw [if_pos e] at hc'
          simp only [Option.some.injEq] at hc'
          rw [← hc']
          exact hcmax pc ia hpc (by rw [e]; exact ha)
        · rw [if_neg e] at hc'
          exact hcmax pc c hpc hc')
    rw [ht1] at hrem
    obtain ⟨n', rfl⟩ := good_pos hgood
    have hself := self_mem_tree w n' ib.m_itemID
    have hlocB : ∀ N, ib.m_locationID ∉ w.tree N ib.m_itemID :=
      loc_not_in_tree hgood (cached_listed hs hb hcache)
    refine ⟨w', by rw [hD]; rfl, ?_,
      fun _ => ⟨?_, ?_, ?_, fun k hk => ⟨?_, ?_, ?_⟩, fun pc c hpc hcg hpa => ?_⟩,
      fun h => absurd hfull h⟩
    · rw [hrem.frame a _ ha1 (fun k hk hka => ?_)]
      · rfl
      · rw [hw1.2.1] at hka
        have := cache_key_unique hs.live hka hca
        rw [this] at hk
        exact hidT (n' + 1) hk
    · rw [hrem.cache, if_pos hself]
    · rw [hrem.rows, mapFind_filter_not_mem, if_pos hself]
    · intro hr
      exact hfree (by rw [hl1]; exact hr)
    · rw [hrem.cache, if_pos hk]
    · rw [hrem.rows, mapFind_filter_not_mem, if_pos hk]
    · rw [hrem.attrRows, mapFind_filter_not_mem, if_pos hk]
    · have hc1 : w1.get pc = some c := by
        rw [hw1.1 pc, if_neg hpa]; exact hcg
      rw [hrem.frame pc c hc1 (fun k hk hkc => ?_), hl1, hpc, if_pos rfl]
      rw [hw1.2.1] at hkc
      have := cache_key_unique hs.live hkc (World.loaded_some hpc).1
      rw [this] at hk
      exact hlocB (n' + 1) hk
  · rw [if_neg hfull]
    obtain ⟨w2, hA2, hw2⟩ := AlterQuantity_fwd hb1 hsb (-(q : Int)) notify ob1 ob2
    rw [hqb] at hw2
    rw [hA2]
    simp only [Option.some_bind]
    have hr2 : 2 ≤ ({ ib with m_quantity := ib.m_quantity - q } : InventoryItem).m_refCount := by
      show 2 ≤ ib.m_refCount
      exact le_trans (Nat.le_add_right 2 _) hrc
    rw [if_neg (c4 w2), Release_fwd hw2.live hr2]
    refine ⟨_, rfl, ?_, fun h => absurd h hfull, fun _ => ⟨?_, ?_⟩⟩
    · rw [World.get_set_live hw2.live, if_neg hab, hw2.1 a, if_neg hab, ha1]
      rfl
    · rw [World.get_set_live hw2.live, if_pos rfl]
      rfl
    · show mapFind ib.m_itemID w2.m_items = some b
      rw [hw2.2.1, hw1.2.1]; exact hcache

/-- Witness of C3: the two examples of the spec, a stack of 5 and a stack of 3 merged with
`qty = 3` (the other stack is deleted) and with `qty = 2` (the other stack keeps 1); and in
`exParcel`, where the database lists a stack 200 inside the stack of 3, which is not
resident, the merge with `qty = 3` gives 8 again and the other stack is deleted, and so is
the row of the stack 200. -/
theorem C3_merge_success_witness :
    (∃ w', InventoryItem.Merge 4 1 2 3 false (exWorld 5 3) = some (true, w') ∧
      (w'.get 1).map (fun i => i.m_quantity) = some 8 ∧
      mapFind 101 w'.m_items = none ∧ mapFind 101 w'.rows = none ∧ w'.get 2 = none) ∧
    (∃ w', InventoryItem.Merge 4 1 2 2 false (exWorld 5 3) = some (true, w') ∧
      (w'.get 1).map (fun i => i.m_quantity) = some 7 ∧
      (w'.get 2).map (fun i => i.m_quantity) = some 1) ∧
    (∃ w', InventoryItem.Merge 8 1 2 3 false exParcel = some (true, w') ∧
      (ItemDB.GetItemContents 101 exParcel).1 = some [200] ∧
      (w'.get 1).map (fun i => i.m_quantity) = some 8 ∧
      mapFind 101 w'.m_items = none ∧ mapFind 101 w'.rows = none ∧ w'.get 2 = none ∧
      mapFind 200 w'.rows = none) := by
  refine ⟨?_, ?_, ?_⟩
  · obtain ⟨w', h1, h2, h3, _⟩ := C3_merge_success (exWorld 5 3) 1 4 1 2 (exStack 2 100 5)
      (exStack 2 101 3) 3 3 false (by decide) (by decide) (by decide) (by decide) (by decide)
      (by decide) (by decide) (by decide) (by decide) (by decide) (by decide) (by decide)
      (by decide) (by decide) (by decide)
      (fun _ => ⟨by decide, ⟨cacheLive_of_check (by decide), mirrors_of_check (by decide),
          rowsAgree_of_check (by decide), by unfold mapSorted; decide⟩, by decide, by decide,
        by decide, by decide, fun pc c hpc _ => by
          have h0 : (exWorld 5 3).loaded (exStack 2 101 3).m_locationID = none := by decide
          rw [h0] at hpc
          cases hpc⟩)
    obtain ⟨h4, h5, h6, _⟩ := h3 rfl
    exact ⟨w', h1, h2, h4, h5, h6 (by decide)⟩
  · obtain ⟨w', h1, h2, _, h3⟩ := C3_merge_success (exWorld 5 3) 1 4 1 2 (exStack 2 100 5)
      (exStack 2 101 3) 2 2 false (by decide) (by decide) (by decide) (by decide) (by decide)
      (by decide) (by decide) (by decide) (by decide) (by decide) (by decide) (by decide)
      (by decide) (by decide) (by decide) (fun h => absurd h (by decide))
    exact ⟨w', h1, h2, (h3 (by decide)).1⟩
  · obtain ⟨w', h1, h2, h3, _⟩ := C3_merge_success exParcel 2 8 1 2 (exStack 2 100 5)
      (exStack 2 101 3) 3 3 false (by decide) (by decide) (by decide) (by decide) (by decide)
      (by decide) (by decide) (by decide) (by decide) (by decide) (by decide) (by decide)
      (by decide) (by decide) (by decide)
      (fun _ => ⟨by decide, ⟨cacheLive_of_check (by decide), mirrors_of_check (by decide),
          rowsAgree_of_check (by decide), by unfold mapSorted; decide⟩, by decide, by decide,
        by decide, by decide, fun pc c hpc _ => by
          have h0 : exParcel.loaded (exStack 2 101 3).m_locationID = none := by decide
          rw [h0] at hpc
          cases hpc⟩)
    obtain ⟨h4, h5, h6, h7, _⟩ := h3 rfl
    exact ⟨w', h1, by decide, h2, h4, h5, h6 (by decide), (h7 200 (by decide)).2.1⟩

/-- Counterexample to C3 as stated: two stacks of the same type, location and flag with
quantities `2^31 - 1` and `1`; `Merge(b, 1)` has `0 < 1 ≤ b.quantity`, yet the sum does not
fit an `int32`, the call returns false and nothing is changed. -/
theorem C3_counterexample :
    (1 : Nat) ≠ 2 ∧
    (exWorld 2147483647 1).get 1 = some (exStack 2 100 2147483647) ∧
    (exWorld 2147483647 1).get 2 = some (exStack 2 101 1) ∧
    (exStack 2 100 2147483647).m_singleton = false ∧ (exStack 2 101 1).m_singleton = false ∧
    (exStack 2 100 2147483647).m_type = (exStack 2 101 1).m_type ∧
    (exStack 2 100 2147483647).m_locationID = (exStack 2 101 1).m_locationID ∧
    (exStack 2 100 2147483647).m_flag = (exStack 2 101 1).m_flag ∧
    0 < (1 : Int) ∧ (1 : Int) ≤ ((exStack 2 101 1).m_quantity : Int) ∧
    InventoryItem.Merge 2 1 2 1 false (exWorld 2147483647 1)
      = some (false, exWorld 2147483647 1) := by
  refine ⟨by decide, by decide, by decide, rfl, rfl, rfl, rfl, rfl, by decide, by decide, ?_⟩
  decide


/-! ## `Merge` of two children of a resident container, whatever the second one holds -/

/-- A child of an item, other than the child `k`, is not in the subtree of `k` when the
subtree does not hold the item. -/
theorem sibling_outside {w : World} (hs : mapSorted w.rows) {P k k0 : Nat}
    (hk0 : k0 ∈ w.listed P) (hne : k0 ≠ k) (hP : ∀ N, P ∉ w.tree N k) :
    ∀ N, k0 ∉ w.tree N k := by
  intro N hin
  cases N with
  | zero => simp [World.tree] at hin
  | succ N =>
    rcases tree_up w N _ _ hin with h | ⟨P', hP', hPin⟩
    · exact hne h
    · have := listed_unique hs hP' hk0
      rw [this] at hPin
      exact hP N hPin

/-- After the deletion of a subtree whose root lay in the resident container at `e`, or in
no resident container, the world is the old one pruned of the subtree. -/
theorem World.removed.pruned {w' w : World} {T : List Nat} {ib : InventoryItem} {e : Nat}
    (h : w'.removed w T ib) (he : ∀ q, w.loaded ib.m_locationID = some q → q = e) :
    w'.pruned w T e :=
  { frame := fun q x hq hqe hT => by
      rw [h.frame q x hq hT, if_neg (fun hl => hqe (he q hl)), contents_back]
    cache := h.cache
    rows := h.rows
    attrRows := h.attrRows
    bpRows := h.bpRows
    types := h.types
    attrFails := h.attrFails
    queryFails := h.queryFails }

/-- A child of a resident container with its contents loaded, in a well-formed world: it is
the resident instance of its key, it is located in the container, the database lists it as
a child of the container, and it is not the container when the container does not hold
itself. -/
theorem kid_facts {w : World} {this k q : Nat} {c x : InventoryItem} (hs : Sound w)
    (hc : w.get this = some c) (hcc : mapFind c.m_itemID w.m_items = some this)
    (hld : c.m_contentsLoaded = true) (hself : mapFind c.m_itemID c.m_contents = none)
    (hk : mapFind k c.m_contents = some q) (hx : w.get q = some x) :
    mapFind k w.m_items = some q ∧ x.m_itemID = k ∧ x.m_locationID = c.m_itemID ∧
      q ≠ this ∧ k ≠ c.m_itemID ∧ k ∈ w.listed c.m_itemID := by
  obtain ⟨h1, h2, h3, _, h5, h6⟩ := child_facts hs.live hs.mirrors hc hcc hld hself hk hx
  refine ⟨h1, h2, h3, h5, h6, ?_⟩
  have := cached_listed hs hx (by rw [h2]; exact h1)
  rw [h2, h3] at this
  exact this

/-- The method `Merge` of the whole of a child `b` of a resident container into another child
`a`, in a well-formed world, when the subtree of `b` in the database can be loaded and
deleted and the caller has a reference to `b`. The call returns; it changes nothing when the
types or the slots differ or the `int32` quantities do not allow it, and otherwise `a` has
the sum, `b` is deleted with its subtree and taken out of the map of the container, the
world is well formed again, and the other children of the container are as they were. -/
theorem Merge_kid {w : World} {this a b ka kb n : Nat} {c ia ib : InventoryItem} (fuel : Nat)
    (hs : Sound w) (h6l : w.loaded 6 = none)
    (hc : w.get this = some c) (hcc : mapFind c.m_itemID w.m_items = some this)
    (hld : c.m_contentsLoaded = true) (hself : mapFind c.m_itemID c.m_contents = none)
    (hka : mapFind ka c.m_contents = some a) (ha : w.get a = some ia)
    (hsa : ia.m_singleton = false)
    (hkb : mapFind kb c.m_contents = some b) (hb : w.get b = some ib)
    (hkab : ka ≠ kb) (hrc : 3 ≤ ib.m_refCount) (hup : ib.m_refCount < 2 ^ 16)
    (hcmax : c.m_refCount + 1 < 2 ^ 16) (hq : ib.m_quantity < 2 ^ 32)
    (hgood : w.good n kb = true) (hfuel : 4 * n ≤ fuel) :
    ∃ ok w', InventoryItem.Merge fuel a b 0 defaultNotify w = some (ok, w') ∧
      (¬ (ia.m_type = ib.m_type ∧ ia.m_flag = ib.m_flag ∧ 0 < toInt32 ib.m_quantity ∧
          0 ≤ toInt32 ((ia.m_quantity : Int) + toInt32 ib.m_quantity)) → w' = w) ∧
      ((ia.m_type = ib.m_type ∧ ia.m_flag = ib.m_flag ∧ 0 < toInt32 ib.m_quantity ∧
          0 ≤ toInt32 ((ia.m_quantity : Int) + toInt32 ib.m_quantity)) →
        w'.get a = some
          { ia with
            m_quantity := toUint32 (toInt32 ((ia.m_quantity : Int) + toInt32 ib.m_quantity)) } ∧
        w'.get this = some { c with m_contents := mapErase kb c.m_contents } ∧
        Sound w' ∧ w'.loaded 6 = none ∧ mapFind c.m_itemID w'.m_items = some this ∧
        ∀ k0 q x, mapFind k0 c.m_contents = some q → k0 ≠ ka → k0 ≠ kb → w.get q = some x →
          w'.get q = some x ∧ mapFind k0 w'.m_items = some q ∧
          ∀ j, w.good j k0 = true → w'.good j k0 = true) := by
  obtain ⟨hca, hida, hloca, hat, hkac, hla⟩ := kid_facts hs hc hcc hld hself hka ha
  obtain ⟨hcb, hidb, hlocb, hbt, hkbc, hlb⟩ := kid_facts hs hc hcc hld hself hkb hb
  have hab : a ≠ b := by
    intro e
    subst e
    exact hkab (cache_key_unique hs.live hca hcb)
  have hlc : w.loaded c.m_itemID = some this := World.loaded_of hcc hc hld
  unfold InventoryItem.Merge
  simp only [ha, hb, if_true]
  rw [if_neg (World.get_ne_zero hb)]
  by_cases hty : ia.m_type = ib.m_type
  swap
  · rw [if_pos hty]
    exact ⟨false, w, rfl, fun _ => rfl, fun h => absurd h.1 hty⟩
  rw [if_neg (not_not.mpr hty)]
  by_cases hfl : ia.m_flag = ib.m_flag
  swap
  · rw [if_pos (Or.inr hfl)]
    exact ⟨false, w, rfl, fun _ => rfl, fun h => absurd h.2.1 hfl⟩
  have c2 : ¬ (ia.m_locationID ≠ ib.m_locationID ∨ ia.m_flag ≠ ib.m_flag) := by
    rw [hloca, hlocb]
    simp [hfl]
  rw [if_neg c2]
  by_cases hpos : 0 < toInt32 (ib.m_quantity : Int)
  swap
  · rw [if_pos (not_lt.mp hpos)]
    exact ⟨false, w, rfl, fun _ => rfl, fun h => absurd h.2.2.1 hpos⟩
  rw [if_neg (not_le.mpr hpos)]
  by_cases hnn : 0 ≤ toInt32 ((ia.m_quantity : Int) + toInt32 (ib.m_quantity : Int))
  swap
  · have hA : InventoryItem.AlterQuantity a (toInt32 (ib.m_quantity : Int)) defaultNotify w
        = some (false, w) := by
      unfold InventoryItem.AlterQuantity
      simp only [ha]
      rw [if_neg (ne_of_gt hpos), if_pos (not_le.mp hnn)]
    rw [hA]
    exact ⟨false, w, rfl, fun _ => rfl, fun h => absurd h.2.2.2 hnn⟩
  obtain ⟨w1, hA, hw1⟩ := AlterQuantity_grow ha hsa (toInt32 (ib.m_quantity : Int))
    defaultNotify (ne_of_gt hpos) (not_lt.mpr hnn)
  have hproj := AlterQuantity_proj
    (fun X : World =>
      (X.rows, X.bpRows, X.attrRows, X.types, X.attrLoadFails, X.contentsQueryFails))
    (fun _ => rfl) (fun _ _ => rfl) ha hA
  rw [hA]
  have c4 : ∀ x : World, ¬ ((true, x).1 = false) := fun _ h => Bool.noConfusion h
  simp only [Option.some_bind]
  rw [if_neg (c4 w1)]
  have hb1 : w1.get b = some ib := by
    rw [hw1.1 b, if_neg (Ne.symm hab)]; exact hb
  have hc1 : w1.get this = some c := by
    rw [hw1.1 this, if_neg (Ne.symm hat)]; exact hc
  obtain ⟨e1, _⟩ := toInt32_pos_small hq hpos
  have hu : toUint32 (toInt32 (ib.m_quantity : Int)) = ib.m_quantity := by
    rw [e1]; exact toUint32_small hq
  rw [hb1, Option.some_bind, if_pos hu]
  obtain ⟨hs1, hl1, _, hgt1⟩ := quantity_step hs ha (by rw [hida]; exact hca) hw1.1 hw1.2.1
    hproj
  have hPb : ∀ N, c.m_itemID ∉ w.tree N kb := kid_not_holds_parent hgood hlb
  have hidT : ∀ N, ia.m_itemID ∉ w.tree N kb := by
    rw [hida]
    exact sibling_outside hs.keyed hla hkab hPb
  have hlocT : ∀ N, ia.m_locationID ∉ w.tree N kb := by
    rw [hloca]
    exact hPb
  obtain ⟨hg1, ht1⟩ := hgt1 kb hidT hlocT n
  have hlb1 : w1.loaded ib.m_locationID = some this := by rw [hl1, hlocb]; exact hlc
  obtain ⟨w', hD, hrem, hs', h6l', _⟩ := Delete_good n fuel w1 b ib hfuel hs1
    (by rw [hl1]; exact h6l) hb1 (by rw [hw1.2.1, hidb]; exact hcb)
    (by rw [hidb, hg1]; exact hgood)
    (by rw [hlb1]; exact hrc)
    (by
      rw [hlb1]
      show ib.m_refCount - 1 + 1 < 2 ^ 16
      omega)
    (fun pc c' hpc hc' => by
      rw [hlb1] at hpc
      simp only [Option.some.injEq] at hpc
      subst hpc
      rw [hc1] at hc'
      simp only [Option.some.injEq] at hc'
      subst hc'
      exact hcmax)
  rw [hidb, ht1] at hrem
  have hpr : w'.pruned w1 (w.tree n kb) this :=
    hrem.pruned (fun q hq => by
      rw [hlb1] at hq
      exact (Option.some.inj hq).symm)
  rw [hD]
  refine ⟨true, w', rfl, fun h => absurd ⟨hty, hfl, hpos, hnn⟩ h, fun _ =>
    ⟨?_, ?_, hs', h6l', ?_, fun k0 q x hk0 hne_a hne_b hx => ?_⟩⟩
  · refine hpr.frame a _ hw1.live hat (fun k hk hkc => ?_)
    rw [hw1.2.1] at hkc
    have := cache_key_unique hs.live hkc hca
    rw [this, ← hida] at hk
    exact hidT n hk
  · rw [hrem.frame this c hc1 (fun k hk hkc => ?_), hlb1, if_pos rfl, hidb]
    rw [hw1.2.1] at hkc
    have := cache_key_unique hs.live hkc hcc
    rw [this] at hk
    exact hPb n hk
  · rw [hrem.cache, if_neg (hPb n), hw1.2.1]
    exact hcc
  · obtain ⟨hc0, hid0, hloc0, hq0t, hk0c, hl0⟩ := kid_facts hs hc hcc hld hself hk0 hx
    have hk0T : ∀ N, k0 ∉ w.tree N kb := sibling_outside hs.keyed hl0 hne_b hPb
    have hqa : q ≠ a := by
      intro e
      rw [e] at hc0
      exact hne_a (cache_key_unique hs.live hc0 hca)
    have hx1 : w1.get q = some x := by
      rw [hw1.1 q, if_neg hqa]; exact hx
    refine ⟨hpr.frame q x hx1 hq0t (fun k hk hkq => ?_), ?_, fun j hj => ?_⟩
    · rw [hw1.2.1] at hkq
      have := cache_key_unique hs.live hkq hc0
      rw [this] at hk
      exact hk0T n hk
    · rw [hrem.cache, if_neg (hk0T n), hw1.2.1]
      exact hc0
    · have hP0 : ∀ N, c.m_itemID ∉ w.tree N k0 := kid_not_holds_parent hj hl0
      have ha0 : ∀ N, ia.m_itemID ∉ w.tree N k0 := by
        rw [hida]
        exact sibling_outside hs.keyed hla (Ne.symm hne_a) hP0
      have hloc0' : ∀ N, ia.m_locationID ∉ w.tree N k0 := by
        rw [hloca]
        exact hP0
      have hgt0 := hgt1 k0 ha0 hloc0'
      rw [hpr.pgood hs1.live
        (fun N y hy => by
          rw [(hgt0 N).2] at hy
          exact kids_disjoint hs.keyed hP0 hPb hl0 hlb hne_b N n y hy)
        (fun N y p hy hp e => by
          rw [(hgt0 N).2] at hy
          rw [e, hw1.2.1] at hp
          have := cache_key_unique hs.live hp hcc
          rw [this] at hy
          exact hP0 N hy)
        j ⟨1, self_mem_tree w1 0 k0⟩, (hgt0 j).1]
      exact hj


/-! ## One `Merge` of the loop of `StackContainedItems` -/

/-- The quantity of a child is part of the stock of its type. -/
theorem single_le_typeQuantity {w : World} {m : AMap Nat} {k i : Nat} {it : InventoryItem}
    (hk : mapFind k m = some i) (hi : w.get i = some it) :
    it.m_quantity ≤ typeQuantity w it.m_type m := by
  unfold typeQuantity
  have h1 := le_sum_of_mem_map (fun e => w.quantityOf it.m_type e.2) (mem_of_mapFind hk)
  have h2 : w.quantityOf it.m_type i = it.m_quantity := by
    rw [World.quantityOf_live _ hi, if_pos rfl]
  simp only [h2] at h1
  exact h1

/-- One `Merge` of the loop of `StackContainedItems`, in a well-formed world: the child `i`
under the key `k`, whose subtree in the database can be loaded and deleted, is referenced
and merged into the child `a` found before. Both calls return, the world is well formed
again, the map of the container is the same or has lost the key `k`, the other children are
as they were, and when the two quantities together fit the `uint32` member the stock of
every type is what it was. -/
theorem Stack_merge_good {w : World} {this a i ka k n : Nat} {c xa it : InventoryItem}
    (fuel : Nat) (hs : Sound w) (h6l : w.loaded 6 = none)
    (hc : w.get this = some c) (hcc : mapFind c.m_itemID w.m_items = some this)
    (hld : c.m_contentsLoaded = true) (hself : mapFind c.m_itemID c.m_contents = none)
    (hsort : mapSorted c.m_contents)
    (hk : mapFind k c.m_contents = some i) (hi : w.get i = some it)
    (hka : mapFind ka c.m_contents = some a) (hxa : w.get a = some xa)
    (hsa : xa.m_singleton = false) (hne : ka ≠ k)
    (hb : xa.m_type = it.m_type → xa.m_quantity + it.m_quantity < 2 ^ 32)
    (hq32 : it.m_quantity < 2 ^ 32)
    (hcmax : c.m_refCount + 1 < 2 ^ 16) (hrc2 : 2 ≤ it.m_refCount)
    (himax : it.m_refCount + 1 < 2 ^ 16)
    (hgood : w.good n k = true) (hfuel : 4 * n ≤ fuel) :
    ∃ r m c2 xa2, InventoryItem.Ref i w = some r ∧
      InventoryItem.Merge fuel a r.1 0 defaultNotify r.2 = some m ∧
      Sound m.2 ∧ m.2.loaded 6 = none ∧ m.2.get this = some c2 ∧
      mapFind c.m_itemID m.2.m_items = some this ∧
      c2 = { c with m_contents := c2.m_contents } ∧
      (c2.m_contents = c.m_contents ∨ c2.m_contents = mapErase k c.m_contents) ∧
      (∀ k0 q x, mapFind k0 c.m_contents = some q → k0 ≠ ka → k0 ≠ k → w.get q = some x →
        m.2.get q = some x ∧ ∀ j, w.good j k0 = true → m.2.good j k0 = true) ∧
      m.2.get a = some xa2 ∧ xa2.m_singleton = xa.m_singleton ∧
      xa2.m_ownerID = xa.m_ownerID ∧ mapSorted c2.m_contents ∧
      ∀ t, typeQuantity m.2 t c2.m_contents = typeQuantity w t c.m_contents := by
  obtain ⟨hci, hidi, hloci, hit, hkc, hli⟩ := kid_facts hs hc hcc hld hself hk hi
  obtain ⟨hca, hida, hloca, hat, hkac, hla⟩ := kid_facts hs hc hcc hld hself hka hxa
  have hai : a ≠ i := by
    intro e
    subst e
    exact hne (cache_key_unique hs.live hca hci)
  obtain ⟨v1, hRef, hci1, hi1, hs1, hgood1, hgr1⟩ := GI_finish hs hci hi himax hgood
  have hget1 : ∀ q x, w.get q = some x → q ≠ i → v1.get q = some x :=
    fun q x hq hqi => hgr1.frame q x hq hqi (fun _ h => by cases h)
  have hcache1 : ∀ k', mapFind k' v1.m_items = mapFind k' w.m_items :=
    fun k' => hgr1.cache_out k' (fun h => by cases h)
  have hc1 : v1.get this = some c := hget1 this c hc (Ne.symm hit)
  have hxa1 : v1.get a = some xa := hget1 a xa hxa hai
  have h66 : k ≠ 6 := by
    obtain ⟨n', hn'⟩ := good_pos hgood
    rw [hn'] at hgood
    exact nodeOK_ne6 (good_succ.1 hgood).1
  have h6l1 : v1.loaded 6 = none := by
    rw [hgr1.gloaded hs.live (fun h => by cases h) (fun p hp h => by
      rw [h] at hp
      exact h66 (cache_key_unique hs.live hci hp))]
    exact h6l
  have hv1 : v1 = w.set i { it with m_refCount := it.m_refCount + 1 } := by
    have hR' := Ref_fwd hi (by omega) himax
    rw [hRef] at hR'
    simp only [Option.some.injEq, Prod.mk.injEq, true_and] at hR'
    exact hR'
  have hq1 : ∀ t q, v1.quantityOf t q = w.quantityOf t q := by
    intro t q
    apply World.quantityOf_congr
    rw [hv1, World.get_set_live hi]
    by_cases e : q = i
    · rw [if_pos e, e, hi]
      rfl
    · rw [if_neg e]
  have hgoodk : ∀ k0 q x, mapFind k0 c.m_contents = some q → k0 ≠ k → w.get q = some x →
      ∀ j, w.good j k0 = true → v1.good j k0 = true := by
    intro k0 q x hk0 hnek hx j hj
    obtain ⟨_, _, _, _, _, hl0⟩ := kid_facts hs hc hcc hld hself hk0 hx
    have hP0 : ∀ N, c.m_itemID ∉ w.tree N k0 := kid_not_holds_parent hj hl0
    have hkT : ∀ N, k ∉ w.tree N k0 := sibling_outside hs.keyed hli (Ne.symm hnek) hP0
    rw [hgr1.ggood hs.live (fun _ _ _ h => by cases h)
      (fun N y p hy hp e => by
        rw [e] at hp
        have := cache_key_unique hs.live hp hci
        rw [this] at hy
        exact hkT N hy)
      j ⟨1, self_mem_tree w 0 k0⟩]
    exact hj
  obtain ⟨ok, w2, hM, hno, hyes⟩ := Merge_kid fuel hs1 h6l1 hc1
    (by rw [hcache1]; exact hcc) hld hself hka hxa1 hsa hk hi1 hne
    (show 3 ≤ it.m_refCount + 1 by omega) (show it.m_refCount + 1 < 2 ^ 16 from himax) hcmax
    (show it.m_quantity < 2 ^ 32 from hq32) hgood1 hfuel
  by_cases hMc : xa.m_type = it.m_type ∧ xa.m_flag = it.m_flag ∧
      0 < toInt32 (it.m_quantity : Int) ∧
      0 ≤ toInt32 ((xa.m_quantity : Int) + toInt32 (it.m_quantity : Int))
  · obtain ⟨p1, p2, p3, p4, p5, p6⟩ := hyes hMc
    have hsib : ∀ k0 q x, mapFind k0 c.m_contents = some q → k0 ≠ ka → k0 ≠ k →
        w.get q = some x →
        w2.get q = some x ∧ ∀ j, w.good j k0 = true → w2.good j k0 = true := by
      intro k0 q x hk0 hnea hnek hx
      obtain ⟨hc0, _, _, _, _, _⟩ := kid_facts hs hc hcc hld hself hk0 hx
      have hqi : q ≠ i := by
        intro e
        rw [e] at hc0
        exact hnek (cache_key_unique hs.live hc0 hci)
      obtain ⟨g1, _, g3⟩ := p6 k0 q x hk0 hnea hnek (hget1 q x hx hqi)
      exact ⟨g1, fun j hj => g3 j (hgoodk k0 q x hk0 hnek hx j hj)⟩
    refine ⟨_, (ok, w2), { c with m_contents := mapErase k c.m_contents }, _, hRef, hM, p3,
      p4, p2, ?_, rfl, Or.inr rfl, hsib, p1, rfl, rfl, mapErase_sorted k hsort, fun t => ?_⟩
    · rw [← p5]
    · obtain ⟨hty, _, hpos, hnn⟩ := hMc
      rw [merge_sum_exact hq32 hpos (hb hty) hnn] at p1
      show typeQuantity w2 t (mapErase k c.m_contents) = typeQuantity w t c.m_contents
      unfold typeQuantity
      have hka' : mapFind ka (mapErase k c.m_contents) = some a := by
        rw [mapFind_mapErase, if_neg hne]; exact hka
      rw [sum_mapErase hsort (fun e => w.quantityOf t e.2) hk,
        sum_update (mapErase_sorted k hsort) (fun e => w.quantityOf t e.2)
          (fun e => w2.quantityOf t e.2) (d := w.quantityOf t i) hka' ?_ ?_]
      · exact Nat.add_comm _ _
      · intro e he hek
        have hem := mem_mapErase he
        have hekk := mem_mapErase_key he
        have hf := mapFind_of_mem_sorted hsort hem
        obtain ⟨_, x, hx, _⟩ := (hs.mirrors c.m_itemID this c hcc hc hld e.1 e.2).1 hf
        show w2.quantityOf t e.2 = w.quantityOf t e.2
        apply World.quantityOf_congr
        rw [(hsib e.1 e.2 x hf hek hekk hx).1, hx]
      · show w2.quantityOf t a = w.quantityOf t a + w.quantityOf t i
        rw [World.quantityOf_live t p1, World.quantityOf_live t hxa,
          World.quantityOf_live t hi]
        show (if xa.m_type = t then xa.m_quantity + it.m_quantity else 0) = _
        rw [← hty]
        by_cases e : xa.m_type = t
        · rw [if_pos e, if_pos e, if_pos e]
        · rw [if_neg e, if_neg e, if_neg e]
  · have hw2 := hno hMc
    subst hw2
    refine ⟨_, (ok, _), c, xa, hRef, hM, hs1, h6l1, hc1, by rw [hcache1]; exact hcc, rfl,
      Or.inl rfl, ?_, hxa1, rfl, rfl, hsort,
      fun t => typeQuantity_congr t (fun e _ => hq1 t e.2)⟩
    intro k0 q x hk0 _ hnek hx
    obtain ⟨hc0, _, _, _, _, _⟩ := kid_facts hs hc hcc hld hself hk0 hx
    have hqi : q ≠ i := by
      intro e
      rw [e] at hc0
      exact hnek (cache_key_unique hs.live hc0 hci)
    exact ⟨hget1 q x hx hqi, hgoodk k0 q x hk0 hnek hx⟩


/-! ## The stock of a container over the loop of `StackContainedItems` -/

/-- The loop of `StackContainedItems` over the children of a resident container with its
contents loaded and its map in key order, in a well-formed world, every child at or after
the cursor that is not a singleton having a subtree in the database that can be loaded and
deleted, when the stock of every type fits the `uint32` member: with enough fuel the loop
returns, and the stock of every type is what it was. -/
theorem Stack_loop_good (this forOwner n : Nat) :
    ∀ (fuel : Nat) (cur : Option Nat) (types : AMap Nat) (w : World) (c : InventoryItem),
      Sound w → w.loaded 6 = none → w.get this = some c →
      mapFind c.m_itemID w.m_items = some this → c.m_contentsLoaded = true →
      mapFind c.m_itemID c.m_contents = none →
      (∀ k, cur = some k → (mapFind k c.m_contents).isSome = true ∧
        (c.m_contents.filter fun e => decide (k ≤ e.1)).length + 2 + 4 * n ≤ fuel) →
      1 ≤ fuel →
      (∀ t a, mapFind t types = some a → ∃ ka xa, mapFind ka c.m_contents = some a ∧
        (∀ k, cur = some k → ka < k) ∧ w.get a = some xa ∧ xa.m_singleton = false ∧
        (forOwner = xa.m_ownerID ∨ forOwner = 0)) →
      mapSorted c.m_contents → (∀ t, typeQuantity w t c.m_contents < 2 ^ 32) →
      c.m_refCount + 1 < 2 ^ 16 →
      (∀ k, cur = some k → ∀ k0 q x, k ≤ k0 → mapFind k0 c.m_contents = some q →
        w.get q = some x → x.m_singleton = false →
        2 ≤ x.m_refCount ∧ x.m_refCount + 1 < 2 ^ 16 ∧ w.good n k0 = true) →
      ∃ w' c', InventoryItem.StackContainedItems_loop fuel this forOwner cur types w
          = some w' ∧
        w'.get this = some c' ∧
        ∀ t, typeQuantity w' t c'.m_contents = typeQuantity w t c.m_contents := by
  intro fuel
  induction fuel with
  | zero =>
    intro cur types w c _ _ _ _ _ _ _ hf _ _ _ _ _
    exact absurd hf (by decide)
  | succ fuel ih =>
    intro cur types w c hs h6l hc hcc hld hself hcur _ htypes hsort hbound hcmax hkids
    cases cur with
    | none =>
      exact ⟨w, c, Stack_loop_end fuel this forOwner types w, hc, fun _ => rfl⟩
    | some k =>
      obtain ⟨hsome, hlen⟩ := hcur k rfl
      obtain ⟨i, hk⟩ := Option.isSome_iff_exists.1 hsome
      obtain ⟨_, it, hi, _⟩ := (hs.mirrors c.m_itemID this c hcc hc hld k i).1 hk
      have hlen1 := filter_key_lt (Nat.lt_succ_self k) hsome
      have hf1 : 1 ≤ fuel := by omega
      have hnext : ∀ m' : AMap Nat, (m' = c.m_contents ∨ m' = mapErase k c.m_contents) →
          ∀ k', mapNext k c.m_contents = some k' → (mapFind k' m').isSome = true ∧
            (m'.filter fun e => decide (k' ≤ e.1)).length + 2 + 4 * n ≤ fuel := by
        intro m' hm' k' hk'
        obtain ⟨hlt, hs⟩ := mapNext_some hk'
        have h1 := filter_key_lt hlt hsome
        rcases hm' with rfl | rfl
        · exact ⟨hs, by omega⟩
        · refine ⟨by rw [mapFind_mapErase, if_neg (ne_of_gt hlt)]; exact hs, ?_⟩
          have := filter_erase_le (fun e => decide (k' ≤ e.1)) k c.m_contents
          omega
      have hltnext : ∀ k', mapNext k c.m_contents = some k' → k < k' :=
        fun k' hk' => (mapNext_some hk').1
      have hkidsN : ∀ k', mapNext k c.m_contents = some k' → ∀ k0 q x, k' ≤ k0 →
          mapFind k0 c.m_contents = some q → w.get q = some x → x.m_singleton = false →
          2 ≤ x.m_refCount ∧ x.m_refCount + 1 < 2 ^ 16 ∧ w.good n k0 = true :=
        fun k' hk' k0 q x hle h0 hx hs =>
          hkids k rfl k0 q x (le_trans (le_of_lt (hltnext k' hk')) hle) h0 hx hs
      by_cases hcond : it.m_singleton = false ∧ (forOwner = it.m_ownerID ∨ forOwner = 0)
      · cases ht : mapFind it.m_type types with
        | none =>
          rw [Stack_loop_first hc hk hi hcond ht]
          refine ih _ _ w c hs h6l hc hcc hld hself (hnext _ (Or.inl rfl)) hf1 ?_
            hsort hbound hcmax hkidsN
          intro t a hta
          rw [mapFind_mapInsert] at hta
          by_cases e : t = it.m_type
          · rw [if_pos e] at hta
            simp only [Option.some.injEq] at hta
            subst hta
            exact ⟨k, it, hk, hltnext, hi, hcond.1, hcond.2⟩
          · rw [if_neg e] at hta
            obtain ⟨ka, xa, h1, h2, h3⟩ := htypes t a hta
            exact ⟨ka, xa, h1, fun k' hk' => lt_trans (h2 k rfl) (hltnext k' hk'), h3⟩
        | some a =>
          obtain ⟨ka, xa, hka, hlt, hxa, hsa, hoa⟩ := htypes _ a ht
          have hkak : ka < k := hlt k rfl
          obtain ⟨hrc2, himax, hgood⟩ := hkids k rfl k i it (le_refl _) hk hi hcond.1
          obtain ⟨r, m, c2, xa2, hR, hM, hs2, h6l2, hc2, hcc2, hceq, hcont, hsib, hxa2, hs2',
            ho2, hsrt2, hq2⟩ := Stack_merge_good fuel hs h6l hc hcc hld hself hsort hk hi
              hka hxa hsa (ne_of_lt hkak)
              (fun hty => lt_of_le_of_lt
                (pair_le_typeQuantity hsort hk hka (ne_of_lt hkak) hi hxa hty)
                (hbound it.m_type))
              (lt_of_le_of_lt (single_le_typeQuantity hk hi) (hbound it.m_type))
              hcmax hrc2 himax hgood (by omega)
          rw [Stack_loop_merge hc hk hi hcond ht hR hM]
          have hid2 : c2.m_itemID = c.m_itemID := by rw [hceq]
          have hld2 : c2.m_contentsLoaded = true := by rw [hceq]; exact hld
          have hsub : ∀ k0 q, mapFind k0 c2.m_contents = some q →
              mapFind k0 c.m_contents = some q := by
            intro k0 q h
            rcases hcont with e | e
            · rw [e] at h; exact h
            · rw [e, mapFind_mapErase] at h
              by_cases e2 : k0 = k
              · rw [if_pos e2] at h
                exact absurd h (by simp)
              · rw [if_neg e2] at h
                exact h
          have hkeep : ∀ k0 q, k0 ≠ k → mapFind k0 c.m_contents = some q →
              mapFind k0 c2.m_contents = some q := by
            intro k0 q hne h
            rcases hcont with e | e
            · rw [e]; exact h
            · rw [e, mapFind_mapErase, if_neg hne]; exact h
          have hself2 : mapFind c2.m_itemID c2.m_contents = none := by
            rw [hid2]
            cases hf : mapFind c.m_itemID c2.m_contents with
            | none => rfl
            | some q =>
              rw [hsub _ q hf] at hself
              exact absurd hself (by simp)
          obtain ⟨w', c', hL, hc', hsum⟩ := ih (mapNext k c.m_contents) types
            m.2 c2 hs2 h6l2 hc2 (by rw [hid2]; exact hcc2) hld2 hself2
            (hnext c2.m_contents hcont) hf1
            (by
              intro t a0 hta
              obtain ⟨ka0, xa0, h1, h2, h3, h4, h5⟩ := htypes t a0 hta
              have hk0 : ka0 ≠ k := ne_of_lt (h2 k rfl)
              refine ⟨ka0, ?_⟩
              by_cases e : ka0 = ka
              · subst e
                rw [hka] at h1
                simp only [Option.some.injEq] at h1
                subst h1
                rw [hxa] at h3
                simp only [Option.some.injEq] at h3
                subst h3
                exact ⟨xa2, hkeep _ _ hk0 hka,
                  fun k' hk' => lt_trans hkak (hltnext k' hk'), hxa2, hs2'.trans h4,
                  by rw [ho2]; exact h5⟩
              · exact ⟨xa0, hkeep _ _ hk0 h1,
                  fun k' hk' => lt_trans (h2 k rfl) (hltnext k' hk'),
                  (hsib ka0 a0 xa0 h1 e hk0 h3).1, h4, h5⟩)
            hsrt2 (fun t => by rw [hq2 t]; exact hbound t) (by rw [hceq]; exact hcmax)
            (by
              intro k' hk' k0 q x hle h0 hx hsx
              have hk0 : k < k0 := lt_of_lt_of_le (hltnext k' hk') hle
              have h0' := hsub k0 q h0
              obtain ⟨_, x0, hx0, _⟩ :=
                (hs.mirrors c.m_itemID this c hcc hc hld k0 q).1 h0'
              obtain ⟨g1, g2⟩ := hsib k0 q x0 h0' (by omega) (ne_of_gt hk0) hx0
              rw [g1] at hx
              simp only [Option.some.injEq] at hx
              subst hx
              obtain ⟨b1, b2, b3⟩ := hkids k rfl k0 q x0 (le_of_lt hk0) h0' hx0 hsx
              exact ⟨b1, b2, g2 n b3⟩)
          exact ⟨w', c', hL, hc', fun t => (hsum t).trans (hq2 t)⟩
      · rw [Stack_loop_skip hc hk hi hcond]
        refine ih _ types w c hs h6l hc hcc hld hself (hnext _ (Or.inl rfl)) hf1 ?_
          hsort hbound hcmax hkidsN
        intro t a hta
        obtain ⟨ka, xa, h1, h2, h3⟩ := htypes t a hta
        exact ⟨ka, xa, h1, fun k' hk' => lt_trans (h2 k rfl) (hltnext k' hk'), h3⟩


/-- A check of the children of a container that evaluates: every child that is live and not
a singleton is held twice at least, has room for one more reference, and has a subtree that
can be deleted. -/
theorem kids_of_check {w : World} {n : Nat} {m : AMap Nat}
    (h : (m.all fun e =>
      match w.get e.2 with
      | some x =>
        x.m_singleton ||
          (decide (2 ≤ x.m_refCount ∧ x.m_refCount + 1 < 2 ^ 16) && w.good n e.1)
      | none => true) = true) :
    ∀ e ∈ m, ∀ x, w.get e.2 = some x → x.m_singleton = false →
      2 ≤ x.m_refCount ∧ x.m_refCount + 1 < 2 ^ 16 ∧ w.good n e.1 = true := by
  intro e he x hx hsx
  have := List.all_eq_true.1 h e he
  simp only [hx, hsx, Bool.false_or, Bool.and_eq_true, decide_eq_true_eq] at this
  exact ⟨this.1.1, this.1.2, this.2⟩

/-- C30 (amended): `StackContainedItems` conserves quantity when the stock fits the `uint32`
member. For a resident container with its contents loaded and its map in key order, in a
well-formed world (`Sound`: the cache, the containment maps and the rows agree; the disposal
location 6 is not resident with its contents loaded; the container does not hold itself;
every child that is not a singleton is held by the cache and by the container, and its
subtree in the database, at most `n` levels deep, can be loaded and deleted, as `Merge`
deletes the stack that it empties with all that it holds), where the 16-bit reference counts
do not wrap around (the one of the container is below 65535, `Move` taking a reference to it
to detach a merged child, and so is the one of every child that is not a singleton, the loop
taking a reference to the child that it merges), such that for each type the sum of the
quantities of the children of that type is below `2 ^ 32`: for every flag and every owner
filter, with fuel for every child and every level, `StackContainedItems` returns, and for
each type the sum of the quantities of the children of that type that the container holds
afterwards equals the sum before the call. -/
theorem C30_stack_conserves_quantity (w : World) (n fuel this locFlag forOwner : Nat)
    (c : InventoryItem) (hs : Sound w) (h6l : w.loaded 6 = none)
    (hc : w.get this = some c) (hcc : mapFind c.m_itemID w.m_items = some this)
    (hld : c.m_contentsLoaded = true) (hself : mapFind c.m_itemID c.m_contents = none)
    (hch : ∀ e ∈ c.m_contents, ∀ x, w.get e.2 = some x → x.m_singleton = false →
      2 ≤ x.m_refCount ∧ x.m_refCount + 1 < 2 ^ 16 ∧ w.good n e.1 = true)
    (hfuel : c.m_contents.length + 2 + 4 * n ≤ fuel)
    (hsort : mapSorted c.m_contents) (hbound : ∀ t, typeQuantity w t c.m_contents < 2 ^ 32)
    (hcmax : c.m_refCount + 1 < 2 ^ 16) :
    ∃ w' c', InventoryItem.StackContainedItems fuel this locFlag forOwner w = some w' ∧
      w'.get this = some c' ∧
      ∀ t, typeQuantity w' t c'.m_contents = typeQuantity w t c.m_contents := by
  obtain ⟨w', c', hL, hc', hsum⟩ := Stack_loop_good this forOwner n fuel
    (mapFirst c.m_contents) [] w c hs h6l hc hcc hld hself
    (fun k hk => ⟨mapFirst_some hk, by
      have := List.length_filter_le (fun e : Nat × Nat => decide (k ≤ e.1)) c.m_contents
      omega⟩)
    (by omega)
    (fun t a h => by simp [mapFind] at h) hsort hbound hcmax
    (fun k _ k0 q x _ h0 hx hsx => hch (k0, q) (mem_of_mapFind h0) x hx hsx)
  refine ⟨w', c', ?_, hc', hsum⟩
  unfold InventoryItem.StackContainedItems
  rw [hc]
  exact hL

/-- Witness of C30: the container of `exMixed` holds the stack 100 (quantity 5), the
singleton 101 (quantity 1) and the stack 102 (quantity 2) of one type in one slot; after
`StackContainedItems(4, 0)` the children of that type still hold 8 together. The container
of `exCrate` holds the stacks 100, 101 and 102 (quantities 5, 3 and 2) of one type in one
slot, and the database lists a stack 200 inside the stack 101, which is not resident; after
`StackContainedItems(4, 0)` the children of that type still hold 10 together. -/
theorem C30_stack_conserves_quantity_witness :
    (∃ w' c', InventoryItem.StackContainedItems 9 3 4 0 exMixed = some w' ∧
      w'.get 3 = some c' ∧ typeQuantity exMixed 34 [(100, 1), (101, 2), (102, 4)] = 8 ∧
      typeQuantity w' 34 c'.m_contents = 8) ∧
    (∃ w' c', InventoryItem.StackContainedItems 13 3 4 0 exCrate = some w' ∧
      w'.get 3 = some c' ∧ (ItemDB.GetItemContents 101 exCrate).1 = some [200] ∧
      typeQuantity exCrate 34 [(100, 1), (101, 2), (102, 4)] = 10 ∧
      typeQuantity w' 34 c'.m_contents = 10) := by
  constructor
  · obtain ⟨w', c', h1, h2, h3⟩ := C30_stack_conserves_quantity exMixed 1 9 3 4 0
      (exContainer 1 60 [(100, 1), (101, 2), (102, 4)])
      ⟨cacheLive_of_check (by decide), mirrors_of_check (by decide),
        rowsAgree_of_check (by decide), by unfold mapSorted; decide⟩
      (by decide) (by decide) (by decide) (by decide) (by decide)
      (kids_of_check (by decide)) (by decide) (by decide)
      (fun t => lt_of_le_of_lt (typeQuantity_le_total _ t _) (by decide)) (by decide)
    have h4 : typeQuantity exMixed 34 [(100, 1), (101, 2), (102, 4)] = 8 := by decide
    exact ⟨w', c', h1, h2, h4, (h3 34).trans h4⟩
  · obtain ⟨w', c', h1, h2, h3⟩ := C30_stack_conserves_quantity exCrate 2 13 3 4 0
      (exContainer 1 60 [(100, 1), (101, 2), (102, 4)])
      ⟨cacheLive_of_check (by decide), mirrors_of_check (by decide),
        rowsAgree_of_check (by decide), by unfold mapSorted; decide⟩
      (by decide) (by decide) (by decide) (by decide) (by decide)
      (kids_of_check (by decide)) (by decide) (by decide)
      (fun t => lt_of_le_of_lt (typeQuantity_le_total _ t _) (by decide)) (by decide)
    have h4 : typeQuantity exCrate 34 [(100, 1), (101, 2), (102, 4)] = 10 := by decide
    exact ⟨w', c', h1, h2, by decide, h4, (h3 34).trans h4⟩

/-- C30 (counterexample): in `exFull` the container 60 holds the stack 100 with quantity
`2 ^ 32 - 1` and the stack 101 with quantity 1, of one type, owner and slot, so that the
children of type 34 hold `2 ^ 32` together. `StackContainedItems(4, 0)` returns with the stack
101 merged into the stack 100, whose `uint32` quantity has wrapped around to 0: the container
holds the stack 100 only and its children of type 34 hold 0 together. -/
theorem C30_counterexample :
    ∃ w' c', InventoryItem.StackContainedItems 4 3 4 0 exFull = some w' ∧
      (exFull.get 3).map (fun x => x.m_contents) = some [(100, 1), (101, 2)] ∧
      typeQuantity exFull 34 [(100, 1), (101, 2)] = 4294967296 ∧
      w'.get 3 = some c' ∧ c'.m_contents = [(100, 1)] ∧
      typeQuantity w' 34 c'.m_contents = 0 := by
  have hc : exFull.get 3 = some (exContainer 1 60 [(100, 1), (101, 2)]) := by decide
  have e0 : InventoryItem.StackContainedItems 4 3 4 0 exFull
      = InventoryItem.StackContainedItems_loop 4 3 0 (some 100) [] exFull := by
    have hf : mapFirst (exContainer 1 60 [(100, 1), (101, 2)]).m_contents = some 100 := rfl
    unfold InventoryItem.StackContainedItems
    rw [hc, Option.some_bind, hf]
  have hn1 : mapNext 100 (exContainer 1 60 [(100, 1), (101, 2)]).m_contents = some 101 := by
    decide
  have hn2 : mapNext 101 (exContainer 1 60 [(100, 1), (101, 2)]).m_contents = none := by
    decide
  have ht1 : mapInsert (exStack 2 100 4294967295).m_type 1 ([] : AMap Nat) = [(34, 1)] := rfl
  have e1 := @Stack_loop_first 3 3 0 100 1 [] exFull _ (exStack 2 100 4294967295) hc
    (by decide) (by decide) (by decide) (by decide)
  rw [hn1, ht1] at e1
  have hR : InventoryItem.Ref 2 exFull = some (2, exFull.set 2 (exStack 3 101 1)) := by decide
  obtain ⟨ok, w2, hM, _, hyes⟩ := @Merge_child (exFull.set 2 (exStack 3 101 1)) 3 1 2
    100 101 (exContainer 1 60 [(100, 1), (101, 2)]) (exStack 2 100 4294967295)
    (exStack 3 101 1) 0 (cacheLive_of_check (by decide)) (mirrors_of_check (by decide))
    (by decide) (by decide) (by decide) (by decide) (by decide) (by decide) (by decide)
    (by decide) (by decide) (by decide) (by decide) (by decide) (by decide) (by decide)
    (by decide) (by decide) (Or.inr (by decide))
  have e2 := @Stack_loop_merge 2 3 0 101 2 1 [(34, 1)] exFull _ (exStack 2 101 1)
    (2, exFull.set 2 (exStack 3 101 1)) (ok, w2) hc (by decide) (by decide) (by decide)
    (by decide) hR hM
  rw [hn2] at e2
  obtain ⟨p1, p2, _⟩ := hyes (by decide)
  refine ⟨w2, _, ?_, by decide, by decide, p2, rfl, ?_⟩
  · rw [e0, e1, e2]
    exact Stack_loop_end 1 3 0 [(34, 1)] w2
  · show typeQuantity w2 34 [(100, 1)] = 0
    unfold typeQuantity
    simp only [List.map_cons, List.map_nil, List.sum_cons, List.sum_nil]
    rw [World.quantityOf_live 34 p1]
    decide

end EVEmu
